import Mathlib

/-!
# mdf: streaming Markdown-to-ANSI renderer

A shallow embedding of the rendering core of `sa6mwa/mdf`: the UTF-8
sanitising read loop of `Parse`, the front-matter filter, the live parser and
the wrapping stream sink.  Bytes and runes are natural numbers, byte slices
and strings are `List Nat`.
-/

set_option maxRecDepth 100000
set_option maxHeartbeats 4000000

namespace Mdf

/-! ## `unicode/utf8` -/

/-- The rune `utf8.RuneError` (U+FFFD). -/
def RuneError : Nat := 0xFFFD

/-- The constant `utf8.UTFMax`. -/
def UTFMax : Nat := 4

/-- The table `first` of `unicode/utf8`: information about the first byte of
a UTF-8 sequence (`as = 0xF0`, `xx = 0xF1`, `s1 .. s7`). -/
def first (b : Nat) : Nat :=
  if b < 0x80 then 0xF0
  else if b < 0xC2 then 0xF1
  else if b < 0xE0 then 0x02
  else if b = 0xE0 then 0x13
  else if b < 0xED then 0x03
  else if b = 0xED then 0x23
  else if b < 0xF0 then 0x03
  else if b = 0xF0 then 0x34
  else if b < 0xF4 then 0x04
  else if b = 0xF4 then 0x44
  else 0xF1

/-- Lower bound of `acceptRanges[i]`. -/
def acceptLo (i : Nat) : Nat :=
  match i with
  | 1 => 0xA0
  | 3 => 0x90
  | _ => 0x80

/-- Upper bound of `acceptRanges[i]`. -/
def acceptHi (i : Nat) : Nat :=
  match i with
  | 2 => 0x9F
  | 4 => 0x8F
  | _ => 0xBF

/-- The function `utf8.DecodeRune`: the first rune of `p` and its width in
bytes; `(RuneError, 0)` on empty input and `(RuneError, 1)` on an invalid or
incomplete encoding. -/
def DecodeRune (p : List Nat) : Nat × Nat :=
  match p with
  | [] => (RuneError, 0)
  | p0 :: t =>
    let x := first p0
    if x ≥ 0xF0 then (if x = 0xF0 then p0 else RuneError, 1)
    else
      let sz := x % 8
      let lo := acceptLo (x / 16)
      let hi := acceptHi (x / 16)
      if p.length < sz then (RuneError, 1)
      else
        match t with
        | [] => (RuneError, 1)
        | b1 :: t1 =>
          if b1 < lo || hi < b1 then (RuneError, 1)
          else if sz ≤ 2 then ((p0 % 32) * 64 + b1 % 64, 2)
          else
            match t1 with
            | [] => (RuneError, 1)
            | b2 :: t2 =>
              if b2 < 0x80 || 0xBF < b2 then (RuneError, 1)
              else if sz ≤ 3 then ((p0 % 16) * 4096 + (b1 % 64) * 64 + b2 % 64, 3)
              else
                match t2 with
                | [] => (RuneError, 1)
                | b3 :: _ =>
                  if b3 < 0x80 || 0xBF < b3 then (RuneError, 1)
                  else ((p0 % 8) * 262144 + (b1 % 64) * 4096 + (b2 % 64) * 64 + b3 % 64, 4)

/-- The function `utf8.FullRune`: whether `p` begins with a full encoding of a
rune; an invalid encoding counts as a full rune of width 1. -/
def FullRune (p : List Nat) : Bool :=
  match p with
  | [] => false
  | p0 :: t =>
    let x := first p0
    if p.length ≥ x % 8 then true
    else
      match t with
      | [] => false
      | b1 :: t1 =>
        if b1 < acceptLo (x / 16) || acceptHi (x / 16) < b1 then true
        else
          match t1 with
          | [] => false
          | b2 :: _ => b2 < 0x80 || 0xBF < b2

/-- The function `utf8.RuneStart`. -/
def RuneStart (b : Nat) : Bool := b / 64 % 4 != 2

/-- The function `utf8.DecodeLastRune`. -/
def DecodeLastRune (p : List Nat) : Nat × Nat :=
  let e := p.length
  if e = 0 then (RuneError, 0)
  else
    let r := p.getD (e - 1) 0
    if r < 0x80 then (r, 1)
    else
      let lim := e - UTFMax
      let start :=
        if e < 2 || e - 2 < lim then e - 2
        else if RuneStart (p.getD (e - 2) 0) then e - 2
        else if e < 3 || e - 3 < lim then e - 3
        else if RuneStart (p.getD (e - 3) 0) then e - 3
        else if e < 4 || e - 4 < lim then e - 4
        else if RuneStart (p.getD (e - 4) 0) then e - 4
        else e - 5
      let d := DecodeRune (p.drop start)
      if start + d.2 ≠ e then (RuneError, 1) else d

/-- The function `utf8.AppendRune` applied to an empty slice: the UTF-8
encoding of `r`; surrogates and values above U+10FFFF encode as U+FFFD. -/
def EncodeRune (r : Nat) : List Nat :=
  if r < 0x80 then [r]
  else if r < 0x800 then [0xC0 + r / 64, 0x80 + r % 64]
  else if r > 0x10FFFF || (0xD800 ≤ r && r ≤ 0xDFFF) then [0xEF, 0xBF, 0xBD]
  else if r < 0x10000 then [0xE0 + r / 4096, 0x80 + r / 64 % 64, 0x80 + r % 64]
  else [0xF0 + r / 262144, 0x80 + r / 4096 % 64, 0x80 + r / 64 % 64, 0x80 + r % 64]

/-- The function `unicode.IsSpace`. -/
def IsSpace (r : Nat) : Bool :=
  r == 9 || r == 10 || r == 11 || r == 12 || r == 13 || r == 32 || r == 0x85 || r == 0xA0 ||
  r == 0x1680 || (0x2000 ≤ r && r ≤ 0x200A) || r == 0x2028 || r == 0x2029 || r == 0x202F ||
  r == 0x205F || r == 0x3000

/-- Left half of `bytes.TrimFunc(s, unicode.IsSpace)`: drops leading white
space runes.  An invalid byte decodes to `RuneError`, which is not white space. -/
def trimLeftSpace : Nat → List Nat → List Nat
  | 0, s => s
  | fuel + 1, s =>
    match s with
    | [] => []
    | _ :: _ =>
      let d := DecodeRune s
      if IsSpace d.1 then trimLeftSpace fuel (s.drop d.2) else s

/-- Right half of `bytes.TrimFunc(s, unicode.IsSpace)`: drops trailing white
space runes, found with `DecodeLastRune`. -/
def trimRightSpace : Nat → List Nat → List Nat
  | 0, s => s
  | fuel + 1, s =>
    match s with
    | [] => []
    | _ :: _ =>
      let d := DecodeLastRune s
      if IsSpace d.1 then trimRightSpace fuel (s.take (s.length - d.2)) else s

/-- The functions `bytes.TrimSpace` and `strings.TrimSpace`: white space, as
defined by Unicode, removed from both ends. -/
def TrimSpace (s : List Nat) : List Nat :=
  let l := trimLeftSpace s.length s
  trimRightSpace l.length l

/-! ## `validate.go` -/

/-- Go: `isControlRune`. -/
def isControlRune (r : Nat) : Bool :=
  if r == 10 || r == 13 || r == 9 then false
  else if r < 0x20 || r == 0x7F then true
  else false

/-- Loop of `sanitizeBytes`; `src` is the slice `src[i:]` still to read and
`acc` is `dst[:di]`.  Each round consumes at least one byte, so the initial
fuel `len(src)` is never exhausted before the slice is. -/
def sanitizeLoop : Nat → List Nat → List Nat → List Nat × List Nat
  | 0, src, acc => (acc, src)
  | fuel + 1, src, acc =>
    if src.isEmpty then (acc, src)
    else if !FullRune src then (acc, src)
    else
      let d := DecodeRune src
      if d.1 == RuneError && d.2 == 1 then sanitizeLoop fuel (src.drop 1) acc
      else if d.2 == 0 || d.2 > src.length then (acc, src)
      else if isControlRune d.1 then sanitizeLoop fuel (src.drop d.2) acc
      else sanitizeLoop fuel (src.drop d.2) (acc ++ src.take d.2)

/-- Go: `sanitizeBytes(dst, src)`: the valid, non-control runes of `src`
copied to `dst`, and the unread rest of `src` (an incomplete trailing rune).
At both call sites `dst` is at least as long as `src`, so `copy` never
truncates. -/
def sanitizeBytes (src : List Nat) : List Nat × List Nat :=
  sanitizeLoop src.length src []

/-! ## `frontmatter_filter.go` -/

/-- Go: `maxFrontMatterProbeBytes`. -/
def maxFrontMatterProbeBytes : Nat := 64 * 1024

/-- Go: `frontMatterFilter` (the backing array `probeArr` is storage only). -/
structure frontMatterFilter where
  passthrough : Bool
  probe : List Nat
deriving DecidableEq, Repr

/-- Go: `frontMatterFilter.reset`. -/
def frontMatterFilter.reset (_f : frontMatterFilter) : frontMatterFilter :=
  { passthrough := false, probe := [] }

/-- The function `bytes.IndexByte`; `none` stands for `-1`. -/
def IndexByte : List Nat → Nat → Option Nat
  | [], _ => none
  | b :: t, c => if b = c then some 0 else (IndexByte t c).map (· + 1)

/-- Go: `trimCR`. -/
def trimCR (b : List Nat) : List Nat :=
  if b.length > 0 && b.getD (b.length - 1) 0 == 13 then b.take (b.length - 1) else b

/-- Go: `trimBOM`. -/
def trimBOM (b : List Nat) : List Nat :=
  if b.length ≥ 3 && b.getD 0 0 == 0xEF && b.getD 1 0 == 0xBB && b.getD 2 0 == 0xBF
  then b.drop 3 else b

/-- Go: `nextLine(src, start, eof)`; `none` stands for `ok == false`. -/
def nextLine (src : List Nat) (start : Nat) (eof : Bool) : Option (List Nat × Nat) :=
  if start > src.length then none
  else if start = src.length then
    if eof then some (src.drop start, start) else none
  else
    match IndexByte (src.drop start) 10 with
    | none => if !eof then none else some (trimCR (src.drop start), src.length)
    | some i => some (trimCR ((src.drop start).take i), start + i + 1)

/-- The three delimiters `---`, `+++` and `;;;`. -/
def delimDash : List Nat := [45, 45, 45]
def delimPlus : List Nat := [43, 43, 43]
def delimSemi : List Nat := [59, 59, 59]

/-- Go: `parseOpeningFrontMatterDelimiter`; `none` stands for `ok == false`. -/
def parseOpeningFrontMatterDelimiter (line : List Nat) : Option (List Nat) :=
  let trimmed := TrimSpace (trimBOM line)
  if trimmed = delimDash then some delimDash
  else if trimmed = delimPlus then some delimPlus
  else if trimmed = delimSemi then some delimSemi
  else none

/-- Go: `frontMatterMetadataLikely`. -/
def frontMatterMetadataLikely (line : List Nat) : Bool :=
  let trimmed := TrimSpace line
  if trimmed.length = 0 then false
  else if trimmed.head? = some 123 || trimmed.head? = some 91 then true
  else if trimmed.contains 58 || trimmed.contains 61 then true
  else false

/-- Loop of `findClosingFrontMatterDelimiter`, from index `idx`.  The index
grows in every round that continues, so `len(src) + 1` rounds suffice. -/
def findClosingLoop : Nat → List Nat → Nat → List Nat → Bool → Option Nat
  | 0, _, _, _, _ => none
  | fuel + 1, src, idx, delim, eof =>
    if idx > src.length then none
    else
      match nextLine src idx eof with
      | none => none
      | some (line, next) =>
        if TrimSpace line = delim then some next
        else if next = idx then none
        else if next = src.length && !eof then none
        else findClosingLoop fuel src next delim eof

/-- Go: `findClosingFrontMatterDelimiter`; `none` stands for `found == false`. -/
def findClosingFrontMatterDelimiter (src : List Nat) (start : Nat) (delim : List Nat)
    (eof : Bool) : Option Nat :=
  findClosingLoop (src.length + 1) src start delim eof

/-- Go: `frontMatterFilter.decide`: the new filter and `some out` when decided. -/
def frontMatterFilter.decide (f : frontMatterFilter) (eof : Bool) :
    frontMatterFilter × Option (List Nat) :=
  match nextLine f.probe 0 eof with
  | none => (f, none)
  | some (openLine, openNext) =>
    match parseOpeningFrontMatterDelimiter openLine with
    | none => ({ passthrough := true, probe := [] }, some f.probe)
    | some delim =>
      match nextLine f.probe openNext eof with
      | none => (f, none)
      | some (secondLine, secondNext) =>
        if !frontMatterMetadataLikely secondLine then
          ({ passthrough := true, probe := [] }, some f.probe)
        else
          match findClosingFrontMatterDelimiter f.probe secondNext delim eof with
          | none =>
            if eof then ({ passthrough := true, probe := [] }, some f.probe)
            else (f, none)
          | some closeNext =>
            ({ passthrough := true, probe := [] }, some (f.probe.drop closeNext))

/-- Go: `frontMatterFilter.process`; a `nil` result is the empty slice. -/
def frontMatterFilter.process (f : frontMatterFilter) (chunk : List Nat) :
    frontMatterFilter × List Nat :=
  if f.passthrough || chunk.length = 0 then (f, chunk)
  else
    let f1 : frontMatterFilter := { f with probe := f.probe ++ chunk }
    match f1.decide false with
    | (f2, some out) => (f2, out)
    | (f2, none) =>
      if f2.probe.length > maxFrontMatterProbeBytes then
        ({ passthrough := true, probe := [] }, f2.probe)
      else (f2, [])

/-- Go: `frontMatterFilter.finish`. -/
def frontMatterFilter.finish (f : frontMatterFilter) : List Nat :=
  if f.passthrough || f.probe.length = 0 then []
  else
    match f.decide true with
    | (_, some out) => out
    | (_, none) => []

/-- The filter driven over a whole stream: `process` on every chunk in turn,
then `finish`; the result is the concatenation of everything it returned. -/
def filterChunks : frontMatterFilter → List (List Nat) → List Nat
  | f, [] => f.finish
  | f, c :: cs => (f.process c).2 ++ filterChunks (f.process c).1 cs

/-- The filter after `reset`, as `Parse` starts it. -/
def freshFilter : frontMatterFilter := { passthrough := false, probe := [] }

/-! ## The read loop of `Parse` (`stream_live.go`) -/

/-- Go: the body of the read loop of `Parse` for one `Read` result
`chunk = buf[:n]`, with `tail = tailBuf[:tailLen]`: the `clean` slices it
hands on (first the one sanitised from the carried tail joined with the head
of the chunk, then the one sanitised from the rest of the chunk) and the new
tail.  `copy(tailBuf[:], rest)` keeps at most `UTFMax` bytes. -/
def readChunk (tail chunk : List Nat) : List (List Nat) × List Nat :=
  if chunk.length = 0 then ([], tail)
  else
    let need := min (UTFMax - tail.length) chunk.length
    let s1 : List (List Nat) × List Nat × List Nat :=
      if tail.length > 0 then
        let combined := tail ++ chunk.take need
        let r := sanitizeBytes combined
        ([r.1], r.2.take UTFMax, chunk.drop need)
      else ([], tail, chunk)
    if s1.2.2.length > 0 then
      let r := sanitizeBytes s1.2.2
      (s1.1 ++ [r.1], r.2.take UTFMax)
    else (s1.1, s1.2.1)

/-- The non-empty `clean` slices of a whole run of the read loop, in order:
the successive arguments of `frontMatter.process`. -/
def readClean : List Nat → List (List Nat) → List (List Nat)
  | _, [] => []
  | tail, c :: cs =>
    ((readChunk tail c).1.filter (fun x => x.length > 0)) ++ readClean (readChunk tail c).2 cs

/-- Go: the decoding loop of `feedBytes`: the runes it passes to `feedRune`
(every call succeeding).  Invalid bytes and control runes are skipped. -/
def feedBytesRunes : Nat → List Nat → List Nat
  | 0, _ => []
  | fuel + 1, data =>
    if data.length = 0 then []
    else
      let d := DecodeRune data
      if d.1 == RuneError && d.2 == 1 then feedBytesRunes fuel (data.drop 1)
      else if isControlRune d.1 then feedBytesRunes fuel (data.drop d.2)
      else d.1 :: feedBytesRunes fuel (data.drop d.2)

/-- The runes that `Parse` feeds to the parser for a reader that returns the
given chunks and then end of input, when the sink never fails: the read loop,
the front-matter filter and the decoding of `feedBytes`. -/
def parseRunes (chunks : List (List Nat)) : List Nat :=
  let fed := filterChunks freshFilter (readClean [] chunks)
  feedBytesRunes fed.length fed

/-! ## Library functions used by the sink -/

/-- What the model takes from the Unicode tables of the libraries instead of
writing them out: the width `go-runewidth` gives to a rune beyond ASCII (it
depends on its East Asian width tables and on the locale) and
`unicode.IsUpper` beyond ASCII. -/
structure Tables where
  width : Nat → Nat
  upper : Nat → Bool

/-- Tables that give every rune beyond ASCII width 1 and no upper case; the
runes of the worked examples are ASCII or of width 1. -/
def plainTables : Tables := { width := fun _ => 1, upper := fun _ => false }

/-- The function `runewidth.RuneWidth`: 0 for ASCII control characters, 1 for
printable ASCII, the table's value beyond ASCII. -/
def RuneWidth (T : Tables) (r : Nat) : Nat :=
  if r < 0x20 then 0
  else if r < 0x7F then 1
  else if r = 0x7F then 0
  else T.width r

/-- The function `unicode.IsUpper`. -/
def IsUpper (T : Tables) (r : Nat) : Bool :=
  if r < 0x80 then 65 ≤ r && r ≤ 90 else T.upper r

/-- The runes a Go `range` loop over a string yields (an invalid byte yields
`RuneError` and advances one byte); also `[]rune(s)`. -/
def runesOfLoop : Nat → List Nat → List Nat
  | 0, _ => []
  | fuel + 1, s =>
    match s with
    | [] => []
    | _ :: _ =>
      let d := DecodeRune s
      d.1 :: runesOfLoop fuel (s.drop d.2)

/-- The runes of a string, as `range` yields them. -/
def runesOf (s : List Nat) : List Nat := runesOfLoop s.length s

/-- The function `string(runes)`: each rune encoded as UTF-8. -/
def stringOfRunes (rs : List Nat) : List Nat := (rs.map EncodeRune).flatten

/-- The function `utf8.RuneCountInString`. -/
def RuneCountInString (s : List Nat) : Nat := (runesOf s).length

/-- The function `ansi.IsTerminator` of `muesli/reflow`. -/
def IsTerminator (c : Nat) : Bool := (0x40 ≤ c && c ≤ 0x5A) || (0x61 ≤ c && c ≤ 0x7A)

/-- Loop of `ansi.PrintableRuneWidth`: `ansi` tells whether an escape
sequence is open. -/
def printableWidthLoop (T : Tables) : List Nat → Bool → Nat → Nat
  | [], _, n => n
  | c :: rs, ansi, n =>
    if c = 0x1B then printableWidthLoop T rs true n
    else if ansi then printableWidthLoop T rs (!IsTerminator c) n
    else printableWidthLoop T rs false (n + RuneWidth T c)

/-- The function `ansi.PrintableRuneWidth` of `muesli/reflow`: the cell width
of a string, ANSI escape sequences not counted. -/
def PrintableRuneWidth (T : Tables) (s : List Nat) : Nat :=
  printableWidthLoop T (runesOf s) false 0

/-- The function `bytes.TrimLeft(s, cutset)` for an ASCII cutset. -/
def TrimLeft (s cutset : List Nat) : List Nat := s.dropWhile (fun b => cutset.contains b)

/-- The function `bytes.TrimRight(s, cutset)` for an ASCII cutset. -/
def TrimRight (s cutset : List Nat) : List Nat :=
  (s.reverse.dropWhile (fun b => cutset.contains b)).reverse

/-- The function `strings.HasPrefix`. -/
def HasPrefix (s p : List Nat) : Bool := p.isPrefixOf s

/-- The function `strings.HasSuffix`. -/
def HasSuffix (s p : List Nat) : Bool := p.isSuffixOf s

/-- The function `strings.Index`; `none` stands for `-1`. -/
def Index : Nat → List Nat → List Nat → Option Nat
  | 0, s, sub => if HasPrefix s sub then some 0 else none
  | fuel + 1, s, sub =>
    if HasPrefix s sub then some 0
    else
      match s with
      | [] => none
      | _ :: t => (Index fuel t sub).map (· + 1)

/-- The function `strings.Contains`. -/
def Contains (s sub : List Nat) : Bool := (Index s.length s sub).isSome

/-- The function `strings.ReplaceAll(s, nbsp, " ")`, `nbsp` the string of U+00A0. -/
def replaceNBSP : Nat → List Nat → List Nat
  | 0, s => s
  | fuel + 1, s =>
    match s with
    | [] => []
    | b :: t =>
      if HasPrefix s [0xC2, 0xA0] then 32 :: replaceNBSP fuel (s.drop 2)
      else b :: replaceNBSP fuel t

/-- The function `strings.ToLower` on ASCII letters; other bytes are kept (no
rune beyond ASCII has one of the letters of `&nbsp;`, `&#160;`, `&#xa0;` as its
lower case). -/
def ToLower (s : List Nat) : List Nat :=
  s.map (fun b => if 65 ≤ b && b ≤ 90 then b + 32 else b)

/-! ## `tokens.go`, `theme.go` -/

/-- Go: `Style`. -/
structure Style where
  Prefix : List Nat
deriving DecidableEq, Repr

/-- Go: `tokenKind`. -/
inductive tokenKind where
  | tokenText
  | tokenLinkStart
  | tokenLinkEnd
  | tokenURL
  | tokenCode
  | tokenThematicBreak
deriving DecidableEq, Repr

open tokenKind

/-- Go: `StreamToken`, with the embedded `Token` flattened.  `Delay` is in
nanoseconds. -/
structure StreamToken where
  Text : List Nat := []
  Style : Style := { Prefix := [] }
  Kind : tokenKind := tokenText
  LinkURL : List Nat := []
  CodeBlock : Bool := false
  Delay : Int := 0
deriving DecidableEq, Repr

/-- Go: `Styles`; `Heading` has six entries. -/
structure Styles where
  Text : Style
  Heading : List Style
  Emphasis : Style
  Strong : Style
  EmphasisStrong : Style
  CodeInline : Style
  CodeBlock : Style
  Quote : Style
  ListMarker : Style
  LinkText : Style
  LinkURL : Style
  ThematicBreak : Style
deriving DecidableEq, Repr

/-- The constant `ansiReset`, the sequence `ESC [ 0 m`. -/
def ansiReset : List Nat := [0x1B, 0x5B, 0x30, 0x6D]

/-- Go: `osc8Start`, `ESC ] 8 ; ;`. -/
def osc8Start : List Nat := [0x1B, 0x5D, 0x38, 0x3B, 0x3B]

/-- Go: `osc8End`, `ESC ] 8 ; ; ESC \`. -/
def osc8End : List Nat := [0x1B, 0x5D, 0x38, 0x3B, 0x3B, 0x1B, 0x5C]

/-- The table `asciiRuneStrings`: the one-byte string of an ASCII rune. -/
def asciiRuneStrings (r : Nat) : List Nat := [r]

/-- Go: `spaceString[:n]`, a run of `n` spaces. -/
def spaceRun (n : Nat) : List Nat := List.replicate n 32

/-! ## The writer -/

/-- An `io.Writer`: the bytes it has accepted, and whether its `Write` returns
an error (a failing writer accepts nothing). -/
structure Writer where
  out : List Nat
  failing : Bool
deriving DecidableEq, Repr

/-- The function `io.WriteString(w, s)`: the writer afterwards and whether an
error was returned. -/
def Writer.WriteString (w : Writer) (s : List Nat) : Writer × Bool :=
  if w.failing then (w, true) else ({ w with out := w.out ++ s }, false)


/-! ## `wrap_utils.go` -/

/-- The ellipsis `…` (U+2026) in UTF-8. -/
def ellipsis : List Nat := [0xE2, 0x80, 0xA6]

/-- Go: `truncateWithEllipsis`. -/
def truncateWithEllipsis (T : Tables) (text : List Nat) (limit : Int) : List Nat :=
  if (PrintableRuneWidth T text : Int) ≤ limit then text
  else if limit ≤ 0 then []
  else if limit = 1 then ellipsis
  else
    let runes := runesOf text
    if (runes.length : Int) ≤ limit then text
    else stringOfRunes (runes.take (limit - 1).toNat) ++ ellipsis

/-- Go: `fitURL`. -/
def fitURL (T : Tables) (url : List Nat) (limit : Int) : List Nat :=
  if (PrintableRuneWidth T url : Int) ≤ limit then url
  else
    match Index url.length url [0x3A, 0x2F, 0x2F] with
    | some idx =>
      let trimmed := url.drop (idx + 3)
      if (PrintableRuneWidth T trimmed : Int) ≤ limit then trimmed
      else truncateWithEllipsis T url limit
    | none => truncateWithEllipsis T url limit

/-- Go: `splitURLWrapper`; `none` stands for `ok == false`. -/
def splitURLWrapper (text : List Nat) : Option (List Nat × List Nat × List Nat) :=
  let runes := runesOf text
  if runes.length < 2 then none
  else
    let opn := runes.getD 0 0
    let cls := runes.getD (runes.length - 1) 0
    let want : Option Nat :=
      if opn = 0x28 then some 0x29
      else if opn = 0x5B then some 0x5D
      else if opn = 0x7B then some 0x7D
      else if opn = 0x3C then some 0x3E
      else none
    match want with
    | none => none
    | some w =>
      if cls ≠ w then none
      else some (stringOfRunes [opn],
        stringOfRunes ((runes.drop 1).take (runes.length - 2)), stringOfRunes [cls])

/-! ## `stream.go`: data -/

/-- Go: `boundaryKind`. -/
inductive boundaryKind where
  | boundaryNone
  | boundarySpace
  | boundaryNewline
  | boundaryPunct
  | boundaryPunctEnd
deriving DecidableEq, Repr

open boundaryKind

/-- Go: `atom`. -/
structure atom where
  tok : StreamToken
  boundary : boundaryKind
deriving DecidableEq, Repr

/-- Go: `wordBuffer`. -/
structure wordBuffer where
  atoms : List StreamToken
  kind : tokenKind
  width : Nat
  delay : Int
  style : Style
  hasURL : Bool
  hasNon : Bool
  hasCode : Bool
  last : Nat
deriving DecidableEq, Repr

/-- Go: `StreamRenderer`.  The scratch buffers (`wordScratch`, `indentArena`,
`runeScratch`, `wordRunes`, `carryRunes` and the backing arrays) only hold
storage for values that the model passes as values. -/
structure StreamRenderer where
  w : Writer
  width : Int
  osc8 : Bool
  softWrap : Bool
  lineWidth : Nat
  style : List Nat
  pending : wordBuffer
  pendingSpaces : List StreamToken
  lastWordCode : Bool
  atLineStart : Bool
  lastWasNewline : Bool
  wrapIndent : List Nat
  prefixBuf : List Nat
  codeFlushPending : Bool
  nbspBuf : List atom
  punctQuotePending : Bool
deriving DecidableEq, Repr

/-- Go: `renderConfig`. -/
structure renderConfig where
  osc8 : Bool := false
  softWrap : Bool := false
deriving DecidableEq, Repr

/-- Go: `wordBuffer.reset`. -/
def wordBuffer.reset (_w : wordBuffer) : wordBuffer :=
  { atoms := [], kind := tokenText, width := 0, delay := 0, style := { Prefix := [] },
    hasURL := false, hasNon := false, hasCode := false, last := 0 }

/-- Go: `wordBuffer.appendAtom`. -/
def wordBuffer.appendAtom (T : Tables) (w : wordBuffer) (a : StreamToken) : wordBuffer :=
  let w := if w.atoms.length = 0 then { w with kind := a.Kind, style := a.Style } else w
  let w := if a.Kind = tokenURL then { w with kind := tokenURL, hasURL := true } else w
  let w := if a.Kind = tokenCode then { w with kind := tokenCode, hasCode := true, hasNon := true }
    else w
  let w := if a.Kind ≠ tokenURL ∧ a.Kind ≠ tokenCode then { w with hasNon := true } else w
  let w :=
    if a.Text ≠ [] then
      if (DecodeLastRune a.Text).1 ≠ RuneError then { w with last := (DecodeLastRune a.Text).1 }
      else w
    else w
  { w with atoms := w.atoms ++ [a], width := w.width + PrintableRuneWidth T a.Text,
           delay := w.delay + a.Delay }

/-- Go: `wordBuffer.endsWithOpenBracket`. -/
def wordBuffer.endsWithOpenBracket (w : wordBuffer) : Bool :=
  w.last == 0x28 || w.last == 0x5B || w.last == 0x7B

/-- Go: `StreamRenderer.resetWithConfig` (with `initBuffers`). -/
def StreamRenderer.resetWithConfig (_s : StreamRenderer) (w : Writer) (width : Int)
    (cfg : renderConfig) : StreamRenderer :=
  { w := w, width := width, osc8 := cfg.osc8, softWrap := cfg.softWrap, lineWidth := 0,
    style := [],
    pending := { atoms := [], kind := tokenText, width := 0, delay := 0,
                 style := { Prefix := [] }, hasURL := false, hasNon := false, hasCode := false,
                 last := 0 },
    pendingSpaces := [], lastWordCode := false, atLineStart := true, lastWasNewline := true,
    wrapIndent := [], prefixBuf := [], codeFlushPending := false, nbspBuf := [],
    punctQuotePending := false }

/-- The zero value `&StreamRenderer{}`. -/
def zeroStreamRenderer : StreamRenderer :=
  { w := { out := [], failing := false }, width := 0, osc8 := false, softWrap := false,
    lineWidth := 0, style := [],
    pending := { atoms := [], kind := tokenText, width := 0, delay := 0,
                 style := { Prefix := [] }, hasURL := false, hasNon := false, hasCode := false,
                 last := 0 },
    pendingSpaces := [], lastWordCode := false, atLineStart := false, lastWasNewline := false,
    wrapIndent := [], prefixBuf := [], codeFlushPending := false, nbspBuf := [],
    punctQuotePending := false }

/-- Go: `NewStreamRenderer`. -/
def NewStreamRenderer (w : Writer) (width : Int) (cfg : renderConfig) : StreamRenderer :=
  zeroStreamRenderer.resetWithConfig w width cfg

/-- Go: `StreamRenderer.Reset`. -/
def StreamRenderer.Reset (s : StreamRenderer) (w : Writer) (width : Int) : StreamRenderer :=
  s.resetWithConfig w width { osc8 := s.osc8, softWrap := s.softWrap }

/-- Go: `StreamRenderer.setWrapIndent` and `SetWrapIndent`. -/
def StreamRenderer.SetWrapIndent (s : StreamRenderer) (indent : List Nat) : StreamRenderer :=
  if indent = [] then s else { s with wrapIndent := indent }

/-- Go: `StreamRenderer.Width`. -/
def StreamRenderer.Width (s : StreamRenderer) : Int := s.width

/-- Go: `StreamRenderer.SetWidth`. -/
def StreamRenderer.SetWidth (s : StreamRenderer) (width : Int) : StreamRenderer :=
  { s with width := width }

/-! ## `stream.go`: boundaries and line prefixes -/

/-- Go: `isQuote`. -/
def isQuote (r : Nat) : Bool :=
  r == 0x22 || r == 0x27 || r == 0x201C || r == 0x201D || r == 0x2018 || r == 0x2019

/-- Go: `strings.ContainsRune(".,;:!?", r)`. -/
def isSentencePunct (r : Nat) : Bool :=
  r == 0x2E || r == 0x2C || r == 0x3B || r == 0x3A || r == 0x21 || r == 0x3F

/-- Go: `classifyBoundary`. -/
def classifyBoundary (T : Tables) (r next : Nat) : boundaryKind :=
  if r = 10 then boundaryNewline
  else if r = 0xA0 then boundaryNone
  else if r = 32 ∨ r = 9 then boundarySpace
  else if isQuote r then boundaryNone
  else if r = 0x2E then
    if IsUpper T next then boundaryPunct else boundaryNone
  else if isSentencePunct r then
    if isQuote next then boundaryNone else boundaryPunct
  else boundaryNone

/-- Go: `isQuoteAtom`. -/
def isQuoteAtom (a : atom) : Bool :=
  if a.tok.Text = [] then false else isQuote (DecodeRune a.tok.Text).1

/-- Go: `isPrefixToken`. -/
def isPrefixToken (tok : List Nat) : Bool :=
  if tok.length = 0 then true
  else if tok.getD 0 0 = 0x23 then tok.all (fun b => b == 0x23)
  else if tok.length = 1 then
    tok.getD 0 0 == 0x3E || tok.getD 0 0 == 0x2D || tok.getD 0 0 == 0x2A || tok.getD 0 0 == 0x2B
  else if 0x30 ≤ tok.getD 0 0 ∧ tok.getD 0 0 ≤ 0x39 then
    let i := (tok.takeWhile (fun b => 0x30 ≤ b && b ≤ 0x39)).length
    if i = tok.length then true
    else if i < tok.length ∧ (tok.getD i 0 = 0x2E ∨ tok.getD i 0 = 0x29) ∧ i + 1 = tok.length
    then true
    else false
  else false

/-- Loop of `isLinePrefixBytes` over `trim[start:]`. -/
def isLinePrefixLoop : Nat → List Nat → Bool
  | 0, _ => true
  | fuel + 1, rest =>
    let rest1 := rest.dropWhile (fun b => b == 32 || b == 9)
    if rest1.length = 0 then true
    else
      let tok := rest1.takeWhile (fun b => !(b == 32 || b == 9))
      if !isPrefixToken tok then false
      else isLinePrefixLoop fuel (rest1.drop tok.length)

/-- Go: `isLinePrefixBytes`. -/
def isLinePrefixBytes (buf : List Nat) : Bool :=
  let trim := TrimRight (TrimLeft buf [32, 9]) [32]
  if trim.length = 0 then true else isLinePrefixLoop trim.length trim

/-- Go: `taskListWrapIndent`; `none` stands for `ok == false`. -/
def taskListWrapIndent (pre : List Nat) : Option Nat :=
  let i := (pre.takeWhile (fun b => b == 32 || b == 9)).length
  if i ≥ pre.length then none
  else
    let j? : Option Nat :=
      if pre.getD i 0 = 0x2D ∨ pre.getD i 0 = 0x2B ∨ pre.getD i 0 = 0x2A then some (i + 1)
      else if 0x30 ≤ pre.getD i 0 ∧ pre.getD i 0 ≤ 0x39 then
        let j := i + ((pre.drop i).takeWhile (fun b => 0x30 ≤ b && b ≤ 0x39)).length
        if j ≥ pre.length ∨ (pre.getD j 0 ≠ 0x2E ∧ pre.getD j 0 ≠ 0x29) then none
        else some (j + 1)
      else none
    match j? with
    | none => none
    | some j =>
      if j ≥ pre.length ∨ pre.getD j 0 ≠ 32 then none
      else
        let j := j + 1
        if j + 3 ≥ pre.length then none
        else if pre.getD j 0 ≠ 0x5B then none
        else if pre.getD (j + 2) 0 ≠ 0x5D then none
        else if pre.getD (j + 1) 0 ≠ 32 ∧ pre.getD (j + 1) 0 ≠ 0x78 ∧ pre.getD (j + 1) 0 ≠ 0x58
        then none
        else if pre.getD (j + 3) 0 ≠ 32 then none
        else some (j + 4)


/-! ## `stream.go`: emitting -/

/-- Go: `StreamRenderer.indentSpaces` (the arena only stores the result). -/
def indentSpaces (count : Nat) : List Nat := spaceRun count

/-- Go: `StreamRenderer.indentFromBytes`. -/
def indentFromBytes (pre : List Nat) : List Nat := pre

/-- Go: `StreamRenderer.maybeSetWrapIndent`. -/
def StreamRenderer.maybeSetWrapIndent (s : StreamRenderer) : StreamRenderer :=
  match taskListWrapIndent s.prefixBuf with
  | some indent => { s with wrapIndent := indentSpaces indent }
  | none =>
    if s.wrapIndent ≠ [] then s
    else
      let buf := s.prefixBuf
      let nonSpace := (buf.takeWhile (fun b => b == 32 || b == 9)).length
      if nonSpace ≥ buf.length then s
      else
        let spaceIdx := nonSpace + ((buf.drop nonSpace).takeWhile (fun b => b != 32)).length
        if spaceIdx ≥ buf.length then s
        else
          let pre := buf.take (spaceIdx + 1)
          let trim := TrimRight (TrimLeft pre [32]) [32]
          if trim.length > 0 ∧ trim.getD 0 0 = 0x23 ∧ trim.all (fun b => b == 0x23) then
            { s with wrapIndent := indentSpaces pre.length }
          else if trim.length = 1 ∧ (trim.getD 0 0 = 0x3E ∨ trim.getD 0 0 = 0x2D ∨
              trim.getD 0 0 = 0x2A ∨ trim.getD 0 0 = 0x2B) then
            if trim.getD 0 0 = 0x3E then { s with wrapIndent := indentFromBytes pre }
            else { s with wrapIndent := indentSpaces pre.length }
          else if trim.length ≥ 2 ∧ 0x30 ≤ trim.getD 0 0 ∧ trim.getD 0 0 ≤ 0x39 then
            let i := (trim.takeWhile (fun b => 0x30 ≤ b && b ≤ 0x39)).length
            if i < trim.length ∧ (trim.getD i 0 = 0x2E ∨ trim.getD i 0 = 0x29) then
              { s with wrapIndent := indentSpaces pre.length }
            else s
          else s

/-- The statement `if s.style != "" { io.WriteString(s.w, ansiReset); s.style = "" }`
that `emitText`, `newline`, `wrapNewline` and `processAtomRaw` repeat; the
result of the write is discarded there. -/
def StreamRenderer.resetStyle (s : StreamRenderer) : StreamRenderer :=
  if s.style ≠ [] then { s with w := (s.w.WriteString ansiReset).1, style := [] } else s

/-- The statement `if style.Prefix != s.style { ... }` of `emitText` and
`processAtomRaw`: the reset sequence if a style is active, then the new
prefix; the results of the writes are discarded. -/
def StreamRenderer.switchStyle (s : StreamRenderer) (pfx : List Nat) : StreamRenderer :=
  if pfx ≠ s.style then
    let s := if s.style ≠ [] then { s with w := (s.w.WriteString ansiReset).1 } else s
    let s := { s with style := pfx }
    if s.style ≠ [] then { s with w := (s.w.WriteString s.style).1 } else s
  else s

/-- The body of `if s.atLineStart { ... }` in `emitText`. -/
def StreamRenderer.notePrefix (s : StreamRenderer) (text : List Nat) : StreamRenderer :=
  let s := { s with prefixBuf := s.prefixBuf ++ text }
  let s := s.maybeSetWrapIndent
  let s :=
    if s.wrapIndent ≠ [] ∧ s.prefixBuf.length > 0 ∧
        s.prefixBuf.getD (s.prefixBuf.length - 1) 0 = 32 then s.resetStyle
    else s
  if (IndexByte s.prefixBuf 32).isSome ∧ !isLinePrefixBytes s.prefixBuf then
    { s with atLineStart := false }
  else s

/-- Go: `StreamRenderer.emitText`; the flag is the returned error. -/
def StreamRenderer.emitText (T : Tables) (s : StreamRenderer) (text : List Nat) (style : Style) :
    StreamRenderer × Bool :=
  if text = [] then (s, false)
  else
    let text := if Contains text [0xC2, 0xA0] then replaceNBSP text.length text else text
    let s := { s with lastWasNewline := HasSuffix text [10] }
    let s := if s.atLineStart then s.notePrefix text else s
    let s := s.switchStyle style.Prefix
    let r := s.w.WriteString text
    ({ s with w := r.1, lineWidth := s.lineWidth + PrintableRuneWidth T text }, r.2)

/-- Go: `StreamRenderer.emitRune`. -/
def StreamRenderer.emitRune (T : Tables) (s : StreamRenderer) (r : Nat) (style : Style) :
    StreamRenderer × Bool :=
  if r < 128 then s.emitText T (asciiRuneStrings r) style
  else s.emitText T (EncodeRune r) style

/-- Go: `StreamRenderer.newline`. -/
def StreamRenderer.newline (s : StreamRenderer) (resetStyle : Bool) : StreamRenderer :=
  let s := if resetStyle then s.resetStyle else s
  let s := { s with w := (s.w.WriteString [10]).1, lineWidth := 0, lastWasNewline := true }
  if resetStyle then { s with atLineStart := true, wrapIndent := [], prefixBuf := [] }
  else { s with atLineStart := false }

/-- Go: `StreamRenderer.emitIndent`. -/
def StreamRenderer.emitIndent (T : Tables) (s : StreamRenderer) : StreamRenderer :=
  if s.wrapIndent = [] then s
  else
    { s with w := (s.w.WriteString s.wrapIndent).1,
             lineWidth := s.lineWidth + PrintableRuneWidth T s.wrapIndent,
             atLineStart := false }

/-- Go: `StreamRenderer.wrapNewline`. -/
def StreamRenderer.wrapNewline (T : Tables) (s : StreamRenderer) : StreamRenderer :=
  (s.resetStyle.newline false).emitIndent T

/-- Go: `StreamRenderer.wordTextFromAtoms`. -/
def wordTextFromAtoms (atoms : List StreamToken) : List Nat :=
  (atoms.map (fun a => a.Text)).flatten

/-- Go: `StreamRenderer.emitAtoms`: stops at the first error. -/
def StreamRenderer.emitAtoms (T : Tables) (s : StreamRenderer) :
    List StreamToken → StreamRenderer × Bool
  | [] => (s, false)
  | a :: rest =>
    let r := s.emitText T a.Text a.Style
    if r.2 then r else StreamRenderer.emitAtoms T r.1 rest

/-- The statement `if len(s.pendingSpaces) > 0 { _ = s.emitAtoms(s.pendingSpaces);
s.pendingSpaces = s.pendingSpaces[:0] }` of `emitBoundary`, `flushWord`,
`writeLinkToken`, `WriteToken` and `Flush`. -/
def StreamRenderer.emitPendingSpaces (T : Tables) (s : StreamRenderer) : StreamRenderer :=
  if s.pendingSpaces.length > 0 then
    { (s.emitAtoms T s.pendingSpaces).1 with pendingSpaces := [] }
  else s

/-- The loop `for _, r := range text { _ = s.emitRune(r, style) }`, shared by
`emitTimedText`, `emitRunesWithDelay` and the chunks of the word splitters;
errors are discarded. -/
def StreamRenderer.emitRunes (T : Tables) (s : StreamRenderer) (style : Style) :
    List Nat → StreamRenderer
  | [] => s
  | r :: rest => StreamRenderer.emitRunes T (s.emitRune T r style).1 style rest

/-- Go: `StreamRenderer.emitTimedText` (the pacing left out). -/
def StreamRenderer.emitTimedText (T : Tables) (s : StreamRenderer) (text : List Nat)
    (style : Style) : StreamRenderer :=
  if RuneCountInString text = 0 then s else s.emitRunes T style (runesOf text)

/-- Go: `codeSegmentRunes`. -/
def codeSegmentRunes (T : Tables) (segment : List Nat) (limit : Int) : Int :=
  if limit ≤ 0 then 0
  else if (PrintableRuneWidth T segment : Int) ≤ limit then RuneCountInString segment
  else if limit = 1 then 1
  else limit

/-- Go: `StreamRenderer.emitCodeSegment` (with `emitRunesWithDelay` and
`emitRuneWithDelay`). -/
def StreamRenderer.emitCodeSegment (T : Tables) (s : StreamRenderer) (segment : List Nat)
    (limit : Int) (style : Style) : StreamRenderer :=
  if limit ≤ 0 then s
  else if (PrintableRuneWidth T segment : Int) ≤ limit then s.emitRunes T style (runesOf segment)
  else if limit = 1 then (s.emitRune T 0x2026 style).1
  else
    let s := s.emitRunes T style ((runesOf segment).take (limit - 1).toNat)
    (s.emitRune T 0x2026 style).1

/-- Go: `StreamRenderer.lineHasOnlyWhitespacePrefix`. -/
def StreamRenderer.lineHasOnlyWhitespacePrefix (T : Tables) (s : StreamRenderer) : Bool :=
  if s.lineWidth = 0 ∨ s.prefixBuf.length = 0 then false
  else if !s.prefixBuf.all (fun b => b == 32 || b == 9) then false
  else s.lineWidth == PrintableRuneWidth T s.prefixBuf

/-- Go: `strings.ContainsRune("(){}[]<>.,;:/\\", r)`. -/
def isCodeDelimiter (r : Nat) : Bool :=
  r == 0x28 || r == 0x29 || r == 0x7B || r == 0x7D || r == 0x5B || r == 0x5D || r == 0x3C ||
  r == 0x3E || r == 0x2E || r == 0x2C || r == 0x3B || r == 0x3A || r == 0x2F || r == 0x5C

/-- The segments `text[segmentStart:end]` that the two `range` loops of
`emitTimedCodeSplit` visit: a segment ends after every delimiter rune; what
follows the last delimiter is the final segment.  `cur` is the segment being
read. -/
def codeSegments : Nat → List Nat → List Nat → List (List Nat)
  | 0, _, cur => if cur.length > 0 then [cur] else []
  | fuel + 1, text, cur =>
    match text with
    | [] => if cur.length > 0 then [cur] else []
    | _ :: _ =>
      let d := DecodeRune text
      if isCodeDelimiter d.1 then
        (cur ++ text.take d.2) :: codeSegments fuel (text.drop d.2) []
      else codeSegments fuel (text.drop d.2) (cur ++ text.take d.2)

/-- Second loop of `emitTimedCodeSplit`, over the segments. -/
def StreamRenderer.emitCodeSegments (T : Tables) (s : StreamRenderer) (limit : Int)
    (style : Style) : List (List Nat) → StreamRenderer
  | [] => s
  | segment :: rest =>
    let s :=
      if s.width > 0 ∧ s.lineWidth > 0 ∧
          ((s.lineWidth + PrintableRuneWidth T segment : Nat) : Int) > limit then
        if !s.lineHasOnlyWhitespacePrefix T then s.wrapNewline T else s
      else s
    StreamRenderer.emitCodeSegments T (s.emitCodeSegment T segment limit style) limit style rest

/-- Go: `StreamRenderer.emitTimedCodeSplit` (the pacing left out). -/
def StreamRenderer.emitTimedCodeSplit (T : Tables) (s : StreamRenderer) (text : List Nat)
    (style : Style) (limit : Int) : StreamRenderer :=
  if text = [] ∨ limit ≤ 0 then s
  else
    let segs := codeSegments text.length text []
    let totalRunes : Int := (segs.map (fun g => codeSegmentRunes T g limit)).sum
    if totalRunes = 0 then s
    else s.emitCodeSegments T limit style segs


/-- Inner loop of `emitTimedWordSplit`: fills `wordRunes` from `text[i:]` up to
`limit` runes; an invalid byte is taken as the rune of its value.  Returns
`wordRunes`, the rest of the text and `consumed`. -/
def fillWordRunes : Nat → Int → List Nat → List Nat → Nat → List Nat × List Nat × Nat
  | 0, _, wordRunes, text, consumed => (wordRunes, text, consumed)
  | fuel + 1, limit, wordRunes, text, consumed =>
    if (wordRunes.length : Int) < limit ∧ text.length > 0 then
      let d := DecodeRune text
      let r := if d.1 = RuneError ∧ d.2 = 1 then text.getD 0 0 else d.1
      let size := if d.1 = RuneError ∧ d.2 = 1 then 1 else d.2
      fillWordRunes fuel limit (wordRunes ++ [r]) (text.drop size) (consumed + 1)
    else (wordRunes, text, consumed)

/-- Outer loop of `emitTimedWordSplit`: `text` is `text[i:]`, `carry` is
`carryRunes`.  Every round emits at least one rune, so `len(text) + 1` rounds
suffice. -/
def StreamRenderer.wordSplitLoop (T : Tables) (style : Style) (limit : Int) (totalRunes : Nat) :
    Nat → StreamRenderer → List Nat → List Nat → Nat → Nat → StreamRenderer
  | 0, s, _, _, _, _ => s
  | fuel + 1, s, text, carry, consumed, chunkIndex =>
    if text.length > 0 ∨ carry.length > 0 then
      let f := fillWordRunes (text.length + 1) limit carry text consumed
      let wordRunes := f.1
      let text := f.2.1
      let consumed := f.2.2
      if wordRunes.length = 0 then s
      else
        let remaining : Int := (totalRunes : Int) - consumed
        let c1 : List Nat × List Nat :=
          if remaining = 1 ∧ text.length > 0 ∧ wordRunes.length > 1 then
            if isQuote (DecodeRune text).1 then
              ([wordRunes.getD (wordRunes.length - 1) 0], wordRunes.take (wordRunes.length - 1))
            else ([], wordRunes)
          else ([], wordRunes)
        let c2 : List Nat × List Nat :=
          if text.length > 0 ∧ c1.2.length > 1 then
            if isQuote (c1.2.getD (c1.2.length - 1) 0) then
              (c1.1 ++ [c1.2.getD (c1.2.length - 1) 0], c1.2.take (c1.2.length - 1))
            else c1
          else c1
        let s := if chunkIndex > 0 then s.wrapNewline T else s
        let s := s.emitRunes T style c2.2
        StreamRenderer.wordSplitLoop T style limit totalRunes fuel s text c2.1 consumed
          (chunkIndex + 1)
    else s

/-- Go: `StreamRenderer.emitTimedWordSplit` (the pacing left out). -/
def StreamRenderer.emitTimedWordSplit (T : Tables) (s : StreamRenderer) (text : List Nat)
    (style : Style) (limit : Int) : StreamRenderer :=
  if text = [] ∨ limit ≤ 0 then s
  else
    let totalRunes := RuneCountInString text
    if totalRunes = 0 then s
    else StreamRenderer.wordSplitLoop T style limit totalRunes (text.length + 1) s text [] 0 0

/-- Go: `StreamRenderer.emitOverlongWord`. -/
def StreamRenderer.emitOverlongWord (T : Tables) (s : StreamRenderer) (wordText : List Nat)
    (pending : wordBuffer) : StreamRenderer :=
  if pending.kind = tokenURL then
    if pending.hasNon then s.emitTimedWordSplit T wordText pending.style s.width
    else
      let whole : StreamRenderer :=
        let fitted := fitURL T wordText s.width
        let s := s.emitTimedText T fitted pending.style
        { s with lineWidth := s.lineWidth + PrintableRuneWidth T fitted }
      match splitURLWrapper wordText with
      | some (pre, url, suffix) =>
        let available : Int :=
          s.width - PrintableRuneWidth T pre - PrintableRuneWidth T suffix
        if available > 0 then
          let text := pre ++ fitURL T url available ++ suffix
          let s := s.emitTimedText T text pending.style
          { s with lineWidth := s.lineWidth + PrintableRuneWidth T text }
        else whole
      | none => whole
  else if pending.kind = tokenCode then
    s.emitTimedCodeSplit T wordText pending.style s.width
  else s.emitTimedWordSplit T wordText pending.style s.width

/-- Go: `StreamRenderer.emitBoundary`. -/
def StreamRenderer.emitBoundary (T : Tables) (s : StreamRenderer) (boundary : boundaryKind) :
    StreamRenderer :=
  match boundary with
  | boundaryNewline => (s.emitPendingSpaces T).newline true
  | _ => s

/-- The sum of the widths of the pending spaces. -/
def spacesWidth (T : Tables) (sp : List StreamToken) : Nat :=
  (sp.map (fun a => PrintableRuneWidth T a.Text)).sum

/-- The wrap decision of `flushWord`: a line break before the pending word
when the word does not fit on the line, unless the line holds nothing but its
prefix. -/
def StreamRenderer.wrapBeforeWord (T : Tables) (s : StreamRenderer) : StreamRenderer :=
  let sw := spacesWidth T s.pendingSpaces
  if s.width > 0 ∧ s.lineWidth > 0 ∧ ((s.lineWidth + sw + s.pending.width : Nat) : Int) > s.width
  then
    let prefixWidth := PrintableRuneWidth T s.prefixBuf
    if !(decide (prefixWidth > 0) && decide (s.lineWidth = prefixWidth) && decide (sw = 0))
    then { s.wrapNewline T with pendingSpaces := [] }
    else s
  else s

/-- The emission of the pending word in `flushWord`: split when it is wider
than the line, as it is otherwise. -/
def StreamRenderer.emitWord (T : Tables) (s : StreamRenderer) : StreamRenderer :=
  if s.width > 0 ∧ (s.pending.width : Int) > s.width then
    let wordText := wordTextFromAtoms s.pending.atoms
    if s.pending.kind = tokenCode ∨ s.pending.hasCode then
      s.emitTimedCodeSplit T wordText s.pending.style s.width
    else s.emitOverlongWord T wordText s.pending
  else (s.emitAtoms T s.pending.atoms).1

/-- Go: `StreamRenderer.flushWord`. -/
def StreamRenderer.flushWord (T : Tables) (s : StreamRenderer) (boundary : boundaryKind) :
    StreamRenderer :=
  if s.pending.atoms.length = 0 then s.emitBoundary T boundary
  else
    let s := s.wrapBeforeWord T
    let s := s.emitPendingSpaces T
    let s := s.emitWord T
    let s := { s with lastWordCode := decide (s.pending.kind = tokenCode) || s.pending.hasCode }
    let s := { s with pending := s.pending.reset }
    s.emitBoundary T boundary

/-- First statement of `processAtomRaw`, `if s.punctQuotePending { ... }`: a
quote joins the pending word (its boundary is cleared), anything else flushes
the word. -/
def StreamRenderer.settlePunctQuote (T : Tables) (s : StreamRenderer) (a : atom) :
    StreamRenderer × atom :=
  if s.punctQuotePending then
    if isQuoteAtom a then
      ({ s with punctQuotePending := false }, { a with boundary := boundaryNone })
    else ({ s.flushWord T boundaryNone with punctQuotePending := false }, a)
  else (s, a)

/-- Second statement of `processAtomRaw`, `if s.codeFlushPending && ... { ... }`. -/
def StreamRenderer.settleCodeFlush (T : Tables) (s : StreamRenderer) (a : atom) :
    StreamRenderer :=
  if s.codeFlushPending ∧ a.boundary ≠ boundaryPunct ∧ a.boundary ≠ boundaryPunctEnd then
    { s.flushWord T boundaryNone with codeFlushPending := false }
  else s

/-- The end of the punctuation branch of `processAtomRaw`: the atom joins the
pending word, which is flushed unless a closing quote may follow. -/
def StreamRenderer.appendPunct (T : Tables) (s : StreamRenderer) (a : atom) :
    StreamRenderer × Bool :=
  let s := { s with pending := s.pending.appendAtom T a.tok }
  if a.boundary = boundaryPunctEnd then
    ({ s with punctQuotePending := true, codeFlushPending := false }, false)
  else ({ s.flushWord T boundaryNone with codeFlushPending := false }, false)

/-- The branch `a.Kind == tokenText` of the punctuation case of
`processAtomRaw`. -/
def StreamRenderer.processPunctText (T : Tables) (s : StreamRenderer) (a : atom) :
    StreamRenderer × Bool :=
  let s :=
    if s.pending.atoms.length > 0 ∧ s.pending.kind = tokenCode ∧ s.width > 0 ∧
        s.lineWidth > 0 then
      if ((s.lineWidth + spacesWidth T s.pendingSpaces + s.pending.width +
            PrintableRuneWidth T a.tok.Text : Nat) : Int) > s.width then
        { s.wrapNewline T with pendingSpaces := [] }
      else s
    else s
  if s.lastWordCode ∧ s.pending.atoms.length = 0 ∧ s.pendingSpaces.length = 0 then
    { s with lastWordCode := false }.emitText T a.tok.Text a.tok.Style
  else if s.pending.atoms.length = 0 ∧ s.pendingSpaces.length = 0 then
    s.emitText T a.tok.Text a.tok.Style
  else if s.pending.atoms.length > 0 then
    if s.pending.kind ≠ tokenURL then s.appendPunct T a
    else (s.flushWord T boundaryNone).appendPunct T a
  else s.appendPunct T a

/-- The space written straight to the writer by `processAtomRaw` while the
line holds only its prefix. -/
def StreamRenderer.writePrefixSpace (T : Tables) (s : StreamRenderer) (a : atom) :
    StreamRenderer × Bool :=
  let s := s.switchStyle a.tok.Style.Prefix
  let s := { s with w := (s.w.WriteString a.tok.Text).1,
                    lineWidth := s.lineWidth + PrintableRuneWidth T a.tok.Text,
                    prefixBuf := s.prefixBuf ++ a.tok.Text }
  let s := s.maybeSetWrapIndent
  let s := s.resetStyle
  if Contains s.prefixBuf [32] ∧ !isLinePrefixBytes s.prefixBuf then
    ({ s with atLineStart := false }, false)
  else (s, false)

/-- The branch `a.boundary == boundarySpace` of `processAtomRaw`. -/
def StreamRenderer.processSpace (T : Tables) (s : StreamRenderer) (a : atom) :
    StreamRenderer × Bool :=
  let s := { s.flushWord T boundaryNone with lastWordCode := false }
  if s.atLineStart then
    if !isLinePrefixBytes s.prefixBuf then
      ({ s with atLineStart := false, pendingSpaces := s.pendingSpaces ++ [a.tok] }, false)
    else s.writePrefixSpace T a
  else ({ s with pendingSpaces := s.pendingSpaces ++ [a.tok] }, false)

/-- Go: `StreamRenderer.processAtomRaw`; the flag is the returned error. -/
def StreamRenderer.processAtomRaw (T : Tables) (s : StreamRenderer) (a : atom) :
    StreamRenderer × Bool :=
  let sa := s.settlePunctQuote T a
  let a := sa.2
  let s := sa.1.settleCodeFlush T a
  if a.tok.Kind = tokenCode ∧ a.boundary = boundarySpace then
    ({ s with pending := s.pending.appendAtom T a.tok }, false)
  else if a.boundary = boundaryNone then
    ({ s with pending := s.pending.appendAtom T a.tok }, false)
  else if a.boundary = boundaryPunct ∨ a.boundary = boundaryPunctEnd then
    if a.tok.Kind = tokenURL ∨ a.tok.Kind = tokenCode then
      ({ s with pending := s.pending.appendAtom T a.tok }, false)
    else if a.tok.Kind = tokenText then s.processPunctText T a
    else
      ({ s with pending := s.pending.appendAtom T a.tok, codeFlushPending := false }, false)
  else if a.boundary = boundarySpace then s.processSpace T a
  else
    let s := { s.flushWord T boundaryNone with lastWordCode := false }
    (s.emitBoundary T boundaryNewline, false)


/-- Go: `isNBSPCompatible`. -/
def isNBSPCompatible (a first : atom) : Bool :=
  decide (a.tok.Kind = first.tok.Kind) && decide (a.tok.Style.Prefix = first.tok.Style.Prefix)

/-- Go: `isNBSPChar`. -/
def isNBSPChar (text : List Nat) : Bool :=
  if text.length = 0 then false
  else
    let r := (DecodeRune text).1
    if r = 0x26 ∨ r = 0x23 ∨ r = 0x3B then true
    else if 0x30 ≤ r ∧ r ≤ 0x39 then true
    else r == 0x6E || r == 0x4E || r == 0x62 || r == 0x42 || r == 0x73 || r == 0x53 ||
      r == 0x70 || r == 0x50 || r == 0x78 || r == 0x58 || r == 0x61 || r == 0x41

/-- Go: `isNBSPEntity`. -/
def isNBSPEntity (buf : List atom) : Bool :=
  if buf.length ≠ 6 then false
  else
    let seq := ToLower (buf.map (fun a => a.tok.Text)).flatten
    seq == [0x26, 0x6E, 0x62, 0x73, 0x70, 0x3B] || seq == [0x26, 0x23, 0x31, 0x36, 0x30, 0x3B] ||
      seq == [0x26, 0x23, 0x78, 0x61, 0x30, 0x3B]

/-- The loop of `flushNBSPBuf`: `processAtomRaw` on every buffered atom,
errors discarded. -/
def StreamRenderer.processAtomsRaw (T : Tables) (s : StreamRenderer) :
    List atom → StreamRenderer
  | [] => s
  | b :: rest => StreamRenderer.processAtomsRaw T (s.processAtomRaw T b).1 rest

/-- Go: `StreamRenderer.flushNBSPBuf`. -/
def StreamRenderer.flushNBSPBuf (T : Tables) (s : StreamRenderer) : StreamRenderer :=
  { s.processAtomsRaw T s.nbspBuf with nbspBuf := [] }

/-- Go: `StreamRenderer.handleNBSPAtom`; the flag is the returned `bool`. -/
def StreamRenderer.handleNBSPAtom (T : Tables) (s : StreamRenderer) (a : atom) :
    StreamRenderer × Bool :=
  if a.tok.Kind = tokenCode then
    if s.nbspBuf.length > 0 then (s.flushNBSPBuf T, false) else (s, false)
  else if s.nbspBuf.length = 0 then
    if a.tok.Text = [0x26] then ({ s with nbspBuf := s.nbspBuf ++ [a] }, true)
    else (s, false)
  else if !isNBSPCompatible a (s.nbspBuf.getD 0 a) || !isNBSPChar a.tok.Text then
    (s.flushNBSPBuf T, false)
  else
    let s := { s with nbspBuf := s.nbspBuf ++ [a] }
    if s.nbspBuf.length < 6 then (s, true)
    else if s.nbspBuf.length = 6 ∧ isNBSPEntity s.nbspBuf then
      let first := s.nbspBuf.getD 0 a
      let delay := (s.nbspBuf.map (fun b => b.tok.Delay)).sum
      let nb : atom :=
        { tok := { Text := [0xC2, 0xA0], Style := first.tok.Style, Kind := first.tok.Kind,
                   Delay := delay },
          boundary := boundaryNone }
      let s := { s with nbspBuf := [] }
      ((s.processAtomRaw T nb).1, true)
    else (s.flushNBSPBuf T, true)

/-- Go: `StreamRenderer.processAtom`. -/
def StreamRenderer.processAtom (T : Tables) (s : StreamRenderer) (a : atom) :
    StreamRenderer × Bool :=
  let h := s.handleNBSPAtom T a
  if h.2 then (h.1, false) else h.1.processAtomRaw T a

/-- The first part of `writeLinkToken`, `WriteToken` on a thematic break and
`Flush`: the pending word is flushed, or else the pending spaces are
emitted. -/
def StreamRenderer.flushPending (T : Tables) (s : StreamRenderer) : StreamRenderer :=
  if s.pending.atoms.length > 0 then s.flushWord T boundaryNone
  else s.emitPendingSpaces T

/-- Go: `StreamRenderer.writeLinkToken`. -/
def StreamRenderer.writeLinkToken (T : Tables) (s : StreamRenderer) (tok : StreamToken) :
    StreamRenderer × Bool :=
  let s := s.flushPending T
  if !s.osc8 then (s, false)
  else if tok.Kind = tokenLinkStart then
    if tok.LinkURL ≠ [] then
      let r := s.w.WriteString (osc8Start ++ tok.LinkURL ++ [0x1B, 0x5C])
      ({ s with w := r.1 }, r.2)
    else (s, false)
  else
    let r := s.w.WriteString osc8End
    ({ s with w := r.1 }, r.2)

/-- The rune loop of `WriteToken` over `tok.Text[i:]`; `per` and `rem` are the
delay shares and `first` tells whether the first atom is still to come. -/
def StreamRenderer.writeTokenLoop (T : Tables) (tok : StreamToken) (per rem : Int) :
    Nat → StreamRenderer → List Nat → Bool → StreamRenderer × Bool
  | 0, s, _, _ => (s, false)
  | fuel + 1, s, text, first =>
    if text.length = 0 then (s, false)
    else
      let d := DecodeRune text
      if d.1 = RuneError ∧ d.2 = 1 then
        StreamRenderer.writeTokenLoop T tok per rem fuel s (text.drop 1) first
      else if isControlRune d.1 then
        StreamRenderer.writeTokenLoop T tok per rem fuel s (text.drop d.2) first
      else
        let after := text.drop d.2
        let next : Nat :=
          if after.length > 0 then
            if (DecodeRune after).1 = RuneError ∧ (DecodeRune after).2 = 1 then 0
            else (DecodeRune after).1
          else 0
        let b := classifyBoundary T d.1 next
        let a : atom :=
          { tok := { Text := text.take d.2, Style := tok.Style, Kind := tok.Kind,
                     Delay := if first then per + rem else per },
            boundary := if b = boundaryPunct ∧ next = 0 then boundaryPunctEnd else b }
        let r := s.processAtom T a
        if r.2 then r
        else StreamRenderer.writeTokenLoop T tok per rem fuel r.1 after false

/-- Go: `StreamRenderer.WriteToken`; the flag is the returned error. -/
def StreamRenderer.WriteToken (T : Tables) (s : StreamRenderer) (tok : StreamToken) :
    StreamRenderer × Bool :=
  if tok.Kind = tokenLinkStart ∨ tok.Kind = tokenLinkEnd then s.writeLinkToken T tok
  else if tok.Kind = tokenThematicBreak then (s.flushPending T, false)
  else if tok.Text = [] then (s, false)
  else
    let s :=
      if tok.Kind = tokenCode ∧ s.pending.atoms.length > 0 ∧ s.pending.kind ≠ tokenCode then
        if !(decide (s.pending.kind = tokenText) && s.pending.endsWithOpenBracket) then
          s.flushWord T boundaryNone
        else s
      else s
    let count0 : Int := if tok.Delay > 0 then RuneCountInString tok.Text else 0
    let count : Int := if count0 = 0 then 1 else count0
    let per : Int := Int.tdiv tok.Delay count
    let rem : Int := tok.Delay - per * count
    let r := StreamRenderer.writeTokenLoop T tok per rem tok.Text.length s tok.Text true
    if r.2 then r
    else
      let s := r.1
      if tok.Kind = tokenCode ∧ tok.CodeBlock then
        ({ s.flushWord T boundaryNone with codeFlushPending := false }, false)
      else if tok.Kind = tokenCode then ({ s with codeFlushPending := true }, false)
      else (s, false)

/-- The first three statements of `Flush`: what the sink still buffers (a
partial `&nbsp;` entity, the pending word, the pending spaces) is emitted. -/
def StreamRenderer.flushBuffered (T : Tables) (s : StreamRenderer) : StreamRenderer :=
  let s := if s.nbspBuf.length > 0 then s.flushNBSPBuf T else s
  let s :=
    if s.punctQuotePending then { s.flushWord T boundaryNone with punctQuotePending := false }
    else s
  s.flushPending T

/-- Go: `StreamRenderer.Flush`; the flag is the returned error. -/
def StreamRenderer.Flush (T : Tables) (s : StreamRenderer) : StreamRenderer × Bool :=
  let s := s.flushBuffered T
  let r : StreamRenderer × Bool :=
    if s.style ≠ [] then
      let r := s.w.WriteString ansiReset
      ({ s with w := r.1, style := [] }, r.2)
    else (s, false)
  if r.2 then r
  else
    let s := r.1
    if !s.lastWasNewline then
      ({ s with w := (s.w.WriteString [10]).1, lastWasNewline := true }, false)
    else (s, false)

/-- A sink driven by a sequence of `WriteToken` calls (stopping at the first
error) and then `Flush`: the sink afterwards and the error returned. -/
def StreamRenderer.writeTokens (T : Tables) (s : StreamRenderer) :
    List StreamToken → StreamRenderer × Bool
  | [] => (s, false)
  | t :: rest =>
    let r := s.WriteToken T t
    if r.2 then r else StreamRenderer.writeTokens T r.1 rest


/-! ## `live_parser.go`: data -/

/-- Go: `maxOrderedMarker`. -/
def maxOrderedMarker : Int := 1024

/-- Go: `maxEntityLen`. -/
def maxEntityLen : Nat := 32

/-- A Go `int` result: the value wrapped to 64 bits, two's complement. -/
def wrap64 (x : Int) : Int := (x + 2 ^ 63) % 2 ^ 64 - 2 ^ 63

/-- Go: `hashStringsWithSpace[level]`. -/
def hashStringsWithSpace (level : Nat) : List Nat :=
  if level = 0 then [] else List.replicate level 0x23 ++ [32]

/-- Go: `inlineState`. -/
structure inlineState where
  inCode : Bool
  codeFence : Nat
  codeBuf : List Nat
  pendingBackticks : Nat
  inEm : Bool
  inStrong : Bool
  inLink : Bool
  inLinkURL : Bool
  inAutoLink : Bool
  inEntity : Bool
  pendingNumUS : Bool
  lastWasDigit : Bool
  pendingDelim : Nat
  pendingCount : Nat
  pendingClose : Bool
  linkText : List Nat
  linkURL : List Nat
  autoLink : List Nat
  entity : List Nat
deriving DecidableEq, Repr

/-- Go: `listState`. -/
structure listState where
  indent : Nat
  ordered : Bool
  marker : Nat
  next : Int
  contentIndent : Nat
  prefixLen : Nat
  itemIndentExtra : Nat
deriving DecidableEq, Repr

/-- Go: `liveParser`.  The text arena and the backing arrays only hold storage
for values that the model passes as values; `codePrevWidth` is never read. -/
structure liveParser where
  styles : Styles
  osc8 : Bool
  frontMatter : frontMatterFilter
  lineBuf : List Nat
  lineBytes : List Nat
  lineDecided : Bool
  lineEmitIdx : Int
  lineIgnoreRest : Bool
  lineSkipBreak : Bool
  lineStyle : Style
  lineStyled : Bool
  pendingBreaks : Nat
  hardBreakPending : Bool
  immediateSpaces : List Nat
  inParagraph : Bool
  quoteDepth : Nat
  quoteLazy : Bool
  lastQuoteExplicit : Bool
  prevQuoteDepth : Nat
  quoteListPrefixFirst : Bool
  pendingQuoteBlank : Bool
  pendingQuoteExplicit : Bool
  pendingQuoteTrailingSpace : Bool
  pendingQuotePrevDepth : Nat
  pendingQuoteDepth : Nat
  pendingQuoteListLen : Nat
  pendingQuoteListFirst : Bool
  listStack : List listState
  listPrefixLen : Nat
  listLazy : Bool
  listItemFirstLine : Bool
  seenLine : Bool
  lineHasNonSpace : Bool
  inCodeFence : Bool
  fenceMarker : List Nat
  pendingCodeNL : Bool
  inIndentCode : Bool
  indentCode : Nat
  codePrevWidth : Nat
  codeLineDecided : Bool
  codeLineIsCode : Bool
  postCodeBreakSingle : Bool
  inline : inlineState
deriving DecidableEq, Repr

/-- Go: `breakMode`. -/
inductive breakMode where
  | breakSpace
  | breakSingle
  | breakDouble
deriving DecidableEq, Repr

open breakMode

/-- Go: `inlineState.reset`. -/
def inlineState.reset (_s : inlineState) : inlineState :=
  { inCode := false, codeFence := 0, codeBuf := [], pendingBackticks := 0, inEm := false,
    inStrong := false, inLink := false, inLinkURL := false, inAutoLink := false,
    inEntity := false, pendingNumUS := false, lastWasDigit := false, pendingDelim := 0,
    pendingCount := 0, pendingClose := false, linkText := [], linkURL := [], autoLink := [],
    entity := [] }

/-- The zero value `&liveParser{}`. -/
def zeroLiveParser : liveParser :=
  { styles := { Text := ⟨[]⟩, Heading := [], Emphasis := ⟨[]⟩, Strong := ⟨[]⟩,
                EmphasisStrong := ⟨[]⟩, CodeInline := ⟨[]⟩, CodeBlock := ⟨[]⟩, Quote := ⟨[]⟩,
                ListMarker := ⟨[]⟩, LinkText := ⟨[]⟩, LinkURL := ⟨[]⟩, ThematicBreak := ⟨[]⟩ },
    osc8 := false, frontMatter := { passthrough := false, probe := [] },
    lineBuf := [], lineBytes := [], lineDecided := false, lineEmitIdx := 0,
    lineIgnoreRest := false, lineSkipBreak := false, lineStyle := ⟨[]⟩, lineStyled := false,
    pendingBreaks := 0, hardBreakPending := false, immediateSpaces := [], inParagraph := false,
    quoteDepth := 0, quoteLazy := false, lastQuoteExplicit := false, prevQuoteDepth := 0,
    quoteListPrefixFirst := false, pendingQuoteBlank := false, pendingQuoteExplicit := false,
    pendingQuoteTrailingSpace := false, pendingQuotePrevDepth := 0, pendingQuoteDepth := 0,
    pendingQuoteListLen := 0, pendingQuoteListFirst := false, listStack := [],
    listPrefixLen := 0, listLazy := false, listItemFirstLine := false, seenLine := false,
    lineHasNonSpace := false, inCodeFence := false, fenceMarker := [], pendingCodeNL := false,
    inIndentCode := false, indentCode := 0, codePrevWidth := 0, codeLineDecided := false,
    codeLineIsCode := false, postCodeBreakSingle := false,
    inline := { inCode := false, codeFence := 0, codeBuf := [], pendingBackticks := 0,
                inEm := false, inStrong := false, inLink := false, inLinkURL := false,
                inAutoLink := false, inEntity := false, pendingNumUS := false,
                lastWasDigit := false, pendingDelim := 0, pendingCount := 0,
                pendingClose := false, linkText := [], linkURL := [], autoLink := [],
                entity := [] } }

/-- Go: `liveParser.Reset`: every field it assigns.  It leaves
`pendingQuoteDepth`, `pendingQuoteListLen` and `pendingQuoteListFirst` as they
are. -/
def liveParser.Reset (p : liveParser) (styles : Styles) (osc8 : Bool) : liveParser :=
  { p with
    styles := styles, osc8 := osc8, frontMatter := p.frontMatter.reset,
    lineBuf := [], lineBytes := [], lineDecided := false, lineEmitIdx := 0,
    lineIgnoreRest := false, lineSkipBreak := false, lineStyle := ⟨[]⟩, lineStyled := false,
    pendingBreaks := 0, hardBreakPending := false, immediateSpaces := [], inParagraph := false,
    quoteDepth := 0, quoteLazy := false, lastQuoteExplicit := false,
    pendingQuoteBlank := false, pendingQuoteExplicit := false,
    pendingQuoteTrailingSpace := false, pendingQuotePrevDepth := 0, prevQuoteDepth := 0,
    quoteListPrefixFirst := false, listStack := [], listPrefixLen := 0, listLazy := false,
    listItemFirstLine := false, seenLine := false, lineHasNonSpace := false,
    inCodeFence := false, fenceMarker := [], pendingCodeNL := false, inIndentCode := false,
    indentCode := 0, codePrevWidth := 0, codeLineDecided := false, codeLineIsCode := false,
    postCodeBreakSingle := false, inline := p.inline.reset }

/-- Go: `liveParser.resetLine`. -/
def liveParser.resetLine (p : liveParser) : liveParser :=
  { p with lineBuf := [], lineBytes := [], lineDecided := false, lineEmitIdx := 0,
           lineIgnoreRest := false, lineSkipBreak := false, immediateSpaces := [],
           lineHasNonSpace := false, codeLineDecided := false, codeLineIsCode := false,
           quoteListPrefixFirst := false }

/-! ## `live_parser.go`: pure helpers -/

/-- Go: `isPotentialBlockStart`. -/
def isPotentialBlockStart (r : Nat) : Bool :=
  if r = 0x23 ∨ r = 0x2D ∨ r = 0x2B ∨ r = 0x2A ∨ r = 0x60 ∨ r = 0x7E ∨ r = 0x3E then true
  else 0x30 ≤ r && r ≤ 0x39

/-- Go: `shouldAttemptDecision`. -/
def shouldAttemptDecision (line : List Nat) : Bool :=
  if line.length < 2 then false
  else
    let last := line.getD (line.length - 1) 0
    if last = 32 ∨ last = 9 then true else !isPotentialBlockStart last

/-- Go: `isSpace`. -/
def isSpace (b : Nat) : Bool := b == 32 || b == 9

/-- Go: `countSpaces`; count and index are equal. -/
def countSpaces (s : List Nat) : Nat := (s.takeWhile isSpace).length

/-- Loop of `leadingIndentCount`: the count and the index reached. -/
def leadingIndentLoop : List Nat → Nat → Nat → Nat × Nat
  | [], count, i => (count, i)
  | b :: t, count, i =>
    if b = 32 then leadingIndentLoop t (count + 1) (i + 1)
    else if b = 9 then leadingIndentLoop t (count + 4) (i + 1)
    else (count, i)

/-- Go: `leadingIndentCount`. -/
def leadingIndentCount (s : List Nat) : Nat × Nat := leadingIndentLoop s 0 0

/-- Go: `leadingIndentCountBytes`. -/
def leadingIndentCountBytes (s : List Nat) : Nat := (leadingIndentCount s).1

/-- Go: `trimIndent`; `count` may fall below zero on a tab. -/
def trimIndent : List Nat → Int → List Nat
  | [], _ => []
  | b :: t, count =>
    if count > 0 then
      if b = 32 then trimIndent t (count - 1)
      else if b = 9 then trimIndent t (count - 4)
      else b :: t
    else b :: t

/-- Loop of `parseQuotePrefix` over `line[j:]`: the depth and the rest. -/
def quotePrefixLoop : Nat → List Nat → Nat → Nat × List Nat
  | 0, s, depth => (depth, s)
  | fuel + 1, s, depth =>
    match s with
    | [] => (depth, s)
    | b :: t =>
      if b = 0x3E then
        match t with
        | [] => quotePrefixLoop fuel t (depth + 1)
        | c :: u =>
          if c = 32 ∨ c = 9 then quotePrefixLoop fuel u (depth + 1)
          else quotePrefixLoop fuel t (depth + 1)
      else (depth, s)

/-- Go: `parseQuotePrefix`: depth, rest and `explicit`. -/
def parseQuotePrefix (line : List Nat) : Nat × List Nat × Bool :=
  let s := line.dropWhile isSpace
  let r := quotePrefixLoop s.length s 0
  if r.1 = 0 then (0, line, false) else (r.1, r.2, true)

/-- Loop of `quoteLineHasTrailingSpace`: depth and `lastHadSpace`. -/
def quoteTrailingLoop : Nat → List Nat → Nat → Bool → Nat × Bool
  | 0, _, depth, l => (depth, l)
  | fuel + 1, s, depth, l =>
    match s with
    | [] => (depth, l)
    | b :: t =>
      if b = 0x3E then
        match t with
        | [] => quoteTrailingLoop fuel t (depth + 1) false
        | c :: u =>
          if c = 32 ∨ c = 9 then quoteTrailingLoop fuel u (depth + 1) true
          else quoteTrailingLoop fuel t (depth + 1) false
      else (depth, l)

/-- Go: `quoteLineHasTrailingSpace`. -/
def quoteLineHasTrailingSpace (line : List Nat) : Bool :=
  let s := line.dropWhile isSpace
  let r := quoteTrailingLoop s.length s 0 false
  if r.1 = 0 then false else r.2

/-- The result of `parseListMarker` when `ok`. -/
structure listMarker where
  ordered : Bool
  marker : Nat
  number : Int
  markerLen : Nat
  padding : Nat
  content : List Nat
deriving DecidableEq, Repr

/-- The loop `num = num*10 + int(text[j]-'0')` of `parseListMarker`, in 64-bit
arithmetic. -/
def digitsValue : List Nat → Int → Int
  | [], num => num
  | d :: t, num => digitsValue t (wrap64 (num * 10 + ((d : Int) - 0x30)))

/-- Go: `parseListMarker`; `none` stands for `ok == false`. -/
def parseListMarker (text : List Nat) : Option listMarker :=
  if text = [] then none
  else if text.getD 0 0 = 0x2D ∨ text.getD 0 0 = 0x2B ∨ text.getD 0 0 = 0x2A then
    if text.length < 2 ∨ !isSpace (text.getD 1 0) then none
    else
      let padding := countSpaces (text.drop 1)
      if padding = 0 then none
      else some { ordered := false, marker := text.getD 0 0, number := 0, markerLen := 1,
                  padding := padding, content := text.drop (1 + padding) }
  else
    let i := (text.takeWhile (fun b => 0x30 ≤ b && b ≤ 0x39)).length
    if i = 0 ∨ i ≥ text.length then none
    else if text.getD i 0 ≠ 0x2E ∧ text.getD i 0 ≠ 0x29 then none
    else if i + 1 ≥ text.length ∨ !isSpace (text.getD (i + 1) 0) then none
    else
      let num := digitsValue (text.take i) 0
      let padding := countSpaces (text.drop (i + 1))
      if padding = 0 then none
      else some { ordered := true, marker := text.getD i 0, number := num, markerLen := i + 1,
                  padding := padding, content := text.drop (i + 1 + padding) }

/-- Go: `parseHeading`: level and content; `none` stands for `ok == false`. -/
def parseHeading (text : List Nat) : Option (Nat × List Nat) :=
  if !HasPrefix text [0x23] then none
  else
    let level := (text.takeWhile (fun b => b == 0x23)).length
    if level = 0 ∨ level > 6 then none
    else if level ≥ text.length ∨ text.getD level 0 ≠ 32 then none
    else some (level, TrimSpace (text.drop (level + 1)))

/-- The fence markers. -/
def fenceBackticks : List Nat := [0x60, 0x60, 0x60]
def fenceTildes : List Nat := [0x7E, 0x7E, 0x7E]

/-- Go: `fenceMarker`; the empty string when there is none. -/
def fenceMarker (text : List Nat) : List Nat :=
  let trim := TrimSpace text
  if HasPrefix trim fenceBackticks then fenceBackticks
  else if HasPrefix trim fenceTildes then fenceTildes
  else []

/-- Go: `isMaybeFence`. -/
def isMaybeFence (text : List Nat) : Bool :=
  let trim := TrimSpace text
  if trim.length = 0 ∨ trim.length ≥ 3 then false
  else
    let ch := trim.getD 0 0
    if ch ≠ 0x60 ∧ ch ≠ 0x7E then false else trim.all (fun b => b == ch)

/-- Go: `isThematicBreak`. -/
def isThematicBreak (text : List Nat) : Bool :=
  let trim := TrimSpace text
  if trim.length < 3 then false
  else
    let ch := trim.getD 0 0
    if ch ≠ 0x2D ∧ ch ≠ 0x2A ∧ ch ≠ 0x5F then false else trim.all (fun b => b == ch)

/-- Go: `isMaybeThematicBreak`. -/
def isMaybeThematicBreak (text : List Nat) : Bool :=
  let trim := TrimSpace text
  if trim.length = 0 ∨ trim.length ≥ 3 then false
  else
    let ch := trim.getD 0 0
    if ch ≠ 0x2D ∧ ch ≠ 0x2A ∧ ch ≠ 0x5F then false else trim.all (fun b => b == ch)

/-- Go: `isMaybeListStart`. -/
def isMaybeListStart (text : List Nat) : Bool :=
  if text = [] then false
  else if text.getD 0 0 = 0x2D ∨ text.getD 0 0 = 0x2B ∨ text.getD 0 0 = 0x2A then
    if text.length = 1 then true
    else if text.getD 1 0 = 32 ∨ text.getD 1 0 = 9 then true
    else false
  else if 0x30 ≤ text.getD 0 0 ∧ text.getD 0 0 ≤ 0x39 then
    let i := (text.takeWhile (fun b => 0x30 ≤ b && b ≤ 0x39)).length
    if i = text.length then true
    else if i < text.length ∧ (text.getD i 0 = 0x2E ∨ text.getD i 0 = 0x29) then
      if i + 1 = text.length then true
      else if text.getD (i + 1) 0 = 32 ∨ text.getD (i + 1) 0 = 9 then true
      else false
    else false
  else false

/-- Go: `taskListExtraIndent`. -/
def taskListExtraIndent (content : List Nat) : Nat :=
  if content.length < 4 then 0
  else if content.getD 0 0 ≠ 0x5B ∨ content.getD 2 0 ≠ 0x5D ∨ content.getD 3 0 ≠ 32 then 0
  else if content.getD 1 0 = 32 ∨ content.getD 1 0 = 0x78 ∨ content.getD 1 0 = 0x58 then 4
  else 0

/-- Go: `hasHardLineBreak`. -/
def hasHardLineBreak (line : List Nat) : Bool :=
  (line.reverse.takeWhile (fun b => b == 32)).length ≥ 2

/-- Go: `combineStyles`. -/
def combineStyles (base extra : Style) : Style :=
  if base.Prefix = [] then extra
  else if extra.Prefix = [] then base
  else { Prefix := base.Prefix ++ extra.Prefix }

/-- Go: `isNBSPRunes`. -/
def isNBSPRunes (runes : List Nat) : Bool :=
  if runes.length ≠ 6 then false
  else if runes.getD 0 0 ≠ 0x26 ∨ runes.getD 5 0 ≠ 0x3B then false
  else
    (runes.getD 1 0 == 0x6E || runes.getD 1 0 == 0x4E) &&
    (runes.getD 2 0 == 0x62 || runes.getD 2 0 == 0x42) &&
    (runes.getD 3 0 == 0x73 || runes.getD 3 0 == 0x53) &&
    (runes.getD 4 0 == 0x70 || runes.getD 4 0 == 0x50)


/-- The value of a digit byte in `strconv.ParseUint` (255 for a byte that is no
digit or letter). -/
def digitValue (c : Nat) : Nat :=
  if 0x30 ≤ c ∧ c ≤ 0x39 then c - 0x30
  else if 0x61 ≤ c ∧ c ≤ 0x7A then c - 0x61 + 10
  else if 0x41 ≤ c ∧ c ≤ 0x5A then c - 0x41 + 10
  else 255

/-- The digits of `strconv.ParseUint` folded in the base; `none` on a byte
that is no digit of the base. -/
def parseDigits (base : Nat) : List Nat → Nat → Option Nat
  | [], acc => some acc
  | c :: t, acc => if digitValue c < base then parseDigits base t (acc * base + digitValue c)
    else none

/-- The function `strconv.ParseInt(s, base, 32)` for base 10 or 16: an
optional sign and digits of the base, the value within 32 bits; `none` stands
for an error. -/
def ParseInt32 (s : List Nat) (base : Nat) : Option Int :=
  if s = [] then none
  else
    let neg := s.getD 0 0 = 0x2D
    let body := if s.getD 0 0 = 0x2B ∨ s.getD 0 0 = 0x2D then s.drop 1 else s
    if body = [] then none
    else
      match parseDigits base body 0 with
      | none => none
      | some un =>
        if !neg ∧ un ≥ 2 ^ 31 then none
        else if neg ∧ un > 2 ^ 31 then none
        else some (if neg then -(un : Int) else (un : Int))

/-- The function `bytes.EqualFold(body, "nbsp")`: equality under simple case
folding, where `s`, `S` and U+017F fold together. -/
def equalFoldNbsp (body : List Nat) : Bool :=
  let rs := runesOf body
  rs.length == 4 &&
  (rs.getD 0 0 == 0x6E || rs.getD 0 0 == 0x4E) &&
  (rs.getD 1 0 == 0x62 || rs.getD 1 0 == 0x42) &&
  (rs.getD 2 0 == 0x73 || rs.getD 2 0 == 0x53 || rs.getD 2 0 == 0x17F) &&
  (rs.getD 3 0 == 0x70 || rs.getD 3 0 == 0x50)

/-- Go: `decodeEntity`; `none` stands for `ok == false`. -/
def decodeEntity (buf : List Nat) : Option Nat :=
  if buf.length < 3 ∨ buf.getD 0 0 ≠ 0x26 ∨ buf.getD (buf.length - 1) 0 ≠ 0x3B then none
  else
    let body := (buf.drop 1).take (buf.length - 2)
    if body.length = 0 then none
    else if body.getD 0 0 = 0x23 then
      if body.length < 2 then none
      else
        let hex := decide (body.length > 2) && (body.getD 1 0 == 0x78 || body.getD 1 0 == 0x58)
        let start := if hex then 2 else 1
        let base := if hex then 16 else 10
        if start ≥ body.length then none
        else
          match ParseInt32 (body.drop start) base with
          | none => none
          | some val =>
            if val < 0 ∨ val > 0x10FFFF then none
            else if val ≥ 0xD800 ∧ val ≤ 0xDFFF then none
            else if val = 160 then some 0xA0
            else some val.toNat
    else if equalFoldNbsp body then some 0xA0
    else none

/-- The function `strings.ContainsAny(text, " \t\r\n")`. -/
def containsBlank (text : List Nat) : Bool :=
  text.any (fun b => b == 32 || b == 9 || b == 13 || b == 10)

/-- Go: `isEmailAutolink`. -/
def isEmailAutolink (text : List Nat) : Bool :=
  if text = [] ∨ containsBlank text then false
  else if Contains text [0x3A, 0x2F, 0x2F] ∨ Contains text [0x3A] then false
  else
    match IndexByte text 0x40 with
    | none => false
    | some at_ =>
      if at_ = 0 ∨ at_ = text.length - 1 then false
      else if text.count 0x40 ≠ 1 then false
      else true

/-- Go: `isScheme`. -/
def isScheme (s : List Nat) : Bool :=
  let rs := runesOf s
  let letter := fun (r : Nat) => (0x61 ≤ r && r ≤ 0x7A) || (0x41 ≤ r && r ≤ 0x5A)
  match rs with
  | [] => false
  | r0 :: rest =>
    letter r0 && rest.all (fun r => letter r || (0x30 ≤ r && r ≤ 0x39) || r == 0x2B ||
      r == 0x2D || r == 0x2E)

/-- Go: `isSchemeAutolink`. -/
def isSchemeAutolink (text : List Nat) : Bool :=
  if text = [] ∨ containsBlank text then false
  else
    match IndexByte text 0x3A with
    | none => false
    | some colon => if colon = 0 then false else isScheme (text.take colon)

/-- The function `strconv.Itoa` for a 64-bit value. -/
def Itoa (n : Int) : List Nat :=
  if n < 0 then 0x2D :: (Nat.toDigits 10 n.natAbs).map Char.toNat
  else (Nat.toDigits 10 n.toNat).map Char.toNat

/-- Go: `liveParser.orderedMarkerText` (the tables `orderedMarkerDot` and
`orderedMarkerParen` hold `Itoa(i)` followed by the delimiter). -/
def orderedMarkerText (num : Int) (marker : Nat) : List Nat :=
  if num ≥ 0 ∧ num ≤ maxOrderedMarker ∧ marker = 0x2E then Itoa num ++ [0x2E]
  else if num ≥ 0 ∧ num ≤ maxOrderedMarker ∧ marker = 0x29 then Itoa num ++ [0x29]
  else Itoa num ++ [marker % 256]

/-- Go: `liveParser.spaces` (the arena only stores the result). -/
def spaces (count : Int) : List Nat := if count ≤ 0 then [] else spaceRun count.toNat

/-- Go: `liveParser.runeTokenText`. -/
def runeTokenText (r : Nat) : List Nat := if r < 128 then asciiRuneStrings r else EncodeRune r

/-- One quote marker of a wrap indent: the quote style, `>`, the reset and
a space. -/
def quoteMarkerBytes (styles : Styles) : List Nat :=
  (if styles.Quote.Prefix ≠ [] then styles.Quote.Prefix else []) ++ [0x3E] ++
  (if styles.Quote.Prefix ≠ [] then ansiReset else []) ++ [32]

/-- Go: `liveParser.quoteWrapIndent`. -/
def quoteWrapIndent (styles : Styles) (depth : Nat) (listPrefixLen : Int) : List Nat :=
  (List.replicate depth (quoteMarkerBytes styles)).flatten ++
  (if listPrefixLen > 0 then spaceRun listPrefixLen.toNat else [])

/-- Go: `liveParser.quoteWrapIndentListFirst`. -/
def quoteWrapIndentListFirst (styles : Styles) (depth : Nat) (listPrefixLen : Int) : List Nat :=
  (if listPrefixLen > 0 then spaceRun listPrefixLen.toNat else []) ++
  (List.replicate depth (quoteMarkerBytes styles)).flatten

/-- Go: `liveParser.popList`. -/
def liveParser.popList (p : liveParser) : liveParser :=
  if p.listStack.length = 0 then p
  else
    let last := p.listStack.getD (p.listStack.length - 1) ⟨0, false, 0, 0, 0, 0, 0⟩
    let p := { p with listStack := p.listStack.take (p.listStack.length - 1) }
    if last.prefixLen ≤ p.listPrefixLen then
      { p with listPrefixLen := p.listPrefixLen - last.prefixLen }
    else { p with listPrefixLen := 0 }

/-- The top frame `p.listStack[len(p.listStack)-1]`. -/
def liveParser.top (p : liveParser) : listState :=
  p.listStack.getD (p.listStack.length - 1) ⟨0, false, 0, 0, 0, 0, 0⟩

/-- The assignment `p.listStack[len(p.listStack)-1] = st`. -/
def liveParser.setTop (p : liveParser) (st : listState) : liveParser :=
  { p with listStack := p.listStack.take (p.listStack.length - 1) ++ [st] }

/-- Go: `liveParser.listParentPrefixLen`. -/
def liveParser.listParentPrefixLen (p : liveParser) : Nat :=
  if p.listStack.length = 0 then 0
  else if p.listPrefixLen ≤ p.top.prefixLen then 0
  else p.listPrefixLen - p.top.prefixLen

/-- First loop of `updateList`: frames indented deeper than the marker are
popped. -/
def liveParser.popDeeper : Nat → liveParser → Nat → liveParser
  | 0, p, _ => p
  | fuel + 1, p, indent =>
    if p.listStack.length > 0 ∧ indent < p.top.indent then
      liveParser.popDeeper fuel p.popList indent
    else p

/-- Go: `liveParser.updateList`: the parser afterwards, the parent prefix
length and the top frame. -/
def liveParser.updateList (p : liveParser) (indent : Nat) (ordered : Bool) (marker : Nat)
    (start : Int) (markerLen padding : Nat) : liveParser × Nat × listState :=
  let p := liveParser.popDeeper p.listStack.length p indent
  let p :=
    if p.listStack.length = 0 ∨ indent > p.top.indent ∨ p.top.ordered ≠ ordered ∨
        (ordered ∧ p.top.marker ≠ marker) then
      let p := if p.listStack.length > 0 ∧ indent = p.top.indent then p.popList else p
      let state : listState :=
        { indent := indent, ordered := ordered, marker := marker, next := start,
          contentIndent := markerLen + padding, prefixLen := markerLen + 1,
          itemIndentExtra := 0 }
      { p with listStack := p.listStack ++ [state],
               listPrefixLen := p.listPrefixLen + state.prefixLen }
    else p
  (p, p.listParentPrefixLen, p.top)

/-- Go: `liveParser.inListContinuation`. -/
def liveParser.inListContinuation (p : liveParser) (indent : Nat) (trimmed : List Nat)
    (explicitQuote : Bool) (lineIndent : Nat) : Bool :=
  if p.listStack.length = 0 then false
  else if explicitQuote ∧ lineIndent > 0 then false
  else if HasPrefix (TrimLeft trimmed [32, 9]) [0x3E] then false
  else if indent ≥ p.top.contentIndent + p.top.itemIndentExtra then true
  else if p.listLazy ∧ TrimSpace trimmed ≠ [] then true
  else false

/-- Go: `liveParser.trimListIndent`. -/
def liveParser.trimListIndent (p : liveParser) (text : List Nat) : List Nat :=
  if p.listStack.length = 0 then TrimLeft text [32, 9]
  else if (leadingIndentCount text).1 ≥ p.top.contentIndent + p.top.itemIndentExtra then
    TrimLeft (trimIndent text (p.top.contentIndent + p.top.itemIndentExtra : Nat)) [32, 9]
  else TrimLeft text [32, 9]

/-- Go: `liveParser.clearListIfOutdented`. -/
def liveParser.clearListIfOutdented (p : liveParser) (indent : Nat) : liveParser :=
  if p.listStack.length = 0 then p
  else if !p.listLazy ∧ indent ≤ p.top.indent then { p with listStack := [], listPrefixLen := 0 }
  else p

/-- Go: `liveParser.flushPendingDelims`. -/
def liveParser.flushPendingDelims (p : liveParser) : liveParser :=
  if p.inline.pendingCount = 0 then p
  else
    let i := p.inline
    let i := if i.pendingCount ≥ 2 then
      { i with inStrong := !i.inStrong, pendingCount := i.pendingCount - 2 } else i
    let i := if i.pendingCount ≥ 1 then { i with inEm := !i.inEm, pendingCount := 0 } else i
    { p with inline := { i with pendingDelim := 0 } }

/-- Go: `liveParser.inlineStyle`. -/
def liveParser.inlineStyle (p : liveParser) : Style × tokenKind :=
  let sk : Style × tokenKind :=
    if p.inline.inCode then (p.styles.CodeInline, tokenCode)
    else if p.inline.inEm ∧ p.inline.inStrong then (p.styles.EmphasisStrong, tokenText)
    else if p.inline.inStrong then (p.styles.Strong, tokenText)
    else if p.inline.inEm then (p.styles.Emphasis, tokenText)
    else if p.lineStyled then (p.lineStyle, tokenText)
    else (p.styles.Text, tokenText)
  if p.lineStyled ∧ sk.1.Prefix ≠ p.lineStyle.Prefix ∧ sk.1.Prefix ≠ p.styles.Text.Prefix then
    (combineStyles p.lineStyle sk.1, sk.2)
  else sk

/-- Go: `liveParser.emphasisStyle`. -/
def liveParser.emphasisStyle (p : liveParser) (inEm inStrong : Bool) : Style :=
  if inEm ∧ inStrong then p.styles.EmphasisStrong
  else if inStrong then p.styles.Strong
  else if inEm then p.styles.Emphasis
  else ⟨[]⟩

/-- Go: `linkInlineState`. -/
structure linkInlineState where
  inEm : Bool
  inStrong : Bool
  pendingDelim : Nat
  pendingCount : Nat
deriving DecidableEq, Repr

/-- Go: `linkInlineState.flushPending`. -/
def linkInlineState.flushPending (s : linkInlineState) : linkInlineState :=
  if s.pendingCount = 0 then s
  else
    let s := if s.pendingCount ≥ 2 then
      { s with inStrong := !s.inStrong, pendingCount := s.pendingCount - 2 } else s
    let s := if s.pendingCount ≥ 1 then { s with inEm := !s.inEm, pendingCount := 0 } else s
    { s with pendingDelim := 0 }


/-! ## `stream_sink.go` and the parser's actions -/

/-- Go: the interface `Stream`, over a sink state `σ`; the flag of
`WriteToken` and `Flush` is the returned error. -/
structure Stream (σ : Type) where
  WriteToken : σ → StreamToken → σ × Bool
  Flush : σ → σ × Bool
  Width : σ → Int
  SetWidth : σ → Int → σ
  SetWrapIndent : σ → List Nat → σ

/-- How a parser function ends: normally with a value, by returning an error,
by an out of range slice, or because the model's bound on nested line replays
is used up. -/
inductive Res (α : Type) where
  | ok (a : α)
  | err
  | panic
  | fuelOut
deriving DecidableEq, Repr

/-- The parser together with the sink it writes to. -/
structure PState (σ : Type) where
  p : liveParser
  st : σ

/-- A parser method: it changes parser and sink and ends as `Res` tells. -/
def PM (σ : Type) (α : Type) : Type := PState σ → Res α × PState σ

/-- Sequencing: an ending other than `ok` ends the whole method. -/
def PM.bind {σ α β : Type} (m : PM σ α) (f : α → PM σ β) : PM σ β := fun x =>
  match m x with
  | (Res.ok a, x1) => f a x1
  | (Res.err, x1) => (Res.err, x1)
  | (Res.panic, x1) => (Res.panic, x1)
  | (Res.fuelOut, x1) => (Res.fuelOut, x1)

instance {σ : Type} : Monad (PM σ) where
  pure a := fun x => (Res.ok a, x)
  bind := PM.bind

/-- The parser `p`. -/
def getP {σ : Type} : PM σ liveParser := fun x => (Res.ok x.p, x)

/-- An assignment to fields of the parser. -/
def modifyP {σ : Type} (f : liveParser → liveParser) : PM σ Unit := fun x =>
  (Res.ok (), { x with p := f x.p })

/-- An assignment to fields of `p.inline`. -/
def modifyInline {σ : Type} (f : inlineState → inlineState) : PM σ Unit :=
  modifyP (fun p => { p with inline := f p.inline })

/-- Go: `if err := stream.WriteToken(tok); err != nil { return err }`. -/
def writeToken {σ : Type} (S : Stream σ) (tok : StreamToken) : PM σ Unit := fun x =>
  let r := S.WriteToken x.st tok
  (if r.2 then Res.err else Res.ok (), { x with st := r.1 })

/-- Go: `_ = stream.WriteToken(tok)`: the error is discarded. -/
def writeTokenIgnore {σ : Type} (S : Stream σ) (tok : StreamToken) : PM σ Unit := fun x =>
  (Res.ok (), { x with st := (S.WriteToken x.st tok).1 })

/-- Go: `stream.SetWrapIndent(indent)`. -/
def setWrapIndent {σ : Type} (S : Stream σ) (indent : List Nat) : PM σ Unit := fun x =>
  (Res.ok (), { x with st := S.SetWrapIndent x.st indent })

/-- Go: `_ = f(...)` for a parser method: an error is discarded, the other
endings are kept. -/
def ignoreErr {σ : Type} (m : PM σ Unit) : PM σ Unit := fun x =>
  match m x with
  | (Res.err, x1) => (Res.ok (), x1)
  | r => r

/-- An out of range slice. -/
def panicNow {σ α : Type} : PM σ α := fun x => (Res.panic, x)

/-- The replay bound of the model is used up. -/
def fuelOutNow {σ α : Type} : PM σ α := fun x => (Res.fuelOut, x)

/-- A text token `Token{Text: text, Style: style, Kind: kind}`. -/
def textTok (text : List Nat) (style : Style) (kind : tokenKind := tokenText) : StreamToken :=
  { Text := text, Style := style, Kind := kind }

/-- The token `Token{Text: "\n", Style: Style{}, Kind: tokenText}`. -/
def newlineTok : StreamToken := { Text := [10], Style := ⟨[]⟩, Kind := tokenText }

/-- Go: `liveParser.applyPendingBreak`. -/
def applyPendingBreak {σ : Type} (S : Stream σ) (mode : breakMode) : PM σ Unit := do
  let p ← getP
  if p.pendingBreaks = 0 then pure ()
  else
    let mode := if p.pendingBreaks ≥ 2 then breakDouble else mode
    let mode := if p.hardBreakPending ∧ mode = breakSpace then breakSingle else mode
    let mode := if p.postCodeBreakSingle ∧ mode = breakDouble then breakSingle else mode
    modifyP (fun p => { p with pendingBreaks := 0, hardBreakPending := false,
                               postCodeBreakSingle := false })
    match mode with
    | breakDouble => writeToken S { Text := [10, 10], Style := ⟨[]⟩, Kind := tokenText }
    | breakSingle => writeToken S newlineTok
    | breakSpace =>
      let sk := (← getP).inlineStyle
      writeToken S (textTok [32] sk.1 sk.2)

/-- Go: `liveParser.emitQuotePrefix`. -/
def emitQuotePrefix {σ : Type} (S : Stream σ) : Nat → PM σ Unit
  | 0 => pure ()
  | n + 1 => do
    writeToken S (textTok [0x3E] (← getP).styles.Quote)
    writeToken S (textTok [32] (← getP).styles.Text)
    emitQuotePrefix S n

/-- Go: `liveParser.emitQuotePrefixBare`. -/
def emitQuotePrefixBare {σ : Type} (S : Stream σ) : Nat → PM σ Unit
  | 0 => pure ()
  | n + 1 => do
    writeToken S (textTok [0x3E] (← getP).styles.Quote)
    emitQuotePrefixBare S n

/-- Go: `liveParser.emitListPrefix`. -/
def emitListPrefix {σ : Type} (S : Stream σ) (listPrefixLen : Nat) : PM σ Unit := do
  if listPrefixLen = 0 then pure ()
  else writeToken S (textTok (spaces listPrefixLen) (← getP).styles.Text)

/-- Go: `liveParser.emitPrefix`. -/
def emitPrefix {σ : Type} (S : Stream σ) (quoteDepth listPrefixLen : Nat) : PM σ Unit := do
  if (← getP).quoteListPrefixFirst ∧ quoteDepth > 0 ∧ listPrefixLen > 0 then
    emitListPrefix S listPrefixLen
    emitQuotePrefix S quoteDepth
  else
    emitQuotePrefix S quoteDepth
    emitListPrefix S listPrefixLen
  if quoteDepth > 0 then
    let p ← getP
    if p.quoteListPrefixFirst ∧ listPrefixLen > 0 then
      setWrapIndent S (quoteWrapIndentListFirst p.styles quoteDepth listPrefixLen)
    else setWrapIndent S (quoteWrapIndent p.styles quoteDepth listPrefixLen)
  else pure ()

/-- The loop `for _, r := range text` that writes every rune as a token of its
own. -/
def writeRunes {σ : Type} (S : Stream σ) (style : Style) (kind : tokenKind) :
    List Nat → PM σ Unit
  | [] => pure ()
  | r :: rest => do
    writeToken S (textTok (runeTokenText r) style kind)
    writeRunes S style kind rest

/-- The function `strings.EqualFold(seg, "&nbsp;")` for a segment of six
bytes. -/
def equalFoldNbspEntity (seg : List Nat) : Bool :=
  ToLower seg == [0x26, 0x6E, 0x62, 0x73, 0x70, 0x3B]

/-- Go: `liveParser.emitStyledTextWithNBSP`, over `text[i:]`. -/
def emitStyledTextWithNBSP {σ : Type} (S : Stream σ) (style : Style) (kind : tokenKind) :
    Nat → List Nat → PM σ Unit
  | 0, _ => pure ()
  | fuel + 1, text =>
    if text.length = 0 then pure ()
    else if text.getD 0 0 = 0x26 ∧ 6 ≤ text.length ∧ equalFoldNbspEntity (text.take 6) then do
      writeToken S (textTok (runeTokenText 0xA0) style kind)
      emitStyledTextWithNBSP S style kind fuel (text.drop 6)
    else do
      let d := DecodeRune text
      let r := if d.1 = RuneError ∧ d.2 = 1 then text.getD 0 0 else d.1
      let size := if d.1 = RuneError ∧ d.2 = 1 then 1 else d.2
      writeToken S (textTok (runeTokenText r) style kind)
      emitStyledTextWithNBSP S style kind fuel (text.drop size)

/-- Go: `liveParser.emitStyledText`. -/
def emitStyledText {σ : Type} (S : Stream σ) (text : List Nat) : PM σ Unit := do
  if text = [] then pure ()
  else
    let sk := (← getP).inlineStyle
    if sk.2 ≠ tokenCode ∧ Contains text [0x26] then
      emitStyledTextWithNBSP S sk.1 sk.2 text.length text
    else writeRunes S sk.1 sk.2 (runesOf text)

/-- Go: `liveParser.emitAutoLink`. -/
def emitAutoLink {σ : Type} (S : Stream σ) (text : List Nat) : PM σ Unit := do
  if text = [] then emitStyledText S [0x3C, 0x3E]
  else if isEmailAutolink text ∨ isSchemeAutolink text then
    let link := if isEmailAutolink text then [0x6D, 0x61, 0x69, 0x6C, 0x74, 0x6F, 0x3A] ++ text
      else text
    let p ← getP
    if p.osc8 then writeToken S { Kind := tokenLinkStart, LinkURL := link } else pure ()
    writeRunes S p.styles.LinkText tokenURL (runesOf text)
    if p.osc8 then writeToken S { Kind := tokenLinkEnd } else pure ()
  else emitStyledText S ([0x3C] ++ text ++ [0x3E])

/-- Go: `liveParser.emitInlineBackticks`. -/
def emitInlineBackticks {σ : Type} (S : Stream σ) (count : Nat) : PM σ Unit := do
  if (← getP).inline.pendingCount > 0 ∧ (← getP).inline.pendingDelim ≠ 0x60 then
    modifyP liveParser.flushPendingDelims
  else pure ()
  let p ← getP
  if !p.inline.inCode then
    modifyInline (fun i => { i with inCode := true, codeFence := count, codeBuf := [] })
  else if count = p.inline.codeFence then
    let text := p.inline.codeBuf
    modifyInline (fun i => { i with inCode := false, codeFence := 0, codeBuf := [] })
    let text :=
      if text.length ≥ 2 ∧ text.getD 0 0 = 32 ∧ text.getD (text.length - 1) 0 = 32 then
        (text.drop 1).take (text.length - 2)
      else text
    if text ≠ [] then writeToken S (textTok text p.styles.CodeInline tokenCode) else pure ()
  else
    modifyInline (fun i => { i with codeBuf := i.codeBuf ++ List.replicate count 0x60 })

/-- Go: the loop of `liveParser.emitLinkText` over the runes of the text. -/
def emitLinkTextLoop {σ : Type} (S : Stream σ) (baseLine outerEmph : Style) :
    List Nat → linkInlineState → PM σ Unit
  | [], _ => pure ()
  | r :: rest, state =>
    if r = 0x2A ∨ r = 0x5F then
      if state.pendingDelim = r then
        emitLinkTextLoop S baseLine outerEmph rest
          { state with pendingCount := state.pendingCount + 1 }
      else
        emitLinkTextLoop S baseLine outerEmph rest
          { state.flushPending with pendingDelim := r, pendingCount := 1 }
    else do
      let state := if state.pendingCount > 0 ∧ r ≠ state.pendingDelim then state.flushPending
        else state
      let p ← getP
      let innerEmph := p.emphasisStyle state.inEm state.inStrong
      let style := combineStyles (combineStyles (combineStyles baseLine outerEmph)
        p.styles.LinkText) innerEmph
      writeToken S (textTok (runeTokenText r) style tokenText)
      emitLinkTextLoop S baseLine outerEmph rest state

/-- Go: `liveParser.emitLinkText`. -/
def emitLinkText {σ : Type} (S : Stream σ) (text : List Nat) : PM σ Unit := do
  let p ← getP
  let baseLine : Style := if p.lineStyled then p.lineStyle else ⟨[]⟩
  let outerEmph := p.emphasisStyle p.inline.inEm p.inline.inStrong
  emitLinkTextLoop S baseLine outerEmph (runesOf text)
    { inEm := false, inStrong := false, pendingDelim := 0, pendingCount := 0 }

/-- Go: `liveParser.emitLink`. -/
def emitLink {σ : Type} (S : Stream σ) : PM σ Unit := do
  let p ← getP
  let text := p.inline.linkText
  let url := p.inline.linkURL
  modifyInline (fun i => { i with inLink := false, inLinkURL := false, pendingClose := false,
                                  linkText := [], linkURL := [] })
  if p.osc8 ∧ url ≠ [] then
    writeToken S { Kind := tokenLinkStart, LinkURL := url }
    emitLinkText S text
    writeToken S { Kind := tokenLinkEnd }
  else
    emitLinkText S text
    if url ≠ [] then
      writeToken S (textTok [32, 0x28] p.styles.Text)
      writeToken S (textTok url p.styles.LinkURL tokenURL)
      writeToken S (textTok [0x29] p.styles.Text)
    else pure ()


/-- The literal fallback of an unfinished link text: `[`, the text and `]`,
written with `_ = stream.WriteToken(...)`, and the link state cleared. -/
def emitLinkFallback {σ : Type} (S : Stream σ) : PM σ Unit := do
  let p ← getP
  writeTokenIgnore S (textTok [0x5B] p.styles.Text)
  writeTokenIgnore S (textTok p.inline.linkText p.styles.Text)
  writeTokenIgnore S (textTok [0x5D] p.styles.Text)
  modifyInline (fun i => { i with inLink := false, linkText := [], linkURL := [] })

/-- Go: `emitInline`, the part on `p.inline.pendingNumUS`. -/
def emitInlineNumUS {σ : Type} (S : Stream σ) (r : Nat) : PM σ Unit := do
  if (← getP).inline.pendingNumUS then
    modifyInline (fun i => { i with pendingNumUS := false })
    let p ← getP
    let sk := p.inlineStyle
    if 0x30 ≤ r ∧ r ≤ 0x39 ∧ !p.inline.inCode ∧ !p.inline.inLink ∧ !p.inline.inLinkURL ∧
        !p.inline.inAutoLink then
      writeToken S (textTok [0xC2, 0xA0] sk.1 sk.2)
    else writeToken S (textTok [0x5F] sk.1 sk.2)
  else pure ()

/-- Go: `emitInline`, the part on `p.inline.inAutoLink`; `true` when the
function has returned. -/
def emitInlineAutoLink {σ : Type} (S : Stream σ) (r : Nat) : PM σ Bool := do
  let p ← getP
  if p.inline.inAutoLink then
    if r = 0x3E then
      let text := p.inline.autoLink
      modifyInline (fun i => { i with autoLink := [], inAutoLink := false })
      emitAutoLink S text
      pure true
    else if r = 10 ∨ r = 32 ∨ r = 9 then
      let text := [0x3C] ++ p.inline.autoLink
      modifyInline (fun i => { i with autoLink := [], inAutoLink := false })
      emitStyledText S text
      pure false
    else
      modifyInline (fun i => { i with lastWasDigit := false,
                                      autoLink := i.autoLink ++ EncodeRune r })
      pure true
  else pure false

/-- Go: `emitInline`, the part on `p.inline.inEntity`; `true` when the
function has returned. -/
def emitInlineEntity {σ : Type} (S : Stream σ) (r : Nat) : PM σ Bool := do
  let p ← getP
  if p.inline.inEntity then
    if r = 0x3B then
      let entity := p.inline.entity ++ [0x3B]
      modifyInline (fun i => { i with inEntity := false, entity := [] })
      match decodeEntity entity with
      | some ent =>
        emitStyledText S (runeTokenText ent)
        pure true
      | none =>
        emitStyledText S entity
        pure true
    else if r = 32 ∨ r = 9 ∨ r = 10 ∨ p.inline.entity.length ≥ maxEntityLen then
      let text := p.inline.entity
      modifyInline (fun i => { i with inEntity := false, entity := [] })
      emitStyledText S text
      pure false
    else
      modifyInline (fun i => { i with entity := i.entity ++ EncodeRune r })
      pure true
  else pure false

/-- Go: `emitInline`, the part on `p.lineDecided` and `p.immediateSpaces`;
`true` when the function has returned. -/
def emitInlineSpaces {σ : Type} (S : Stream σ) (r : Nat) : PM σ Bool := do
  let p ← getP
  if p.lineDecided then
    if r = 32 ∨ r = 9 then
      if p.inline.pendingBackticks = 0 ∧ !p.inline.inCode ∧ !p.inline.inLink ∧
          !p.inline.inLinkURL then
        modifyP (fun p => { p with immediateSpaces := p.immediateSpaces ++ [r] })
        pure true
      else pure false
    else if p.immediateSpaces.length > 0 then
      let sk := p.inlineStyle
      writeRunes S sk.1 sk.2 p.immediateSpaces
      modifyP (fun p => { p with immediateSpaces := [] })
      pure false
    else pure false
  else pure false

/-- Go: `emitInline`, the `switch r` on the delimiters and brackets; `true`
when the function has returned. -/
def emitInlineSwitch {σ : Type} (S : Stream σ) (r : Nat) : PM σ Bool := do
  let p ← getP
  if r = 0x2A ∨ r = 0x5F then
    if !p.inline.inCode ∧ !p.inline.inLink then
      if p.inline.pendingDelim = r then
        modifyInline (fun i => { i with pendingCount := i.pendingCount + 1 })
      else modifyInline (fun i => { i with pendingDelim := r, pendingCount := 1 })
      pure true
    else pure false
  else if r = 0x5B then
    if !p.inline.inCode ∧ !p.inline.inLink then
      modifyInline (fun i => { i with inLink := true, linkText := [], linkURL := [] })
      pure true
    else pure false
  else if r = 0x5D then
    if p.inline.inLink ∧ !p.inline.inCode then
      modifyInline (fun i => { i with pendingClose := true })
      pure true
    else pure false
  else if r = 0x28 then
    if p.inline.inLink ∧ p.inline.pendingClose then
      modifyInline (fun i => { i with pendingClose := false, inLinkURL := true })
      pure true
    else pure false
  else if r = 0x29 then
    if p.inline.inLink ∧ p.inline.inLinkURL then
      emitLink S
      pure true
    else pure false
  else if r = 0x3C then
    if !p.inline.inCode then
      if p.inline.inLink ∧ !p.inline.inLinkURL ∧ !p.inline.pendingClose ∧
          p.inline.linkText.length = 0 then
        writeTokenIgnore S (textTok [0x5B] p.styles.Text)
        modifyInline (fun i => { i with inLink := false, linkText := [], linkURL := [],
                                        inAutoLink := true, autoLink := [] })
        pure true
      else if !p.inline.inLink then
        modifyInline (fun i => { i with inAutoLink := true, autoLink := [] })
        pure true
      else pure false
    else pure false
  else pure false

/-- Go: `emitInline`, the part on `p.inline.inLink` after the switch; `true`
when the function has returned. -/
def emitInlineLink {σ : Type} (S : Stream σ) (r : Nat) : PM σ Bool := do
  if (← getP).inline.inLink then
    if (← getP).inline.pendingClose then
      modifyInline (fun i => { i with pendingClose := false })
      if r ≠ 0x28 then emitLinkFallback S else pure ()
    else pure ()
    let p ← getP
    if p.inline.inLink ∧ p.inline.inLinkURL then
      modifyInline (fun i => { i with lastWasDigit := false,
                                      linkURL := i.linkURL ++ EncodeRune r })
      pure true
    else if p.inline.inLink then
      modifyInline (fun i => { i with lastWasDigit := false,
                                      linkText := i.linkText ++ EncodeRune r })
      pure true
    else pure false
  else pure false

/-- Go: `liveParser.emitInline`. -/
def emitInline {σ : Type} (S : Stream σ) (r : Nat) : PM σ Unit := do
  emitInlineNumUS S r
  if (← emitInlineAutoLink S r) then pure ()
  else if (← emitInlineEntity S r) then pure ()
  else
    if (← getP).inline.pendingCount > 0 ∧ r ≠ (← getP).inline.pendingDelim then
      modifyP liveParser.flushPendingDelims
    else pure ()
    if (← getP).inline.inLink ∧ (← getP).inline.pendingClose ∧ (r = 32 ∨ r = 9) then
      modifyInline (fun i => { i with pendingClose := false })
      emitLinkFallback S
    else pure ()
    if (← emitInlineSpaces S r) then pure ()
    else if r = 0x60 then
      modifyInline (fun i => { i with pendingBackticks := i.pendingBackticks + 1 })
    else
      if (← getP).inline.pendingBackticks > 0 then
        emitInlineBackticks S (← getP).inline.pendingBackticks
        modifyInline (fun i => { i with pendingBackticks := 0 })
      else pure ()
      let p ← getP
      if r = 0x26 ∧ !p.inline.inCode ∧ !p.inline.inAutoLink ∧ !p.inline.inLinkURL then
        modifyInline (fun i => { i with inEntity := true, entity := [0x26] })
      else if r = 0x5F ∧ p.inline.lastWasDigit ∧ !p.inline.inCode ∧ !p.inline.inLink ∧
          !p.inline.inLinkURL ∧ !p.inline.inAutoLink then
        modifyInline (fun i => { i with pendingNumUS := true, lastWasDigit := false })
      else if p.inline.inCode then
        modifyInline (fun i => { i with codeBuf := i.codeBuf ++ EncodeRune r,
                                        lastWasDigit := false })
      else if (← emitInlineSwitch S r) then pure ()
      else if (← emitInlineLink S r) then pure ()
      else
        let sk := (← getP).inlineStyle
        modifyInline (fun i => { i with lastWasDigit := decide (0x30 ≤ r) && decide (r ≤ 0x39) })
        writeToken S (textTok (runeTokenText r) sk.1 sk.2)

/-- The loop of `emitInlineRunes` from index `i`. -/
def emitInlineRunesLoop {σ : Type} (S : Stream σ) (runes : List Nat) : Nat → Nat → PM σ Unit
  | 0, _ => pure ()
  | fuel + 1, i =>
    if i < runes.length then do
      let r := runes.getD i 0
      let p ← getP
      if r = 0x5F ∧ i > 0 ∧ i + 1 < runes.length ∧ !p.inline.inCode ∧ !p.inline.inLink ∧
          !p.inline.inLinkURL ∧ !p.inline.inAutoLink ∧
          (0x30 ≤ runes.getD (i - 1) 0 ∧ runes.getD (i - 1) 0 ≤ 0x39 ∧
           0x30 ≤ runes.getD (i + 1) 0 ∧ runes.getD (i + 1) 0 ≤ 0x39) then
        emitInline S 0xA0
        emitInlineRunesLoop S runes fuel (i + 1)
      else if r = 0x26 ∧ !p.inline.inCode ∧ !p.inline.inAutoLink ∧ !p.inline.inLinkURL ∧
          i + 5 < runes.length ∧ isNBSPRunes ((runes.drop i).take 6) then
        emitInline S 0xA0
        emitInlineRunesLoop S runes fuel (i + 6)
      else
        emitInline S r
        emitInlineRunesLoop S runes fuel (i + 1)
    else pure ()

/-- Go: `liveParser.flushPendingEntity`. -/
def flushPendingEntity {σ : Type} (S : Stream σ) : PM σ Unit := do
  let p ← getP
  if !p.inline.inEntity ∨ p.inline.entity.length = 0 then pure ()
  else
    modifyInline (fun i => { i with inEntity := false, entity := [] })
    emitStyledText S p.inline.entity

/-- Go: `liveParser.emitInlineRunes`. -/
def emitInlineRunes {σ : Type} (S : Stream σ) (runes : List Nat) : PM σ Unit := do
  emitInlineRunesLoop S runes runes.length 0
  let p ← getP
  if p.inline.inEntity ∧ p.inline.entity.length > 0 then
    modifyInline (fun i => { i with inEntity := false, entity := [] })
    emitStyledText S p.inline.entity
  else pure ()
  modifyP (fun p => { p with lineEmitIdx := p.lineBuf.length })

/-- Go: `liveParser.flushPendingBackticks`. -/
def flushPendingBackticks {σ : Type} (S : Stream σ) : PM σ Unit := do
  if (← getP).inline.pendingBackticks = 0 then pure ()
  else
    emitInlineBackticks S (← getP).inline.pendingBackticks
    modifyInline (fun i => { i with pendingBackticks := 0 })

/-- Go: `liveParser.flushPendingNumUS`. -/
def flushPendingNumUS {σ : Type} (S : Stream σ) : PM σ Unit := do
  if !(← getP).inline.pendingNumUS then pure ()
  else
    modifyInline (fun i => { i with pendingNumUS := false })
    let sk := (← getP).inlineStyle
    writeToken S (textTok [0x5F] sk.1 sk.2)

/-- The slice `p.lineBuf[p.lineEmitIdx:]`; out of range is a panic. -/
def lineBufFrom {σ : Type} : PM σ (List Nat) := do
  let p ← getP
  if p.lineEmitIdx < 0 ∨ p.lineEmitIdx > p.lineBuf.length then panicNow
  else pure (p.lineBuf.drop p.lineEmitIdx.toNat)


/-! ## `live_parser.go`: block decisions -/

/-- Go: `liveParser.emitCodeLine`. -/
def emitCodeLine {σ : Type} (S : Stream σ) (line : List Nat) : PM σ Unit := do
  if (← getP).pendingCodeNL then writeToken S newlineTok else pure ()
  modifyP (fun p => { p with pendingCodeNL := true })
  emitPrefix S (← getP).quoteDepth (← getP).listPrefixLen
  if line = [] then pure ()
  else
    writeToken S { Text := line, Style := (← getP).styles.CodeBlock, Kind := tokenCode,
                   CodeBlock := true }

/-- Go: `liveParser.emitCodeRune`. -/
def emitCodeRune {σ : Type} (S : Stream σ) (r : Nat) : PM σ Unit := do
  writeToken S { Text := runeTokenText r, Style := (← getP).styles.CodeBlock, Kind := tokenCode,
                 CodeBlock := true }

/-- Go: `liveParser.processCodeFenceLine`. -/
def processCodeFenceLine {σ : Type} (S : Stream σ) (line : List Nat) : PM σ Unit := do
  let q := parseQuotePrefix line
  if q.2.2 then
    modifyP (fun p => { p with quoteDepth := q.1, quoteLazy := true, lastQuoteExplicit := true })
  else if (← getP).quoteDepth > 0 ∧ (← getP).quoteLazy then
    modifyP (fun p => { p with lastQuoteExplicit := false })
  else pure ()
  let trim := TrimSpace q.2.1
  let p ← getP
  if HasPrefix trim p.fenceMarker ∧ TrimSpace (trim.drop p.fenceMarker.length) = [] then
    modifyP (fun p => { p with inCodeFence := false, fenceMarker := [], pendingCodeNL := false,
                               pendingBreaks := p.pendingBreaks + 1 })
  else emitCodeLine S q.2.1

/-- The sequence that closes a pending blank quote line: a single break, the
list prefix when `listFirst` asks for it, the bare quote markers, a newline
token, and the break state cleared. -/
def emitBlankQuoteLine {σ : Type} (S : Stream σ) (listFirst : Bool) (listLen depth : Nat) :
    PM σ Unit := do
  if (← getP).pendingBreaks = 0 then modifyP (fun p => { p with pendingBreaks := 1 })
  else pure ()
  applyPendingBreak S breakSingle
  if listFirst ∧ listLen > 0 then emitListPrefix S listLen else pure ()
  emitQuotePrefixBare S depth
  writeToken S newlineTok
  modifyP (fun p => { p with pendingBreaks := 0, hardBreakPending := false,
                             inParagraph := false })

/-- The end of a block decision: `p.lineEmitIdx = len(p.lineBuf) -
utf8.RuneCountInString(content)` and `return p.emitInlineRunes(stream,
p.lineBuf[p.lineEmitIdx:])`. -/
def emitContent {σ : Type} (S : Stream σ) (content : List Nat) : PM σ Unit := do
  modifyP (fun p => { p with
    lineEmitIdx := (p.lineBuf.length : Int) - (RuneCountInString content : Int) })
  let runes ← lineBufFrom
  emitInlineRunes S runes

/-- Go: `liveParser.softBreakMode`. -/
def softBreakMode (_quoteDepth : Nat) : breakMode := breakSpace

/-- Go: `liveParser.decideParagraph`. -/
def decideParagraph {σ : Type} (S : Stream σ) (depth : Nat) (rest : List Nat)
    (blockStart : Bool) : PM σ Unit := do
  let p ← getP
  let newParagraph := !p.inParagraph
  let mode : breakMode :=
    if p.inParagraph then
      let mode := softBreakMode depth
      let mode := if blockStart then breakSingle else mode
      if mode = breakSpace ∧ p.hardBreakPending then breakSingle else mode
    else breakDouble
  let suppressPrefix : Bool := p.inParagraph && p.hardBreakPending && decide (depth = 0) &&
    decide (p.listPrefixLen = 0) && !blockStart
  applyPendingBreak S mode
  if mode ≠ breakSpace ∧ !suppressPrefix then emitPrefix S depth (← getP).listPrefixLen
  else if suppressPrefix then setWrapIndent S []
  else pure ()
  modifyP (fun p => { p with inParagraph := true })
  if newParagraph then modifyInline inlineState.reset else pure ()
  let content := TrimLeft rest [32, 9]
  modifyP (fun p => { p with lineDecided := true })
  emitContent S content

/-- Go: `maybeDecideLine`, the ATX heading branch (`trimmed` starts with
`#`). -/
def decideHeading {σ : Type} (S : Stream σ) (depth lineIndent : Nat) (rest trimmed : List Nat)
    (explicit : Bool) : PM σ Unit := do
  match parseHeading trimmed with
  | some (level, content) =>
    modifyP (fun p => { p with listLazy := false, listItemFirstLine := false })
    modifyP (fun p => p.clearListIfOutdented lineIndent)
    applyPendingBreak S breakDouble
    emitPrefix S depth (← getP).listPrefixLen
    let style := (← getP).styles.Heading.getD (level - 1) ⟨[]⟩
    modifyP (fun p => { p with lineStyle := style, lineStyled := true })
    writeTokenIgnore S (textTok (hashStringsWithSpace level) style)
    modifyP (fun p => { p with inParagraph := false })
    modifyInline inlineState.reset
    modifyP (fun p => { p with lineDecided := true, lineSkipBreak := true })
    modifyP (fun p => { p with
      lineEmitIdx := (p.lineBuf.length : Int) - (RuneCountInString content : Int) })
    modifyP (fun p => { p with pendingBreaks := p.pendingBreaks + 1 })
    let runes ← lineBufFrom
    emitInlineRunes S runes
  | none =>
    let hashes := (trimmed.takeWhile (fun b => b == 0x23)).length
    if hashes > 0 ∧ hashes < trimmed.length ∧ trimmed.getD hashes 0 ≠ 32 then
      let p ← getP
      let quoteBlockStart : Bool := explicit && decide (depth > 0) && p.inParagraph &&
        (decide (p.prevQuoteDepth ≠ depth) || p.listLazy)
      decideParagraph S depth rest quoteBlockStart
    else pure ()

/-- Go: `maybeDecideLine`, the list item branch (`parseListMarker` succeeded
with `m`). -/
def decideListItem {σ : Type} (S : Stream σ) (depth : Nat) (line : List Nat) (m : listMarker) :
    PM σ Unit := do
  if TrimSpace m.content = [] then pure ()
  else if HasPrefix m.content [0x5B] ∧ m.content.length < 4 then pure ()
  else
    let p ← getP
    if depth > 0 ∧ p.inParagraph ∧ p.pendingBreaks = 1 ∧ !p.listLazy then
      applyPendingBreak S breakSingle
      emitQuotePrefixBare S depth
      writeToken S newlineTok
      modifyP (fun p => { p with pendingBreaks := 0, hardBreakPending := false,
                                 inParagraph := false })
    else pure ()
    if (← getP).inParagraph ∧ (← getP).pendingBreaks = 0 then
      modifyP (fun p => { p with pendingBreaks := 1 })
    else pure ()
    if depth > 0 ∧ (← getP).listLazy ∧ (← getP).pendingBreaks > 1 then
      modifyP (fun p => { p with pendingBreaks := 1 })
    else pure ()
    let p ← getP
    let prevDepth := p.listStack.length
    let prevIndent := if prevDepth > 0 then p.top.indent else 0
    let parentOrdered : Bool := decide (prevDepth > 0) && p.top.ordered
    let u := p.updateList (leadingIndentCountBytes line) m.ordered m.marker m.number
      m.markerLen m.padding
    modifyP (fun _ => u.1)
    let parentPrefixLen := u.2.1
    let state := u.2.2
    let p ← getP
    let nested : Bool := decide (p.listStack.length > prevDepth) &&
      decide (leadingIndentCountBytes line > prevIndent)
    let mode : breakMode :=
      if p.listLazy ∧ p.pendingBreaks = 1 ∧ (!nested ∨ !parentOrdered) then breakSingle
      else breakDouble
    let mode : breakMode :=
      if depth > 0 ∧ p.inParagraph ∧ p.pendingBreaks = 1 ∧ !p.listLazy then breakDouble
      else mode
    applyPendingBreak S mode
    emitPrefix S depth parentPrefixLen
    let markerText : List Nat :=
      if m.ordered then orderedMarkerText state.next state.marker else [0x2D]
    if m.ordered then
      modifyP (fun p => p.setTop { state with next := wrap64 (state.next + 1) })
    else pure ()
    writeTokenIgnore S (textTok markerText (← getP).styles.ListMarker)
    writeTokenIgnore S (textTok [32] (← getP).styles.Text)
    if (← getP).listStack.length > 0 then
      modifyP (fun p => p.setTop { p.top with itemIndentExtra := taskListExtraIndent m.content })
    else pure ()
    let p ← getP
    let extra := if p.listStack.length > 0 then p.top.itemIndentExtra else 0
    if depth > 0 then
      setWrapIndent S (quoteWrapIndent p.styles depth ((p.listPrefixLen + extra : Nat) : Int))
    else setWrapIndent S (spaces ((p.listPrefixLen + extra : Nat) : Int))
    modifyP (fun p => { p with listLazy := true, listItemFirstLine := true,
                               inParagraph := true })
    modifyInline inlineState.reset
    modifyP (fun p => { p with lineDecided := true })
    emitContent S m.content

/-- Go: `maybeDecideLine`, the list continuation branch
(`p.inListContinuation(...)` holds). -/
def decideListContinuation {σ : Type} (S : Stream σ) (depth lineIndent indentForList : Nat)
    (trimmed : List Nat) (explicit quoteLineWithIndent : Bool) : PM σ Unit := do
  if explicit ∧ depth > 0 ∧ (← getP).listStack.length > 0 ∧ quoteLineWithIndent then
    modifyP (fun p => { p with quoteListPrefixFirst := true })
  else pure ()
  let p ← getP
  let newParagraph := !p.inParagraph
  let firstContinuation := p.listItemFirstLine
  modifyP (fun p => { p with listItemFirstLine := false })
  let state : listState :=
    if p.listStack.length > 0 then p.top else ⟨0, false, 0, 0, 0, 0, 0⟩
  let listIndent : Nat :=
    if p.listStack.length > 0 ∧ state.itemIndentExtra > 0 then
      p.listPrefixLen + state.itemIndentExtra
    else p.listPrefixLen
  let wrapIndent : Nat :=
    if explicit ∧ depth > 0 ∧ quoteLineWithIndent ∧ indentForList > listIndent then indentForList
    else listIndent
  let forceQuoteOnly : Bool :=
    explicit && decide (depth > 0) && decide (p.listStack.length > 0) && state.ordered &&
      decide (lineIndent = 0)
  let forceLineBreak : Bool := forceQuoteOnly && firstContinuation
  let mode : breakMode :=
    if p.inParagraph then
      if p.listStack.length > 0 ∧
          indentForList ≥ p.top.contentIndent + p.top.itemIndentExtra ∧ depth = 0 then
        breakSpace
      else softBreakMode depth
    else breakDouble
  let mode := if mode = breakSpace ∧ p.hardBreakPending then breakSingle else mode
  let mode := if quoteLineWithIndent ∧ mode = breakSpace then breakSingle else mode
  let mode := if forceLineBreak ∧ mode = breakSpace then breakSingle else mode
  if forceLineBreak ∧ p.pendingBreaks = 0 then modifyP (fun p => { p with pendingBreaks := 1 })
  else pure ()
  applyPendingBreak S mode
  let p ← getP
  if mode ≠ breakSpace then
    if forceQuoteOnly then emitQuotePrefix S depth
    else if explicit ∧ depth > 0 ∧ p.listStack.length > 0 ∧
        indentForList ≥ p.top.contentIndent then
      if quoteLineWithIndent then
        emitListPrefix S wrapIndent
        emitQuotePrefix S depth
      else if p.quoteListPrefixFirst then
        emitListPrefix S wrapIndent
        emitQuotePrefix S depth
      else
        emitQuotePrefix S depth
        emitListPrefix S wrapIndent
    else emitPrefix S depth p.listPrefixLen
    if wrapIndent > 0 then
      let p ← getP
      if depth > 0 then
        if forceQuoteOnly then setWrapIndent S (quoteWrapIndent p.styles depth 0)
        else if explicit ∧ depth > 0 ∧ quoteLineWithIndent then
          setWrapIndent S (quoteWrapIndentListFirst p.styles depth wrapIndent)
        else setWrapIndent S (quoteWrapIndent p.styles depth wrapIndent)
      else setWrapIndent S (spaces ((depth * 2 + wrapIndent : Nat) : Int))
    else pure ()
  else if explicit ∧ depth > 0 ∧ p.listStack.length > 0 ∧
      indentForList ≥ p.top.contentIndent then
    if quoteLineWithIndent then
      setWrapIndent S (quoteWrapIndentListFirst p.styles depth wrapIndent)
    else setWrapIndent S (quoteWrapIndent p.styles depth wrapIndent)
  else pure ()
  let content := (← getP).trimListIndent trimmed
  modifyP (fun p => { p with inParagraph := true })
  if newParagraph then modifyInline inlineState.reset else pure ()
  modifyP (fun p => { p with lineDecided := true })
  emitContent S content


/-- Go: `maybeDecideLine`, from `lineIndent, _ := leadingIndentCount(line)` to
the assignment of `p.quoteListPrefixFirst`: the quote context of the line and
the pending blank quote line.  Returns the depth in force. -/
def decideQuoteContext {σ : Type} (S : Stream σ) (line : List Nat) : PM σ Nat := do
  let lineIndent := (leadingIndentCount line).1
  let q := parseQuotePrefix line
  let explicit := q.2.2
  let p ← getP
  let depth : Nat :=
    if explicit then q.1
    else if p.pendingQuoteBlank then 0
    else if p.quoteDepth > 0 ∧ p.quoteLazy then p.quoteDepth
    else 0
  if explicit then
    modifyP (fun p => { p with quoteDepth := q.1, quoteLazy := true, lastQuoteExplicit := true })
  else if p.pendingQuoteBlank then
    modifyP (fun p => { p with quoteDepth := 0, quoteLazy := false, lastQuoteExplicit := false })
  else if p.quoteDepth > 0 ∧ p.quoteLazy then
    modifyP (fun p => { p with lastQuoteExplicit := false })
  else
    modifyP (fun p => { p with quoteDepth := 0, quoteLazy := false, lastQuoteExplicit := false })
  if p.pendingQuoteBlank then
    if depth > 0 then
      emitBlankQuoteLine S p.pendingQuoteListFirst p.pendingQuoteListLen p.pendingQuoteDepth
    else if p.pendingBreaks = 0 then modifyP (fun p => { p with pendingBreaks := 1 })
    else pure ()
    modifyP (fun p => { p with pendingQuoteBlank := false, pendingQuoteExplicit := false,
                               pendingQuoteTrailingSpace := false, pendingQuotePrevDepth := 0 })
  else pure ()
  let first : Bool := explicit && decide (depth > 0) && decide ((← getP).listPrefixLen > 0) &&
    decide (lineIndent > 0)
  modifyP (fun p => { p with quoteListPrefixFirst := first })
  pure depth

/-- Go: `maybeDecideLine`, from `indent, _ := leadingIndentCount(rest)` to the
end: indented code, a possible list start, list continuation, paragraph. -/
def decideRest {σ : Type} (S : Stream σ) (force : Bool) (depth lineIndent : Nat)
    (line rest trimmed : List Nat) (explicit : Bool) : PM σ Unit := do
  let indent := (leadingIndentCount rest).1
  let p ← getP
  let codeIndent : Nat :=
    if p.listStack.length > 0 then p.top.contentIndent + p.top.itemIndentExtra + 4 else 4
  if indent ≥ codeIndent then
    modifyP (fun p => { p with inIndentCode := true, indentCode := codeIndent,
                               pendingCodeNL := false, inParagraph := false,
                               hardBreakPending := false })
  else if isMaybeListStart trimmed ∧ !force then pure ()
  else
    let indentForList := if explicit ∧ depth > 0 ∧ lineIndent > 0 then lineIndent else indent
    let quoteLineWithIndent : Bool :=
      decide (lineIndent > 0) && HasPrefix (TrimLeft line [32, 9]) [0x3E]
    if p.inListContinuation indentForList trimmed explicit lineIndent then
      decideListContinuation S depth lineIndent indentForList trimmed explicit
        quoteLineWithIndent
    else
      let quoteBlockStart : Bool := explicit && decide (depth > 0) && p.inParagraph &&
        (decide (p.prevQuoteDepth ≠ depth) || p.listLazy)
      modifyP (fun p => { p with listLazy := false, listItemFirstLine := false })
      let outdentIndent := if explicit ∧ depth > 0 then lineIndent else indentForList
      modifyP (fun p => p.clearListIfOutdented outdentIndent)
      decideParagraph S depth rest quoteBlockStart

/-- Go: `liveParser.maybeDecideLine`. -/
def maybeDecideLine {σ : Type} (S : Stream σ) (force : Bool) : PM σ Unit := do
  if (← getP).lineDecided then pure ()
  else
    modifyP (fun p => { p with prevQuoteDepth := p.quoteDepth })
    let p ← getP
    let line := p.lineBytes
    if p.pendingQuoteBlank ∧ !force ∧ TrimSpace line = [0x3E] then pure ()
    else if TrimSpace line = [] then
      if force ∧ p.quoteDepth > 0 ∧ p.quoteLazy ∧ p.lastQuoteExplicit then
        emitBlankQuoteLine S (p.quoteListPrefixFirst && decide (p.listPrefixLen > 0))
          p.listPrefixLen p.quoteDepth
        modifyP (fun p => { p with lineDecided := true, lineIgnoreRest := true,
                                   lineSkipBreak := true })
      else pure ()
    else
      let lineIndent := (leadingIndentCount line).1
      let q := parseQuotePrefix line
      let rest := q.2.1
      let explicit := q.2.2
      let depth ← decideQuoteContext S line
      if explicit ∧ TrimSpace rest = [] ∧ force then
        modifyP (fun p => { p with
          pendingQuoteBlank := true, pendingQuoteExplicit := true,
          pendingQuoteTrailingSpace := quoteLineHasTrailingSpace line,
          pendingQuotePrevDepth := p.prevQuoteDepth, pendingQuoteDepth := depth,
          pendingQuoteListFirst := p.quoteListPrefixFirst,
          pendingQuoteListLen := p.listPrefixLen, hardBreakPending := false,
          inParagraph := false, quoteDepth := depth, quoteLazy := true, listLazy := false,
          listItemFirstLine := false, lineDecided := true, lineIgnoreRest := true,
          lineSkipBreak := true })
      else
        let trimmed := TrimLeft rest [32, 9]
        if trimmed = [] then pure ()
        else if (trimmed.getD 0 0 = 0x60 ∨ trimmed.getD 0 0 = 0x7E) ∧ !force then pure ()
        else if isThematicBreak rest then
          if (← getP).pendingBreaks = 0 then modifyP (fun p => { p with pendingBreaks := 1 })
          else pure ()
          modifyP (fun p => { p with
            lineDecided := true, lineIgnoreRest := true, lineSkipBreak := true,
            inParagraph := false, listLazy := false, listItemFirstLine := false,
            quoteLazy := false, hardBreakPending := false })
          writeToken S { Kind := tokenThematicBreak }
        else if isMaybeThematicBreak rest ∧ !force then pure ()
        else if isMaybeFence rest ∧ !force then pure ()
        else if fenceMarker rest ≠ [] then
          applyPendingBreak S breakDouble
          modifyP (fun p => { p with
            inCodeFence := true, fenceMarker := fenceMarker rest, pendingCodeNL := false,
            inParagraph := false, lineDecided := true, lineIgnoreRest := true,
            lineSkipBreak := true })
        else if HasPrefix trimmed [0x23] then
          decideHeading S depth lineIndent rest trimmed explicit
        else
          match parseListMarker trimmed with
          | some m => decideListItem S depth line m
          | none => decideRest S force depth lineIndent line rest trimmed explicit

/-- Go: `liveParser.replayLine`, given the function that feeds one rune. -/
def replayLineWith {σ : Type} (feed : Nat → PM σ Unit) (line : List Nat) : PM σ Unit := do
  modifyP liveParser.resetLine
  (runesOf line).forM feed

/-- Go: `liveParser.maybeDecideIndentCodeLine`, given `replayLine`. -/
def maybeDecideIndentCodeLineWith {σ : Type} (S : Stream σ) (replay : List Nat → PM σ Unit)
    (force : Bool) : PM σ Unit := do
  if (← getP).codeLineDecided then pure ()
  else
    let p ← getP
    let line := if HasSuffix p.lineBytes [13] then p.lineBytes.take (p.lineBytes.length - 1)
      else p.lineBytes
    if TrimSpace line = [] ∧ !force then pure ()
    else
      let q := parseQuotePrefix line
      let rest := q.2.1
      let explicit := q.2.2
      let depth0 : Nat :=
        if explicit then q.1 else if p.quoteDepth > 0 ∧ p.quoteLazy then p.quoteDepth else q.1
      if explicit then
        modifyP (fun p => { p with quoteDepth := q.1, quoteLazy := true,
                                   lastQuoteExplicit := true })
      else if p.quoteDepth > 0 ∧ p.quoteLazy then
        modifyP (fun p => { p with lastQuoteExplicit := false })
      else pure ()
      if p.pendingQuoteBlank then
        let depth : Nat := if explicit then depth0 else 0
        if explicit then
          modifyP (fun p => { p with quoteDepth := depth, quoteLazy := true,
                                     lastQuoteExplicit := true })
        else
          modifyP (fun p => { p with quoteDepth := 0, quoteLazy := false,
                                     lastQuoteExplicit := false })
        if depth > 0 then
          emitBlankQuoteLine S p.pendingQuoteListFirst p.pendingQuoteListLen
            p.pendingQuoteDepth
        else if (← getP).pendingBreaks = 0 then modifyP (fun p => { p with pendingBreaks := 1 })
        else pure ()
        modifyP (fun p => { p with pendingQuoteBlank := false, pendingQuoteExplicit := false,
                                   pendingQuoteTrailingSpace := false,
                                   pendingQuotePrevDepth := 0 })
      else pure ()
      if TrimSpace rest = [] ∧ !force then pure ()
      else
        let indent := (leadingIndentCount rest).1
        if indent ≥ (← getP).indentCode then
          if !force then pure ()
          else
            if (← getP).pendingBreaks > 0 then applyPendingBreak S breakDouble else pure ()
            emitCodeLine S (trimIndent rest ((← getP).indentCode : Nat))
            modifyP (fun p => { p with codeLineDecided := true, codeLineIsCode := true,
                                       lineBuf := [], lineBytes := [],
                                       lineHasNonSpace := false })
        else
          modifyP (fun p => { p with codeLineDecided := true, codeLineIsCode := false,
                                     inIndentCode := false, pendingCodeNL := false })
          if (← getP).pendingBreaks = 0 then modifyP (fun p => { p with pendingBreaks := 1 })
          else pure ()
          modifyP (fun p => { p with postCodeBreakSingle := true })
          if !explicit then
            modifyP (fun p => { p with quoteDepth := 0, quoteLazy := false,
                                       lastQuoteExplicit := false })
          else pure ()
          modifyP (fun p => { p with codeLineDecided := false, codeLineIsCode := false })
          replay line


/-! ## `live_parser.go`: feeding runes -/

/-- Go: `feedRune`, the first part: a pending blank quote line meets the first
non-blank rune of the next line. -/
def feedRunePendingQuote {σ : Type} (S : Stream σ) (r : Nat) : PM σ Unit := do
  let p ← getP
  if p.pendingQuoteBlank ∧ !p.lineHasNonSpace ∧ !p.pendingQuoteExplicit then
    if r ≠ 32 ∧ r ≠ 9 ∧ r ≠ 13 then
      if r = 0x3E then
        let indent := (leadingIndentCount p.lineBytes).1
        let listIndent := if indent > 0 then indent else p.pendingQuoteListLen
        emitBlankQuoteLine S true listIndent p.pendingQuoteDepth
      else
        if p.pendingBreaks = 0 then modifyP (fun p => { p with pendingBreaks := 1 })
        else pure ()
        modifyP (fun p => { p with quoteDepth := 0, quoteLazy := false,
                                   lastQuoteExplicit := false })
      modifyP (fun p => { p with pendingQuoteBlank := false, pendingQuoteExplicit := false,
                                 pendingQuoteTrailingSpace := false })
    else pure ()
  else pure ()

/-- The two appends `p.lineBuf = append(p.lineBuf, r)` and `p.lineBytes =
utf8.AppendRune(p.lineBytes, r)`. -/
def liveParser.appendLine (p : liveParser) (r : Nat) : liveParser :=
  { p with lineBuf := p.lineBuf ++ [r], lineBytes := p.lineBytes ++ EncodeRune r }

/-- Go: `feedRune`, the part for a newline outside code. -/
def feedRuneNewline {σ : Type} (S : Stream σ) : PM σ Unit := do
  let p ← getP
  if TrimSpace p.lineBytes = [] then
    if p.quoteDepth > 0 ∧ p.quoteLazy ∧ p.lastQuoteExplicit then
      let lineIndent := (leadingIndentCount p.lineBytes).1
      modifyP (fun p => { p with
        pendingQuoteBlank := true, pendingQuoteExplicit := false,
        pendingQuoteTrailingSpace := false, pendingQuotePrevDepth := p.quoteDepth,
        pendingQuoteDepth := p.quoteDepth, pendingQuoteListFirst := decide (lineIndent > 0),
        pendingQuoteListLen := if lineIndent > 0 then lineIndent else 0,
        hardBreakPending := false, inParagraph := false, seenLine := true })
      modifyP liveParser.resetLine
    else
      if p.seenLine then modifyP (fun p => { p with pendingBreaks := p.pendingBreaks + 1 })
      else pure ()
      modifyP (fun p => { p with
        hardBreakPending := false, inParagraph := false, quoteDepth := 0, quoteLazy := false,
        lastQuoteExplicit := false, listLazy := false, listItemFirstLine := false,
        seenLine := true })
      modifyP liveParser.resetLine
  else
    if !p.lineDecided ∧ p.lineBuf.length > 0 then maybeDecideLine S true else pure ()
    if (← getP).lineDecided then
      modifyP (fun p => { p with hardBreakPending := hasHardLineBreak p.lineBytes,
                                 immediateSpaces := [] })
      flushPendingBackticks S
      flushPendingEntity S
      flushPendingNumUS S
      modifyP liveParser.flushPendingDelims
      modifyP (fun p => { p with lineStyled := false })
      if !(← getP).lineSkipBreak then
        modifyP (fun p => { p with pendingBreaks := p.pendingBreaks + 1 })
      else pure ()
      modifyP (fun p => { p with seenLine := true })
    else
      if (← getP).seenLine then
        modifyP (fun p => { p with pendingBreaks := p.pendingBreaks + 1 })
      else pure ()
      modifyP (fun p => { p with
        hardBreakPending := false, inParagraph := false, quoteLazy := false,
        listLazy := false, listItemFirstLine := false, seenLine := true })
    modifyP liveParser.resetLine

/-- Go: `liveParser.feedRune`, given `replayLine`. -/
def feedRuneWith {σ : Type} (S : Stream σ) (replay : List Nat → PM σ Unit) (r : Nat) :
    PM σ Unit := do
  feedRunePendingQuote S r
  let p ← getP
  if p.inCodeFence then
    if r = 10 then
      let line := if HasSuffix p.lineBytes [13] then p.lineBytes.take (p.lineBytes.length - 1)
        else p.lineBytes
      modifyP (fun p => { p with lineBuf := [], lineBytes := [], seenLine := true })
      processCodeFenceLine S line
    else modifyP (fun p => p.appendLine r)
  else if p.inIndentCode then
    if r = 10 then
      if !p.codeLineDecided then maybeDecideIndentCodeLineWith S replay true else pure ()
      if (← getP).inIndentCode then
        if (← getP).codeLineDecided ∧ (← getP).codeLineIsCode then
          writeToken S newlineTok
          modifyP (fun p => { p with pendingCodeNL := false })
        else pure ()
        modifyP (fun p => { p with seenLine := true })
        modifyP liveParser.resetLine
      else pure ()
    else if p.codeLineDecided ∧ p.codeLineIsCode then emitCodeRune S r
    else
      modifyP (fun p => p.appendLine r)
      maybeDecideIndentCodeLineWith S replay false
  else if r = 10 then feedRuneNewline S
  else if p.lineDecided then
    modifyP (fun p => p.appendLine r)
    if !(← getP).lineIgnoreRest then emitInline S r else pure ()
    modifyP (fun p => { p with lineEmitIdx := p.lineBuf.length })
  else
    modifyP (fun p => p.appendLine r)
    if !p.lineHasNonSpace then
      if r = 32 ∨ r = 9 then pure ()
      else
        modifyP (fun p => { p with lineHasNonSpace := true })
        if !isPotentialBlockStart r then maybeDecideLine S false else pure ()
    else if r = 32 ∨ r = 9 then maybeDecideLine S false
    else if shouldAttemptDecision (← getP).lineBuf then maybeDecideLine S false
    else pure ()

/-- Go: `liveParser.feedRune`.  The first argument bounds how deeply
`replayLine` may nest: with none left, a replay ends the run as `fuelOut`. -/
def feedRune {σ : Type} (S : Stream σ) : Nat → Nat → PM σ Unit
  | 0, r => feedRuneWith S (fun _ => fuelOutNow) r
  | fuel + 1, r => feedRuneWith S (replayLineWith (feedRune S fuel)) r

/-- Go: `liveParser.replayLine`. -/
def replayLine {σ : Type} (S : Stream σ) (fuel : Nat) (line : List Nat) : PM σ Unit :=
  match fuel with
  | 0 => fuelOutNow
  | fuel + 1 => replayLineWith (feedRune S fuel) line

/-- Go: `liveParser.maybeDecideIndentCodeLine`. -/
def maybeDecideIndentCodeLine {σ : Type} (S : Stream σ) (fuel : Nat) (force : Bool) :
    PM σ Unit :=
  maybeDecideIndentCodeLineWith S (replayLine S fuel) force

/-- The four flushes at the end of a decided line in `finalize`, each with its
error discarded, and `p.lineStyled = false`. -/
def finalizeFlushes {σ : Type} (S : Stream σ) : PM σ Unit := do
  ignoreErr (flushPendingBackticks S)
  ignoreErr (flushPendingEntity S)
  ignoreErr (flushPendingNumUS S)
  modifyP liveParser.flushPendingDelims
  modifyP (fun p => { p with lineStyled := false })

/-- Go: `liveParser.finalize`. -/
def finalize {σ : Type} (S : Stream σ) (fuel : Nat) : PM σ Unit := do
  if (← getP).lineBuf.length > 0 then
    if (← getP).lineDecided then
      let runes ← lineBufFrom
      ignoreErr (emitInlineRunes S runes)
      finalizeFlushes S
    else if (← getP).inIndentCode then
      ignoreErr (maybeDecideIndentCodeLine S fuel true)
      if (← getP).codeLineDecided ∧ (← getP).codeLineIsCode then modifyP liveParser.resetLine
      else pure ()
    else
      ignoreErr (maybeDecideLine S true)
      if (← getP).lineDecided ∧ (← getP).lineEmitIdx < (← getP).lineBuf.length then
        let runes ← lineBufFrom
        ignoreErr (emitInlineRunes S runes)
        finalizeFlushes S
      else pure ()
    modifyP liveParser.resetLine
  else pure ()
  if (← getP).inCodeFence then
    modifyP (fun p => { p with inCodeFence := false, fenceMarker := [], pendingCodeNL := false })
  else pure ()
  if (← getP).inIndentCode then modifyP (fun p => { p with inIndentCode := false })
  else pure ()
  if (← getP).inline.inLink then
    let p ← getP
    writeTokenIgnore S (textTok [0x5B] p.styles.Text)
    writeTokenIgnore S (textTok p.inline.linkText p.styles.Text)
    if p.inline.inLinkURL ∧ p.inline.linkURL.length > 0 then
      writeTokenIgnore S (textTok [0x5D, 0x28] p.styles.Text)
      writeTokenIgnore S (textTok p.inline.linkURL p.styles.Text)
      writeTokenIgnore S (textTok [0x29] p.styles.Text)
    else writeTokenIgnore S (textTok [0x5D] p.styles.Text)
    modifyInline (fun i => { i with inLink := false, inLinkURL := false, linkText := [],
                                    linkURL := [] })
  else pure ()
  if (← getP).inline.inAutoLink then
    let text := [0x3C] ++ (← getP).inline.autoLink
    modifyInline (fun i => { i with inAutoLink := false, autoLink := [] })
    ignoreErr (emitStyledText S text)
  else pure ()

/-- Go: `liveParser.feedBytes`, over `data`. -/
def feedBytes {σ : Type} (S : Stream σ) (fuel : Nat) : Nat → List Nat → PM σ Unit
  | 0, _ => pure ()
  | n + 1, data =>
    if data.length = 0 then pure ()
    else
      let d := DecodeRune data
      if d.1 = RuneError ∧ d.2 = 1 then feedBytes S fuel n (data.drop 1)
      else if isControlRune d.1 then feedBytes S fuel n (data.drop d.2)
      else do
        feedRune S fuel d.1
        feedBytes S fuel n (data.drop d.2)


/-! ## `stream_live.go`: `Parse` and `Render` -/

/-- The handling of one `clean` slice in the read loop of `Parse`: the
front-matter filter, then `feedBytes` on what it lets through. -/
def parseClean {σ : Type} (S : Stream σ) (fuel : Nat) (clean : List Nat) : PM σ Unit := do
  if clean.length > 0 then
    let f := (← getP).frontMatter.process clean
    modifyP (fun p => { p with frontMatter := f.1 })
    if f.2.length > 0 then feedBytes S fuel f.2.length f.2 else pure ()
  else pure ()

/-- The read loop of `Parse` over the results of `reader.Read` (each a chunk of
data; the reader then reports end of input): `tail` is `tailBuf[:tailLen]`. -/
def parseLoop {σ : Type} (S : Stream σ) (fuel : Nat) : List (List Nat) → List Nat → PM σ Unit
  | [], _ => pure ()
  | chunk :: rest, tail => do
    (readChunk tail chunk).1.forM (parseClean S fuel)
    parseLoop S fuel rest (readChunk tail chunk).2

/-- Go: `stream.Flush()` as `Parse` calls it. -/
def flushStream {σ : Type} (S : Stream σ) : PM σ Unit := fun x =>
  let r := S.Flush x.st
  (if r.2 then Res.err else Res.ok (), { x with st := r.1 })

/-- Go: `Parse`, for a reader that returns the given chunks and then end of
input (`readErr = false`) or an error (`readErr = true`), a parser taken from
the pool and a sink.  `fuel` bounds the nesting of line replays. -/
def Parse {σ : Type} (S : Stream σ) (fuel : Nat) (styles : Styles) (osc8 : Bool)
    (chunks : List (List Nat)) (readErr : Bool) (parser : liveParser) (st : σ) :
    Res Unit × PState σ :=
  let run : PM σ Unit := do
    modifyP (fun p => p.Reset styles osc8)
    parseLoop S fuel chunks []
    if readErr then fun x => (Res.err, x)
    else
      let trailing := (← getP).frontMatter.finish
      if trailing.length > 0 then feedBytes S fuel trailing.length trailing else pure ()
      finalize S fuel
      flushStream S
  run { p := parser, st := st }

/-- The wrapping sink as a `Stream`. -/
def rendererStream (T : Tables) : Stream StreamRenderer :=
  { WriteToken := fun s tok => s.WriteToken T tok
    Flush := fun s => s.Flush T
    Width := fun s => s.Width
    SetWidth := fun s w => s.SetWidth w
    SetWrapIndent := fun s indent => s.SetWrapIndent indent }

/-- Go: `Render`, with a parser and a sink taken from the pools: the ending of
`Parse` and the writer afterwards. -/
def RenderWith (T : Tables) (fuel : Nat) (parser : liveParser) (sink : StreamRenderer)
    (styles : Styles) (cfg : renderConfig) (width : Int) (chunks : List (List Nat))
    (w : Writer) : Res Unit × Writer :=
  let stream := sink.resetWithConfig w width cfg
  let r := Parse (rendererStream T) fuel styles cfg.osc8 chunks false parser stream
  (r.1, r.2.st.w)

/-- Go: `Render` with a fresh parser and a fresh sink, on a writer that starts
empty; `fail` tells whether the writer's writes return an error. -/
def Render (T : Tables) (styles : Styles) (cfg : renderConfig) (width : Int)
    (chunks : List (List Nat)) (fail : Bool := false) : Res Unit × List Nat :=
  let r := RenderWith T 1 zeroLiveParser zeroStreamRenderer styles cfg width chunks
    { out := [], failing := fail }
  (r.1, r.2.out)

/-- What a recording sink sees: a token or a wrap indent. -/
inductive Event where
  | token (tok : StreamToken)
  | wrapIndent (indent : List Nat)
deriving DecidableEq, Repr

/-- A sink that records the calls it receives and never fails (the
`captureStream` of the tests). -/
def captureStream : Stream (List Event) :=
  { WriteToken := fun s tok => (s ++ [Event.token tok], false)
    Flush := fun s => (s, false)
    Width := fun _ => 0
    SetWidth := fun s _ => s
    SetWrapIndent := fun s indent => s ++ [Event.wrapIndent indent] }

/-- The tokens that the parser writes for an input read in the given chunks. -/
def parseTokens (styles : Styles) (osc8 : Bool) (chunks : List (List Nat)) :
    Res Unit × List StreamToken :=
  let r := Parse captureStream 1 styles osc8 chunks false zeroLiveParser []
  (r.1, r.2.st.filterMap (fun e => match e with
    | Event.token t => some t
    | Event.wrapIndent _ => none))

/-- A theme whose style prefixes are all empty. -/
def plainStyles : Styles :=
  { Text := ⟨[]⟩, Heading := List.replicate 6 ⟨[]⟩, Emphasis := ⟨[]⟩, Strong := ⟨[]⟩,
    EmphasisStrong := ⟨[]⟩, CodeInline := ⟨[]⟩, CodeBlock := ⟨[]⟩, Quote := ⟨[]⟩,
    ListMarker := ⟨[]⟩, LinkText := ⟨[]⟩, LinkURL := ⟨[]⟩, ThematicBreak := ⟨[]⟩ }


/-! ## Specification-side notions for the front-matter filter -/

/-- What `finish` returns when the whole stream `W` is still held in the probe:
the decision of the filter at end of input. -/
def oneShot (W : List Nat) : List Nat :=
  match (frontMatterFilter.decide { passthrough := false, probe := W } true).2 with
  | some out => out
  | none => []

/-- A stream `W` opens with a front-matter block and `post` is what follows
the block.  `W` is a first line `L1`, a second line `L2`, complete lines `ms`,
a closing line `C` and the rest `T`, where a line is a run of bytes without
newline, taken without its final carriage return (`trimCR`): the first line is
an opening delimiter `D` (`---`, `+++` or `;;;` once the BOM and surrounding
white space are removed), the second line is metadata-like, no line of `ms`
trims to `D`, the closing line trims to `D`, and the closing line either ends
the stream (`post` is empty) or is ended by a newline that `post` follows. -/
def FrontMatterPrefixed (W post : List Nat) : Prop :=
  ∃ (L1 L2 : List Nat) (ms : List (List Nat)) (C T D : List Nat),
    W = L1 ++ 10 :: (L2 ++ 10 :: ((ms.map (· ++ [10])).flatten ++ (C ++ T))) ∧
    10 ∉ L1 ∧ 10 ∉ L2 ∧ (∀ m ∈ ms, 10 ∉ m ∧ TrimSpace (trimCR m) ≠ D) ∧ 10 ∉ C ∧
    ((T = [] ∧ post = []) ∨ T = 10 :: post) ∧
    parseOpeningFrontMatterDelimiter (trimCR L1) = some D ∧
    frontMatterMetadataLikely (trimCR L2) = true ∧
    TrimSpace (trimCR C) = D

/-! ## Specification-side notions for the sink -/

/-- The output is not empty and its last byte is not a newline. -/
def endsOK (out : List Nat) : Prop := ∃ b, out.getLast? = some b ∧ b ≠ 10

/-- An atom as `WriteToken` builds them: one with a space boundary has a text
that is not empty and does not end in a newline. -/
def atomOK (a : atom) : Prop :=
  a.boundary = boundarySpace → a.tok.Text ≠ [] ∧ HasSuffix a.tok.Text [10] = false

/-- The invariant of a sink over a working writer: the writer does not fail,
the flag `lastWasNewline` is clear only when the output is not empty and does
not end in a newline, and the atoms buffered for an `&nbsp;` entity are
well formed. -/
def SinkOK (s : StreamRenderer) : Prop :=
  s.w.failing = false ∧ (s.lastWasNewline = false → endsOK s.w.out) ∧ ∀ a ∈ s.nbspBuf, atomOK a

/-- What a step of the sink keeps: the writer's mode, the `nbsp` buffer and
the newline flag are as before, and a working writer has only grown, by
nothing or by bytes that do not end in a newline. -/
def Keeps (s s1 : StreamRenderer) : Prop :=
  s1.w.failing = s.w.failing ∧ s1.nbspBuf = s.nbspBuf ∧ s1.lastWasNewline = s.lastWasNewline ∧
  (s.w.failing = false → ∃ X, s1.w.out = s.w.out ++ X ∧ (X = [] ∨ endsOK X))

/-! ## `validate.go`: `ValidateInput` -/

/-- Loop of `utf8.Valid`: every rune of `p` decodes, none as an invalid or
incomplete encoding.  Each round consumes at least one byte. -/
def validLoop : Nat → List Nat → Bool
  | 0, p => p.isEmpty
  | fuel + 1, p =>
    match p with
    | [] => true
    | _ :: _ =>
      let d := DecodeRune p
      if d.1 = RuneError ∧ d.2 = 1 then false else validLoop fuel (p.drop d.2)

/-- The function `utf8.Valid`. -/
def Valid (p : List Nat) : Bool := validLoop p.length p

/-- The errors of `validate.go`. -/
inductive InputError where
  | ErrInvalidUTF8
  | ErrBinaryInput
deriving DecidableEq, Repr

/-- Go: `isControlByte`. -/
def isControlByte (b : Nat) : Bool :=
  if b < 0x09 then true
  else if b > 0x0D ∧ b < 0x20 then true
  else if b = 0x7F then true
  else false

/-- The loop of `ValidateInput` over `src`: `none` when it returns
`ErrBinaryInput` at a NUL byte, else `total` and `control` afterwards. -/
def validateLoop : List Nat → Int → Int → Option (Int × Int)
  | [], total, control => some (total, control)
  | b :: rest, total, control =>
    if b = 0 then none
    else validateLoop rest (wrap64 (total + 1))
      (if isControlByte b then wrap64 (control + 1) else control)

/-- Go: `ValidateInput`; `none` stands for `nil`. -/
def ValidateInput (src : List Nat) : Option InputError :=
  if !Valid src then some InputError.ErrInvalidUTF8
  else
    match validateLoop src 0 0 with
    | none => some InputError.ErrBinaryInput
    | some (total, control) =>
      if total ≥ 64 ∧ wrap64 (control * 100) ≥ wrap64 (total * 2) then
        some InputError.ErrBinaryInput
      else none

/-! ## Specification-side notions for the inline parser -/

/-- A letter of the ASCII alphabet. -/
def isLetter (r : Nat) : Prop := (65 ≤ r ∧ r ≤ 90) ∨ (97 ≤ r ∧ r ≤ 122)

/-- The inline parser is outside every span and holds nothing back: no code
span, link, autolink or entity is open and no backtick, bracket or numeric
underscore is pending. -/
def inlineIdle (i : inlineState) : Prop :=
  i.inCode = false ∧ i.inLink = false ∧ i.inLinkURL = false ∧ i.inAutoLink = false ∧
  i.inEntity = false ∧ i.pendingNumUS = false ∧ i.pendingBackticks = 0 ∧ i.pendingClose = false

/-- The text of an inline code span whose content is `c`: one space is taken
from each end when `c` has at least two bytes and both ends are spaces. -/
def codeSpanText (c : List Nat) : List Nat :=
  if c.length ≥ 2 ∧ c.getD 0 0 = 32 ∧ c.getD (c.length - 1) 0 = 32 then
    (c.drop 1).take (c.length - 2)
  else c

/-- The sink after the given tokens are written one after the other, the
errors discarded. -/
def sinkAfter {σ : Type} (S : Stream σ) (st : σ) (toks : List StreamToken) : σ :=
  toks.foldl (fun s t => (S.WriteToken s t).1) st

/-! ## Specification-side notions for autolinks -/

/-- A byte that `isEmailAutolink` and `isSchemeAutolink` take for white space:
space, tab, carriage return or line feed. -/
def isBlankByte (b : Nat) : Prop := b = 32 ∨ b = 9 ∨ b = 13 ∨ b = 10

/-- An ASCII letter, as a test. -/
def schemeLetter (r : Nat) : Bool := (0x61 ≤ r && r ≤ 0x7A) || (0x41 ≤ r && r ≤ 0x5A)

/-- A byte that may follow the first letter of a scheme: a letter, a digit,
`+`, `-` or `.`. -/
def schemeByte (r : Nat) : Bool :=
  schemeLetter r || (0x30 ≤ r && r ≤ 0x39) || r == 0x2B || r == 0x2D || r == 0x2E

/-- The bytes `s` are a scheme: a letter followed by letters, digits, `+`, `-`
or `.`. -/
def schemeShape (s : List Nat) : Prop :=
  ∃ l t, s = l :: t ∧ schemeLetter l = true ∧ ∀ b ∈ t, schemeByte b = true

/-- The content `x` of an autolink has the form of an e-mail address: no white
space, no `:` and exactly one `@`, which is neither first nor last. -/
def emailShape (x : List Nat) : Prop :=
  (∀ b ∈ x, ¬ isBlankByte b) ∧ 0x3A ∉ x ∧
  ∃ L R, x = L ++ 0x40 :: R ∧ L ≠ [] ∧ R ≠ [] ∧ 0x40 ∉ L ∧ 0x40 ∉ R

/-- The content `x` of an autolink has the form of a URI: no white space, and
the text before its first `:` is a scheme. -/
def uriShape (x : List Nat) : Prop :=
  (∀ b ∈ x, ¬ isBlankByte b) ∧
  ∃ s R, x = s ++ 0x3A :: R ∧ 0x3A ∉ s ∧ schemeShape s

/-- An autolink as the parser writes it: with OSC 8 a link-start token that
carries the target and a link-end token, and between them the runes of the
text, each a token of kind Url in the link-text style. -/
def writeAutoLink {σ : Type} (S : Stream σ) (target text : List Nat) : PM σ Unit := do
  let p ← getP
  if p.osc8 then writeToken S { Kind := tokenLinkStart, LinkURL := target } else pure ()
  writeRunes S p.styles.LinkText tokenURL (runesOf text)
  if p.osc8 then writeToken S { Kind := tokenLinkEnd } else pure ()

/-! ## Specification-side notions for list markers -/

/-- An ASCII digit, as a test on a byte. -/
def isDigitByte (b : Nat) : Bool := 0x30 ≤ b && b ≤ 0x39

/-- The decimal value of a run of ASCII digits. -/
def decimalValue (ds : List Nat) : Nat := ds.foldl (fun n d => n * 10 + (d - 0x30)) 0

/-! ## Specification-side notions for the soft-wrap option -/

/-- The sink `s` with its soft-wrap option set to `b`: what `WithSoftWrap(b)`
makes of the sink that `s` would be otherwise. -/
def StreamRenderer.setSoftWrap (b : Bool) (s : StreamRenderer) : StreamRenderer :=
  { s with softWrap := b }

/-- The soft-wrap option set in the sink of a result that a sink operation
returns next to the sink. -/
def StreamRenderer.setSoftWrapFst {α : Type} (b : Bool) (p : StreamRenderer × α) :
    StreamRenderer × α :=
  (p.1.setSoftWrap b, p.2)

/-! ## Specification-side notions for the parser's token stream -/

/-- The action keeps the invariant `I`, however it ends. -/
def Pres {σ α : Type} (I : PState σ → Prop) (m : PM σ α) : Prop := ∀ x, I x → I (m x).2

/-- The tokens among recorded events. -/
def tokensOf (evs : List Event) : List StreamToken :=
  evs.filterMap (fun e => match e with
    | Event.token t => some t
    | Event.wrapIndent _ => none)

/-- The link tokens of a token stream are in order.  Read from a point outside
(`false`) or inside (`true`) a link span, the result is `some false` when the
stream ends outside a span, `some true` when it ends inside one, and `none`
when the order is broken: a link start inside a span, a link end outside one,
a link start or end while OSC 8 is off, a link start without URL, or any other
token with a URL. -/
def linkOrder (osc8 : Bool) : List StreamToken → Bool → Option Bool
  | [], b => some b
  | t :: rest, b =>
    if t.Kind = tokenLinkStart then
      if osc8 ∧ !b ∧ t.LinkURL ≠ [] then linkOrder osc8 rest true else none
    else if t.Kind = tokenLinkEnd then
      if osc8 ∧ b ∧ t.LinkURL = [] then linkOrder osc8 rest false else none
    else if t.LinkURL = [] then linkOrder osc8 rest b
    else none

/-- The parser has its OSC 8 option as given and the tokens recorded so far
are in order, ending outside (`b = false`) or inside (`b = true`) a span. -/
def LinkInv (osc8 : Bool) (b : Bool) (x : PState (List Event)) : Prop :=
  x.p.osc8 = osc8 ∧ linkOrder osc8 (tokensOf x.st) false = some b

/-- A token that neither starts nor ends a link and carries no URL. -/
def plainTok (t : StreamToken) : Prop :=
  t.Kind ≠ tokenLinkStart ∧ t.Kind ≠ tokenLinkEnd ∧ t.LinkURL = []

/-- The kinds of the link tokens of a token stream, in order. -/
def linkKinds (toks : List StreamToken) : List tokenKind :=
  (toks.map (fun t => t.Kind)).filter (fun k => k == tokenLinkStart || k == tokenLinkEnd)

/-- The kinds of `n` link spans one after the other: start, end, start, end. -/
def spanKinds : Nat → List tokenKind
  | 0 => []
  | n + 1 => tokenLinkStart :: tokenLinkEnd :: spanKinds n

/-! ## Specification-side notions for the list stack -/

/-- A property of the list stack and the list prefix length of the parser. -/
def StackInv {σ : Type} (Q : List listState → Nat → Prop) (x : PState σ) : Prop :=
  Q x.p.listStack x.p.listPrefixLen

/-- The sum of the prefix lengths of the frames of a list stack. -/
def prefixSum (stack : List listState) : Nat :=
  (stack.map (fun f => f.prefixLen)).sum

/-- The list prefix length is the sum of the prefix lengths of the frames. -/
def listOK (stack : List listState) (n : Nat) : Prop :=
  n = prefixSum stack

/-- As `listOK`, with a stack that is not empty and whose top frame has the
prefix length `c`. -/
def topOK (c : Nat) (stack : List listState) (n : Nat) : Prop :=
  n = prefixSum stack ∧ stack ≠ [] ∧
    (stack.getD (stack.length - 1) ⟨0, false, 0, 0, 0, 0, 0⟩).prefixLen = c

/-! ### Pending breaks: the blank-line state -/

/-- A parser at the start of a line, outside code, quotes, links and the
front-matter probe, after some line has been read. -/
def blankLineState {σ : Type} (x : PState σ) : Prop :=
  x.p.inCodeFence = false ∧ x.p.inIndentCode = false ∧ x.p.pendingQuoteBlank = false ∧
  x.p.lineBytes = [] ∧ x.p.lineBuf = [] ∧ x.p.seenLine = true ∧ x.p.quoteDepth = 0 ∧
  x.p.frontMatter.passthrough = true ∧ x.p.inline.inLink = false ∧
  x.p.inline.inAutoLink = false

/-- The start of `Parse` up to the end of the first chunk, the line `a`. -/
def readLineA {σ : Type} (S : Stream σ) (fuel : Nat) (styles : Styles) (osc8 : Bool) :
    PM σ Unit := do
  modifyP (fun p => p.Reset styles osc8)
  parseLoop S fuel [[97, 10]] []

/-! ### The calls of the sink and its wrap indent -/

/-- A call of the sink's interface. -/
inductive sinkCall where
  | writeToken (tok : StreamToken)
  | setWrapIndent (indent : List Nat)
  | setWidth (width : Int)
  | flush

/-- The sink after a call of its interface (the error that `WriteToken` and
`Flush` return is left to the caller). -/
def StreamRenderer.call (T : Tables) (s : StreamRenderer) : sinkCall → StreamRenderer
  | sinkCall.writeToken tok => (s.WriteToken T tok).1
  | sinkCall.setWrapIndent indent => s.SetWrapIndent indent
  | sinkCall.setWidth width => s.SetWidth width
  | sinkCall.flush => (s.Flush T).1

/-- The sink after a sequence of calls. -/
def StreamRenderer.calls (T : Tables) (s : StreamRenderer) (cs : List sinkCall) :
    StreamRenderer :=
  cs.foldl (StreamRenderer.call T) s

/-- A call that writes no newline rune: any call but `WriteToken` of a token
whose text holds a newline. -/
def sinkCall.noNewline : sinkCall → Prop
  | sinkCall.writeToken tok => 10 ∉ tok.Text
  | _ => True

/-- An atom as `WriteToken` builds them: one with a newline boundary holds the
newline rune. -/
def atomNL (a : atom) : Prop := a.boundary = boundaryNewline → a.tok.Text = [10]

/-- A sink whose entity buffer holds no newline and, under the condition `c`,
whose wrap indent is not empty. -/
def keepsIndent (c : Prop) (s : StreamRenderer) : Prop :=
  (c → s.wrapIndent ≠ []) ∧ ∀ a ∈ s.nbspBuf, a.boundary ≠ boundaryNewline

/-! ### Feeding the runes of a decided line -/

/-- The calls of `emitInline` for the runes of a decided line, one after the
other, as `feedRune` and `emitInlineRunes` make them. -/
def feedInline {σ : Type} (S : Stream σ) : List Nat → PM σ Unit
  | [] => pure ()
  | r :: rest => do
    emitInline S r
    feedInline S rest

/-- The token that `emitInline` writes for a rune of the text, in the inline
style of the parser. -/
def runeEvent (p : liveParser) (r : Nat) : Event :=
  Event.token (textTok (runeTokenText r) p.inlineStyle.1 p.inlineStyle.2)

/-- A space or a tab. -/
def isBlank (r : Nat) : Prop := r = 32 ∨ r = 9

/-- A rune that `emitInline` treats as text outside spans: none of the
backtick, `&`, `_`, `*`, `[` and `<`. -/
def isPlainRune (r : Nat) : Prop :=
  r ≠ 0x60 ∧ r ≠ 0x26 ∧ r ≠ 0x5F ∧ r ≠ 0x2A ∧ r ≠ 0x5B ∧ r ≠ 0x3C

/-- The runes written so far when the runes `rs` of a text follow the blanks
`held`: a blank is held back until a rune that is not blank follows. -/
def writtenOf : List Nat → List Nat → List Nat
  | _, [] => []
  | held, r :: rest =>
    if r = 32 ∨ r = 9 then writtenOf (held ++ [r]) rest else held ++ r :: writtenOf [] rest

/-- The blanks still held back after the runes `rs` of a text. -/
def heldAfter : List Nat → List Nat → List Nat
  | held, [] => held
  | held, r :: rest => if r = 32 ∨ r = 9 then heldAfter (held ++ [r]) rest else heldAfter [] rest

/-- Whether the last rune written is a digit, after the runes `rs` of a text:
the flag `lastWasDigit`, which a rune held back leaves as it is. -/
def lastDigit : Bool → List Nat → Bool
  | f, [] => f
  | f, r :: rest =>
    if r = 32 ∨ r = 9 then lastDigit f rest
    else lastDigit (decide (0x30 ≤ r) && decide (r ≤ 0x39)) rest

/-- The content of a code span with a fence of `n` backticks: after a run of
`k` backticks, the runes `c` hold no run of exactly `n` backticks followed by
another rune, and they do not end in a backtick. -/
def runsOK (n : Nat) : Nat → List Nat → Bool
  | k, [] => decide (k = 0)
  | k, r :: rest =>
    if r = 0x60 then runsOK n (k + 1) rest else decide (k ≠ n) && runsOK n 0 rest

/-- The Code token of an inline code span with the content `c`, or nothing
when the trimmed text is empty. -/
def codeSpanEvents (p : liveParser) (c : List Nat) : List Event :=
  if codeSpanText c ≠ [] then
    [Event.token { Text := codeSpanText c, Style := p.styles.CodeInline, Kind := tokenCode,
                   CodeBlock := false }]
  else []

/-- The parser with the emphasis flag toggled. -/
def toggleEm (p : liveParser) : liveParser :=
  { p with inline := { p.inline with inEm := !p.inline.inEm } }

/-- The style and kind that `inlineStyle` computes, as a function of the
fields it reads. -/
def inlineStyleOf (styles : Styles) (lineStyled : Bool) (lineStyle : Style)
    (inCode inEm inStrong : Bool) : Style × tokenKind :=
  let sk : Style × tokenKind :=
    if inCode then (styles.CodeInline, tokenCode)
    else if inEm ∧ inStrong then (styles.EmphasisStrong, tokenText)
    else if inStrong then (styles.Strong, tokenText)
    else if inEm then (styles.Emphasis, tokenText)
    else if lineStyled then (lineStyle, tokenText)
    else (styles.Text, tokenText)
  if lineStyled ∧ sk.1.Prefix ≠ lineStyle.Prefix ∧ sk.1.Prefix ≠ styles.Text.Prefix then
    (combineStyles lineStyle sk.1, sk.2)
  else sk

/-- No link, autolink or entity is open and no numeric underscore or closing
bracket is pending. -/
def spanFree (i : inlineState) : Prop :=
  i.inLink = false ∧ i.inLinkURL = false ∧ i.inAutoLink = false ∧ i.inEntity = false ∧
  i.pendingNumUS = false ∧ i.pendingClose = false

/-- The parser is inside an inline code span with a fence of `n` backticks and
the content `B`, and `k` backticks are pending; nothing else is open or held
back. -/
def inSpan (n : Nat) (B : List Nat) (k : Nat) (x : PState (List Event)) : Prop :=
  spanFree x.p.inline ∧ x.p.lineDecided = true ∧ x.p.inline.pendingCount = 0 ∧
  x.p.inline.inCode = true ∧ x.p.immediateSpaces = [] ∧ x.p.inline.codeFence = n ∧
  x.p.inline.codeBuf = B ∧ x.p.inline.pendingBackticks = k

/-- A theme whose style prefixes are all different. -/
def markedStyles : Styles :=
  { Text := ⟨[]⟩, Heading := List.replicate 6 ⟨[72]⟩, Emphasis := ⟨[69]⟩, Strong := ⟨[83]⟩,
    EmphasisStrong := ⟨[66]⟩, CodeInline := ⟨[67]⟩, CodeBlock := ⟨[75]⟩, Quote := ⟨[81]⟩,
    ListMarker := ⟨[77]⟩, LinkText := ⟨[76]⟩, LinkURL := ⟨[85]⟩, ThematicBreak := ⟨[84]⟩ }

/-! ### Quiet output of the sink -/

/-- A byte that the sink writes without noting it as the end of a line's text:
a blank, or the `>` of a wrap indent. -/
def quietByte (b : Nat) : Prop := b = 32 ∨ b = 9 ∨ b = 0x3E

/-- Bytes made only of blanks, `>` and the pieces `P`, one after the other. -/
def Quiet (P : List (List Nat)) (t : List Nat) : Prop :=
  ∃ ps : List (List Nat), t = ps.flatten ∧ ∀ p ∈ ps, p ∈ P ∨ ∃ b, p = [b] ∧ quietByte b

/-- An output that is a part that is empty or ends in a newline, followed only
by quiet bytes. -/
def QuietEnd (P : List (List Nat)) (out : List Nat) : Prop :=
  ∃ pre tail, out = pre ++ tail ∧ (pre = [] ∨ pre.getLast? = some 10) ∧ Quiet P tail

/-- The pieces that the sink writes for the tokens besides their texts: the
reset sequence, the style prefixes, and the OSC 8 sequences of the links. -/
def quietPieces (toks : List StreamToken) : List (List Nat) :=
  ansiReset :: osc8End ::
    (toks.map (fun t => t.Style.Prefix) ++
     toks.map (fun t => osc8Start ++ t.LinkURL ++ [0x1B, 0x5C]))

/-- An atom as `WriteToken` builds them from a token whose style prefix is one
of the pieces: one with a space boundary holds a space or a tab. -/
def atomQ (P : List (List Nat)) (a : atom) : Prop :=
  a.tok.Style.Prefix ∈ P ∧ (a.boundary = boundarySpace → a.tok.Text = [32] ∨ a.tok.Text = [9])

/-- The second invariant of a sink over a working writer: while the flag
`lastWasNewline` is set the output is a part that is empty or ends in a
newline, followed only by quiet bytes; the wrap indent holds only spaces and
`>`; the atoms buffered for an `&nbsp;` entity are well formed. -/
def QPart (P : List (List Nat)) (s : StreamRenderer) : Prop :=
  (s.lastWasNewline = true → QuietEnd P s.w.out) ∧ (∀ b ∈ s.wrapIndent, b = 32 ∨ b = 0x3E) ∧
  ∀ a ∈ s.nbspBuf, atomQ P a

/-- A step of the sink that leaves the flag, the wrap indent and the `nbsp`
buffer as they are and writes only quiet bytes. -/
def QuietStep (P : List (List Nat)) (s s1 : StreamRenderer) : Prop :=
  s1.nbspBuf = s.nbspBuf ∧ s1.lastWasNewline = s.lastWasNewline ∧
  s1.wrapIndent = s.wrapIndent ∧ ∃ X, s1.w.out = s.w.out ++ X ∧ Quiet P X

/-! ## Theorems -/

/-! ### Front-matter filter: lemmas -/

theorem IndexByte_some_lt {A : List Nat} {c i : Nat} (h : IndexByte A c = some i) :
    i < A.length := by
  induction A generalizing i with
  | nil => simp [IndexByte] at h
  | cons b t ih =>
    simp only [IndexByte] at h
    split at h
    · cases h; simp
    · cases h' : IndexByte t c with
      | none => simp [h'] at h
      | some j =>
        simp [h'] at h
        subst h
        have := ih h'
        simp; omega

theorem IndexByte_append {A R : List Nat} {c i : Nat} (h : IndexByte A c = some i) :
    IndexByte (A ++ R) c = some i := by
  induction A generalizing i with
  | nil => simp [IndexByte] at h
  | cons b t ih =>
    simp only [IndexByte, List.cons_append] at h ⊢
    split
    · rename_i hb; simp [hb] at h; simp [h]
    · rename_i hb
      simp [hb] at h
      obtain ⟨j, hj, rfl⟩ := h
      simp [ih hj]

theorem IndexByte_eq_none {A : List Nat} {c : Nat} : IndexByte A c = none ↔ c ∉ A := by
  induction A with
  | nil => simp [IndexByte]
  | cons b t ih =>
    simp only [IndexByte]
    split
    · rename_i hb; simp [hb]
    · rename_i hb
      simp [ih]
      intro _
      exact fun h => hb h.symm

theorem IndexByte_split {A : List Nat} {c i : Nat} (h : IndexByte A c = some i) :
    A = A.take i ++ c :: A.drop (i + 1) ∧ c ∉ A.take i := by
  induction A generalizing i with
  | nil => simp [IndexByte] at h
  | cons b t ih =>
    simp only [IndexByte] at h
    split at h
    · rename_i hb; cases h; simp [hb]
    · rename_i hb
      simp at h
      obtain ⟨j, hj, rfl⟩ := h
      have := ih hj
      refine ⟨?_, ?_⟩
      · simp; exact this.1
      · simp; exact ⟨fun h => hb h.symm, this.2⟩

theorem IndexByte_of_not_mem {L R : List Nat} {c : Nat} (h : c ∉ L) :
    IndexByte (L ++ c :: R) c = some L.length := by
  induction L with
  | nil => simp [IndexByte]
  | cons b t ih =>
    simp at h
    simp [IndexByte, ih h.2]
    exact fun hb => absurd hb.symm h.1

theorem nextLine_false_bounds {P : List Nat} {s : Nat} {l : List Nat} {n : Nat}
    (h : nextLine P s false = some (l, n)) : s < n ∧ n ≤ P.length := by
  unfold nextLine at h
  split at h
  · simp at h
  · split at h
    · simp at h
    · cases hi : IndexByte (P.drop s) 10 with
      | none => simp [hi] at h
      | some i =>
        simp [hi] at h
        have := IndexByte_some_lt hi
        simp at this
        omega

theorem nextLine_extend {P R : List Nat} {s : Nat} {x : List Nat × Nat} (e : Bool)
    (h : nextLine P s false = some x) : nextLine (P ++ R) s e = some x := by
  unfold nextLine at h ⊢
  split at h
  · simp at h
  · split at h
    · simp at h
    · rename_i h1 h2
      cases hi : IndexByte (P.drop s) 10 with
      | none => simp [hi] at h
      | some i =>
        have hlt := IndexByte_some_lt hi
        simp at hlt
        have hs : s < P.length := by omega
        have hd : (P ++ R).drop s = P.drop s ++ R := by
          rw [List.drop_append_of_le_length (by omega)]
        have h3 : ¬ s > (P ++ R).length := by simp; omega
        have h4 : ¬ s = (P ++ R).length := by simp; omega
        simp only [h3, h4, if_false, hd, IndexByte_append hi]
        simp only [hi] at h
        rw [← h]
        simp
        congr 1
        rw [List.take_append_of_le_length (by simp; omega)]

theorem findClosingLoop_extend {P R D : List Nat} (e : Bool) :
    ∀ (fuel idx k : Nat), findClosingLoop fuel P idx D false = some k →
      ∀ fuel', fuel ≤ fuel' → findClosingLoop fuel' (P ++ R) idx D e = some k ∧ k ≤ P.length := by
  intro fuel
  induction fuel with
  | zero => intro idx k h; simp [findClosingLoop] at h
  | succ f ih =>
    intro idx k h fuel' hf
    obtain ⟨g, rfl⟩ : ∃ g, fuel' = g + 1 := ⟨fuel' - 1, by omega⟩
    simp only [findClosingLoop] at h ⊢
    split at h
    · simp at h
    · rename_i hidx
      cases hn : nextLine P idx false with
      | none => simp [hn] at h
      | some x =>
        obtain ⟨line, next⟩ := x
        have hb := nextLine_false_bounds hn
        have hidx' : ¬ idx > (P ++ R).length := by simp; omega
        simp only [hidx', if_false, nextLine_extend e hn]
        simp only [hn] at h
        by_cases ht : TrimSpace line = D
        · simp [ht] at h ⊢
          subst h
          exact ⟨rfl, hb.2⟩
        · simp only [ht, if_false] at h ⊢
          by_cases hni : next = idx
          · simp [hni] at h
          · simp only [hni, if_false] at h ⊢
            by_cases hnl : next = P.length
            · simp [hnl] at h
            · have h5 : ¬ (next = (P ++ R).length ∧ (!e) = true) := by
                intro hh; simp at hh; omega
              simp [hnl] at h
              have := ih next k h g (by omega)
              simp only [Bool.and_eq_true, decide_eq_true_eq]
              simp only [h5, if_false]
              exact this

theorem decide_passthrough (P : List Nat) (e : Bool) (out : List Nat)
    (h : (frontMatterFilter.decide { passthrough := false, probe := P } e).2 = some out) :
    (frontMatterFilter.decide { passthrough := false, probe := P } e).1 =
      { passthrough := true, probe := [] } := by
  unfold frontMatterFilter.decide at h ⊢
  simp only at h ⊢
  split <;> rename_i h1 <;> simp only [h1] at h
  · simp at h
  · split <;> rename_i h2 <;> simp only [h2] at h
    · rfl
    · split <;> rename_i h3 <;> simp only [h3] at h
      · simp at h
      · split <;> rename_i h4 <;> simp only [h4] at h
        · rfl
        · split <;> rename_i h5 <;> simp only [h5] at h
          · split <;> rename_i h6
            · rfl
            · simp [h6] at h
          · rfl

theorem decide_undecided (P : List Nat) (e : Bool)
    (h : (frontMatterFilter.decide { passthrough := false, probe := P } e).2 = none) :
    (frontMatterFilter.decide { passthrough := false, probe := P } e).1 =
      { passthrough := false, probe := P } := by
  unfold frontMatterFilter.decide at h ⊢
  simp only at h ⊢
  split <;> rename_i h1 <;> simp only [h1] at h
  · rfl
  · split <;> rename_i h2 <;> simp only [h2] at h
    · simp at h
    · split <;> rename_i h3 <;> simp only [h3] at h
      · rfl
      · split <;> rename_i h4 <;> simp only [h4] at h
        · simp at h
        · split <;> rename_i h5 <;> simp only [h5] at h
          · split <;> rename_i h6
            · simp [h6] at h
            · rfl
          · simp at h

theorem decide_extend (P R out : List Nat)
    (h : (frontMatterFilter.decide { passthrough := false, probe := P } false).2 = some out) :
    (frontMatterFilter.decide { passthrough := false, probe := P ++ R } true).2 =
      some (out ++ R) := by
  unfold frontMatterFilter.decide at h ⊢
  simp only at h ⊢
  cases h1 : nextLine P 0 false with
  | none => simp [h1] at h
  | some x1 =>
    obtain ⟨l1, n1⟩ := x1
    simp only [h1] at h
    simp only [nextLine_extend true h1]
    cases h2 : parseOpeningFrontMatterDelimiter l1 with
    | none => simp [h2] at h ⊢; simp [h]
    | some D =>
      simp only [h2] at h ⊢
      cases h3 : nextLine P n1 false with
      | none => simp [h3] at h
      | some x2 =>
        obtain ⟨l2, n2⟩ := x2
        simp only [h3] at h
        simp only [nextLine_extend true h3]
        by_cases h4 : frontMatterMetadataLikely l2 = true
        · simp only [h4, Bool.not_true, Bool.false_eq_true, if_false] at h ⊢
          cases h5 : findClosingFrontMatterDelimiter P n2 D false with
          | none => simp [h5] at h
          | some k =>
            simp only [h5] at h
            unfold findClosingFrontMatterDelimiter at h5 ⊢
            have := findClosingLoop_extend (R := R) true _ _ _ h5 ((P ++ R).length + 1) (by simp)
            simp only [this.1]
            simp at h
            subst h
            simp
            rw [List.drop_append_of_le_length this.2]
        · simp [h4] at h ⊢
          simp [h]

theorem filterChunks_passthrough (P : List Nat) (cs : List (List Nat)) :
    filterChunks { passthrough := true, probe := P } cs = cs.flatten := by
  induction cs with
  | nil => simp [filterChunks, frontMatterFilter.finish]
  | cons c cs ih => simp [filterChunks, frontMatterFilter.process, ih]

theorem oneShot_nil : oneShot [] = [] := by decide

theorem finish_eq_oneShot (P : List Nat) :
    frontMatterFilter.finish { passthrough := false, probe := P } = oneShot P := by
  by_cases hP : P.length = 0
  · have : P = [] := List.length_eq_zero.mp hP
    subst this
    decide
  · unfold frontMatterFilter.finish oneShot
    simp only [Bool.false_eq_true, hP, decide_False, Bool.or_self, if_false]
    cases frontMatterFilter.decide { passthrough := false, probe := P } true with
    | mk a b => cases b <;> rfl

theorem process_empty (f : frontMatterFilter) : f.process [] = (f, []) := by
  simp [frontMatterFilter.process]

theorem process_decided (P c out : List Nat) (hc : c ≠ [])
    (hd : (frontMatterFilter.decide { passthrough := false, probe := P ++ c } false).2 = some out) :
    frontMatterFilter.process { passthrough := false, probe := P } c =
      ({ passthrough := true, probe := [] }, out) := by
  have h1 := decide_passthrough _ _ _ hd
  have hsplit : frontMatterFilter.decide { passthrough := false, probe := P ++ c } false
      = ({ passthrough := true, probe := [] }, some out) := Prod.ext h1 hd
  have hc' : ¬ c.length = 0 := fun h => hc (List.length_eq_zero.mp h)
  unfold frontMatterFilter.process
  simp only [Bool.false_eq_true, hc', decide_False, Bool.or_self, if_false, hsplit]

theorem process_undecided (P c : List Nat) (hc : c ≠ [])
    (hd : (frontMatterFilter.decide { passthrough := false, probe := P ++ c } false).2 = none) :
    frontMatterFilter.process { passthrough := false, probe := P } c =
      if (P ++ c).length > maxFrontMatterProbeBytes
      then ({ passthrough := true, probe := [] }, P ++ c)
      else ({ passthrough := false, probe := P ++ c }, []) := by
  have h1 := decide_undecided _ _ hd
  have hsplit : frontMatterFilter.decide { passthrough := false, probe := P ++ c } false
      = ({ passthrough := false, probe := P ++ c }, none) := Prod.ext h1 hd
  have hc' : ¬ c.length = 0 := fun h => hc (List.length_eq_zero.mp h)
  unfold frontMatterFilter.process
  simp only [Bool.false_eq_true, hc', decide_False, Bool.or_self, if_false, hsplit]

/-- Streaming a stream in chunks gives what the filter returns for the whole
stream at end of input, when the stream fits the probe budget or the whole
stream is forwarded unchanged. -/
theorem filterChunks_eq_oneShot (cs : List (List Nat)) :
    ∀ P : List Nat,
      ((P ++ cs.flatten).length ≤ maxFrontMatterProbeBytes ∨
        oneShot (P ++ cs.flatten) = P ++ cs.flatten) →
      filterChunks { passthrough := false, probe := P } cs = oneShot (P ++ cs.flatten) := by
  induction cs with
  | nil =>
    intro P _
    simp only [filterChunks, List.flatten_nil, List.append_nil, finish_eq_oneShot]
  | cons c cs ih =>
    intro P hW
    simp only [filterChunks]
    by_cases hc : c = []
    · subst hc
      simp only [process_empty, List.nil_append]
      simpa using ih P (by simpa using hW)
    · cases hd : (frontMatterFilter.decide { passthrough := false, probe := P ++ c } false).2 with
      | some out =>
        have h2 := decide_extend (P ++ c) cs.flatten out hd
        simp only [process_decided P c out hc hd, filterChunks_passthrough]
        simp only [oneShot, List.flatten_cons, ← List.append_assoc, h2]
      | none =>
        rw [process_undecided P c hc hd]
        by_cases hbig : (P ++ c).length > maxFrontMatterProbeBytes
        · simp only [hbig, if_true, filterChunks_passthrough]
          rcases hW with hW | hW
          · simp at hW hbig; omega
          · simp only [List.flatten_cons, ← List.append_assoc] at hW ⊢
            rw [hW]
        · simp only [hbig, if_false, List.nil_append]
          have := ih (P ++ c) (by simpa [List.append_assoc] using hW)
          simpa [List.append_assoc] using this

theorem nextLine_at (pre L rest : List Nat) (e : Bool) (h : 10 ∉ L) :
    nextLine (pre ++ (L ++ 10 :: rest)) pre.length e =
      some (trimCR L, pre.length + L.length + 1) := by
  unfold nextLine
  have h1 : ¬ pre.length > (pre ++ (L ++ 10 :: rest)).length := by simp
  have h2 : ¬ pre.length = (pre ++ (L ++ 10 :: rest)).length := by simp
  simp only [h1, h2, if_false, List.drop_left, IndexByte_of_not_mem h]
  simp

theorem nextLine_last (pre L : List Nat) (h : 10 ∉ L) :
    nextLine (pre ++ L) pre.length true = some (trimCR L, (pre ++ L).length) := by
  unfold nextLine
  have h1 : ¬ pre.length > (pre ++ L).length := by simp
  simp only [h1, if_false, List.drop_left]
  by_cases hL : L = []
  · subst hL; simp [trimCR]
  · have h2 : ¬ pre.length = (pre ++ L).length := by
      simp; exact hL
    simp only [h2, if_false, IndexByte_eq_none.mpr h]
    simp

theorem parseOpening_some {l D : List Nat} (h : parseOpeningFrontMatterDelimiter l = some D) :
    D = delimDash ∨ D = delimPlus ∨ D = delimSemi := by
  unfold parseOpeningFrontMatterDelimiter at h
  simp only at h
  split at h
  · simp at h; exact Or.inl h.symm
  · split at h
    · simp at h; exact Or.inr (Or.inl h.symm)
    · split at h
      · simp at h; exact Or.inr (Or.inr h.symm)
      · simp at h

theorem findClosingLoop_lines (D C T post : List Nat) (hC : 10 ∉ C)
    (hT : (T = [] ∧ post = []) ∨ T = 10 :: post) (hCD : TrimSpace (trimCR C) = D) :
    ∀ (ms : List (List Nat)) (pre : List Nat) (fuel : Nat),
      (∀ m ∈ ms, 10 ∉ m ∧ TrimSpace (trimCR m) ≠ D) → ms.length + 1 ≤ fuel →
      ∃ k, findClosingLoop fuel (pre ++ ((ms.map (· ++ [10])).flatten ++ (C ++ T)))
            pre.length D true = some k ∧
          (pre ++ ((ms.map (· ++ [10])).flatten ++ (C ++ T))).drop k = post := by
  intro ms
  induction ms with
  | nil =>
    intro pre fuel _ hf
    obtain ⟨g, rfl⟩ : ∃ g, fuel = g + 1 := ⟨fuel - 1, by simp at hf; omega⟩
    simp only [List.map_nil, List.flatten_nil, List.nil_append, findClosingLoop]
    have h1 : ¬ pre.length > (pre ++ (C ++ T)).length := by simp
    simp only [h1, if_false]
    rcases hT with ⟨rfl, rfl⟩ | rfl
    · simp only [List.append_nil, nextLine_last pre C hC, hCD, if_true]
      exact ⟨_, rfl, by simp⟩
    · simp only [nextLine_at pre C post true hC, hCD, if_true]
      refine ⟨_, rfl, ?_⟩
      have : pre.length + C.length + 1 = (pre ++ (C ++ [10])).length := by simp; omega
      rw [this, show pre ++ (C ++ 10 :: post) = (pre ++ (C ++ [10])) ++ post by simp]
      simp
  | cons m ms ih =>
    intro pre fuel hms hf
    obtain ⟨g, rfl⟩ : ∃ g, fuel = g + 1 := ⟨fuel - 1, by simp at hf; omega⟩
    have hm := hms m (by simp)
    have hrest : ∀ m' ∈ ms, 10 ∉ m' ∧ TrimSpace (trimCR m') ≠ D :=
      fun m' h' => hms m' (by simp [h'])
    have hshape : pre ++ (((m :: ms).map (· ++ [10])).flatten ++ (C ++ T)) =
        pre ++ (m ++ 10 :: ((ms.map (· ++ [10])).flatten ++ (C ++ T))) := by simp
    have hshape2 : pre ++ (m ++ 10 :: ((ms.map (· ++ [10])).flatten ++ (C ++ T))) =
        (pre ++ (m ++ [10])) ++ ((ms.map (· ++ [10])).flatten ++ (C ++ T)) := by simp
    rw [hshape]
    simp only [findClosingLoop]
    have h1 : ¬ pre.length >
        (pre ++ (m ++ 10 :: ((ms.map (· ++ [10])).flatten ++ (C ++ T)))).length := by simp
    simp only [h1, if_false, nextLine_at pre m _ true hm.1, hm.2]
    have h2 : ¬ pre.length + m.length + 1 = pre.length := by omega
    simp only [h2, if_false, Bool.not_true, Bool.and_false, Bool.false_eq_true]
    have := ih (pre ++ (m ++ [10])) g hrest (by simp at hf; omega)
    rw [hshape2]
    have hl : (pre ++ (m ++ [10])).length = pre.length + m.length + 1 := by simp; omega
    rw [hl] at this
    exact this

theorem length_le_flatten_lines (ms : List (List Nat)) :
    ms.length ≤ ((ms.map (· ++ [10])).flatten).length := by
  induction ms with
  | nil => simp
  | cons m ms ih => simp at ih ⊢; omega

theorem oneShot_of_prefixed {W post : List Nat} (h : FrontMatterPrefixed W post) :
    oneShot W = post := by
  obtain ⟨L1, L2, ms, C, T, D, hW, h1, h2, hms, hC, hT, hopen, hmeta, hclose⟩ := h
  subst hW
  unfold oneShot frontMatterFilter.decide
  simp only
  have e1 := nextLine_at [] L1 (L2 ++ 10 :: ((ms.map (· ++ [10])).flatten ++ (C ++ T))) true h1
  simp only [List.nil_append, List.length_nil, Nat.zero_add] at e1
  simp only [e1, hopen]
  have e2 := nextLine_at (L1 ++ [10]) L2 ((ms.map (· ++ [10])).flatten ++ (C ++ T)) true h2
  have hl : (L1 ++ [10]).length = L1.length + 1 := by simp
  rw [hl] at e2
  have hs : L1 ++ [10] ++ (L2 ++ 10 :: ((ms.map (· ++ [10])).flatten ++ (C ++ T))) =
      L1 ++ 10 :: (L2 ++ 10 :: ((ms.map (· ++ [10])).flatten ++ (C ++ T))) := by simp
  rw [hs] at e2
  simp only [e2, hmeta, Bool.not_true, Bool.false_eq_true, if_false]
  have e3 := findClosingLoop_lines D C T post hC hT hclose ms (L1 ++ 10 :: (L2 ++ [10]))
    ((L1 ++ 10 :: (L2 ++ 10 :: ((ms.map (· ++ [10])).flatten ++ (C ++ T)))).length + 1) hms
    (by have := length_le_flatten_lines ms; simp at this ⊢; omega)
  obtain ⟨k, hk, hdrop⟩ := e3
  have hs3 : L1 ++ 10 :: (L2 ++ [10]) ++ ((ms.map (· ++ [10])).flatten ++ (C ++ T)) =
      L1 ++ 10 :: (L2 ++ 10 :: ((ms.map (· ++ [10])).flatten ++ (C ++ T))) := by simp
  have hl3 : (L1 ++ 10 :: (L2 ++ [10])).length = L1.length + 1 + L2.length + 1 := by
    simp; omega
  rw [hs3, hl3] at hk
  rw [hs3] at hdrop
  unfold findClosingFrontMatterDelimiter
  simp only [hk, hdrop]

theorem nextLine_true_cases (W : List Nat) (s : Nat) (hs : s ≤ W.length) :
    (∃ L rest, W.drop s = L ++ 10 :: rest ∧ 10 ∉ L ∧
        nextLine W s true = some (trimCR L, s + L.length + 1)) ∨
    (10 ∉ W.drop s ∧ nextLine W s true = some (trimCR (W.drop s), W.length)) := by
  have hW : W = W.take s ++ W.drop s := (List.take_append_drop s W).symm
  have hl : (W.take s).length = s := by simp; omega
  cases hi : IndexByte (W.drop s) 10 with
  | none =>
    right
    have hn := IndexByte_eq_none.mp hi
    refine ⟨hn, ?_⟩
    have := nextLine_last (W.take s) (W.drop s) hn
    rw [hl, ← hW] at this
    exact this
  | some i =>
    left
    have hsp := IndexByte_split hi
    refine ⟨(W.drop s).take i, (W.drop s).drop (i + 1), hsp.1, hsp.2, ?_⟩
    have := nextLine_at (W.take s) ((W.drop s).take i) ((W.drop s).drop (i + 1)) true hsp.2
    rw [← hsp.1, ← hW, hl] at this
    exact this

theorem trimCR_nil : trimCR [] = [] := by decide

theorem TrimSpace_nil : TrimSpace [] = [] := by decide

theorem findClosingLoop_at_end (W D : List Nat) (hD : D ≠ []) (g : Nat) :
    findClosingLoop g W W.length D true = none := by
  cases g with
  | zero => rfl
  | succ g =>
    simp only [findClosingLoop]
    have h1 : ¬ W.length > W.length := by omega
    have := nextLine_last W [] (by simp)
    simp only [List.append_nil, trimCR_nil] at this
    simp only [h1, if_false, this, TrimSpace_nil]
    have h2 : ¬ ([] : List Nat) = D := fun h => hD h.symm
    simp [h2]

theorem findClosingLoop_decompose (W D : List Nat) (hD : D ≠ []) :
    ∀ (fuel idx k : Nat), idx ≤ W.length → findClosingLoop fuel W idx D true = some k →
      ∃ (ms : List (List Nat)) (C T post : List Nat),
        W.drop idx = (ms.map (· ++ [10])).flatten ++ (C ++ T) ∧
        (∀ m ∈ ms, 10 ∉ m ∧ TrimSpace (trimCR m) ≠ D) ∧ 10 ∉ C ∧
        ((T = [] ∧ post = []) ∨ T = 10 :: post) ∧ TrimSpace (trimCR C) = D := by
  intro fuel
  induction fuel with
  | zero => intro idx k _ h; simp [findClosingLoop] at h
  | succ g ih =>
    intro idx k hidx h
    simp only [findClosingLoop] at h
    have h1 : ¬ idx > W.length := by omega
    simp only [h1, if_false] at h
    rcases nextLine_true_cases W idx hidx with ⟨L, rest, hdrop, hL, hn⟩ | ⟨hno, hn⟩
    · simp only [hn] at h
      by_cases ht : TrimSpace (trimCR L) = D
      · exact ⟨[], L, 10 :: rest, rest, by simpa using hdrop, by simp, hL, Or.inr rfl, ht⟩
      · have h2 : ¬ idx + L.length + 1 = idx := by omega
        simp only [ht, if_false, h2, Bool.not_true, Bool.and_false, Bool.false_eq_true] at h
        have hlen : idx + L.length + 1 ≤ W.length := by
          have := congrArg List.length hdrop
          simp at this
          omega
        obtain ⟨ms, C, T, post, hd2, hms, hC, hT, hCD⟩ := ih _ k hlen h
        have hd3 : W.drop (idx + L.length + 1) = rest := by
          have : W.drop (idx + L.length + 1) = (W.drop idx).drop (L.length + 1) := by
            rw [List.drop_drop]; congr 1
          rw [this, hdrop]
          have : L ++ 10 :: rest = (L ++ [10]) ++ rest := by simp
          rw [this, List.drop_left' (by simp)]
        refine ⟨L :: ms, C, T, post, ?_, ?_, hC, hT, hCD⟩
        · rw [hdrop, ← hd3, hd2]; simp
        · intro m hm
          simp at hm
          rcases hm with rfl | hm
          · exact ⟨hL, ht⟩
          · exact hms m hm
    · simp only [hn] at h
      by_cases ht : TrimSpace (trimCR (W.drop idx)) = D
      · exact ⟨[], W.drop idx, [], [], by simp, by simp, hno, Or.inl ⟨rfl, rfl⟩, ht⟩
      · simp only [ht, if_false] at h
        by_cases h3 : W.length = idx
        · simp [h3] at h
        · simp only [h3, if_false, Bool.not_true, Bool.and_false, Bool.false_eq_true] at h
          rw [findClosingLoop_at_end W D hD g] at h
          simp at h

theorem metadataLikely_nil : frontMatterMetadataLikely [] = false := by decide

/-- At end of input the filter either forwards the whole stream or the stream
opens with a front-matter block. -/
theorem oneShot_cases (W : List Nat) :
    oneShot W = W ∨ ∃ post, FrontMatterPrefixed W post := by
  unfold oneShot frontMatterFilter.decide
  simp only
  rcases nextLine_true_cases W 0 (by omega) with ⟨L1, rest1, hd1, hL1, hn1⟩ | ⟨_, hn1⟩
  · simp only [Nat.zero_add] at hn1
    simp only [hn1]
    cases ho : parseOpeningFrontMatterDelimiter (trimCR L1) with
    | none => left; rfl
    | some D =>
      simp only []
      have hDne : D ≠ [] := by
        rcases parseOpening_some ho with rfl | rfl | rfl <;> decide
      simp only [List.drop_zero] at hd1
      have hlen1 : L1.length + 1 ≤ W.length := by
        have := congrArg List.length hd1
        simp at this
        omega
      have hdr1 : W.drop (L1.length + 1) = rest1 := by
        rw [hd1]
        have : L1 ++ 10 :: rest1 = (L1 ++ [10]) ++ rest1 := by simp
        rw [this, List.drop_left' (by simp)]
      rcases nextLine_true_cases W (L1.length + 1) hlen1 with
        ⟨L2, rest2, hd2, hL2, hn2⟩ | ⟨_, hn2⟩
      · simp only [hn2]
        by_cases hm : frontMatterMetadataLikely (trimCR L2) = true
        · simp only [hm, Bool.not_true, Bool.false_eq_true, if_false]
          cases hf : findClosingFrontMatterDelimiter W (L1.length + 1 + L2.length + 1) D true with
          | none => left; rfl
          | some k =>
            right
            have hlen2 : L1.length + 1 + L2.length + 1 ≤ W.length := by
              have := congrArg List.length hd2
              simp at this
              omega
            unfold findClosingFrontMatterDelimiter at hf
            obtain ⟨ms, C, T, post, hd3, hms, hC, hT, hCD⟩ :=
              findClosingLoop_decompose W D hDne _ _ _ hlen2 hf
            have hdr2 : W.drop (L1.length + 1 + L2.length + 1) = rest2 := by
              have : W.drop (L1.length + 1 + L2.length + 1) =
                  (W.drop (L1.length + 1)).drop (L2.length + 1) := by
                rw [List.drop_drop]; congr 1
              rw [this, hd2]
              have : L2 ++ 10 :: rest2 = (L2 ++ [10]) ++ rest2 := by simp
              rw [this, List.drop_left' (by simp)]
            refine ⟨post, L1, L2, ms, C, T, D, ?_, hL1, hL2, hms, hC, hT, ho, hm, hCD⟩
            rw [← hd3, hdr2, ← hd2, hdr1, ← hd1]
        · left
          simp [hm]
      · left
        simp only [hn2]
        by_cases hm : frontMatterMetadataLikely (trimCR (W.drop (L1.length + 1))) = true
        · simp only [hm, Bool.not_true, Bool.false_eq_true, if_false]
          unfold findClosingFrontMatterDelimiter
          rw [findClosingLoop_at_end W D hDne]
          simp
        · simp [hm]
  · simp only [hn1]
    cases ho : parseOpeningFrontMatterDelimiter (trimCR (W.drop 0)) with
    | none => left; rfl
    | some D =>
      left
      simp only []
      have := nextLine_last W [] (by simp)
      simp only [List.append_nil, trimCR_nil] at this
      simp [this, metadataLikely_nil]

theorem prefixed_length_lt {W post : List Nat} (h : FrontMatterPrefixed W post) :
    post.length < W.length := by
  obtain ⟨L1, L2, ms, C, T, D, hW, _, _, _, _, hT, _, _, _⟩ := h
  subst hW
  rcases hT with ⟨rfl, rfl⟩ | rfl
  · simp
  · simp; omega

/-! ### Claims -/

/-- C3: a rune split across a read boundary can make the following rune
disappear.  The input is `é€` (bytes C3 A9 E2 82 AC).  Read in one piece,
`Parse` delivers both runes; read as the chunks `C3` and `A9 E2 82 AC`, the
carried tail is joined with `A9 E2 82`, the incomplete `E2 82` is stored as the
new tail, and the rest of the chunk (`AC`) is then sanitised on its own and
overwrites that tail: only `é` is delivered. -/
theorem C3_split_rune_drops_neighbour :
    parseRunes [[0xC3, 0xA9, 0xE2, 0x82, 0xAC]] = [0xE9, 0x20AC] ∧
    parseRunes [[0xC3], [0xA9, 0xE2, 0x82, 0xAC]] = [0xE9] ∧
    readChunk [0xC3] [0xA9, 0xE2, 0x82, 0xAC] = ([[0xC3, 0xA9], []], []) := by
  decide

/-- C4: a stream of at most 64 KiB that opens with a front-matter block (first
line an opening delimiter, second line metadata-like, a later line that trims
to the same delimiter) is output, for every split into chunks, as exactly the
bytes that follow the first closing line; whatever follows, later delimiter
blocks included, is forwarded verbatim. -/
theorem C4_front_matter_block_dropped (chunks : List (List Nat)) (post : List Nat)
    (hlen : chunks.flatten.length ≤ 64 * 1024)
    (h : FrontMatterPrefixed chunks.flatten post) :
    filterChunks freshFilter chunks = post := by
  have := filterChunks_eq_oneShot chunks [] (Or.inl (by simpa [maxFrontMatterProbeBytes] using hlen))
  simp only [List.nil_append] at this
  rw [← oneShot_of_prefixed h]
  exact this

/-- The stream `---\nt: S\n---\n\nB\n\n---\nk: y\n---\n` read as the chunks
`---\nt: S\n--` and `-\n\nB\n\n---\nk: y\n---\n`: the first block is dropped
and the second block is kept. -/
theorem C4_front_matter_block_dropped_witness :
    filterChunks freshFilter
      [[45, 45, 45, 10, 116, 58, 32, 83, 10, 45, 45],
       [45, 10, 10, 66, 10, 10, 45, 45, 45, 10, 107, 58, 32, 121, 10, 45, 45, 45, 10]] =
      [10, 66, 10, 10, 45, 45, 45, 10, 107, 58, 32, 121, 10, 45, 45, 45, 10] :=
  C4_front_matter_block_dropped _ _ (by decide)
    ⟨[45, 45, 45], [116, 58, 32, 83], [], [45, 45, 45],
     [10, 10, 66, 10, 10, 45, 45, 45, 10, 107, 58, 32, 121, 10, 45, 45, 45, 10], [45, 45, 45],
     by decide, by decide, by decide, by decide, by decide, by decide, by decide, by decide,
     by decide⟩

/-- C5: a stream that does not open with a front-matter block (its first line
is not a delimiter, or its second line is not metadata-like, or no later line
trims to the opening delimiter) is output unchanged, byte for byte, for every
split into chunks and whatever its length. -/
theorem C5_other_streams_unchanged (chunks : List (List Nat))
    (h : ¬ ∃ post, FrontMatterPrefixed chunks.flatten post) :
    filterChunks freshFilter chunks = chunks.flatten := by
  have h1 : oneShot chunks.flatten = chunks.flatten := by
    rcases oneShot_cases chunks.flatten with h1 | h1
    · exact h1
    · exact absurd h1 h
  have := filterChunks_eq_oneShot chunks [] (Or.inr (by simpa using h1))
  simp only [List.nil_append] at this
  exact this.trans h1

/-- The stream `---\n# K\n---\n\nT\n` (a delimiter line that no metadata
follows) read as the chunks `---\n# K` and `\n---\n\nT\n`. -/
theorem C5_other_streams_unchanged_witness :
    filterChunks freshFilter
      [[45, 45, 45, 10, 35, 32, 75], [10, 45, 45, 45, 10, 10, 84, 10]] =
      [45, 45, 45, 10, 35, 32, 75, 10, 45, 45, 45, 10, 10, 84, 10] :=
  C5_other_streams_unchanged _ (by
    rintro ⟨post, h⟩
    have h1 := oneShot_of_prefixed h
    have h2 := prefixed_length_lt h
    have h3 : oneShot [45, 45, 45, 10, 35, 32, 75, 10, 45, 45, 45, 10, 10, 84, 10] =
        [45, 45, 45, 10, 35, 32, 75, 10, 45, 45, 45, 10, 10, 84, 10] := by decide
    simp only [List.flatten, List.cons_append, List.nil_append, List.append_nil] at h1 h2
    rw [h3] at h1
    rw [← h1] at h2
    exact absurd h2 (by decide))

/-- C6, as stated, fails: the stream `\n---\nt: x\n---\nB\n` is an empty line
followed by a front-matter block, and the filter outputs all of it. -/
theorem C6_empty_first_line_not_skipped :
    FrontMatterPrefixed [45, 45, 45, 10, 116, 58, 32, 120, 10, 45, 45, 45, 10, 66, 10] [66, 10] ∧
    filterChunks freshFilter
      [[10, 45, 45, 45, 10, 116, 58, 32, 120, 10, 45, 45, 45, 10, 66, 10]] =
      [10, 45, 45, 45, 10, 116, 58, 32, 120, 10, 45, 45, 45, 10, 66, 10] :=
  ⟨⟨[45, 45, 45], [116, 58, 32, 120], [], [45, 45, 45], [10, 66, 10], [45, 45, 45],
     by decide, by decide, by decide, by decide, by decide, by decide, by decide, by decide,
     by decide⟩, by decide⟩

/-- C6, amended: the opening delimiter is looked for on the first line only,
empty or not.  A stream whose first line is empty, whatever follows it (a
front-matter block included) and however it is split into chunks, is output
unchanged. -/
theorem C6_first_line_only (chunks : List (List Nat)) (rest : List Nat)
    (h : chunks.flatten = 10 :: rest) :
    filterChunks freshFilter chunks = 10 :: rest := by
  have h1 : oneShot (10 :: rest) = 10 :: rest := by
    unfold oneShot frontMatterFilter.decide
    have := nextLine_at [] [] rest true (by simp)
    simp only [List.nil_append, List.length_nil, trimCR_nil] at this
    simp only [this]
    have h0 : parseOpeningFrontMatterDelimiter [] = none := by decide
    simp only [h0]
  have := filterChunks_eq_oneShot chunks [] (Or.inr (by simpa [h] using h1))
  simp only [List.nil_append] at this
  rw [h] at this
  exact this.trans h1

/-- The stream `\n---\nt: x\n---\nB\n` read as the chunks `\n---\nt: x\n` and
`---\nB\n`. -/
theorem C6_first_line_only_witness :
    filterChunks freshFilter
      [[10, 45, 45, 45, 10, 116, 58, 32, 120, 10], [45, 45, 45, 10, 66, 10]] =
      10 :: [45, 45, 45, 10, 116, 58, 32, 120, 10, 45, 45, 45, 10, 66, 10] :=
  C6_first_line_only _ _ (by decide)

/-! ### The sink over a working writer: lemmas -/

theorem endsOK_append (o t : List Nat) (h : endsOK t) : endsOK (o ++ t) := by
  obtain ⟨b, hb, hne⟩ := h
  refine ⟨b, ?_, hne⟩
  cases t with
  | nil => simp at hb
  | cons x xs => rw [List.getLast?_append_of_ne_nil _ (by simp)]; exact hb

theorem endsOK_of_not_suffix (t : List Nat) (ht : t ≠ []) (h : HasSuffix t [10] = false) :
    endsOK t := by
  unfold HasSuffix at h
  have hl := List.getLast?_eq_some_iff.mpr ⟨t.dropLast, (List.dropLast_append_getLast ht).symm⟩
  refine ⟨t.getLast ht, hl, ?_⟩
  intro h10
  have : [10] <:+ t := ⟨t.dropLast, by rw [← h10]; exact List.dropLast_append_getLast ht⟩
  have := List.isSuffixOf_iff_suffix.mpr this
  simp [h] at this

theorem endsOK_ansiReset : endsOK ansiReset := ⟨0x6D, by decide, by decide⟩

theorem replaceNBSP_ne_nil (fuel : Nat) (t : List Nat) (ht : t ≠ []) : replaceNBSP fuel t ≠ [] := by
  cases fuel with
  | zero => simpa [replaceNBSP] using ht
  | succ n =>
    cases t with
    | nil => exact absurd rfl ht
    | cons b r => simp only [replaceNBSP]; split <;> simp

theorem WriteString_failing (w : Writer) (t : List Nat) :
    (w.WriteString t).1.failing = w.failing := by
  unfold Writer.WriteString; split <;> simp

theorem WriteString_ok (w : Writer) (t : List Nat) (h : w.failing = false) :
    w.WriteString t = ({ w with out := w.out ++ t }, false) := by
  unfold Writer.WriteString; simp [h]

theorem maybeSetWrapIndent_eq (s : StreamRenderer) :
    ∃ wi, s.maybeSetWrapIndent = { s with wrapIndent := wi } := by
  unfold StreamRenderer.maybeSetWrapIndent
  split
  · exact ⟨_, rfl⟩
  · simp only []
    split_ifs <;> first | exact ⟨s.wrapIndent, rfl⟩ | exact ⟨_, rfl⟩

theorem resetStyle_keeps (s : StreamRenderer) : Keeps s s.resetStyle := by
  unfold StreamRenderer.resetStyle Keeps
  split_ifs
  · refine ⟨WriteString_failing _ _, rfl, rfl, fun hf => ⟨ansiReset, ?_, Or.inr endsOK_ansiReset⟩⟩
    simp [WriteString_ok _ _ hf]
  · exact ⟨rfl, rfl, rfl, fun _ => ⟨[], by simp, Or.inl rfl⟩⟩


theorem Keeps.refl (s : StreamRenderer) : Keeps s s :=
  ⟨rfl, rfl, rfl, fun _ => ⟨[], by simp, Or.inl rfl⟩⟩

theorem switchStyle_frame (s : StreamRenderer) (p : List Nat) :
    (s.switchStyle p).w.failing = s.w.failing ∧ (s.switchStyle p).nbspBuf = s.nbspBuf ∧
    (s.switchStyle p).lastWasNewline = s.lastWasNewline := by
  unfold StreamRenderer.switchStyle
  simp only []
  split_ifs <;> simp [WriteString_failing]

theorem notePrefix_frame (s : StreamRenderer) (t : List Nat) :
    (s.notePrefix t).w.failing = s.w.failing ∧ (s.notePrefix t).nbspBuf = s.nbspBuf ∧
    (s.notePrefix t).lastWasNewline = s.lastWasNewline := by
  unfold StreamRenderer.notePrefix
  obtain ⟨wi, hwi⟩ := maybeSetWrapIndent_eq { s with prefixBuf := s.prefixBuf ++ t }
  simp only [hwi]
  have hk := resetStyle_keeps
    { s with prefixBuf := s.prefixBuf ++ t, wrapIndent := wi }
  obtain ⟨h1, h2, h3, _⟩ := hk
  split_ifs <;> simp_all

theorem SinkOK.congr {s s1 : StreamRenderer} (h : SinkOK s) (hw : s1.w = s.w)
    (hl : s1.lastWasNewline = s.lastWasNewline) (hn : s1.nbspBuf = s.nbspBuf) : SinkOK s1 := by
  unfold SinkOK at *
  rw [hw, hl, hn]; exact h

theorem emitText_ok (T : Tables) (s : StreamRenderer) (text : List Nat) (style : Style)
    (h : SinkOK s) :
    (s.emitText T text style).2 = false ∧ SinkOK (s.emitText T text style).1 := by
  obtain ⟨hf, hl, hn⟩ := h
  unfold StreamRenderer.emitText
  by_cases ht : text = []
  · rw [if_pos ht]; exact ⟨rfl, hf, hl, hn⟩
  · simp only [ht, if_false]
    generalize htx : (if Contains text [0xC2, 0xA0] = true then replaceNBSP text.length text
      else text) = tx
    have htx_ne : tx ≠ [] := by
      rw [← htx]; split_ifs
      · exact replaceNBSP_ne_nil _ _ ht
      · exact ht
    generalize hs1 : (if ({ s with lastWasNewline := HasSuffix tx [10] } : StreamRenderer).atLineStart = true
      then ({ s with lastWasNewline := HasSuffix tx [10] } : StreamRenderer).notePrefix tx
      else { s with lastWasNewline := HasSuffix tx [10] }) = s1
    have h1 : s1.w.failing = false ∧ s1.nbspBuf = s.nbspBuf ∧
        s1.lastWasNewline = HasSuffix tx [10] := by
      rw [← hs1]; split_ifs
      · obtain ⟨a, b, c⟩ := notePrefix_frame { s with lastWasNewline := HasSuffix tx [10] } tx
        exact ⟨a.trans hf, b, c⟩
      · exact ⟨hf, rfl, rfl⟩
    obtain ⟨a, b, c⟩ := switchStyle_frame s1 style.Prefix
    have hf2 : (s1.switchStyle style.Prefix).w.failing = false := a.trans h1.1
    simp only [WriteString_ok _ _ hf2]
    refine ⟨trivial, hf2, ?_, ?_⟩
    · intro h10
      simp only [c, h1.2.2] at h10
      exact endsOK_append _ _ (endsOK_of_not_suffix tx htx_ne h10)
    · simp only [b, h1.2.1]; exact hn

theorem emitRune_ok (T : Tables) (s : StreamRenderer) (r : Nat) (style : Style)
    (h : SinkOK s) :
    (s.emitRune T r style).2 = false ∧ SinkOK (s.emitRune T r style).1 := by
  unfold StreamRenderer.emitRune
  split_ifs <;> exact emitText_ok T s _ style h

theorem newline_ok (s : StreamRenderer) (b : Bool) (h : SinkOK s) :
    SinkOK (s.newline b) ∧ (s.newline b).lastWasNewline = true := by
  obtain ⟨hf, hl, hn⟩ := h
  obtain ⟨k1, k2, k3, _⟩ := resetStyle_keeps s
  unfold StreamRenderer.newline
  cases b <;> simp [SinkOK, WriteString_failing, hf, k1, k2] <;> exact hn

theorem emitIndent_frame (T : Tables) (s : StreamRenderer) :
    (s.emitIndent T).w.failing = s.w.failing ∧ (s.emitIndent T).nbspBuf = s.nbspBuf ∧
    (s.emitIndent T).lastWasNewline = s.lastWasNewline := by
  unfold StreamRenderer.emitIndent
  split_ifs <;> simp [WriteString_failing]

theorem SinkOK_of_flag {s : StreamRenderer} (hf : s.w.failing = false)
    (hl : s.lastWasNewline = true) (hn : ∀ a ∈ s.nbspBuf, atomOK a) : SinkOK s :=
  ⟨hf, ⟨fun h => by simp [hl] at h, hn⟩⟩

theorem resetStyle_ok (s : StreamRenderer) (h : SinkOK s) : SinkOK s.resetStyle := by
  obtain ⟨hf, hl, hn⟩ := h
  obtain ⟨k1, k2, k3, k4⟩ := resetStyle_keeps s
  refine ⟨k1.trans hf, ?_, by rw [k2]; exact hn⟩
  intro hfl
  rw [k3] at hfl
  obtain ⟨X, hX, hc⟩ := k4 hf
  rw [hX]
  rcases hc with rfl | hc
  · simpa using hl hfl
  · exact endsOK_append _ _ hc

theorem wrapNewline_ok (T : Tables) (s : StreamRenderer) (h : SinkOK s) :
    SinkOK (s.wrapNewline T) := by
  unfold StreamRenderer.wrapNewline
  obtain ⟨h1, h2⟩ := newline_ok s.resetStyle false (resetStyle_ok s h)
  obtain ⟨a, b, c⟩ := emitIndent_frame T (s.resetStyle.newline false)
  exact SinkOK_of_flag (a.trans h1.1) (c.trans h2) (by rw [b]; exact h1.2.2)

theorem emitAtoms_ok (T : Tables) (atoms : List StreamToken) (s : StreamRenderer)
    (h : SinkOK s) :
    (s.emitAtoms T atoms).2 = false ∧ SinkOK (s.emitAtoms T atoms).1 := by
  induction atoms generalizing s with
  | nil => exact ⟨rfl, h⟩
  | cons a rest ih =>
    obtain ⟨e1, e2⟩ := emitText_ok T s a.Text a.Style h
    simp only [StreamRenderer.emitAtoms, e1]
    exact ih _ e2

theorem emitRunes_ok (T : Tables) (style : Style) (rs : List Nat) (s : StreamRenderer)
    (h : SinkOK s) : SinkOK (s.emitRunes T style rs) := by
  induction rs generalizing s with
  | nil => exact h
  | cons r rest ih =>
    simp only [StreamRenderer.emitRunes]
    exact ih _ (emitRune_ok T s r style h).2

theorem emitTimedText_ok (T : Tables) (s : StreamRenderer) (text : List Nat) (style : Style)
    (h : SinkOK s) : SinkOK (s.emitTimedText T text style) := by
  unfold StreamRenderer.emitTimedText
  split_ifs
  · exact h
  · exact emitRunes_ok T style _ s h

theorem emitCodeSegment_ok (T : Tables) (s : StreamRenderer) (seg : List Nat) (limit : Int)
    (style : Style) (h : SinkOK s) : SinkOK (s.emitCodeSegment T seg limit style) := by
  unfold StreamRenderer.emitCodeSegment
  split_ifs
  · exact h
  · exact emitRunes_ok T style _ s h
  · exact (emitRune_ok T s _ style h).2
  · exact (emitRune_ok T _ _ style (emitRunes_ok T style _ s h)).2

theorem emitCodeSegments_ok (T : Tables) (limit : Int) (style : Style) (segs : List (List Nat))
    (s : StreamRenderer) (h : SinkOK s) : SinkOK (s.emitCodeSegments T limit style segs) := by
  induction segs generalizing s with
  | nil => exact h
  | cons g rest ih =>
    simp only [StreamRenderer.emitCodeSegments]
    apply ih
    apply emitCodeSegment_ok
    split_ifs
    · exact wrapNewline_ok T s h
    · exact h
    · exact h

theorem emitTimedCodeSplit_ok (T : Tables) (s : StreamRenderer) (text : List Nat)
    (style : Style) (limit : Int) (h : SinkOK s) :
    SinkOK (s.emitTimedCodeSplit T text style limit) := by
  unfold StreamRenderer.emitTimedCodeSplit
  simp only []
  split_ifs
  · exact h
  · exact h
  · exact emitCodeSegments_ok T limit style _ s h

theorem wordSplitLoop_ok (T : Tables) (style : Style) (limit : Int) (total : Nat) (fuel : Nat)
    (s : StreamRenderer) (text carry : List Nat) (consumed idx : Nat) (h : SinkOK s) :
    SinkOK (StreamRenderer.wordSplitLoop T style limit total fuel s text carry consumed idx) := by
  induction fuel generalizing s text carry consumed idx with
  | zero => exact h
  | succ n ih =>
    simp only [StreamRenderer.wordSplitLoop]
    split_ifs <;> first
      | exact h
      | (apply ih; apply emitRunes_ok; first | exact wrapNewline_ok T s h | exact h)

theorem emitTimedWordSplit_ok (T : Tables) (s : StreamRenderer) (text : List Nat)
    (style : Style) (limit : Int) (h : SinkOK s) :
    SinkOK (s.emitTimedWordSplit T text style limit) := by
  unfold StreamRenderer.emitTimedWordSplit
  simp only []
  split_ifs
  · exact h
  · exact h
  · exact wordSplitLoop_ok _ _ _ _ _ _ _ _ _ _ h

theorem emitOverlongWord_ok (T : Tables) (s : StreamRenderer) (wordText : List Nat)
    (pending : wordBuffer) (h : SinkOK s) : SinkOK (s.emitOverlongWord T wordText pending) := by
  unfold StreamRenderer.emitOverlongWord
  simp only []
  split_ifs
  · exact emitTimedWordSplit_ok T s _ _ _ h
  · split
    · split_ifs
      · exact (emitTimedText_ok T s _ _ h).congr rfl rfl rfl
      · exact (emitTimedText_ok T s _ _ h).congr rfl rfl rfl
    · exact (emitTimedText_ok T s _ _ h).congr rfl rfl rfl
  · exact emitTimedCodeSplit_ok T s _ _ _ h
  · exact emitTimedWordSplit_ok T s _ _ _ h

theorem emitPendingSpaces_ok (T : Tables) (s : StreamRenderer) (h : SinkOK s) :
    SinkOK (s.emitPendingSpaces T) := by
  unfold StreamRenderer.emitPendingSpaces
  split_ifs
  · exact (emitAtoms_ok T _ s h).2.congr rfl rfl rfl
  · exact h

theorem emitBoundary_ok (T : Tables) (s : StreamRenderer) (b : boundaryKind) (h : SinkOK s) :
    SinkOK (s.emitBoundary T b) := by
  unfold StreamRenderer.emitBoundary
  split
  · exact (newline_ok _ true (emitPendingSpaces_ok T s h)).1
  · exact h

theorem wrapBeforeWord_ok (T : Tables) (s : StreamRenderer) (h : SinkOK s) :
    SinkOK (s.wrapBeforeWord T) := by
  unfold StreamRenderer.wrapBeforeWord
  simp only []
  split_ifs
  · exact (wrapNewline_ok T s h).congr rfl rfl rfl
  · exact h
  · exact h

theorem emitWord_ok (T : Tables) (s : StreamRenderer) (h : SinkOK s) :
    SinkOK (s.emitWord T) := by
  unfold StreamRenderer.emitWord
  simp only []
  split_ifs
  · exact emitTimedCodeSplit_ok T s _ _ _ h
  · exact emitOverlongWord_ok T s _ _ h
  · exact (emitAtoms_ok T _ s h).2

theorem flushWord_ok (T : Tables) (s : StreamRenderer) (b : boundaryKind) (h : SinkOK s) :
    SinkOK (s.flushWord T b) := by
  unfold StreamRenderer.flushWord
  simp only []
  split_ifs
  · exact emitBoundary_ok T s b h
  · apply emitBoundary_ok
    exact (emitWord_ok T _ (emitPendingSpaces_ok T _ (wrapBeforeWord_ok T s h))).congr rfl rfl rfl

theorem settlePunctQuote_ok (T : Tables) (s : StreamRenderer) (a : atom) (h : SinkOK s)
    (ha : atomOK a) : SinkOK (s.settlePunctQuote T a).1 ∧ atomOK (s.settlePunctQuote T a).2 := by
  unfold StreamRenderer.settlePunctQuote
  split_ifs
  · exact ⟨h.congr rfl rfl rfl, fun hb => by simp at hb⟩
  · exact ⟨(flushWord_ok T s _ h).congr rfl rfl rfl, ha⟩
  · exact ⟨h, ha⟩

theorem settlePunctQuote_boundary (T : Tables) (s : StreamRenderer) (a : atom) :
    (s.settlePunctQuote T a).2.tok = a.tok ∧
    ((s.settlePunctQuote T a).2.boundary = boundarySpace → a.boundary = boundarySpace) := by
  unfold StreamRenderer.settlePunctQuote
  split_ifs <;> simp

theorem settleCodeFlush_ok (T : Tables) (s : StreamRenderer) (a : atom) (h : SinkOK s) :
    SinkOK (s.settleCodeFlush T a) := by
  unfold StreamRenderer.settleCodeFlush
  split_ifs
  · exact (flushWord_ok T s _ h).congr rfl rfl rfl
  · exact h

theorem appendPunct_ok (T : Tables) (s : StreamRenderer) (a : atom) (h : SinkOK s) :
    (s.appendPunct T a).2 = false ∧ SinkOK (s.appendPunct T a).1 := by
  have hs : SinkOK { s with pending := s.pending.appendAtom T a.tok } := h.congr rfl rfl rfl
  unfold StreamRenderer.appendPunct
  simp only []
  split_ifs
  · exact ⟨rfl, h.congr rfl rfl rfl⟩
  · exact ⟨rfl, (flushWord_ok T _ _ hs).congr rfl rfl rfl⟩

theorem processPunctText_ok (T : Tables) (s : StreamRenderer) (a : atom) (h : SinkOK s) :
    (s.processPunctText T a).2 = false ∧ SinkOK (s.processPunctText T a).1 := by
  unfold StreamRenderer.processPunctText
  generalize hs1 : (if s.pending.atoms.length > 0 ∧ s.pending.kind = tokenCode ∧ s.width > 0 ∧
        s.lineWidth > 0 then
      if ((s.lineWidth + spacesWidth T s.pendingSpaces + s.pending.width +
            PrintableRuneWidth T a.tok.Text : Nat) : Int) > s.width then
        { s.wrapNewline T with pendingSpaces := [] }
      else s
    else s) = s1
  have h1 : SinkOK s1 := by
    rw [← hs1]
    split_ifs
    · exact (wrapNewline_ok T s h).congr rfl rfl rfl
    · exact h
    · exact h
  simp only []
  split_ifs
  · exact emitText_ok T _ _ _ (h1.congr rfl rfl rfl)
  · exact emitText_ok T _ _ _ h1
  · exact appendPunct_ok T _ a h1
  · exact appendPunct_ok T _ a (flushWord_ok T _ _ h1)
  · exact appendPunct_ok T _ a h1

theorem maybeSetWrapIndent_ok (s : StreamRenderer) (h : SinkOK s) :
    SinkOK s.maybeSetWrapIndent := by
  obtain ⟨wi, hwi⟩ := maybeSetWrapIndent_eq s
  rw [hwi]; exact h.congr rfl rfl rfl

theorem writePrefixSpace_ok (T : Tables) (s : StreamRenderer) (a : atom) (h : SinkOK s)
    (ht : a.tok.Text ≠ []) (h10 : HasSuffix a.tok.Text [10] = false) :
    (s.writePrefixSpace T a).2 = false ∧ SinkOK (s.writePrefixSpace T a).1 := by
  obtain ⟨hf, hl, hn⟩ := h
  obtain ⟨f1, f2, f3⟩ := switchStyle_frame s a.tok.Style.Prefix
  have hf1 : (s.switchStyle a.tok.Style.Prefix).w.failing = false := f1.trans hf
  have hY : SinkOK { s.switchStyle a.tok.Style.Prefix with
      w := ((s.switchStyle a.tok.Style.Prefix).w.WriteString a.tok.Text).1,
      lineWidth := (s.switchStyle a.tok.Style.Prefix).lineWidth + PrintableRuneWidth T a.tok.Text,
      prefixBuf := (s.switchStyle a.tok.Style.Prefix).prefixBuf ++ a.tok.Text } := by
    refine ⟨?_, ?_, ?_⟩
    · show ((s.switchStyle _).w.WriteString _).1.failing = false
      rw [WriteString_failing]; exact hf1
    · intro _
      show endsOK ((s.switchStyle _).w.WriteString _).1.out
      rw [WriteString_ok _ _ hf1]
      exact endsOK_append _ _ (endsOK_of_not_suffix _ ht h10)
    · show ∀ a ∈ (s.switchStyle _).nbspBuf, atomOK a
      rw [f2]; exact hn
  have h3 := resetStyle_ok _ (maybeSetWrapIndent_ok _ hY)
  unfold StreamRenderer.writePrefixSpace
  simp only []
  split_ifs
  · exact ⟨rfl, h3.congr rfl rfl rfl⟩
  · exact ⟨rfl, h3⟩

theorem processSpace_ok (T : Tables) (s : StreamRenderer) (a : atom) (h : SinkOK s)
    (ht : a.tok.Text ≠ []) (h10 : HasSuffix a.tok.Text [10] = false) :
    (s.processSpace T a).2 = false ∧ SinkOK (s.processSpace T a).1 := by
  unfold StreamRenderer.processSpace
  have h1 : SinkOK { s.flushWord T boundaryNone with lastWordCode := false } :=
    (flushWord_ok T s _ h).congr rfl rfl rfl
  simp only []
  split_ifs
  · exact ⟨rfl, h1.congr rfl rfl rfl⟩
  · exact writePrefixSpace_ok T _ a h1 ht h10
  · exact ⟨rfl, h1.congr rfl rfl rfl⟩

theorem processAtomRaw_ok (T : Tables) (s : StreamRenderer) (a : atom) (h : SinkOK s)
    (ha : atomOK a) :
    (s.processAtomRaw T a).2 = false ∧ SinkOK (s.processAtomRaw T a).1 := by
  unfold StreamRenderer.processAtomRaw
  obtain ⟨h1, ha1⟩ := settlePunctQuote_ok T s a h ha
  generalize (s.settlePunctQuote T a) = sa at *
  have h2 := settleCodeFlush_ok T sa.1 sa.2 h1
  simp only []
  generalize (sa.1.settleCodeFlush T sa.2) = s2 at *
  split_ifs with c1 c2 c3 c4 c5 c6
  · exact ⟨rfl, h2.congr rfl rfl rfl⟩
  · exact ⟨rfl, h2.congr rfl rfl rfl⟩
  · exact ⟨rfl, h2.congr rfl rfl rfl⟩
  · exact processPunctText_ok T s2 sa.2 h2
  · exact ⟨rfl, h2.congr rfl rfl rfl⟩
  · exact processSpace_ok T s2 sa.2 h2 (ha1 c6).1 (ha1 c6).2
  · exact ⟨rfl, emitBoundary_ok T _ _ ((flushWord_ok T s2 _ h2).congr rfl rfl rfl)⟩


theorem processAtomsRaw_ok (T : Tables) (bs : List atom) (s : StreamRenderer) (h : SinkOK s)
    (hb : ∀ b ∈ bs, atomOK b) : SinkOK (s.processAtomsRaw T bs) := by
  induction bs generalizing s with
  | nil => exact h
  | cons b rest ih =>
    simp only [StreamRenderer.processAtomsRaw]
    exact ih _ (processAtomRaw_ok T s b h (hb b (List.mem_cons_self _ _))).2
      (fun x hx => hb x (List.mem_cons_of_mem _ hx))

theorem flushNBSPBuf_ok (T : Tables) (s : StreamRenderer) (h : SinkOK s) :
    SinkOK (s.flushNBSPBuf T) := by
  unfold StreamRenderer.flushNBSPBuf
  obtain ⟨a, b, _⟩ := processAtomsRaw_ok T s.nbspBuf s h h.2.2
  exact ⟨a, b, fun x hx => by simp at hx⟩

theorem handleNBSPAtom_ok (T : Tables) (s : StreamRenderer) (a : atom) (h : SinkOK s)
    (ha : atomOK a) : SinkOK (s.handleNBSPAtom T a).1 := by
  have happ : SinkOK { s with nbspBuf := s.nbspBuf ++ [a] } :=
    ⟨h.1, h.2.1, fun x hx => by
      rcases List.mem_append.mp hx with hx | hx
      · exact h.2.2 x hx
      · rw [List.mem_singleton.mp hx]; exact ha⟩
  unfold StreamRenderer.handleNBSPAtom
  simp only []
  split_ifs
  · exact flushNBSPBuf_ok T s h
  · exact h
  · exact happ
  · exact h
  · exact flushNBSPBuf_ok T s h
  · exact happ
  · refine (processAtomRaw_ok T _ _ ?_ ?_).2
    · exact ⟨h.1, h.2.1, fun x hx => by simp at hx⟩
    · intro hb; simp at hb
  · exact flushNBSPBuf_ok T _ happ

theorem processAtom_ok (T : Tables) (s : StreamRenderer) (a : atom) (h : SinkOK s)
    (ha : atomOK a) : (s.processAtom T a).2 = false ∧ SinkOK (s.processAtom T a).1 := by
  unfold StreamRenderer.processAtom
  have h1 := handleNBSPAtom_ok T s a h ha
  simp only []
  split_ifs
  · exact ⟨rfl, h1⟩
  · exact processAtomRaw_ok T _ a h1 ha

theorem flushPending_ok (T : Tables) (s : StreamRenderer) (h : SinkOK s) :
    SinkOK (s.flushPending T) := by
  unfold StreamRenderer.flushPending
  split_ifs
  · exact flushWord_ok T s _ h
  · exact emitPendingSpaces_ok T s h

theorem SinkOK_write (s : StreamRenderer) (X : List Nat) (h : SinkOK s) (hX : endsOK X) :
    (s.w.WriteString X).2 = false ∧ SinkOK { s with w := (s.w.WriteString X).1 } := by
  rw [WriteString_ok _ _ h.1]
  exact ⟨rfl, h.1, fun _ => endsOK_append _ _ hX, h.2.2⟩

theorem writeLinkToken_ok (T : Tables) (s : StreamRenderer) (tok : StreamToken)
    (h : SinkOK s) : (s.writeLinkToken T tok).2 = false ∧ SinkOK (s.writeLinkToken T tok).1 := by
  unfold StreamRenderer.writeLinkToken
  have h1 := flushPending_ok T s h
  simp only []
  split_ifs
  · exact ⟨rfl, h1⟩
  · exact SinkOK_write _ _ h1 ⟨0x5C, by simp, by decide⟩
  · exact ⟨rfl, h1⟩
  · exact SinkOK_write _ _ h1 ⟨0x5C, by decide, by decide⟩

theorem classifyBoundary_space (T : Tables) (r next : Nat)
    (h : classifyBoundary T r next = boundarySpace) : r = 32 ∨ r = 9 := by
  unfold classifyBoundary at h
  split_ifs at h with h1 h2 h3
  exact h3

theorem first_cases (p0 : Nat) (hp : ¬ p0 < 0x80) :
    first p0 = 0xF1 ∨ (first p0 = 0x02 ∧ 0xC2 ≤ p0 ∧ p0 < 0xE0) ∨ (first p0 = 0x13 ∧ p0 = 0xE0) ∨
    (first p0 = 0x03 ∧ 0xE1 ≤ p0 ∧ p0 < 0xF0) ∨ (first p0 = 0x23 ∧ p0 = 0xED) ∨
    (first p0 = 0x34 ∧ p0 = 0xF0) ∨ (first p0 = 0x04 ∧ 0xF1 ≤ p0 ∧ p0 < 0xF4) ∨
    (first p0 = 0x44 ∧ p0 = 0xF4) := by
  unfold first
  split_ifs <;> simp <;> omega

/-- A rune below 128 is decoded from one byte, itself. -/
theorem DecodeRune_ascii (text : List Nat) (h : (DecodeRune text).1 < 128) :
    text.take (DecodeRune text).2 = [(DecodeRune text).1] := by
  cases text with
  | nil => simp [DecodeRune, RuneError] at h
  | cons p0 t =>
    by_cases hp : p0 < 0x80
    · simp [DecodeRune, first, hp]
    · exfalso
      revert h
      rcases first_cases p0 hp with hf | ⟨hf, h1⟩ | ⟨hf, h1⟩ | ⟨hf, h1⟩ | ⟨hf, h1⟩ | ⟨hf, h1⟩ | ⟨hf, h1⟩ | ⟨hf, h1⟩ <;>
        simp only [DecodeRune, hf, RuneError, acceptLo, acceptHi] <;> norm_num <;>
        (repeat' split) <;> (try simp) <;> (try omega)


theorem writeTokenLoop_ok (T : Tables) (tok : StreamToken) (per rem : Int) (fuel : Nat)
    (s : StreamRenderer) (text : List Nat) (fst : Bool) (h : SinkOK s) :
    (StreamRenderer.writeTokenLoop T tok per rem fuel s text fst).2 = false ∧
    SinkOK (StreamRenderer.writeTokenLoop T tok per rem fuel s text fst).1 := by
  induction fuel generalizing s text fst with
  | zero => exact ⟨rfl, h⟩
  | succ n ih =>
    simp only [StreamRenderer.writeTokenLoop]
    by_cases h0 : text.length = 0
    · rw [if_pos h0]; exact ⟨rfl, h⟩
    rw [if_neg h0]
    by_cases h1 : (DecodeRune text).1 = RuneError ∧ (DecodeRune text).2 = 1
    · rw [if_pos h1]; exact ih _ _ _ h
    rw [if_neg h1]
    by_cases h2 : isControlRune (DecodeRune text).1 = true
    · rw [if_pos h2]; exact ih _ _ _ h
    rw [if_neg h2]
    have key : ∀ (A : atom) (X : List Nat), atomOK A →
        ((if (s.processAtom T A).2 = true then s.processAtom T A
          else StreamRenderer.writeTokenLoop T tok per rem n (s.processAtom T A).1 X false).2
            = false ∧
        SinkOK (if (s.processAtom T A).2 = true then s.processAtom T A
          else StreamRenderer.writeTokenLoop T tok per rem n (s.processAtom T A).1 X false).1) := by
      intro A X hA
      obtain ⟨e1, e2⟩ := processAtom_ok T s A h hA
      rw [if_neg (by rw [e1]; simp)]
      exact ih _ _ _ e2
    apply key
    intro hb
    have hsp : (DecodeRune text).1 = 32 ∨ (DecodeRune text).1 = 9 := by
      split_ifs at hb <;> exact classifyBoundary_space T _ _ hb
    have hlt : (DecodeRune text).1 < 128 := by omega
    have htk := DecodeRune_ascii text hlt
    show text.take (DecodeRune text).2 ≠ [] ∧ HasSuffix (text.take (DecodeRune text).2) [10] = false
    rw [htk]
    rcases hsp with e | e <;> rw [e] <;> exact ⟨by simp, by decide⟩

theorem WriteToken_ok (T : Tables) (s : StreamRenderer) (tok : StreamToken) (h : SinkOK s) :
    (s.WriteToken T tok).2 = false ∧ SinkOK (s.WriteToken T tok).1 := by
  unfold StreamRenderer.WriteToken
  by_cases h1 : tok.Kind = tokenLinkStart ∨ tok.Kind = tokenLinkEnd
  · rw [if_pos h1]; exact writeLinkToken_ok T s tok h
  rw [if_neg h1]
  by_cases h2 : tok.Kind = tokenThematicBreak
  · rw [if_pos h2]; exact ⟨rfl, flushPending_ok T s h⟩
  rw [if_neg h2]
  by_cases h3 : tok.Text = []
  · rw [if_pos h3]; exact ⟨rfl, h⟩
  rw [if_neg h3]
  have key : ∀ (s1 : StreamRenderer) (per rem : Int), SinkOK s1 →
      ((if (StreamRenderer.writeTokenLoop T tok per rem tok.Text.length s1 tok.Text true).2 = true
        then StreamRenderer.writeTokenLoop T tok per rem tok.Text.length s1 tok.Text true
        else
          if tok.Kind = tokenCode ∧ tok.CodeBlock then
            ({ (StreamRenderer.writeTokenLoop T tok per rem tok.Text.length s1 tok.Text
                  true).1.flushWord T boundaryNone with codeFlushPending := false }, false)
          else if tok.Kind = tokenCode then
            ({ (StreamRenderer.writeTokenLoop T tok per rem tok.Text.length s1 tok.Text
                  true).1 with codeFlushPending := true }, false)
          else ((StreamRenderer.writeTokenLoop T tok per rem tok.Text.length s1 tok.Text
                  true).1, false)).2 = false ∧
       SinkOK (if (StreamRenderer.writeTokenLoop T tok per rem tok.Text.length s1 tok.Text true).2 = true
        then StreamRenderer.writeTokenLoop T tok per rem tok.Text.length s1 tok.Text true
        else
          if tok.Kind = tokenCode ∧ tok.CodeBlock then
            ({ (StreamRenderer.writeTokenLoop T tok per rem tok.Text.length s1 tok.Text
                  true).1.flushWord T boundaryNone with codeFlushPending := false }, false)
          else if tok.Kind = tokenCode then
            ({ (StreamRenderer.writeTokenLoop T tok per rem tok.Text.length s1 tok.Text
                  true).1 with codeFlushPending := true }, false)
          else ((StreamRenderer.writeTokenLoop T tok per rem tok.Text.length s1 tok.Text
                  true).1, false)).1) := by
    intro s1 per rem hs
    obtain ⟨e1, e2⟩ := writeTokenLoop_ok T tok per rem tok.Text.length s1 tok.Text true hs
    rw [if_neg (by rw [e1]; simp)]
    split_ifs
    · exact ⟨rfl, (flushWord_ok T _ _ e2).congr rfl rfl rfl⟩
    · exact ⟨rfl, e2.congr rfl rfl rfl⟩
    · exact ⟨rfl, e2⟩
  apply key
  split_ifs
  · exact flushWord_ok T s _ h
  · exact h
  · exact h

theorem writeTokens_ok (T : Tables) (toks : List StreamToken) (s : StreamRenderer)
    (h : SinkOK s) : (s.writeTokens T toks).2 = false ∧ SinkOK (s.writeTokens T toks).1 := by
  induction toks generalizing s with
  | nil => exact ⟨rfl, h⟩
  | cons t rest ih =>
    obtain ⟨e1, e2⟩ := WriteToken_ok T s t h
    simp only [StreamRenderer.writeTokens, e1]
    exact ih _ e2

theorem flushBuffered_ok (T : Tables) (s : StreamRenderer) (h : SinkOK s) :
    SinkOK (s.flushBuffered T) := by
  unfold StreamRenderer.flushBuffered
  simp only []
  apply flushPending_ok
  have h1 : SinkOK (if s.nbspBuf.length > 0 then s.flushNBSPBuf T else s) := by
    split_ifs
    · exact flushNBSPBuf_ok T s h
    · exact h
  generalize (if s.nbspBuf.length > 0 then s.flushNBSPBuf T else s) = s1 at h1 ⊢
  split_ifs
  · exact (flushWord_ok T _ _ h1).congr rfl rfl rfl
  · exact h1

theorem NewStreamRenderer_ok (out : List Nat) (width : Int) (cfg : renderConfig) :
    SinkOK (NewStreamRenderer { out := out, failing := false } width cfg) :=
  ⟨rfl, fun h => by simp [NewStreamRenderer, StreamRenderer.resetWithConfig] at h,
    fun a ha => by simp [NewStreamRenderer, StreamRenderer.resetWithConfig] at ha⟩

theorem Flush_of_ok (T : Tables) (s : StreamRenderer) (h : SinkOK s) :
    (s.Flush T).2 = false ∧ (s.Flush T).1.style = [] ∧ (s.Flush T).1.lastWasNewline = true ∧
    (s.Flush T).1.w.out = (s.flushBuffered T).w.out ++
      (if (s.flushBuffered T).style = [] then [] else ansiReset) ++
      (if (s.flushBuffered T).lastWasNewline then [] else [10]) ∧
    ((s.flushBuffered T).lastWasNewline = false → endsOK (s.flushBuffered T).w.out) := by
  have hm := flushBuffered_ok T s h
  unfold StreamRenderer.Flush
  generalize s.flushBuffered T = m at *
  obtain ⟨hf, hl, _⟩ := hm
  simp only [WriteString_ok _ _ hf]
  by_cases hs : m.style = [] <;> cases hfl : m.lastWasNewline <;>
    simp [hs, hfl, WriteString_ok, hf, hl]

/-- C7 (counterexample): after `Flush` the output need not end with exactly
one newline.  With no token written the output stays empty; a text token that
ends in two newlines leaves two; a single space token at the start of a line is
written straight to the writer and leaves an output without any newline. -/
theorem C7_not_always_one_newline :
    (((NewStreamRenderer { out := [], failing := false } 0 {}).writeTokens plainTables
      []).1.Flush plainTables).1.w.out = [] ∧
    (((NewStreamRenderer { out := [], failing := false } 0 {}).writeTokens plainTables
      [{ Text := [97, 10, 10] }]).1.Flush plainTables).1.w.out = [97, 10, 10] ∧
    (((NewStreamRenderer { out := [], failing := false } 0 {}).writeTokens plainTables
      [{ Text := [32] }]).1.Flush plainTables).1.w.out = [32] := by decide

/-! ### `ValidateInput` -/

theorem wrap64_small (x : Int) (h0 : 0 ≤ x) (h1 : x < 2 ^ 63) : wrap64 x = x := by
  unfold wrap64
  have e63 : (2 : Int) ^ 63 = 9223372036854775808 := by norm_num
  have e64 : (2 : Int) ^ 64 = 18446744073709551616 := by norm_num
  rw [e63] at h1 ⊢
  rw [e64]
  omega

theorem validateLoop_eq (src : List Nat) (total control : Int) (h0 : 0 ≤ total)
    (hc : 0 ≤ control) (hcl : control ≤ total) (h : total + src.length < 2 ^ 63) :
    validateLoop src total control =
      if 0 ∈ src then none
      else some (total + src.length, control + src.countP isControlByte) := by
  induction src generalizing total control with
  | nil => simp [validateLoop]
  | cons b rest ih =>
    simp only [validateLoop]
    by_cases hb : b = 0
    · simp [hb]
    · have hlen : total + 1 + (rest.length : Int) < 2 ^ 63 := by
        simp only [List.length_cons, Nat.cast_add, Nat.cast_one] at h; omega
      have hr : (0 : Int) ≤ rest.length := Int.natCast_nonneg _
      have ht : wrap64 (total + 1) = total + 1 := wrap64_small _ (by omega) (by omega)
      have hcc : wrap64 (control + 1) = control + 1 := wrap64_small _ (by omega) (by omega)
      rw [if_neg hb, ht, hcc]
      have hmem : (0 ∈ b :: rest) ↔ 0 ∈ rest := by
        simp [List.mem_cons, Ne.symm hb]
      cases hcb : isControlByte b
      · rw [ih _ _ (by omega) (by omega) (by omega) hlen]
        simp only [hmem, List.countP_cons, hcb, List.length_cons, Nat.cast_add, Nat.cast_one]
        split_ifs <;> first
          | rfl
          | (simp only [Option.some.injEq, Prod.mk.injEq, Nat.cast_zero, Nat.cast_one]
             constructor <;> omega)
      · rw [if_pos rfl, ih _ _ (by omega) (by omega) (by omega) hlen]
        simp only [hmem, List.countP_cons, hcb, List.length_cons, Nat.cast_add, Nat.cast_one]
        split_ifs <;> first
          | rfl
          | (simp only [Option.some.injEq, Prod.mk.injEq, Nat.cast_zero, Nat.cast_one]
             constructor <;> omega)

/-- C11 (counterexample): `ValidateInput` does not count vertical tab and form
feed, which the parser drops as control characters.  The 64 bytes made of 62
letters and two vertical tabs are valid UTF-8 without NUL, hold two control
characters in the sense of `isControlRune` (2 of 64 is more than 2%), and are
accepted. -/
theorem C11_vt_ff_not_counted :
    ValidateInput (List.replicate 62 97 ++ [11, 11]) = none ∧
    Valid (List.replicate 62 97 ++ [11, 11]) = true ∧
    0 ∉ List.replicate 62 97 ++ [11, 11] ∧
    (List.replicate 62 97 ++ [11, 11]).length = 64 ∧
    (List.replicate 62 97 ++ [11, 11]).countP isControlRune = 2 := by decide

/-- C11 (amended): `ValidateInput(src)` returns `ErrInvalidUTF8` if and only if
`src` is not valid UTF-8; otherwise it returns `ErrBinaryInput` if and only if
`src` contains a NUL byte, or `len(src) ≥ 64` and `100·c ≥ 2·len(src)`, where `c`
counts the bytes of `isControlByte`: those below 0x09, those from 0x0E to 0x1F,
and 0x7F (vertical tab and form feed are not counted); otherwise it returns
nil.  Lengths are those for which `100·len(src)` is a Go `int`. -/
theorem C11_validate_input (src : List Nat) (hlen : src.length * 100 < 2 ^ 63) :
    (ValidateInput src = some InputError.ErrInvalidUTF8 ↔ Valid src = false) ∧
    (Valid src = true →
      (ValidateInput src = some InputError.ErrBinaryInput ↔
        (0 ∈ src ∨ (src.length ≥ 64 ∧ 100 * src.countP isControlByte ≥ 2 * src.length)))) ∧
    (ValidateInput src = none ↔
      (Valid src = true ∧ 0 ∉ src ∧
        ¬ (src.length ≥ 64 ∧ 100 * src.countP isControlByte ≥ 2 * src.length))) := by
  have hl : ((src.length : Int)) * 100 < 2 ^ 63 := by exact_mod_cast hlen
  have hr : (0 : Int) ≤ src.length := Int.natCast_nonneg _
  have hcnt : src.countP isControlByte ≤ src.length := List.countP_le_length _
  have hcnt2 : ((src.countP isControlByte : Nat) : Int) ≤ src.length := by exact_mod_cast hcnt
  have hcr : (0 : Int) ≤ (src.countP isControlByte : Nat) := Int.natCast_nonneg _
  have hv := validateLoop_eq src 0 0 (le_refl _) (le_refl _) (le_refl _) (by omega)
  have w1 : wrap64 (((src.countP isControlByte : Nat) : Int) * 100) =
      ((src.countP isControlByte : Nat) : Int) * 100 := wrap64_small _ (by omega) (by omega)
  have w2 : wrap64 (((src.length : Nat) : Int) * 2) = ((src.length : Nat) : Int) * 2 :=
    wrap64_small _ (by omega) (by omega)
  have hP : ((src.length : Int) ≥ 64 ∧
      ((src.countP isControlByte : Nat) : Int) * 100 ≥ (src.length : Int) * 2) ↔
      (src.length ≥ 64 ∧ 100 * src.countP isControlByte ≥ 2 * src.length) := by
    constructor
    · rintro ⟨a, b⟩
      exact ⟨by exact_mod_cast a, by omega⟩
    · rintro ⟨a, b⟩
      exact ⟨by exact_mod_cast a, by omega⟩
  unfold ValidateInput
  rw [hv]
  by_cases hval : Valid src = true
  · by_cases h0 : 0 ∈ src
    · simp [hval, h0]
    · simp only [hval, h0, if_false, zero_add, w1, w2, Bool.not_true, Bool.false_eq_true]
      by_cases hb : (src.length ≥ 64 ∧ 100 * src.countP isControlByte ≥ 2 * src.length)
      · rw [if_pos (hP.mpr hb)]
        simp [hb]
      · rw [if_neg (fun h => hb (hP.mp h))]
        simp only [hb, not_false_eq_true, and_true, or_false, false_or]
        simp
  · have hf : Valid src = false := by simpa using hval
    simp [hf]

/-- C11 (witness): a letter followed by a NUL byte is binary input. -/
theorem C11_validate_input_witness :
    [97, 0].length * 100 < 2 ^ 63 ∧
    ValidateInput [97, 0] = some InputError.ErrBinaryInput :=
  ⟨by decide, ((C11_validate_input [97, 0] (by decide)).2.1 (by decide)).mpr
    (Or.inl (by decide))⟩

/-! ### Claims settled by evaluating the parser -/

/-- C19 (code bug): the last line of an unclosed fence, when the input ends
without a newline, is not emitted as a code token.  With a newline after it the
line `code` is one token of kind Code with `code_block` set; without the newline
`finalize` hands it to `maybeDecideLine` as a paragraph line and its runes are
emitted one by one as inline text. -/
theorem C19_last_fence_line_parsed_inline :
    parseTokens plainStyles false [[96, 96, 96, 10, 99, 111, 100, 101, 10]] =
      (Res.ok (), [{ Text := [99, 111, 100, 101], Kind := tokenCode, CodeBlock := true }]) ∧
    parseTokens plainStyles false [[96, 96, 96, 10, 99, 111, 100, 101]] =
      (Res.ok (), [{ Text := [99] }, { Text := [111] }, { Text := [100] }, { Text := [101] }]) := by
  decide!

/-- C20 (code bug): a rule line that ends the input without a newline emits
the ThematicBreak token and then its three characters as text tokens; with the
newline it emits the ThematicBreak token alone. -/
theorem C20_rule_at_end_of_input_repeated :
    parseTokens plainStyles false [[45, 45, 45, 10]] =
      (Res.ok (), [{ Kind := tokenThematicBreak }]) ∧
    parseTokens plainStyles false [[45, 45, 45]] =
      (Res.ok (), [{ Kind := tokenThematicBreak }, { Text := [45] }, { Text := [45] },
        { Text := [45] }]) := by
  decide!

/-- C21 (code bug): a line of seven `#` followed by a space and text is not
rendered as paragraph text: it is dropped.  `parseHeading` refuses the level,
and `maybeDecideLine` then takes the line for a paragraph only when the rune
after the hashes is not a space, so the line stays undecided and produces no
token, while `#a` is emitted as the paragraph text `#`, `a`. -/
theorem C21_seven_hashes_line_dropped :
    parseTokens plainStyles false [[35, 35, 35, 35, 35, 35, 35, 32, 97, 10]] = (Res.ok (), []) ∧
    parseTokens plainStyles false [[35, 97, 10]] =
      (Res.ok (), [{ Text := [35] }, { Text := [97] }]) := by
  decide!

/-- C23 (code bug): the ordinal of an ordered list wraps around as a Go `int`.
After an item numbered 9223372036854775807 the next item is emitted with the
marker `-9223372036854775808.`, not with the number plus one. -/
theorem C23_ordinal_wraps :
    (parseTokens plainStyles false
      [[57, 50, 50, 51, 51, 55, 50, 48, 51, 54, 56, 53, 52, 55, 55, 53, 56, 48, 55, 46, 32, 97, 10,
        49, 46, 32, 98, 10]]).2.map (fun t => t.Text) =
      [[57, 50, 50, 51, 51, 55, 50, 48, 51, 54, 56, 53, 52, 55, 55, 53, 56, 48, 55, 46], [32],
       [97], [10],
       [45, 57, 50, 50, 51, 51, 55, 50, 48, 51, 54, 56, 53, 52, 55, 55, 53, 56, 48, 56, 46], [32],
       [98]] := by
  decide!

/-- C26 (code bug): when the rune after `[t]` is a backtick, the literal `[`,
`t`, `]` is not emitted before what follows.  For `[t]x` the tokens are `[`,
`t`, `]`, `x`; for the input `[t]` followed by the code span of `x` the code
token `x` comes first and the bracketed text is emitted only at the end of
input. -/
theorem C26_backtick_overtakes_bracket :
    (parseTokens plainStyles false [[91, 116, 93, 120]]).2.map (fun t => (t.Text, t.Kind)) =
      [([91], tokenText), ([116], tokenText), ([93], tokenText), ([120], tokenText)] ∧
    (parseTokens plainStyles false [[91, 116, 93, 96, 120, 96]]).2.map
        (fun t => (t.Text, t.Kind)) =
      [([120], tokenCode), ([91], tokenText), ([116], tokenText), ([93], tokenText)] := by
  decide!

/-- C30 (code bug): `decodeEntity` accepts a sign in a numeric reference, which
it reads with `strconv.ParseInt`: `&#+65;` decodes to `A`, `&#-0;` to NUL and
`&#x+41;` to `A`, although none of them is a reference made of digits; the
plain references `&#65;` and `&#x41;` decode to `A` as the claim says. -/
theorem C30_signed_reference_accepted :
    decodeEntity [38, 35, 43, 54, 53, 59] = some 65 ∧
    decodeEntity [38, 35, 45, 48, 59] = some 0 ∧
    decodeEntity [38, 35, 120, 43, 52, 49, 59] = some 65 ∧
    decodeEntity [38, 35, 54, 53, 59] = some 65 ∧
    decodeEntity [38, 35, 120, 52, 49, 59] = some 65 := by
  decide

/-! ## The inline parser, step by step -/

theorem PM_bind_eq {σ α β : Type} (m : PM σ α) (f : α → PM σ β) : (m >>= f) = PM.bind m f := rfl

theorem PM_pure_eq {σ α : Type} (a : α) : (pure a : PM σ α) = fun x => (Res.ok a, x) := rfl

/-- Outside spans a delimiter `*` or `_` (not after a digit) joins the pending
run and nothing is written. -/
theorem emitInline_delim {σ : Type} (S : Stream σ) (x : PState σ) (d : Nat)
    (hd : d = 0x2A ∨ d = 0x5F) (hidle : inlineIdle x.p.inline)
    (hdig : d = 0x5F → x.p.inline.lastWasDigit = false) (hline : x.p.lineDecided = true)
    (hsp : x.p.immediateSpaces = [])
    (hrun : x.p.inline.pendingCount = 0 ∨ x.p.inline.pendingDelim = d) :
    emitInline S d x =
      (Res.ok (), { x with p := { x.p with inline :=
        { x.p.inline with pendingDelim := d,
                          pendingCount := x.p.inline.pendingCount + 1 } } }) := by
  obtain ⟨p, st⟩ := x
  obtain ⟨i1, i2, i3, i4, i5, i6, i7, i8⟩ := hidle
  simp only at i1 i2 i3 i4 i5 i6 i7 i8 hdig hline hsp hrun
  have hdig : d = 0x5F → p.inline.lastWasDigit = false := hdig
  rcases hrun with h0 | h0
  · by_cases he : p.inline.pendingDelim = d
    · rcases hd with rfl | rfl <;>
      simp [emitInline, emitInlineNumUS, emitInlineAutoLink, emitInlineEntity, emitInlineSpaces,
        emitInlineSwitch, emitInlineLink, PM_bind_eq, PM.bind, PM_pure_eq, getP, modifyInline,
        modifyP, i1, i2, i3, i4, i5, i6, i7, i8, hdig, hline, hsp, h0, he]
    · rcases hd with rfl | rfl <;>
      simp [emitInline, emitInlineNumUS, emitInlineAutoLink, emitInlineEntity, emitInlineSpaces,
        emitInlineSwitch, emitInlineLink, PM_bind_eq, PM.bind, PM_pure_eq, getP, modifyInline,
        modifyP, i1, i2, i3, i4, i5, i6, i7, i8, hdig, hline, hsp, h0, he]
  · rcases hd with rfl | rfl <;>
      simp [emitInline, emitInlineNumUS, emitInlineAutoLink, emitInlineEntity, emitInlineSpaces,
        emitInlineSwitch, emitInlineLink, PM_bind_eq, PM.bind, PM_pure_eq, getP, modifyInline,
        modifyP, i1, i2, i3, i4, i5, i6, i7, i8, hdig, hline, hsp, h0]

/-- What `flushPendingDelims` changes: the two emphasis flags and the pending
run, which it empties. -/
theorem flushPendingDelims_shape (p : liveParser) :
    p.flushPendingDelims = { p with inline := { p.inline with
      inEm := p.flushPendingDelims.inline.inEm,
      inStrong := p.flushPendingDelims.inline.inStrong,
      pendingDelim := p.flushPendingDelims.inline.pendingDelim,
      pendingCount := 0 } } := by
  unfold liveParser.flushPendingDelims
  by_cases h0 : p.inline.pendingCount = 0
  · simp only [h0, if_true]
    conv_lhs => rw [show p = { p with inline := { p.inline with pendingCount := p.inline.pendingCount } } from rfl]
    rw [h0]
  · simp only [h0, if_false]
    by_cases h2 : p.inline.pendingCount ≥ 2
    · simp only [h2, if_true]
      by_cases h1 : p.inline.pendingCount - 2 ≥ 1
      · simp only [h1, if_true]
      · simp only [h1, if_false]
        have : p.inline.pendingCount - 2 = 0 := by omega
        simp only [this]
    · simp only [h2, if_false]
      have h1 : p.inline.pendingCount ≥ 1 := by omega
      simp only [h1, if_true]

theorem flushPendingDelims_idle (p : liveParser) (h : p.inline.pendingCount = 0) :
    p.flushPendingDelims = p := by
  simp [liveParser.flushPendingDelims, h]

/-- Outside spans a letter ends a pending delimiter run (the run is flushed,
nothing is written for it) and is written as one token in the inline style
that results. -/
theorem emitInline_letter {σ : Type} (S : Stream σ) (x : PState σ) (r : Nat) (hr : isLetter r)
    (hidle : inlineIdle x.p.inline) (hline : x.p.lineDecided = true)
    (hsp : x.p.immediateSpaces = [])
    (hpd : x.p.inline.pendingCount = 0 ∨ x.p.inline.pendingDelim ≠ r) :
    emitInline S r x =
      writeToken S (textTok [r] x.p.flushPendingDelims.inlineStyle.1
          x.p.flushPendingDelims.inlineStyle.2)
        { x with p := { x.p.flushPendingDelims with inline :=
          { x.p.flushPendingDelims.inline with lastWasDigit := false } } } := by
  have h1 : r ≠ 32 := by unfold isLetter at hr; omega
  have h2 : r ≠ 9 := by unfold isLetter at hr; omega
  have h3 : r ≠ 0x60 := by unfold isLetter at hr; omega
  have h4 : r ≠ 0x26 := by unfold isLetter at hr; omega
  have h5 : r ≠ 0x5F := by unfold isLetter at hr; omega
  have h6 : r ≠ 0x2A := by unfold isLetter at hr; omega
  have h7 : r ≠ 0x5B := by unfold isLetter at hr; omega
  have h8 : r ≠ 0x5D := by unfold isLetter at hr; omega
  have h9 : r ≠ 0x28 := by unfold isLetter at hr; omega
  have h10 : r ≠ 0x29 := by unfold isLetter at hr; omega
  have h11 : r ≠ 0x3C := by unfold isLetter at hr; omega
  have h12 : 48 ≤ r → 57 < r := by unfold isLetter at hr; omega
  have h13 : r < 128 := by unfold isLetter at hr; omega
  obtain ⟨p, st⟩ := x
  obtain ⟨i1, i2, i3, i4, i5, i6, i7, i8⟩ := hidle
  simp only at i1 i2 i3 i4 i5 i6 i7 i8 hline hsp hpd
  by_cases hc : p.inline.pendingCount = 0
  · rw [flushPendingDelims_idle p hc]
    simp [emitInline, emitInlineNumUS, emitInlineAutoLink, emitInlineEntity, emitInlineSpaces,
      emitInlineSwitch, emitInlineLink, PM_bind_eq, PM.bind, PM_pure_eq, getP, modifyInline,
      modifyP, i1, i2, i3, i4, i5, i6, i7, i8, hline, hsp, hc, h1, h2, h3, h4, h5, h6, h7, h8,
      h9, h10, h11, h13, runeTokenText, asciiRuneStrings, writeToken]
    exact h12
  · have hne : ¬ r = p.inline.pendingDelim := by
      rcases hpd with h | h
      · exact absurd h hc
      · exact fun e => h e.symm
    have hpos : 0 < p.inline.pendingCount := Nat.pos_of_ne_zero hc
    obtain ⟨E, G, D, hF⟩ : ∃ E G D, p.flushPendingDelims = { p with inline := { p.inline with
        inEm := E, inStrong := G, pendingDelim := D, pendingCount := 0 } } :=
      ⟨_, _, _, flushPendingDelims_shape p⟩
    simp [emitInline, emitInlineNumUS, emitInlineAutoLink, emitInlineEntity, emitInlineSpaces,
      emitInlineSwitch, emitInlineLink, PM_bind_eq, PM.bind, PM_pure_eq, getP, modifyInline,
      modifyP, i1, i2, i3, i4, i5, i6, i7, i8, hline, hsp, hpos, hne, h1, h2, h3, h4, h5, h6, h7,
      h8, h9, h10, h11, h13, runeTokenText, asciiRuneStrings, writeToken, hF]
    exact h12
/-- A rune other than the delimiter of the pending run ends the run: the
parser goes on from the state in which the run is flushed. -/
theorem emitInline_flush {σ : Type} (S : Stream σ) (x : PState σ) (r : Nat)
    (h4 : x.p.inline.inAutoLink = false) (h5 : x.p.inline.inEntity = false)
    (h6 : x.p.inline.pendingNumUS = false)
    (hne : r ≠ x.p.inline.pendingDelim) :
    emitInline S r x = emitInline S r { x with p := x.p.flushPendingDelims } := by
  obtain ⟨p, st⟩ := x
  simp only at h4 h5 h6 hne
  by_cases hc : p.inline.pendingCount = 0
  · rw [flushPendingDelims_idle p hc]
  · have hpos : 0 < p.inline.pendingCount := Nat.pos_of_ne_zero hc
    obtain ⟨E, G, D, hF⟩ : ∃ E G D, p.flushPendingDelims = { p with inline := { p.inline with
        inEm := E, inStrong := G, pendingDelim := D, pendingCount := 0 } } :=
      ⟨_, _, _, flushPendingDelims_shape p⟩
    simp only [emitInline, emitInlineNumUS, emitInlineAutoLink, emitInlineEntity, PM_bind_eq,
      PM.bind, PM_pure_eq, getP, modifyInline, modifyP, h4, h5, h6, hpos, hne, hF,
      Bool.false_eq_true, if_false, ite_false, gt_iff_lt, ne_eq, not_false_eq_true, and_self,
      if_true, ite_true, lt_self_iff_false, false_and]

/-- C25 (the claim fails): in the paragraph `a * b` the only `*` has no
partner, and the tokens written are `a`, two spaces and `b`: no text holds the
delimiter. -/
theorem C25_stray_delimiter_not_written :
    parseTokens plainStyles false [[97, 32, 42, 32, 98, 10]] =
      (Res.ok (), [textTok [97] ⟨[]⟩, textTok [32] ⟨[]⟩, textTok [32] ⟨[]⟩,
        textTok [98] ⟨[]⟩]) := by
  decide!

/-- C27 (the claim fails): in a line made of `x`, a space, a backtick, two spaces, a
backtick, a space and `y` the span has the content of two spaces; one is taken from each end, nothing is left, and no token of kind Code
is written: the four tokens are `x`, two spaces and `y`. -/
theorem C27_blank_span_writes_nothing :
    parseTokens plainStyles false [[120, 32, 96, 32, 32, 96, 32, 121, 10]] =
      (Res.ok (), [textTok [120] ⟨[]⟩, textTok [32] ⟨[]⟩, textTok [32] ⟨[]⟩,
        textTok [121] ⟨[]⟩]) := by
  decide!

/-- The rule of `emitInlineBackticks` for a run of `n` backticks that ends with
no delimiter run pending: outside a code span it opens a span with fence `n`
and empty content; inside a span with fence `n` and content `c` it closes the
span and, unless the trimmed text `codeSpanText c` is empty, writes exactly one
token with that text, kind Code, `code_block = false` and the inline-code
style (nothing when it is empty); a run of another length `m` inside the span
is added to its content. -/
theorem emitInlineBackticks_span {σ : Type} (S : Stream σ) (x : PState σ) (n m : Nat)
    (c : List Nat)
    (hp : x.p.inline.pendingCount = 0) :
    (x.p.inline.inCode = false →
      emitInlineBackticks S n x = (Res.ok (), { x with p := { x.p with inline :=
        { x.p.inline with inCode := true, codeFence := n, codeBuf := [] } } })) ∧
    (x.p.inline.inCode = true → x.p.inline.codeFence = n → x.p.inline.codeBuf = c →
      emitInlineBackticks S n x =
        (if codeSpanText c ≠ [] then
          writeToken S { Text := codeSpanText c, Style := x.p.styles.CodeInline,
                         Kind := tokenCode, CodeBlock := false }
            { x with p := { x.p with inline :=
              { x.p.inline with inCode := false, codeFence := 0, codeBuf := [] } } }
         else (Res.ok (), { x with p := { x.p with inline :=
              { x.p.inline with inCode := false, codeFence := 0, codeBuf := [] } } }))) ∧
    (x.p.inline.inCode = true → x.p.inline.codeFence = n → x.p.inline.codeBuf = c → m ≠ n →
      emitInlineBackticks S m x = (Res.ok (), { x with p := { x.p with inline :=
        { x.p.inline with codeBuf := c ++ List.replicate m 0x60 } } })) := by
  obtain ⟨p, st⟩ := x
  simp only at hp
  refine ⟨?_, ?_, ?_⟩
  · intro hcode
    simp only at hcode
    simp only [emitInlineBackticks, PM_bind_eq, PM.bind, PM_pure_eq, getP, modifyInline, modifyP,
      hcode, hp, gt_iff_lt, lt_self_iff_false, false_and, if_false, ite_false, Bool.not_false,
      if_true, ite_true]
  · intro hcode hf hb
    simp only at hcode hf hb
    unfold codeSpanText
    simp only [emitInlineBackticks, PM_bind_eq, PM.bind, PM_pure_eq, getP, modifyInline, modifyP,
      hcode, hf, hb, hp, gt_iff_lt, lt_self_iff_false, false_and, if_false, ite_false,
      Bool.not_true, Bool.false_eq_true, if_true, ite_true, ge_iff_le, ne_eq, textTok]
    split_ifs <;> rfl
  · intro hcode hf hb hmn
    simp only at hcode hf hb
    simp only [emitInlineBackticks, PM_bind_eq, PM.bind, PM_pure_eq, getP, modifyInline, modifyP,
      hcode, hf, hb, hp, hmn, gt_iff_lt, lt_self_iff_false, false_and, if_false, ite_false,
      Bool.not_true, Bool.false_eq_true, if_true, ite_true, ge_iff_le, ne_eq, textTok]

/-- C24 (the claim fails): the input `[a` ends inside a link text; `finalize`
writes `[`, `a` and a `]` that the input does not have. -/
theorem C24_closing_bracket_added :
    parseTokens plainStyles false [[91, 97]] =
      (Res.ok (), [textTok [91] ⟨[]⟩, textTok [97] ⟨[]⟩, textTok [93] ⟨[]⟩]) := by
  decide!

/-- C24 (amended): at end of input, with no partial line and no code block
open, `finalize` closes an open link by writing `[`, the link text and then
`]`, or `](`, the URL and `)` when a URL had started and is not empty, each as
a token in the Text style and whether or not the input had the closing
characters; it closes an open autolink by emitting `<` and the content as
styled text; both spans are then closed and their buffers empty. -/
theorem C24_finalize_open_spans {σ : Type} (S : Stream σ) (fuel : Nat) (x : PState σ)
    (hbuf : x.p.lineBuf = []) (hfence : x.p.inCodeFence = false)
    (hind : x.p.inIndentCode = false) :
    (x.p.inline.inLink = true → x.p.inline.inAutoLink = false →
      finalize S fuel x =
        (Res.ok (),
          { p := { x.p with inline := { x.p.inline with
              inLink := false, inLinkURL := false, linkText := [], linkURL := [] } },
            st := sinkAfter S x.st
              ([textTok [0x5B] x.p.styles.Text, textTok x.p.inline.linkText x.p.styles.Text] ++
                if x.p.inline.inLinkURL = true ∧ x.p.inline.linkURL ≠ [] then
                  [textTok [0x5D, 0x28] x.p.styles.Text,
                   textTok x.p.inline.linkURL x.p.styles.Text,
                   textTok [0x29] x.p.styles.Text]
                else [textTok [0x5D] x.p.styles.Text]) })) ∧
    (x.p.inline.inLink = false → x.p.inline.inAutoLink = true →
      finalize S fuel x =
        ignoreErr (emitStyledText S ([0x3C] ++ x.p.inline.autoLink))
          { x with p := { x.p with inline := { x.p.inline with
              inAutoLink := false, autoLink := [] } } }) := by
  obtain ⟨p, st⟩ := x
  simp only at hbuf hfence hind
  constructor
  · intro hl ha
    simp only at hl ha
    by_cases hu : p.inline.inLinkURL = true ∧ p.inline.linkURL ≠ []
    · have hu2 : p.inline.inLinkURL = true ∧ p.inline.linkURL.length > 0 :=
        ⟨hu.1, List.length_pos.mpr hu.2⟩
      simp only [finalize, PM_bind_eq, PM.bind, PM_pure_eq, getP, modifyInline, modifyP,
        writeTokenIgnore, hbuf, hfence, hind, hl, ha, hu, hu2, List.length_nil, gt_iff_lt,
        lt_self_iff_false, if_false, ite_false, Bool.false_eq_true, if_true, ite_true, and_self,
        sinkAfter, List.foldl, List.cons_append, List.nil_append, not_false_eq_true, ne_eq]
    · have hu2 : ¬ (p.inline.inLinkURL = true ∧ p.inline.linkURL.length > 0) :=
        fun h => hu ⟨h.1, List.length_pos.mp h.2⟩
      simp only [finalize, PM_bind_eq, PM.bind, PM_pure_eq, getP, modifyInline, modifyP,
        writeTokenIgnore, hbuf, hfence, hind, hl, ha, hu, hu2, List.length_nil, gt_iff_lt,
        lt_self_iff_false, if_false, ite_false, Bool.false_eq_true, if_true, ite_true, and_self,
        sinkAfter, List.foldl, List.cons_append, List.nil_append, not_false_eq_true, ne_eq]
  · intro hl ha
    simp only at hl ha
    simp only [finalize, PM_bind_eq, PM.bind, PM_pure_eq, getP, modifyInline, modifyP,
      hbuf, hfence, hind, hl, ha, List.length_nil, gt_iff_lt,
      lt_self_iff_false, if_false, ite_false, Bool.false_eq_true, if_true, ite_true]

theorem C24_finalize_open_spans_witness :
    finalize captureStream 1
        { p := { zeroLiveParser with inline :=
            { zeroLiveParser.inline with inLink := true, linkText := [97] } },
          st := [] } =
      (Res.ok (),
        { p := zeroLiveParser,
          st := [Event.token (textTok [91] ⟨[]⟩), Event.token (textTok [97] ⟨[]⟩),
                 Event.token (textTok [93] ⟨[]⟩)] }) :=
  ((C24_finalize_open_spans captureStream 1
    { p := { zeroLiveParser with inline :=
        { zeroLiveParser.inline with inLink := true, linkText := [97] } },
      st := [] } rfl rfl rfl).1 rfl rfl).trans rfl

/-! ### Autolinks -/

theorem containsBlank_eq_false (x : List Nat) :
    containsBlank x = false ↔ ∀ b ∈ x, ¬ isBlankByte b := by
  unfold containsBlank isBlankByte
  rw [List.any_eq_false]
  constructor
  · intro h b hb
    have := h b hb
    simp at this
    tauto
  · intro h b hb
    have := h b hb
    simp
    tauto

theorem Index_isSome_mem (c : Nat) (rest : List Nat) :
    ∀ (fuel : Nat) (s : List Nat), (Index fuel s (c :: rest)).isSome = true → c ∈ s := by
  intro fuel
  induction fuel with
  | zero =>
    intro s h
    cases s with
    | nil => simp [Index, HasPrefix] at h
    | cons a t =>
      simp only [Index, HasPrefix] at h
      split at h
      · rename_i hp
        simp [List.isPrefixOf] at hp
        simp [hp.1]
      · simp at h
  | succ n ih =>
    intro s h
    cases s with
    | nil => simp [Index, HasPrefix] at h
    | cons a t =>
      simp only [Index, HasPrefix] at h
      split at h
      · rename_i hp
        simp [List.isPrefixOf] at hp
        simp [hp.1]
      · simp at h
        have := ih t (by simpa using h)
        simp [this]

theorem Index_single_of_mem (c : Nat) :
    ∀ (fuel : Nat) (s : List Nat), s.length ≤ fuel → c ∈ s →
      (Index fuel s [c]).isSome = true := by
  intro fuel
  induction fuel with
  | zero =>
    intro s hl hm
    cases s with
    | nil => simp at hm
    | cons a t => simp at hl
  | succ n ih =>
    intro s hl hm
    cases s with
    | nil => simp at hm
    | cons a t =>
      simp only [Index, HasPrefix]
      by_cases ha : a = c
      · simp [List.isPrefixOf, ha]
      · have hm2 : c ∈ t := by
          rcases List.mem_cons.mp hm with h | h
          · exact absurd h.symm ha
          · exact h
        have := ih t (by simpa using hl) hm2
        split
        · rfl
        · simpa using this

theorem Contains_single (s : List Nat) (c : Nat) : Contains s [c] = true ↔ c ∈ s :=
  ⟨Index_isSome_mem c [] _ s, Index_single_of_mem c _ s (le_refl _)⟩

theorem Contains_cons_mem (s : List Nat) (c : Nat) (rest : List Nat)
    (h : Contains s (c :: rest) = true) : c ∈ s :=
  Index_isSome_mem c rest _ s h

theorem DecodeRune_of_lt (b : Nat) (t : List Nat) (h : b < 128) : DecodeRune (b :: t) = (b, 1) := by
  simp [DecodeRune, first, h]

theorem DecodeRune_first_lt (b : Nat) (t : List Nat) (h : (DecodeRune (b :: t)).1 < 128) :
    b < 128 := by
  have := DecodeRune_ascii (b :: t) h
  cases hn : (DecodeRune (b :: t)).2 with
  | zero => rw [hn] at this; simp at this
  | succ n =>
    rw [hn] at this
    simp at this
    omega

/-- A test that only ASCII runes pass gives the same on the runes of a string
as on its bytes. -/
theorem runesOfLoop_all (ok : Nat → Bool) (hok : ∀ r, ok r = true → r < 128) :
    ∀ (fuel : Nat) (s : List Nat), s.length ≤ fuel → (runesOfLoop fuel s).all ok = s.all ok := by
  intro fuel
  induction fuel with
  | zero =>
    intro s hl
    cases s with
    | nil => rfl
    | cons a t => simp at hl
  | succ n ih =>
    intro s hl
    cases s with
    | nil => rfl
    | cons b t =>
      simp only [runesOfLoop, List.all_cons]
      by_cases hb : b < 128
      · rw [DecodeRune_of_lt b t hb]
        simp only [List.drop_succ_cons, List.drop_zero]
        rw [ih t (by simpa using hl)]
      · have h1 : ok b = false := by
          cases h : ok b with
          | false => rfl
          | true => exact absurd (hok b h) hb
        have h2 : ok (DecodeRune (b :: t)).1 = false := by
          cases h : ok (DecodeRune (b :: t)).1 with
          | false => rfl
          | true => exact absurd (DecodeRune_first_lt b t (hok _ h)) hb
        rw [h1, h2]
        rfl

theorem schemeLetter_lt (r : Nat) (h : schemeLetter r = true) : r < 128 := by
  simp [schemeLetter] at h
  omega

theorem schemeByte_lt (r : Nat) (h : schemeByte r = true) : r < 128 := by
  simp [schemeByte, schemeLetter] at h
  omega

theorem isScheme_iff (s : List Nat) : isScheme s = true ↔ schemeShape s := by
  unfold schemeShape
  cases s with
  | nil => simp [isScheme, runesOf, runesOfLoop]
  | cons b t =>
    have hrest : ∀ u : List Nat, u.length ≤ t.length →
        (runesOfLoop t.length u).all (fun r => schemeLetter r || (decide (0x30 ≤ r) && decide (r ≤ 0x39))
          || r == 0x2B || r == 0x2D || r == 0x2E) = u.all schemeByte :=
      fun u hu => runesOfLoop_all schemeByte schemeByte_lt _ u hu
    simp only [isScheme, runesOf, runesOfLoop, List.length_cons]
    by_cases hb : b < 128
    · rw [DecodeRune_of_lt b t hb]
      simp only [List.drop_succ_cons, List.drop_zero]
      have := hrest t (le_refl _)
      simp only [schemeLetter] at this
      rw [Bool.and_eq_true, this, List.all_eq_true]
      constructor
      · rintro ⟨h1, h2⟩
        exact ⟨b, t, rfl, by simpa [schemeLetter] using h1, h2⟩
      · rintro ⟨l, u, he, h1, h2⟩
        cases he
        exact ⟨by simpa [schemeLetter] using h1, h2⟩
    · constructor
      · intro h
        rw [Bool.and_eq_true] at h
        have : schemeLetter (DecodeRune (b :: t)).1 = true := by simpa [schemeLetter] using h.1
        exact absurd (DecodeRune_first_lt b t (schemeLetter_lt _ this)) hb
      · rintro ⟨l, u, he, h1, h2⟩
        cases he
        exact absurd (schemeLetter_lt _ h1) hb

theorem isSchemeAutolink_iff (x : List Nat) : isSchemeAutolink x = true ↔ uriShape x := by
  unfold isSchemeAutolink uriShape
  by_cases hx : x = []
  · subst hx
    simp
  by_cases hbl : containsBlank x = true
  · simp only [hx, hbl, or_true, if_true, Bool.false_eq_true, false_iff]
    rintro ⟨h, _⟩
    have := (containsBlank_eq_false x).mpr h
    rw [this] at hbl
    exact absurd hbl (by decide)
  · have hbl2 : containsBlank x = false := by simpa using hbl
    have hb := (containsBlank_eq_false x).mp hbl2
    simp only [hx, hbl2, or_self, if_false, Bool.false_eq_true]
    cases hi : IndexByte x 0x3A with
    | none =>
      have hn := IndexByte_eq_none.mp hi
      simp only [Bool.false_eq_true, false_iff]
      rintro ⟨_, s, R, he, _, _⟩
      exact hn (by rw [he]; simp)
    | some colon =>
      obtain ⟨hsplit, hnot⟩ := IndexByte_split hi
      have hlt := IndexByte_some_lt hi
      simp only []
      constructor
      · intro h
        by_cases hc : colon = 0
        · simp [hc] at h
        · rw [if_neg hc] at h
          exact ⟨hb, _, _, hsplit, hnot, (isScheme_iff _).mp h⟩
      · rintro ⟨_, s, R, he, hs, hsh⟩
        have hi2 : IndexByte x 0x3A = some s.length := by
          rw [he]; exact IndexByte_of_not_mem hs
        rw [hi] at hi2
        have hcl : colon = s.length := Option.some.inj hi2
        have hs0 : s ≠ [] := by
          obtain ⟨l, t, rfl, _⟩ := hsh
          simp
        have hc : ¬ colon = 0 := by
          rw [hcl]
          exact fun h => hs0 (List.length_eq_zero.mp h)
        rw [if_neg hc]
        have : x.take colon = s := by rw [he, hcl]; simp
        rw [this]
        exact (isScheme_iff _).mpr hsh

theorem isEmailAutolink_iff (x : List Nat) : isEmailAutolink x = true ↔ emailShape x := by
  unfold isEmailAutolink emailShape
  by_cases hx : x = []
  · subst hx
    simp
  by_cases hbl : containsBlank x = true
  · simp only [hx, hbl, or_true, if_true, Bool.false_eq_true, false_iff]
    rintro ⟨h, _⟩
    have := (containsBlank_eq_false x).mpr h
    rw [this] at hbl
    exact absurd hbl (by decide)
  have hbl2 : containsBlank x = false := by simpa using hbl
  have hb := (containsBlank_eq_false x).mp hbl2
  simp only [hx, hbl2, or_self, if_false, Bool.false_eq_true]
  by_cases hcol : 0x3A ∈ x
  · have h1 : Contains x [0x3A] = true := (Contains_single x 0x3A).mpr hcol
    simp only [h1, or_true, if_true, Bool.false_eq_true, false_iff]
    rintro ⟨_, h, _⟩
    exact h hcol
  have h1 : ¬ Contains x [0x3A] = true := fun h => hcol ((Contains_single x 0x3A).mp h)
  have h2 : ¬ Contains x [0x3A, 0x2F, 0x2F] = true := fun h => hcol (Contains_cons_mem x _ _ h)
  simp only [h1, h2, or_self, if_false]
  cases hi : IndexByte x 0x40 with
  | none =>
    have hn := IndexByte_eq_none.mp hi
    refine ⟨fun h => by simp at h, ?_⟩
    rintro ⟨_, _, L, R, he, _⟩
    exact absurd (show 0x40 ∈ x by rw [he]; simp) hn
  | some i =>
    obtain ⟨hsplit, hnot⟩ := IndexByte_split hi
    have hlt := IndexByte_some_lt hi
    simp only []
    have hcount : x.count 0x40 = 1 + (x.drop (i + 1)).count 0x40 := by
      conv_lhs => rw [hsplit]
      rw [List.count_append, List.count_cons_self, List.count_eq_zero_of_not_mem hnot]
      omega
    constructor
    · intro h
      by_cases hc : i = 0 ∨ i = x.length - 1
      · simp [hc] at h
      rw [if_neg hc] at h
      by_cases hcnt : x.count 0x40 ≠ 1
      · simp [hcnt] at h
      push_neg at hc
      have hcnt2 : x.count 0x40 = 1 := by simpa using hcnt
      refine ⟨hb, hcol, x.take i, x.drop (i + 1), hsplit, ?_, ?_, hnot, ?_⟩
      · intro h0
        have := congrArg List.length h0
        rw [List.length_take, List.length_nil] at this
        omega
      · intro h0
        have := congrArg List.length h0
        rw [List.length_drop, List.length_nil] at this
        omega
      · apply List.count_eq_zero.mp
        omega
    · rintro ⟨_, _, L, R, he, hL, hR, hnL, hnR⟩
      have hi2 : IndexByte x 0x40 = some L.length := by
        rw [he]; exact IndexByte_of_not_mem hnL
      rw [hi] at hi2
      have hil : i = L.length := Option.some.inj hi2
      have hLpos : 0 < L.length := List.length_pos.mpr hL
      have hRpos : 0 < R.length := List.length_pos.mpr hR
      have hxl : x.length = L.length + 1 + R.length := by rw [he]; simp; omega
      have hc : ¬ (i = 0 ∨ i = x.length - 1) := by omega
      rw [if_neg hc]
      have hdrop : x.drop (i + 1) = R := by rw [he, hil]; simp
      have hcnt : ¬ x.count 0x40 ≠ 1 := by
        rw [hcount, hdrop, List.count_eq_zero_of_not_mem hnR]
        simp
      rw [if_neg hcnt]
      simp

theorem emailShape_not_uriShape (x : List Nat) : ¬ (emailShape x ∧ uriShape x) := by
  rintro ⟨⟨_, hcol, _⟩, _, s, R, he, _⟩
  exact hcol (by rw [he]; simp)

/-- C29 (the claim fails): the content `&nbsp;` is neither an address nor a
URI, and what is written for `<&nbsp;>` is `<`, the rune U+00A0 and `>`, not
the literal text. -/
theorem C29_fallback_decodes_nbsp :
    parseTokens plainStyles false [[60, 38, 110, 98, 115, 112, 59, 62, 10]] =
      (Res.ok (), [textTok [60] ⟨[]⟩, textTok [0xC2, 0xA0] ⟨[]⟩, textTok [62] ⟨[]⟩]) := by
  decide!

/-- C29 (amended): the content `x` between `<` and `>` is an e-mail link, with
target `mailto:` and `x`, exactly when it has no white space (space, tab, CR,
LF), no `:` and one `@` that is neither first nor last; it is a URI link with
target `x` exactly when it has no white space and the text before its first
`:` is a scheme; the two exclude each other; a link is written as the runes of
`x` with kind Url in the link-text style (between link-start and link-end
under OSC 8); otherwise `<`, `x`, `>` is emitted as styled text, which is the
literal text rune by rune when `x` has no `&`. -/
theorem C29_autolink {σ : Type} (S : Stream σ) (x : List Nat) (y : PState σ) :
    (isEmailAutolink x = true ↔ emailShape x) ∧
    (isSchemeAutolink x = true ↔ uriShape x) ∧
    ¬ (emailShape x ∧ uriShape x) ∧
    (emailShape x →
      emitAutoLink S x y = writeAutoLink S ([0x6D, 0x61, 0x69, 0x6C, 0x74, 0x6F, 0x3A] ++ x) x y) ∧
    (uriShape x → emitAutoLink S x y = writeAutoLink S x x y) ∧
    (¬ emailShape x → ¬ uriShape x →
      emitAutoLink S x y = emitStyledText S ([0x3C] ++ x ++ [0x3E]) y) ∧
    (¬ emailShape x → ¬ uriShape x → 0x26 ∉ x →
      emitAutoLink S x y =
        writeRunes S y.p.inlineStyle.1 y.p.inlineStyle.2 (runesOf ([0x3C] ++ x ++ [0x3E])) y) := by
  have hfall : ¬ emailShape x → ¬ uriShape x →
      emitAutoLink S x y = emitStyledText S ([0x3C] ++ x ++ [0x3E]) y := by
    intro he hu
    have h1 : isEmailAutolink x = false :=
      Bool.eq_false_iff.mpr (fun h => he ((isEmailAutolink_iff x).mp h))
    have h2 : isSchemeAutolink x = false :=
      Bool.eq_false_iff.mpr (fun h => hu ((isSchemeAutolink_iff x).mp h))
    unfold emitAutoLink
    by_cases hx : x = []
    · subst hx
      rfl
    · simp only [hx, h1, h2, Bool.false_eq_true, or_self, if_false]
  refine ⟨isEmailAutolink_iff x, isSchemeAutolink_iff x, emailShape_not_uriShape x, ?_, ?_,
    hfall, ?_⟩
  · intro he
    have h1 : isEmailAutolink x = true := (isEmailAutolink_iff x).mpr he
    have hx : x ≠ [] := by
      obtain ⟨_, _, L, R, rfl, _⟩ := he
      simp
    unfold emitAutoLink writeAutoLink
    simp only [hx, h1, true_or, if_false, if_true]
  · intro hu
    have h2 : isSchemeAutolink x = true := (isSchemeAutolink_iff x).mpr hu
    have h1 : isEmailAutolink x = false :=
      Bool.eq_false_iff.mpr
        (fun h => emailShape_not_uriShape x ⟨(isEmailAutolink_iff x).mp h, hu⟩)
    have hx : x ≠ [] := by
      obtain ⟨_, s, R, rfl, _⟩ := hu
      simp
    unfold emitAutoLink writeAutoLink
    simp only [hx, h1, h2, Bool.false_eq_true, or_true, if_false, if_true]
  · intro he hu hamp
    rw [hfall he hu]
    have hc : ¬ Contains ([0x3C] ++ x ++ [0x3E]) [0x26] = true := by
      intro h
      have := (Contains_single _ _).mp h
      simp at this
      exact hamp this
    have hne : ¬ ([0x3C] ++ x ++ [0x3E] = []) := by simp
    simp only [emitStyledText, PM_bind_eq, PM.bind, getP, hne, hc, Bool.false_eq_true, and_false,
      if_false]

theorem C29_autolink_witness :
    emitAutoLink captureStream [97, 64, 98] { p := zeroLiveParser, st := [] } =
      (Res.ok (),
        { p := zeroLiveParser,
          st := [Event.token (textTok [97] ⟨[]⟩ tokenURL), Event.token (textTok [64] ⟨[]⟩ tokenURL),
                 Event.token (textTok [98] ⟨[]⟩ tokenURL)] }) :=
  ((C29_autolink captureStream [97, 64, 98] { p := zeroLiveParser, st := [] }).2.2.2.1
    ⟨by simp [isBlankByte], by decide, [97], [98], rfl, by decide, by decide, by decide,
      by decide⟩).trans rfl

/-! ### Claims about the sink and the block parser settled by evaluation -/

/-- C31 (the claim fails): `SetWrapIndent("")` does not clear the wrap indent.  After
`SetWrapIndent("> ")` and `SetWrapIndent("")` on a sink of width 3, the words
`aa` and `bb` are wrapped and the second line still starts with `> `. -/
theorem C31_empty_wrap_indent_ignored :
    ((((NewStreamRenderer { out := [], failing := false } 3 {}).SetWrapIndent
        [62, 32]).SetWrapIndent []).writeTokens plainTables
        [{ Text := [97, 97] }, { Text := [32] }, { Text := [98, 98] }]).1.Flush plainTables
      |>.1.w.out = [97, 97, 10, 62, 32, 98, 98, 10] := by
  decide!

/-- C32 (code bug): at width 3 the word `ab."cd` is split after the period:
the output is `ab.`, a newline and `"cd`, so a newline separates the period
from the quote character that follows it. -/
theorem C32_period_split_from_quote :
    Render plainTables plainStyles {} 3 [[97, 98, 46, 34, 99, 100, 10]] =
      (Res.ok (), [97, 98, 46, 10, 34, 99, 100, 10]) := by
  decide!

/-- C33 (the claim fails): a period before a space is no boundary, though a
space is neither a quote character, a period, a comma nor a lowercase
letter. -/
theorem C33_period_before_space :
    classifyBoundary plainTables 0x2E 0x20 = boundaryNone := by
  decide

/-- C33 (amended): `classifyBoundary(r, next)` is newline for a line feed;
space for a space or a tab; no boundary for U+00A0 and for the six quote
characters; for a period a punctuation boundary exactly when `next` is an
uppercase letter; for each of `, ; : ! ?` a punctuation boundary exactly when
`next` is not a quote character; and no boundary for every other rune. -/
theorem C33_classifyBoundary (T : Tables) (r next : Nat) :
    (r = 10 → classifyBoundary T r next = boundaryNewline) ∧
    (r = 32 ∨ r = 9 → classifyBoundary T r next = boundarySpace) ∧
    (r = 0xA0 ∨ isQuote r = true → classifyBoundary T r next = boundaryNone) ∧
    (r = 0x2E →
      classifyBoundary T r next = if IsUpper T next = true then boundaryPunct else boundaryNone) ∧
    (r = 0x2C ∨ r = 0x3B ∨ r = 0x3A ∨ r = 0x21 ∨ r = 0x3F →
      classifyBoundary T r next = if isQuote next = true then boundaryNone else boundaryPunct) ∧
    (r ≠ 10 → r ≠ 32 → r ≠ 9 → isSentencePunct r = false →
      classifyBoundary T r next = boundaryNone) := by
  refine ⟨?_, ?_, ?_, ?_, ?_, ?_⟩
  · rintro rfl
    simp [classifyBoundary]
  · rintro (rfl | rfl) <;> simp [classifyBoundary]
  · rintro (rfl | h)
    · simp [classifyBoundary]
    · have h10 : r ≠ 10 := by rintro rfl; simp [isQuote] at h
      have h32 : ¬ (r = 32 ∨ r = 9) := by rintro (rfl | rfl) <;> simp [isQuote] at h
      simp [classifyBoundary, h10, h32, h]
  · rintro rfl
    simp [classifyBoundary, isQuote]
  · rintro (rfl | rfl | rfl | rfl | rfl) <;> simp [classifyBoundary, isQuote, isSentencePunct]
  · intro h10 h32 h9 hp
    have hdot : r ≠ 0x2E := by rintro rfl; simp [isSentencePunct] at hp
    simp only [classifyBoundary, h10, h32, h9, hdot, hp, if_false, or_self, Bool.false_eq_true]
    split_ifs <;> rfl

theorem C33_classifyBoundary_witness :
    classifyBoundary plainTables 0x2C 0x22 = boundaryNone :=
  ((C33_classifyBoundary plainTables 0x2C 0x22).2.2.2.2.1 (Or.inl rfl)).trans (by decide)

/-- C34 (code bug): the list item line `- [a]` is not decided by the forced
decision at its newline (a content that starts with `[` and is shorter than
four bytes is always left waiting), and the newline discards it: of the two
lines `- [a]` and `b` only `b` is written. -/
theorem C34_short_bracket_item_discarded :
    parseTokens plainStyles false [[45, 32, 91, 97, 93, 10, 98, 10]] =
      (Res.ok (), [textTok [98] ⟨[]⟩]) := by
  decide!

/-- C36 (the claim fails): after a line and three blank lines the pending
break counter is 4. -/
theorem C36_four_pending_breaks :
    (Parse captureStream 1 plainStyles false [[97, 10, 10, 10, 10]] false zeroLiveParser
      []).2.p.pendingBreaks = 4 := by
  decide!

/-- C38 (code bug): at width 3 the word `a"b"` is written as `a`, a newline
and `b""`: the runes `"` and `b` change places, so the pieces put together are
not the word. -/
theorem C38_split_reorders_runes :
    Render plainTables plainStyles {} 3 [[97, 34, 98, 34, 10]] =
      (Res.ok (), [97, 10, 98, 34, 34, 10]) := by
  decide!

/-! ### `parseListMarker` -/

/-- A list is its longest prefix that passes a test followed by a rest that
does not start with a passing element. -/
theorem span_takeWhile {α : Type} (p : α → Bool) (l : List α) :
    ∃ a b, l = a ++ b ∧ l.takeWhile p = a ∧ l.dropWhile p = b ∧ (∀ x ∈ a, p x = true) ∧
      (∀ x, b.head? = some x → p x = false) :=
  ⟨l.takeWhile p, l.dropWhile p, (List.takeWhile_append_dropWhile p l).symm, rfl, rfl,
    fun _ hx => List.mem_takeWhile_imp hx,
    fun x hx => by
      have := List.head?_dropWhile_not p l
      rw [hx] at this
      simpa using this⟩

theorem takeWhile_initial {α : Type} (p : α → Bool) (a b : List α) (ha : ∀ x ∈ a, p x = true)
    (hb : ∀ x, b.head? = some x → p x = false) : (a ++ b).takeWhile p = a := by
  rw [List.takeWhile_append_of_pos ha]
  cases b with
  | nil => simp
  | cons y t =>
    have := hb y rfl
    simp [List.takeWhile_cons, this]

theorem foldl_decimal (ds : List Nat) (n : Nat) :
    ds.foldl (fun n d => n * 10 + (d - 0x30)) n =
      n * 10 ^ ds.length + ds.foldl (fun n d => n * 10 + (d - 0x30)) 0 := by
  induction ds generalizing n with
  | nil => simp
  | cons d t ih =>
    simp only [List.foldl_cons, List.length_cons]
    rw [ih (n * 10 + (d - 48)), ih (0 * 10 + (d - 48))]
    ring

theorem decimalValue_lt (ds : List Nat) (hd : ∀ b ∈ ds, isDigitByte b = true) :
    decimalValue ds < 10 ^ ds.length := by
  unfold decimalValue
  induction ds using List.reverseRecOn with
  | nil => simp
  | append_singleton t d ih =>
    have hd1 : isDigitByte d = true := hd d (by simp)
    have ht := ih (fun b hb => hd b (by simp [hb]))
    simp only [isDigitByte, Bool.and_eq_true, decide_eq_true_eq] at hd1
    simp only [List.foldl_append, List.foldl_cons, List.foldl_nil, List.length_append,
      List.length_singleton, pow_succ]
    omega

/-- The loop of `parseListMarker` computes the decimal value as long as it
stays below `2 ^ 63`. -/
theorem digitsValue_eq (ds : List Nat) (hd : ∀ b ∈ ds, isDigitByte b = true) :
    ∀ n : Nat, n * 10 ^ ds.length + decimalValue ds < 2 ^ 63 →
      digitsValue ds (n : Int) = ((n * 10 ^ ds.length + decimalValue ds : Nat) : Int) := by
  have e63 : (2 : Nat) ^ 63 = 9223372036854775808 := by norm_num
  rw [e63]
  induction ds with
  | nil => intro n _; simp [digitsValue, decimalValue]
  | cons d t ih =>
    intro n hn
    have hd1 : isDigitByte d = true := hd d (by simp)
    simp only [isDigitByte, Bool.and_eq_true, decide_eq_true_eq] at hd1
    have hval : decimalValue (d :: t) = (d - 48) * 10 ^ t.length + decimalValue t := by
      unfold decimalValue
      rw [List.foldl_cons, foldl_decimal]
      simp
    have hlen : 10 ^ (d :: t).length = 10 ^ t.length * 10 := by
      rw [List.length_cons, pow_succ]
    rw [hval, hlen] at hn ⊢
    have hpos : 0 < 10 ^ t.length := pow_pos (by norm_num) _
    have h2 : (n * 10 + (d - 48)) * 10 ^ t.length =
        n * (10 ^ t.length * 10) + (d - 48) * 10 ^ t.length := by ring
    have h1 : (n * 10 + (d - 48)) * 1 ≤ (n * 10 + (d - 48)) * 10 ^ t.length :=
      Nat.mul_le_mul_left _ hpos
    have hsmall : n * 10 + (d - 48) < 9223372036854775808 := by omega
    have hw : wrap64 ((n : Int) * 10 + ((d : Int) - 48)) = ((n * 10 + (d - 48) : Nat) : Int) := by
      have e63i : (2 : Int) ^ 63 = 9223372036854775808 := by norm_num
      rw [wrap64_small]
      · push_cast
        omega
      · omega
      · rw [e63i]
        omega
    simp only [digitsValue]
    rw [hw, ih (fun b hb => hd b (by simp [hb])) (n * 10 + (d - 48)) (by omega)]
    congr 1
    omega

theorem drop_takeWhile_length {α : Type} (p : α → Bool) (l : List α) :
    l.drop (l.takeWhile p).length = l.dropWhile p := by
  have h := List.takeWhile_append_dropWhile p l
  calc l.drop (l.takeWhile p).length
      = (l.takeWhile p ++ l.dropWhile p).drop (l.takeWhile p).length := by rw [h]
    _ = l.dropWhile p := List.drop_left _ _

/-- What `parseListMarker` returns for a text that starts with `-`, `+` or
`*`. -/
theorem parseListMarker_bullet (c : Nat) (t : List Nat) (hc : c = 0x2D ∨ c = 0x2B ∨ c = 0x2A) :
    parseListMarker (c :: t) =
      if t.head?.map isSpace = some true then
        some { ordered := false, marker := c, number := 0, markerLen := 1,
               padding := (t.takeWhile isSpace).length, content := t.dropWhile isSpace }
      else none := by
  cases t with
  | nil => simp [parseListMarker, hc]
  | cons s r =>
    by_cases hs : isSpace s = true
    · have hpad : countSpaces (s :: r) ≠ 0 := by simp [countSpaces, List.takeWhile_cons, hs]
      have hdrop : (c :: s :: r).drop (1 + countSpaces (s :: r)) = (s :: r).dropWhile isSpace := by
        rw [show 1 + countSpaces (s :: r) = countSpaces (s :: r) + 1 by omega, List.drop_succ_cons]
        exact drop_takeWhile_length isSpace (s :: r)
      simp only [parseListMarker, List.getD_cons_zero, hc, if_true, List.length_cons,
        List.getD_cons_succ, hs, List.drop_succ_cons, List.drop_zero, hpad, hdrop]
      simp [countSpaces, hs]
    · simp [parseListMarker, hc, hs]

/-- The head of `parseListMarker` for a text that does not start with `-`,
`+` or `*`: `ds` is its longest prefix of digits. -/
theorem parseListMarker_head (ds rest : List Nat) (hd : ∀ b ∈ ds, isDigitByte b = true)
    (hr : ∀ x, rest.head? = some x → isDigitByte x = false)
    (hc : ∀ c, (ds ++ rest).head? = some c → ¬ (c = 0x2D ∨ c = 0x2B ∨ c = 0x2A))
    (hnil : ds ++ rest ≠ []) :
    (ds ++ rest).takeWhile (fun b => decide (0x30 ≤ b) && decide (b ≤ 0x39)) = ds ∧
    ¬ ((ds ++ rest).getD 0 0 = 0x2D ∨ (ds ++ rest).getD 0 0 = 0x2B ∨
      (ds ++ rest).getD 0 0 = 0x2A) := by
  refine ⟨takeWhile_initial isDigitByte ds rest hd hr, ?_⟩
  cases hl : ds ++ rest with
  | nil => exact absurd hl hnil
  | cons c t =>
    rw [hl] at hc
    simpa using hc c rfl

theorem parseListMarker_short (ds rest : List Nat) (hd : ∀ b ∈ ds, isDigitByte b = true)
    (hr : ∀ x, rest.head? = some x → isDigitByte x = false)
    (hc : ∀ c, (ds ++ rest).head? = some c → ¬ (c = 0x2D ∨ c = 0x2B ∨ c = 0x2A))
    (hs : ds = [] ∨ rest.length ≤ 1) :
    parseListMarker (ds ++ rest) = none := by
  by_cases hnil : ds ++ rest = []
  · rw [hnil]
    rfl
  obtain ⟨htw, hhead⟩ := parseListMarker_head ds rest hd hr hc hnil
  unfold parseListMarker
  rw [if_neg hnil, if_neg hhead]
  simp only [htw]
  by_cases hds : ds = []
  · subst hds
    exact if_pos (Or.inl rfl)
  have hrest : rest.length ≤ 1 := hs.resolve_left hds
  by_cases hi : ds.length = 0 ∨ ds.length ≥ (ds ++ rest).length
  · exact if_pos hi
  rw [if_neg hi]
  split_ifs with h1 h2
  · rfl
  · rfl
  · exfalso
    apply h2
    left
    rw [List.length_append]
    omega
  · exfalso
    apply h2
    left
    rw [List.length_append]
    omega

/-- What `parseListMarker` returns for a text that does not start with `-`,
`+` or `*` and has at least two bytes after its longest prefix `ds` of
digits. -/
theorem parseListMarker_digits (ds : List Nat) (d s : Nat) (r : List Nat)
    (hd : ∀ b ∈ ds, isDigitByte b = true) (hr : isDigitByte d = false)
    (hc : ∀ c, (ds ++ d :: s :: r).head? = some c → ¬ (c = 0x2D ∨ c = 0x2B ∨ c = 0x2A)) :
    parseListMarker (ds ++ d :: s :: r) =
      if ds ≠ [] ∧ (d = 0x2E ∨ d = 0x29) ∧ isSpace s = true then
        some { ordered := true, marker := d, number := digitsValue ds 0,
               markerLen := ds.length + 1, padding := ((s :: r).takeWhile isSpace).length,
               content := (s :: r).dropWhile isSpace }
      else none := by
  by_cases hds : ds = []
  · rw [parseListMarker_short ds _ hd (fun x hx => by simp at hx; rw [← hx]; exact hr) hc
      (Or.inl hds)]
    simp [hds]
  obtain ⟨htw, hhead⟩ := parseListMarker_head ds (d :: s :: r) hd
    (fun x hx => by simp at hx; rw [← hx]; exact hr) hc (by simp)
  unfold parseListMarker
  rw [if_neg (by simp), if_neg hhead]
  simp only [htw]
  have hlen : 0 < ds.length := List.length_pos.mpr hds
  have hg0 : (ds ++ d :: s :: r).getD ds.length 0 = d := by
    rw [List.getD_append_right _ _ _ _ (le_refl _)]
    simp
  have hi : ¬ (ds.length = 0 ∨ ds.length ≥ (ds ++ d :: s :: r).length) := by
    rw [List.length_append, List.length_cons]
    omega
  have hg1 : (ds ++ d :: s :: r).getD (ds.length + 1) 0 = s := by
    rw [List.getD_append_right _ _ _ _ (by omega)]
    simp
  have hdrop1 : (ds ++ d :: s :: r).drop (ds.length + 1) = s :: r := by
    rw [List.drop_append_eq_append_drop]
    simp
  have htake : (ds ++ d :: s :: r).take ds.length = ds := by simp
  have hdrop2 : (ds ++ d :: s :: r).drop (ds.length + 1 + countSpaces (s :: r)) =
      (s :: r).dropWhile isSpace := by
    rw [← List.drop_drop, hdrop1]
    exact drop_takeWhile_length isSpace (s :: r)
  rw [if_neg hi, hg0, hg1, hdrop1, htake, hdrop2]
  by_cases hdd : d = 0x2E ∨ d = 0x29
  · have hdd2 : ¬ (d ≠ 0x2E ∧ d ≠ 0x29) := by tauto
    rw [if_neg hdd2]
    by_cases hs : isSpace s = true
    · have hpad : countSpaces (s :: r) ≠ 0 := by
        simp [countSpaces, List.takeWhile_cons, hs]
      have hl2 : ¬ (ds.length + 1 ≥ (ds ++ d :: s :: r).length ∨ (!isSpace s) = true) := by
        rw [List.length_append, List.length_cons, List.length_cons]
        simp [hs]
      rw [if_neg hl2, if_neg hpad, if_pos ⟨hds, hdd, hs⟩]
      rfl
    · have hl2 : (ds.length + 1 ≥ (ds ++ d :: s :: r).length ∨ (!isSpace s) = true) := by
        right
        simpa using hs
      rw [if_pos hl2, if_neg (fun h => hs h.2.2)]
  · have hdd2 : d ≠ 0x2E ∧ d ≠ 0x29 := by tauto
    rw [if_pos hdd2, if_neg (fun h => hdd h.2.1)]

/-- C39: `parseListMarker(text)` succeeds exactly when `text` starts with `-`,
`+` or `*` and a space or tab, or with a non-empty run of digits, `.` or `)`
and a space or tab.  On success `text` is the marker (of the returned marker
length: the digits, if any, and the marker rune), the padding (the returned
number of spaces and tabs, at least one) and the content, which does not start
with a space or tab; the marker is ordered exactly when it has digits, an
unordered marker rune is `-`, `+` or `*` and an ordered one `.` or `)`, and
for at most 18 digits the ordinal is their decimal value. -/
theorem C39_parseListMarker (text : List Nat) :
    ((parseListMarker text).isSome = true ↔
      (∃ c s rest, text = c :: s :: rest ∧ (c = 0x2D ∨ c = 0x2B ∨ c = 0x2A) ∧
        isSpace s = true) ∨
      (∃ ds d s rest, text = ds ++ d :: s :: rest ∧ ds ≠ [] ∧
        (∀ b ∈ ds, isDigitByte b = true) ∧ (d = 0x2E ∨ d = 0x29) ∧ isSpace s = true)) ∧
    (∀ m, parseListMarker text = some m →
      ∃ ds pad, text = (ds ++ [m.marker]) ++ pad ++ m.content ∧
        (ds ++ [m.marker]).length = m.markerLen ∧ pad.length = m.padding ∧ pad ≠ [] ∧
        (∀ b ∈ pad, isSpace b = true) ∧ (∀ b, m.content.head? = some b → isSpace b = false) ∧
        (∀ b ∈ ds, isDigitByte b = true) ∧ (m.ordered = true ↔ ds ≠ []) ∧
        (m.ordered = false → m.marker = 0x2D ∨ m.marker = 0x2B ∨ m.marker = 0x2A) ∧
        (m.ordered = true → m.marker = 0x2E ∨ m.marker = 0x29) ∧
        (m.ordered = true → ds.length ≤ 18 → m.number = (decimalValue ds : Int))) := by
  have hbd : ∀ c, (c = 0x2D ∨ c = 0x2B ∨ c = 0x2A) → isDigitByte c = false := by
    rintro c (rfl | rfl | rfl) <;> decide
  have hpd : ∀ d, (d = 0x2E ∨ d = 0x29) → isDigitByte d = false := by
    rintro d (rfl | rfl) <;> decide
  cases text with
  | nil =>
    refine ⟨?_, ?_⟩
    · simp [parseListMarker]
    · intro m hm
      simp [parseListMarker] at hm
  | cons c t =>
    by_cases hc : c = 0x2D ∨ c = 0x2B ∨ c = 0x2A
    · rw [parseListMarker_bullet c t hc]
      refine ⟨?_, ?_⟩
      · constructor
        · intro h
          left
          cases t with
          | nil => simp at h
          | cons s r =>
            by_cases hs : isSpace s = true
            · exact ⟨c, s, r, rfl, hc, hs⟩
            · simp [hs] at h
        · rintro (⟨c1, s, rest, he, _, hs⟩ | ⟨ds, d, s, rest, he, hds, hd, _, _⟩)
          · cases he
            simp [hs]
          · exfalso
            cases ds with
            | nil => exact hds rfl
            | cons d0 ds1 =>
              simp only [List.cons_append, List.cons.injEq] at he
              have h1 := hd d0 (by simp)
              rw [← he.1, hbd c hc] at h1
              exact absurd h1 (by decide)
      · intro m hm
        cases t with
        | nil => simp at hm
        | cons s r =>
          by_cases hs : isSpace s = true
          · simp only [List.head?_cons, Option.map_some', hs, if_true, Option.some.injEq] at hm
            subst hm
            obtain ⟨pad, rest, hsplit, htw, hdw, hpad, hrest⟩ := span_takeWhile isSpace (s :: r)
            refine ⟨[], pad, ?_, rfl, ?_, ?_, hpad, ?_, ?_, ?_, ?_, ?_, ?_⟩
            · simp only [List.nil_append, List.cons_append, List.cons.injEq, true_and]
              rw [hdw]
              exact hsplit
            · simp only [htw]
            · rw [← htw]
              simp [List.takeWhile_cons, hs]
            · rw [hdw]
              exact hrest
            · simp
            · simp
            · intro _
              exact hc
            · intro h
              simp at h
            · intro h
              simp at h
          · simp [hs] at hm
    · obtain ⟨ds, rest, hsplit, htw, _, hd, hr⟩ := span_takeWhile isDigitByte (c :: t)
      have hcc : ∀ c1, (ds ++ rest).head? = some c1 → ¬ (c1 = 0x2D ∨ c1 = 0x2B ∨ c1 = 0x2A) := by
        intro c1 h1
        rw [← hsplit] at h1
        simp at h1
        rw [← h1]
        exact hc
      rw [hsplit]
      have hshape : ∀ ds1 d s rest1, ds ++ rest = ds1 ++ d :: s :: rest1 →
          (∀ b ∈ ds1, isDigitByte b = true) → (d = 0x2E ∨ d = 0x29) →
          ds1 = ds ∧ rest = d :: s :: rest1 := by
        intro ds1 d s rest1 he hd1 hdd
        have h1 : (ds ++ rest).takeWhile isDigitByte = ds := takeWhile_initial _ ds rest hd hr
        have h2 : (ds1 ++ d :: s :: rest1).takeWhile isDigitByte = ds1 :=
          takeWhile_initial _ ds1 _ hd1 (fun x hx => by simp at hx; rw [← hx]; exact hpd d hdd)
        rw [he, h2] at h1
        subst h1
        exact ⟨rfl, List.append_cancel_left he⟩
      have hnone : parseListMarker (ds ++ rest) = none →
          ((parseListMarker (ds ++ rest)).isSome = true ↔ False) ∧
          (∀ m, parseListMarker (ds ++ rest) = some m → False) := by
        intro h
        rw [h]
        simp
      cases rest with
      | nil =>
        have hn := parseListMarker_short ds [] hd hr hcc (Or.inr (by simp))
        refine ⟨?_, ?_⟩
        · rw [(hnone hn).1]
          constructor
          · exact False.elim
          · rintro (⟨c1, s, rest1, he, hc1, _⟩ | ⟨ds1, d, s, rest1, he, _, hd1, hdd, _⟩)
            · exact hcc c1 (by rw [he]; rfl) hc1
            · exact absurd (hshape ds1 d s rest1 he hd1 hdd).2 (by simp)
        · intro m hm
          exact ((hnone hn).2 m hm).elim
      | cons d rest1 =>
        cases rest1 with
        | nil =>
          have hn := parseListMarker_short ds [d] hd hr hcc (Or.inr (by simp))
          refine ⟨?_, ?_⟩
          · rw [(hnone hn).1]
            constructor
            · exact False.elim
            · rintro (⟨c1, s, rest1, he, hc1, _⟩ | ⟨ds1, d1, s, rest1, he, _, hd1, hdd, _⟩)
              · exact hcc c1 (by rw [he]; rfl) hc1
              · exact absurd (hshape ds1 d1 s rest1 he hd1 hdd).2 (by simp)
          · intro m hm
            exact ((hnone hn).2 m hm).elim
        | cons s r =>
          have hrd : isDigitByte d = false := hr d rfl
          rw [parseListMarker_digits ds d s r hd hrd hcc]
          by_cases hok : ds ≠ [] ∧ (d = 0x2E ∨ d = 0x29) ∧ isSpace s = true
          · rw [if_pos hok]
            refine ⟨?_, ?_⟩
            · simp only [Option.isSome_some, true_iff]
              right
              exact ⟨ds, d, s, r, rfl, hok.1, hd, hok.2.1, hok.2.2⟩
            · intro m hm
              simp only [Option.some.injEq] at hm
              subst hm
              obtain ⟨pad, rest2, hsplit2, htw2, hdw, hpad, hrest2⟩ :=
                span_takeWhile isSpace (s :: r)
              refine ⟨ds, pad, ?_, ?_, ?_, ?_, hpad, ?_, hd, ?_, ?_, ?_, ?_⟩
              · simp only [List.append_assoc, List.singleton_append]
                rw [hdw, hsplit2]
                simp
              · simp
              · simp only [htw2]
              · rw [← htw2]
                simp [List.takeWhile_cons, hok.2.2]
              · rw [hdw]
                exact hrest2
              · simp [hok.1]
              · intro h
                simp at h
              · intro _
                exact hok.2.1
              · intro _ hlen
                have hlt := decimalValue_lt ds hd
                have hpow : 10 ^ ds.length ≤ 10 ^ 18 := Nat.pow_le_pow_right (by norm_num) hlen
                have hb : 0 * 10 ^ ds.length + decimalValue ds < 2 ^ 63 := by
                  have e : (10 : Nat) ^ 18 < 2 ^ 63 := by norm_num
                  omega
                have := digitsValue_eq ds hd 0 hb
                simpa using this
          · rw [if_neg hok]
            refine ⟨?_, ?_⟩
            · simp only [Option.isSome_none, Bool.false_eq_true, false_iff]
              rintro (⟨c1, s1, rest1, he, hc1, _⟩ | ⟨ds1, d1, s1, rest1, he, hds1, hd1, hdd, hs1⟩)
              · exact hcc c1 (by rw [he]; rfl) hc1
              · obtain ⟨e1, e2⟩ := hshape ds1 d1 s1 rest1 he hd1 hdd
                simp only [List.cons.injEq] at e2
                obtain ⟨e3, e4, _⟩ := e2
                subst e1 e3 e4
                exact hok ⟨hds1, hdd, hs1⟩
            · intro m hm
              simp at hm

theorem C39_parseListMarker_witness :
    parseListMarker [49, 50, 46, 32, 97] =
      some { ordered := true, marker := 46, number := 12, markerLen := 3, padding := 1,
             content := [97] } ∧
    ∃ ds pad, [49, 50, 46, 32, 97] = (ds ++ [46]) ++ pad ++ [97] ∧ pad ≠ [] := by
  refine ⟨by decide, ?_⟩
  obtain ⟨ds, pad, h1, _, _, h4, _⟩ := (C39_parseListMarker [49, 50, 46, 32, 97]).2
    { ordered := true, marker := 46, number := 12, markerLen := 3, padding := 1,
      content := [97] } (by decide)
  exact ⟨ds, pad, h1, h4⟩

/-! ## The soft-wrap option is never read -/

theorem setSoftWrap_w (b : Bool) (s : StreamRenderer) :
    (s.setSoftWrap b).w = s.w := rfl

theorem setSoftWrap_width (b : Bool) (s : StreamRenderer) :
    (s.setSoftWrap b).width = s.width := rfl

theorem setSoftWrap_osc8 (b : Bool) (s : StreamRenderer) :
    (s.setSoftWrap b).osc8 = s.osc8 := rfl

theorem setSoftWrap_softWrap (b : Bool) (s : StreamRenderer) :
    (s.setSoftWrap b).softWrap = b := rfl

theorem setSoftWrap_lineWidth (b : Bool) (s : StreamRenderer) :
    (s.setSoftWrap b).lineWidth = s.lineWidth := rfl

theorem setSoftWrap_style (b : Bool) (s : StreamRenderer) :
    (s.setSoftWrap b).style = s.style := rfl

theorem setSoftWrap_pending (b : Bool) (s : StreamRenderer) :
    (s.setSoftWrap b).pending = s.pending := rfl

theorem setSoftWrap_pendingSpaces (b : Bool) (s : StreamRenderer) :
    (s.setSoftWrap b).pendingSpaces = s.pendingSpaces := rfl

theorem setSoftWrap_lastWordCode (b : Bool) (s : StreamRenderer) :
    (s.setSoftWrap b).lastWordCode = s.lastWordCode := rfl

theorem setSoftWrap_atLineStart (b : Bool) (s : StreamRenderer) :
    (s.setSoftWrap b).atLineStart = s.atLineStart := rfl

theorem setSoftWrap_lastWasNewline (b : Bool) (s : StreamRenderer) :
    (s.setSoftWrap b).lastWasNewline = s.lastWasNewline := rfl

theorem setSoftWrap_wrapIndent (b : Bool) (s : StreamRenderer) :
    (s.setSoftWrap b).wrapIndent = s.wrapIndent := rfl

theorem setSoftWrap_prefixBuf (b : Bool) (s : StreamRenderer) :
    (s.setSoftWrap b).prefixBuf = s.prefixBuf := rfl

theorem setSoftWrap_codeFlushPending (b : Bool) (s : StreamRenderer) :
    (s.setSoftWrap b).codeFlushPending = s.codeFlushPending := rfl

theorem setSoftWrap_nbspBuf (b : Bool) (s : StreamRenderer) :
    (s.setSoftWrap b).nbspBuf = s.nbspBuf := rfl

theorem setSoftWrap_punctQuotePending (b : Bool) (s : StreamRenderer) :
    (s.setSoftWrap b).punctQuotePending = s.punctQuotePending := rfl

theorem setSoftWrap_fold (b : Bool) (t : StreamRenderer)
    (a1 a2 a3 a5 a6 a7 a8 a9 a10 a11 a12 a13 a14 a15 a16) :
    (⟨a1, a2, a3, (t.setSoftWrap b).softWrap, a5, a6, a7, a8, a9, a10, a11, a12, a13, a14, a15,
        a16⟩ : StreamRenderer)
      = StreamRenderer.setSoftWrap b
          ⟨a1, a2, a3, t.softWrap, a5, a6, a7, a8, a9, a10, a11, a12, a13, a14, a15, a16⟩ := rfl

theorem setSoftWrap_ite (b : Bool) (c : Prop) [Decidable c] (x y : StreamRenderer) :
    (if c then x.setSoftWrap b else y.setSoftWrap b)
      = StreamRenderer.setSoftWrap b (if c then x else y) := by
  split <;> rfl

theorem setSoftWrapFst_ite {α : Type} (b : Bool) (c : Prop) [Decidable c]
    (x y : StreamRenderer × α) :
    (if c then StreamRenderer.setSoftWrapFst b x else StreamRenderer.setSoftWrapFst b y)
      = StreamRenderer.setSoftWrapFst b (if c then x else y) := by
  split <;> rfl

theorem setSoftWrapFst_mk {α : Type} (b : Bool) (x : StreamRenderer) (y : α) :
    (x.setSoftWrap b, y) = StreamRenderer.setSoftWrapFst b (x, y) := rfl

theorem setSoftWrapFst_fst {α : Type} (b : Bool) (p : StreamRenderer × α) :
    (StreamRenderer.setSoftWrapFst b p).1 = p.1.setSoftWrap b := rfl

theorem setSoftWrapFst_snd {α : Type} (b : Bool) (p : StreamRenderer × α) :
    (StreamRenderer.setSoftWrapFst b p).2 = p.2 := rfl

theorem SetWrapIndent_setSoftWrap (b : Bool) (s : StreamRenderer)
    (indent : List Nat) :
    (s.setSoftWrap b).SetWrapIndent indent
      = (s.SetWrapIndent indent).setSoftWrap b := by
  unfold StreamRenderer.SetWrapIndent
  simp only [setSoftWrap_w, setSoftWrap_width, setSoftWrap_osc8, setSoftWrap_lineWidth,
      setSoftWrap_style, setSoftWrap_pending, setSoftWrap_pendingSpaces, setSoftWrap_lastWordCode,
      setSoftWrap_atLineStart, setSoftWrap_lastWasNewline, setSoftWrap_wrapIndent,
      setSoftWrap_prefixBuf, setSoftWrap_codeFlushPending, setSoftWrap_nbspBuf,
      setSoftWrap_punctQuotePending, setSoftWrap_fold, setSoftWrap_ite, setSoftWrapFst_ite,
      setSoftWrapFst_mk, setSoftWrapFst_fst, setSoftWrapFst_snd]

theorem maybeSetWrapIndent_setSoftWrap (b : Bool) (s : StreamRenderer)
    :
    (s.setSoftWrap b).maybeSetWrapIndent
      = (s.maybeSetWrapIndent).setSoftWrap b := by
  unfold StreamRenderer.maybeSetWrapIndent
  simp only [setSoftWrap_w, setSoftWrap_width, setSoftWrap_osc8, setSoftWrap_lineWidth,
      setSoftWrap_style, setSoftWrap_pending, setSoftWrap_pendingSpaces, setSoftWrap_lastWordCode,
      setSoftWrap_atLineStart, setSoftWrap_lastWasNewline, setSoftWrap_wrapIndent,
      setSoftWrap_prefixBuf, setSoftWrap_codeFlushPending, setSoftWrap_nbspBuf,
      setSoftWrap_punctQuotePending, setSoftWrap_fold, setSoftWrap_ite, setSoftWrapFst_ite,
      setSoftWrapFst_mk, setSoftWrapFst_fst, setSoftWrapFst_snd, SetWrapIndent_setSoftWrap]
  repeat (first | rfl | (split <;> try simp only [
      setSoftWrap_w, setSoftWrap_width, setSoftWrap_osc8, setSoftWrap_lineWidth,
      setSoftWrap_style, setSoftWrap_pending, setSoftWrap_pendingSpaces, setSoftWrap_lastWordCode,
      setSoftWrap_atLineStart, setSoftWrap_lastWasNewline, setSoftWrap_wrapIndent,
      setSoftWrap_prefixBuf, setSoftWrap_codeFlushPending, setSoftWrap_nbspBuf,
      setSoftWrap_punctQuotePending, setSoftWrap_fold, setSoftWrap_ite, setSoftWrapFst_ite,
      setSoftWrapFst_mk, setSoftWrapFst_fst, setSoftWrapFst_snd, SetWrapIndent_setSoftWrap]))

theorem resetStyle_setSoftWrap (b : Bool) (s : StreamRenderer)
    :
    (s.setSoftWrap b).resetStyle
      = (s.resetStyle).setSoftWrap b := by
  unfold StreamRenderer.resetStyle
  simp only [setSoftWrap_w, setSoftWrap_width, setSoftWrap_osc8, setSoftWrap_lineWidth,
      setSoftWrap_style, setSoftWrap_pending, setSoftWrap_pendingSpaces, setSoftWrap_lastWordCode,
      setSoftWrap_atLineStart, setSoftWrap_lastWasNewline, setSoftWrap_wrapIndent,
      setSoftWrap_prefixBuf, setSoftWrap_codeFlushPending, setSoftWrap_nbspBuf,
      setSoftWrap_punctQuotePending, setSoftWrap_fold, setSoftWrap_ite, setSoftWrapFst_ite,
      setSoftWrapFst_mk, setSoftWrapFst_fst, setSoftWrapFst_snd, SetWrapIndent_setSoftWrap,
      maybeSetWrapIndent_setSoftWrap]

theorem switchStyle_setSoftWrap (b : Bool) (s : StreamRenderer)
    (pfx : List Nat) :
    (s.setSoftWrap b).switchStyle pfx
      = (s.switchStyle pfx).setSoftWrap b := by
  unfold StreamRenderer.switchStyle
  simp only [setSoftWrap_w, setSoftWrap_width, setSoftWrap_osc8, setSoftWrap_lineWidth,
      setSoftWrap_style, setSoftWrap_pending, setSoftWrap_pendingSpaces, setSoftWrap_lastWordCode,
      setSoftWrap_atLineStart, setSoftWrap_lastWasNewline, setSoftWrap_wrapIndent,
      setSoftWrap_prefixBuf, setSoftWrap_codeFlushPending, setSoftWrap_nbspBuf,
      setSoftWrap_punctQuotePending, setSoftWrap_fold, setSoftWrap_ite, setSoftWrapFst_ite,
      setSoftWrapFst_mk, setSoftWrapFst_fst, setSoftWrapFst_snd, SetWrapIndent_setSoftWrap,
      maybeSetWrapIndent_setSoftWrap, resetStyle_setSoftWrap]

theorem notePrefix_setSoftWrap (b : Bool) (s : StreamRenderer)
    (text : List Nat) :
    (s.setSoftWrap b).notePrefix text
      = (s.notePrefix text).setSoftWrap b := by
  unfold StreamRenderer.notePrefix
  simp only [setSoftWrap_w, setSoftWrap_width, setSoftWrap_osc8, setSoftWrap_lineWidth,
      setSoftWrap_style, setSoftWrap_pending, setSoftWrap_pendingSpaces, setSoftWrap_lastWordCode,
      setSoftWrap_atLineStart, setSoftWrap_lastWasNewline, setSoftWrap_wrapIndent,
      setSoftWrap_prefixBuf, setSoftWrap_codeFlushPending, setSoftWrap_nbspBuf,
      setSoftWrap_punctQuotePending, setSoftWrap_fold, setSoftWrap_ite, setSoftWrapFst_ite,
      setSoftWrapFst_mk, setSoftWrapFst_fst, setSoftWrapFst_snd, SetWrapIndent_setSoftWrap,
      maybeSetWrapIndent_setSoftWrap, resetStyle_setSoftWrap, switchStyle_setSoftWrap]

theorem emitText_setSoftWrap (T : Tables) (b : Bool) (s : StreamRenderer)
    (text : List Nat) (style : Style) :
    (s.setSoftWrap b).emitText T text style
      = StreamRenderer.setSoftWrapFst b (s.emitText T text style) := by
  unfold StreamRenderer.emitText
  simp only [setSoftWrap_w, setSoftWrap_width, setSoftWrap_osc8, setSoftWrap_lineWidth,
      setSoftWrap_style, setSoftWrap_pending, setSoftWrap_pendingSpaces, setSoftWrap_lastWordCode,
      setSoftWrap_atLineStart, setSoftWrap_lastWasNewline, setSoftWrap_wrapIndent,
      setSoftWrap_prefixBuf, setSoftWrap_codeFlushPending, setSoftWrap_nbspBuf,
      setSoftWrap_punctQuotePending, setSoftWrap_fold, setSoftWrap_ite, setSoftWrapFst_ite,
      setSoftWrapFst_mk, setSoftWrapFst_fst, setSoftWrapFst_snd, SetWrapIndent_setSoftWrap,
      maybeSetWrapIndent_setSoftWrap, resetStyle_setSoftWrap, switchStyle_setSoftWrap,
      notePrefix_setSoftWrap]

theorem emitRune_setSoftWrap (T : Tables) (b : Bool) (s : StreamRenderer)
    (r : Nat) (style : Style) :
    (s.setSoftWrap b).emitRune T r style
      = StreamRenderer.setSoftWrapFst b (s.emitRune T r style) := by
  unfold StreamRenderer.emitRune
  simp only [setSoftWrap_w, setSoftWrap_width, setSoftWrap_osc8, setSoftWrap_lineWidth,
      setSoftWrap_style, setSoftWrap_pending, setSoftWrap_pendingSpaces, setSoftWrap_lastWordCode,
      setSoftWrap_atLineStart, setSoftWrap_lastWasNewline, setSoftWrap_wrapIndent,
      setSoftWrap_prefixBuf, setSoftWrap_codeFlushPending, setSoftWrap_nbspBuf,
      setSoftWrap_punctQuotePending, setSoftWrap_fold, setSoftWrap_ite, setSoftWrapFst_ite,
      setSoftWrapFst_mk, setSoftWrapFst_fst, setSoftWrapFst_snd, SetWrapIndent_setSoftWrap,
      maybeSetWrapIndent_setSoftWrap, resetStyle_setSoftWrap, switchStyle_setSoftWrap,
      notePrefix_setSoftWrap, emitText_setSoftWrap]

theorem newline_setSoftWrap (b : Bool) (s : StreamRenderer)
    (rs : Bool) :
    (s.setSoftWrap b).newline rs
      = (s.newline rs).setSoftWrap b := by
  unfold StreamRenderer.newline
  simp only [setSoftWrap_w, setSoftWrap_width, setSoftWrap_osc8, setSoftWrap_lineWidth,
      setSoftWrap_style, setSoftWrap_pending, setSoftWrap_pendingSpaces, setSoftWrap_lastWordCode,
      setSoftWrap_atLineStart, setSoftWrap_lastWasNewline, setSoftWrap_wrapIndent,
      setSoftWrap_prefixBuf, setSoftWrap_codeFlushPending, setSoftWrap_nbspBuf,
      setSoftWrap_punctQuotePending, setSoftWrap_fold, setSoftWrap_ite, setSoftWrapFst_ite,
      setSoftWrapFst_mk, setSoftWrapFst_fst, setSoftWrapFst_snd, SetWrapIndent_setSoftWrap,
      maybeSetWrapIndent_setSoftWrap, resetStyle_setSoftWrap, switchStyle_setSoftWrap,
      notePrefix_setSoftWrap, emitText_setSoftWrap, emitRune_setSoftWrap]

theorem emitIndent_setSoftWrap (T : Tables) (b : Bool) (s : StreamRenderer)
    :
    (s.setSoftWrap b).emitIndent T
      = (s.emitIndent T).setSoftWrap b := by
  unfold StreamRenderer.emitIndent
  simp only [setSoftWrap_w, setSoftWrap_width, setSoftWrap_osc8, setSoftWrap_lineWidth,
      setSoftWrap_style, setSoftWrap_pending, setSoftWrap_pendingSpaces, setSoftWrap_lastWordCode,
      setSoftWrap_atLineStart, setSoftWrap_lastWasNewline, setSoftWrap_wrapIndent,
      setSoftWrap_prefixBuf, setSoftWrap_codeFlushPending, setSoftWrap_nbspBuf,
      setSoftWrap_punctQuotePending, setSoftWrap_fold, setSoftWrap_ite, setSoftWrapFst_ite,
      setSoftWrapFst_mk, setSoftWrapFst_fst, setSoftWrapFst_snd, SetWrapIndent_setSoftWrap,
      maybeSetWrapIndent_setSoftWrap, resetStyle_setSoftWrap, switchStyle_setSoftWrap,
      notePrefix_setSoftWrap, emitText_setSoftWrap, emitRune_setSoftWrap, newline_setSoftWrap]

theorem wrapNewline_setSoftWrap (T : Tables) (b : Bool) (s : StreamRenderer)
    :
    (s.setSoftWrap b).wrapNewline T
      = (s.wrapNewline T).setSoftWrap b := by
  unfold StreamRenderer.wrapNewline
  simp only [setSoftWrap_w, setSoftWrap_width, setSoftWrap_osc8, setSoftWrap_lineWidth,
      setSoftWrap_style, setSoftWrap_pending, setSoftWrap_pendingSpaces, setSoftWrap_lastWordCode,
      setSoftWrap_atLineStart, setSoftWrap_lastWasNewline, setSoftWrap_wrapIndent,
      setSoftWrap_prefixBuf, setSoftWrap_codeFlushPending, setSoftWrap_nbspBuf,
      setSoftWrap_punctQuotePending, setSoftWrap_fold, setSoftWrap_ite, setSoftWrapFst_ite,
      setSoftWrapFst_mk, setSoftWrapFst_fst, setSoftWrapFst_snd, SetWrapIndent_setSoftWrap,
      maybeSetWrapIndent_setSoftWrap, resetStyle_setSoftWrap, switchStyle_setSoftWrap,
      notePrefix_setSoftWrap, emitText_setSoftWrap, emitRune_setSoftWrap, newline_setSoftWrap,
      emitIndent_setSoftWrap]

theorem emitAtoms_setSoftWrap (T : Tables) (b : Bool) (atoms : List StreamToken) :
    ∀ s : StreamRenderer, (s.setSoftWrap b).emitAtoms T atoms
      = StreamRenderer.setSoftWrapFst b (s.emitAtoms T atoms) := by
  induction atoms with
  | nil => intro s; rfl
  | cons a rest ih =>
    intro s
    unfold StreamRenderer.emitAtoms
    simp only [setSoftWrap_w, setSoftWrap_width, setSoftWrap_osc8, setSoftWrap_lineWidth,
      setSoftWrap_style, setSoftWrap_pending, setSoftWrap_pendingSpaces, setSoftWrap_lastWordCode,
      setSoftWrap_atLineStart, setSoftWrap_lastWasNewline, setSoftWrap_wrapIndent,
      setSoftWrap_prefixBuf, setSoftWrap_codeFlushPending, setSoftWrap_nbspBuf,
      setSoftWrap_punctQuotePending, setSoftWrap_fold, setSoftWrap_ite, setSoftWrapFst_ite,
      setSoftWrapFst_mk, setSoftWrapFst_fst, setSoftWrapFst_snd, SetWrapIndent_setSoftWrap,
      maybeSetWrapIndent_setSoftWrap, resetStyle_setSoftWrap, switchStyle_setSoftWrap,
      notePrefix_setSoftWrap, emitText_setSoftWrap, emitRune_setSoftWrap, newline_setSoftWrap,
      emitIndent_setSoftWrap, wrapNewline_setSoftWrap, ih]

theorem emitPendingSpaces_setSoftWrap (T : Tables) (b : Bool) (s : StreamRenderer)
    :
    (s.setSoftWrap b).emitPendingSpaces T
      = (s.emitPendingSpaces T).setSoftWrap b := by
  unfold StreamRenderer.emitPendingSpaces
  simp only [setSoftWrap_w, setSoftWrap_width, setSoftWrap_osc8, setSoftWrap_lineWidth,
      setSoftWrap_style, setSoftWrap_pending, setSoftWrap_pendingSpaces, setSoftWrap_lastWordCode,
      setSoftWrap_atLineStart, setSoftWrap_lastWasNewline, setSoftWrap_wrapIndent,
      setSoftWrap_prefixBuf, setSoftWrap_codeFlushPending, setSoftWrap_nbspBuf,
      setSoftWrap_punctQuotePending, setSoftWrap_fold, setSoftWrap_ite, setSoftWrapFst_ite,
      setSoftWrapFst_mk, setSoftWrapFst_fst, setSoftWrapFst_snd, SetWrapIndent_setSoftWrap,
      maybeSetWrapIndent_setSoftWrap, resetStyle_setSoftWrap, switchStyle_setSoftWrap,
      notePrefix_setSoftWrap, emitText_setSoftWrap, emitRune_setSoftWrap, newline_setSoftWrap,
      emitIndent_setSoftWrap, wrapNewline_setSoftWrap, emitAtoms_setSoftWrap]

theorem emitRunes_setSoftWrap (T : Tables) (b : Bool) (style : Style)
    (rs : List Nat) :
    ∀ s : StreamRenderer, (s.setSoftWrap b).emitRunes T style rs
      = (s.emitRunes T style rs).setSoftWrap b := by
  induction rs with
  | nil => intro s; rfl
  | cons r rest ih =>
    intro s
    unfold StreamRenderer.emitRunes
    simp only [setSoftWrap_w, setSoftWrap_width, setSoftWrap_osc8, setSoftWrap_lineWidth,
      setSoftWrap_style, setSoftWrap_pending, setSoftWrap_pendingSpaces, setSoftWrap_lastWordCode,
      setSoftWrap_atLineStart, setSoftWrap_lastWasNewline, setSoftWrap_wrapIndent,
      setSoftWrap_prefixBuf, setSoftWrap_codeFlushPending, setSoftWrap_nbspBuf,
      setSoftWrap_punctQuotePending, setSoftWrap_fold, setSoftWrap_ite, setSoftWrapFst_ite,
      setSoftWrapFst_mk, setSoftWrapFst_fst, setSoftWrapFst_snd, SetWrapIndent_setSoftWrap,
      maybeSetWrapIndent_setSoftWrap, resetStyle_setSoftWrap, switchStyle_setSoftWrap,
      notePrefix_setSoftWrap, emitText_setSoftWrap, emitRune_setSoftWrap, newline_setSoftWrap,
      emitIndent_setSoftWrap, wrapNewline_setSoftWrap, emitAtoms_setSoftWrap,
      emitPendingSpaces_setSoftWrap, ih]

theorem emitTimedText_setSoftWrap (T : Tables) (b : Bool) (s : StreamRenderer)
    (text : List Nat) (style : Style) :
    (s.setSoftWrap b).emitTimedText T text style
      = (s.emitTimedText T text style).setSoftWrap b := by
  unfold StreamRenderer.emitTimedText
  simp only [setSoftWrap_w, setSoftWrap_width, setSoftWrap_osc8, setSoftWrap_lineWidth,
      setSoftWrap_style, setSoftWrap_pending, setSoftWrap_pendingSpaces, setSoftWrap_lastWordCode,
      setSoftWrap_atLineStart, setSoftWrap_lastWasNewline, setSoftWrap_wrapIndent,
      setSoftWrap_prefixBuf, setSoftWrap_codeFlushPending, setSoftWrap_nbspBuf,
      setSoftWrap_punctQuotePending, setSoftWrap_fold, setSoftWrap_ite, setSoftWrapFst_ite,
      setSoftWrapFst_mk, setSoftWrapFst_fst, setSoftWrapFst_snd, SetWrapIndent_setSoftWrap,
      maybeSetWrapIndent_setSoftWrap, resetStyle_setSoftWrap, switchStyle_setSoftWrap,
      notePrefix_setSoftWrap, emitText_setSoftWrap, emitRune_setSoftWrap, newline_setSoftWrap,
      emitIndent_setSoftWrap, wrapNewline_setSoftWrap, emitAtoms_setSoftWrap,
      emitPendingSpaces_setSoftWrap, emitRunes_setSoftWrap]

theorem emitCodeSegment_setSoftWrap (T : Tables) (b : Bool) (s : StreamRenderer)
    (segment : List Nat) (limit : Int) (style : Style) :
    (s.setSoftWrap b).emitCodeSegment T segment limit style
      = (s.emitCodeSegment T segment limit style).setSoftWrap b := by
  unfold StreamRenderer.emitCodeSegment
  simp only [setSoftWrap_w, setSoftWrap_width, setSoftWrap_osc8, setSoftWrap_lineWidth,
      setSoftWrap_style, setSoftWrap_pending, setSoftWrap_pendingSpaces, setSoftWrap_lastWordCode,
      setSoftWrap_atLineStart, setSoftWrap_lastWasNewline, setSoftWrap_wrapIndent,
      setSoftWrap_prefixBuf, setSoftWrap_codeFlushPending, setSoftWrap_nbspBuf,
      setSoftWrap_punctQuotePending, setSoftWrap_fold, setSoftWrap_ite, setSoftWrapFst_ite,
      setSoftWrapFst_mk, setSoftWrapFst_fst, setSoftWrapFst_snd, SetWrapIndent_setSoftWrap,
      maybeSetWrapIndent_setSoftWrap, resetStyle_setSoftWrap, switchStyle_setSoftWrap,
      notePrefix_setSoftWrap, emitText_setSoftWrap, emitRune_setSoftWrap, newline_setSoftWrap,
      emitIndent_setSoftWrap, wrapNewline_setSoftWrap, emitAtoms_setSoftWrap,
      emitPendingSpaces_setSoftWrap, emitRunes_setSoftWrap, emitTimedText_setSoftWrap]

theorem lineHasOnlyWhitespacePrefix_setSoftWrap (T : Tables) (b : Bool)
    (s : StreamRenderer) :
    (s.setSoftWrap b).lineHasOnlyWhitespacePrefix T = s.lineHasOnlyWhitespacePrefix T := rfl

theorem emitCodeSegments_setSoftWrap (T : Tables) (b : Bool) (limit : Int)
    (style : Style)
    (segs : List (List Nat)) :
    ∀ s : StreamRenderer, (s.setSoftWrap b).emitCodeSegments T limit style segs
      = (s.emitCodeSegments T limit style segs).setSoftWrap b := by
  induction segs with
  | nil => intro s; rfl
  | cons g rest ih =>
    intro s
    unfold StreamRenderer.emitCodeSegments
    simp only [setSoftWrap_w, setSoftWrap_width, setSoftWrap_osc8, setSoftWrap_lineWidth,
      setSoftWrap_style, setSoftWrap_pending, setSoftWrap_pendingSpaces, setSoftWrap_lastWordCode,
      setSoftWrap_atLineStart, setSoftWrap_lastWasNewline, setSoftWrap_wrapIndent,
      setSoftWrap_prefixBuf, setSoftWrap_codeFlushPending, setSoftWrap_nbspBuf,
      setSoftWrap_punctQuotePending, setSoftWrap_fold, setSoftWrap_ite, setSoftWrapFst_ite,
      setSoftWrapFst_mk, setSoftWrapFst_fst, setSoftWrapFst_snd, SetWrapIndent_setSoftWrap,
      maybeSetWrapIndent_setSoftWrap, resetStyle_setSoftWrap, switchStyle_setSoftWrap,
      notePrefix_setSoftWrap, emitText_setSoftWrap, emitRune_setSoftWrap, newline_setSoftWrap,
      emitIndent_setSoftWrap, wrapNewline_setSoftWrap, emitAtoms_setSoftWrap,
      emitPendingSpaces_setSoftWrap, emitRunes_setSoftWrap, emitTimedText_setSoftWrap,
      emitCodeSegment_setSoftWrap, lineHasOnlyWhitespacePrefix_setSoftWrap, ih]

theorem emitTimedCodeSplit_setSoftWrap (T : Tables) (b : Bool) (s : StreamRenderer)
    (text : List Nat) (style : Style) (limit : Int) :
    (s.setSoftWrap b).emitTimedCodeSplit T text style limit
      = (s.emitTimedCodeSplit T text style limit).setSoftWrap b := by
  unfold StreamRenderer.emitTimedCodeSplit
  simp only [setSoftWrap_w, setSoftWrap_width, setSoftWrap_osc8, setSoftWrap_lineWidth,
      setSoftWrap_style, setSoftWrap_pending, setSoftWrap_pendingSpaces, setSoftWrap_lastWordCode,
      setSoftWrap_atLineStart, setSoftWrap_lastWasNewline, setSoftWrap_wrapIndent,
      setSoftWrap_prefixBuf, setSoftWrap_codeFlushPending, setSoftWrap_nbspBuf,
      setSoftWrap_punctQuotePending, setSoftWrap_fold, setSoftWrap_ite, setSoftWrapFst_ite,
      setSoftWrapFst_mk, setSoftWrapFst_fst, setSoftWrapFst_snd, SetWrapIndent_setSoftWrap,
      maybeSetWrapIndent_setSoftWrap, resetStyle_setSoftWrap, switchStyle_setSoftWrap,
      notePrefix_setSoftWrap, emitText_setSoftWrap, emitRune_setSoftWrap, newline_setSoftWrap,
      emitIndent_setSoftWrap, wrapNewline_setSoftWrap, emitAtoms_setSoftWrap,
      emitPendingSpaces_setSoftWrap, emitRunes_setSoftWrap, emitTimedText_setSoftWrap,
      emitCodeSegment_setSoftWrap, lineHasOnlyWhitespacePrefix_setSoftWrap,
      emitCodeSegments_setSoftWrap]

theorem wordSplitLoop_setSoftWrap (T : Tables) (b : Bool) (style : Style)
    (limit : Int) (totalRunes : Nat) (fuel : Nat) :
    ∀ (s : StreamRenderer) (text carry : List Nat) (consumed chunkIndex : Nat),
      StreamRenderer.wordSplitLoop T style limit totalRunes fuel (s.setSoftWrap b) text carry
          consumed chunkIndex
        = (StreamRenderer.wordSplitLoop T style limit totalRunes fuel s text carry consumed
            chunkIndex).setSoftWrap b := by
  induction fuel with
  | zero => intro s text carry consumed chunkIndex; rfl
  | succ n ih =>
    intro s text carry consumed chunkIndex
    unfold StreamRenderer.wordSplitLoop
    simp only [setSoftWrap_w, setSoftWrap_width, setSoftWrap_osc8, setSoftWrap_lineWidth,
      setSoftWrap_style, setSoftWrap_pending, setSoftWrap_pendingSpaces, setSoftWrap_lastWordCode,
      setSoftWrap_atLineStart, setSoftWrap_lastWasNewline, setSoftWrap_wrapIndent,
      setSoftWrap_prefixBuf, setSoftWrap_codeFlushPending, setSoftWrap_nbspBuf,
      setSoftWrap_punctQuotePending, setSoftWrap_fold, setSoftWrap_ite, setSoftWrapFst_ite,
      setSoftWrapFst_mk, setSoftWrapFst_fst, setSoftWrapFst_snd, SetWrapIndent_setSoftWrap,
      maybeSetWrapIndent_setSoftWrap, resetStyle_setSoftWrap, switchStyle_setSoftWrap,
      notePrefix_setSoftWrap, emitText_setSoftWrap, emitRune_setSoftWrap, newline_setSoftWrap,
      emitIndent_setSoftWrap, wrapNewline_setSoftWrap, emitAtoms_setSoftWrap,
      emitPendingSpaces_setSoftWrap, emitRunes_setSoftWrap, emitTimedText_setSoftWrap,
      emitCodeSegment_setSoftWrap, lineHasOnlyWhitespacePrefix_setSoftWrap,
      emitCodeSegments_setSoftWrap, emitTimedCodeSplit_setSoftWrap, ih]

theorem emitTimedWordSplit_setSoftWrap (T : Tables) (b : Bool) (s : StreamRenderer)
    (text : List Nat) (style : Style) (limit : Int) :
    (s.setSoftWrap b).emitTimedWordSplit T text style limit
      = (s.emitTimedWordSplit T text style limit).setSoftWrap b := by
  unfold StreamRenderer.emitTimedWordSplit
  simp only [setSoftWrap_w, setSoftWrap_width, setSoftWrap_osc8, setSoftWrap_lineWidth,
      setSoftWrap_style, setSoftWrap_pending, setSoftWrap_pendingSpaces, setSoftWrap_lastWordCode,
      setSoftWrap_atLineStart, setSoftWrap_lastWasNewline, setSoftWrap_wrapIndent,
      setSoftWrap_prefixBuf, setSoftWrap_codeFlushPending, setSoftWrap_nbspBuf,
      setSoftWrap_punctQuotePending, setSoftWrap_fold, setSoftWrap_ite, setSoftWrapFst_ite,
      setSoftWrapFst_mk, setSoftWrapFst_fst, setSoftWrapFst_snd, SetWrapIndent_setSoftWrap,
      maybeSetWrapIndent_setSoftWrap, resetStyle_setSoftWrap, switchStyle_setSoftWrap,
      notePrefix_setSoftWrap, emitText_setSoftWrap, emitRune_setSoftWrap, newline_setSoftWrap,
      emitIndent_setSoftWrap, wrapNewline_setSoftWrap, emitAtoms_setSoftWrap,
      emitPendingSpaces_setSoftWrap, emitRunes_setSoftWrap, emitTimedText_setSoftWrap,
      emitCodeSegment_setSoftWrap, lineHasOnlyWhitespacePrefix_setSoftWrap,
      emitCodeSegments_setSoftWrap, emitTimedCodeSplit_setSoftWrap, wordSplitLoop_setSoftWrap]

theorem emitOverlongWord_setSoftWrap (T : Tables) (b : Bool) (s : StreamRenderer)
    (wordText : List Nat) (pending : wordBuffer) :
    (s.setSoftWrap b).emitOverlongWord T wordText pending
      = (s.emitOverlongWord T wordText pending).setSoftWrap b := by
  unfold StreamRenderer.emitOverlongWord
  simp only [setSoftWrap_w, setSoftWrap_width, setSoftWrap_osc8, setSoftWrap_lineWidth,
      setSoftWrap_style, setSoftWrap_pending, setSoftWrap_pendingSpaces, setSoftWrap_lastWordCode,
      setSoftWrap_atLineStart, setSoftWrap_lastWasNewline, setSoftWrap_wrapIndent,
      setSoftWrap_prefixBuf, setSoftWrap_codeFlushPending, setSoftWrap_nbspBuf,
      setSoftWrap_punctQuotePending, setSoftWrap_fold, setSoftWrap_ite, setSoftWrapFst_ite,
      setSoftWrapFst_mk, setSoftWrapFst_fst, setSoftWrapFst_snd, SetWrapIndent_setSoftWrap,
      maybeSetWrapIndent_setSoftWrap, resetStyle_setSoftWrap, switchStyle_setSoftWrap,
      notePrefix_setSoftWrap, emitText_setSoftWrap, emitRune_setSoftWrap, newline_setSoftWrap,
      emitIndent_setSoftWrap, wrapNewline_setSoftWrap, emitAtoms_setSoftWrap,
      emitPendingSpaces_setSoftWrap, emitRunes_setSoftWrap, emitTimedText_setSoftWrap,
      emitCodeSegment_setSoftWrap, lineHasOnlyWhitespacePrefix_setSoftWrap,
      emitCodeSegments_setSoftWrap, emitTimedCodeSplit_setSoftWrap, wordSplitLoop_setSoftWrap,
      emitTimedWordSplit_setSoftWrap]
  repeat (first | rfl | (split <;> try simp only [
      setSoftWrap_w, setSoftWrap_width, setSoftWrap_osc8, setSoftWrap_lineWidth,
      setSoftWrap_style, setSoftWrap_pending, setSoftWrap_pendingSpaces, setSoftWrap_lastWordCode,
      setSoftWrap_atLineStart, setSoftWrap_lastWasNewline, setSoftWrap_wrapIndent,
      setSoftWrap_prefixBuf, setSoftWrap_codeFlushPending, setSoftWrap_nbspBuf,
      setSoftWrap_punctQuotePending, setSoftWrap_fold, setSoftWrap_ite, setSoftWrapFst_ite,
      setSoftWrapFst_mk, setSoftWrapFst_fst, setSoftWrapFst_snd, SetWrapIndent_setSoftWrap,
      maybeSetWrapIndent_setSoftWrap, resetStyle_setSoftWrap, switchStyle_setSoftWrap,
      notePrefix_setSoftWrap, emitText_setSoftWrap, emitRune_setSoftWrap, newline_setSoftWrap,
      emitIndent_setSoftWrap, wrapNewline_setSoftWrap, emitAtoms_setSoftWrap,
      emitPendingSpaces_setSoftWrap, emitRunes_setSoftWrap, emitTimedText_setSoftWrap,
      emitCodeSegment_setSoftWrap, lineHasOnlyWhitespacePrefix_setSoftWrap,
      emitCodeSegments_setSoftWrap, emitTimedCodeSplit_setSoftWrap, wordSplitLoop_setSoftWrap,
      emitTimedWordSplit_setSoftWrap]))

theorem emitBoundary_setSoftWrap (T : Tables) (b : Bool) (s : StreamRenderer)
    (boundary : boundaryKind) :
    (s.setSoftWrap b).emitBoundary T boundary
      = (s.emitBoundary T boundary).setSoftWrap b := by
  unfold StreamRenderer.emitBoundary
  simp only [setSoftWrap_w, setSoftWrap_width, setSoftWrap_osc8, setSoftWrap_lineWidth,
      setSoftWrap_style, setSoftWrap_pending, setSoftWrap_pendingSpaces, setSoftWrap_lastWordCode,
      setSoftWrap_atLineStart, setSoftWrap_lastWasNewline, setSoftWrap_wrapIndent,
      setSoftWrap_prefixBuf, setSoftWrap_codeFlushPending, setSoftWrap_nbspBuf,
      setSoftWrap_punctQuotePending, setSoftWrap_fold, setSoftWrap_ite, setSoftWrapFst_ite,
      setSoftWrapFst_mk, setSoftWrapFst_fst, setSoftWrapFst_snd, SetWrapIndent_setSoftWrap,
      maybeSetWrapIndent_setSoftWrap, resetStyle_setSoftWrap, switchStyle_setSoftWrap,
      notePrefix_setSoftWrap, emitText_setSoftWrap, emitRune_setSoftWrap, newline_setSoftWrap,
      emitIndent_setSoftWrap, wrapNewline_setSoftWrap, emitAtoms_setSoftWrap,
      emitPendingSpaces_setSoftWrap, emitRunes_setSoftWrap, emitTimedText_setSoftWrap,
      emitCodeSegment_setSoftWrap, lineHasOnlyWhitespacePrefix_setSoftWrap,
      emitCodeSegments_setSoftWrap, emitTimedCodeSplit_setSoftWrap, wordSplitLoop_setSoftWrap,
      emitTimedWordSplit_setSoftWrap, emitOverlongWord_setSoftWrap]
  repeat (first | rfl | (split <;> try simp only [
      setSoftWrap_w, setSoftWrap_width, setSoftWrap_osc8, setSoftWrap_lineWidth,
      setSoftWrap_style, setSoftWrap_pending, setSoftWrap_pendingSpaces, setSoftWrap_lastWordCode,
      setSoftWrap_atLineStart, setSoftWrap_lastWasNewline, setSoftWrap_wrapIndent,
      setSoftWrap_prefixBuf, setSoftWrap_codeFlushPending, setSoftWrap_nbspBuf,
      setSoftWrap_punctQuotePending, setSoftWrap_fold, setSoftWrap_ite, setSoftWrapFst_ite,
      setSoftWrapFst_mk, setSoftWrapFst_fst, setSoftWrapFst_snd, SetWrapIndent_setSoftWrap,
      maybeSetWrapIndent_setSoftWrap, resetStyle_setSoftWrap, switchStyle_setSoftWrap,
      notePrefix_setSoftWrap, emitText_setSoftWrap, emitRune_setSoftWrap, newline_setSoftWrap,
      emitIndent_setSoftWrap, wrapNewline_setSoftWrap, emitAtoms_setSoftWrap,
      emitPendingSpaces_setSoftWrap, emitRunes_setSoftWrap, emitTimedText_setSoftWrap,
      emitCodeSegment_setSoftWrap, lineHasOnlyWhitespacePrefix_setSoftWrap,
      emitCodeSegments_setSoftWrap, emitTimedCodeSplit_setSoftWrap, wordSplitLoop_setSoftWrap,
      emitTimedWordSplit_setSoftWrap, emitOverlongWord_setSoftWrap]))

theorem wrapBeforeWord_setSoftWrap (T : Tables) (b : Bool) (s : StreamRenderer)
    :
    (s.setSoftWrap b).wrapBeforeWord T
      = (s.wrapBeforeWord T).setSoftWrap b := by
  unfold StreamRenderer.wrapBeforeWord
  simp only [setSoftWrap_w, setSoftWrap_width, setSoftWrap_osc8, setSoftWrap_lineWidth,
      setSoftWrap_style, setSoftWrap_pending, setSoftWrap_pendingSpaces, setSoftWrap_lastWordCode,
      setSoftWrap_atLineStart, setSoftWrap_lastWasNewline, setSoftWrap_wrapIndent,
      setSoftWrap_prefixBuf, setSoftWrap_codeFlushPending, setSoftWrap_nbspBuf,
      setSoftWrap_punctQuotePending, setSoftWrap_fold, setSoftWrap_ite, setSoftWrapFst_ite,
      setSoftWrapFst_mk, setSoftWrapFst_fst, setSoftWrapFst_snd, SetWrapIndent_setSoftWrap,
      maybeSetWrapIndent_setSoftWrap, resetStyle_setSoftWrap, switchStyle_setSoftWrap,
      notePrefix_setSoftWrap, emitText_setSoftWrap, emitRune_setSoftWrap, newline_setSoftWrap,
      emitIndent_setSoftWrap, wrapNewline_setSoftWrap, emitAtoms_setSoftWrap,
      emitPendingSpaces_setSoftWrap, emitRunes_setSoftWrap, emitTimedText_setSoftWrap,
      emitCodeSegment_setSoftWrap, lineHasOnlyWhitespacePrefix_setSoftWrap,
      emitCodeSegments_setSoftWrap, emitTimedCodeSplit_setSoftWrap, wordSplitLoop_setSoftWrap,
      emitTimedWordSplit_setSoftWrap, emitOverlongWord_setSoftWrap, emitBoundary_setSoftWrap]

theorem emitWord_setSoftWrap (T : Tables) (b : Bool) (s : StreamRenderer)
    :
    (s.setSoftWrap b).emitWord T
      = (s.emitWord T).setSoftWrap b := by
  unfold StreamRenderer.emitWord
  simp only [setSoftWrap_w, setSoftWrap_width, setSoftWrap_osc8, setSoftWrap_lineWidth,
      setSoftWrap_style, setSoftWrap_pending, setSoftWrap_pendingSpaces, setSoftWrap_lastWordCode,
      setSoftWrap_atLineStart, setSoftWrap_lastWasNewline, setSoftWrap_wrapIndent,
      setSoftWrap_prefixBuf, setSoftWrap_codeFlushPending, setSoftWrap_nbspBuf,
      setSoftWrap_punctQuotePending, setSoftWrap_fold, setSoftWrap_ite, setSoftWrapFst_ite,
      setSoftWrapFst_mk, setSoftWrapFst_fst, setSoftWrapFst_snd, SetWrapIndent_setSoftWrap,
      maybeSetWrapIndent_setSoftWrap, resetStyle_setSoftWrap, switchStyle_setSoftWrap,
      notePrefix_setSoftWrap, emitText_setSoftWrap, emitRune_setSoftWrap, newline_setSoftWrap,
      emitIndent_setSoftWrap, wrapNewline_setSoftWrap, emitAtoms_setSoftWrap,
      emitPendingSpaces_setSoftWrap, emitRunes_setSoftWrap, emitTimedText_setSoftWrap,
      emitCodeSegment_setSoftWrap, lineHasOnlyWhitespacePrefix_setSoftWrap,
      emitCodeSegments_setSoftWrap, emitTimedCodeSplit_setSoftWrap, wordSplitLoop_setSoftWrap,
      emitTimedWordSplit_setSoftWrap, emitOverlongWord_setSoftWrap, emitBoundary_setSoftWrap,
      wrapBeforeWord_setSoftWrap]

theorem flushWord_setSoftWrap (T : Tables) (b : Bool) (s : StreamRenderer)
    (boundary : boundaryKind) :
    (s.setSoftWrap b).flushWord T boundary
      = (s.flushWord T boundary).setSoftWrap b := by
  unfold StreamRenderer.flushWord
  simp only [setSoftWrap_w, setSoftWrap_width, setSoftWrap_osc8, setSoftWrap_lineWidth,
      setSoftWrap_style, setSoftWrap_pending, setSoftWrap_pendingSpaces, setSoftWrap_lastWordCode,
      setSoftWrap_atLineStart, setSoftWrap_lastWasNewline, setSoftWrap_wrapIndent,
      setSoftWrap_prefixBuf, setSoftWrap_codeFlushPending, setSoftWrap_nbspBuf,
      setSoftWrap_punctQuotePending, setSoftWrap_fold, setSoftWrap_ite, setSoftWrapFst_ite,
      setSoftWrapFst_mk, setSoftWrapFst_fst, setSoftWrapFst_snd, SetWrapIndent_setSoftWrap,
      maybeSetWrapIndent_setSoftWrap, resetStyle_setSoftWrap, switchStyle_setSoftWrap,
      notePrefix_setSoftWrap, emitText_setSoftWrap, emitRune_setSoftWrap, newline_setSoftWrap,
      emitIndent_setSoftWrap, wrapNewline_setSoftWrap, emitAtoms_setSoftWrap,
      emitPendingSpaces_setSoftWrap, emitRunes_setSoftWrap, emitTimedText_setSoftWrap,
      emitCodeSegment_setSoftWrap, lineHasOnlyWhitespacePrefix_setSoftWrap,
      emitCodeSegments_setSoftWrap, emitTimedCodeSplit_setSoftWrap, wordSplitLoop_setSoftWrap,
      emitTimedWordSplit_setSoftWrap, emitOverlongWord_setSoftWrap, emitBoundary_setSoftWrap,
      wrapBeforeWord_setSoftWrap, emitWord_setSoftWrap]

theorem settlePunctQuote_setSoftWrap (T : Tables) (b : Bool) (s : StreamRenderer)
    (a : atom) :
    (s.setSoftWrap b).settlePunctQuote T a
      = StreamRenderer.setSoftWrapFst b (s.settlePunctQuote T a) := by
  unfold StreamRenderer.settlePunctQuote
  simp only [setSoftWrap_w, setSoftWrap_width, setSoftWrap_osc8, setSoftWrap_lineWidth,
      setSoftWrap_style, setSoftWrap_pending, setSoftWrap_pendingSpaces, setSoftWrap_lastWordCode,
      setSoftWrap_atLineStart, setSoftWrap_lastWasNewline, setSoftWrap_wrapIndent,
      setSoftWrap_prefixBuf, setSoftWrap_codeFlushPending, setSoftWrap_nbspBuf,
      setSoftWrap_punctQuotePending, setSoftWrap_fold, setSoftWrap_ite, setSoftWrapFst_ite,
      setSoftWrapFst_mk, setSoftWrapFst_fst, setSoftWrapFst_snd, SetWrapIndent_setSoftWrap,
      maybeSetWrapIndent_setSoftWrap, resetStyle_setSoftWrap, switchStyle_setSoftWrap,
      notePrefix_setSoftWrap, emitText_setSoftWrap, emitRune_setSoftWrap, newline_setSoftWrap,
      emitIndent_setSoftWrap, wrapNewline_setSoftWrap, emitAtoms_setSoftWrap,
      emitPendingSpaces_setSoftWrap, emitRunes_setSoftWrap, emitTimedText_setSoftWrap,
      emitCodeSegment_setSoftWrap, lineHasOnlyWhitespacePrefix_setSoftWrap,
      emitCodeSegments_setSoftWrap, emitTimedCodeSplit_setSoftWrap, wordSplitLoop_setSoftWrap,
      emitTimedWordSplit_setSoftWrap, emitOverlongWord_setSoftWrap, emitBoundary_setSoftWrap,
      wrapBeforeWord_setSoftWrap, emitWord_setSoftWrap, flushWord_setSoftWrap]

theorem settleCodeFlush_setSoftWrap (T : Tables) (b : Bool) (s : StreamRenderer)
    (a : atom) :
    (s.setSoftWrap b).settleCodeFlush T a
      = (s.settleCodeFlush T a).setSoftWrap b := by
  unfold StreamRenderer.settleCodeFlush
  simp only [setSoftWrap_w, setSoftWrap_width, setSoftWrap_osc8, setSoftWrap_lineWidth,
      setSoftWrap_style, setSoftWrap_pending, setSoftWrap_pendingSpaces, setSoftWrap_lastWordCode,
      setSoftWrap_atLineStart, setSoftWrap_lastWasNewline, setSoftWrap_wrapIndent,
      setSoftWrap_prefixBuf, setSoftWrap_codeFlushPending, setSoftWrap_nbspBuf,
      setSoftWrap_punctQuotePending, setSoftWrap_fold, setSoftWrap_ite, setSoftWrapFst_ite,
      setSoftWrapFst_mk, setSoftWrapFst_fst, setSoftWrapFst_snd, SetWrapIndent_setSoftWrap,
      maybeSetWrapIndent_setSoftWrap, resetStyle_setSoftWrap, switchStyle_setSoftWrap,
      notePrefix_setSoftWrap, emitText_setSoftWrap, emitRune_setSoftWrap, newline_setSoftWrap,
      emitIndent_setSoftWrap, wrapNewline_setSoftWrap, emitAtoms_setSoftWrap,
      emitPendingSpaces_setSoftWrap, emitRunes_setSoftWrap, emitTimedText_setSoftWrap,
      emitCodeSegment_setSoftWrap, lineHasOnlyWhitespacePrefix_setSoftWrap,
      emitCodeSegments_setSoftWrap, emitTimedCodeSplit_setSoftWrap, wordSplitLoop_setSoftWrap,
      emitTimedWordSplit_setSoftWrap, emitOverlongWord_setSoftWrap, emitBoundary_setSoftWrap,
      wrapBeforeWord_setSoftWrap, emitWord_setSoftWrap, flushWord_setSoftWrap,
      settlePunctQuote_setSoftWrap]

theorem appendPunct_setSoftWrap (T : Tables) (b : Bool) (s : StreamRenderer)
    (a : atom) :
    (s.setSoftWrap b).appendPunct T a
      = StreamRenderer.setSoftWrapFst b (s.appendPunct T a) := by
  unfold StreamRenderer.appendPunct
  simp only [setSoftWrap_w, setSoftWrap_width, setSoftWrap_osc8, setSoftWrap_lineWidth,
      setSoftWrap_style, setSoftWrap_pending, setSoftWrap_pendingSpaces, setSoftWrap_lastWordCode,
      setSoftWrap_atLineStart, setSoftWrap_lastWasNewline, setSoftWrap_wrapIndent,
      setSoftWrap_prefixBuf, setSoftWrap_codeFlushPending, setSoftWrap_nbspBuf,
      setSoftWrap_punctQuotePending, setSoftWrap_fold, setSoftWrap_ite, setSoftWrapFst_ite,
      setSoftWrapFst_mk, setSoftWrapFst_fst, setSoftWrapFst_snd, SetWrapIndent_setSoftWrap,
      maybeSetWrapIndent_setSoftWrap, resetStyle_setSoftWrap, switchStyle_setSoftWrap,
      notePrefix_setSoftWrap, emitText_setSoftWrap, emitRune_setSoftWrap, newline_setSoftWrap,
      emitIndent_setSoftWrap, wrapNewline_setSoftWrap, emitAtoms_setSoftWrap,
      emitPendingSpaces_setSoftWrap, emitRunes_setSoftWrap, emitTimedText_setSoftWrap,
      emitCodeSegment_setSoftWrap, lineHasOnlyWhitespacePrefix_setSoftWrap,
      emitCodeSegments_setSoftWrap, emitTimedCodeSplit_setSoftWrap, wordSplitLoop_setSoftWrap,
      emitTimedWordSplit_setSoftWrap, emitOverlongWord_setSoftWrap, emitBoundary_setSoftWrap,
      wrapBeforeWord_setSoftWrap, emitWord_setSoftWrap, flushWord_setSoftWrap,
      settlePunctQuote_setSoftWrap, settleCodeFlush_setSoftWrap]

theorem processPunctText_setSoftWrap (T : Tables) (b : Bool) (s : StreamRenderer)
    (a : atom) :
    (s.setSoftWrap b).processPunctText T a
      = StreamRenderer.setSoftWrapFst b (s.processPunctText T a) := by
  unfold StreamRenderer.processPunctText
  simp only [setSoftWrap_w, setSoftWrap_width, setSoftWrap_osc8, setSoftWrap_lineWidth,
      setSoftWrap_style, setSoftWrap_pending, setSoftWrap_pendingSpaces, setSoftWrap_lastWordCode,
      setSoftWrap_atLineStart, setSoftWrap_lastWasNewline, setSoftWrap_wrapIndent,
      setSoftWrap_prefixBuf, setSoftWrap_codeFlushPending, setSoftWrap_nbspBuf,
      setSoftWrap_punctQuotePending, setSoftWrap_fold, setSoftWrap_ite, setSoftWrapFst_ite,
      setSoftWrapFst_mk, setSoftWrapFst_fst, setSoftWrapFst_snd, SetWrapIndent_setSoftWrap,
      maybeSetWrapIndent_setSoftWrap, resetStyle_setSoftWrap, switchStyle_setSoftWrap,
      notePrefix_setSoftWrap, emitText_setSoftWrap, emitRune_setSoftWrap, newline_setSoftWrap,
      emitIndent_setSoftWrap, wrapNewline_setSoftWrap, emitAtoms_setSoftWrap,
      emitPendingSpaces_setSoftWrap, emitRunes_setSoftWrap, emitTimedText_setSoftWrap,
      emitCodeSegment_setSoftWrap, lineHasOnlyWhitespacePrefix_setSoftWrap,
      emitCodeSegments_setSoftWrap, emitTimedCodeSplit_setSoftWrap, wordSplitLoop_setSoftWrap,
      emitTimedWordSplit_setSoftWrap, emitOverlongWord_setSoftWrap, emitBoundary_setSoftWrap,
      wrapBeforeWord_setSoftWrap, emitWord_setSoftWrap, flushWord_setSoftWrap,
      settlePunctQuote_setSoftWrap, settleCodeFlush_setSoftWrap, appendPunct_setSoftWrap]

theorem writePrefixSpace_setSoftWrap (T : Tables) (b : Bool) (s : StreamRenderer)
    (a : atom) :
    (s.setSoftWrap b).writePrefixSpace T a
      = StreamRenderer.setSoftWrapFst b (s.writePrefixSpace T a) := by
  unfold StreamRenderer.writePrefixSpace
  simp only [setSoftWrap_w, setSoftWrap_width, setSoftWrap_osc8, setSoftWrap_lineWidth,
      setSoftWrap_style, setSoftWrap_pending, setSoftWrap_pendingSpaces, setSoftWrap_lastWordCode,
      setSoftWrap_atLineStart, setSoftWrap_lastWasNewline, setSoftWrap_wrapIndent,
      setSoftWrap_prefixBuf, setSoftWrap_codeFlushPending, setSoftWrap_nbspBuf,
      setSoftWrap_punctQuotePending, setSoftWrap_fold, setSoftWrap_ite, setSoftWrapFst_ite,
      setSoftWrapFst_mk, setSoftWrapFst_fst, setSoftWrapFst_snd, SetWrapIndent_setSoftWrap,
      maybeSetWrapIndent_setSoftWrap, resetStyle_setSoftWrap, switchStyle_setSoftWrap,
      notePrefix_setSoftWrap, emitText_setSoftWrap, emitRune_setSoftWrap, newline_setSoftWrap,
      emitIndent_setSoftWrap, wrapNewline_setSoftWrap, emitAtoms_setSoftWrap,
      emitPendingSpaces_setSoftWrap, emitRunes_setSoftWrap, emitTimedText_setSoftWrap,
      emitCodeSegment_setSoftWrap, lineHasOnlyWhitespacePrefix_setSoftWrap,
      emitCodeSegments_setSoftWrap, emitTimedCodeSplit_setSoftWrap, wordSplitLoop_setSoftWrap,
      emitTimedWordSplit_setSoftWrap, emitOverlongWord_setSoftWrap, emitBoundary_setSoftWrap,
      wrapBeforeWord_setSoftWrap, emitWord_setSoftWrap, flushWord_setSoftWrap,
      settlePunctQuote_setSoftWrap, settleCodeFlush_setSoftWrap, appendPunct_setSoftWrap,
      processPunctText_setSoftWrap]

theorem processSpace_setSoftWrap (T : Tables) (b : Bool) (s : StreamRenderer)
    (a : atom) :
    (s.setSoftWrap b).processSpace T a
      = StreamRenderer.setSoftWrapFst b (s.processSpace T a) := by
  unfold StreamRenderer.processSpace
  simp only [setSoftWrap_w, setSoftWrap_width, setSoftWrap_osc8, setSoftWrap_lineWidth,
      setSoftWrap_style, setSoftWrap_pending, setSoftWrap_pendingSpaces, setSoftWrap_lastWordCode,
      setSoftWrap_atLineStart, setSoftWrap_lastWasNewline, setSoftWrap_wrapIndent,
      setSoftWrap_prefixBuf, setSoftWrap_codeFlushPending, setSoftWrap_nbspBuf,
      setSoftWrap_punctQuotePending, setSoftWrap_fold, setSoftWrap_ite, setSoftWrapFst_ite,
      setSoftWrapFst_mk, setSoftWrapFst_fst, setSoftWrapFst_snd, SetWrapIndent_setSoftWrap,
      maybeSetWrapIndent_setSoftWrap, resetStyle_setSoftWrap, switchStyle_setSoftWrap,
      notePrefix_setSoftWrap, emitText_setSoftWrap, emitRune_setSoftWrap, newline_setSoftWrap,
      emitIndent_setSoftWrap, wrapNewline_setSoftWrap, emitAtoms_setSoftWrap,
      emitPendingSpaces_setSoftWrap, emitRunes_setSoftWrap, emitTimedText_setSoftWrap,
      emitCodeSegment_setSoftWrap, lineHasOnlyWhitespacePrefix_setSoftWrap,
      emitCodeSegments_setSoftWrap, emitTimedCodeSplit_setSoftWrap, wordSplitLoop_setSoftWrap,
      emitTimedWordSplit_setSoftWrap, emitOverlongWord_setSoftWrap, emitBoundary_setSoftWrap,
      wrapBeforeWord_setSoftWrap, emitWord_setSoftWrap, flushWord_setSoftWrap,
      settlePunctQuote_setSoftWrap, settleCodeFlush_setSoftWrap, appendPunct_setSoftWrap,
      processPunctText_setSoftWrap, writePrefixSpace_setSoftWrap]

theorem processAtomRaw_setSoftWrap (T : Tables) (b : Bool) (s : StreamRenderer)
    (a : atom) :
    (s.setSoftWrap b).processAtomRaw T a
      = StreamRenderer.setSoftWrapFst b (s.processAtomRaw T a) := by
  unfold StreamRenderer.processAtomRaw
  simp only [setSoftWrap_w, setSoftWrap_width, setSoftWrap_osc8, setSoftWrap_lineWidth,
      setSoftWrap_style, setSoftWrap_pending, setSoftWrap_pendingSpaces, setSoftWrap_lastWordCode,
      setSoftWrap_atLineStart, setSoftWrap_lastWasNewline, setSoftWrap_wrapIndent,
      setSoftWrap_prefixBuf, setSoftWrap_codeFlushPending, setSoftWrap_nbspBuf,
      setSoftWrap_punctQuotePending, setSoftWrap_fold, setSoftWrap_ite, setSoftWrapFst_ite,
      setSoftWrapFst_mk, setSoftWrapFst_fst, setSoftWrapFst_snd, SetWrapIndent_setSoftWrap,
      maybeSetWrapIndent_setSoftWrap, resetStyle_setSoftWrap, switchStyle_setSoftWrap,
      notePrefix_setSoftWrap, emitText_setSoftWrap, emitRune_setSoftWrap, newline_setSoftWrap,
      emitIndent_setSoftWrap, wrapNewline_setSoftWrap, emitAtoms_setSoftWrap,
      emitPendingSpaces_setSoftWrap, emitRunes_setSoftWrap, emitTimedText_setSoftWrap,
      emitCodeSegment_setSoftWrap, lineHasOnlyWhitespacePrefix_setSoftWrap,
      emitCodeSegments_setSoftWrap, emitTimedCodeSplit_setSoftWrap, wordSplitLoop_setSoftWrap,
      emitTimedWordSplit_setSoftWrap, emitOverlongWord_setSoftWrap, emitBoundary_setSoftWrap,
      wrapBeforeWord_setSoftWrap, emitWord_setSoftWrap, flushWord_setSoftWrap,
      settlePunctQuote_setSoftWrap, settleCodeFlush_setSoftWrap, appendPunct_setSoftWrap,
      processPunctText_setSoftWrap, writePrefixSpace_setSoftWrap, processSpace_setSoftWrap]

theorem processAtomsRaw_setSoftWrap (T : Tables) (b : Bool) (atoms : List atom) :
    ∀ s : StreamRenderer, (s.setSoftWrap b).processAtomsRaw T atoms
      = (s.processAtomsRaw T atoms).setSoftWrap b := by
  induction atoms with
  | nil => intro s; rfl
  | cons a rest ih =>
    intro s
    unfold StreamRenderer.processAtomsRaw
    simp only [setSoftWrap_w, setSoftWrap_width, setSoftWrap_osc8, setSoftWrap_lineWidth,
      setSoftWrap_style, setSoftWrap_pending, setSoftWrap_pendingSpaces, setSoftWrap_lastWordCode,
      setSoftWrap_atLineStart, setSoftWrap_lastWasNewline, setSoftWrap_wrapIndent,
      setSoftWrap_prefixBuf, setSoftWrap_codeFlushPending, setSoftWrap_nbspBuf,
      setSoftWrap_punctQuotePending, setSoftWrap_fold, setSoftWrap_ite, setSoftWrapFst_ite,
      setSoftWrapFst_mk, setSoftWrapFst_fst, setSoftWrapFst_snd, SetWrapIndent_setSoftWrap,
      maybeSetWrapIndent_setSoftWrap, resetStyle_setSoftWrap, switchStyle_setSoftWrap,
      notePrefix_setSoftWrap, emitText_setSoftWrap, emitRune_setSoftWrap, newline_setSoftWrap,
      emitIndent_setSoftWrap, wrapNewline_setSoftWrap, emitAtoms_setSoftWrap,
      emitPendingSpaces_setSoftWrap, emitRunes_setSoftWrap, emitTimedText_setSoftWrap,
      emitCodeSegment_setSoftWrap, lineHasOnlyWhitespacePrefix_setSoftWrap,
      emitCodeSegments_setSoftWrap, emitTimedCodeSplit_setSoftWrap, wordSplitLoop_setSoftWrap,
      emitTimedWordSplit_setSoftWrap, emitOverlongWord_setSoftWrap, emitBoundary_setSoftWrap,
      wrapBeforeWord_setSoftWrap, emitWord_setSoftWrap, flushWord_setSoftWrap,
      settlePunctQuote_setSoftWrap, settleCodeFlush_setSoftWrap, appendPunct_setSoftWrap,
      processPunctText_setSoftWrap, writePrefixSpace_setSoftWrap, processSpace_setSoftWrap,
      processAtomRaw_setSoftWrap, ih]

theorem flushNBSPBuf_setSoftWrap (T : Tables) (b : Bool) (s : StreamRenderer)
    :
    (s.setSoftWrap b).flushNBSPBuf T
      = (s.flushNBSPBuf T).setSoftWrap b := by
  unfold StreamRenderer.flushNBSPBuf
  simp only [setSoftWrap_w, setSoftWrap_width, setSoftWrap_osc8, setSoftWrap_lineWidth,
      setSoftWrap_style, setSoftWrap_pending, setSoftWrap_pendingSpaces, setSoftWrap_lastWordCode,
      setSoftWrap_atLineStart, setSoftWrap_lastWasNewline, setSoftWrap_wrapIndent,
      setSoftWrap_prefixBuf, setSoftWrap_codeFlushPending, setSoftWrap_nbspBuf,
      setSoftWrap_punctQuotePending, setSoftWrap_fold, setSoftWrap_ite, setSoftWrapFst_ite,
      setSoftWrapFst_mk, setSoftWrapFst_fst, setSoftWrapFst_snd, SetWrapIndent_setSoftWrap,
      maybeSetWrapIndent_setSoftWrap, resetStyle_setSoftWrap, switchStyle_setSoftWrap,
      notePrefix_setSoftWrap, emitText_setSoftWrap, emitRune_setSoftWrap, newline_setSoftWrap,
      emitIndent_setSoftWrap, wrapNewline_setSoftWrap, emitAtoms_setSoftWrap,
      emitPendingSpaces_setSoftWrap, emitRunes_setSoftWrap, emitTimedText_setSoftWrap,
      emitCodeSegment_setSoftWrap, lineHasOnlyWhitespacePrefix_setSoftWrap,
      emitCodeSegments_setSoftWrap, emitTimedCodeSplit_setSoftWrap, wordSplitLoop_setSoftWrap,
      emitTimedWordSplit_setSoftWrap, emitOverlongWord_setSoftWrap, emitBoundary_setSoftWrap,
      wrapBeforeWord_setSoftWrap, emitWord_setSoftWrap, flushWord_setSoftWrap,
      settlePunctQuote_setSoftWrap, settleCodeFlush_setSoftWrap, appendPunct_setSoftWrap,
      processPunctText_setSoftWrap, writePrefixSpace_setSoftWrap, processSpace_setSoftWrap,
      processAtomRaw_setSoftWrap, processAtomsRaw_setSoftWrap]

theorem handleNBSPAtom_setSoftWrap (T : Tables) (b : Bool) (s : StreamRenderer)
    (a : atom) :
    (s.setSoftWrap b).handleNBSPAtom T a
      = StreamRenderer.setSoftWrapFst b (s.handleNBSPAtom T a) := by
  unfold StreamRenderer.handleNBSPAtom
  simp only [setSoftWrap_w, setSoftWrap_width, setSoftWrap_osc8, setSoftWrap_lineWidth,
      setSoftWrap_style, setSoftWrap_pending, setSoftWrap_pendingSpaces, setSoftWrap_lastWordCode,
      setSoftWrap_atLineStart, setSoftWrap_lastWasNewline, setSoftWrap_wrapIndent,
      setSoftWrap_prefixBuf, setSoftWrap_codeFlushPending, setSoftWrap_nbspBuf,
      setSoftWrap_punctQuotePending, setSoftWrap_fold, setSoftWrap_ite, setSoftWrapFst_ite,
      setSoftWrapFst_mk, setSoftWrapFst_fst, setSoftWrapFst_snd, SetWrapIndent_setSoftWrap,
      maybeSetWrapIndent_setSoftWrap, resetStyle_setSoftWrap, switchStyle_setSoftWrap,
      notePrefix_setSoftWrap, emitText_setSoftWrap, emitRune_setSoftWrap, newline_setSoftWrap,
      emitIndent_setSoftWrap, wrapNewline_setSoftWrap, emitAtoms_setSoftWrap,
      emitPendingSpaces_setSoftWrap, emitRunes_setSoftWrap, emitTimedText_setSoftWrap,
      emitCodeSegment_setSoftWrap, lineHasOnlyWhitespacePrefix_setSoftWrap,
      emitCodeSegments_setSoftWrap, emitTimedCodeSplit_setSoftWrap, wordSplitLoop_setSoftWrap,
      emitTimedWordSplit_setSoftWrap, emitOverlongWord_setSoftWrap, emitBoundary_setSoftWrap,
      wrapBeforeWord_setSoftWrap, emitWord_setSoftWrap, flushWord_setSoftWrap,
      settlePunctQuote_setSoftWrap, settleCodeFlush_setSoftWrap, appendPunct_setSoftWrap,
      processPunctText_setSoftWrap, writePrefixSpace_setSoftWrap, processSpace_setSoftWrap,
      processAtomRaw_setSoftWrap, processAtomsRaw_setSoftWrap, flushNBSPBuf_setSoftWrap]

theorem processAtom_setSoftWrap (T : Tables) (b : Bool) (s : StreamRenderer)
    (a : atom) :
    (s.setSoftWrap b).processAtom T a
      = StreamRenderer.setSoftWrapFst b (s.processAtom T a) := by
  unfold StreamRenderer.processAtom
  simp only [setSoftWrap_w, setSoftWrap_width, setSoftWrap_osc8, setSoftWrap_lineWidth,
      setSoftWrap_style, setSoftWrap_pending, setSoftWrap_pendingSpaces, setSoftWrap_lastWordCode,
      setSoftWrap_atLineStart, setSoftWrap_lastWasNewline, setSoftWrap_wrapIndent,
      setSoftWrap_prefixBuf, setSoftWrap_codeFlushPending, setSoftWrap_nbspBuf,
      setSoftWrap_punctQuotePending, setSoftWrap_fold, setSoftWrap_ite, setSoftWrapFst_ite,
      setSoftWrapFst_mk, setSoftWrapFst_fst, setSoftWrapFst_snd, SetWrapIndent_setSoftWrap,
      maybeSetWrapIndent_setSoftWrap, resetStyle_setSoftWrap, switchStyle_setSoftWrap,
      notePrefix_setSoftWrap, emitText_setSoftWrap, emitRune_setSoftWrap, newline_setSoftWrap,
      emitIndent_setSoftWrap, wrapNewline_setSoftWrap, emitAtoms_setSoftWrap,
      emitPendingSpaces_setSoftWrap, emitRunes_setSoftWrap, emitTimedText_setSoftWrap,
      emitCodeSegment_setSoftWrap, lineHasOnlyWhitespacePrefix_setSoftWrap,
      emitCodeSegments_setSoftWrap, emitTimedCodeSplit_setSoftWrap, wordSplitLoop_setSoftWrap,
      emitTimedWordSplit_setSoftWrap, emitOverlongWord_setSoftWrap, emitBoundary_setSoftWrap,
      wrapBeforeWord_setSoftWrap, emitWord_setSoftWrap, flushWord_setSoftWrap,
      settlePunctQuote_setSoftWrap, settleCodeFlush_setSoftWrap, appendPunct_setSoftWrap,
      processPunctText_setSoftWrap, writePrefixSpace_setSoftWrap, processSpace_setSoftWrap,
      processAtomRaw_setSoftWrap, processAtomsRaw_setSoftWrap, flushNBSPBuf_setSoftWrap,
      handleNBSPAtom_setSoftWrap]

theorem flushPending_setSoftWrap (T : Tables) (b : Bool) (s : StreamRenderer)
    :
    (s.setSoftWrap b).flushPending T
      = (s.flushPending T).setSoftWrap b := by
  unfold StreamRenderer.flushPending
  simp only [setSoftWrap_w, setSoftWrap_width, setSoftWrap_osc8, setSoftWrap_lineWidth,
      setSoftWrap_style, setSoftWrap_pending, setSoftWrap_pendingSpaces, setSoftWrap_lastWordCode,
      setSoftWrap_atLineStart, setSoftWrap_lastWasNewline, setSoftWrap_wrapIndent,
      setSoftWrap_prefixBuf, setSoftWrap_codeFlushPending, setSoftWrap_nbspBuf,
      setSoftWrap_punctQuotePending, setSoftWrap_fold, setSoftWrap_ite, setSoftWrapFst_ite,
      setSoftWrapFst_mk, setSoftWrapFst_fst, setSoftWrapFst_snd, SetWrapIndent_setSoftWrap,
      maybeSetWrapIndent_setSoftWrap, resetStyle_setSoftWrap, switchStyle_setSoftWrap,
      notePrefix_setSoftWrap, emitText_setSoftWrap, emitRune_setSoftWrap, newline_setSoftWrap,
      emitIndent_setSoftWrap, wrapNewline_setSoftWrap, emitAtoms_setSoftWrap,
      emitPendingSpaces_setSoftWrap, emitRunes_setSoftWrap, emitTimedText_setSoftWrap,
      emitCodeSegment_setSoftWrap, lineHasOnlyWhitespacePrefix_setSoftWrap,
      emitCodeSegments_setSoftWrap, emitTimedCodeSplit_setSoftWrap, wordSplitLoop_setSoftWrap,
      emitTimedWordSplit_setSoftWrap, emitOverlongWord_setSoftWrap, emitBoundary_setSoftWrap,
      wrapBeforeWord_setSoftWrap, emitWord_setSoftWrap, flushWord_setSoftWrap,
      settlePunctQuote_setSoftWrap, settleCodeFlush_setSoftWrap, appendPunct_setSoftWrap,
      processPunctText_setSoftWrap, writePrefixSpace_setSoftWrap, processSpace_setSoftWrap,
      processAtomRaw_setSoftWrap, processAtomsRaw_setSoftWrap, flushNBSPBuf_setSoftWrap,
      handleNBSPAtom_setSoftWrap, processAtom_setSoftWrap]

theorem writeLinkToken_setSoftWrap (T : Tables) (b : Bool) (s : StreamRenderer)
    (tok : StreamToken) :
    (s.setSoftWrap b).writeLinkToken T tok
      = StreamRenderer.setSoftWrapFst b (s.writeLinkToken T tok) := by
  unfold StreamRenderer.writeLinkToken
  simp only [setSoftWrap_w, setSoftWrap_width, setSoftWrap_osc8, setSoftWrap_lineWidth,
      setSoftWrap_style, setSoftWrap_pending, setSoftWrap_pendingSpaces, setSoftWrap_lastWordCode,
      setSoftWrap_atLineStart, setSoftWrap_lastWasNewline, setSoftWrap_wrapIndent,
      setSoftWrap_prefixBuf, setSoftWrap_codeFlushPending, setSoftWrap_nbspBuf,
      setSoftWrap_punctQuotePending, setSoftWrap_fold, setSoftWrap_ite, setSoftWrapFst_ite,
      setSoftWrapFst_mk, setSoftWrapFst_fst, setSoftWrapFst_snd, SetWrapIndent_setSoftWrap,
      maybeSetWrapIndent_setSoftWrap, resetStyle_setSoftWrap, switchStyle_setSoftWrap,
      notePrefix_setSoftWrap, emitText_setSoftWrap, emitRune_setSoftWrap, newline_setSoftWrap,
      emitIndent_setSoftWrap, wrapNewline_setSoftWrap, emitAtoms_setSoftWrap,
      emitPendingSpaces_setSoftWrap, emitRunes_setSoftWrap, emitTimedText_setSoftWrap,
      emitCodeSegment_setSoftWrap, lineHasOnlyWhitespacePrefix_setSoftWrap,
      emitCodeSegments_setSoftWrap, emitTimedCodeSplit_setSoftWrap, wordSplitLoop_setSoftWrap,
      emitTimedWordSplit_setSoftWrap, emitOverlongWord_setSoftWrap, emitBoundary_setSoftWrap,
      wrapBeforeWord_setSoftWrap, emitWord_setSoftWrap, flushWord_setSoftWrap,
      settlePunctQuote_setSoftWrap, settleCodeFlush_setSoftWrap, appendPunct_setSoftWrap,
      processPunctText_setSoftWrap, writePrefixSpace_setSoftWrap, processSpace_setSoftWrap,
      processAtomRaw_setSoftWrap, processAtomsRaw_setSoftWrap, flushNBSPBuf_setSoftWrap,
      handleNBSPAtom_setSoftWrap, processAtom_setSoftWrap, flushPending_setSoftWrap]

theorem writeTokenLoop_setSoftWrap (T : Tables) (b : Bool) (tok : StreamToken)
    (per rem : Int) (fuel : Nat) :
    ∀ (s : StreamRenderer) (text : List Nat) (first : Bool),
      StreamRenderer.writeTokenLoop T tok per rem fuel (s.setSoftWrap b) text first
        = StreamRenderer.setSoftWrapFst b
            (StreamRenderer.writeTokenLoop T tok per rem fuel s text first) := by
  induction fuel with
  | zero => intro s text first; rfl
  | succ n ih =>
    intro s text first
    unfold StreamRenderer.writeTokenLoop
    simp only [setSoftWrap_w, setSoftWrap_width, setSoftWrap_osc8, setSoftWrap_lineWidth,
      setSoftWrap_style, setSoftWrap_pending, setSoftWrap_pendingSpaces, setSoftWrap_lastWordCode,
      setSoftWrap_atLineStart, setSoftWrap_lastWasNewline, setSoftWrap_wrapIndent,
      setSoftWrap_prefixBuf, setSoftWrap_codeFlushPending, setSoftWrap_nbspBuf,
      setSoftWrap_punctQuotePending, setSoftWrap_fold, setSoftWrap_ite, setSoftWrapFst_ite,
      setSoftWrapFst_mk, setSoftWrapFst_fst, setSoftWrapFst_snd, SetWrapIndent_setSoftWrap,
      maybeSetWrapIndent_setSoftWrap, resetStyle_setSoftWrap, switchStyle_setSoftWrap,
      notePrefix_setSoftWrap, emitText_setSoftWrap, emitRune_setSoftWrap, newline_setSoftWrap,
      emitIndent_setSoftWrap, wrapNewline_setSoftWrap, emitAtoms_setSoftWrap,
      emitPendingSpaces_setSoftWrap, emitRunes_setSoftWrap, emitTimedText_setSoftWrap,
      emitCodeSegment_setSoftWrap, lineHasOnlyWhitespacePrefix_setSoftWrap,
      emitCodeSegments_setSoftWrap, emitTimedCodeSplit_setSoftWrap, wordSplitLoop_setSoftWrap,
      emitTimedWordSplit_setSoftWrap, emitOverlongWord_setSoftWrap, emitBoundary_setSoftWrap,
      wrapBeforeWord_setSoftWrap, emitWord_setSoftWrap, flushWord_setSoftWrap,
      settlePunctQuote_setSoftWrap, settleCodeFlush_setSoftWrap, appendPunct_setSoftWrap,
      processPunctText_setSoftWrap, writePrefixSpace_setSoftWrap, processSpace_setSoftWrap,
      processAtomRaw_setSoftWrap, processAtomsRaw_setSoftWrap, flushNBSPBuf_setSoftWrap,
      handleNBSPAtom_setSoftWrap, processAtom_setSoftWrap, flushPending_setSoftWrap,
      writeLinkToken_setSoftWrap, ih]

theorem WriteToken_setSoftWrap (T : Tables) (b : Bool) (s : StreamRenderer)
    (tok : StreamToken) :
    (s.setSoftWrap b).WriteToken T tok
      = StreamRenderer.setSoftWrapFst b (s.WriteToken T tok) := by
  unfold StreamRenderer.WriteToken
  simp only [setSoftWrap_w, setSoftWrap_width, setSoftWrap_osc8, setSoftWrap_lineWidth,
      setSoftWrap_style, setSoftWrap_pending, setSoftWrap_pendingSpaces, setSoftWrap_lastWordCode,
      setSoftWrap_atLineStart, setSoftWrap_lastWasNewline, setSoftWrap_wrapIndent,
      setSoftWrap_prefixBuf, setSoftWrap_codeFlushPending, setSoftWrap_nbspBuf,
      setSoftWrap_punctQuotePending, setSoftWrap_fold, setSoftWrap_ite, setSoftWrapFst_ite,
      setSoftWrapFst_mk, setSoftWrapFst_fst, setSoftWrapFst_snd, SetWrapIndent_setSoftWrap,
      maybeSetWrapIndent_setSoftWrap, resetStyle_setSoftWrap, switchStyle_setSoftWrap,
      notePrefix_setSoftWrap, emitText_setSoftWrap, emitRune_setSoftWrap, newline_setSoftWrap,
      emitIndent_setSoftWrap, wrapNewline_setSoftWrap, emitAtoms_setSoftWrap,
      emitPendingSpaces_setSoftWrap, emitRunes_setSoftWrap, emitTimedText_setSoftWrap,
      emitCodeSegment_setSoftWrap, lineHasOnlyWhitespacePrefix_setSoftWrap,
      emitCodeSegments_setSoftWrap, emitTimedCodeSplit_setSoftWrap, wordSplitLoop_setSoftWrap,
      emitTimedWordSplit_setSoftWrap, emitOverlongWord_setSoftWrap, emitBoundary_setSoftWrap,
      wrapBeforeWord_setSoftWrap, emitWord_setSoftWrap, flushWord_setSoftWrap,
      settlePunctQuote_setSoftWrap, settleCodeFlush_setSoftWrap, appendPunct_setSoftWrap,
      processPunctText_setSoftWrap, writePrefixSpace_setSoftWrap, processSpace_setSoftWrap,
      processAtomRaw_setSoftWrap, processAtomsRaw_setSoftWrap, flushNBSPBuf_setSoftWrap,
      handleNBSPAtom_setSoftWrap, processAtom_setSoftWrap, flushPending_setSoftWrap,
      writeLinkToken_setSoftWrap, writeTokenLoop_setSoftWrap]

theorem flushBuffered_setSoftWrap (T : Tables) (b : Bool) (s : StreamRenderer)
    :
    (s.setSoftWrap b).flushBuffered T
      = (s.flushBuffered T).setSoftWrap b := by
  unfold StreamRenderer.flushBuffered
  simp only [setSoftWrap_w, setSoftWrap_width, setSoftWrap_osc8, setSoftWrap_lineWidth,
      setSoftWrap_style, setSoftWrap_pending, setSoftWrap_pendingSpaces, setSoftWrap_lastWordCode,
      setSoftWrap_atLineStart, setSoftWrap_lastWasNewline, setSoftWrap_wrapIndent,
      setSoftWrap_prefixBuf, setSoftWrap_codeFlushPending, setSoftWrap_nbspBuf,
      setSoftWrap_punctQuotePending, setSoftWrap_fold, setSoftWrap_ite, setSoftWrapFst_ite,
      setSoftWrapFst_mk, setSoftWrapFst_fst, setSoftWrapFst_snd, SetWrapIndent_setSoftWrap,
      maybeSetWrapIndent_setSoftWrap, resetStyle_setSoftWrap, switchStyle_setSoftWrap,
      notePrefix_setSoftWrap, emitText_setSoftWrap, emitRune_setSoftWrap, newline_setSoftWrap,
      emitIndent_setSoftWrap, wrapNewline_setSoftWrap, emitAtoms_setSoftWrap,
      emitPendingSpaces_setSoftWrap, emitRunes_setSoftWrap, emitTimedText_setSoftWrap,
      emitCodeSegment_setSoftWrap, lineHasOnlyWhitespacePrefix_setSoftWrap,
      emitCodeSegments_setSoftWrap, emitTimedCodeSplit_setSoftWrap, wordSplitLoop_setSoftWrap,
      emitTimedWordSplit_setSoftWrap, emitOverlongWord_setSoftWrap, emitBoundary_setSoftWrap,
      wrapBeforeWord_setSoftWrap, emitWord_setSoftWrap, flushWord_setSoftWrap,
      settlePunctQuote_setSoftWrap, settleCodeFlush_setSoftWrap, appendPunct_setSoftWrap,
      processPunctText_setSoftWrap, writePrefixSpace_setSoftWrap, processSpace_setSoftWrap,
      processAtomRaw_setSoftWrap, processAtomsRaw_setSoftWrap, flushNBSPBuf_setSoftWrap,
      handleNBSPAtom_setSoftWrap, processAtom_setSoftWrap, flushPending_setSoftWrap,
      writeLinkToken_setSoftWrap, writeTokenLoop_setSoftWrap, WriteToken_setSoftWrap]

theorem Flush_setSoftWrap (T : Tables) (b : Bool) (s : StreamRenderer)
    :
    (s.setSoftWrap b).Flush T
      = StreamRenderer.setSoftWrapFst b (s.Flush T) := by
  unfold StreamRenderer.Flush
  simp only [setSoftWrap_w, setSoftWrap_width, setSoftWrap_osc8, setSoftWrap_lineWidth,
      setSoftWrap_style, setSoftWrap_pending, setSoftWrap_pendingSpaces, setSoftWrap_lastWordCode,
      setSoftWrap_atLineStart, setSoftWrap_lastWasNewline, setSoftWrap_wrapIndent,
      setSoftWrap_prefixBuf, setSoftWrap_codeFlushPending, setSoftWrap_nbspBuf,
      setSoftWrap_punctQuotePending, setSoftWrap_fold, setSoftWrap_ite, setSoftWrapFst_ite,
      setSoftWrapFst_mk, setSoftWrapFst_fst, setSoftWrapFst_snd, SetWrapIndent_setSoftWrap,
      maybeSetWrapIndent_setSoftWrap, resetStyle_setSoftWrap, switchStyle_setSoftWrap,
      notePrefix_setSoftWrap, emitText_setSoftWrap, emitRune_setSoftWrap, newline_setSoftWrap,
      emitIndent_setSoftWrap, wrapNewline_setSoftWrap, emitAtoms_setSoftWrap,
      emitPendingSpaces_setSoftWrap, emitRunes_setSoftWrap, emitTimedText_setSoftWrap,
      emitCodeSegment_setSoftWrap, lineHasOnlyWhitespacePrefix_setSoftWrap,
      emitCodeSegments_setSoftWrap, emitTimedCodeSplit_setSoftWrap, wordSplitLoop_setSoftWrap,
      emitTimedWordSplit_setSoftWrap, emitOverlongWord_setSoftWrap, emitBoundary_setSoftWrap,
      wrapBeforeWord_setSoftWrap, emitWord_setSoftWrap, flushWord_setSoftWrap,
      settlePunctQuote_setSoftWrap, settleCodeFlush_setSoftWrap, appendPunct_setSoftWrap,
      processPunctText_setSoftWrap, writePrefixSpace_setSoftWrap, processSpace_setSoftWrap,
      processAtomRaw_setSoftWrap, processAtomsRaw_setSoftWrap, flushNBSPBuf_setSoftWrap,
      handleNBSPAtom_setSoftWrap, processAtom_setSoftWrap, flushPending_setSoftWrap,
      writeLinkToken_setSoftWrap, writeTokenLoop_setSoftWrap, WriteToken_setSoftWrap,
      flushBuffered_setSoftWrap]

theorem writeTokens_setSoftWrap (T : Tables) (b : Bool) (toks : List StreamToken) :
    ∀ s : StreamRenderer, (s.setSoftWrap b).writeTokens T toks
      = StreamRenderer.setSoftWrapFst b (s.writeTokens T toks) := by
  induction toks with
  | nil => intro s; rfl
  | cons t rest ih =>
    intro s
    unfold StreamRenderer.writeTokens
    simp only [setSoftWrap_w, setSoftWrap_width, setSoftWrap_osc8, setSoftWrap_lineWidth,
      setSoftWrap_style, setSoftWrap_pending, setSoftWrap_pendingSpaces, setSoftWrap_lastWordCode,
      setSoftWrap_atLineStart, setSoftWrap_lastWasNewline, setSoftWrap_wrapIndent,
      setSoftWrap_prefixBuf, setSoftWrap_codeFlushPending, setSoftWrap_nbspBuf,
      setSoftWrap_punctQuotePending, setSoftWrap_fold, setSoftWrap_ite, setSoftWrapFst_ite,
      setSoftWrapFst_mk, setSoftWrapFst_fst, setSoftWrapFst_snd, SetWrapIndent_setSoftWrap,
      maybeSetWrapIndent_setSoftWrap, resetStyle_setSoftWrap, switchStyle_setSoftWrap,
      notePrefix_setSoftWrap, emitText_setSoftWrap, emitRune_setSoftWrap, newline_setSoftWrap,
      emitIndent_setSoftWrap, wrapNewline_setSoftWrap, emitAtoms_setSoftWrap,
      emitPendingSpaces_setSoftWrap, emitRunes_setSoftWrap, emitTimedText_setSoftWrap,
      emitCodeSegment_setSoftWrap, lineHasOnlyWhitespacePrefix_setSoftWrap,
      emitCodeSegments_setSoftWrap, emitTimedCodeSplit_setSoftWrap, wordSplitLoop_setSoftWrap,
      emitTimedWordSplit_setSoftWrap, emitOverlongWord_setSoftWrap, emitBoundary_setSoftWrap,
      wrapBeforeWord_setSoftWrap, emitWord_setSoftWrap, flushWord_setSoftWrap,
      settlePunctQuote_setSoftWrap, settleCodeFlush_setSoftWrap, appendPunct_setSoftWrap,
      processPunctText_setSoftWrap, writePrefixSpace_setSoftWrap, processSpace_setSoftWrap,
      processAtomRaw_setSoftWrap, processAtomsRaw_setSoftWrap, flushNBSPBuf_setSoftWrap,
      handleNBSPAtom_setSoftWrap, processAtom_setSoftWrap, flushPending_setSoftWrap,
      writeLinkToken_setSoftWrap, writeTokenLoop_setSoftWrap, WriteToken_setSoftWrap,
      flushBuffered_setSoftWrap, Flush_setSoftWrap, ih]


/-- C40: the soft-wrap option is never read.  A sink configured with the
option on and one configured with it off, fed the same tokens and then flushed,
hold the same written bytes and return the same errors, after the tokens and
after the flush; and `Reset` keeps the option of the sink as it is. -/
theorem C40_soft_wrap_option_unread (T : Tables) (w : Writer) (width : Int) (osc8 : Bool)
    (toks : List StreamToken) :
    ((NewStreamRenderer w width { osc8 := osc8, softWrap := true }).writeTokens T toks).1.w
        = ((NewStreamRenderer w width { osc8 := osc8, softWrap := false }).writeTokens T
            toks).1.w ∧
      ((NewStreamRenderer w width { osc8 := osc8, softWrap := true }).writeTokens T toks).2
        = ((NewStreamRenderer w width { osc8 := osc8, softWrap := false }).writeTokens T
            toks).2 ∧
      (((NewStreamRenderer w width { osc8 := osc8, softWrap := true }).writeTokens T
            toks).1.Flush T).1.w
        = (((NewStreamRenderer w width { osc8 := osc8, softWrap := false }).writeTokens T
            toks).1.Flush T).1.w ∧
      (((NewStreamRenderer w width { osc8 := osc8, softWrap := true }).writeTokens T
            toks).1.Flush T).2
        = (((NewStreamRenderer w width { osc8 := osc8, softWrap := false }).writeTokens T
            toks).1.Flush T).2 ∧
      ∀ (s : StreamRenderer) (w2 : Writer) (width2 : Int),
        (s.Reset w2 width2).softWrap = s.softWrap := by
  have h : NewStreamRenderer w width { osc8 := osc8, softWrap := true }
      = (NewStreamRenderer w width { osc8 := osc8, softWrap := false }).setSoftWrap true := rfl
  rw [h, writeTokens_setSoftWrap]
  simp only [setSoftWrapFst_fst, setSoftWrapFst_snd, Flush_setSoftWrap, setSoftWrap_w]
  exact ⟨trivial, trivial, trivial, trivial, fun _ _ _ => rfl⟩

/-! ## Invariants of the parser's actions

An invariant of the parser is carried through every action by one search over
the rules of this section: the rules for `pure`, `>>=`, `getP`, the updates of
the parser and the calls of the sink, the lemmas of the actions called, and a
cut at every continuation that two branches share.  The search is the same
for every action, so a given proof may leave some of its alternatives unused. -/

set_option linter.unusedTactic false
set_option linter.unreachableTactic false

/-! ### Invariants of parser actions -/

theorem Pres_pure {σ α : Type} {I : PState σ → Prop} (a : α) : Pres I (pure a : PM σ α) :=
  fun _ h => h

theorem Pres_bind {σ α β : Type} {I : PState σ → Prop} {m : PM σ α} {f : α → PM σ β}
    (hm : Pres I m) (hf : ∀ a, Pres I (f a)) : Pres I (m >>= f) := by
  intro x hx
  have h1 := hm x hx
  show I (PM.bind m f x).2
  unfold PM.bind
  split
  · next a x1 e => rw [e] at h1; exact hf a x1 h1
  · next x1 e => rw [e] at h1; exact h1
  · next x1 e => rw [e] at h1; exact h1
  · next x1 e => rw [e] at h1; exact h1

theorem Pres_getP {σ : Type} {I : PState σ → Prop} : Pres I (getP : PM σ liveParser) :=
  fun _ h => h

theorem Pres_getP_bind {σ β : Type} {I : PState σ → Prop} {f : liveParser → PM σ β}
    (h : ∀ x, I x → I ((f x.p) x).2) : Pres I (getP >>= f) :=
  fun x hx => h x hx

theorem Pres_modifyP {σ : Type} {I : PState σ → Prop} {g : liveParser → liveParser}
    (h : ∀ x, I x → I { x with p := g x.p }) : Pres I (modifyP g : PM σ Unit) :=
  fun x hx => h x hx

theorem Pres_modifyInline {σ : Type} {I : PState σ → Prop} {g : inlineState → inlineState}
    (h : ∀ x, I x → I { x with p := { x.p with inline := g x.p.inline } }) :
    Pres I (modifyInline g : PM σ Unit) :=
  fun x hx => h x hx

theorem Pres_writeToken {σ : Type} {I : PState σ → Prop} {S : Stream σ} {tok : StreamToken}
    (h : ∀ x, I x → I { x with st := (S.WriteToken x.st tok).1 }) : Pres I (writeToken S tok) :=
  fun x hx => h x hx

theorem Pres_writeTokenIgnore {σ : Type} {I : PState σ → Prop} {S : Stream σ}
    {tok : StreamToken} (h : ∀ x, I x → I { x with st := (S.WriteToken x.st tok).1 }) :
    Pres I (writeTokenIgnore S tok) :=
  fun x hx => h x hx

theorem Pres_setWrapIndent {σ : Type} {I : PState σ → Prop} {S : Stream σ} {ind : List Nat}
    (h : ∀ x, I x → I { x with st := S.SetWrapIndent x.st ind }) :
    Pres I (setWrapIndent S ind) :=
  fun x hx => h x hx

theorem Pres_ignoreErr {σ : Type} {I : PState σ → Prop} {m : PM σ Unit} (hm : Pres I m) :
    Pres I (ignoreErr m) := by
  intro x hx
  have h1 := hm x hx
  unfold Mdf.ignoreErr
  split
  · next x1 e => rw [e] at h1; exact h1
  · exact h1

theorem Pres_panicNow {σ α : Type} {I : PState σ → Prop} : Pres I (panicNow : PM σ α) :=
  fun _ h => h

theorem Pres_fuelOutNow {σ α : Type} {I : PState σ → Prop} : Pres I (fuelOutNow : PM σ α) :=
  fun _ h => h

theorem Pres_ite {σ α : Type} {I : PState σ → Prop} {c : Prop} [Decidable c] {t e : PM σ α}
    (ht : Pres I t) (he : Pres I e) : Pres I (if c then t else e) := by
  split
  · exact ht
  · exact he

theorem Pres_cut {P Q : Prop} (h1 : P) (h2 : P → Q) : Q := h2 h1

theorem Pres_forM {σ α : Type} {I : PState σ → Prop} {f : α → PM σ Unit}
    (hf : ∀ a, Pres I (f a)) : ∀ l : List α, Pres I (l.forM f)
  | [] => Pres_pure _
  | a :: l => by
    show Pres I (f a >>= fun _ => l.forM f)
    exact Pres_bind (hf a) (fun _ => Pres_forM hf l)

/-! ### The order of link tokens -/

theorem tokensOf_append (xs ys : List Event) :
    tokensOf (xs ++ ys) = tokensOf xs ++ tokensOf ys := by
  simp [tokensOf]

theorem linkOrder_append (osc8 : Bool) (xs ys : List StreamToken) (b : Bool) :
    linkOrder osc8 (xs ++ ys) b = (linkOrder osc8 xs b).bind (linkOrder osc8 ys) := by
  induction xs generalizing b with
  | nil => simp [linkOrder]
  | cons t rest ih =>
    simp only [List.cons_append, linkOrder]
    split_ifs <;> simp [ih]

theorem LinkInv.write {osc8 b : Bool} {tok : StreamToken} (ht : plainTok tok) :
    ∀ x, LinkInv osc8 b x →
      LinkInv osc8 b { x with st := (captureStream.WriteToken x.st tok).1 } := by
  intro x ⟨h1, h2⟩
  refine ⟨h1, ?_⟩
  show linkOrder osc8 (tokensOf (x.st ++ [Event.token tok])) false = some b
  rw [tokensOf_append, linkOrder_append, h2]
  simp [tokensOf, linkOrder, ht.1, ht.2.1, ht.2.2]

theorem LinkInv.indent {osc8 b : Bool} {ind : List Nat} :
    ∀ x, LinkInv osc8 b x →
      LinkInv osc8 b { x with st := captureStream.SetWrapIndent x.st ind } := by
  intro x ⟨h1, h2⟩
  refine ⟨h1, ?_⟩
  show linkOrder osc8 (tokensOf (x.st ++ [Event.wrapIndent ind])) false = some b
  rw [tokensOf_append, linkOrder_append, h2]
  simp [tokensOf, linkOrder]

theorem LinkInv.p {osc8 b : Bool} {g : liveParser → liveParser}
    (hg : ∀ p, (g p).osc8 = p.osc8) :
    ∀ x : PState (List Event), LinkInv osc8 b x → LinkInv osc8 b { x with p := g x.p } :=
  fun x h => ⟨(hg x.p).trans h.1, h.2⟩

theorem textTok_plain (text : List Nat) (style : Style) (kind : tokenKind)
    (hk : kind ≠ tokenLinkStart ∧ kind ≠ tokenLinkEnd) : plainTok (textTok text style kind) :=
  ⟨hk.1, hk.2, rfl⟩

theorem kind_text : tokenText ≠ tokenLinkStart ∧ tokenText ≠ tokenLinkEnd := by decide

theorem kind_code : tokenCode ≠ tokenLinkStart ∧ tokenCode ≠ tokenLinkEnd := by decide

theorem kind_url : tokenURL ≠ tokenLinkStart ∧ tokenURL ≠ tokenLinkEnd := by decide

theorem kind_rule :
    tokenThematicBreak ≠ tokenLinkStart ∧ tokenThematicBreak ≠ tokenLinkEnd := by
  decide

theorem plainTok_mk (text : List Nat) (style : Style) (kind : tokenKind) (cb : Bool) (delay : Int)
    (hk : kind ≠ tokenLinkStart ∧ kind ≠ tokenLinkEnd) :
    plainTok { Text := text, Style := style, Kind := kind, LinkURL := [], CodeBlock := cb,
               Delay := delay } :=
  ⟨hk.1, hk.2, rfl⟩

theorem inlineStyle_kind (p : liveParser) :
    p.inlineStyle.2 ≠ tokenLinkStart ∧ p.inlineStyle.2 ≠ tokenLinkEnd := by
  unfold liveParser.inlineStyle
  simp only []
  split_ifs <;> simp

theorem plainTok_inline (p : liveParser) (text : List Nat) :
    plainTok (textTok text p.inlineStyle.1 p.inlineStyle.2) :=
  ⟨(inlineStyle_kind p).1, (inlineStyle_kind p).2, rfl⟩

theorem flushPendingDelims_osc8 (p : liveParser) : p.flushPendingDelims.osc8 = p.osc8 := by
  rw [flushPendingDelims_shape]

theorem resetLine_osc8 (p : liveParser) : p.resetLine.osc8 = p.osc8 := rfl

theorem clearListIfOutdented_osc8 (p : liveParser) (n : Nat) :
    (p.clearListIfOutdented n).osc8 = p.osc8 := by
  unfold liveParser.clearListIfOutdented
  split_ifs <;> rfl

theorem setTop_osc8 (p : liveParser) (s : listState) : (p.setTop s).osc8 = p.osc8 := by
  unfold liveParser.setTop
  rfl

theorem popList_osc8 (p : liveParser) : p.popList.osc8 = p.osc8 := by
  unfold liveParser.popList
  simp only []
  split_ifs <;> rfl

theorem popDeeper_osc8 (fuel : Nat) : ∀ (p : liveParser) (indent : Nat),
    (liveParser.popDeeper fuel p indent).osc8 = p.osc8 := by
  induction fuel with
  | zero => intro p indent; rfl
  | succ n ih =>
    intro p indent
    unfold liveParser.popDeeper
    split_ifs
    · rw [ih, popList_osc8]
    · rfl

theorem updateList_osc8 (p : liveParser) (indent : Nat) (ordered : Bool) (marker : Nat)
    (start : Int) (markerLen padding : Nat) :
    (p.updateList indent ordered marker start markerLen padding).1.osc8 = p.osc8 := by
  unfold liveParser.updateList
  simp only []
  split_ifs <;> first
    | exact popDeeper_osc8 _ _ _
    | exact (popList_osc8 _).trans (popDeeper_osc8 _ _ _)

theorem LinkInv.const {osc8 b : Bool} {q : liveParser} (hq : q.osc8 = osc8) :
    ∀ x : PState (List Event), LinkInv osc8 b x → LinkInv osc8 b { x with p := q } :=
  fun _ h => ⟨hq, h.2⟩
/-! ### The parser writes link tokens in order -/

theorem applyPendingBreak_link (osc8 : Bool) (b : Bool) (mode : breakMode) :
    Pres (LinkInv osc8 b) (applyPendingBreak captureStream mode) := by
  unfold applyPendingBreak
  repeat (first
    | with_reducible exact Pres_pure _
    | with_reducible exact Pres_getP
    | with_reducible assumption
    | with_reducible refine Pres_bind ?_ (fun _ => ?_)
    | ((with_reducible refine Pres_modifyP ?_); exact LinkInv.p (fun _ => rfl))
    | ((with_reducible refine Pres_modifyInline ?_); exact LinkInv.p (fun _ => rfl))
    | ((with_reducible refine Pres_writeToken ?_); refine LinkInv.write ?_;
       (first | exact textTok_plain _ _ _ kind_text | exact plainTok_inline _ _
              | exact textTok_plain _ _ _ kind_code | exact textTok_plain _ _ _ kind_url
              | exact plainTok_mk _ _ _ _ _ kind_code | exact plainTok_mk _ _ _ _ _ kind_text
              | exact plainTok_mk _ _ _ _ _ kind_rule))
    | ((with_reducible refine Pres_writeTokenIgnore ?_); refine LinkInv.write ?_;
       (first | exact textTok_plain _ _ _ kind_text | exact plainTok_inline _ _
              | exact textTok_plain _ _ _ kind_code | exact textTok_plain _ _ _ kind_url
              | exact plainTok_mk _ _ _ _ _ kind_code | exact plainTok_mk _ _ _ _ _ kind_text
              | exact plainTok_mk _ _ _ _ _ kind_rule))
    | ((with_reducible refine Pres_setWrapIndent ?_); exact LinkInv.indent)
    | ((with_reducible refine Pres_modifyP ?_); exact LinkInv.p flushPendingDelims_osc8)
    | ((with_reducible refine Pres_modifyP ?_);
       exact LinkInv.p (fun p => clearListIfOutdented_osc8 p _))
    | with_reducible exact Pres_panicNow
    | with_reducible exact Pres_fuelOutNow
    | with_reducible refine Pres_ignoreErr ?_
    | ((fail_if_success (with_reducible refine Pres_ite ?_ ?_)); (try subst_vars); split)
    | (with_reducible generalize hK : (fun y : Unit => (_ : PM (List Event) Unit)) = jp;
       fail_if_success (clear hK jp);
       refine Pres_cut (P := Pres (LinkInv osc8 b) (jp ())) ?_ (fun hjp => ?_);
       on_goal 2 => (have hjp0 := hjp; rw [← hK] at hjp0; beta_reduce at hjp0);
       subst hK; beta_reduce)
    | ((with_reducible (conv => (arg 2; whnf)));
       with_reducible generalize hK : (fun y : Unit => (_ : PM (List Event) Unit)) = jp;
       fail_if_success (clear hK jp);
       refine Pres_cut (P := Pres (LinkInv osc8 b) (jp ())) ?_ (fun hjp => ?_);
       on_goal 2 => (have hjp0 := hjp; rw [← hK] at hjp0; beta_reduce at hjp0);
       subst hK; beta_reduce)
    | with_reducible refine Pres_ite ?_ ?_
    | split)

theorem emitQuotePrefix_link (osc8 : Bool) (b : Bool) (n : Nat) :
    Pres (LinkInv osc8 b) (emitQuotePrefix captureStream n) := by
  induction n with
  | zero => exact Pres_pure _
  | succ n ih =>
    unfold emitQuotePrefix
    repeat (first
      | exact ih
      | with_reducible exact Pres_pure _
      | with_reducible exact Pres_getP
      | with_reducible assumption
      | with_reducible refine Pres_bind ?_ (fun _ => ?_)
      | ((with_reducible refine Pres_modifyP ?_); exact LinkInv.p (fun _ => rfl))
      | ((with_reducible refine Pres_modifyInline ?_); exact LinkInv.p (fun _ => rfl))
      | ((with_reducible refine Pres_writeToken ?_); refine LinkInv.write ?_;
         (first | exact textTok_plain _ _ _ kind_text | exact plainTok_inline _ _
                | exact textTok_plain _ _ _ kind_code | exact textTok_plain _ _ _ kind_url
                | exact plainTok_mk _ _ _ _ _ kind_code | exact plainTok_mk _ _ _ _ _ kind_text
                | exact plainTok_mk _ _ _ _ _ kind_rule))
      | ((with_reducible refine Pres_writeTokenIgnore ?_); refine LinkInv.write ?_;
         (first | exact textTok_plain _ _ _ kind_text | exact plainTok_inline _ _
                | exact textTok_plain _ _ _ kind_code | exact textTok_plain _ _ _ kind_url
                | exact plainTok_mk _ _ _ _ _ kind_code | exact plainTok_mk _ _ _ _ _ kind_text
                | exact plainTok_mk _ _ _ _ _ kind_rule))
      | ((with_reducible refine Pres_setWrapIndent ?_); exact LinkInv.indent)
      | ((with_reducible refine Pres_modifyP ?_); exact LinkInv.p flushPendingDelims_osc8)
      | ((with_reducible refine Pres_modifyP ?_);
         exact LinkInv.p (fun p => clearListIfOutdented_osc8 p _))
      | with_reducible exact Pres_panicNow
      | with_reducible exact Pres_fuelOutNow
      | with_reducible refine Pres_ignoreErr ?_
      | ((fail_if_success (with_reducible refine Pres_ite ?_ ?_)); (try subst_vars); split)
      | (with_reducible generalize hK : (fun y : Unit => (_ : PM (List Event) Unit)) = jp;
         fail_if_success (clear hK jp);
         refine Pres_cut (P := Pres (LinkInv osc8 b) (jp ())) ?_ (fun hjp => ?_);
         on_goal 2 => (have hjp0 := hjp; rw [← hK] at hjp0; beta_reduce at hjp0);
         subst hK; beta_reduce)
      | ((with_reducible (conv => (arg 2; whnf)));
         with_reducible generalize hK : (fun y : Unit => (_ : PM (List Event) Unit)) = jp;
         fail_if_success (clear hK jp);
         refine Pres_cut (P := Pres (LinkInv osc8 b) (jp ())) ?_ (fun hjp => ?_);
         on_goal 2 => (have hjp0 := hjp; rw [← hK] at hjp0; beta_reduce at hjp0);
         subst hK; beta_reduce)
      | with_reducible refine Pres_ite ?_ ?_
      | split)

theorem emitQuotePrefixBare_link (osc8 : Bool) (b : Bool) (n : Nat) :
    Pres (LinkInv osc8 b) (emitQuotePrefixBare captureStream n) := by
  induction n with
  | zero => exact Pres_pure _
  | succ n ih =>
    unfold emitQuotePrefixBare
    repeat (first
      | exact ih
      | with_reducible exact Pres_pure _
      | with_reducible exact Pres_getP
      | with_reducible assumption
      | with_reducible refine Pres_bind ?_ (fun _ => ?_)
      | ((with_reducible refine Pres_modifyP ?_); exact LinkInv.p (fun _ => rfl))
      | ((with_reducible refine Pres_modifyInline ?_); exact LinkInv.p (fun _ => rfl))
      | ((with_reducible refine Pres_writeToken ?_); refine LinkInv.write ?_;
         (first | exact textTok_plain _ _ _ kind_text | exact plainTok_inline _ _
                | exact textTok_plain _ _ _ kind_code | exact textTok_plain _ _ _ kind_url
                | exact plainTok_mk _ _ _ _ _ kind_code | exact plainTok_mk _ _ _ _ _ kind_text
                | exact plainTok_mk _ _ _ _ _ kind_rule))
      | ((with_reducible refine Pres_writeTokenIgnore ?_); refine LinkInv.write ?_;
         (first | exact textTok_plain _ _ _ kind_text | exact plainTok_inline _ _
                | exact textTok_plain _ _ _ kind_code | exact textTok_plain _ _ _ kind_url
                | exact plainTok_mk _ _ _ _ _ kind_code | exact plainTok_mk _ _ _ _ _ kind_text
                | exact plainTok_mk _ _ _ _ _ kind_rule))
      | ((with_reducible refine Pres_setWrapIndent ?_); exact LinkInv.indent)
      | ((with_reducible refine Pres_modifyP ?_); exact LinkInv.p flushPendingDelims_osc8)
      | ((with_reducible refine Pres_modifyP ?_);
         exact LinkInv.p (fun p => clearListIfOutdented_osc8 p _))
      | with_reducible exact Pres_panicNow
      | with_reducible exact Pres_fuelOutNow
      | with_reducible refine Pres_ignoreErr ?_
      | ((fail_if_success (with_reducible refine Pres_ite ?_ ?_)); (try subst_vars); split)
      | (with_reducible generalize hK : (fun y : Unit => (_ : PM (List Event) Unit)) = jp;
         fail_if_success (clear hK jp);
         refine Pres_cut (P := Pres (LinkInv osc8 b) (jp ())) ?_ (fun hjp => ?_);
         on_goal 2 => (have hjp0 := hjp; rw [← hK] at hjp0; beta_reduce at hjp0);
         subst hK; beta_reduce)
      | ((with_reducible (conv => (arg 2; whnf)));
         with_reducible generalize hK : (fun y : Unit => (_ : PM (List Event) Unit)) = jp;
         fail_if_success (clear hK jp);
         refine Pres_cut (P := Pres (LinkInv osc8 b) (jp ())) ?_ (fun hjp => ?_);
         on_goal 2 => (have hjp0 := hjp; rw [← hK] at hjp0; beta_reduce at hjp0);
         subst hK; beta_reduce)
      | with_reducible refine Pres_ite ?_ ?_
      | split)

theorem emitListPrefix_link (osc8 : Bool) (b : Bool) (listPrefixLen : Nat) :
    Pres (LinkInv osc8 b) (emitListPrefix captureStream listPrefixLen) := by
  unfold emitListPrefix
  repeat (first
    | with_reducible exact Pres_pure _
    | with_reducible exact Pres_getP
    | with_reducible assumption
    | with_reducible refine Pres_bind ?_ (fun _ => ?_)
    | ((with_reducible refine Pres_modifyP ?_); exact LinkInv.p (fun _ => rfl))
    | ((with_reducible refine Pres_modifyInline ?_); exact LinkInv.p (fun _ => rfl))
    | ((with_reducible refine Pres_writeToken ?_); refine LinkInv.write ?_;
       (first | exact textTok_plain _ _ _ kind_text | exact plainTok_inline _ _
              | exact textTok_plain _ _ _ kind_code | exact textTok_plain _ _ _ kind_url
              | exact plainTok_mk _ _ _ _ _ kind_code | exact plainTok_mk _ _ _ _ _ kind_text
              | exact plainTok_mk _ _ _ _ _ kind_rule))
    | ((with_reducible refine Pres_writeTokenIgnore ?_); refine LinkInv.write ?_;
       (first | exact textTok_plain _ _ _ kind_text | exact plainTok_inline _ _
              | exact textTok_plain _ _ _ kind_code | exact textTok_plain _ _ _ kind_url
              | exact plainTok_mk _ _ _ _ _ kind_code | exact plainTok_mk _ _ _ _ _ kind_text
              | exact plainTok_mk _ _ _ _ _ kind_rule))
    | ((with_reducible refine Pres_setWrapIndent ?_); exact LinkInv.indent)
    | ((with_reducible refine Pres_modifyP ?_); exact LinkInv.p flushPendingDelims_osc8)
    | ((with_reducible refine Pres_modifyP ?_);
       exact LinkInv.p (fun p => clearListIfOutdented_osc8 p _))
    | with_reducible exact Pres_panicNow
    | with_reducible exact Pres_fuelOutNow
    | with_reducible refine Pres_ignoreErr ?_
    | ((fail_if_success (with_reducible refine Pres_ite ?_ ?_)); (try subst_vars); split)
    | (with_reducible generalize hK : (fun y : Unit => (_ : PM (List Event) Unit)) = jp;
       fail_if_success (clear hK jp);
       refine Pres_cut (P := Pres (LinkInv osc8 b) (jp ())) ?_ (fun hjp => ?_);
       on_goal 2 => (have hjp0 := hjp; rw [← hK] at hjp0; beta_reduce at hjp0);
       subst hK; beta_reduce)
    | ((with_reducible (conv => (arg 2; whnf)));
       with_reducible generalize hK : (fun y : Unit => (_ : PM (List Event) Unit)) = jp;
       fail_if_success (clear hK jp);
       refine Pres_cut (P := Pres (LinkInv osc8 b) (jp ())) ?_ (fun hjp => ?_);
       on_goal 2 => (have hjp0 := hjp; rw [← hK] at hjp0; beta_reduce at hjp0);
       subst hK; beta_reduce)
    | with_reducible refine Pres_ite ?_ ?_
    | split)

theorem emitPrefix_link (osc8 : Bool) (b : Bool) (quoteDepth listPrefixLen : Nat) :
    Pres (LinkInv osc8 b) (emitPrefix captureStream quoteDepth listPrefixLen) := by
  unfold emitPrefix
  repeat (first
    | with_reducible exact Pres_pure _
    | with_reducible exact Pres_getP
    | with_reducible assumption
    | with_reducible refine Pres_bind ?_ (fun _ => ?_)
    | ((with_reducible refine Pres_modifyP ?_); exact LinkInv.p (fun _ => rfl))
    | ((with_reducible refine Pres_modifyInline ?_); exact LinkInv.p (fun _ => rfl))
    | ((with_reducible refine Pres_writeToken ?_); refine LinkInv.write ?_;
       (first | exact textTok_plain _ _ _ kind_text | exact plainTok_inline _ _
              | exact textTok_plain _ _ _ kind_code | exact textTok_plain _ _ _ kind_url
              | exact plainTok_mk _ _ _ _ _ kind_code | exact plainTok_mk _ _ _ _ _ kind_text
              | exact plainTok_mk _ _ _ _ _ kind_rule))
    | ((with_reducible refine Pres_writeTokenIgnore ?_); refine LinkInv.write ?_;
       (first | exact textTok_plain _ _ _ kind_text | exact plainTok_inline _ _
              | exact textTok_plain _ _ _ kind_code | exact textTok_plain _ _ _ kind_url
              | exact plainTok_mk _ _ _ _ _ kind_code | exact plainTok_mk _ _ _ _ _ kind_text
              | exact plainTok_mk _ _ _ _ _ kind_rule))
    | ((with_reducible refine Pres_setWrapIndent ?_); exact LinkInv.indent)
    | ((with_reducible refine Pres_modifyP ?_); exact LinkInv.p flushPendingDelims_osc8)
    | ((with_reducible refine Pres_modifyP ?_);
       exact LinkInv.p (fun p => clearListIfOutdented_osc8 p _))
    | with_reducible exact Pres_panicNow
    | with_reducible exact Pres_fuelOutNow
    | with_reducible apply emitQuotePrefix_link
    | with_reducible apply emitListPrefix_link
    | with_reducible refine Pres_ignoreErr ?_
    | ((fail_if_success (with_reducible refine Pres_ite ?_ ?_)); (try subst_vars); split)
    | (with_reducible generalize hK : (fun y : Unit => (_ : PM (List Event) Unit)) = jp;
       fail_if_success (clear hK jp);
       refine Pres_cut (P := Pres (LinkInv osc8 b) (jp ())) ?_ (fun hjp => ?_);
       on_goal 2 => (have hjp0 := hjp; rw [← hK] at hjp0; beta_reduce at hjp0);
       subst hK; beta_reduce)
    | ((with_reducible (conv => (arg 2; whnf)));
       with_reducible generalize hK : (fun y : Unit => (_ : PM (List Event) Unit)) = jp;
       fail_if_success (clear hK jp);
       refine Pres_cut (P := Pres (LinkInv osc8 b) (jp ())) ?_ (fun hjp => ?_);
       on_goal 2 => (have hjp0 := hjp; rw [← hK] at hjp0; beta_reduce at hjp0);
       subst hK; beta_reduce)
    | with_reducible refine Pres_ite ?_ ?_
    | split)

theorem writeRunes_link (osc8 : Bool) (b : Bool) (style : Style) (kind : tokenKind)
    (hk : kind ≠ tokenLinkStart ∧ kind ≠ tokenLinkEnd) (rs : List Nat) :
    Pres (LinkInv osc8 b) (writeRunes captureStream style kind rs) := by
  induction rs with
  | nil => exact Pres_pure _
  | cons r rest ih =>
    unfold writeRunes
    refine Pres_bind ?_ (fun _ => ih)
    refine Pres_writeToken ?_
    exact LinkInv.write ⟨hk.1, hk.2, rfl⟩

theorem emitStyledTextWithNBSP_link (osc8 : Bool) (b : Bool) (style : Style)
    (kind : tokenKind) (hk : kind ≠ tokenLinkStart ∧ kind ≠ tokenLinkEnd) (fuel : Nat) :
    ∀ text : List Nat,
      Pres (LinkInv osc8 b) (emitStyledTextWithNBSP captureStream style kind fuel text) := by
  induction fuel with
  | zero => intro text; exact Pres_pure _
  | succ n ih =>
    intro text
    unfold emitStyledTextWithNBSP
    repeat (first
      | exact ih _
      | (refine Pres_writeToken ?_; exact LinkInv.write ⟨hk.1, hk.2, rfl⟩)
      | with_reducible exact Pres_pure _
      | with_reducible exact Pres_getP
      | with_reducible assumption
      | with_reducible refine Pres_bind ?_ (fun _ => ?_)
      | ((with_reducible refine Pres_modifyP ?_); exact LinkInv.p (fun _ => rfl))
      | ((with_reducible refine Pres_modifyInline ?_); exact LinkInv.p (fun _ => rfl))
      | ((with_reducible refine Pres_writeToken ?_); refine LinkInv.write ?_;
         (first | exact textTok_plain _ _ _ kind_text | exact plainTok_inline _ _
                | exact textTok_plain _ _ _ kind_code | exact textTok_plain _ _ _ kind_url
                | exact plainTok_mk _ _ _ _ _ kind_code | exact plainTok_mk _ _ _ _ _ kind_text
                | exact plainTok_mk _ _ _ _ _ kind_rule))
      | ((with_reducible refine Pres_writeTokenIgnore ?_); refine LinkInv.write ?_;
         (first | exact textTok_plain _ _ _ kind_text | exact plainTok_inline _ _
                | exact textTok_plain _ _ _ kind_code | exact textTok_plain _ _ _ kind_url
                | exact plainTok_mk _ _ _ _ _ kind_code | exact plainTok_mk _ _ _ _ _ kind_text
                | exact plainTok_mk _ _ _ _ _ kind_rule))
      | ((with_reducible refine Pres_setWrapIndent ?_); exact LinkInv.indent)
      | ((with_reducible refine Pres_modifyP ?_); exact LinkInv.p flushPendingDelims_osc8)
      | ((with_reducible refine Pres_modifyP ?_);
         exact LinkInv.p (fun p => clearListIfOutdented_osc8 p _))
      | with_reducible exact Pres_panicNow
      | with_reducible exact Pres_fuelOutNow
      | with_reducible refine Pres_ignoreErr ?_
      | ((fail_if_success (with_reducible refine Pres_ite ?_ ?_)); (try subst_vars); split)
      | (with_reducible generalize hK : (fun y : Unit => (_ : PM (List Event) Unit)) = jp;
         fail_if_success (clear hK jp);
         refine Pres_cut (P := Pres (LinkInv osc8 b) (jp ())) ?_ (fun hjp => ?_);
         on_goal 2 => (have hjp0 := hjp; rw [← hK] at hjp0; beta_reduce at hjp0);
         subst hK; beta_reduce)
      | ((with_reducible (conv => (arg 2; whnf)));
         with_reducible generalize hK : (fun y : Unit => (_ : PM (List Event) Unit)) = jp;
         fail_if_success (clear hK jp);
         refine Pres_cut (P := Pres (LinkInv osc8 b) (jp ())) ?_ (fun hjp => ?_);
         on_goal 2 => (have hjp0 := hjp; rw [← hK] at hjp0; beta_reduce at hjp0);
         subst hK; beta_reduce)
      | with_reducible refine Pres_ite ?_ ?_
      | split)

theorem emitStyledText_link (osc8 : Bool) (b : Bool) (text : List Nat) :
    Pres (LinkInv osc8 b) (emitStyledText captureStream text) := by
  unfold emitStyledText
  repeat (first
    | exact writeRunes_link osc8 b _ _ (inlineStyle_kind _) _
    | exact emitStyledTextWithNBSP_link osc8 b _ _ (inlineStyle_kind _) _ _
    | with_reducible exact Pres_pure _
    | with_reducible exact Pres_getP
    | with_reducible assumption
    | with_reducible refine Pres_bind ?_ (fun _ => ?_)
    | ((with_reducible refine Pres_modifyP ?_); exact LinkInv.p (fun _ => rfl))
    | ((with_reducible refine Pres_modifyInline ?_); exact LinkInv.p (fun _ => rfl))
    | ((with_reducible refine Pres_writeToken ?_); refine LinkInv.write ?_;
       (first | exact textTok_plain _ _ _ kind_text | exact plainTok_inline _ _
              | exact textTok_plain _ _ _ kind_code | exact textTok_plain _ _ _ kind_url
              | exact plainTok_mk _ _ _ _ _ kind_code | exact plainTok_mk _ _ _ _ _ kind_text
              | exact plainTok_mk _ _ _ _ _ kind_rule))
    | ((with_reducible refine Pres_writeTokenIgnore ?_); refine LinkInv.write ?_;
       (first | exact textTok_plain _ _ _ kind_text | exact plainTok_inline _ _
              | exact textTok_plain _ _ _ kind_code | exact textTok_plain _ _ _ kind_url
              | exact plainTok_mk _ _ _ _ _ kind_code | exact plainTok_mk _ _ _ _ _ kind_text
              | exact plainTok_mk _ _ _ _ _ kind_rule))
    | ((with_reducible refine Pres_setWrapIndent ?_); exact LinkInv.indent)
    | ((with_reducible refine Pres_modifyP ?_); exact LinkInv.p flushPendingDelims_osc8)
    | ((with_reducible refine Pres_modifyP ?_);
       exact LinkInv.p (fun p => clearListIfOutdented_osc8 p _))
    | with_reducible exact Pres_panicNow
    | with_reducible exact Pres_fuelOutNow
    | with_reducible refine Pres_ignoreErr ?_
    | ((fail_if_success (with_reducible refine Pres_ite ?_ ?_)); (try subst_vars); split)
    | (with_reducible generalize hK : (fun y : Unit => (_ : PM (List Event) Unit)) = jp;
       fail_if_success (clear hK jp);
       refine Pres_cut (P := Pres (LinkInv osc8 b) (jp ())) ?_ (fun hjp => ?_);
       on_goal 2 => (have hjp0 := hjp; rw [← hK] at hjp0; beta_reduce at hjp0);
       subst hK; beta_reduce)
    | ((with_reducible (conv => (arg 2; whnf)));
       with_reducible generalize hK : (fun y : Unit => (_ : PM (List Event) Unit)) = jp;
       fail_if_success (clear hK jp);
       refine Pres_cut (P := Pres (LinkInv osc8 b) (jp ())) ?_ (fun hjp => ?_);
       on_goal 2 => (have hjp0 := hjp; rw [← hK] at hjp0; beta_reduce at hjp0);
       subst hK; beta_reduce)
    | with_reducible refine Pres_ite ?_ ?_
    | split)

theorem emitInlineBackticks_link (osc8 : Bool) (b : Bool) (count : Nat) :
    Pres (LinkInv osc8 b) (emitInlineBackticks captureStream count) := by
  unfold emitInlineBackticks
  repeat (first
    | with_reducible exact Pres_pure _
    | with_reducible exact Pres_getP
    | with_reducible assumption
    | with_reducible refine Pres_bind ?_ (fun _ => ?_)
    | ((with_reducible refine Pres_modifyP ?_); exact LinkInv.p (fun _ => rfl))
    | ((with_reducible refine Pres_modifyInline ?_); exact LinkInv.p (fun _ => rfl))
    | ((with_reducible refine Pres_writeToken ?_); refine LinkInv.write ?_;
       (first | exact textTok_plain _ _ _ kind_text | exact plainTok_inline _ _
              | exact textTok_plain _ _ _ kind_code | exact textTok_plain _ _ _ kind_url
              | exact plainTok_mk _ _ _ _ _ kind_code | exact plainTok_mk _ _ _ _ _ kind_text
              | exact plainTok_mk _ _ _ _ _ kind_rule))
    | ((with_reducible refine Pres_writeTokenIgnore ?_); refine LinkInv.write ?_;
       (first | exact textTok_plain _ _ _ kind_text | exact plainTok_inline _ _
              | exact textTok_plain _ _ _ kind_code | exact textTok_plain _ _ _ kind_url
              | exact plainTok_mk _ _ _ _ _ kind_code | exact plainTok_mk _ _ _ _ _ kind_text
              | exact plainTok_mk _ _ _ _ _ kind_rule))
    | ((with_reducible refine Pres_setWrapIndent ?_); exact LinkInv.indent)
    | ((with_reducible refine Pres_modifyP ?_); exact LinkInv.p flushPendingDelims_osc8)
    | ((with_reducible refine Pres_modifyP ?_);
       exact LinkInv.p (fun p => clearListIfOutdented_osc8 p _))
    | with_reducible exact Pres_panicNow
    | with_reducible exact Pres_fuelOutNow
    | with_reducible refine Pres_ignoreErr ?_
    | ((fail_if_success (with_reducible refine Pres_ite ?_ ?_)); (try subst_vars); split)
    | (with_reducible generalize hK : (fun y : Unit => (_ : PM (List Event) Unit)) = jp;
       fail_if_success (clear hK jp);
       refine Pres_cut (P := Pres (LinkInv osc8 b) (jp ())) ?_ (fun hjp => ?_);
       on_goal 2 => (have hjp0 := hjp; rw [← hK] at hjp0; beta_reduce at hjp0);
       subst hK; beta_reduce)
    | ((with_reducible (conv => (arg 2; whnf)));
       with_reducible generalize hK : (fun y : Unit => (_ : PM (List Event) Unit)) = jp;
       fail_if_success (clear hK jp);
       refine Pres_cut (P := Pres (LinkInv osc8 b) (jp ())) ?_ (fun hjp => ?_);
       on_goal 2 => (have hjp0 := hjp; rw [← hK] at hjp0; beta_reduce at hjp0);
       subst hK; beta_reduce)
    | with_reducible refine Pres_ite ?_ ?_
    | split)

theorem emitLinkTextLoop_link (osc8 : Bool) (b : Bool) (baseLine outerEmph : Style)
    (rs : List Nat) :
    ∀ state : linkInlineState,
      Pres (LinkInv osc8 b) (emitLinkTextLoop captureStream baseLine outerEmph rs state) := by
  induction rs with
  | nil => intro state; exact Pres_pure _
  | cons r rest ih =>
    intro state
    unfold emitLinkTextLoop
    repeat (first
      | exact ih _
      | with_reducible exact Pres_pure _
      | with_reducible exact Pres_getP
      | with_reducible assumption
      | with_reducible refine Pres_bind ?_ (fun _ => ?_)
      | ((with_reducible refine Pres_modifyP ?_); exact LinkInv.p (fun _ => rfl))
      | ((with_reducible refine Pres_modifyInline ?_); exact LinkInv.p (fun _ => rfl))
      | ((with_reducible refine Pres_writeToken ?_); refine LinkInv.write ?_;
         (first | exact textTok_plain _ _ _ kind_text | exact plainTok_inline _ _
                | exact textTok_plain _ _ _ kind_code | exact textTok_plain _ _ _ kind_url
                | exact plainTok_mk _ _ _ _ _ kind_code | exact plainTok_mk _ _ _ _ _ kind_text
                | exact plainTok_mk _ _ _ _ _ kind_rule))
      | ((with_reducible refine Pres_writeTokenIgnore ?_); refine LinkInv.write ?_;
         (first | exact textTok_plain _ _ _ kind_text | exact plainTok_inline _ _
                | exact textTok_plain _ _ _ kind_code | exact textTok_plain _ _ _ kind_url
                | exact plainTok_mk _ _ _ _ _ kind_code | exact plainTok_mk _ _ _ _ _ kind_text
                | exact plainTok_mk _ _ _ _ _ kind_rule))
      | ((with_reducible refine Pres_setWrapIndent ?_); exact LinkInv.indent)
      | ((with_reducible refine Pres_modifyP ?_); exact LinkInv.p flushPendingDelims_osc8)
      | ((with_reducible refine Pres_modifyP ?_);
         exact LinkInv.p (fun p => clearListIfOutdented_osc8 p _))
      | with_reducible exact Pres_panicNow
      | with_reducible exact Pres_fuelOutNow
      | with_reducible refine Pres_ignoreErr ?_
      | ((fail_if_success (with_reducible refine Pres_ite ?_ ?_)); (try subst_vars); split)
      | (with_reducible generalize hK : (fun y : Unit => (_ : PM (List Event) Unit)) = jp;
         fail_if_success (clear hK jp);
         refine Pres_cut (P := Pres (LinkInv osc8 b) (jp ())) ?_ (fun hjp => ?_);
         on_goal 2 => (have hjp0 := hjp; rw [← hK] at hjp0; beta_reduce at hjp0);
         subst hK; beta_reduce)
      | ((with_reducible (conv => (arg 2; whnf)));
         with_reducible generalize hK : (fun y : Unit => (_ : PM (List Event) Unit)) = jp;
         fail_if_success (clear hK jp);
         refine Pres_cut (P := Pres (LinkInv osc8 b) (jp ())) ?_ (fun hjp => ?_);
         on_goal 2 => (have hjp0 := hjp; rw [← hK] at hjp0; beta_reduce at hjp0);
         subst hK; beta_reduce)
      | with_reducible refine Pres_ite ?_ ?_
      | split)

theorem emitLinkText_link (osc8 : Bool) (b : Bool) (text : List Nat) :
    Pres (LinkInv osc8 b) (emitLinkText captureStream text) := by
  unfold emitLinkText
  repeat (first
    | with_reducible exact Pres_pure _
    | with_reducible exact Pres_getP
    | with_reducible assumption
    | with_reducible refine Pres_bind ?_ (fun _ => ?_)
    | ((with_reducible refine Pres_modifyP ?_); exact LinkInv.p (fun _ => rfl))
    | ((with_reducible refine Pres_modifyInline ?_); exact LinkInv.p (fun _ => rfl))
    | ((with_reducible refine Pres_writeToken ?_); refine LinkInv.write ?_;
       (first | exact textTok_plain _ _ _ kind_text | exact plainTok_inline _ _
              | exact textTok_plain _ _ _ kind_code | exact textTok_plain _ _ _ kind_url
              | exact plainTok_mk _ _ _ _ _ kind_code | exact plainTok_mk _ _ _ _ _ kind_text
              | exact plainTok_mk _ _ _ _ _ kind_rule))
    | ((with_reducible refine Pres_writeTokenIgnore ?_); refine LinkInv.write ?_;
       (first | exact textTok_plain _ _ _ kind_text | exact plainTok_inline _ _
              | exact textTok_plain _ _ _ kind_code | exact textTok_plain _ _ _ kind_url
              | exact plainTok_mk _ _ _ _ _ kind_code | exact plainTok_mk _ _ _ _ _ kind_text
              | exact plainTok_mk _ _ _ _ _ kind_rule))
    | ((with_reducible refine Pres_setWrapIndent ?_); exact LinkInv.indent)
    | ((with_reducible refine Pres_modifyP ?_); exact LinkInv.p flushPendingDelims_osc8)
    | ((with_reducible refine Pres_modifyP ?_);
       exact LinkInv.p (fun p => clearListIfOutdented_osc8 p _))
    | with_reducible exact Pres_panicNow
    | with_reducible exact Pres_fuelOutNow
    | with_reducible apply emitLinkTextLoop_link
    | with_reducible refine Pres_ignoreErr ?_
    | ((fail_if_success (with_reducible refine Pres_ite ?_ ?_)); (try subst_vars); split)
    | (with_reducible generalize hK : (fun y : Unit => (_ : PM (List Event) Unit)) = jp;
       fail_if_success (clear hK jp);
       refine Pres_cut (P := Pres (LinkInv osc8 b) (jp ())) ?_ (fun hjp => ?_);
       on_goal 2 => (have hjp0 := hjp; rw [← hK] at hjp0; beta_reduce at hjp0);
       subst hK; beta_reduce)
    | ((with_reducible (conv => (arg 2; whnf)));
       with_reducible generalize hK : (fun y : Unit => (_ : PM (List Event) Unit)) = jp;
       fail_if_success (clear hK jp);
       refine Pres_cut (P := Pres (LinkInv osc8 b) (jp ())) ?_ (fun hjp => ?_);
       on_goal 2 => (have hjp0 := hjp; rw [← hK] at hjp0; beta_reduce at hjp0);
       subst hK; beta_reduce)
    | with_reducible refine Pres_ite ?_ ?_
    | split)
theorem writeToken_capture (tok : StreamToken) (x : PState (List Event)) :
    writeToken captureStream tok x = (Res.ok (), { x with st := x.st ++ [Event.token tok] }) :=
  rfl

theorem writeRunes_ok (style : Style) (kind : tokenKind) (rs : List Nat) :
    ∀ x : PState (List Event), (writeRunes captureStream style kind rs x).1 = Res.ok () := by
  induction rs with
  | nil => intro x; rfl
  | cons r rest ih =>
    intro x
    unfold writeRunes
    show (PM.bind _ _ x).1 = Res.ok ()
    unfold PM.bind
    rw [writeToken_capture]
    exact ih _

theorem emitLinkTextLoop_ok (baseLine outerEmph : Style) (rs : List Nat) :
    ∀ (state : linkInlineState) (x : PState (List Event)),
      (emitLinkTextLoop captureStream baseLine outerEmph rs state x).1 = Res.ok () := by
  induction rs with
  | nil => intro state x; rfl
  | cons r rest ih =>
    intro state x
    unfold emitLinkTextLoop
    by_cases h1 : r = 0x2A ∨ r = 0x5F
    · rw [if_pos h1]
      by_cases h2 : state.pendingDelim = r
      · rw [if_pos h2]
        exact ih _ _
      · rw [if_neg h2]
        exact ih _ _
    · rw [if_neg h1]
      show (PM.bind _ _ x).1 = Res.ok ()
      simp only [PM.bind, getP, PM_bind_eq, writeToken_capture]
      exact ih _ _

theorem emitLinkText_ok (text : List Nat) (x : PState (List Event)) :
    (emitLinkText captureStream text x).1 = Res.ok () := by
  unfold emitLinkText
  show (PM.bind _ _ x).1 = Res.ok ()
  simp only [PM.bind, getP]
  exact emitLinkTextLoop_ok _ _ _ _ _

/-- A link span: the start token, tokens that are no link tokens, the end
token. -/
theorem link_span (osc8 : Bool) (url : List Nat) (hosc : osc8 = true) (hurl : url ≠ [])
    (m : PM (List Event) Unit) (hm : Pres (LinkInv osc8 true) m)
    (hs : ∀ x, (m x).1 = Res.ok ()) :
    Pres (LinkInv osc8 false) (do
      writeToken captureStream { Kind := tokenLinkStart, LinkURL := url }
      m
      writeToken captureStream { Kind := tokenLinkEnd }) := by
  intro x hx
  have h1 : LinkInv osc8 true
      { x with st := x.st ++ [Event.token { Kind := tokenLinkStart, LinkURL := url }] } := by
    refine ⟨hx.1, ?_⟩
    show linkOrder osc8 (tokensOf (x.st ++ _)) false = some true
    rw [tokensOf_append, linkOrder_append, hx.2]
    simp [tokensOf, linkOrder, hosc, hurl]
  have h2 := hm _ h1
  have h3 := hs { x with st := x.st ++ [Event.token { Kind := tokenLinkStart, LinkURL := url }] }
  show LinkInv osc8 false (PM.bind _ _ x).2
  simp only [PM.bind, writeToken_capture, PM_bind_eq]
  revert h2 h3
  generalize m { x with st := x.st ++ [Event.token { Kind := tokenLinkStart, LinkURL := url }] }
    = r
  obtain ⟨res, x2⟩ := r
  intro h2 h3
  simp only at h2 h3
  subst h3
  simp only []
  refine ⟨h2.1, ?_⟩
  show linkOrder osc8 (tokensOf (x2.st ++ _)) false = some false
  rw [tokensOf_append, linkOrder_append, h2.2]
  simp [tokensOf, linkOrder, hosc]

theorem emitAutoLink_link (osc8 : Bool) (text : List Nat) :
    Pres (LinkInv osc8 false) (emitAutoLink captureStream text) := by
  unfold emitAutoLink
  by_cases ht : text = []
  · rw [if_pos ht]
    exact emitStyledText_link osc8 false _
  rw [if_neg ht]
  refine Pres_ite ?_ (emitStyledText_link osc8 false _)
  have hl : (if isEmailAutolink text = true then
      [0x6D, 0x61, 0x69, 0x6C, 0x74, 0x6F, 0x3A] ++ text else text) ≠ [] := by
    split_ifs
    · simp
    · exact ht
  dsimp only []
  refine Pres_getP_bind (fun x hx => ?_)
  have hp : x.p.osc8 = osc8 := hx.1
  refine (?_ : Pres (LinkInv osc8 false) _) x hx
  cases ho : x.p.osc8 with
  | true =>
    simp only [if_true]
    exact link_span osc8 _ (hp.symm.trans ho) hl _
      (writeRunes_link osc8 true _ _ kind_url _) (writeRunes_ok _ _ _)
  | false =>
    simp only [Bool.false_eq_true, if_false]
    exact Pres_bind (Pres_pure _) (fun _ =>
      Pres_bind (writeRunes_link osc8 false _ _ kind_url _) (fun _ => Pres_pure _))

theorem emitLink_link (osc8 : Bool) :
    Pres (LinkInv osc8 false) (emitLink captureStream) := by
  unfold emitLink
  refine Pres_getP_bind (fun x hx => ?_)
  have hp : x.p.osc8 = osc8 := hx.1
  refine (?_ : Pres (LinkInv osc8 false) _) x hx
  dsimp only []
  refine Pres_bind (Pres_modifyInline (LinkInv.p (fun _ => rfl))) (fun _ => ?_)
  by_cases hc : x.p.osc8 = true ∧ x.p.inline.linkURL ≠ []
  · rw [if_pos hc]
    exact link_span osc8 _ (hp.symm.trans hc.1) hc.2 _ (emitLinkText_link osc8 true _)
      (emitLinkText_ok _)
  · rw [if_neg hc]
    clear hc hp hx
    repeat (first
      | with_reducible exact Pres_pure _
      | with_reducible exact Pres_getP
      | with_reducible assumption
      | with_reducible refine Pres_bind ?_ (fun _ => ?_)
      | ((with_reducible refine Pres_modifyP ?_); exact LinkInv.p (fun _ => rfl))
      | ((with_reducible refine Pres_modifyInline ?_); exact LinkInv.p (fun _ => rfl))
      | ((with_reducible refine Pres_writeToken ?_); refine LinkInv.write ?_;
         (first | exact textTok_plain _ _ _ kind_text | exact plainTok_inline _ _
                | exact textTok_plain _ _ _ kind_code | exact textTok_plain _ _ _ kind_url
                | exact plainTok_mk _ _ _ _ _ kind_code | exact plainTok_mk _ _ _ _ _ kind_text
                | exact plainTok_mk _ _ _ _ _ kind_rule))
      | ((with_reducible refine Pres_writeTokenIgnore ?_); refine LinkInv.write ?_;
         (first | exact textTok_plain _ _ _ kind_text | exact plainTok_inline _ _
                | exact textTok_plain _ _ _ kind_code | exact textTok_plain _ _ _ kind_url
                | exact plainTok_mk _ _ _ _ _ kind_code | exact plainTok_mk _ _ _ _ _ kind_text
                | exact plainTok_mk _ _ _ _ _ kind_rule))
      | ((with_reducible refine Pres_setWrapIndent ?_); exact LinkInv.indent)
      | ((with_reducible refine Pres_modifyP ?_); exact LinkInv.p flushPendingDelims_osc8)
      | ((with_reducible refine Pres_modifyP ?_);
         exact LinkInv.p (fun p => clearListIfOutdented_osc8 p _))
      | with_reducible exact Pres_panicNow
      | with_reducible exact Pres_fuelOutNow
      | with_reducible apply emitLinkText_link
      | with_reducible refine Pres_ignoreErr ?_
      | ((fail_if_success (with_reducible refine Pres_ite ?_ ?_)); (try subst_vars); split)
      | (with_reducible generalize hK : (fun y : Unit => (_ : PM (List Event) Unit)) = jp;
         fail_if_success (clear hK jp);
         refine Pres_cut (P := Pres (LinkInv osc8 false) (jp ())) ?_ (fun hjp => ?_);
         on_goal 2 => (have hjp0 := hjp; rw [← hK] at hjp0; beta_reduce at hjp0);
         subst hK; beta_reduce)
      | ((with_reducible (conv => (arg 2; whnf)));
         with_reducible generalize hK : (fun y : Unit => (_ : PM (List Event) Unit)) = jp;
         fail_if_success (clear hK jp);
         refine Pres_cut (P := Pres (LinkInv osc8 false) (jp ())) ?_ (fun hjp => ?_);
         on_goal 2 => (have hjp0 := hjp; rw [← hK] at hjp0; beta_reduce at hjp0);
         subst hK; beta_reduce)
      | with_reducible refine Pres_ite ?_ ?_
      | split)

theorem emitLinkFallback_link (osc8 : Bool) :
    Pres (LinkInv osc8 false) (emitLinkFallback captureStream) := by
  unfold emitLinkFallback
  repeat (first
    | with_reducible exact Pres_pure _
    | with_reducible exact Pres_getP
    | with_reducible assumption
    | with_reducible refine Pres_bind ?_ (fun _ => ?_)
    | ((with_reducible refine Pres_modifyP ?_); exact LinkInv.p (fun _ => rfl))
    | ((with_reducible refine Pres_modifyInline ?_); exact LinkInv.p (fun _ => rfl))
    | ((with_reducible refine Pres_writeToken ?_); refine LinkInv.write ?_;
       (first | exact textTok_plain _ _ _ kind_text | exact plainTok_inline _ _
              | exact textTok_plain _ _ _ kind_code | exact textTok_plain _ _ _ kind_url
              | exact plainTok_mk _ _ _ _ _ kind_code | exact plainTok_mk _ _ _ _ _ kind_text
              | exact plainTok_mk _ _ _ _ _ kind_rule))
    | ((with_reducible refine Pres_writeTokenIgnore ?_); refine LinkInv.write ?_;
       (first | exact textTok_plain _ _ _ kind_text | exact plainTok_inline _ _
              | exact textTok_plain _ _ _ kind_code | exact textTok_plain _ _ _ kind_url
              | exact plainTok_mk _ _ _ _ _ kind_code | exact plainTok_mk _ _ _ _ _ kind_text
              | exact plainTok_mk _ _ _ _ _ kind_rule))
    | ((with_reducible refine Pres_setWrapIndent ?_); exact LinkInv.indent)
    | ((with_reducible refine Pres_modifyP ?_); exact LinkInv.p flushPendingDelims_osc8)
    | ((with_reducible refine Pres_modifyP ?_);
       exact LinkInv.p (fun p => clearListIfOutdented_osc8 p _))
    | with_reducible exact Pres_panicNow
    | with_reducible exact Pres_fuelOutNow
    | with_reducible refine Pres_ignoreErr ?_
    | ((fail_if_success (with_reducible refine Pres_ite ?_ ?_)); (try subst_vars); split)
    | (with_reducible generalize hK : (fun y : Unit => (_ : PM (List Event) Unit)) = jp;
       fail_if_success (clear hK jp);
       refine Pres_cut (P := Pres (LinkInv osc8 false) (jp ())) ?_ (fun hjp => ?_);
       on_goal 2 => (have hjp0 := hjp; rw [← hK] at hjp0; beta_reduce at hjp0);
       subst hK; beta_reduce)
    | ((with_reducible (conv => (arg 2; whnf)));
       with_reducible generalize hK : (fun y : Unit => (_ : PM (List Event) Unit)) = jp;
       fail_if_success (clear hK jp);
       refine Pres_cut (P := Pres (LinkInv osc8 false) (jp ())) ?_ (fun hjp => ?_);
       on_goal 2 => (have hjp0 := hjp; rw [← hK] at hjp0; beta_reduce at hjp0);
       subst hK; beta_reduce)
    | with_reducible refine Pres_ite ?_ ?_
    | split)

theorem emitInlineNumUS_link (osc8 : Bool) (r : Nat) :
    Pres (LinkInv osc8 false) (emitInlineNumUS captureStream r) := by
  unfold emitInlineNumUS
  repeat (first
    | with_reducible exact Pres_pure _
    | with_reducible exact Pres_getP
    | with_reducible assumption
    | with_reducible refine Pres_bind ?_ (fun _ => ?_)
    | ((with_reducible refine Pres_modifyP ?_); exact LinkInv.p (fun _ => rfl))
    | ((with_reducible refine Pres_modifyInline ?_); exact LinkInv.p (fun _ => rfl))
    | ((with_reducible refine Pres_writeToken ?_); refine LinkInv.write ?_;
       (first | exact textTok_plain _ _ _ kind_text | exact plainTok_inline _ _
              | exact textTok_plain _ _ _ kind_code | exact textTok_plain _ _ _ kind_url
              | exact plainTok_mk _ _ _ _ _ kind_code | exact plainTok_mk _ _ _ _ _ kind_text
              | exact plainTok_mk _ _ _ _ _ kind_rule))
    | ((with_reducible refine Pres_writeTokenIgnore ?_); refine LinkInv.write ?_;
       (first | exact textTok_plain _ _ _ kind_text | exact plainTok_inline _ _
              | exact textTok_plain _ _ _ kind_code | exact textTok_plain _ _ _ kind_url
              | exact plainTok_mk _ _ _ _ _ kind_code | exact plainTok_mk _ _ _ _ _ kind_text
              | exact plainTok_mk _ _ _ _ _ kind_rule))
    | ((with_reducible refine Pres_setWrapIndent ?_); exact LinkInv.indent)
    | ((with_reducible refine Pres_modifyP ?_); exact LinkInv.p flushPendingDelims_osc8)
    | ((with_reducible refine Pres_modifyP ?_);
       exact LinkInv.p (fun p => clearListIfOutdented_osc8 p _))
    | with_reducible exact Pres_panicNow
    | with_reducible exact Pres_fuelOutNow
    | with_reducible refine Pres_ignoreErr ?_
    | ((fail_if_success (with_reducible refine Pres_ite ?_ ?_)); (try subst_vars); split)
    | (with_reducible generalize hK : (fun y : Unit => (_ : PM (List Event) Unit)) = jp;
       fail_if_success (clear hK jp);
       refine Pres_cut (P := Pres (LinkInv osc8 false) (jp ())) ?_ (fun hjp => ?_);
       on_goal 2 => (have hjp0 := hjp; rw [← hK] at hjp0; beta_reduce at hjp0);
       subst hK; beta_reduce)
    | ((with_reducible (conv => (arg 2; whnf)));
       with_reducible generalize hK : (fun y : Unit => (_ : PM (List Event) Unit)) = jp;
       fail_if_success (clear hK jp);
       refine Pres_cut (P := Pres (LinkInv osc8 false) (jp ())) ?_ (fun hjp => ?_);
       on_goal 2 => (have hjp0 := hjp; rw [← hK] at hjp0; beta_reduce at hjp0);
       subst hK; beta_reduce)
    | with_reducible refine Pres_ite ?_ ?_
    | split)

theorem emitInlineAutoLink_link (osc8 : Bool) (r : Nat) :
    Pres (LinkInv osc8 false) (emitInlineAutoLink captureStream r) := by
  unfold emitInlineAutoLink
  repeat (first
    | with_reducible exact Pres_pure _
    | with_reducible exact Pres_getP
    | with_reducible assumption
    | with_reducible refine Pres_bind ?_ (fun _ => ?_)
    | ((with_reducible refine Pres_modifyP ?_); exact LinkInv.p (fun _ => rfl))
    | ((with_reducible refine Pres_modifyInline ?_); exact LinkInv.p (fun _ => rfl))
    | ((with_reducible refine Pres_writeToken ?_); refine LinkInv.write ?_;
       (first | exact textTok_plain _ _ _ kind_text | exact plainTok_inline _ _
              | exact textTok_plain _ _ _ kind_code | exact textTok_plain _ _ _ kind_url
              | exact plainTok_mk _ _ _ _ _ kind_code | exact plainTok_mk _ _ _ _ _ kind_text
              | exact plainTok_mk _ _ _ _ _ kind_rule))
    | ((with_reducible refine Pres_writeTokenIgnore ?_); refine LinkInv.write ?_;
       (first | exact textTok_plain _ _ _ kind_text | exact plainTok_inline _ _
              | exact textTok_plain _ _ _ kind_code | exact textTok_plain _ _ _ kind_url
              | exact plainTok_mk _ _ _ _ _ kind_code | exact plainTok_mk _ _ _ _ _ kind_text
              | exact plainTok_mk _ _ _ _ _ kind_rule))
    | ((with_reducible refine Pres_setWrapIndent ?_); exact LinkInv.indent)
    | ((with_reducible refine Pres_modifyP ?_); exact LinkInv.p flushPendingDelims_osc8)
    | ((with_reducible refine Pres_modifyP ?_);
       exact LinkInv.p (fun p => clearListIfOutdented_osc8 p _))
    | with_reducible exact Pres_panicNow
    | with_reducible exact Pres_fuelOutNow
    | with_reducible apply emitStyledText_link
    | with_reducible apply emitAutoLink_link
    | with_reducible refine Pres_ignoreErr ?_
    | ((fail_if_success (with_reducible refine Pres_ite ?_ ?_)); (try subst_vars); split)
    | (with_reducible generalize hK : (fun y : Unit => (_ : PM (List Event) Unit)) = jp;
       fail_if_success (clear hK jp);
       refine Pres_cut (P := Pres (LinkInv osc8 false) (jp ())) ?_ (fun hjp => ?_);
       on_goal 2 => (have hjp0 := hjp; rw [← hK] at hjp0; beta_reduce at hjp0);
       subst hK; beta_reduce)
    | ((with_reducible (conv => (arg 2; whnf)));
       with_reducible generalize hK : (fun y : Unit => (_ : PM (List Event) Unit)) = jp;
       fail_if_success (clear hK jp);
       refine Pres_cut (P := Pres (LinkInv osc8 false) (jp ())) ?_ (fun hjp => ?_);
       on_goal 2 => (have hjp0 := hjp; rw [← hK] at hjp0; beta_reduce at hjp0);
       subst hK; beta_reduce)
    | with_reducible refine Pres_ite ?_ ?_
    | split)

theorem emitInlineEntity_link (osc8 : Bool) (r : Nat) :
    Pres (LinkInv osc8 false) (emitInlineEntity captureStream r) := by
  unfold emitInlineEntity
  repeat (first
    | with_reducible exact Pres_pure _
    | with_reducible exact Pres_getP
    | with_reducible assumption
    | with_reducible refine Pres_bind ?_ (fun _ => ?_)
    | ((with_reducible refine Pres_modifyP ?_); exact LinkInv.p (fun _ => rfl))
    | ((with_reducible refine Pres_modifyInline ?_); exact LinkInv.p (fun _ => rfl))
    | ((with_reducible refine Pres_writeToken ?_); refine LinkInv.write ?_;
       (first | exact textTok_plain _ _ _ kind_text | exact plainTok_inline _ _
              | exact textTok_plain _ _ _ kind_code | exact textTok_plain _ _ _ kind_url
              | exact plainTok_mk _ _ _ _ _ kind_code | exact plainTok_mk _ _ _ _ _ kind_text
              | exact plainTok_mk _ _ _ _ _ kind_rule))
    | ((with_reducible refine Pres_writeTokenIgnore ?_); refine LinkInv.write ?_;
       (first | exact textTok_plain _ _ _ kind_text | exact plainTok_inline _ _
              | exact textTok_plain _ _ _ kind_code | exact textTok_plain _ _ _ kind_url
              | exact plainTok_mk _ _ _ _ _ kind_code | exact plainTok_mk _ _ _ _ _ kind_text
              | exact plainTok_mk _ _ _ _ _ kind_rule))
    | ((with_reducible refine Pres_setWrapIndent ?_); exact LinkInv.indent)
    | ((with_reducible refine Pres_modifyP ?_); exact LinkInv.p flushPendingDelims_osc8)
    | ((with_reducible refine Pres_modifyP ?_);
       exact LinkInv.p (fun p => clearListIfOutdented_osc8 p _))
    | with_reducible exact Pres_panicNow
    | with_reducible exact Pres_fuelOutNow
    | with_reducible apply emitStyledText_link
    | with_reducible refine Pres_ignoreErr ?_
    | ((fail_if_success (with_reducible refine Pres_ite ?_ ?_)); (try subst_vars); split)
    | (with_reducible generalize hK : (fun y : Unit => (_ : PM (List Event) Unit)) = jp;
       fail_if_success (clear hK jp);
       refine Pres_cut (P := Pres (LinkInv osc8 false) (jp ())) ?_ (fun hjp => ?_);
       on_goal 2 => (have hjp0 := hjp; rw [← hK] at hjp0; beta_reduce at hjp0);
       subst hK; beta_reduce)
    | ((with_reducible (conv => (arg 2; whnf)));
       with_reducible generalize hK : (fun y : Unit => (_ : PM (List Event) Unit)) = jp;
       fail_if_success (clear hK jp);
       refine Pres_cut (P := Pres (LinkInv osc8 false) (jp ())) ?_ (fun hjp => ?_);
       on_goal 2 => (have hjp0 := hjp; rw [← hK] at hjp0; beta_reduce at hjp0);
       subst hK; beta_reduce)
    | with_reducible refine Pres_ite ?_ ?_
    | split)

theorem emitInlineSpaces_link (osc8 : Bool) (r : Nat) :
    Pres (LinkInv osc8 false) (emitInlineSpaces captureStream r) := by
  unfold emitInlineSpaces
  repeat (first
    | exact writeRunes_link osc8 false _ _ (inlineStyle_kind _) _
    | with_reducible exact Pres_pure _
    | with_reducible exact Pres_getP
    | with_reducible assumption
    | with_reducible refine Pres_bind ?_ (fun _ => ?_)
    | ((with_reducible refine Pres_modifyP ?_); exact LinkInv.p (fun _ => rfl))
    | ((with_reducible refine Pres_modifyInline ?_); exact LinkInv.p (fun _ => rfl))
    | ((with_reducible refine Pres_writeToken ?_); refine LinkInv.write ?_;
       (first | exact textTok_plain _ _ _ kind_text | exact plainTok_inline _ _
              | exact textTok_plain _ _ _ kind_code | exact textTok_plain _ _ _ kind_url
              | exact plainTok_mk _ _ _ _ _ kind_code | exact plainTok_mk _ _ _ _ _ kind_text
              | exact plainTok_mk _ _ _ _ _ kind_rule))
    | ((with_reducible refine Pres_writeTokenIgnore ?_); refine LinkInv.write ?_;
       (first | exact textTok_plain _ _ _ kind_text | exact plainTok_inline _ _
              | exact textTok_plain _ _ _ kind_code | exact textTok_plain _ _ _ kind_url
              | exact plainTok_mk _ _ _ _ _ kind_code | exact plainTok_mk _ _ _ _ _ kind_text
              | exact plainTok_mk _ _ _ _ _ kind_rule))
    | ((with_reducible refine Pres_setWrapIndent ?_); exact LinkInv.indent)
    | ((with_reducible refine Pres_modifyP ?_); exact LinkInv.p flushPendingDelims_osc8)
    | ((with_reducible refine Pres_modifyP ?_);
       exact LinkInv.p (fun p => clearListIfOutdented_osc8 p _))
    | with_reducible exact Pres_panicNow
    | with_reducible exact Pres_fuelOutNow
    | with_reducible refine Pres_ignoreErr ?_
    | ((fail_if_success (with_reducible refine Pres_ite ?_ ?_)); (try subst_vars); split)
    | (with_reducible generalize hK : (fun y : Unit => (_ : PM (List Event) Unit)) = jp;
       fail_if_success (clear hK jp);
       refine Pres_cut (P := Pres (LinkInv osc8 false) (jp ())) ?_ (fun hjp => ?_);
       on_goal 2 => (have hjp0 := hjp; rw [← hK] at hjp0; beta_reduce at hjp0);
       subst hK; beta_reduce)
    | ((with_reducible (conv => (arg 2; whnf)));
       with_reducible generalize hK : (fun y : Unit => (_ : PM (List Event) Unit)) = jp;
       fail_if_success (clear hK jp);
       refine Pres_cut (P := Pres (LinkInv osc8 false) (jp ())) ?_ (fun hjp => ?_);
       on_goal 2 => (have hjp0 := hjp; rw [← hK] at hjp0; beta_reduce at hjp0);
       subst hK; beta_reduce)
    | with_reducible refine Pres_ite ?_ ?_
    | split)

theorem emitInlineSwitch_link (osc8 : Bool) (r : Nat) :
    Pres (LinkInv osc8 false) (emitInlineSwitch captureStream r) := by
  unfold emitInlineSwitch
  repeat (first
    | with_reducible exact Pres_pure _
    | with_reducible exact Pres_getP
    | with_reducible assumption
    | with_reducible refine Pres_bind ?_ (fun _ => ?_)
    | ((with_reducible refine Pres_modifyP ?_); exact LinkInv.p (fun _ => rfl))
    | ((with_reducible refine Pres_modifyInline ?_); exact LinkInv.p (fun _ => rfl))
    | ((with_reducible refine Pres_writeToken ?_); refine LinkInv.write ?_;
       (first | exact textTok_plain _ _ _ kind_text | exact plainTok_inline _ _
              | exact textTok_plain _ _ _ kind_code | exact textTok_plain _ _ _ kind_url
              | exact plainTok_mk _ _ _ _ _ kind_code | exact plainTok_mk _ _ _ _ _ kind_text
              | exact plainTok_mk _ _ _ _ _ kind_rule))
    | ((with_reducible refine Pres_writeTokenIgnore ?_); refine LinkInv.write ?_;
       (first | exact textTok_plain _ _ _ kind_text | exact plainTok_inline _ _
              | exact textTok_plain _ _ _ kind_code | exact textTok_plain _ _ _ kind_url
              | exact plainTok_mk _ _ _ _ _ kind_code | exact plainTok_mk _ _ _ _ _ kind_text
              | exact plainTok_mk _ _ _ _ _ kind_rule))
    | ((with_reducible refine Pres_setWrapIndent ?_); exact LinkInv.indent)
    | ((with_reducible refine Pres_modifyP ?_); exact LinkInv.p flushPendingDelims_osc8)
    | ((with_reducible refine Pres_modifyP ?_);
       exact LinkInv.p (fun p => clearListIfOutdented_osc8 p _))
    | with_reducible exact Pres_panicNow
    | with_reducible exact Pres_fuelOutNow
    | with_reducible apply emitLink_link
    | with_reducible refine Pres_ignoreErr ?_
    | ((fail_if_success (with_reducible refine Pres_ite ?_ ?_)); (try subst_vars); split)
    | (with_reducible generalize hK : (fun y : Unit => (_ : PM (List Event) Unit)) = jp;
       fail_if_success (clear hK jp);
       refine Pres_cut (P := Pres (LinkInv osc8 false) (jp ())) ?_ (fun hjp => ?_);
       on_goal 2 => (have hjp0 := hjp; rw [← hK] at hjp0; beta_reduce at hjp0);
       subst hK; beta_reduce)
    | ((with_reducible (conv => (arg 2; whnf)));
       with_reducible generalize hK : (fun y : Unit => (_ : PM (List Event) Unit)) = jp;
       fail_if_success (clear hK jp);
       refine Pres_cut (P := Pres (LinkInv osc8 false) (jp ())) ?_ (fun hjp => ?_);
       on_goal 2 => (have hjp0 := hjp; rw [← hK] at hjp0; beta_reduce at hjp0);
       subst hK; beta_reduce)
    | with_reducible refine Pres_ite ?_ ?_
    | split)

theorem emitInlineLink_link (osc8 : Bool) (r : Nat) :
    Pres (LinkInv osc8 false) (emitInlineLink captureStream r) := by
  unfold emitInlineLink
  repeat (first
    | with_reducible exact Pres_pure _
    | with_reducible exact Pres_getP
    | with_reducible assumption
    | with_reducible refine Pres_bind ?_ (fun _ => ?_)
    | ((with_reducible refine Pres_modifyP ?_); exact LinkInv.p (fun _ => rfl))
    | ((with_reducible refine Pres_modifyInline ?_); exact LinkInv.p (fun _ => rfl))
    | ((with_reducible refine Pres_writeToken ?_); refine LinkInv.write ?_;
       (first | exact textTok_plain _ _ _ kind_text | exact plainTok_inline _ _
              | exact textTok_plain _ _ _ kind_code | exact textTok_plain _ _ _ kind_url
              | exact plainTok_mk _ _ _ _ _ kind_code | exact plainTok_mk _ _ _ _ _ kind_text
              | exact plainTok_mk _ _ _ _ _ kind_rule))
    | ((with_reducible refine Pres_writeTokenIgnore ?_); refine LinkInv.write ?_;
       (first | exact textTok_plain _ _ _ kind_text | exact plainTok_inline _ _
              | exact textTok_plain _ _ _ kind_code | exact textTok_plain _ _ _ kind_url
              | exact plainTok_mk _ _ _ _ _ kind_code | exact plainTok_mk _ _ _ _ _ kind_text
              | exact plainTok_mk _ _ _ _ _ kind_rule))
    | ((with_reducible refine Pres_setWrapIndent ?_); exact LinkInv.indent)
    | ((with_reducible refine Pres_modifyP ?_); exact LinkInv.p flushPendingDelims_osc8)
    | ((with_reducible refine Pres_modifyP ?_);
       exact LinkInv.p (fun p => clearListIfOutdented_osc8 p _))
    | with_reducible exact Pres_panicNow
    | with_reducible exact Pres_fuelOutNow
    | with_reducible apply emitLinkFallback_link
    | with_reducible refine Pres_ignoreErr ?_
    | ((fail_if_success (with_reducible refine Pres_ite ?_ ?_)); (try subst_vars); split)
    | (with_reducible generalize hK : (fun y : Unit => (_ : PM (List Event) Unit)) = jp;
       fail_if_success (clear hK jp);
       refine Pres_cut (P := Pres (LinkInv osc8 false) (jp ())) ?_ (fun hjp => ?_);
       on_goal 2 => (have hjp0 := hjp; rw [← hK] at hjp0; beta_reduce at hjp0);
       subst hK; beta_reduce)
    | ((with_reducible (conv => (arg 2; whnf)));
       with_reducible generalize hK : (fun y : Unit => (_ : PM (List Event) Unit)) = jp;
       fail_if_success (clear hK jp);
       refine Pres_cut (P := Pres (LinkInv osc8 false) (jp ())) ?_ (fun hjp => ?_);
       on_goal 2 => (have hjp0 := hjp; rw [← hK] at hjp0; beta_reduce at hjp0);
       subst hK; beta_reduce)
    | with_reducible refine Pres_ite ?_ ?_
    | split)

theorem emitInline_link (osc8 : Bool) (r : Nat) :
    Pres (LinkInv osc8 false) (emitInline captureStream r) := by
  unfold emitInline
  repeat (first
    | with_reducible exact Pres_pure _
    | with_reducible exact Pres_getP
    | with_reducible assumption
    | with_reducible refine Pres_bind ?_ (fun _ => ?_)
    | ((with_reducible refine Pres_modifyP ?_); exact LinkInv.p (fun _ => rfl))
    | ((with_reducible refine Pres_modifyInline ?_); exact LinkInv.p (fun _ => rfl))
    | ((with_reducible refine Pres_writeToken ?_); refine LinkInv.write ?_;
       (first | exact textTok_plain _ _ _ kind_text | exact plainTok_inline _ _
              | exact textTok_plain _ _ _ kind_code | exact textTok_plain _ _ _ kind_url
              | exact plainTok_mk _ _ _ _ _ kind_code | exact plainTok_mk _ _ _ _ _ kind_text
              | exact plainTok_mk _ _ _ _ _ kind_rule))
    | ((with_reducible refine Pres_writeTokenIgnore ?_); refine LinkInv.write ?_;
       (first | exact textTok_plain _ _ _ kind_text | exact plainTok_inline _ _
              | exact textTok_plain _ _ _ kind_code | exact textTok_plain _ _ _ kind_url
              | exact plainTok_mk _ _ _ _ _ kind_code | exact plainTok_mk _ _ _ _ _ kind_text
              | exact plainTok_mk _ _ _ _ _ kind_rule))
    | ((with_reducible refine Pres_setWrapIndent ?_); exact LinkInv.indent)
    | ((with_reducible refine Pres_modifyP ?_); exact LinkInv.p flushPendingDelims_osc8)
    | ((with_reducible refine Pres_modifyP ?_);
       exact LinkInv.p (fun p => clearListIfOutdented_osc8 p _))
    | with_reducible exact Pres_panicNow
    | with_reducible exact Pres_fuelOutNow
    | with_reducible apply emitInlineBackticks_link
    | with_reducible apply emitLinkFallback_link
    | with_reducible apply emitInlineNumUS_link
    | with_reducible apply emitInlineAutoLink_link
    | with_reducible apply emitInlineEntity_link
    | with_reducible apply emitInlineSpaces_link
    | with_reducible apply emitInlineSwitch_link
    | with_reducible apply emitInlineLink_link
    | with_reducible refine Pres_ignoreErr ?_
    | ((fail_if_success (with_reducible refine Pres_ite ?_ ?_)); (try subst_vars); split)
    | (with_reducible generalize hK : (fun y : Unit => (_ : PM (List Event) Unit)) = jp;
       fail_if_success (clear hK jp);
       refine Pres_cut (P := Pres (LinkInv osc8 false) (jp ())) ?_ (fun hjp => ?_);
       on_goal 2 => (have hjp0 := hjp; rw [← hK] at hjp0; beta_reduce at hjp0);
       subst hK; beta_reduce)
    | ((with_reducible (conv => (arg 2; whnf)));
       with_reducible generalize hK : (fun y : Unit => (_ : PM (List Event) Unit)) = jp;
       fail_if_success (clear hK jp);
       refine Pres_cut (P := Pres (LinkInv osc8 false) (jp ())) ?_ (fun hjp => ?_);
       on_goal 2 => (have hjp0 := hjp; rw [← hK] at hjp0; beta_reduce at hjp0);
       subst hK; beta_reduce)
    | with_reducible refine Pres_ite ?_ ?_
    | split)
theorem emitInlineRunesLoop_link (osc8 : Bool) (runes : List Nat) (fuel : Nat) :
    ∀ i : Nat, Pres (LinkInv osc8 false) (emitInlineRunesLoop captureStream runes fuel i) := by
  induction fuel with
  | zero => intro i; exact Pres_pure _
  | succ n ih =>
    intro i
    unfold emitInlineRunesLoop
    repeat (first
      | exact ih _
      | with_reducible exact Pres_pure _
      | with_reducible exact Pres_getP
      | with_reducible assumption
      | with_reducible refine Pres_bind ?_ (fun _ => ?_)
      | ((with_reducible refine Pres_modifyP ?_); exact LinkInv.p (fun _ => rfl))
      | ((with_reducible refine Pres_modifyInline ?_); exact LinkInv.p (fun _ => rfl))
      | ((with_reducible refine Pres_writeToken ?_); refine LinkInv.write ?_;
         (first | exact textTok_plain _ _ _ kind_text | exact plainTok_inline _ _
                | exact textTok_plain _ _ _ kind_code | exact textTok_plain _ _ _ kind_url
                | exact plainTok_mk _ _ _ _ _ kind_code | exact plainTok_mk _ _ _ _ _ kind_text
                | exact plainTok_mk _ _ _ _ _ kind_rule))
      | ((with_reducible refine Pres_writeTokenIgnore ?_); refine LinkInv.write ?_;
         (first | exact textTok_plain _ _ _ kind_text | exact plainTok_inline _ _
                | exact textTok_plain _ _ _ kind_code | exact textTok_plain _ _ _ kind_url
                | exact plainTok_mk _ _ _ _ _ kind_code | exact plainTok_mk _ _ _ _ _ kind_text
                | exact plainTok_mk _ _ _ _ _ kind_rule))
      | ((with_reducible refine Pres_setWrapIndent ?_); exact LinkInv.indent)
      | ((with_reducible refine Pres_modifyP ?_); exact LinkInv.p flushPendingDelims_osc8)
      | ((with_reducible refine Pres_modifyP ?_);
         exact LinkInv.p (fun p => clearListIfOutdented_osc8 p _))
      | with_reducible exact Pres_panicNow
      | with_reducible exact Pres_fuelOutNow
      | with_reducible apply emitInline_link
      | with_reducible refine Pres_ignoreErr ?_
      | ((fail_if_success (with_reducible refine Pres_ite ?_ ?_)); (try subst_vars); split)
      | (with_reducible generalize hK : (fun y : Unit => (_ : PM (List Event) Unit)) = jp;
         fail_if_success (clear hK jp);
         refine Pres_cut (P := Pres (LinkInv osc8 false) (jp ())) ?_ (fun hjp => ?_);
         on_goal 2 => (have hjp0 := hjp; rw [← hK] at hjp0; beta_reduce at hjp0);
         subst hK; beta_reduce)
      | ((with_reducible (conv => (arg 2; whnf)));
         with_reducible generalize hK : (fun y : Unit => (_ : PM (List Event) Unit)) = jp;
         fail_if_success (clear hK jp);
         refine Pres_cut (P := Pres (LinkInv osc8 false) (jp ())) ?_ (fun hjp => ?_);
         on_goal 2 => (have hjp0 := hjp; rw [← hK] at hjp0; beta_reduce at hjp0);
         subst hK; beta_reduce)
      | with_reducible refine Pres_ite ?_ ?_
      | split)

theorem flushPendingEntity_link (osc8 : Bool) :
    Pres (LinkInv osc8 false) (flushPendingEntity captureStream) := by
  unfold flushPendingEntity
  repeat (first
    | with_reducible exact Pres_pure _
    | with_reducible exact Pres_getP
    | with_reducible assumption
    | with_reducible refine Pres_bind ?_ (fun _ => ?_)
    | ((with_reducible refine Pres_modifyP ?_); exact LinkInv.p (fun _ => rfl))
    | ((with_reducible refine Pres_modifyInline ?_); exact LinkInv.p (fun _ => rfl))
    | ((with_reducible refine Pres_writeToken ?_); refine LinkInv.write ?_;
       (first | exact textTok_plain _ _ _ kind_text | exact plainTok_inline _ _
              | exact textTok_plain _ _ _ kind_code | exact textTok_plain _ _ _ kind_url
              | exact plainTok_mk _ _ _ _ _ kind_code | exact plainTok_mk _ _ _ _ _ kind_text
              | exact plainTok_mk _ _ _ _ _ kind_rule))
    | ((with_reducible refine Pres_writeTokenIgnore ?_); refine LinkInv.write ?_;
       (first | exact textTok_plain _ _ _ kind_text | exact plainTok_inline _ _
              | exact textTok_plain _ _ _ kind_code | exact textTok_plain _ _ _ kind_url
              | exact plainTok_mk _ _ _ _ _ kind_code | exact plainTok_mk _ _ _ _ _ kind_text
              | exact plainTok_mk _ _ _ _ _ kind_rule))
    | ((with_reducible refine Pres_setWrapIndent ?_); exact LinkInv.indent)
    | ((with_reducible refine Pres_modifyP ?_); exact LinkInv.p flushPendingDelims_osc8)
    | ((with_reducible refine Pres_modifyP ?_);
       exact LinkInv.p (fun p => clearListIfOutdented_osc8 p _))
    | with_reducible exact Pres_panicNow
    | with_reducible exact Pres_fuelOutNow
    | with_reducible apply emitStyledText_link
    | with_reducible refine Pres_ignoreErr ?_
    | ((fail_if_success (with_reducible refine Pres_ite ?_ ?_)); (try subst_vars); split)
    | (with_reducible generalize hK : (fun y : Unit => (_ : PM (List Event) Unit)) = jp;
       fail_if_success (clear hK jp);
       refine Pres_cut (P := Pres (LinkInv osc8 false) (jp ())) ?_ (fun hjp => ?_);
       on_goal 2 => (have hjp0 := hjp; rw [← hK] at hjp0; beta_reduce at hjp0);
       subst hK; beta_reduce)
    | ((with_reducible (conv => (arg 2; whnf)));
       with_reducible generalize hK : (fun y : Unit => (_ : PM (List Event) Unit)) = jp;
       fail_if_success (clear hK jp);
       refine Pres_cut (P := Pres (LinkInv osc8 false) (jp ())) ?_ (fun hjp => ?_);
       on_goal 2 => (have hjp0 := hjp; rw [← hK] at hjp0; beta_reduce at hjp0);
       subst hK; beta_reduce)
    | with_reducible refine Pres_ite ?_ ?_
    | split)

theorem emitInlineRunes_link (osc8 : Bool) (runes : List Nat) :
    Pres (LinkInv osc8 false) (emitInlineRunes captureStream runes) := by
  unfold emitInlineRunes
  repeat (first
    | exact emitInlineRunesLoop_link osc8 _ _ _
    | with_reducible exact Pres_pure _
    | with_reducible exact Pres_getP
    | with_reducible assumption
    | with_reducible refine Pres_bind ?_ (fun _ => ?_)
    | ((with_reducible refine Pres_modifyP ?_); exact LinkInv.p (fun _ => rfl))
    | ((with_reducible refine Pres_modifyInline ?_); exact LinkInv.p (fun _ => rfl))
    | ((with_reducible refine Pres_writeToken ?_); refine LinkInv.write ?_;
       (first | exact textTok_plain _ _ _ kind_text | exact plainTok_inline _ _
              | exact textTok_plain _ _ _ kind_code | exact textTok_plain _ _ _ kind_url
              | exact plainTok_mk _ _ _ _ _ kind_code | exact plainTok_mk _ _ _ _ _ kind_text
              | exact plainTok_mk _ _ _ _ _ kind_rule))
    | ((with_reducible refine Pres_writeTokenIgnore ?_); refine LinkInv.write ?_;
       (first | exact textTok_plain _ _ _ kind_text | exact plainTok_inline _ _
              | exact textTok_plain _ _ _ kind_code | exact textTok_plain _ _ _ kind_url
              | exact plainTok_mk _ _ _ _ _ kind_code | exact plainTok_mk _ _ _ _ _ kind_text
              | exact plainTok_mk _ _ _ _ _ kind_rule))
    | ((with_reducible refine Pres_setWrapIndent ?_); exact LinkInv.indent)
    | ((with_reducible refine Pres_modifyP ?_); exact LinkInv.p flushPendingDelims_osc8)
    | ((with_reducible refine Pres_modifyP ?_);
       exact LinkInv.p (fun p => clearListIfOutdented_osc8 p _))
    | with_reducible exact Pres_panicNow
    | with_reducible exact Pres_fuelOutNow
    | with_reducible apply emitStyledText_link
    | with_reducible refine Pres_ignoreErr ?_
    | ((fail_if_success (with_reducible refine Pres_ite ?_ ?_)); (try subst_vars); split)
    | (with_reducible generalize hK : (fun y : Unit => (_ : PM (List Event) Unit)) = jp;
       fail_if_success (clear hK jp);
       refine Pres_cut (P := Pres (LinkInv osc8 false) (jp ())) ?_ (fun hjp => ?_);
       on_goal 2 => (have hjp0 := hjp; rw [← hK] at hjp0; beta_reduce at hjp0);
       subst hK; beta_reduce)
    | ((with_reducible (conv => (arg 2; whnf)));
       with_reducible generalize hK : (fun y : Unit => (_ : PM (List Event) Unit)) = jp;
       fail_if_success (clear hK jp);
       refine Pres_cut (P := Pres (LinkInv osc8 false) (jp ())) ?_ (fun hjp => ?_);
       on_goal 2 => (have hjp0 := hjp; rw [← hK] at hjp0; beta_reduce at hjp0);
       subst hK; beta_reduce)
    | with_reducible refine Pres_ite ?_ ?_
    | split)

theorem flushPendingBackticks_link (osc8 : Bool) :
    Pres (LinkInv osc8 false) (flushPendingBackticks captureStream) := by
  unfold flushPendingBackticks
  repeat (first
    | with_reducible exact Pres_pure _
    | with_reducible exact Pres_getP
    | with_reducible assumption
    | with_reducible refine Pres_bind ?_ (fun _ => ?_)
    | ((with_reducible refine Pres_modifyP ?_); exact LinkInv.p (fun _ => rfl))
    | ((with_reducible refine Pres_modifyInline ?_); exact LinkInv.p (fun _ => rfl))
    | ((with_reducible refine Pres_writeToken ?_); refine LinkInv.write ?_;
       (first | exact textTok_plain _ _ _ kind_text | exact plainTok_inline _ _
              | exact textTok_plain _ _ _ kind_code | exact textTok_plain _ _ _ kind_url
              | exact plainTok_mk _ _ _ _ _ kind_code | exact plainTok_mk _ _ _ _ _ kind_text
              | exact plainTok_mk _ _ _ _ _ kind_rule))
    | ((with_reducible refine Pres_writeTokenIgnore ?_); refine LinkInv.write ?_;
       (first | exact textTok_plain _ _ _ kind_text | exact plainTok_inline _ _
              | exact textTok_plain _ _ _ kind_code | exact textTok_plain _ _ _ kind_url
              | exact plainTok_mk _ _ _ _ _ kind_code | exact plainTok_mk _ _ _ _ _ kind_text
              | exact plainTok_mk _ _ _ _ _ kind_rule))
    | ((with_reducible refine Pres_setWrapIndent ?_); exact LinkInv.indent)
    | ((with_reducible refine Pres_modifyP ?_); exact LinkInv.p flushPendingDelims_osc8)
    | ((with_reducible refine Pres_modifyP ?_);
       exact LinkInv.p (fun p => clearListIfOutdented_osc8 p _))
    | with_reducible exact Pres_panicNow
    | with_reducible exact Pres_fuelOutNow
    | with_reducible apply emitInlineBackticks_link
    | with_reducible refine Pres_ignoreErr ?_
    | ((fail_if_success (with_reducible refine Pres_ite ?_ ?_)); (try subst_vars); split)
    | (with_reducible generalize hK : (fun y : Unit => (_ : PM (List Event) Unit)) = jp;
       fail_if_success (clear hK jp);
       refine Pres_cut (P := Pres (LinkInv osc8 false) (jp ())) ?_ (fun hjp => ?_);
       on_goal 2 => (have hjp0 := hjp; rw [← hK] at hjp0; beta_reduce at hjp0);
       subst hK; beta_reduce)
    | ((with_reducible (conv => (arg 2; whnf)));
       with_reducible generalize hK : (fun y : Unit => (_ : PM (List Event) Unit)) = jp;
       fail_if_success (clear hK jp);
       refine Pres_cut (P := Pres (LinkInv osc8 false) (jp ())) ?_ (fun hjp => ?_);
       on_goal 2 => (have hjp0 := hjp; rw [← hK] at hjp0; beta_reduce at hjp0);
       subst hK; beta_reduce)
    | with_reducible refine Pres_ite ?_ ?_
    | split)

theorem flushPendingNumUS_link (osc8 : Bool) :
    Pres (LinkInv osc8 false) (flushPendingNumUS captureStream) := by
  unfold flushPendingNumUS
  repeat (first
    | with_reducible exact Pres_pure _
    | with_reducible exact Pres_getP
    | with_reducible assumption
    | with_reducible refine Pres_bind ?_ (fun _ => ?_)
    | ((with_reducible refine Pres_modifyP ?_); exact LinkInv.p (fun _ => rfl))
    | ((with_reducible refine Pres_modifyInline ?_); exact LinkInv.p (fun _ => rfl))
    | ((with_reducible refine Pres_writeToken ?_); refine LinkInv.write ?_;
       (first | exact textTok_plain _ _ _ kind_text | exact plainTok_inline _ _
              | exact textTok_plain _ _ _ kind_code | exact textTok_plain _ _ _ kind_url
              | exact plainTok_mk _ _ _ _ _ kind_code | exact plainTok_mk _ _ _ _ _ kind_text
              | exact plainTok_mk _ _ _ _ _ kind_rule))
    | ((with_reducible refine Pres_writeTokenIgnore ?_); refine LinkInv.write ?_;
       (first | exact textTok_plain _ _ _ kind_text | exact plainTok_inline _ _
              | exact textTok_plain _ _ _ kind_code | exact textTok_plain _ _ _ kind_url
              | exact plainTok_mk _ _ _ _ _ kind_code | exact plainTok_mk _ _ _ _ _ kind_text
              | exact plainTok_mk _ _ _ _ _ kind_rule))
    | ((with_reducible refine Pres_setWrapIndent ?_); exact LinkInv.indent)
    | ((with_reducible refine Pres_modifyP ?_); exact LinkInv.p flushPendingDelims_osc8)
    | ((with_reducible refine Pres_modifyP ?_);
       exact LinkInv.p (fun p => clearListIfOutdented_osc8 p _))
    | with_reducible exact Pres_panicNow
    | with_reducible exact Pres_fuelOutNow
    | with_reducible refine Pres_ignoreErr ?_
    | ((fail_if_success (with_reducible refine Pres_ite ?_ ?_)); (try subst_vars); split)
    | (with_reducible generalize hK : (fun y : Unit => (_ : PM (List Event) Unit)) = jp;
       fail_if_success (clear hK jp);
       refine Pres_cut (P := Pres (LinkInv osc8 false) (jp ())) ?_ (fun hjp => ?_);
       on_goal 2 => (have hjp0 := hjp; rw [← hK] at hjp0; beta_reduce at hjp0);
       subst hK; beta_reduce)
    | ((with_reducible (conv => (arg 2; whnf)));
       with_reducible generalize hK : (fun y : Unit => (_ : PM (List Event) Unit)) = jp;
       fail_if_success (clear hK jp);
       refine Pres_cut (P := Pres (LinkInv osc8 false) (jp ())) ?_ (fun hjp => ?_);
       on_goal 2 => (have hjp0 := hjp; rw [← hK] at hjp0; beta_reduce at hjp0);
       subst hK; beta_reduce)
    | with_reducible refine Pres_ite ?_ ?_
    | split)

theorem lineBufFrom_link (osc8 : Bool) :
    Pres (LinkInv osc8 false) (lineBufFrom) := by
  unfold lineBufFrom
  repeat (first
    | with_reducible exact Pres_pure _
    | with_reducible exact Pres_getP
    | with_reducible assumption
    | with_reducible refine Pres_bind ?_ (fun _ => ?_)
    | ((with_reducible refine Pres_modifyP ?_); exact LinkInv.p (fun _ => rfl))
    | ((with_reducible refine Pres_modifyInline ?_); exact LinkInv.p (fun _ => rfl))
    | ((with_reducible refine Pres_writeToken ?_); refine LinkInv.write ?_;
       (first | exact textTok_plain _ _ _ kind_text | exact plainTok_inline _ _
              | exact textTok_plain _ _ _ kind_code | exact textTok_plain _ _ _ kind_url
              | exact plainTok_mk _ _ _ _ _ kind_code | exact plainTok_mk _ _ _ _ _ kind_text
              | exact plainTok_mk _ _ _ _ _ kind_rule))
    | ((with_reducible refine Pres_writeTokenIgnore ?_); refine LinkInv.write ?_;
       (first | exact textTok_plain _ _ _ kind_text | exact plainTok_inline _ _
              | exact textTok_plain _ _ _ kind_code | exact textTok_plain _ _ _ kind_url
              | exact plainTok_mk _ _ _ _ _ kind_code | exact plainTok_mk _ _ _ _ _ kind_text
              | exact plainTok_mk _ _ _ _ _ kind_rule))
    | ((with_reducible refine Pres_setWrapIndent ?_); exact LinkInv.indent)
    | ((with_reducible refine Pres_modifyP ?_); exact LinkInv.p flushPendingDelims_osc8)
    | ((with_reducible refine Pres_modifyP ?_);
       exact LinkInv.p (fun p => clearListIfOutdented_osc8 p _))
    | with_reducible exact Pres_panicNow
    | with_reducible exact Pres_fuelOutNow
    | with_reducible refine Pres_ignoreErr ?_
    | ((fail_if_success (with_reducible refine Pres_ite ?_ ?_)); (try subst_vars); split)
    | (with_reducible generalize hK : (fun y : Unit => (_ : PM (List Event) Unit)) = jp;
       fail_if_success (clear hK jp);
       refine Pres_cut (P := Pres (LinkInv osc8 false) (jp ())) ?_ (fun hjp => ?_);
       on_goal 2 => (have hjp0 := hjp; rw [← hK] at hjp0; beta_reduce at hjp0);
       subst hK; beta_reduce)
    | ((with_reducible (conv => (arg 2; whnf)));
       with_reducible generalize hK : (fun y : Unit => (_ : PM (List Event) Unit)) = jp;
       fail_if_success (clear hK jp);
       refine Pres_cut (P := Pres (LinkInv osc8 false) (jp ())) ?_ (fun hjp => ?_);
       on_goal 2 => (have hjp0 := hjp; rw [← hK] at hjp0; beta_reduce at hjp0);
       subst hK; beta_reduce)
    | with_reducible refine Pres_ite ?_ ?_
    | split)

theorem emitCodeLine_link (osc8 : Bool) (line : List Nat) :
    Pres (LinkInv osc8 false) (emitCodeLine captureStream line) := by
  unfold emitCodeLine
  repeat (first
    | with_reducible exact Pres_pure _
    | with_reducible exact Pres_getP
    | with_reducible assumption
    | with_reducible refine Pres_bind ?_ (fun _ => ?_)
    | ((with_reducible refine Pres_modifyP ?_); exact LinkInv.p (fun _ => rfl))
    | ((with_reducible refine Pres_modifyInline ?_); exact LinkInv.p (fun _ => rfl))
    | ((with_reducible refine Pres_writeToken ?_); refine LinkInv.write ?_;
       (first | exact textTok_plain _ _ _ kind_text | exact plainTok_inline _ _
              | exact textTok_plain _ _ _ kind_code | exact textTok_plain _ _ _ kind_url
              | exact plainTok_mk _ _ _ _ _ kind_code | exact plainTok_mk _ _ _ _ _ kind_text
              | exact plainTok_mk _ _ _ _ _ kind_rule))
    | ((with_reducible refine Pres_writeTokenIgnore ?_); refine LinkInv.write ?_;
       (first | exact textTok_plain _ _ _ kind_text | exact plainTok_inline _ _
              | exact textTok_plain _ _ _ kind_code | exact textTok_plain _ _ _ kind_url
              | exact plainTok_mk _ _ _ _ _ kind_code | exact plainTok_mk _ _ _ _ _ kind_text
              | exact plainTok_mk _ _ _ _ _ kind_rule))
    | ((with_reducible refine Pres_setWrapIndent ?_); exact LinkInv.indent)
    | ((with_reducible refine Pres_modifyP ?_); exact LinkInv.p flushPendingDelims_osc8)
    | ((with_reducible refine Pres_modifyP ?_);
       exact LinkInv.p (fun p => clearListIfOutdented_osc8 p _))
    | with_reducible exact Pres_panicNow
    | with_reducible exact Pres_fuelOutNow
    | with_reducible apply emitPrefix_link
    | with_reducible refine Pres_ignoreErr ?_
    | ((fail_if_success (with_reducible refine Pres_ite ?_ ?_)); (try subst_vars); split)
    | (with_reducible generalize hK : (fun y : Unit => (_ : PM (List Event) Unit)) = jp;
       fail_if_success (clear hK jp);
       refine Pres_cut (P := Pres (LinkInv osc8 false) (jp ())) ?_ (fun hjp => ?_);
       on_goal 2 => (have hjp0 := hjp; rw [← hK] at hjp0; beta_reduce at hjp0);
       subst hK; beta_reduce)
    | ((with_reducible (conv => (arg 2; whnf)));
       with_reducible generalize hK : (fun y : Unit => (_ : PM (List Event) Unit)) = jp;
       fail_if_success (clear hK jp);
       refine Pres_cut (P := Pres (LinkInv osc8 false) (jp ())) ?_ (fun hjp => ?_);
       on_goal 2 => (have hjp0 := hjp; rw [← hK] at hjp0; beta_reduce at hjp0);
       subst hK; beta_reduce)
    | with_reducible refine Pres_ite ?_ ?_
    | split)

theorem emitCodeRune_link (osc8 : Bool) (r : Nat) :
    Pres (LinkInv osc8 false) (emitCodeRune captureStream r) := by
  unfold emitCodeRune
  repeat (first
    | with_reducible exact Pres_pure _
    | with_reducible exact Pres_getP
    | with_reducible assumption
    | with_reducible refine Pres_bind ?_ (fun _ => ?_)
    | ((with_reducible refine Pres_modifyP ?_); exact LinkInv.p (fun _ => rfl))
    | ((with_reducible refine Pres_modifyInline ?_); exact LinkInv.p (fun _ => rfl))
    | ((with_reducible refine Pres_writeToken ?_); refine LinkInv.write ?_;
       (first | exact textTok_plain _ _ _ kind_text | exact plainTok_inline _ _
              | exact textTok_plain _ _ _ kind_code | exact textTok_plain _ _ _ kind_url
              | exact plainTok_mk _ _ _ _ _ kind_code | exact plainTok_mk _ _ _ _ _ kind_text
              | exact plainTok_mk _ _ _ _ _ kind_rule))
    | ((with_reducible refine Pres_writeTokenIgnore ?_); refine LinkInv.write ?_;
       (first | exact textTok_plain _ _ _ kind_text | exact plainTok_inline _ _
              | exact textTok_plain _ _ _ kind_code | exact textTok_plain _ _ _ kind_url
              | exact plainTok_mk _ _ _ _ _ kind_code | exact plainTok_mk _ _ _ _ _ kind_text
              | exact plainTok_mk _ _ _ _ _ kind_rule))
    | ((with_reducible refine Pres_setWrapIndent ?_); exact LinkInv.indent)
    | ((with_reducible refine Pres_modifyP ?_); exact LinkInv.p flushPendingDelims_osc8)
    | ((with_reducible refine Pres_modifyP ?_);
       exact LinkInv.p (fun p => clearListIfOutdented_osc8 p _))
    | with_reducible exact Pres_panicNow
    | with_reducible exact Pres_fuelOutNow
    | with_reducible refine Pres_ignoreErr ?_
    | ((fail_if_success (with_reducible refine Pres_ite ?_ ?_)); (try subst_vars); split)
    | (with_reducible generalize hK : (fun y : Unit => (_ : PM (List Event) Unit)) = jp;
       fail_if_success (clear hK jp);
       refine Pres_cut (P := Pres (LinkInv osc8 false) (jp ())) ?_ (fun hjp => ?_);
       on_goal 2 => (have hjp0 := hjp; rw [← hK] at hjp0; beta_reduce at hjp0);
       subst hK; beta_reduce)
    | ((with_reducible (conv => (arg 2; whnf)));
       with_reducible generalize hK : (fun y : Unit => (_ : PM (List Event) Unit)) = jp;
       fail_if_success (clear hK jp);
       refine Pres_cut (P := Pres (LinkInv osc8 false) (jp ())) ?_ (fun hjp => ?_);
       on_goal 2 => (have hjp0 := hjp; rw [← hK] at hjp0; beta_reduce at hjp0);
       subst hK; beta_reduce)
    | with_reducible refine Pres_ite ?_ ?_
    | split)

theorem processCodeFenceLine_link (osc8 : Bool) (line : List Nat) :
    Pres (LinkInv osc8 false) (processCodeFenceLine captureStream line) := by
  unfold processCodeFenceLine
  repeat (first
    | with_reducible exact Pres_pure _
    | with_reducible exact Pres_getP
    | with_reducible assumption
    | with_reducible refine Pres_bind ?_ (fun _ => ?_)
    | ((with_reducible refine Pres_modifyP ?_); exact LinkInv.p (fun _ => rfl))
    | ((with_reducible refine Pres_modifyInline ?_); exact LinkInv.p (fun _ => rfl))
    | ((with_reducible refine Pres_writeToken ?_); refine LinkInv.write ?_;
       (first | exact textTok_plain _ _ _ kind_text | exact plainTok_inline _ _
              | exact textTok_plain _ _ _ kind_code | exact textTok_plain _ _ _ kind_url
              | exact plainTok_mk _ _ _ _ _ kind_code | exact plainTok_mk _ _ _ _ _ kind_text
              | exact plainTok_mk _ _ _ _ _ kind_rule))
    | ((with_reducible refine Pres_writeTokenIgnore ?_); refine LinkInv.write ?_;
       (first | exact textTok_plain _ _ _ kind_text | exact plainTok_inline _ _
              | exact textTok_plain _ _ _ kind_code | exact textTok_plain _ _ _ kind_url
              | exact plainTok_mk _ _ _ _ _ kind_code | exact plainTok_mk _ _ _ _ _ kind_text
              | exact plainTok_mk _ _ _ _ _ kind_rule))
    | ((with_reducible refine Pres_setWrapIndent ?_); exact LinkInv.indent)
    | ((with_reducible refine Pres_modifyP ?_); exact LinkInv.p flushPendingDelims_osc8)
    | ((with_reducible refine Pres_modifyP ?_);
       exact LinkInv.p (fun p => clearListIfOutdented_osc8 p _))
    | with_reducible exact Pres_panicNow
    | with_reducible exact Pres_fuelOutNow
    | with_reducible apply emitCodeLine_link
    | with_reducible refine Pres_ignoreErr ?_
    | ((fail_if_success (with_reducible refine Pres_ite ?_ ?_)); (try subst_vars); split)
    | (with_reducible generalize hK : (fun y : Unit => (_ : PM (List Event) Unit)) = jp;
       fail_if_success (clear hK jp);
       refine Pres_cut (P := Pres (LinkInv osc8 false) (jp ())) ?_ (fun hjp => ?_);
       on_goal 2 => (have hjp0 := hjp; rw [← hK] at hjp0; beta_reduce at hjp0);
       subst hK; beta_reduce)
    | ((with_reducible (conv => (arg 2; whnf)));
       with_reducible generalize hK : (fun y : Unit => (_ : PM (List Event) Unit)) = jp;
       fail_if_success (clear hK jp);
       refine Pres_cut (P := Pres (LinkInv osc8 false) (jp ())) ?_ (fun hjp => ?_);
       on_goal 2 => (have hjp0 := hjp; rw [← hK] at hjp0; beta_reduce at hjp0);
       subst hK; beta_reduce)
    | with_reducible refine Pres_ite ?_ ?_
    | split)

theorem emitBlankQuoteLine_link (osc8 : Bool) (listFirst : Bool) (listLen depth : Nat) :
    Pres (LinkInv osc8 false) (emitBlankQuoteLine captureStream listFirst listLen depth) := by
  unfold emitBlankQuoteLine
  repeat (first
    | with_reducible exact Pres_pure _
    | with_reducible exact Pres_getP
    | with_reducible assumption
    | with_reducible refine Pres_bind ?_ (fun _ => ?_)
    | ((with_reducible refine Pres_modifyP ?_); exact LinkInv.p (fun _ => rfl))
    | ((with_reducible refine Pres_modifyInline ?_); exact LinkInv.p (fun _ => rfl))
    | ((with_reducible refine Pres_writeToken ?_); refine LinkInv.write ?_;
       (first | exact textTok_plain _ _ _ kind_text | exact plainTok_inline _ _
              | exact textTok_plain _ _ _ kind_code | exact textTok_plain _ _ _ kind_url
              | exact plainTok_mk _ _ _ _ _ kind_code | exact plainTok_mk _ _ _ _ _ kind_text
              | exact plainTok_mk _ _ _ _ _ kind_rule))
    | ((with_reducible refine Pres_writeTokenIgnore ?_); refine LinkInv.write ?_;
       (first | exact textTok_plain _ _ _ kind_text | exact plainTok_inline _ _
              | exact textTok_plain _ _ _ kind_code | exact textTok_plain _ _ _ kind_url
              | exact plainTok_mk _ _ _ _ _ kind_code | exact plainTok_mk _ _ _ _ _ kind_text
              | exact plainTok_mk _ _ _ _ _ kind_rule))
    | ((with_reducible refine Pres_setWrapIndent ?_); exact LinkInv.indent)
    | ((with_reducible refine Pres_modifyP ?_); exact LinkInv.p flushPendingDelims_osc8)
    | ((with_reducible refine Pres_modifyP ?_);
       exact LinkInv.p (fun p => clearListIfOutdented_osc8 p _))
    | with_reducible exact Pres_panicNow
    | with_reducible exact Pres_fuelOutNow
    | with_reducible apply applyPendingBreak_link
    | with_reducible apply emitQuotePrefixBare_link
    | with_reducible apply emitListPrefix_link
    | with_reducible refine Pres_ignoreErr ?_
    | ((fail_if_success (with_reducible refine Pres_ite ?_ ?_)); (try subst_vars); split)
    | (with_reducible generalize hK : (fun y : Unit => (_ : PM (List Event) Unit)) = jp;
       fail_if_success (clear hK jp);
       refine Pres_cut (P := Pres (LinkInv osc8 false) (jp ())) ?_ (fun hjp => ?_);
       on_goal 2 => (have hjp0 := hjp; rw [← hK] at hjp0; beta_reduce at hjp0);
       subst hK; beta_reduce)
    | ((with_reducible (conv => (arg 2; whnf)));
       with_reducible generalize hK : (fun y : Unit => (_ : PM (List Event) Unit)) = jp;
       fail_if_success (clear hK jp);
       refine Pres_cut (P := Pres (LinkInv osc8 false) (jp ())) ?_ (fun hjp => ?_);
       on_goal 2 => (have hjp0 := hjp; rw [← hK] at hjp0; beta_reduce at hjp0);
       subst hK; beta_reduce)
    | with_reducible refine Pres_ite ?_ ?_
    | split)

theorem emitContent_link (osc8 : Bool) (content : List Nat) :
    Pres (LinkInv osc8 false) (emitContent captureStream content) := by
  unfold emitContent
  repeat (first
    | with_reducible exact Pres_pure _
    | with_reducible exact Pres_getP
    | with_reducible assumption
    | with_reducible refine Pres_bind ?_ (fun _ => ?_)
    | ((with_reducible refine Pres_modifyP ?_); exact LinkInv.p (fun _ => rfl))
    | ((with_reducible refine Pres_modifyInline ?_); exact LinkInv.p (fun _ => rfl))
    | ((with_reducible refine Pres_writeToken ?_); refine LinkInv.write ?_;
       (first | exact textTok_plain _ _ _ kind_text | exact plainTok_inline _ _
              | exact textTok_plain _ _ _ kind_code | exact textTok_plain _ _ _ kind_url
              | exact plainTok_mk _ _ _ _ _ kind_code | exact plainTok_mk _ _ _ _ _ kind_text
              | exact plainTok_mk _ _ _ _ _ kind_rule))
    | ((with_reducible refine Pres_writeTokenIgnore ?_); refine LinkInv.write ?_;
       (first | exact textTok_plain _ _ _ kind_text | exact plainTok_inline _ _
              | exact textTok_plain _ _ _ kind_code | exact textTok_plain _ _ _ kind_url
              | exact plainTok_mk _ _ _ _ _ kind_code | exact plainTok_mk _ _ _ _ _ kind_text
              | exact plainTok_mk _ _ _ _ _ kind_rule))
    | ((with_reducible refine Pres_setWrapIndent ?_); exact LinkInv.indent)
    | ((with_reducible refine Pres_modifyP ?_); exact LinkInv.p flushPendingDelims_osc8)
    | ((with_reducible refine Pres_modifyP ?_);
       exact LinkInv.p (fun p => clearListIfOutdented_osc8 p _))
    | with_reducible exact Pres_panicNow
    | with_reducible exact Pres_fuelOutNow
    | with_reducible apply emitInlineRunes_link
    | with_reducible apply lineBufFrom_link
    | with_reducible refine Pres_ignoreErr ?_
    | ((fail_if_success (with_reducible refine Pres_ite ?_ ?_)); (try subst_vars); split)
    | (with_reducible generalize hK : (fun y : Unit => (_ : PM (List Event) Unit)) = jp;
       fail_if_success (clear hK jp);
       refine Pres_cut (P := Pres (LinkInv osc8 false) (jp ())) ?_ (fun hjp => ?_);
       on_goal 2 => (have hjp0 := hjp; rw [← hK] at hjp0; beta_reduce at hjp0);
       subst hK; beta_reduce)
    | ((with_reducible (conv => (arg 2; whnf)));
       with_reducible generalize hK : (fun y : Unit => (_ : PM (List Event) Unit)) = jp;
       fail_if_success (clear hK jp);
       refine Pres_cut (P := Pres (LinkInv osc8 false) (jp ())) ?_ (fun hjp => ?_);
       on_goal 2 => (have hjp0 := hjp; rw [← hK] at hjp0; beta_reduce at hjp0);
       subst hK; beta_reduce)
    | with_reducible refine Pres_ite ?_ ?_
    | split)

theorem decideParagraph_link (osc8 : Bool) (depth : Nat) (rest : List Nat) (blockStart : Bool) :
    Pres (LinkInv osc8 false) (decideParagraph captureStream depth rest blockStart) := by
  unfold decideParagraph
  repeat (first
    | with_reducible exact Pres_pure _
    | with_reducible exact Pres_getP
    | with_reducible assumption
    | with_reducible refine Pres_bind ?_ (fun _ => ?_)
    | ((with_reducible refine Pres_modifyP ?_); exact LinkInv.p (fun _ => rfl))
    | ((with_reducible refine Pres_modifyInline ?_); exact LinkInv.p (fun _ => rfl))
    | ((with_reducible refine Pres_writeToken ?_); refine LinkInv.write ?_;
       (first | exact textTok_plain _ _ _ kind_text | exact plainTok_inline _ _
              | exact textTok_plain _ _ _ kind_code | exact textTok_plain _ _ _ kind_url
              | exact plainTok_mk _ _ _ _ _ kind_code | exact plainTok_mk _ _ _ _ _ kind_text
              | exact plainTok_mk _ _ _ _ _ kind_rule))
    | ((with_reducible refine Pres_writeTokenIgnore ?_); refine LinkInv.write ?_;
       (first | exact textTok_plain _ _ _ kind_text | exact plainTok_inline _ _
              | exact textTok_plain _ _ _ kind_code | exact textTok_plain _ _ _ kind_url
              | exact plainTok_mk _ _ _ _ _ kind_code | exact plainTok_mk _ _ _ _ _ kind_text
              | exact plainTok_mk _ _ _ _ _ kind_rule))
    | ((with_reducible refine Pres_setWrapIndent ?_); exact LinkInv.indent)
    | ((with_reducible refine Pres_modifyP ?_); exact LinkInv.p flushPendingDelims_osc8)
    | ((with_reducible refine Pres_modifyP ?_);
       exact LinkInv.p (fun p => clearListIfOutdented_osc8 p _))
    | with_reducible exact Pres_panicNow
    | with_reducible exact Pres_fuelOutNow
    | with_reducible apply applyPendingBreak_link
    | with_reducible apply emitPrefix_link
    | with_reducible apply emitContent_link
    | with_reducible refine Pres_ignoreErr ?_
    | ((fail_if_success (with_reducible refine Pres_ite ?_ ?_)); (try subst_vars); split)
    | (with_reducible generalize hK : (fun y : Unit => (_ : PM (List Event) Unit)) = jp;
       fail_if_success (clear hK jp);
       refine Pres_cut (P := Pres (LinkInv osc8 false) (jp ())) ?_ (fun hjp => ?_);
       on_goal 2 => (have hjp0 := hjp; rw [← hK] at hjp0; beta_reduce at hjp0);
       subst hK; beta_reduce)
    | ((with_reducible (conv => (arg 2; whnf)));
       with_reducible generalize hK : (fun y : Unit => (_ : PM (List Event) Unit)) = jp;
       fail_if_success (clear hK jp);
       refine Pres_cut (P := Pres (LinkInv osc8 false) (jp ())) ?_ (fun hjp => ?_);
       on_goal 2 => (have hjp0 := hjp; rw [← hK] at hjp0; beta_reduce at hjp0);
       subst hK; beta_reduce)
    | with_reducible refine Pres_ite ?_ ?_
    | split)

theorem decideHeading_link (osc8 : Bool) (depth lineIndent : Nat) (rest trimmed : List Nat)
    (explicit : Bool) :
    Pres (LinkInv osc8 false) (decideHeading captureStream depth lineIndent rest trimmed explicit)
      := by
  unfold decideHeading
  repeat (first
    | with_reducible exact Pres_pure _
    | with_reducible exact Pres_getP
    | with_reducible assumption
    | with_reducible refine Pres_bind ?_ (fun _ => ?_)
    | ((with_reducible refine Pres_modifyP ?_); exact LinkInv.p (fun _ => rfl))
    | ((with_reducible refine Pres_modifyInline ?_); exact LinkInv.p (fun _ => rfl))
    | ((with_reducible refine Pres_writeToken ?_); refine LinkInv.write ?_;
       (first | exact textTok_plain _ _ _ kind_text | exact plainTok_inline _ _
              | exact textTok_plain _ _ _ kind_code | exact textTok_plain _ _ _ kind_url
              | exact plainTok_mk _ _ _ _ _ kind_code | exact plainTok_mk _ _ _ _ _ kind_text
              | exact plainTok_mk _ _ _ _ _ kind_rule))
    | ((with_reducible refine Pres_writeTokenIgnore ?_); refine LinkInv.write ?_;
       (first | exact textTok_plain _ _ _ kind_text | exact plainTok_inline _ _
              | exact textTok_plain _ _ _ kind_code | exact textTok_plain _ _ _ kind_url
              | exact plainTok_mk _ _ _ _ _ kind_code | exact plainTok_mk _ _ _ _ _ kind_text
              | exact plainTok_mk _ _ _ _ _ kind_rule))
    | ((with_reducible refine Pres_setWrapIndent ?_); exact LinkInv.indent)
    | ((with_reducible refine Pres_modifyP ?_); exact LinkInv.p flushPendingDelims_osc8)
    | ((with_reducible refine Pres_modifyP ?_);
       exact LinkInv.p (fun p => clearListIfOutdented_osc8 p _))
    | with_reducible exact Pres_panicNow
    | with_reducible exact Pres_fuelOutNow
    | with_reducible apply applyPendingBreak_link
    | with_reducible apply emitPrefix_link
    | with_reducible apply emitInlineRunes_link
    | with_reducible apply lineBufFrom_link
    | with_reducible apply decideParagraph_link
    | with_reducible refine Pres_ignoreErr ?_
    | ((fail_if_success (with_reducible refine Pres_ite ?_ ?_)); (try subst_vars); split)
    | (with_reducible generalize hK : (fun y : Unit => (_ : PM (List Event) Unit)) = jp;
       fail_if_success (clear hK jp);
       refine Pres_cut (P := Pres (LinkInv osc8 false) (jp ())) ?_ (fun hjp => ?_);
       on_goal 2 => (have hjp0 := hjp; rw [← hK] at hjp0; beta_reduce at hjp0);
       subst hK; beta_reduce)
    | ((with_reducible (conv => (arg 2; whnf)));
       with_reducible generalize hK : (fun y : Unit => (_ : PM (List Event) Unit)) = jp;
       fail_if_success (clear hK jp);
       refine Pres_cut (P := Pres (LinkInv osc8 false) (jp ())) ?_ (fun hjp => ?_);
       on_goal 2 => (have hjp0 := hjp; rw [← hK] at hjp0; beta_reduce at hjp0);
       subst hK; beta_reduce)
    | with_reducible refine Pres_ite ?_ ?_
    | split)

theorem decideListItem_link (osc8 : Bool) (depth : Nat) (line : List Nat) (m : listMarker) :
    Pres (LinkInv osc8 false) (decideListItem captureStream depth line m) := by
  unfold decideListItem
  repeat (first
    | ((with_reducible refine Pres_getP_bind (fun x hx => ?_));
       refine (?_ : Pres (LinkInv osc8 false) _) x hx)
    | ((with_reducible refine Pres_modifyP ?_);
       refine LinkInv.const ((updateList_osc8 _ _ _ _ _ _ _).trans ?_); exact hx.1)
    | with_reducible exact Pres_pure _
    | with_reducible exact Pres_getP
    | with_reducible assumption
    | with_reducible refine Pres_bind ?_ (fun _ => ?_)
    | ((with_reducible refine Pres_modifyP ?_); exact LinkInv.p (fun _ => rfl))
    | ((with_reducible refine Pres_modifyInline ?_); exact LinkInv.p (fun _ => rfl))
    | ((with_reducible refine Pres_writeToken ?_); refine LinkInv.write ?_;
       (first | exact textTok_plain _ _ _ kind_text | exact plainTok_inline _ _
              | exact textTok_plain _ _ _ kind_code | exact textTok_plain _ _ _ kind_url
              | exact plainTok_mk _ _ _ _ _ kind_code | exact plainTok_mk _ _ _ _ _ kind_text
              | exact plainTok_mk _ _ _ _ _ kind_rule))
    | ((with_reducible refine Pres_writeTokenIgnore ?_); refine LinkInv.write ?_;
       (first | exact textTok_plain _ _ _ kind_text | exact plainTok_inline _ _
              | exact textTok_plain _ _ _ kind_code | exact textTok_plain _ _ _ kind_url
              | exact plainTok_mk _ _ _ _ _ kind_code | exact plainTok_mk _ _ _ _ _ kind_text
              | exact plainTok_mk _ _ _ _ _ kind_rule))
    | ((with_reducible refine Pres_setWrapIndent ?_); exact LinkInv.indent)
    | ((with_reducible refine Pres_modifyP ?_); exact LinkInv.p flushPendingDelims_osc8)
    | ((with_reducible refine Pres_modifyP ?_);
       exact LinkInv.p (fun p => clearListIfOutdented_osc8 p _))
    | with_reducible exact Pres_panicNow
    | with_reducible exact Pres_fuelOutNow
    | with_reducible apply applyPendingBreak_link
    | with_reducible apply emitQuotePrefixBare_link
    | with_reducible apply emitPrefix_link
    | with_reducible apply emitContent_link
    | with_reducible refine Pres_ignoreErr ?_
    | ((fail_if_success (with_reducible refine Pres_ite ?_ ?_)); (try subst_vars); split)
    | (with_reducible generalize hK : (fun y : Unit => (_ : PM (List Event) Unit)) = jp;
       fail_if_success (clear hK jp);
       refine Pres_cut (P := Pres (LinkInv osc8 false) (jp ())) ?_ (fun hjp => ?_);
       on_goal 2 => (have hjp0 := hjp; rw [← hK] at hjp0; beta_reduce at hjp0);
       subst hK; beta_reduce)
    | ((with_reducible (conv => (arg 2; whnf)));
       with_reducible generalize hK : (fun y : Unit => (_ : PM (List Event) Unit)) = jp;
       fail_if_success (clear hK jp);
       refine Pres_cut (P := Pres (LinkInv osc8 false) (jp ())) ?_ (fun hjp => ?_);
       on_goal 2 => (have hjp0 := hjp; rw [← hK] at hjp0; beta_reduce at hjp0);
       subst hK; beta_reduce)
    | with_reducible refine Pres_ite ?_ ?_
    | split)

theorem decideListContinuation_link (osc8 : Bool) (depth lineIndent indentForList : Nat)
    (trimmed : List Nat) (explicit quoteLineWithIndent : Bool) :
    Pres (LinkInv osc8 false) (decideListContinuation captureStream depth lineIndent indentForList
      trimmed explicit quoteLineWithIndent) := by
  unfold decideListContinuation
  repeat (first
    | with_reducible exact Pres_pure _
    | with_reducible exact Pres_getP
    | with_reducible assumption
    | with_reducible refine Pres_bind ?_ (fun _ => ?_)
    | ((with_reducible refine Pres_modifyP ?_); exact LinkInv.p (fun _ => rfl))
    | ((with_reducible refine Pres_modifyInline ?_); exact LinkInv.p (fun _ => rfl))
    | ((with_reducible refine Pres_writeToken ?_); refine LinkInv.write ?_;
       (first | exact textTok_plain _ _ _ kind_text | exact plainTok_inline _ _
              | exact textTok_plain _ _ _ kind_code | exact textTok_plain _ _ _ kind_url
              | exact plainTok_mk _ _ _ _ _ kind_code | exact plainTok_mk _ _ _ _ _ kind_text
              | exact plainTok_mk _ _ _ _ _ kind_rule))
    | ((with_reducible refine Pres_writeTokenIgnore ?_); refine LinkInv.write ?_;
       (first | exact textTok_plain _ _ _ kind_text | exact plainTok_inline _ _
              | exact textTok_plain _ _ _ kind_code | exact textTok_plain _ _ _ kind_url
              | exact plainTok_mk _ _ _ _ _ kind_code | exact plainTok_mk _ _ _ _ _ kind_text
              | exact plainTok_mk _ _ _ _ _ kind_rule))
    | ((with_reducible refine Pres_setWrapIndent ?_); exact LinkInv.indent)
    | ((with_reducible refine Pres_modifyP ?_); exact LinkInv.p flushPendingDelims_osc8)
    | ((with_reducible refine Pres_modifyP ?_);
       exact LinkInv.p (fun p => clearListIfOutdented_osc8 p _))
    | with_reducible exact Pres_panicNow
    | with_reducible exact Pres_fuelOutNow
    | with_reducible apply applyPendingBreak_link
    | with_reducible apply emitQuotePrefix_link
    | with_reducible apply emitListPrefix_link
    | with_reducible apply emitPrefix_link
    | with_reducible apply emitContent_link
    | with_reducible refine Pres_ignoreErr ?_
    | ((fail_if_success (with_reducible refine Pres_ite ?_ ?_)); (try subst_vars); split)
    | (with_reducible generalize hK : (fun y : Unit => (_ : PM (List Event) Unit)) = jp;
       fail_if_success (clear hK jp);
       refine Pres_cut (P := Pres (LinkInv osc8 false) (jp ())) ?_ (fun hjp => ?_);
       on_goal 2 => (have hjp0 := hjp; rw [← hK] at hjp0; beta_reduce at hjp0);
       subst hK; beta_reduce)
    | ((with_reducible (conv => (arg 2; whnf)));
       with_reducible generalize hK : (fun y : Unit => (_ : PM (List Event) Unit)) = jp;
       fail_if_success (clear hK jp);
       refine Pres_cut (P := Pres (LinkInv osc8 false) (jp ())) ?_ (fun hjp => ?_);
       on_goal 2 => (have hjp0 := hjp; rw [← hK] at hjp0; beta_reduce at hjp0);
       subst hK; beta_reduce)
    | with_reducible refine Pres_ite ?_ ?_
    | split)

theorem decideQuoteContext_link (osc8 : Bool) (line : List Nat) :
    Pres (LinkInv osc8 false) (decideQuoteContext captureStream line) := by
  unfold decideQuoteContext
  repeat (first
    | with_reducible exact Pres_pure _
    | with_reducible exact Pres_getP
    | with_reducible assumption
    | with_reducible refine Pres_bind ?_ (fun _ => ?_)
    | ((with_reducible refine Pres_modifyP ?_); exact LinkInv.p (fun _ => rfl))
    | ((with_reducible refine Pres_modifyInline ?_); exact LinkInv.p (fun _ => rfl))
    | ((with_reducible refine Pres_writeToken ?_); refine LinkInv.write ?_;
       (first | exact textTok_plain _ _ _ kind_text | exact plainTok_inline _ _
              | exact textTok_plain _ _ _ kind_code | exact textTok_plain _ _ _ kind_url
              | exact plainTok_mk _ _ _ _ _ kind_code | exact plainTok_mk _ _ _ _ _ kind_text
              | exact plainTok_mk _ _ _ _ _ kind_rule))
    | ((with_reducible refine Pres_writeTokenIgnore ?_); refine LinkInv.write ?_;
       (first | exact textTok_plain _ _ _ kind_text | exact plainTok_inline _ _
              | exact textTok_plain _ _ _ kind_code | exact textTok_plain _ _ _ kind_url
              | exact plainTok_mk _ _ _ _ _ kind_code | exact plainTok_mk _ _ _ _ _ kind_text
              | exact plainTok_mk _ _ _ _ _ kind_rule))
    | ((with_reducible refine Pres_setWrapIndent ?_); exact LinkInv.indent)
    | ((with_reducible refine Pres_modifyP ?_); exact LinkInv.p flushPendingDelims_osc8)
    | ((with_reducible refine Pres_modifyP ?_);
       exact LinkInv.p (fun p => clearListIfOutdented_osc8 p _))
    | with_reducible exact Pres_panicNow
    | with_reducible exact Pres_fuelOutNow
    | with_reducible apply emitBlankQuoteLine_link
    | with_reducible refine Pres_ignoreErr ?_
    | ((fail_if_success (with_reducible refine Pres_ite ?_ ?_)); (try subst_vars); split)
    | (with_reducible generalize hK : (fun y : Unit => (_ : PM (List Event) Unit)) = jp;
       fail_if_success (clear hK jp);
       refine Pres_cut (P := Pres (LinkInv osc8 false) (jp ())) ?_ (fun hjp => ?_);
       on_goal 2 => (have hjp0 := hjp; rw [← hK] at hjp0; beta_reduce at hjp0);
       subst hK; beta_reduce)
    | ((with_reducible (conv => (arg 2; whnf)));
       with_reducible generalize hK : (fun y : Unit => (_ : PM (List Event) Unit)) = jp;
       fail_if_success (clear hK jp);
       refine Pres_cut (P := Pres (LinkInv osc8 false) (jp ())) ?_ (fun hjp => ?_);
       on_goal 2 => (have hjp0 := hjp; rw [← hK] at hjp0; beta_reduce at hjp0);
       subst hK; beta_reduce)
    | with_reducible refine Pres_ite ?_ ?_
    | split)

theorem decideRest_link (osc8 : Bool) (force : Bool) (depth lineIndent : Nat) (line rest trimmed
    : List Nat) (explicit : Bool) :
    Pres (LinkInv osc8 false) (decideRest captureStream force depth lineIndent line rest trimmed
      explicit) := by
  unfold decideRest
  repeat (first
    | with_reducible exact Pres_pure _
    | with_reducible exact Pres_getP
    | with_reducible assumption
    | with_reducible refine Pres_bind ?_ (fun _ => ?_)
    | ((with_reducible refine Pres_modifyP ?_); exact LinkInv.p (fun _ => rfl))
    | ((with_reducible refine Pres_modifyInline ?_); exact LinkInv.p (fun _ => rfl))
    | ((with_reducible refine Pres_writeToken ?_); refine LinkInv.write ?_;
       (first | exact textTok_plain _ _ _ kind_text | exact plainTok_inline _ _
              | exact textTok_plain _ _ _ kind_code | exact textTok_plain _ _ _ kind_url
              | exact plainTok_mk _ _ _ _ _ kind_code | exact plainTok_mk _ _ _ _ _ kind_text
              | exact plainTok_mk _ _ _ _ _ kind_rule))
    | ((with_reducible refine Pres_writeTokenIgnore ?_); refine LinkInv.write ?_;
       (first | exact textTok_plain _ _ _ kind_text | exact plainTok_inline _ _
              | exact textTok_plain _ _ _ kind_code | exact textTok_plain _ _ _ kind_url
              | exact plainTok_mk _ _ _ _ _ kind_code | exact plainTok_mk _ _ _ _ _ kind_text
              | exact plainTok_mk _ _ _ _ _ kind_rule))
    | ((with_reducible refine Pres_setWrapIndent ?_); exact LinkInv.indent)
    | ((with_reducible refine Pres_modifyP ?_); exact LinkInv.p flushPendingDelims_osc8)
    | ((with_reducible refine Pres_modifyP ?_);
       exact LinkInv.p (fun p => clearListIfOutdented_osc8 p _))
    | with_reducible exact Pres_panicNow
    | with_reducible exact Pres_fuelOutNow
    | with_reducible apply decideParagraph_link
    | with_reducible apply decideListContinuation_link
    | with_reducible refine Pres_ignoreErr ?_
    | ((fail_if_success (with_reducible refine Pres_ite ?_ ?_)); (try subst_vars); split)
    | (with_reducible generalize hK : (fun y : Unit => (_ : PM (List Event) Unit)) = jp;
       fail_if_success (clear hK jp);
       refine Pres_cut (P := Pres (LinkInv osc8 false) (jp ())) ?_ (fun hjp => ?_);
       on_goal 2 => (have hjp0 := hjp; rw [← hK] at hjp0; beta_reduce at hjp0);
       subst hK; beta_reduce)
    | ((with_reducible (conv => (arg 2; whnf)));
       with_reducible generalize hK : (fun y : Unit => (_ : PM (List Event) Unit)) = jp;
       fail_if_success (clear hK jp);
       refine Pres_cut (P := Pres (LinkInv osc8 false) (jp ())) ?_ (fun hjp => ?_);
       on_goal 2 => (have hjp0 := hjp; rw [← hK] at hjp0; beta_reduce at hjp0);
       subst hK; beta_reduce)
    | with_reducible refine Pres_ite ?_ ?_
    | split)

theorem maybeDecideLine_link (osc8 : Bool) (force : Bool) :
    Pres (LinkInv osc8 false) (maybeDecideLine captureStream force) := by
  unfold maybeDecideLine
  repeat (first
    | with_reducible exact Pres_pure _
    | with_reducible exact Pres_getP
    | with_reducible assumption
    | with_reducible refine Pres_bind ?_ (fun _ => ?_)
    | ((with_reducible refine Pres_modifyP ?_); exact LinkInv.p (fun _ => rfl))
    | ((with_reducible refine Pres_modifyInline ?_); exact LinkInv.p (fun _ => rfl))
    | ((with_reducible refine Pres_writeToken ?_); refine LinkInv.write ?_;
       (first | exact textTok_plain _ _ _ kind_text | exact plainTok_inline _ _
              | exact textTok_plain _ _ _ kind_code | exact textTok_plain _ _ _ kind_url
              | exact plainTok_mk _ _ _ _ _ kind_code | exact plainTok_mk _ _ _ _ _ kind_text
              | exact plainTok_mk _ _ _ _ _ kind_rule))
    | ((with_reducible refine Pres_writeTokenIgnore ?_); refine LinkInv.write ?_;
       (first | exact textTok_plain _ _ _ kind_text | exact plainTok_inline _ _
              | exact textTok_plain _ _ _ kind_code | exact textTok_plain _ _ _ kind_url
              | exact plainTok_mk _ _ _ _ _ kind_code | exact plainTok_mk _ _ _ _ _ kind_text
              | exact plainTok_mk _ _ _ _ _ kind_rule))
    | ((with_reducible refine Pres_setWrapIndent ?_); exact LinkInv.indent)
    | ((with_reducible refine Pres_modifyP ?_); exact LinkInv.p flushPendingDelims_osc8)
    | ((with_reducible refine Pres_modifyP ?_);
       exact LinkInv.p (fun p => clearListIfOutdented_osc8 p _))
    | with_reducible exact Pres_panicNow
    | with_reducible exact Pres_fuelOutNow
    | with_reducible apply applyPendingBreak_link
    | with_reducible apply emitBlankQuoteLine_link
    | with_reducible apply decideHeading_link
    | with_reducible apply decideListItem_link
    | with_reducible apply decideQuoteContext_link
    | with_reducible apply decideRest_link
    | with_reducible refine Pres_ignoreErr ?_
    | ((fail_if_success (with_reducible refine Pres_ite ?_ ?_)); (try subst_vars); split)
    | (with_reducible generalize hK : (fun y : Unit => (_ : PM (List Event) Unit)) = jp;
       fail_if_success (clear hK jp);
       refine Pres_cut (P := Pres (LinkInv osc8 false) (jp ())) ?_ (fun hjp => ?_);
       on_goal 2 => (have hjp0 := hjp; rw [← hK] at hjp0; beta_reduce at hjp0);
       subst hK; beta_reduce)
    | ((with_reducible (conv => (arg 2; whnf)));
       with_reducible generalize hK : (fun y : Unit => (_ : PM (List Event) Unit)) = jp;
       fail_if_success (clear hK jp);
       refine Pres_cut (P := Pres (LinkInv osc8 false) (jp ())) ?_ (fun hjp => ?_);
       on_goal 2 => (have hjp0 := hjp; rw [← hK] at hjp0; beta_reduce at hjp0);
       subst hK; beta_reduce)
    | with_reducible refine Pres_ite ?_ ?_
    | split)

theorem replayLineWith_link (osc8 : Bool) (feed : Nat → PM (List Event) Unit)
    (hfeed : ∀ r, Pres (LinkInv osc8 false) (feed r)) (line : List Nat) :
    Pres (LinkInv osc8 false) (replayLineWith feed line) := by
  unfold replayLineWith
  exact Pres_bind (Pres_modifyP (LinkInv.p (fun _ => rfl))) (fun _ => Pres_forM hfeed _)

theorem maybeDecideIndentCodeLineWith_link (osc8 : Bool)
    (replay : List Nat → PM (List Event) Unit)
    (hreplay : ∀ line, Pres (LinkInv osc8 false) (replay line)) (force : Bool) :
    Pres (LinkInv osc8 false) (maybeDecideIndentCodeLineWith captureStream replay force) := by
  unfold maybeDecideIndentCodeLineWith
  repeat (first
    | with_reducible exact hreplay _
    | with_reducible exact Pres_pure _
    | with_reducible exact Pres_getP
    | with_reducible assumption
    | with_reducible refine Pres_bind ?_ (fun _ => ?_)
    | ((with_reducible refine Pres_modifyP ?_); exact LinkInv.p (fun _ => rfl))
    | ((with_reducible refine Pres_modifyInline ?_); exact LinkInv.p (fun _ => rfl))
    | ((with_reducible refine Pres_writeToken ?_); refine LinkInv.write ?_;
       (first | exact textTok_plain _ _ _ kind_text | exact plainTok_inline _ _
              | exact textTok_plain _ _ _ kind_code | exact textTok_plain _ _ _ kind_url
              | exact plainTok_mk _ _ _ _ _ kind_code | exact plainTok_mk _ _ _ _ _ kind_text
              | exact plainTok_mk _ _ _ _ _ kind_rule))
    | ((with_reducible refine Pres_writeTokenIgnore ?_); refine LinkInv.write ?_;
       (first | exact textTok_plain _ _ _ kind_text | exact plainTok_inline _ _
              | exact textTok_plain _ _ _ kind_code | exact textTok_plain _ _ _ kind_url
              | exact plainTok_mk _ _ _ _ _ kind_code | exact plainTok_mk _ _ _ _ _ kind_text
              | exact plainTok_mk _ _ _ _ _ kind_rule))
    | ((with_reducible refine Pres_setWrapIndent ?_); exact LinkInv.indent)
    | ((with_reducible refine Pres_modifyP ?_); exact LinkInv.p flushPendingDelims_osc8)
    | ((with_reducible refine Pres_modifyP ?_);
       exact LinkInv.p (fun p => clearListIfOutdented_osc8 p _))
    | with_reducible exact Pres_panicNow
    | with_reducible exact Pres_fuelOutNow
    | with_reducible apply applyPendingBreak_link
    | with_reducible apply emitCodeLine_link
    | with_reducible apply emitBlankQuoteLine_link
    | with_reducible refine Pres_ignoreErr ?_
    | ((fail_if_success (with_reducible refine Pres_ite ?_ ?_)); (try subst_vars); split)
    | (with_reducible generalize hK : (fun y : Unit => (_ : PM (List Event) Unit)) = jp;
       fail_if_success (clear hK jp);
       refine Pres_cut (P := Pres (LinkInv osc8 false) (jp ())) ?_ (fun hjp => ?_);
       on_goal 2 => (have hjp0 := hjp; rw [← hK] at hjp0; beta_reduce at hjp0);
       subst hK; beta_reduce)
    | ((with_reducible (conv => (arg 2; whnf)));
       with_reducible generalize hK : (fun y : Unit => (_ : PM (List Event) Unit)) = jp;
       fail_if_success (clear hK jp);
       refine Pres_cut (P := Pres (LinkInv osc8 false) (jp ())) ?_ (fun hjp => ?_);
       on_goal 2 => (have hjp0 := hjp; rw [← hK] at hjp0; beta_reduce at hjp0);
       subst hK; beta_reduce)
    | with_reducible refine Pres_ite ?_ ?_
    | split)

theorem feedRunePendingQuote_link (osc8 : Bool) (r : Nat) :
    Pres (LinkInv osc8 false) (feedRunePendingQuote captureStream r) := by
  unfold feedRunePendingQuote
  repeat (first
    | with_reducible exact Pres_pure _
    | with_reducible exact Pres_getP
    | with_reducible assumption
    | with_reducible refine Pres_bind ?_ (fun _ => ?_)
    | ((with_reducible refine Pres_modifyP ?_); exact LinkInv.p (fun _ => rfl))
    | ((with_reducible refine Pres_modifyInline ?_); exact LinkInv.p (fun _ => rfl))
    | ((with_reducible refine Pres_writeToken ?_); refine LinkInv.write ?_;
       (first | exact textTok_plain _ _ _ kind_text | exact plainTok_inline _ _
              | exact textTok_plain _ _ _ kind_code | exact textTok_plain _ _ _ kind_url
              | exact plainTok_mk _ _ _ _ _ kind_code | exact plainTok_mk _ _ _ _ _ kind_text
              | exact plainTok_mk _ _ _ _ _ kind_rule))
    | ((with_reducible refine Pres_writeTokenIgnore ?_); refine LinkInv.write ?_;
       (first | exact textTok_plain _ _ _ kind_text | exact plainTok_inline _ _
              | exact textTok_plain _ _ _ kind_code | exact textTok_plain _ _ _ kind_url
              | exact plainTok_mk _ _ _ _ _ kind_code | exact plainTok_mk _ _ _ _ _ kind_text
              | exact plainTok_mk _ _ _ _ _ kind_rule))
    | ((with_reducible refine Pres_setWrapIndent ?_); exact LinkInv.indent)
    | ((with_reducible refine Pres_modifyP ?_); exact LinkInv.p flushPendingDelims_osc8)
    | ((with_reducible refine Pres_modifyP ?_);
       exact LinkInv.p (fun p => clearListIfOutdented_osc8 p _))
    | with_reducible exact Pres_panicNow
    | with_reducible exact Pres_fuelOutNow
    | with_reducible apply emitBlankQuoteLine_link
    | with_reducible refine Pres_ignoreErr ?_
    | ((fail_if_success (with_reducible refine Pres_ite ?_ ?_)); (try subst_vars); split)
    | (with_reducible generalize hK : (fun y : Unit => (_ : PM (List Event) Unit)) = jp;
       fail_if_success (clear hK jp);
       refine Pres_cut (P := Pres (LinkInv osc8 false) (jp ())) ?_ (fun hjp => ?_);
       on_goal 2 => (have hjp0 := hjp; rw [← hK] at hjp0; beta_reduce at hjp0);
       subst hK; beta_reduce)
    | ((with_reducible (conv => (arg 2; whnf)));
       with_reducible generalize hK : (fun y : Unit => (_ : PM (List Event) Unit)) = jp;
       fail_if_success (clear hK jp);
       refine Pres_cut (P := Pres (LinkInv osc8 false) (jp ())) ?_ (fun hjp => ?_);
       on_goal 2 => (have hjp0 := hjp; rw [← hK] at hjp0; beta_reduce at hjp0);
       subst hK; beta_reduce)
    | with_reducible refine Pres_ite ?_ ?_
    | split)

theorem feedRuneNewline_link (osc8 : Bool) :
    Pres (LinkInv osc8 false) (feedRuneNewline captureStream) := by
  unfold feedRuneNewline
  repeat (first
    | with_reducible exact Pres_pure _
    | with_reducible exact Pres_getP
    | with_reducible assumption
    | with_reducible refine Pres_bind ?_ (fun _ => ?_)
    | ((with_reducible refine Pres_modifyP ?_); exact LinkInv.p (fun _ => rfl))
    | ((with_reducible refine Pres_modifyInline ?_); exact LinkInv.p (fun _ => rfl))
    | ((with_reducible refine Pres_writeToken ?_); refine LinkInv.write ?_;
       (first | exact textTok_plain _ _ _ kind_text | exact plainTok_inline _ _
              | exact textTok_plain _ _ _ kind_code | exact textTok_plain _ _ _ kind_url
              | exact plainTok_mk _ _ _ _ _ kind_code | exact plainTok_mk _ _ _ _ _ kind_text
              | exact plainTok_mk _ _ _ _ _ kind_rule))
    | ((with_reducible refine Pres_writeTokenIgnore ?_); refine LinkInv.write ?_;
       (first | exact textTok_plain _ _ _ kind_text | exact plainTok_inline _ _
              | exact textTok_plain _ _ _ kind_code | exact textTok_plain _ _ _ kind_url
              | exact plainTok_mk _ _ _ _ _ kind_code | exact plainTok_mk _ _ _ _ _ kind_text
              | exact plainTok_mk _ _ _ _ _ kind_rule))
    | ((with_reducible refine Pres_setWrapIndent ?_); exact LinkInv.indent)
    | ((with_reducible refine Pres_modifyP ?_); exact LinkInv.p flushPendingDelims_osc8)
    | ((with_reducible refine Pres_modifyP ?_);
       exact LinkInv.p (fun p => clearListIfOutdented_osc8 p _))
    | with_reducible exact Pres_panicNow
    | with_reducible exact Pres_fuelOutNow
    | with_reducible apply flushPendingEntity_link
    | with_reducible apply flushPendingBackticks_link
    | with_reducible apply flushPendingNumUS_link
    | with_reducible apply maybeDecideLine_link
    | with_reducible refine Pres_ignoreErr ?_
    | ((fail_if_success (with_reducible refine Pres_ite ?_ ?_)); (try subst_vars); split)
    | (with_reducible generalize hK : (fun y : Unit => (_ : PM (List Event) Unit)) = jp;
       fail_if_success (clear hK jp);
       refine Pres_cut (P := Pres (LinkInv osc8 false) (jp ())) ?_ (fun hjp => ?_);
       on_goal 2 => (have hjp0 := hjp; rw [← hK] at hjp0; beta_reduce at hjp0);
       subst hK; beta_reduce)
    | ((with_reducible (conv => (arg 2; whnf)));
       with_reducible generalize hK : (fun y : Unit => (_ : PM (List Event) Unit)) = jp;
       fail_if_success (clear hK jp);
       refine Pres_cut (P := Pres (LinkInv osc8 false) (jp ())) ?_ (fun hjp => ?_);
       on_goal 2 => (have hjp0 := hjp; rw [← hK] at hjp0; beta_reduce at hjp0);
       subst hK; beta_reduce)
    | with_reducible refine Pres_ite ?_ ?_
    | split)

theorem feedRuneWith_link (osc8 : Bool) (replay : List Nat → PM (List Event) Unit)
    (hreplay : ∀ line, Pres (LinkInv osc8 false) (replay line)) (r : Nat) :
    Pres (LinkInv osc8 false) (feedRuneWith captureStream replay r) := by
  unfold feedRuneWith
  repeat (first
    | exact maybeDecideIndentCodeLineWith_link osc8 _ hreplay _
    | with_reducible exact hreplay _
    | with_reducible exact Pres_pure _
    | with_reducible exact Pres_getP
    | with_reducible assumption
    | with_reducible refine Pres_bind ?_ (fun _ => ?_)
    | ((with_reducible refine Pres_modifyP ?_); exact LinkInv.p (fun _ => rfl))
    | ((with_reducible refine Pres_modifyInline ?_); exact LinkInv.p (fun _ => rfl))
    | ((with_reducible refine Pres_writeToken ?_); refine LinkInv.write ?_;
       (first | exact textTok_plain _ _ _ kind_text | exact plainTok_inline _ _
              | exact textTok_plain _ _ _ kind_code | exact textTok_plain _ _ _ kind_url
              | exact plainTok_mk _ _ _ _ _ kind_code | exact plainTok_mk _ _ _ _ _ kind_text
              | exact plainTok_mk _ _ _ _ _ kind_rule))
    | ((with_reducible refine Pres_writeTokenIgnore ?_); refine LinkInv.write ?_;
       (first | exact textTok_plain _ _ _ kind_text | exact plainTok_inline _ _
              | exact textTok_plain _ _ _ kind_code | exact textTok_plain _ _ _ kind_url
              | exact plainTok_mk _ _ _ _ _ kind_code | exact plainTok_mk _ _ _ _ _ kind_text
              | exact plainTok_mk _ _ _ _ _ kind_rule))
    | ((with_reducible refine Pres_setWrapIndent ?_); exact LinkInv.indent)
    | ((with_reducible refine Pres_modifyP ?_); exact LinkInv.p flushPendingDelims_osc8)
    | ((with_reducible refine Pres_modifyP ?_);
       exact LinkInv.p (fun p => clearListIfOutdented_osc8 p _))
    | with_reducible exact Pres_panicNow
    | with_reducible exact Pres_fuelOutNow
    | with_reducible apply emitInline_link
    | with_reducible apply emitCodeRune_link
    | with_reducible apply processCodeFenceLine_link
    | with_reducible apply maybeDecideLine_link
    | with_reducible apply feedRunePendingQuote_link
    | with_reducible apply feedRuneNewline_link
    | with_reducible refine Pres_ignoreErr ?_
    | ((fail_if_success (with_reducible refine Pres_ite ?_ ?_)); (try subst_vars); split)
    | (with_reducible generalize hK : (fun y : Unit => (_ : PM (List Event) Unit)) = jp;
       fail_if_success (clear hK jp);
       refine Pres_cut (P := Pres (LinkInv osc8 false) (jp ())) ?_ (fun hjp => ?_);
       on_goal 2 => (have hjp0 := hjp; rw [← hK] at hjp0; beta_reduce at hjp0);
       subst hK; beta_reduce)
    | ((with_reducible (conv => (arg 2; whnf)));
       with_reducible generalize hK : (fun y : Unit => (_ : PM (List Event) Unit)) = jp;
       fail_if_success (clear hK jp);
       refine Pres_cut (P := Pres (LinkInv osc8 false) (jp ())) ?_ (fun hjp => ?_);
       on_goal 2 => (have hjp0 := hjp; rw [← hK] at hjp0; beta_reduce at hjp0);
       subst hK; beta_reduce)
    | with_reducible refine Pres_ite ?_ ?_
    | split)

theorem feedRune_zero_eq (r : Nat) :
    feedRune captureStream 0 r = feedRuneWith captureStream (fun _ => fuelOutNow) r := rfl

theorem feedRune_succ_eq (n r : Nat) :
    feedRune captureStream (n + 1) r
      = feedRuneWith captureStream (replayLineWith (feedRune captureStream n)) r := rfl

theorem feedRune_link (osc8 : Bool) (fuel : Nat) :
    ∀ r : Nat, Pres (LinkInv osc8 false) (feedRune captureStream fuel r) := by
  induction fuel with
  | zero =>
    intro r
    rw [feedRune_zero_eq]
    exact feedRuneWith_link osc8 _ (fun _ => Pres_fuelOutNow) r
  | succ n ih =>
    intro r
    rw [feedRune_succ_eq]
    exact feedRuneWith_link osc8 _ (fun line => replayLineWith_link osc8 _ ih line) r

theorem replayLine_link (osc8 : Bool) (fuel : Nat) (line : List Nat) :
    Pres (LinkInv osc8 false) (replayLine captureStream fuel line) := by
  unfold replayLine
  cases fuel with
  | zero => exact Pres_fuelOutNow
  | succ n => exact replayLineWith_link osc8 _ (feedRune_link osc8 n) line

theorem maybeDecideIndentCodeLine_link (osc8 : Bool) (fuel : Nat) (force : Bool) :
    Pres (LinkInv osc8 false) (maybeDecideIndentCodeLine captureStream fuel force) := by
  unfold maybeDecideIndentCodeLine
  exact maybeDecideIndentCodeLineWith_link osc8 _ (replayLine_link osc8 fuel) force

theorem finalizeFlushes_link (osc8 : Bool) :
    Pres (LinkInv osc8 false) (finalizeFlushes captureStream) := by
  unfold finalizeFlushes
  repeat (first
    | with_reducible exact Pres_pure _
    | with_reducible exact Pres_getP
    | with_reducible assumption
    | with_reducible refine Pres_bind ?_ (fun _ => ?_)
    | ((with_reducible refine Pres_modifyP ?_); exact LinkInv.p (fun _ => rfl))
    | ((with_reducible refine Pres_modifyInline ?_); exact LinkInv.p (fun _ => rfl))
    | ((with_reducible refine Pres_writeToken ?_); refine LinkInv.write ?_;
       (first | exact textTok_plain _ _ _ kind_text | exact plainTok_inline _ _
              | exact textTok_plain _ _ _ kind_code | exact textTok_plain _ _ _ kind_url
              | exact plainTok_mk _ _ _ _ _ kind_code | exact plainTok_mk _ _ _ _ _ kind_text
              | exact plainTok_mk _ _ _ _ _ kind_rule))
    | ((with_reducible refine Pres_writeTokenIgnore ?_); refine LinkInv.write ?_;
       (first | exact textTok_plain _ _ _ kind_text | exact plainTok_inline _ _
              | exact textTok_plain _ _ _ kind_code | exact textTok_plain _ _ _ kind_url
              | exact plainTok_mk _ _ _ _ _ kind_code | exact plainTok_mk _ _ _ _ _ kind_text
              | exact plainTok_mk _ _ _ _ _ kind_rule))
    | ((with_reducible refine Pres_setWrapIndent ?_); exact LinkInv.indent)
    | ((with_reducible refine Pres_modifyP ?_); exact LinkInv.p flushPendingDelims_osc8)
    | ((with_reducible refine Pres_modifyP ?_);
       exact LinkInv.p (fun p => clearListIfOutdented_osc8 p _))
    | with_reducible exact Pres_panicNow
    | with_reducible exact Pres_fuelOutNow
    | with_reducible apply flushPendingEntity_link
    | with_reducible apply flushPendingBackticks_link
    | with_reducible apply flushPendingNumUS_link
    | with_reducible refine Pres_ignoreErr ?_
    | ((fail_if_success (with_reducible refine Pres_ite ?_ ?_)); (try subst_vars); split)
    | (with_reducible generalize hK : (fun y : Unit => (_ : PM (List Event) Unit)) = jp;
       fail_if_success (clear hK jp);
       refine Pres_cut (P := Pres (LinkInv osc8 false) (jp ())) ?_ (fun hjp => ?_);
       on_goal 2 => (have hjp0 := hjp; rw [← hK] at hjp0; beta_reduce at hjp0);
       subst hK; beta_reduce)
    | ((with_reducible (conv => (arg 2; whnf)));
       with_reducible generalize hK : (fun y : Unit => (_ : PM (List Event) Unit)) = jp;
       fail_if_success (clear hK jp);
       refine Pres_cut (P := Pres (LinkInv osc8 false) (jp ())) ?_ (fun hjp => ?_);
       on_goal 2 => (have hjp0 := hjp; rw [← hK] at hjp0; beta_reduce at hjp0);
       subst hK; beta_reduce)
    | with_reducible refine Pres_ite ?_ ?_
    | split)

theorem finalize_link (osc8 : Bool) (fuel : Nat) :
    Pres (LinkInv osc8 false) (finalize captureStream fuel) := by
  unfold finalize
  repeat (first
    | with_reducible exact Pres_pure _
    | with_reducible exact Pres_getP
    | with_reducible assumption
    | with_reducible refine Pres_bind ?_ (fun _ => ?_)
    | ((with_reducible refine Pres_modifyP ?_); exact LinkInv.p (fun _ => rfl))
    | ((with_reducible refine Pres_modifyInline ?_); exact LinkInv.p (fun _ => rfl))
    | ((with_reducible refine Pres_writeToken ?_); refine LinkInv.write ?_;
       (first | exact textTok_plain _ _ _ kind_text | exact plainTok_inline _ _
              | exact textTok_plain _ _ _ kind_code | exact textTok_plain _ _ _ kind_url
              | exact plainTok_mk _ _ _ _ _ kind_code | exact plainTok_mk _ _ _ _ _ kind_text
              | exact plainTok_mk _ _ _ _ _ kind_rule))
    | ((with_reducible refine Pres_writeTokenIgnore ?_); refine LinkInv.write ?_;
       (first | exact textTok_plain _ _ _ kind_text | exact plainTok_inline _ _
              | exact textTok_plain _ _ _ kind_code | exact textTok_plain _ _ _ kind_url
              | exact plainTok_mk _ _ _ _ _ kind_code | exact plainTok_mk _ _ _ _ _ kind_text
              | exact plainTok_mk _ _ _ _ _ kind_rule))
    | ((with_reducible refine Pres_setWrapIndent ?_); exact LinkInv.indent)
    | ((with_reducible refine Pres_modifyP ?_); exact LinkInv.p flushPendingDelims_osc8)
    | ((with_reducible refine Pres_modifyP ?_);
       exact LinkInv.p (fun p => clearListIfOutdented_osc8 p _))
    | with_reducible exact Pres_panicNow
    | with_reducible exact Pres_fuelOutNow
    | with_reducible apply emitStyledText_link
    | with_reducible apply emitInlineRunes_link
    | with_reducible apply lineBufFrom_link
    | with_reducible apply maybeDecideLine_link
    | with_reducible apply maybeDecideIndentCodeLine_link
    | with_reducible apply finalizeFlushes_link
    | with_reducible refine Pres_ignoreErr ?_
    | ((fail_if_success (with_reducible refine Pres_ite ?_ ?_)); (try subst_vars); split)
    | (with_reducible generalize hK : (fun y : Unit => (_ : PM (List Event) Unit)) = jp;
       fail_if_success (clear hK jp);
       refine Pres_cut (P := Pres (LinkInv osc8 false) (jp ())) ?_ (fun hjp => ?_);
       on_goal 2 => (have hjp0 := hjp; rw [← hK] at hjp0; beta_reduce at hjp0);
       subst hK; beta_reduce)
    | ((with_reducible (conv => (arg 2; whnf)));
       with_reducible generalize hK : (fun y : Unit => (_ : PM (List Event) Unit)) = jp;
       fail_if_success (clear hK jp);
       refine Pres_cut (P := Pres (LinkInv osc8 false) (jp ())) ?_ (fun hjp => ?_);
       on_goal 2 => (have hjp0 := hjp; rw [← hK] at hjp0; beta_reduce at hjp0);
       subst hK; beta_reduce)
    | with_reducible refine Pres_ite ?_ ?_
    | split)

theorem feedBytes_link (osc8 : Bool) (fuel : Nat) (n : Nat) :
    ∀ data : List Nat, Pres (LinkInv osc8 false) (feedBytes captureStream fuel n data) := by
  induction n with
  | zero => intro data; exact Pres_pure _
  | succ n ih =>
    intro data
    unfold feedBytes
    repeat (first
      | exact ih _
      | exact feedRune_link osc8 _ _
      | with_reducible exact Pres_pure _
      | with_reducible exact Pres_getP
      | with_reducible assumption
      | with_reducible refine Pres_bind ?_ (fun _ => ?_)
      | ((with_reducible refine Pres_modifyP ?_); exact LinkInv.p (fun _ => rfl))
      | ((with_reducible refine Pres_modifyInline ?_); exact LinkInv.p (fun _ => rfl))
      | ((with_reducible refine Pres_writeToken ?_); refine LinkInv.write ?_;
         (first | exact textTok_plain _ _ _ kind_text | exact plainTok_inline _ _
                | exact textTok_plain _ _ _ kind_code | exact textTok_plain _ _ _ kind_url
                | exact plainTok_mk _ _ _ _ _ kind_code | exact plainTok_mk _ _ _ _ _ kind_text
                | exact plainTok_mk _ _ _ _ _ kind_rule))
      | ((with_reducible refine Pres_writeTokenIgnore ?_); refine LinkInv.write ?_;
         (first | exact textTok_plain _ _ _ kind_text | exact plainTok_inline _ _
                | exact textTok_plain _ _ _ kind_code | exact textTok_plain _ _ _ kind_url
                | exact plainTok_mk _ _ _ _ _ kind_code | exact plainTok_mk _ _ _ _ _ kind_text
                | exact plainTok_mk _ _ _ _ _ kind_rule))
      | ((with_reducible refine Pres_setWrapIndent ?_); exact LinkInv.indent)
      | ((with_reducible refine Pres_modifyP ?_); exact LinkInv.p flushPendingDelims_osc8)
      | ((with_reducible refine Pres_modifyP ?_);
         exact LinkInv.p (fun p => clearListIfOutdented_osc8 p _))
      | with_reducible exact Pres_panicNow
      | with_reducible exact Pres_fuelOutNow
      | with_reducible refine Pres_ignoreErr ?_
      | ((fail_if_success (with_reducible refine Pres_ite ?_ ?_)); (try subst_vars); split)
      | (with_reducible generalize hK : (fun y : Unit => (_ : PM (List Event) Unit)) = jp;
         fail_if_success (clear hK jp);
         refine Pres_cut (P := Pres (LinkInv osc8 false) (jp ())) ?_ (fun hjp => ?_);
         on_goal 2 => (have hjp0 := hjp; rw [← hK] at hjp0; beta_reduce at hjp0);
         subst hK; beta_reduce)
      | ((with_reducible (conv => (arg 2; whnf)));
         with_reducible generalize hK : (fun y : Unit => (_ : PM (List Event) Unit)) = jp;
         fail_if_success (clear hK jp);
         refine Pres_cut (P := Pres (LinkInv osc8 false) (jp ())) ?_ (fun hjp => ?_);
         on_goal 2 => (have hjp0 := hjp; rw [← hK] at hjp0; beta_reduce at hjp0);
         subst hK; beta_reduce)
      | with_reducible refine Pres_ite ?_ ?_
      | split)

theorem parseClean_link (osc8 : Bool) (fuel : Nat) (clean : List Nat) :
    Pres (LinkInv osc8 false) (parseClean captureStream fuel clean) := by
  unfold parseClean
  repeat (first
    | exact feedBytes_link osc8 _ _ _
    | with_reducible exact Pres_pure _
    | with_reducible exact Pres_getP
    | with_reducible assumption
    | with_reducible refine Pres_bind ?_ (fun _ => ?_)
    | ((with_reducible refine Pres_modifyP ?_); exact LinkInv.p (fun _ => rfl))
    | ((with_reducible refine Pres_modifyInline ?_); exact LinkInv.p (fun _ => rfl))
    | ((with_reducible refine Pres_writeToken ?_); refine LinkInv.write ?_;
       (first | exact textTok_plain _ _ _ kind_text | exact plainTok_inline _ _
              | exact textTok_plain _ _ _ kind_code | exact textTok_plain _ _ _ kind_url
              | exact plainTok_mk _ _ _ _ _ kind_code | exact plainTok_mk _ _ _ _ _ kind_text
              | exact plainTok_mk _ _ _ _ _ kind_rule))
    | ((with_reducible refine Pres_writeTokenIgnore ?_); refine LinkInv.write ?_;
       (first | exact textTok_plain _ _ _ kind_text | exact plainTok_inline _ _
              | exact textTok_plain _ _ _ kind_code | exact textTok_plain _ _ _ kind_url
              | exact plainTok_mk _ _ _ _ _ kind_code | exact plainTok_mk _ _ _ _ _ kind_text
              | exact plainTok_mk _ _ _ _ _ kind_rule))
    | ((with_reducible refine Pres_setWrapIndent ?_); exact LinkInv.indent)
    | ((with_reducible refine Pres_modifyP ?_); exact LinkInv.p flushPendingDelims_osc8)
    | ((with_reducible refine Pres_modifyP ?_);
       exact LinkInv.p (fun p => clearListIfOutdented_osc8 p _))
    | with_reducible exact Pres_panicNow
    | with_reducible exact Pres_fuelOutNow
    | with_reducible refine Pres_ignoreErr ?_
    | ((fail_if_success (with_reducible refine Pres_ite ?_ ?_)); (try subst_vars); split)
    | (with_reducible generalize hK : (fun y : Unit => (_ : PM (List Event) Unit)) = jp;
       fail_if_success (clear hK jp);
       refine Pres_cut (P := Pres (LinkInv osc8 false) (jp ())) ?_ (fun hjp => ?_);
       on_goal 2 => (have hjp0 := hjp; rw [← hK] at hjp0; beta_reduce at hjp0);
       subst hK; beta_reduce)
    | ((with_reducible (conv => (arg 2; whnf)));
       with_reducible generalize hK : (fun y : Unit => (_ : PM (List Event) Unit)) = jp;
       fail_if_success (clear hK jp);
       refine Pres_cut (P := Pres (LinkInv osc8 false) (jp ())) ?_ (fun hjp => ?_);
       on_goal 2 => (have hjp0 := hjp; rw [← hK] at hjp0; beta_reduce at hjp0);
       subst hK; beta_reduce)
    | with_reducible refine Pres_ite ?_ ?_
    | split)

theorem parseLoop_link (osc8 : Bool) (fuel : Nat) (chunks : List (List Nat)) :
    ∀ tail : List Nat, Pres (LinkInv osc8 false) (parseLoop captureStream fuel chunks tail) := by
  induction chunks with
  | nil => intro tail; exact Pres_pure _
  | cons chunk rest ih =>
    intro tail
    unfold parseLoop
    exact Pres_bind (Pres_forM (parseClean_link osc8 fuel) _) (fun _ => ih _)

theorem flushStream_link (osc8 : Bool) :
    Pres (LinkInv osc8 false) (flushStream captureStream) :=
  fun _ h => h
theorem parseRun_link (osc8 : Bool) (fuel : Nat) (chunks : List (List Nat)) (readErr : Bool) :
    Pres (LinkInv osc8 false) (do
      parseLoop captureStream fuel chunks []
      if readErr then fun x => (Res.err, x)
      else
        let trailing := (← getP).frontMatter.finish
        if trailing.length > 0 then feedBytes captureStream fuel trailing.length trailing
        else pure ()
        finalize captureStream fuel
        flushStream captureStream) := by
  repeat (first
    | exact parseLoop_link osc8 _ _ _
    | exact feedBytes_link osc8 _ _ _
    | exact finalize_link osc8 _
    | exact flushStream_link osc8
    | exact fun x hx => hx
    | with_reducible exact Pres_pure _
    | with_reducible exact Pres_getP
    | with_reducible assumption
    | with_reducible refine Pres_bind ?_ (fun _ => ?_)
    | ((with_reducible refine Pres_modifyP ?_); exact LinkInv.p (fun _ => rfl))
    | ((with_reducible refine Pres_modifyInline ?_); exact LinkInv.p (fun _ => rfl))
    | ((with_reducible refine Pres_writeToken ?_); refine LinkInv.write ?_;
       (first | exact textTok_plain _ _ _ kind_text | exact plainTok_inline _ _
              | exact textTok_plain _ _ _ kind_code | exact textTok_plain _ _ _ kind_url
              | exact plainTok_mk _ _ _ _ _ kind_code | exact plainTok_mk _ _ _ _ _ kind_text
              | exact plainTok_mk _ _ _ _ _ kind_rule))
    | ((with_reducible refine Pres_writeTokenIgnore ?_); refine LinkInv.write ?_;
       (first | exact textTok_plain _ _ _ kind_text | exact plainTok_inline _ _
              | exact textTok_plain _ _ _ kind_code | exact textTok_plain _ _ _ kind_url
              | exact plainTok_mk _ _ _ _ _ kind_code | exact plainTok_mk _ _ _ _ _ kind_text
              | exact plainTok_mk _ _ _ _ _ kind_rule))
    | ((with_reducible refine Pres_setWrapIndent ?_); exact LinkInv.indent)
    | ((with_reducible refine Pres_modifyP ?_); exact LinkInv.p flushPendingDelims_osc8)
    | ((with_reducible refine Pres_modifyP ?_);
       exact LinkInv.p (fun p => clearListIfOutdented_osc8 p _))
    | with_reducible exact Pres_panicNow
    | with_reducible exact Pres_fuelOutNow
    | with_reducible refine Pres_ignoreErr ?_
    | ((fail_if_success (with_reducible refine Pres_ite ?_ ?_)); (try subst_vars); split)
    | (with_reducible generalize hK : (fun y : Unit => (_ : PM (List Event) Unit)) = jp;
       fail_if_success (clear hK jp);
       refine Pres_cut (P := Pres (LinkInv osc8 false) (jp ())) ?_ (fun hjp => ?_);
       on_goal 2 => (have hjp0 := hjp; rw [← hK] at hjp0; beta_reduce at hjp0);
       subst hK; beta_reduce)
    | ((with_reducible (conv => (arg 2; whnf)));
       with_reducible generalize hK : (fun y : Unit => (_ : PM (List Event) Unit)) = jp;
       fail_if_success (clear hK jp);
       refine Pres_cut (P := Pres (LinkInv osc8 false) (jp ())) ?_ (fun hjp => ?_);
       on_goal 2 => (have hjp0 := hjp; rw [← hK] at hjp0; beta_reduce at hjp0);
       subst hK; beta_reduce)
    | with_reducible refine Pres_ite ?_ ?_
    | split)

theorem Parse_link (fuel : Nat) (styles : Styles) (osc8 : Bool) (chunks : List (List Nat))
    (readErr : Bool) (parser : liveParser) :
    linkOrder osc8
      (tokensOf (Parse captureStream fuel styles osc8 chunks readErr parser []).2.st) false
      = some false :=
  (parseRun_link osc8 fuel chunks readErr { p := parser.Reset styles osc8, st := [] }
    ⟨rfl, rfl⟩).2

theorem linkOrder_off (toks : List StreamToken) :
    ∀ b c : Bool, linkOrder false toks b = some c →
      ∀ t ∈ toks, t.Kind ≠ tokenLinkStart ∧ t.Kind ≠ tokenLinkEnd := by
  induction toks with
  | nil => intro b c _ t ht; simp at ht
  | cons u rest ih =>
    intro b c h t ht
    unfold linkOrder at h
    by_cases h1 : u.Kind = tokenLinkStart
    · simp [h1] at h
    · by_cases h2 : u.Kind = tokenLinkEnd
      · simp [h1, h2] at h
      · rw [if_neg h1, if_neg h2] at h
        by_cases h3 : u.LinkURL = []
        · rw [if_pos h3] at h
          rcases List.mem_cons.mp ht with rfl | ht
          · exact ⟨h1, h2⟩
          · exact ih b c h t ht
        · rw [if_neg h3] at h
          simp at h

theorem linkOrder_url (osc8 : Bool) (toks : List StreamToken) :
    ∀ b c : Bool, linkOrder osc8 toks b = some c →
      ∀ t ∈ toks, (t.LinkURL ≠ [] ↔ t.Kind = tokenLinkStart) := by
  induction toks with
  | nil => intro b c _ t ht; simp at ht
  | cons u rest ih =>
    intro b c h t ht
    unfold linkOrder at h
    by_cases h1 : u.Kind = tokenLinkStart
    · rw [if_pos h1] at h
      by_cases h4 : osc8 = true ∧ (!b) = true ∧ u.LinkURL ≠ []
      · rw [if_pos h4] at h
        rcases List.mem_cons.mp ht with rfl | ht
        · exact ⟨fun _ => h1, fun _ => h4.2.2⟩
        · exact ih _ c h t ht
      · rw [if_neg h4] at h
        simp at h
    · rw [if_neg h1] at h
      by_cases h2 : u.Kind = tokenLinkEnd
      · rw [if_pos h2] at h
        by_cases h4 : osc8 = true ∧ b = true ∧ u.LinkURL = []
        · rw [if_pos h4] at h
          rcases List.mem_cons.mp ht with rfl | ht
          · exact ⟨fun h5 => absurd h4.2.2 h5, fun h5 => absurd h5 h1⟩
          · exact ih _ c h t ht
        · rw [if_neg h4] at h
          simp at h
      · rw [if_neg h2] at h
        by_cases h3 : u.LinkURL = []
        · rw [if_pos h3] at h
          rcases List.mem_cons.mp ht with rfl | ht
          · exact ⟨fun h5 => absurd h3 h5, fun h5 => absurd h5 h1⟩
          · exact ih b c h t ht
        · rw [if_neg h3] at h
          simp at h

theorem linkKinds_cons_other (u : StreamToken) (rest : List StreamToken)
    (h1 : u.Kind ≠ tokenLinkStart) (h2 : u.Kind ≠ tokenLinkEnd) :
    linkKinds (u :: rest) = linkKinds rest := by
  simp [linkKinds, h1, h2]

theorem linkKinds_cons_start (u : StreamToken) (rest : List StreamToken)
    (h1 : u.Kind = tokenLinkStart) :
    linkKinds (u :: rest) = tokenLinkStart :: linkKinds rest := by
  simp [linkKinds, h1]

theorem linkKinds_cons_end (u : StreamToken) (rest : List StreamToken)
    (h1 : u.Kind = tokenLinkEnd) :
    linkKinds (u :: rest) = tokenLinkEnd :: linkKinds rest := by
  simp [linkKinds, h1]

/-- A stream in order that is read from outside a span and ends outside one
holds whole spans; read from inside a span, it holds the end of that span
first. -/
theorem linkOrder_spans (osc8 : Bool) (toks : List StreamToken) :
    (linkOrder osc8 toks false = some false → ∃ n, linkKinds toks = spanKinds n) ∧
    (linkOrder osc8 toks true = some false →
      ∃ n, linkKinds toks = tokenLinkEnd :: spanKinds n) := by
  induction toks with
  | nil =>
    refine ⟨fun _ => ⟨0, rfl⟩, fun h => ?_⟩
    simp [linkOrder] at h
  | cons u rest ih =>
    by_cases h1 : u.Kind = tokenLinkStart
    · refine ⟨fun h => ?_, fun h => ?_⟩
      · unfold linkOrder at h
        rw [if_pos h1] at h
        by_cases h4 : osc8 = true ∧ (!false) = true ∧ u.LinkURL ≠ []
        · rw [if_pos h4] at h
          obtain ⟨n, hn⟩ := ih.2 h
          exact ⟨n + 1, by rw [linkKinds_cons_start u rest h1, hn]; rfl⟩
        · rw [if_neg h4] at h
          simp at h
      · unfold linkOrder at h
        rw [if_pos h1] at h
        simp at h
    · by_cases h2 : u.Kind = tokenLinkEnd
      · refine ⟨fun h => ?_, fun h => ?_⟩
        · unfold linkOrder at h
          rw [if_neg h1, if_pos h2] at h
          simp at h
        · unfold linkOrder at h
          rw [if_neg h1, if_pos h2] at h
          by_cases h4 : osc8 = true ∧ true = true ∧ u.LinkURL = []
          · rw [if_pos h4] at h
            obtain ⟨n, hn⟩ := ih.1 h
            exact ⟨n, by rw [linkKinds_cons_end u rest h2, hn]⟩
          · rw [if_neg h4] at h
            simp at h
      · rw [linkKinds_cons_other u rest h1 h2]
        refine ⟨fun h => ?_, fun h => ?_⟩
        · unfold linkOrder at h
          rw [if_neg h1, if_neg h2] at h
          by_cases h3 : u.LinkURL = []
          · rw [if_pos h3] at h
            exact ih.1 h
          · rw [if_neg h3] at h
            simp at h
        · unfold linkOrder at h
          rw [if_neg h1, if_neg h2] at h
          by_cases h3 : u.LinkURL = []
          · rw [if_pos h3] at h
            exact ih.2 h
          · rw [if_neg h3] at h
            simp at h

theorem parseTokens_snd (styles : Styles) (osc8 : Bool) (chunks : List (List Nat)) :
    (parseTokens styles osc8 chunks).2
      = tokensOf (Parse captureStream 1 styles osc8 chunks false zeroLiveParser []).2.st := rfl

/-- C13: in the token stream that the parser writes for any input, read in any
chunks, the link tokens are in order: there is none when OSC 8 is off; they
are whole spans, a link start followed by a link end, one after the other, so
the first is a start, the last an end and none is nested; and a token carries
a link URL exactly when it is a link start. -/
theorem C13_link_tokens_in_order (styles : Styles) (osc8 : Bool) (chunks : List (List Nat)) :
    (osc8 = false → ∀ t ∈ (parseTokens styles osc8 chunks).2,
        t.Kind ≠ tokenLinkStart ∧ t.Kind ≠ tokenLinkEnd) ∧
      (∃ n, linkKinds (parseTokens styles osc8 chunks).2 = spanKinds n) ∧
      (∀ t ∈ (parseTokens styles osc8 chunks).2,
        (t.LinkURL ≠ [] ↔ t.Kind = tokenLinkStart)) := by
  have h := Parse_link 1 styles osc8 chunks false zeroLiveParser
  rw [← parseTokens_snd] at h
  refine ⟨fun ho => ?_, (linkOrder_spans osc8 _).1 h, linkOrder_url osc8 _ _ _ h⟩
  subst ho
  exact linkOrder_off _ _ _ h

/-! ### The list stack and the list prefix length -/

theorem StackInv_frame {σ : Type} {Q : List listState → Nat → Prop}
    {g : liveParser → liveParser}
    (hg : ∀ p, (g p).listStack = p.listStack ∧ (g p).listPrefixLen = p.listPrefixLen) :
    ∀ x : PState σ, StackInv Q x → StackInv Q { x with p := g x.p } := by
  intro x h
  show Q (g x.p).listStack (g x.p).listPrefixLen
  rw [(hg x.p).1, (hg x.p).2]
  exact h

theorem flushPendingDelims_stack (p : liveParser) :
    p.flushPendingDelims.listStack = p.listStack ∧
      p.flushPendingDelims.listPrefixLen = p.listPrefixLen := by
  rw [flushPendingDelims_shape]
  exact ⟨rfl, rfl⟩

theorem take_append_getD (l : List listState) (d : listState) (h : l ≠ []) :
    l.take (l.length - 1) ++ [l.getD (l.length - 1) d] = l := by
  induction l with
  | nil => exact absurd rfl h
  | cons a rest ih =>
    cases rest with
    | nil => rfl
    | cons b rest2 =>
      have := ih (by simp)
      simp only [List.length_cons, Nat.add_sub_cancel] at this ⊢
      rw [List.take_succ_cons, List.getD_cons_succ, List.cons_append, this]

theorem prefixSum_append (a b : List listState) :
    prefixSum (a ++ b) = prefixSum a + prefixSum b := by
  simp [prefixSum]

theorem prefixSum_single (f : listState) : prefixSum [f] = f.prefixLen := by
  simp [prefixSum]

theorem prefixSum_split (l : List listState) (d : listState) (h : l ≠ []) :
    prefixSum l = prefixSum (l.take (l.length - 1)) + (l.getD (l.length - 1) d).prefixLen := by
  conv_lhs => rw [← take_append_getD l d h]
  rw [prefixSum_append, prefixSum_single]

theorem length_ne_zero_iff (l : List listState) : l.length ≠ 0 ↔ l ≠ [] := by
  simp

/-- Popping a frame keeps the list prefix length equal to the sum of the
frames, and takes the prefix length of the popped frame off it. -/
theorem popList_listOK (p : liveParser) (h : listOK p.listStack p.listPrefixLen) :
    listOK p.popList.listStack p.popList.listPrefixLen ∧
      (p.listStack ≠ [] →
        p.popList.listStack = p.listStack.take (p.listStack.length - 1) ∧
        p.popList.listPrefixLen + p.top.prefixLen = p.listPrefixLen) := by
  unfold liveParser.popList
  by_cases h0 : p.listStack.length = 0
  · rw [if_pos h0]
    exact ⟨h, fun hne => absurd (List.length_eq_zero.mp h0) hne⟩
  · rw [if_neg h0]
    have hne : p.listStack ≠ [] := (length_ne_zero_iff _).mp h0
    have hs := prefixSum_split p.listStack ⟨0, false, 0, 0, 0, 0, 0⟩ hne
    unfold listOK at h
    have hle : (p.listStack.getD (p.listStack.length - 1) ⟨0, false, 0, 0, 0, 0, 0⟩).prefixLen
        ≤ p.listPrefixLen := by
      rw [h, hs]
      exact Nat.le_add_left _ _
    simp only [if_pos hle]
    refine ⟨?_, fun _ => ⟨trivial, ?_⟩⟩
    · show p.listPrefixLen - _ = prefixSum (p.listStack.take (p.listStack.length - 1))
      rw [h, hs, Nat.add_sub_cancel]
    · show p.listPrefixLen - _ + p.top.prefixLen = p.listPrefixLen
      exact Nat.sub_add_cancel hle

theorem popDeeper_listOK (fuel : Nat) : ∀ (p : liveParser) (indent : Nat),
    listOK p.listStack p.listPrefixLen →
      listOK (liveParser.popDeeper fuel p indent).listStack
        (liveParser.popDeeper fuel p indent).listPrefixLen := by
  induction fuel with
  | zero => intro p indent h; exact h
  | succ n ih =>
    intro p indent h
    unfold liveParser.popDeeper
    split_ifs
    · exact ih _ _ (popList_listOK p h).1
    · exact h

theorem top_append (p : liveParser) (l : List listState) (f : listState)
    (h : p.listStack = l ++ [f]) : p.top = f := by
  unfold liveParser.top
  rw [h]
  simp [List.getD_eq_getElem?_getD]

/-- After `updateList` the list prefix length is the sum of the frames, the
stack is not empty, and the frame returned is its top. -/
theorem updateList_topOK (p : liveParser) (indent : Nat) (ordered : Bool) (marker : Nat)
    (start : Int) (markerLen padding : Nat) (h : listOK p.listStack p.listPrefixLen) :
    topOK (p.updateList indent ordered marker start markerLen padding).2.2.prefixLen
      (p.updateList indent ordered marker start markerLen padding).1.listStack
      (p.updateList indent ordered marker start markerLen padding).1.listPrefixLen := by
  unfold liveParser.updateList
  have h1 := popDeeper_listOK p.listStack.length p indent h
  generalize liveParser.popDeeper p.listStack.length p indent = q at h1
  simp only []
  by_cases hc : q.listStack.length = 0 ∨ indent > q.top.indent ∨ q.top.ordered ≠ ordered ∨
      (ordered = true ∧ q.top.marker ≠ marker)
  · rw [if_pos hc]
    have h2 : listOK (if q.listStack.length > 0 ∧ indent = q.top.indent then q.popList
        else q).listStack (if q.listStack.length > 0 ∧ indent = q.top.indent then q.popList
        else q).listPrefixLen := by
      split_ifs
      · exact (popList_listOK q h1).1
      · exact h1
    generalize (if q.listStack.length > 0 ∧ indent = q.top.indent then q.popList else q) = r
      at h2
    unfold listOK at h2
    refine ⟨?_, ?_, ?_⟩
    · show r.listPrefixLen + (markerLen + 1) = prefixSum (r.listStack ++ [_])
      rw [prefixSum_append, prefixSum_single, h2]
    · show r.listStack ++ [_] ≠ []
      simp
    · unfold liveParser.top
      rfl
  · rw [if_neg hc]
    have hne : q.listStack ≠ [] := by
      intro h0
      exact hc (Or.inl (by rw [h0]; rfl))
    exact ⟨h1, hne, rfl⟩

theorem updateList_listOK (p : liveParser) (indent : Nat) (ordered : Bool) (marker : Nat)
    (start : Int) (markerLen padding : Nat) (h : listOK p.listStack p.listPrefixLen) :
    listOK (p.updateList indent ordered marker start markerLen padding).1.listStack
      (p.updateList indent ordered marker start markerLen padding).1.listPrefixLen :=
  (updateList_topOK p indent ordered marker start markerLen padding h).1

theorem clearListIfOutdented_listOK (p : liveParser) (indent : Nat)
    (h : listOK p.listStack p.listPrefixLen) :
    listOK (p.clearListIfOutdented indent).listStack
      (p.clearListIfOutdented indent).listPrefixLen := by
  unfold liveParser.clearListIfOutdented
  split_ifs
  · exact h
  · rfl
  · exact h

theorem Reset_listOK (p : liveParser) (styles : Styles) (osc8 : Bool) :
    listOK (p.Reset styles osc8).listStack (p.Reset styles osc8).listPrefixLen := rfl

/-- Writing a frame with the prefix length of the top frame over the top frame
keeps the sum. -/
theorem setTop_topOK (c : Nat) (p : liveParser) (f : listState) (hf : f.prefixLen = c)
    (h : topOK c p.listStack p.listPrefixLen) :
    topOK c (p.setTop f).listStack (p.setTop f).listPrefixLen := by
  obtain ⟨h1, h2, h3⟩ := h
  unfold liveParser.setTop
  refine ⟨?_, ?_, ?_⟩
  · show p.listPrefixLen = prefixSum (p.listStack.take (p.listStack.length - 1) ++ [f])
    rw [prefixSum_append, prefixSum_single, hf, ← h3, ← prefixSum_split _ _ h2]
    exact h1
  · show p.listStack.take (p.listStack.length - 1) ++ [f] ≠ []
    simp
  · show ((p.listStack.take (p.listStack.length - 1) ++ [f]).getD _ _).prefixLen = c
    simp [List.getD_eq_getElem?_getD, hf]

theorem StackInv_clear {σ : Type} (indent : Nat) :
    ∀ x : PState σ, StackInv listOK x →
      StackInv listOK { x with p := x.p.clearListIfOutdented indent } :=
  fun x h => clearListIfOutdented_listOK x.p indent h

theorem StackInv_setTop {σ : Type} (c : Nat) (f : listState) (hf : f.prefixLen = c) :
    ∀ x : PState σ, StackInv (topOK c) x → StackInv (topOK c) { x with p := x.p.setTop f } :=
  fun x h => setTop_topOK c x.p f hf h

theorem StackInv_setTopExtra {σ : Type} (c : Nat) (e : Nat) :
    ∀ x : PState σ, StackInv (topOK c) x →
      StackInv (topOK c) { x with p := x.p.setTop { x.p.top with itemIndentExtra := e } } :=
  fun x h => setTop_topOK c x.p _ h.2.2 h

theorem Pres_cutjp {σ α β : Type} {I : PState σ → Prop} {j : Unit → PM σ α} {m : PM σ β}
    (h1 : Pres I (j ())) (h2 : Pres I (j ()) → Pres I m) : Pres I m := h2 h1

/-- An assignment of a known parser, after which another invariant `J` holds
until the end of the action. -/
theorem Pres_const_bind {σ α : Type} {I J : PState σ → Prop} {q : liveParser}
    {K : Unit → PM σ α} (h1 : ∀ x : PState σ, J { x with p := q }) (h2 : Pres J (K ()))
    (h3 : ∀ y, J y → I y) : Pres I (modifyP (fun _ => q) >>= K) :=
  fun x _ => h3 _ (h2 _ (h1 x))
/-! ### Actions that leave the list stack alone -/

theorem applyPendingBreak_stack {σ : Type} (S : Stream σ) (Q : List listState → Nat → Prop)
    (mode : breakMode) :
    Pres (StackInv Q) (applyPendingBreak S mode) := by
  unfold applyPendingBreak
  repeat (first
    | with_reducible exact Pres_pure _
    | with_reducible exact Pres_getP
    | with_reducible assumption
    | with_reducible refine Pres_bind ?_ (fun _ => ?_)
    | ((with_reducible refine Pres_modifyP ?_); exact fun _ h => h)
    | ((with_reducible refine Pres_modifyInline ?_); exact fun _ h => h)
    | ((with_reducible refine Pres_writeToken ?_); exact fun _ h => h)
    | ((with_reducible refine Pres_writeTokenIgnore ?_); exact fun _ h => h)
    | ((with_reducible refine Pres_setWrapIndent ?_); exact fun _ h => h)
    | ((with_reducible refine Pres_modifyP ?_); exact StackInv_frame flushPendingDelims_stack)
    | with_reducible exact Pres_panicNow
    | with_reducible exact Pres_fuelOutNow
    | with_reducible refine Pres_ignoreErr ?_
    | ((fail_if_success (with_reducible refine Pres_ite ?_ ?_)); (try subst_vars); split)
    | (with_reducible generalize hK : (fun y : Unit => (_ : PM σ Unit)) = jp;
       fail_if_success (clear hK jp);
       refine Pres_cutjp (j := jp) ?_ (fun hjp => ?_);
       on_goal 2 => (have hjp0 := hjp; rw [← hK] at hjp0; beta_reduce at hjp0);
       subst hK; beta_reduce)
    | ((with_reducible (conv => (arg 2; whnf)));
       with_reducible generalize hK : (fun y : Unit => (_ : PM σ Unit)) = jp;
       fail_if_success (clear hK jp);
       refine Pres_cutjp (j := jp) ?_ (fun hjp => ?_);
       on_goal 2 => (have hjp0 := hjp; rw [← hK] at hjp0; beta_reduce at hjp0);
       subst hK; beta_reduce)
    | with_reducible refine Pres_ite ?_ ?_
    | split)

theorem emitQuotePrefix_stack {σ : Type} (S : Stream σ)
    (Q : List listState → Nat → Prop) (n : Nat) :
    Pres (StackInv Q) (emitQuotePrefix S n) := by
  induction n with
  | zero => exact Pres_pure _
  | succ n ih =>
    unfold emitQuotePrefix
    repeat (first
      | exact ih
      | with_reducible exact Pres_pure _
      | with_reducible exact Pres_getP
      | with_reducible assumption
      | with_reducible refine Pres_bind ?_ (fun _ => ?_)
      | ((with_reducible refine Pres_modifyP ?_); exact fun _ h => h)
      | ((with_reducible refine Pres_modifyInline ?_); exact fun _ h => h)
      | ((with_reducible refine Pres_writeToken ?_); exact fun _ h => h)
      | ((with_reducible refine Pres_writeTokenIgnore ?_); exact fun _ h => h)
      | ((with_reducible refine Pres_setWrapIndent ?_); exact fun _ h => h)
      | ((with_reducible refine Pres_modifyP ?_); exact StackInv_frame flushPendingDelims_stack)
      | with_reducible exact Pres_panicNow
      | with_reducible exact Pres_fuelOutNow
      | with_reducible refine Pres_ignoreErr ?_
      | ((fail_if_success (with_reducible refine Pres_ite ?_ ?_)); (try subst_vars); split)
      | (with_reducible generalize hK : (fun y : Unit => (_ : PM σ Unit)) = jp;
         fail_if_success (clear hK jp);
         refine Pres_cutjp (j := jp) ?_ (fun hjp => ?_);
         on_goal 2 => (have hjp0 := hjp; rw [← hK] at hjp0; beta_reduce at hjp0);
         subst hK; beta_reduce)
      | ((with_reducible (conv => (arg 2; whnf)));
         with_reducible generalize hK : (fun y : Unit => (_ : PM σ Unit)) = jp;
         fail_if_success (clear hK jp);
         refine Pres_cutjp (j := jp) ?_ (fun hjp => ?_);
         on_goal 2 => (have hjp0 := hjp; rw [← hK] at hjp0; beta_reduce at hjp0);
         subst hK; beta_reduce)
      | with_reducible refine Pres_ite ?_ ?_
      | split)

theorem emitQuotePrefixBare_stack {σ : Type} (S : Stream σ)
    (Q : List listState → Nat → Prop) (n : Nat) :
    Pres (StackInv Q) (emitQuotePrefixBare S n) := by
  induction n with
  | zero => exact Pres_pure _
  | succ n ih =>
    unfold emitQuotePrefixBare
    repeat (first
      | exact ih
      | with_reducible exact Pres_pure _
      | with_reducible exact Pres_getP
      | with_reducible assumption
      | with_reducible refine Pres_bind ?_ (fun _ => ?_)
      | ((with_reducible refine Pres_modifyP ?_); exact fun _ h => h)
      | ((with_reducible refine Pres_modifyInline ?_); exact fun _ h => h)
      | ((with_reducible refine Pres_writeToken ?_); exact fun _ h => h)
      | ((with_reducible refine Pres_writeTokenIgnore ?_); exact fun _ h => h)
      | ((with_reducible refine Pres_setWrapIndent ?_); exact fun _ h => h)
      | ((with_reducible refine Pres_modifyP ?_); exact StackInv_frame flushPendingDelims_stack)
      | with_reducible exact Pres_panicNow
      | with_reducible exact Pres_fuelOutNow
      | with_reducible refine Pres_ignoreErr ?_
      | ((fail_if_success (with_reducible refine Pres_ite ?_ ?_)); (try subst_vars); split)
      | (with_reducible generalize hK : (fun y : Unit => (_ : PM σ Unit)) = jp;
         fail_if_success (clear hK jp);
         refine Pres_cutjp (j := jp) ?_ (fun hjp => ?_);
         on_goal 2 => (have hjp0 := hjp; rw [← hK] at hjp0; beta_reduce at hjp0);
         subst hK; beta_reduce)
      | ((with_reducible (conv => (arg 2; whnf)));
         with_reducible generalize hK : (fun y : Unit => (_ : PM σ Unit)) = jp;
         fail_if_success (clear hK jp);
         refine Pres_cutjp (j := jp) ?_ (fun hjp => ?_);
         on_goal 2 => (have hjp0 := hjp; rw [← hK] at hjp0; beta_reduce at hjp0);
         subst hK; beta_reduce)
      | with_reducible refine Pres_ite ?_ ?_
      | split)

theorem emitListPrefix_stack {σ : Type} (S : Stream σ) (Q : List listState → Nat → Prop)
    (listPrefixLen : Nat) :
    Pres (StackInv Q) (emitListPrefix S listPrefixLen) := by
  unfold emitListPrefix
  repeat (first
    | with_reducible exact Pres_pure _
    | with_reducible exact Pres_getP
    | with_reducible assumption
    | with_reducible refine Pres_bind ?_ (fun _ => ?_)
    | ((with_reducible refine Pres_modifyP ?_); exact fun _ h => h)
    | ((with_reducible refine Pres_modifyInline ?_); exact fun _ h => h)
    | ((with_reducible refine Pres_writeToken ?_); exact fun _ h => h)
    | ((with_reducible refine Pres_writeTokenIgnore ?_); exact fun _ h => h)
    | ((with_reducible refine Pres_setWrapIndent ?_); exact fun _ h => h)
    | ((with_reducible refine Pres_modifyP ?_); exact StackInv_frame flushPendingDelims_stack)
    | with_reducible exact Pres_panicNow
    | with_reducible exact Pres_fuelOutNow
    | with_reducible refine Pres_ignoreErr ?_
    | ((fail_if_success (with_reducible refine Pres_ite ?_ ?_)); (try subst_vars); split)
    | (with_reducible generalize hK : (fun y : Unit => (_ : PM σ Unit)) = jp;
       fail_if_success (clear hK jp);
       refine Pres_cutjp (j := jp) ?_ (fun hjp => ?_);
       on_goal 2 => (have hjp0 := hjp; rw [← hK] at hjp0; beta_reduce at hjp0);
       subst hK; beta_reduce)
    | ((with_reducible (conv => (arg 2; whnf)));
       with_reducible generalize hK : (fun y : Unit => (_ : PM σ Unit)) = jp;
       fail_if_success (clear hK jp);
       refine Pres_cutjp (j := jp) ?_ (fun hjp => ?_);
       on_goal 2 => (have hjp0 := hjp; rw [← hK] at hjp0; beta_reduce at hjp0);
       subst hK; beta_reduce)
    | with_reducible refine Pres_ite ?_ ?_
    | split)

theorem emitPrefix_stack {σ : Type} (S : Stream σ) (Q : List listState → Nat → Prop) (quoteDepth
    listPrefixLen : Nat) :
    Pres (StackInv Q) (emitPrefix S quoteDepth listPrefixLen) := by
  unfold emitPrefix
  repeat (first
    | with_reducible exact Pres_pure _
    | with_reducible exact Pres_getP
    | with_reducible assumption
    | with_reducible refine Pres_bind ?_ (fun _ => ?_)
    | ((with_reducible refine Pres_modifyP ?_); exact fun _ h => h)
    | ((with_reducible refine Pres_modifyInline ?_); exact fun _ h => h)
    | ((with_reducible refine Pres_writeToken ?_); exact fun _ h => h)
    | ((with_reducible refine Pres_writeTokenIgnore ?_); exact fun _ h => h)
    | ((with_reducible refine Pres_setWrapIndent ?_); exact fun _ h => h)
    | ((with_reducible refine Pres_modifyP ?_); exact StackInv_frame flushPendingDelims_stack)
    | with_reducible exact Pres_panicNow
    | with_reducible exact Pres_fuelOutNow
    | with_reducible apply emitQuotePrefix_stack
    | with_reducible apply emitListPrefix_stack
    | with_reducible refine Pres_ignoreErr ?_
    | ((fail_if_success (with_reducible refine Pres_ite ?_ ?_)); (try subst_vars); split)
    | (with_reducible generalize hK : (fun y : Unit => (_ : PM σ Unit)) = jp;
       fail_if_success (clear hK jp);
       refine Pres_cutjp (j := jp) ?_ (fun hjp => ?_);
       on_goal 2 => (have hjp0 := hjp; rw [← hK] at hjp0; beta_reduce at hjp0);
       subst hK; beta_reduce)
    | ((with_reducible (conv => (arg 2; whnf)));
       with_reducible generalize hK : (fun y : Unit => (_ : PM σ Unit)) = jp;
       fail_if_success (clear hK jp);
       refine Pres_cutjp (j := jp) ?_ (fun hjp => ?_);
       on_goal 2 => (have hjp0 := hjp; rw [← hK] at hjp0; beta_reduce at hjp0);
       subst hK; beta_reduce)
    | with_reducible refine Pres_ite ?_ ?_
    | split)

theorem writeRunes_stack {σ : Type} (S : Stream σ)
    (Q : List listState → Nat → Prop) (style : Style) (kind : tokenKind) (rs : List Nat) :
    Pres (StackInv Q) (writeRunes S style kind rs) := by
  induction rs with
  | nil => exact Pres_pure _
  | cons r rest ih =>
    unfold writeRunes
    exact Pres_bind (Pres_writeToken (fun _ h => h)) (fun _ => ih)

theorem emitStyledTextWithNBSP_stack {σ : Type} (S : Stream σ)
    (Q : List listState → Nat → Prop) (style : Style) (kind : tokenKind)
    (fuel : Nat) :
    ∀ text : List Nat, Pres (StackInv Q) (emitStyledTextWithNBSP S style kind fuel text) := by
  induction fuel with
  | zero => intro text; exact Pres_pure _
  | succ n ih =>
    intro text
    unfold emitStyledTextWithNBSP
    repeat (first
      | exact ih _
      | with_reducible exact Pres_pure _
      | with_reducible exact Pres_getP
      | with_reducible assumption
      | with_reducible refine Pres_bind ?_ (fun _ => ?_)
      | ((with_reducible refine Pres_modifyP ?_); exact fun _ h => h)
      | ((with_reducible refine Pres_modifyInline ?_); exact fun _ h => h)
      | ((with_reducible refine Pres_writeToken ?_); exact fun _ h => h)
      | ((with_reducible refine Pres_writeTokenIgnore ?_); exact fun _ h => h)
      | ((with_reducible refine Pres_setWrapIndent ?_); exact fun _ h => h)
      | ((with_reducible refine Pres_modifyP ?_); exact StackInv_frame flushPendingDelims_stack)
      | with_reducible exact Pres_panicNow
      | with_reducible exact Pres_fuelOutNow
      | with_reducible refine Pres_ignoreErr ?_
      | ((fail_if_success (with_reducible refine Pres_ite ?_ ?_)); (try subst_vars); split)
      | (with_reducible generalize hK : (fun y : Unit => (_ : PM σ Unit)) = jp;
         fail_if_success (clear hK jp);
         refine Pres_cutjp (j := jp) ?_ (fun hjp => ?_);
         on_goal 2 => (have hjp0 := hjp; rw [← hK] at hjp0; beta_reduce at hjp0);
         subst hK; beta_reduce)
      | ((with_reducible (conv => (arg 2; whnf)));
         with_reducible generalize hK : (fun y : Unit => (_ : PM σ Unit)) = jp;
         fail_if_success (clear hK jp);
         refine Pres_cutjp (j := jp) ?_ (fun hjp => ?_);
         on_goal 2 => (have hjp0 := hjp; rw [← hK] at hjp0; beta_reduce at hjp0);
         subst hK; beta_reduce)
      | with_reducible refine Pres_ite ?_ ?_
      | split)

theorem emitStyledText_stack {σ : Type} (S : Stream σ) (Q : List listState → Nat → Prop) (text :
    List Nat) :
    Pres (StackInv Q) (emitStyledText S text) := by
  unfold emitStyledText
  repeat (first
    | exact emitStyledTextWithNBSP_stack S Q _ _ _ _
    | with_reducible exact Pres_pure _
    | with_reducible exact Pres_getP
    | with_reducible assumption
    | with_reducible refine Pres_bind ?_ (fun _ => ?_)
    | ((with_reducible refine Pres_modifyP ?_); exact fun _ h => h)
    | ((with_reducible refine Pres_modifyInline ?_); exact fun _ h => h)
    | ((with_reducible refine Pres_writeToken ?_); exact fun _ h => h)
    | ((with_reducible refine Pres_writeTokenIgnore ?_); exact fun _ h => h)
    | ((with_reducible refine Pres_setWrapIndent ?_); exact fun _ h => h)
    | ((with_reducible refine Pres_modifyP ?_); exact StackInv_frame flushPendingDelims_stack)
    | with_reducible exact Pres_panicNow
    | with_reducible exact Pres_fuelOutNow
    | with_reducible apply writeRunes_stack
    | with_reducible refine Pres_ignoreErr ?_
    | ((fail_if_success (with_reducible refine Pres_ite ?_ ?_)); (try subst_vars); split)
    | (with_reducible generalize hK : (fun y : Unit => (_ : PM σ Unit)) = jp;
       fail_if_success (clear hK jp);
       refine Pres_cutjp (j := jp) ?_ (fun hjp => ?_);
       on_goal 2 => (have hjp0 := hjp; rw [← hK] at hjp0; beta_reduce at hjp0);
       subst hK; beta_reduce)
    | ((with_reducible (conv => (arg 2; whnf)));
       with_reducible generalize hK : (fun y : Unit => (_ : PM σ Unit)) = jp;
       fail_if_success (clear hK jp);
       refine Pres_cutjp (j := jp) ?_ (fun hjp => ?_);
       on_goal 2 => (have hjp0 := hjp; rw [← hK] at hjp0; beta_reduce at hjp0);
       subst hK; beta_reduce)
    | with_reducible refine Pres_ite ?_ ?_
    | split)

theorem emitAutoLink_stack {σ : Type} (S : Stream σ) (Q : List listState → Nat → Prop) (text :
    List Nat) :
    Pres (StackInv Q) (emitAutoLink S text) := by
  unfold emitAutoLink
  repeat (first
    | with_reducible exact Pres_pure _
    | with_reducible exact Pres_getP
    | with_reducible assumption
    | with_reducible refine Pres_bind ?_ (fun _ => ?_)
    | ((with_reducible refine Pres_modifyP ?_); exact fun _ h => h)
    | ((with_reducible refine Pres_modifyInline ?_); exact fun _ h => h)
    | ((with_reducible refine Pres_writeToken ?_); exact fun _ h => h)
    | ((with_reducible refine Pres_writeTokenIgnore ?_); exact fun _ h => h)
    | ((with_reducible refine Pres_setWrapIndent ?_); exact fun _ h => h)
    | ((with_reducible refine Pres_modifyP ?_); exact StackInv_frame flushPendingDelims_stack)
    | with_reducible exact Pres_panicNow
    | with_reducible exact Pres_fuelOutNow
    | with_reducible apply writeRunes_stack
    | with_reducible apply emitStyledText_stack
    | with_reducible refine Pres_ignoreErr ?_
    | ((fail_if_success (with_reducible refine Pres_ite ?_ ?_)); (try subst_vars); split)
    | (with_reducible generalize hK : (fun y : Unit => (_ : PM σ Unit)) = jp;
       fail_if_success (clear hK jp);
       refine Pres_cutjp (j := jp) ?_ (fun hjp => ?_);
       on_goal 2 => (have hjp0 := hjp; rw [← hK] at hjp0; beta_reduce at hjp0);
       subst hK; beta_reduce)
    | ((with_reducible (conv => (arg 2; whnf)));
       with_reducible generalize hK : (fun y : Unit => (_ : PM σ Unit)) = jp;
       fail_if_success (clear hK jp);
       refine Pres_cutjp (j := jp) ?_ (fun hjp => ?_);
       on_goal 2 => (have hjp0 := hjp; rw [← hK] at hjp0; beta_reduce at hjp0);
       subst hK; beta_reduce)
    | with_reducible refine Pres_ite ?_ ?_
    | split)

theorem emitInlineBackticks_stack {σ : Type} (S : Stream σ) (Q : List listState → Nat → Prop)
    (count : Nat) :
    Pres (StackInv Q) (emitInlineBackticks S count) := by
  unfold emitInlineBackticks
  repeat (first
    | with_reducible exact Pres_pure _
    | with_reducible exact Pres_getP
    | with_reducible assumption
    | with_reducible refine Pres_bind ?_ (fun _ => ?_)
    | ((with_reducible refine Pres_modifyP ?_); exact fun _ h => h)
    | ((with_reducible refine Pres_modifyInline ?_); exact fun _ h => h)
    | ((with_reducible refine Pres_writeToken ?_); exact fun _ h => h)
    | ((with_reducible refine Pres_writeTokenIgnore ?_); exact fun _ h => h)
    | ((with_reducible refine Pres_setWrapIndent ?_); exact fun _ h => h)
    | ((with_reducible refine Pres_modifyP ?_); exact StackInv_frame flushPendingDelims_stack)
    | with_reducible exact Pres_panicNow
    | with_reducible exact Pres_fuelOutNow
    | with_reducible refine Pres_ignoreErr ?_
    | ((fail_if_success (with_reducible refine Pres_ite ?_ ?_)); (try subst_vars); split)
    | (with_reducible generalize hK : (fun y : Unit => (_ : PM σ Unit)) = jp;
       fail_if_success (clear hK jp);
       refine Pres_cutjp (j := jp) ?_ (fun hjp => ?_);
       on_goal 2 => (have hjp0 := hjp; rw [← hK] at hjp0; beta_reduce at hjp0);
       subst hK; beta_reduce)
    | ((with_reducible (conv => (arg 2; whnf)));
       with_reducible generalize hK : (fun y : Unit => (_ : PM σ Unit)) = jp;
       fail_if_success (clear hK jp);
       refine Pres_cutjp (j := jp) ?_ (fun hjp => ?_);
       on_goal 2 => (have hjp0 := hjp; rw [← hK] at hjp0; beta_reduce at hjp0);
       subst hK; beta_reduce)
    | with_reducible refine Pres_ite ?_ ?_
    | split)

theorem emitLinkTextLoop_stack {σ : Type} (S : Stream σ)
    (Q : List listState → Nat → Prop) (baseLine outerEmph : Style) (rs : List Nat) :
    ∀ state : linkInlineState,
      Pres (StackInv Q) (emitLinkTextLoop S baseLine outerEmph rs state) := by
  induction rs with
  | nil => intro state; exact Pres_pure _
  | cons r rest ih =>
    intro state
    unfold emitLinkTextLoop
    repeat (first
      | exact ih _
      | with_reducible exact Pres_pure _
      | with_reducible exact Pres_getP
      | with_reducible assumption
      | with_reducible refine Pres_bind ?_ (fun _ => ?_)
      | ((with_reducible refine Pres_modifyP ?_); exact fun _ h => h)
      | ((with_reducible refine Pres_modifyInline ?_); exact fun _ h => h)
      | ((with_reducible refine Pres_writeToken ?_); exact fun _ h => h)
      | ((with_reducible refine Pres_writeTokenIgnore ?_); exact fun _ h => h)
      | ((with_reducible refine Pres_setWrapIndent ?_); exact fun _ h => h)
      | ((with_reducible refine Pres_modifyP ?_); exact StackInv_frame flushPendingDelims_stack)
      | with_reducible exact Pres_panicNow
      | with_reducible exact Pres_fuelOutNow
      | with_reducible refine Pres_ignoreErr ?_
      | ((fail_if_success (with_reducible refine Pres_ite ?_ ?_)); (try subst_vars); split)
      | (with_reducible generalize hK : (fun y : Unit => (_ : PM σ Unit)) = jp;
         fail_if_success (clear hK jp);
         refine Pres_cutjp (j := jp) ?_ (fun hjp => ?_);
         on_goal 2 => (have hjp0 := hjp; rw [← hK] at hjp0; beta_reduce at hjp0);
         subst hK; beta_reduce)
      | ((with_reducible (conv => (arg 2; whnf)));
         with_reducible generalize hK : (fun y : Unit => (_ : PM σ Unit)) = jp;
         fail_if_success (clear hK jp);
         refine Pres_cutjp (j := jp) ?_ (fun hjp => ?_);
         on_goal 2 => (have hjp0 := hjp; rw [← hK] at hjp0; beta_reduce at hjp0);
         subst hK; beta_reduce)
      | with_reducible refine Pres_ite ?_ ?_
      | split)

theorem emitLinkText_stack {σ : Type} (S : Stream σ) (Q : List listState → Nat → Prop) (text :
    List Nat) :
    Pres (StackInv Q) (emitLinkText S text) := by
  unfold emitLinkText
  repeat (first
    | exact emitLinkTextLoop_stack S Q _ _ _ _
    | with_reducible exact Pres_pure _
    | with_reducible exact Pres_getP
    | with_reducible assumption
    | with_reducible refine Pres_bind ?_ (fun _ => ?_)
    | ((with_reducible refine Pres_modifyP ?_); exact fun _ h => h)
    | ((with_reducible refine Pres_modifyInline ?_); exact fun _ h => h)
    | ((with_reducible refine Pres_writeToken ?_); exact fun _ h => h)
    | ((with_reducible refine Pres_writeTokenIgnore ?_); exact fun _ h => h)
    | ((with_reducible refine Pres_setWrapIndent ?_); exact fun _ h => h)
    | ((with_reducible refine Pres_modifyP ?_); exact StackInv_frame flushPendingDelims_stack)
    | with_reducible exact Pres_panicNow
    | with_reducible exact Pres_fuelOutNow
    | with_reducible refine Pres_ignoreErr ?_
    | ((fail_if_success (with_reducible refine Pres_ite ?_ ?_)); (try subst_vars); split)
    | (with_reducible generalize hK : (fun y : Unit => (_ : PM σ Unit)) = jp;
       fail_if_success (clear hK jp);
       refine Pres_cutjp (j := jp) ?_ (fun hjp => ?_);
       on_goal 2 => (have hjp0 := hjp; rw [← hK] at hjp0; beta_reduce at hjp0);
       subst hK; beta_reduce)
    | ((with_reducible (conv => (arg 2; whnf)));
       with_reducible generalize hK : (fun y : Unit => (_ : PM σ Unit)) = jp;
       fail_if_success (clear hK jp);
       refine Pres_cutjp (j := jp) ?_ (fun hjp => ?_);
       on_goal 2 => (have hjp0 := hjp; rw [← hK] at hjp0; beta_reduce at hjp0);
       subst hK; beta_reduce)
    | with_reducible refine Pres_ite ?_ ?_
    | split)

theorem emitLink_stack {σ : Type} (S : Stream σ) (Q : List listState → Nat → Prop) :
    Pres (StackInv Q) (emitLink S) := by
  unfold emitLink
  repeat (first
    | with_reducible exact Pres_pure _
    | with_reducible exact Pres_getP
    | with_reducible assumption
    | with_reducible refine Pres_bind ?_ (fun _ => ?_)
    | ((with_reducible refine Pres_modifyP ?_); exact fun _ h => h)
    | ((with_reducible refine Pres_modifyInline ?_); exact fun _ h => h)
    | ((with_reducible refine Pres_writeToken ?_); exact fun _ h => h)
    | ((with_reducible refine Pres_writeTokenIgnore ?_); exact fun _ h => h)
    | ((with_reducible refine Pres_setWrapIndent ?_); exact fun _ h => h)
    | ((with_reducible refine Pres_modifyP ?_); exact StackInv_frame flushPendingDelims_stack)
    | with_reducible exact Pres_panicNow
    | with_reducible exact Pres_fuelOutNow
    | with_reducible apply emitLinkText_stack
    | with_reducible refine Pres_ignoreErr ?_
    | ((fail_if_success (with_reducible refine Pres_ite ?_ ?_)); (try subst_vars); split)
    | (with_reducible generalize hK : (fun y : Unit => (_ : PM σ Unit)) = jp;
       fail_if_success (clear hK jp);
       refine Pres_cutjp (j := jp) ?_ (fun hjp => ?_);
       on_goal 2 => (have hjp0 := hjp; rw [← hK] at hjp0; beta_reduce at hjp0);
       subst hK; beta_reduce)
    | ((with_reducible (conv => (arg 2; whnf)));
       with_reducible generalize hK : (fun y : Unit => (_ : PM σ Unit)) = jp;
       fail_if_success (clear hK jp);
       refine Pres_cutjp (j := jp) ?_ (fun hjp => ?_);
       on_goal 2 => (have hjp0 := hjp; rw [← hK] at hjp0; beta_reduce at hjp0);
       subst hK; beta_reduce)
    | with_reducible refine Pres_ite ?_ ?_
    | split)

theorem emitLinkFallback_stack {σ : Type} (S : Stream σ) (Q : List listState → Nat → Prop) :
    Pres (StackInv Q) (emitLinkFallback S) := by
  unfold emitLinkFallback
  repeat (first
    | with_reducible exact Pres_pure _
    | with_reducible exact Pres_getP
    | with_reducible assumption
    | with_reducible refine Pres_bind ?_ (fun _ => ?_)
    | ((with_reducible refine Pres_modifyP ?_); exact fun _ h => h)
    | ((with_reducible refine Pres_modifyInline ?_); exact fun _ h => h)
    | ((with_reducible refine Pres_writeToken ?_); exact fun _ h => h)
    | ((with_reducible refine Pres_writeTokenIgnore ?_); exact fun _ h => h)
    | ((with_reducible refine Pres_setWrapIndent ?_); exact fun _ h => h)
    | ((with_reducible refine Pres_modifyP ?_); exact StackInv_frame flushPendingDelims_stack)
    | with_reducible exact Pres_panicNow
    | with_reducible exact Pres_fuelOutNow
    | with_reducible refine Pres_ignoreErr ?_
    | ((fail_if_success (with_reducible refine Pres_ite ?_ ?_)); (try subst_vars); split)
    | (with_reducible generalize hK : (fun y : Unit => (_ : PM σ Unit)) = jp;
       fail_if_success (clear hK jp);
       refine Pres_cutjp (j := jp) ?_ (fun hjp => ?_);
       on_goal 2 => (have hjp0 := hjp; rw [← hK] at hjp0; beta_reduce at hjp0);
       subst hK; beta_reduce)
    | ((with_reducible (conv => (arg 2; whnf)));
       with_reducible generalize hK : (fun y : Unit => (_ : PM σ Unit)) = jp;
       fail_if_success (clear hK jp);
       refine Pres_cutjp (j := jp) ?_ (fun hjp => ?_);
       on_goal 2 => (have hjp0 := hjp; rw [← hK] at hjp0; beta_reduce at hjp0);
       subst hK; beta_reduce)
    | with_reducible refine Pres_ite ?_ ?_
    | split)

theorem emitInlineNumUS_stack {σ : Type} (S : Stream σ) (Q : List listState → Nat → Prop) (r :
    Nat) :
    Pres (StackInv Q) (emitInlineNumUS S r) := by
  unfold emitInlineNumUS
  repeat (first
    | with_reducible exact Pres_pure _
    | with_reducible exact Pres_getP
    | with_reducible assumption
    | with_reducible refine Pres_bind ?_ (fun _ => ?_)
    | ((with_reducible refine Pres_modifyP ?_); exact fun _ h => h)
    | ((with_reducible refine Pres_modifyInline ?_); exact fun _ h => h)
    | ((with_reducible refine Pres_writeToken ?_); exact fun _ h => h)
    | ((with_reducible refine Pres_writeTokenIgnore ?_); exact fun _ h => h)
    | ((with_reducible refine Pres_setWrapIndent ?_); exact fun _ h => h)
    | ((with_reducible refine Pres_modifyP ?_); exact StackInv_frame flushPendingDelims_stack)
    | with_reducible exact Pres_panicNow
    | with_reducible exact Pres_fuelOutNow
    | with_reducible refine Pres_ignoreErr ?_
    | ((fail_if_success (with_reducible refine Pres_ite ?_ ?_)); (try subst_vars); split)
    | (with_reducible generalize hK : (fun y : Unit => (_ : PM σ Unit)) = jp;
       fail_if_success (clear hK jp);
       refine Pres_cutjp (j := jp) ?_ (fun hjp => ?_);
       on_goal 2 => (have hjp0 := hjp; rw [← hK] at hjp0; beta_reduce at hjp0);
       subst hK; beta_reduce)
    | ((with_reducible (conv => (arg 2; whnf)));
       with_reducible generalize hK : (fun y : Unit => (_ : PM σ Unit)) = jp;
       fail_if_success (clear hK jp);
       refine Pres_cutjp (j := jp) ?_ (fun hjp => ?_);
       on_goal 2 => (have hjp0 := hjp; rw [← hK] at hjp0; beta_reduce at hjp0);
       subst hK; beta_reduce)
    | with_reducible refine Pres_ite ?_ ?_
    | split)

theorem emitInlineAutoLink_stack {σ : Type} (S : Stream σ) (Q : List listState → Nat → Prop) (r
    : Nat) :
    Pres (StackInv Q) (emitInlineAutoLink S r) := by
  unfold emitInlineAutoLink
  repeat (first
    | with_reducible exact Pres_pure _
    | with_reducible exact Pres_getP
    | with_reducible assumption
    | with_reducible refine Pres_bind ?_ (fun _ => ?_)
    | ((with_reducible refine Pres_modifyP ?_); exact fun _ h => h)
    | ((with_reducible refine Pres_modifyInline ?_); exact fun _ h => h)
    | ((with_reducible refine Pres_writeToken ?_); exact fun _ h => h)
    | ((with_reducible refine Pres_writeTokenIgnore ?_); exact fun _ h => h)
    | ((with_reducible refine Pres_setWrapIndent ?_); exact fun _ h => h)
    | ((with_reducible refine Pres_modifyP ?_); exact StackInv_frame flushPendingDelims_stack)
    | with_reducible exact Pres_panicNow
    | with_reducible exact Pres_fuelOutNow
    | with_reducible apply emitStyledText_stack
    | with_reducible apply emitAutoLink_stack
    | with_reducible refine Pres_ignoreErr ?_
    | ((fail_if_success (with_reducible refine Pres_ite ?_ ?_)); (try subst_vars); split)
    | (with_reducible generalize hK : (fun y : Unit => (_ : PM σ Unit)) = jp;
       fail_if_success (clear hK jp);
       refine Pres_cutjp (j := jp) ?_ (fun hjp => ?_);
       on_goal 2 => (have hjp0 := hjp; rw [← hK] at hjp0; beta_reduce at hjp0);
       subst hK; beta_reduce)
    | ((with_reducible (conv => (arg 2; whnf)));
       with_reducible generalize hK : (fun y : Unit => (_ : PM σ Unit)) = jp;
       fail_if_success (clear hK jp);
       refine Pres_cutjp (j := jp) ?_ (fun hjp => ?_);
       on_goal 2 => (have hjp0 := hjp; rw [← hK] at hjp0; beta_reduce at hjp0);
       subst hK; beta_reduce)
    | with_reducible refine Pres_ite ?_ ?_
    | split)

theorem emitInlineEntity_stack {σ : Type} (S : Stream σ) (Q : List listState → Nat → Prop) (r :
    Nat) :
    Pres (StackInv Q) (emitInlineEntity S r) := by
  unfold emitInlineEntity
  repeat (first
    | with_reducible exact Pres_pure _
    | with_reducible exact Pres_getP
    | with_reducible assumption
    | with_reducible refine Pres_bind ?_ (fun _ => ?_)
    | ((with_reducible refine Pres_modifyP ?_); exact fun _ h => h)
    | ((with_reducible refine Pres_modifyInline ?_); exact fun _ h => h)
    | ((with_reducible refine Pres_writeToken ?_); exact fun _ h => h)
    | ((with_reducible refine Pres_writeTokenIgnore ?_); exact fun _ h => h)
    | ((with_reducible refine Pres_setWrapIndent ?_); exact fun _ h => h)
    | ((with_reducible refine Pres_modifyP ?_); exact StackInv_frame flushPendingDelims_stack)
    | with_reducible exact Pres_panicNow
    | with_reducible exact Pres_fuelOutNow
    | with_reducible apply emitStyledText_stack
    | with_reducible refine Pres_ignoreErr ?_
    | ((fail_if_success (with_reducible refine Pres_ite ?_ ?_)); (try subst_vars); split)
    | (with_reducible generalize hK : (fun y : Unit => (_ : PM σ Unit)) = jp;
       fail_if_success (clear hK jp);
       refine Pres_cutjp (j := jp) ?_ (fun hjp => ?_);
       on_goal 2 => (have hjp0 := hjp; rw [← hK] at hjp0; beta_reduce at hjp0);
       subst hK; beta_reduce)
    | ((with_reducible (conv => (arg 2; whnf)));
       with_reducible generalize hK : (fun y : Unit => (_ : PM σ Unit)) = jp;
       fail_if_success (clear hK jp);
       refine Pres_cutjp (j := jp) ?_ (fun hjp => ?_);
       on_goal 2 => (have hjp0 := hjp; rw [← hK] at hjp0; beta_reduce at hjp0);
       subst hK; beta_reduce)
    | with_reducible refine Pres_ite ?_ ?_
    | split)

theorem emitInlineSpaces_stack {σ : Type} (S : Stream σ) (Q : List listState → Nat → Prop) (r :
    Nat) :
    Pres (StackInv Q) (emitInlineSpaces S r) := by
  unfold emitInlineSpaces
  repeat (first
    | with_reducible exact Pres_pure _
    | with_reducible exact Pres_getP
    | with_reducible assumption
    | with_reducible refine Pres_bind ?_ (fun _ => ?_)
    | ((with_reducible refine Pres_modifyP ?_); exact fun _ h => h)
    | ((with_reducible refine Pres_modifyInline ?_); exact fun _ h => h)
    | ((with_reducible refine Pres_writeToken ?_); exact fun _ h => h)
    | ((with_reducible refine Pres_writeTokenIgnore ?_); exact fun _ h => h)
    | ((with_reducible refine Pres_setWrapIndent ?_); exact fun _ h => h)
    | ((with_reducible refine Pres_modifyP ?_); exact StackInv_frame flushPendingDelims_stack)
    | with_reducible exact Pres_panicNow
    | with_reducible exact Pres_fuelOutNow
    | with_reducible apply writeRunes_stack
    | with_reducible refine Pres_ignoreErr ?_
    | ((fail_if_success (with_reducible refine Pres_ite ?_ ?_)); (try subst_vars); split)
    | (with_reducible generalize hK : (fun y : Unit => (_ : PM σ Unit)) = jp;
       fail_if_success (clear hK jp);
       refine Pres_cutjp (j := jp) ?_ (fun hjp => ?_);
       on_goal 2 => (have hjp0 := hjp; rw [← hK] at hjp0; beta_reduce at hjp0);
       subst hK; beta_reduce)
    | ((with_reducible (conv => (arg 2; whnf)));
       with_reducible generalize hK : (fun y : Unit => (_ : PM σ Unit)) = jp;
       fail_if_success (clear hK jp);
       refine Pres_cutjp (j := jp) ?_ (fun hjp => ?_);
       on_goal 2 => (have hjp0 := hjp; rw [← hK] at hjp0; beta_reduce at hjp0);
       subst hK; beta_reduce)
    | with_reducible refine Pres_ite ?_ ?_
    | split)

theorem emitInlineSwitch_stack {σ : Type} (S : Stream σ) (Q : List listState → Nat → Prop) (r :
    Nat) :
    Pres (StackInv Q) (emitInlineSwitch S r) := by
  unfold emitInlineSwitch
  repeat (first
    | with_reducible exact Pres_pure _
    | with_reducible exact Pres_getP
    | with_reducible assumption
    | with_reducible refine Pres_bind ?_ (fun _ => ?_)
    | ((with_reducible refine Pres_modifyP ?_); exact fun _ h => h)
    | ((with_reducible refine Pres_modifyInline ?_); exact fun _ h => h)
    | ((with_reducible refine Pres_writeToken ?_); exact fun _ h => h)
    | ((with_reducible refine Pres_writeTokenIgnore ?_); exact fun _ h => h)
    | ((with_reducible refine Pres_setWrapIndent ?_); exact fun _ h => h)
    | ((with_reducible refine Pres_modifyP ?_); exact StackInv_frame flushPendingDelims_stack)
    | with_reducible exact Pres_panicNow
    | with_reducible exact Pres_fuelOutNow
    | with_reducible apply emitLink_stack
    | with_reducible refine Pres_ignoreErr ?_
    | ((fail_if_success (with_reducible refine Pres_ite ?_ ?_)); (try subst_vars); split)
    | (with_reducible generalize hK : (fun y : Unit => (_ : PM σ Unit)) = jp;
       fail_if_success (clear hK jp);
       refine Pres_cutjp (j := jp) ?_ (fun hjp => ?_);
       on_goal 2 => (have hjp0 := hjp; rw [← hK] at hjp0; beta_reduce at hjp0);
       subst hK; beta_reduce)
    | ((with_reducible (conv => (arg 2; whnf)));
       with_reducible generalize hK : (fun y : Unit => (_ : PM σ Unit)) = jp;
       fail_if_success (clear hK jp);
       refine Pres_cutjp (j := jp) ?_ (fun hjp => ?_);
       on_goal 2 => (have hjp0 := hjp; rw [← hK] at hjp0; beta_reduce at hjp0);
       subst hK; beta_reduce)
    | with_reducible refine Pres_ite ?_ ?_
    | split)

theorem emitInlineLink_stack {σ : Type} (S : Stream σ) (Q : List listState → Nat → Prop) (r :
    Nat) :
    Pres (StackInv Q) (emitInlineLink S r) := by
  unfold emitInlineLink
  repeat (first
    | with_reducible exact Pres_pure _
    | with_reducible exact Pres_getP
    | with_reducible assumption
    | with_reducible refine Pres_bind ?_ (fun _ => ?_)
    | ((with_reducible refine Pres_modifyP ?_); exact fun _ h => h)
    | ((with_reducible refine Pres_modifyInline ?_); exact fun _ h => h)
    | ((with_reducible refine Pres_writeToken ?_); exact fun _ h => h)
    | ((with_reducible refine Pres_writeTokenIgnore ?_); exact fun _ h => h)
    | ((with_reducible refine Pres_setWrapIndent ?_); exact fun _ h => h)
    | ((with_reducible refine Pres_modifyP ?_); exact StackInv_frame flushPendingDelims_stack)
    | with_reducible exact Pres_panicNow
    | with_reducible exact Pres_fuelOutNow
    | with_reducible apply emitLinkFallback_stack
    | with_reducible refine Pres_ignoreErr ?_
    | ((fail_if_success (with_reducible refine Pres_ite ?_ ?_)); (try subst_vars); split)
    | (with_reducible generalize hK : (fun y : Unit => (_ : PM σ Unit)) = jp;
       fail_if_success (clear hK jp);
       refine Pres_cutjp (j := jp) ?_ (fun hjp => ?_);
       on_goal 2 => (have hjp0 := hjp; rw [← hK] at hjp0; beta_reduce at hjp0);
       subst hK; beta_reduce)
    | ((with_reducible (conv => (arg 2; whnf)));
       with_reducible generalize hK : (fun y : Unit => (_ : PM σ Unit)) = jp;
       fail_if_success (clear hK jp);
       refine Pres_cutjp (j := jp) ?_ (fun hjp => ?_);
       on_goal 2 => (have hjp0 := hjp; rw [← hK] at hjp0; beta_reduce at hjp0);
       subst hK; beta_reduce)
    | with_reducible refine Pres_ite ?_ ?_
    | split)

theorem emitInline_stack {σ : Type} (S : Stream σ) (Q : List listState → Nat → Prop) (r : Nat) :
    Pres (StackInv Q) (emitInline S r) := by
  unfold emitInline
  repeat (first
    | with_reducible exact Pres_pure _
    | with_reducible exact Pres_getP
    | with_reducible assumption
    | with_reducible refine Pres_bind ?_ (fun _ => ?_)
    | ((with_reducible refine Pres_modifyP ?_); exact fun _ h => h)
    | ((with_reducible refine Pres_modifyInline ?_); exact fun _ h => h)
    | ((with_reducible refine Pres_writeToken ?_); exact fun _ h => h)
    | ((with_reducible refine Pres_writeTokenIgnore ?_); exact fun _ h => h)
    | ((with_reducible refine Pres_setWrapIndent ?_); exact fun _ h => h)
    | ((with_reducible refine Pres_modifyP ?_); exact StackInv_frame flushPendingDelims_stack)
    | with_reducible exact Pres_panicNow
    | with_reducible exact Pres_fuelOutNow
    | with_reducible apply emitInlineBackticks_stack
    | with_reducible apply emitLinkFallback_stack
    | with_reducible apply emitInlineNumUS_stack
    | with_reducible apply emitInlineAutoLink_stack
    | with_reducible apply emitInlineEntity_stack
    | with_reducible apply emitInlineSpaces_stack
    | with_reducible apply emitInlineSwitch_stack
    | with_reducible apply emitInlineLink_stack
    | with_reducible refine Pres_ignoreErr ?_
    | ((fail_if_success (with_reducible refine Pres_ite ?_ ?_)); (try subst_vars); split)
    | (with_reducible generalize hK : (fun y : Unit => (_ : PM σ Unit)) = jp;
       fail_if_success (clear hK jp);
       refine Pres_cutjp (j := jp) ?_ (fun hjp => ?_);
       on_goal 2 => (have hjp0 := hjp; rw [← hK] at hjp0; beta_reduce at hjp0);
       subst hK; beta_reduce)
    | ((with_reducible (conv => (arg 2; whnf)));
       with_reducible generalize hK : (fun y : Unit => (_ : PM σ Unit)) = jp;
       fail_if_success (clear hK jp);
       refine Pres_cutjp (j := jp) ?_ (fun hjp => ?_);
       on_goal 2 => (have hjp0 := hjp; rw [← hK] at hjp0; beta_reduce at hjp0);
       subst hK; beta_reduce)
    | with_reducible refine Pres_ite ?_ ?_
    | split)

theorem emitInlineRunesLoop_stack {σ : Type} (S : Stream σ)
    (Q : List listState → Nat → Prop) (runes : List Nat) (fuel : Nat) :
    ∀ i : Nat, Pres (StackInv Q) (emitInlineRunesLoop S runes fuel i) := by
  induction fuel with
  | zero => intro i; exact Pres_pure _
  | succ n ih =>
    intro i
    unfold emitInlineRunesLoop
    repeat (first
      | exact ih _
      | with_reducible exact Pres_pure _
      | with_reducible exact Pres_getP
      | with_reducible assumption
      | with_reducible refine Pres_bind ?_ (fun _ => ?_)
      | ((with_reducible refine Pres_modifyP ?_); exact fun _ h => h)
      | ((with_reducible refine Pres_modifyInline ?_); exact fun _ h => h)
      | ((with_reducible refine Pres_writeToken ?_); exact fun _ h => h)
      | ((with_reducible refine Pres_writeTokenIgnore ?_); exact fun _ h => h)
      | ((with_reducible refine Pres_setWrapIndent ?_); exact fun _ h => h)
      | ((with_reducible refine Pres_modifyP ?_); exact StackInv_frame flushPendingDelims_stack)
      | with_reducible exact Pres_panicNow
      | with_reducible exact Pres_fuelOutNow
      | with_reducible apply emitInline_stack
      | with_reducible refine Pres_ignoreErr ?_
      | ((fail_if_success (with_reducible refine Pres_ite ?_ ?_)); (try subst_vars); split)
      | (with_reducible generalize hK : (fun y : Unit => (_ : PM σ Unit)) = jp;
         fail_if_success (clear hK jp);
         refine Pres_cutjp (j := jp) ?_ (fun hjp => ?_);
         on_goal 2 => (have hjp0 := hjp; rw [← hK] at hjp0; beta_reduce at hjp0);
         subst hK; beta_reduce)
      | ((with_reducible (conv => (arg 2; whnf)));
         with_reducible generalize hK : (fun y : Unit => (_ : PM σ Unit)) = jp;
         fail_if_success (clear hK jp);
         refine Pres_cutjp (j := jp) ?_ (fun hjp => ?_);
         on_goal 2 => (have hjp0 := hjp; rw [← hK] at hjp0; beta_reduce at hjp0);
         subst hK; beta_reduce)
      | with_reducible refine Pres_ite ?_ ?_
      | split)

theorem flushPendingEntity_stack {σ : Type} (S : Stream σ) (Q : List listState → Nat → Prop) :
    Pres (StackInv Q) (flushPendingEntity S) := by
  unfold flushPendingEntity
  repeat (first
    | with_reducible exact Pres_pure _
    | with_reducible exact Pres_getP
    | with_reducible assumption
    | with_reducible refine Pres_bind ?_ (fun _ => ?_)
    | ((with_reducible refine Pres_modifyP ?_); exact fun _ h => h)
    | ((with_reducible refine Pres_modifyInline ?_); exact fun _ h => h)
    | ((with_reducible refine Pres_writeToken ?_); exact fun _ h => h)
    | ((with_reducible refine Pres_writeTokenIgnore ?_); exact fun _ h => h)
    | ((with_reducible refine Pres_setWrapIndent ?_); exact fun _ h => h)
    | ((with_reducible refine Pres_modifyP ?_); exact StackInv_frame flushPendingDelims_stack)
    | with_reducible exact Pres_panicNow
    | with_reducible exact Pres_fuelOutNow
    | with_reducible apply emitStyledText_stack
    | with_reducible refine Pres_ignoreErr ?_
    | ((fail_if_success (with_reducible refine Pres_ite ?_ ?_)); (try subst_vars); split)
    | (with_reducible generalize hK : (fun y : Unit => (_ : PM σ Unit)) = jp;
       fail_if_success (clear hK jp);
       refine Pres_cutjp (j := jp) ?_ (fun hjp => ?_);
       on_goal 2 => (have hjp0 := hjp; rw [← hK] at hjp0; beta_reduce at hjp0);
       subst hK; beta_reduce)
    | ((with_reducible (conv => (arg 2; whnf)));
       with_reducible generalize hK : (fun y : Unit => (_ : PM σ Unit)) = jp;
       fail_if_success (clear hK jp);
       refine Pres_cutjp (j := jp) ?_ (fun hjp => ?_);
       on_goal 2 => (have hjp0 := hjp; rw [← hK] at hjp0; beta_reduce at hjp0);
       subst hK; beta_reduce)
    | with_reducible refine Pres_ite ?_ ?_
    | split)

theorem emitInlineRunes_stack {σ : Type} (S : Stream σ) (Q : List listState → Nat → Prop) (runes
    : List Nat) :
    Pres (StackInv Q) (emitInlineRunes S runes) := by
  unfold emitInlineRunes
  repeat (first
    | exact emitInlineRunesLoop_stack S Q _ _ _
    | with_reducible exact Pres_pure _
    | with_reducible exact Pres_getP
    | with_reducible assumption
    | with_reducible refine Pres_bind ?_ (fun _ => ?_)
    | ((with_reducible refine Pres_modifyP ?_); exact fun _ h => h)
    | ((with_reducible refine Pres_modifyInline ?_); exact fun _ h => h)
    | ((with_reducible refine Pres_writeToken ?_); exact fun _ h => h)
    | ((with_reducible refine Pres_writeTokenIgnore ?_); exact fun _ h => h)
    | ((with_reducible refine Pres_setWrapIndent ?_); exact fun _ h => h)
    | ((with_reducible refine Pres_modifyP ?_); exact StackInv_frame flushPendingDelims_stack)
    | with_reducible exact Pres_panicNow
    | with_reducible exact Pres_fuelOutNow
    | with_reducible apply emitStyledText_stack
    | with_reducible refine Pres_ignoreErr ?_
    | ((fail_if_success (with_reducible refine Pres_ite ?_ ?_)); (try subst_vars); split)
    | (with_reducible generalize hK : (fun y : Unit => (_ : PM σ Unit)) = jp;
       fail_if_success (clear hK jp);
       refine Pres_cutjp (j := jp) ?_ (fun hjp => ?_);
       on_goal 2 => (have hjp0 := hjp; rw [← hK] at hjp0; beta_reduce at hjp0);
       subst hK; beta_reduce)
    | ((with_reducible (conv => (arg 2; whnf)));
       with_reducible generalize hK : (fun y : Unit => (_ : PM σ Unit)) = jp;
       fail_if_success (clear hK jp);
       refine Pres_cutjp (j := jp) ?_ (fun hjp => ?_);
       on_goal 2 => (have hjp0 := hjp; rw [← hK] at hjp0; beta_reduce at hjp0);
       subst hK; beta_reduce)
    | with_reducible refine Pres_ite ?_ ?_
    | split)

theorem flushPendingBackticks_stack {σ : Type} (S : Stream σ) (Q : List listState → Nat → Prop)
    :
    Pres (StackInv Q) (flushPendingBackticks S) := by
  unfold flushPendingBackticks
  repeat (first
    | with_reducible exact Pres_pure _
    | with_reducible exact Pres_getP
    | with_reducible assumption
    | with_reducible refine Pres_bind ?_ (fun _ => ?_)
    | ((with_reducible refine Pres_modifyP ?_); exact fun _ h => h)
    | ((with_reducible refine Pres_modifyInline ?_); exact fun _ h => h)
    | ((with_reducible refine Pres_writeToken ?_); exact fun _ h => h)
    | ((with_reducible refine Pres_writeTokenIgnore ?_); exact fun _ h => h)
    | ((with_reducible refine Pres_setWrapIndent ?_); exact fun _ h => h)
    | ((with_reducible refine Pres_modifyP ?_); exact StackInv_frame flushPendingDelims_stack)
    | with_reducible exact Pres_panicNow
    | with_reducible exact Pres_fuelOutNow
    | with_reducible apply emitInlineBackticks_stack
    | with_reducible refine Pres_ignoreErr ?_
    | ((fail_if_success (with_reducible refine Pres_ite ?_ ?_)); (try subst_vars); split)
    | (with_reducible generalize hK : (fun y : Unit => (_ : PM σ Unit)) = jp;
       fail_if_success (clear hK jp);
       refine Pres_cutjp (j := jp) ?_ (fun hjp => ?_);
       on_goal 2 => (have hjp0 := hjp; rw [← hK] at hjp0; beta_reduce at hjp0);
       subst hK; beta_reduce)
    | ((with_reducible (conv => (arg 2; whnf)));
       with_reducible generalize hK : (fun y : Unit => (_ : PM σ Unit)) = jp;
       fail_if_success (clear hK jp);
       refine Pres_cutjp (j := jp) ?_ (fun hjp => ?_);
       on_goal 2 => (have hjp0 := hjp; rw [← hK] at hjp0; beta_reduce at hjp0);
       subst hK; beta_reduce)
    | with_reducible refine Pres_ite ?_ ?_
    | split)

theorem flushPendingNumUS_stack {σ : Type} (S : Stream σ) (Q : List listState → Nat → Prop) :
    Pres (StackInv Q) (flushPendingNumUS S) := by
  unfold flushPendingNumUS
  repeat (first
    | with_reducible exact Pres_pure _
    | with_reducible exact Pres_getP
    | with_reducible assumption
    | with_reducible refine Pres_bind ?_ (fun _ => ?_)
    | ((with_reducible refine Pres_modifyP ?_); exact fun _ h => h)
    | ((with_reducible refine Pres_modifyInline ?_); exact fun _ h => h)
    | ((with_reducible refine Pres_writeToken ?_); exact fun _ h => h)
    | ((with_reducible refine Pres_writeTokenIgnore ?_); exact fun _ h => h)
    | ((with_reducible refine Pres_setWrapIndent ?_); exact fun _ h => h)
    | ((with_reducible refine Pres_modifyP ?_); exact StackInv_frame flushPendingDelims_stack)
    | with_reducible exact Pres_panicNow
    | with_reducible exact Pres_fuelOutNow
    | with_reducible refine Pres_ignoreErr ?_
    | ((fail_if_success (with_reducible refine Pres_ite ?_ ?_)); (try subst_vars); split)
    | (with_reducible generalize hK : (fun y : Unit => (_ : PM σ Unit)) = jp;
       fail_if_success (clear hK jp);
       refine Pres_cutjp (j := jp) ?_ (fun hjp => ?_);
       on_goal 2 => (have hjp0 := hjp; rw [← hK] at hjp0; beta_reduce at hjp0);
       subst hK; beta_reduce)
    | ((with_reducible (conv => (arg 2; whnf)));
       with_reducible generalize hK : (fun y : Unit => (_ : PM σ Unit)) = jp;
       fail_if_success (clear hK jp);
       refine Pres_cutjp (j := jp) ?_ (fun hjp => ?_);
       on_goal 2 => (have hjp0 := hjp; rw [← hK] at hjp0; beta_reduce at hjp0);
       subst hK; beta_reduce)
    | with_reducible refine Pres_ite ?_ ?_
    | split)

theorem lineBufFrom_stack {σ : Type} (Q : List listState → Nat → Prop) :
    Pres (StackInv Q) (lineBufFrom : PM σ _) := by
  unfold lineBufFrom
  repeat (first
    | with_reducible exact Pres_pure _
    | with_reducible exact Pres_getP
    | with_reducible assumption
    | with_reducible refine Pres_bind ?_ (fun _ => ?_)
    | ((with_reducible refine Pres_modifyP ?_); exact fun _ h => h)
    | ((with_reducible refine Pres_modifyInline ?_); exact fun _ h => h)
    | ((with_reducible refine Pres_writeToken ?_); exact fun _ h => h)
    | ((with_reducible refine Pres_writeTokenIgnore ?_); exact fun _ h => h)
    | ((with_reducible refine Pres_setWrapIndent ?_); exact fun _ h => h)
    | ((with_reducible refine Pres_modifyP ?_); exact StackInv_frame flushPendingDelims_stack)
    | with_reducible exact Pres_panicNow
    | with_reducible exact Pres_fuelOutNow
    | with_reducible refine Pres_ignoreErr ?_
    | ((fail_if_success (with_reducible refine Pres_ite ?_ ?_)); (try subst_vars); split)
    | (with_reducible generalize hK : (fun y : Unit => (_ : PM σ Unit)) = jp;
       fail_if_success (clear hK jp);
       refine Pres_cutjp (j := jp) ?_ (fun hjp => ?_);
       on_goal 2 => (have hjp0 := hjp; rw [← hK] at hjp0; beta_reduce at hjp0);
       subst hK; beta_reduce)
    | ((with_reducible (conv => (arg 2; whnf)));
       with_reducible generalize hK : (fun y : Unit => (_ : PM σ Unit)) = jp;
       fail_if_success (clear hK jp);
       refine Pres_cutjp (j := jp) ?_ (fun hjp => ?_);
       on_goal 2 => (have hjp0 := hjp; rw [← hK] at hjp0; beta_reduce at hjp0);
       subst hK; beta_reduce)
    | with_reducible refine Pres_ite ?_ ?_
    | split)

theorem emitCodeLine_stack {σ : Type} (S : Stream σ) (Q : List listState → Nat → Prop) (line :
    List Nat) :
    Pres (StackInv Q) (emitCodeLine S line) := by
  unfold emitCodeLine
  repeat (first
    | with_reducible exact Pres_pure _
    | with_reducible exact Pres_getP
    | with_reducible assumption
    | with_reducible refine Pres_bind ?_ (fun _ => ?_)
    | ((with_reducible refine Pres_modifyP ?_); exact fun _ h => h)
    | ((with_reducible refine Pres_modifyInline ?_); exact fun _ h => h)
    | ((with_reducible refine Pres_writeToken ?_); exact fun _ h => h)
    | ((with_reducible refine Pres_writeTokenIgnore ?_); exact fun _ h => h)
    | ((with_reducible refine Pres_setWrapIndent ?_); exact fun _ h => h)
    | ((with_reducible refine Pres_modifyP ?_); exact StackInv_frame flushPendingDelims_stack)
    | with_reducible exact Pres_panicNow
    | with_reducible exact Pres_fuelOutNow
    | with_reducible apply emitPrefix_stack
    | with_reducible refine Pres_ignoreErr ?_
    | ((fail_if_success (with_reducible refine Pres_ite ?_ ?_)); (try subst_vars); split)
    | (with_reducible generalize hK : (fun y : Unit => (_ : PM σ Unit)) = jp;
       fail_if_success (clear hK jp);
       refine Pres_cutjp (j := jp) ?_ (fun hjp => ?_);
       on_goal 2 => (have hjp0 := hjp; rw [← hK] at hjp0; beta_reduce at hjp0);
       subst hK; beta_reduce)
    | ((with_reducible (conv => (arg 2; whnf)));
       with_reducible generalize hK : (fun y : Unit => (_ : PM σ Unit)) = jp;
       fail_if_success (clear hK jp);
       refine Pres_cutjp (j := jp) ?_ (fun hjp => ?_);
       on_goal 2 => (have hjp0 := hjp; rw [← hK] at hjp0; beta_reduce at hjp0);
       subst hK; beta_reduce)
    | with_reducible refine Pres_ite ?_ ?_
    | split)

theorem emitCodeRune_stack {σ : Type} (S : Stream σ) (Q : List listState → Nat → Prop) (r : Nat)
    :
    Pres (StackInv Q) (emitCodeRune S r) := by
  unfold emitCodeRune
  repeat (first
    | with_reducible exact Pres_pure _
    | with_reducible exact Pres_getP
    | with_reducible assumption
    | with_reducible refine Pres_bind ?_ (fun _ => ?_)
    | ((with_reducible refine Pres_modifyP ?_); exact fun _ h => h)
    | ((with_reducible refine Pres_modifyInline ?_); exact fun _ h => h)
    | ((with_reducible refine Pres_writeToken ?_); exact fun _ h => h)
    | ((with_reducible refine Pres_writeTokenIgnore ?_); exact fun _ h => h)
    | ((with_reducible refine Pres_setWrapIndent ?_); exact fun _ h => h)
    | ((with_reducible refine Pres_modifyP ?_); exact StackInv_frame flushPendingDelims_stack)
    | with_reducible exact Pres_panicNow
    | with_reducible exact Pres_fuelOutNow
    | with_reducible refine Pres_ignoreErr ?_
    | ((fail_if_success (with_reducible refine Pres_ite ?_ ?_)); (try subst_vars); split)
    | (with_reducible generalize hK : (fun y : Unit => (_ : PM σ Unit)) = jp;
       fail_if_success (clear hK jp);
       refine Pres_cutjp (j := jp) ?_ (fun hjp => ?_);
       on_goal 2 => (have hjp0 := hjp; rw [← hK] at hjp0; beta_reduce at hjp0);
       subst hK; beta_reduce)
    | ((with_reducible (conv => (arg 2; whnf)));
       with_reducible generalize hK : (fun y : Unit => (_ : PM σ Unit)) = jp;
       fail_if_success (clear hK jp);
       refine Pres_cutjp (j := jp) ?_ (fun hjp => ?_);
       on_goal 2 => (have hjp0 := hjp; rw [← hK] at hjp0; beta_reduce at hjp0);
       subst hK; beta_reduce)
    | with_reducible refine Pres_ite ?_ ?_
    | split)

theorem processCodeFenceLine_stack {σ : Type} (S : Stream σ) (Q : List listState → Nat → Prop)
    (line : List Nat) :
    Pres (StackInv Q) (processCodeFenceLine S line) := by
  unfold processCodeFenceLine
  repeat (first
    | with_reducible exact Pres_pure _
    | with_reducible exact Pres_getP
    | with_reducible assumption
    | with_reducible refine Pres_bind ?_ (fun _ => ?_)
    | ((with_reducible refine Pres_modifyP ?_); exact fun _ h => h)
    | ((with_reducible refine Pres_modifyInline ?_); exact fun _ h => h)
    | ((with_reducible refine Pres_writeToken ?_); exact fun _ h => h)
    | ((with_reducible refine Pres_writeTokenIgnore ?_); exact fun _ h => h)
    | ((with_reducible refine Pres_setWrapIndent ?_); exact fun _ h => h)
    | ((with_reducible refine Pres_modifyP ?_); exact StackInv_frame flushPendingDelims_stack)
    | with_reducible exact Pres_panicNow
    | with_reducible exact Pres_fuelOutNow
    | with_reducible apply emitCodeLine_stack
    | with_reducible refine Pres_ignoreErr ?_
    | ((fail_if_success (with_reducible refine Pres_ite ?_ ?_)); (try subst_vars); split)
    | (with_reducible generalize hK : (fun y : Unit => (_ : PM σ Unit)) = jp;
       fail_if_success (clear hK jp);
       refine Pres_cutjp (j := jp) ?_ (fun hjp => ?_);
       on_goal 2 => (have hjp0 := hjp; rw [← hK] at hjp0; beta_reduce at hjp0);
       subst hK; beta_reduce)
    | ((with_reducible (conv => (arg 2; whnf)));
       with_reducible generalize hK : (fun y : Unit => (_ : PM σ Unit)) = jp;
       fail_if_success (clear hK jp);
       refine Pres_cutjp (j := jp) ?_ (fun hjp => ?_);
       on_goal 2 => (have hjp0 := hjp; rw [← hK] at hjp0; beta_reduce at hjp0);
       subst hK; beta_reduce)
    | with_reducible refine Pres_ite ?_ ?_
    | split)

theorem emitBlankQuoteLine_stack {σ : Type} (S : Stream σ) (Q : List listState → Nat → Prop)
    (listFirst : Bool) (listLen depth : Nat) :
    Pres (StackInv Q) (emitBlankQuoteLine S listFirst listLen depth) := by
  unfold emitBlankQuoteLine
  repeat (first
    | with_reducible exact Pres_pure _
    | with_reducible exact Pres_getP
    | with_reducible assumption
    | with_reducible refine Pres_bind ?_ (fun _ => ?_)
    | ((with_reducible refine Pres_modifyP ?_); exact fun _ h => h)
    | ((with_reducible refine Pres_modifyInline ?_); exact fun _ h => h)
    | ((with_reducible refine Pres_writeToken ?_); exact fun _ h => h)
    | ((with_reducible refine Pres_writeTokenIgnore ?_); exact fun _ h => h)
    | ((with_reducible refine Pres_setWrapIndent ?_); exact fun _ h => h)
    | ((with_reducible refine Pres_modifyP ?_); exact StackInv_frame flushPendingDelims_stack)
    | with_reducible exact Pres_panicNow
    | with_reducible exact Pres_fuelOutNow
    | with_reducible apply applyPendingBreak_stack
    | with_reducible apply emitQuotePrefixBare_stack
    | with_reducible apply emitListPrefix_stack
    | with_reducible refine Pres_ignoreErr ?_
    | ((fail_if_success (with_reducible refine Pres_ite ?_ ?_)); (try subst_vars); split)
    | (with_reducible generalize hK : (fun y : Unit => (_ : PM σ Unit)) = jp;
       fail_if_success (clear hK jp);
       refine Pres_cutjp (j := jp) ?_ (fun hjp => ?_);
       on_goal 2 => (have hjp0 := hjp; rw [← hK] at hjp0; beta_reduce at hjp0);
       subst hK; beta_reduce)
    | ((with_reducible (conv => (arg 2; whnf)));
       with_reducible generalize hK : (fun y : Unit => (_ : PM σ Unit)) = jp;
       fail_if_success (clear hK jp);
       refine Pres_cutjp (j := jp) ?_ (fun hjp => ?_);
       on_goal 2 => (have hjp0 := hjp; rw [← hK] at hjp0; beta_reduce at hjp0);
       subst hK; beta_reduce)
    | with_reducible refine Pres_ite ?_ ?_
    | split)

theorem emitContent_stack {σ : Type} (S : Stream σ) (Q : List listState → Nat → Prop) (content :
    List Nat) :
    Pres (StackInv Q) (emitContent S content) := by
  unfold emitContent
  repeat (first
    | with_reducible exact Pres_pure _
    | with_reducible exact Pres_getP
    | with_reducible assumption
    | with_reducible refine Pres_bind ?_ (fun _ => ?_)
    | ((with_reducible refine Pres_modifyP ?_); exact fun _ h => h)
    | ((with_reducible refine Pres_modifyInline ?_); exact fun _ h => h)
    | ((with_reducible refine Pres_writeToken ?_); exact fun _ h => h)
    | ((with_reducible refine Pres_writeTokenIgnore ?_); exact fun _ h => h)
    | ((with_reducible refine Pres_setWrapIndent ?_); exact fun _ h => h)
    | ((with_reducible refine Pres_modifyP ?_); exact StackInv_frame flushPendingDelims_stack)
    | with_reducible exact Pres_panicNow
    | with_reducible exact Pres_fuelOutNow
    | with_reducible apply emitInlineRunes_stack
    | with_reducible apply lineBufFrom_stack
    | with_reducible refine Pres_ignoreErr ?_
    | ((fail_if_success (with_reducible refine Pres_ite ?_ ?_)); (try subst_vars); split)
    | (with_reducible generalize hK : (fun y : Unit => (_ : PM σ Unit)) = jp;
       fail_if_success (clear hK jp);
       refine Pres_cutjp (j := jp) ?_ (fun hjp => ?_);
       on_goal 2 => (have hjp0 := hjp; rw [← hK] at hjp0; beta_reduce at hjp0);
       subst hK; beta_reduce)
    | ((with_reducible (conv => (arg 2; whnf)));
       with_reducible generalize hK : (fun y : Unit => (_ : PM σ Unit)) = jp;
       fail_if_success (clear hK jp);
       refine Pres_cutjp (j := jp) ?_ (fun hjp => ?_);
       on_goal 2 => (have hjp0 := hjp; rw [← hK] at hjp0; beta_reduce at hjp0);
       subst hK; beta_reduce)
    | with_reducible refine Pres_ite ?_ ?_
    | split)

theorem decideParagraph_stack {σ : Type} (S : Stream σ) (Q : List listState → Nat → Prop) (depth
    : Nat) (rest : List Nat) (blockStart : Bool) :
    Pres (StackInv Q) (decideParagraph S depth rest blockStart) := by
  unfold decideParagraph
  repeat (first
    | with_reducible exact Pres_pure _
    | with_reducible exact Pres_getP
    | with_reducible assumption
    | with_reducible refine Pres_bind ?_ (fun _ => ?_)
    | ((with_reducible refine Pres_modifyP ?_); exact fun _ h => h)
    | ((with_reducible refine Pres_modifyInline ?_); exact fun _ h => h)
    | ((with_reducible refine Pres_writeToken ?_); exact fun _ h => h)
    | ((with_reducible refine Pres_writeTokenIgnore ?_); exact fun _ h => h)
    | ((with_reducible refine Pres_setWrapIndent ?_); exact fun _ h => h)
    | ((with_reducible refine Pres_modifyP ?_); exact StackInv_frame flushPendingDelims_stack)
    | with_reducible exact Pres_panicNow
    | with_reducible exact Pres_fuelOutNow
    | with_reducible apply applyPendingBreak_stack
    | with_reducible apply emitPrefix_stack
    | with_reducible apply emitContent_stack
    | with_reducible refine Pres_ignoreErr ?_
    | ((fail_if_success (with_reducible refine Pres_ite ?_ ?_)); (try subst_vars); split)
    | (with_reducible generalize hK : (fun y : Unit => (_ : PM σ Unit)) = jp;
       fail_if_success (clear hK jp);
       refine Pres_cutjp (j := jp) ?_ (fun hjp => ?_);
       on_goal 2 => (have hjp0 := hjp; rw [← hK] at hjp0; beta_reduce at hjp0);
       subst hK; beta_reduce)
    | ((with_reducible (conv => (arg 2; whnf)));
       with_reducible generalize hK : (fun y : Unit => (_ : PM σ Unit)) = jp;
       fail_if_success (clear hK jp);
       refine Pres_cutjp (j := jp) ?_ (fun hjp => ?_);
       on_goal 2 => (have hjp0 := hjp; rw [← hK] at hjp0; beta_reduce at hjp0);
       subst hK; beta_reduce)
    | with_reducible refine Pres_ite ?_ ?_
    | split)

theorem decideListContinuation_stack {σ : Type} (S : Stream σ) (Q : List listState → Nat → Prop)
    (depth lineIndent indentForList : Nat) (trimmed : List Nat) (explicit quoteLineWithIndent :
    Bool) :
    Pres (StackInv Q) (decideListContinuation S depth lineIndent indentForList trimmed explicit
      quoteLineWithIndent) := by
  unfold decideListContinuation
  repeat (first
    | with_reducible exact Pres_pure _
    | with_reducible exact Pres_getP
    | with_reducible assumption
    | with_reducible refine Pres_bind ?_ (fun _ => ?_)
    | ((with_reducible refine Pres_modifyP ?_); exact fun _ h => h)
    | ((with_reducible refine Pres_modifyInline ?_); exact fun _ h => h)
    | ((with_reducible refine Pres_writeToken ?_); exact fun _ h => h)
    | ((with_reducible refine Pres_writeTokenIgnore ?_); exact fun _ h => h)
    | ((with_reducible refine Pres_setWrapIndent ?_); exact fun _ h => h)
    | ((with_reducible refine Pres_modifyP ?_); exact StackInv_frame flushPendingDelims_stack)
    | with_reducible exact Pres_panicNow
    | with_reducible exact Pres_fuelOutNow
    | with_reducible apply applyPendingBreak_stack
    | with_reducible apply emitQuotePrefix_stack
    | with_reducible apply emitListPrefix_stack
    | with_reducible apply emitPrefix_stack
    | with_reducible apply emitContent_stack
    | with_reducible refine Pres_ignoreErr ?_
    | ((fail_if_success (with_reducible refine Pres_ite ?_ ?_)); (try subst_vars); split)
    | (with_reducible generalize hK : (fun y : Unit => (_ : PM σ Unit)) = jp;
       fail_if_success (clear hK jp);
       refine Pres_cutjp (j := jp) ?_ (fun hjp => ?_);
       on_goal 2 => (have hjp0 := hjp; rw [← hK] at hjp0; beta_reduce at hjp0);
       subst hK; beta_reduce)
    | ((with_reducible (conv => (arg 2; whnf)));
       with_reducible generalize hK : (fun y : Unit => (_ : PM σ Unit)) = jp;
       fail_if_success (clear hK jp);
       refine Pres_cutjp (j := jp) ?_ (fun hjp => ?_);
       on_goal 2 => (have hjp0 := hjp; rw [← hK] at hjp0; beta_reduce at hjp0);
       subst hK; beta_reduce)
    | with_reducible refine Pres_ite ?_ ?_
    | split)

theorem decideQuoteContext_stack {σ : Type} (S : Stream σ) (Q : List listState → Nat → Prop)
    (line : List Nat) :
    Pres (StackInv Q) (decideQuoteContext S line) := by
  unfold decideQuoteContext
  repeat (first
    | with_reducible exact Pres_pure _
    | with_reducible exact Pres_getP
    | with_reducible assumption
    | with_reducible refine Pres_bind ?_ (fun _ => ?_)
    | ((with_reducible refine Pres_modifyP ?_); exact fun _ h => h)
    | ((with_reducible refine Pres_modifyInline ?_); exact fun _ h => h)
    | ((with_reducible refine Pres_writeToken ?_); exact fun _ h => h)
    | ((with_reducible refine Pres_writeTokenIgnore ?_); exact fun _ h => h)
    | ((with_reducible refine Pres_setWrapIndent ?_); exact fun _ h => h)
    | ((with_reducible refine Pres_modifyP ?_); exact StackInv_frame flushPendingDelims_stack)
    | with_reducible exact Pres_panicNow
    | with_reducible exact Pres_fuelOutNow
    | with_reducible apply emitBlankQuoteLine_stack
    | with_reducible refine Pres_ignoreErr ?_
    | ((fail_if_success (with_reducible refine Pres_ite ?_ ?_)); (try subst_vars); split)
    | (with_reducible generalize hK : (fun y : Unit => (_ : PM σ Unit)) = jp;
       fail_if_success (clear hK jp);
       refine Pres_cutjp (j := jp) ?_ (fun hjp => ?_);
       on_goal 2 => (have hjp0 := hjp; rw [← hK] at hjp0; beta_reduce at hjp0);
       subst hK; beta_reduce)
    | ((with_reducible (conv => (arg 2; whnf)));
       with_reducible generalize hK : (fun y : Unit => (_ : PM σ Unit)) = jp;
       fail_if_success (clear hK jp);
       refine Pres_cutjp (j := jp) ?_ (fun hjp => ?_);
       on_goal 2 => (have hjp0 := hjp; rw [← hK] at hjp0; beta_reduce at hjp0);
       subst hK; beta_reduce)
    | with_reducible refine Pres_ite ?_ ?_
    | split)

theorem replayLineWith_stack {σ : Type} (Q : List listState → Nat → Prop)
    (feed : Nat → PM σ Unit) (hfeed : ∀ r, Pres (StackInv Q) (feed r)) (line : List Nat) :
    Pres (StackInv Q) (replayLineWith feed line) := by
  unfold replayLineWith
  exact Pres_bind (Pres_modifyP (fun _ h => h)) (fun _ => Pres_forM hfeed _)

theorem maybeDecideIndentCodeLineWith_stack {σ : Type} (S : Stream σ)
    (Q : List listState → Nat → Prop)
    (replay : List Nat → PM σ Unit) (hreplay : ∀ line, Pres (StackInv Q) (replay line))
    (force : Bool) :
    Pres (StackInv Q) (maybeDecideIndentCodeLineWith S replay force) := by
  unfold maybeDecideIndentCodeLineWith
  repeat (first
    | with_reducible exact hreplay _
    | with_reducible exact Pres_pure _
    | with_reducible exact Pres_getP
    | with_reducible assumption
    | with_reducible refine Pres_bind ?_ (fun _ => ?_)
    | ((with_reducible refine Pres_modifyP ?_); exact fun _ h => h)
    | ((with_reducible refine Pres_modifyInline ?_); exact fun _ h => h)
    | ((with_reducible refine Pres_writeToken ?_); exact fun _ h => h)
    | ((with_reducible refine Pres_writeTokenIgnore ?_); exact fun _ h => h)
    | ((with_reducible refine Pres_setWrapIndent ?_); exact fun _ h => h)
    | ((with_reducible refine Pres_modifyP ?_); exact StackInv_frame flushPendingDelims_stack)
    | with_reducible exact Pres_panicNow
    | with_reducible exact Pres_fuelOutNow
    | with_reducible apply applyPendingBreak_stack
    | with_reducible apply emitCodeLine_stack
    | with_reducible apply emitBlankQuoteLine_stack
    | with_reducible refine Pres_ignoreErr ?_
    | ((fail_if_success (with_reducible refine Pres_ite ?_ ?_)); (try subst_vars); split)
    | (with_reducible generalize hK : (fun y : Unit => (_ : PM σ Unit)) = jp;
       fail_if_success (clear hK jp);
       refine Pres_cutjp (j := jp) ?_ (fun hjp => ?_);
       on_goal 2 => (have hjp0 := hjp; rw [← hK] at hjp0; beta_reduce at hjp0);
       subst hK; beta_reduce)
    | ((with_reducible (conv => (arg 2; whnf)));
       with_reducible generalize hK : (fun y : Unit => (_ : PM σ Unit)) = jp;
       fail_if_success (clear hK jp);
       refine Pres_cutjp (j := jp) ?_ (fun hjp => ?_);
       on_goal 2 => (have hjp0 := hjp; rw [← hK] at hjp0; beta_reduce at hjp0);
       subst hK; beta_reduce)
    | with_reducible refine Pres_ite ?_ ?_
    | split)

theorem feedRunePendingQuote_stack {σ : Type} (S : Stream σ) (Q : List listState → Nat → Prop)
    (r : Nat) :
    Pres (StackInv Q) (feedRunePendingQuote S r) := by
  unfold feedRunePendingQuote
  repeat (first
    | with_reducible exact Pres_pure _
    | with_reducible exact Pres_getP
    | with_reducible assumption
    | with_reducible refine Pres_bind ?_ (fun _ => ?_)
    | ((with_reducible refine Pres_modifyP ?_); exact fun _ h => h)
    | ((with_reducible refine Pres_modifyInline ?_); exact fun _ h => h)
    | ((with_reducible refine Pres_writeToken ?_); exact fun _ h => h)
    | ((with_reducible refine Pres_writeTokenIgnore ?_); exact fun _ h => h)
    | ((with_reducible refine Pres_setWrapIndent ?_); exact fun _ h => h)
    | ((with_reducible refine Pres_modifyP ?_); exact StackInv_frame flushPendingDelims_stack)
    | with_reducible exact Pres_panicNow
    | with_reducible exact Pres_fuelOutNow
    | with_reducible apply emitBlankQuoteLine_stack
    | with_reducible refine Pres_ignoreErr ?_
    | ((fail_if_success (with_reducible refine Pres_ite ?_ ?_)); (try subst_vars); split)
    | (with_reducible generalize hK : (fun y : Unit => (_ : PM σ Unit)) = jp;
       fail_if_success (clear hK jp);
       refine Pres_cutjp (j := jp) ?_ (fun hjp => ?_);
       on_goal 2 => (have hjp0 := hjp; rw [← hK] at hjp0; beta_reduce at hjp0);
       subst hK; beta_reduce)
    | ((with_reducible (conv => (arg 2; whnf)));
       with_reducible generalize hK : (fun y : Unit => (_ : PM σ Unit)) = jp;
       fail_if_success (clear hK jp);
       refine Pres_cutjp (j := jp) ?_ (fun hjp => ?_);
       on_goal 2 => (have hjp0 := hjp; rw [← hK] at hjp0; beta_reduce at hjp0);
       subst hK; beta_reduce)
    | with_reducible refine Pres_ite ?_ ?_
    | split)

theorem finalizeFlushes_stack {σ : Type} (S : Stream σ) (Q : List listState → Nat → Prop) :
    Pres (StackInv Q) (finalizeFlushes S) := by
  unfold finalizeFlushes
  repeat (first
    | with_reducible exact Pres_pure _
    | with_reducible exact Pres_getP
    | with_reducible assumption
    | with_reducible refine Pres_bind ?_ (fun _ => ?_)
    | ((with_reducible refine Pres_modifyP ?_); exact fun _ h => h)
    | ((with_reducible refine Pres_modifyInline ?_); exact fun _ h => h)
    | ((with_reducible refine Pres_writeToken ?_); exact fun _ h => h)
    | ((with_reducible refine Pres_writeTokenIgnore ?_); exact fun _ h => h)
    | ((with_reducible refine Pres_setWrapIndent ?_); exact fun _ h => h)
    | ((with_reducible refine Pres_modifyP ?_); exact StackInv_frame flushPendingDelims_stack)
    | with_reducible exact Pres_panicNow
    | with_reducible exact Pres_fuelOutNow
    | with_reducible apply flushPendingEntity_stack
    | with_reducible apply flushPendingBackticks_stack
    | with_reducible apply flushPendingNumUS_stack
    | with_reducible refine Pres_ignoreErr ?_
    | ((fail_if_success (with_reducible refine Pres_ite ?_ ?_)); (try subst_vars); split)
    | (with_reducible generalize hK : (fun y : Unit => (_ : PM σ Unit)) = jp;
       fail_if_success (clear hK jp);
       refine Pres_cutjp (j := jp) ?_ (fun hjp => ?_);
       on_goal 2 => (have hjp0 := hjp; rw [← hK] at hjp0; beta_reduce at hjp0);
       subst hK; beta_reduce)
    | ((with_reducible (conv => (arg 2; whnf)));
       with_reducible generalize hK : (fun y : Unit => (_ : PM σ Unit)) = jp;
       fail_if_success (clear hK jp);
       refine Pres_cutjp (j := jp) ?_ (fun hjp => ?_);
       on_goal 2 => (have hjp0 := hjp; rw [← hK] at hjp0; beta_reduce at hjp0);
       subst hK; beta_reduce)
    | with_reducible refine Pres_ite ?_ ?_
    | split)
/-! ### The list prefix length is the sum over the list stack -/

theorem decideHeading_list {σ : Type} (S : Stream σ) (depth lineIndent : Nat) (rest trimmed :
    List Nat) (explicit : Bool) :
    Pres (StackInv listOK) (decideHeading S depth lineIndent rest trimmed explicit) := by
  unfold decideHeading
  repeat (first
    | ((with_reducible refine Pres_modifyP ?_); exact StackInv_clear _)
    | with_reducible exact Pres_pure _
    | with_reducible exact Pres_getP
    | with_reducible assumption
    | with_reducible refine Pres_bind ?_ (fun _ => ?_)
    | ((with_reducible refine Pres_modifyP ?_); exact fun _ h => h)
    | ((with_reducible refine Pres_modifyInline ?_); exact fun _ h => h)
    | ((with_reducible refine Pres_writeToken ?_); exact fun _ h => h)
    | ((with_reducible refine Pres_writeTokenIgnore ?_); exact fun _ h => h)
    | ((with_reducible refine Pres_setWrapIndent ?_); exact fun _ h => h)
    | ((with_reducible refine Pres_modifyP ?_); exact StackInv_frame flushPendingDelims_stack)
    | with_reducible exact Pres_panicNow
    | with_reducible exact Pres_fuelOutNow
    | with_reducible apply applyPendingBreak_stack
    | with_reducible apply emitPrefix_stack
    | with_reducible apply emitInlineRunes_stack
    | with_reducible apply lineBufFrom_stack
    | with_reducible apply decideParagraph_stack
    | with_reducible refine Pres_ignoreErr ?_
    | ((fail_if_success (with_reducible refine Pres_ite ?_ ?_)); (try subst_vars); split)
    | (with_reducible generalize hK : (fun y : Unit => (_ : PM σ Unit)) = jp;
       fail_if_success (clear hK jp);
       refine Pres_cutjp (j := jp) ?_ (fun hjp => ?_);
       on_goal 2 => (have hjp0 := hjp; rw [← hK] at hjp0; beta_reduce at hjp0);
       subst hK; beta_reduce)
    | ((with_reducible (conv => (arg 2; whnf)));
       with_reducible generalize hK : (fun y : Unit => (_ : PM σ Unit)) = jp;
       fail_if_success (clear hK jp);
       refine Pres_cutjp (j := jp) ?_ (fun hjp => ?_);
       on_goal 2 => (have hjp0 := hjp; rw [← hK] at hjp0; beta_reduce at hjp0);
       subst hK; beta_reduce)
    | with_reducible refine Pres_ite ?_ ?_
    | split)

theorem decideRest_list {σ : Type} (S : Stream σ) (force : Bool) (depth lineIndent : Nat) (line
    rest trimmed : List Nat) (explicit : Bool) :
    Pres (StackInv listOK) (decideRest S force depth lineIndent line rest trimmed explicit) := by
  unfold decideRest
  repeat (first
    | ((with_reducible refine Pres_modifyP ?_); exact StackInv_clear _)
    | with_reducible exact Pres_pure _
    | with_reducible exact Pres_getP
    | with_reducible assumption
    | with_reducible refine Pres_bind ?_ (fun _ => ?_)
    | ((with_reducible refine Pres_modifyP ?_); exact fun _ h => h)
    | ((with_reducible refine Pres_modifyInline ?_); exact fun _ h => h)
    | ((with_reducible refine Pres_writeToken ?_); exact fun _ h => h)
    | ((with_reducible refine Pres_writeTokenIgnore ?_); exact fun _ h => h)
    | ((with_reducible refine Pres_setWrapIndent ?_); exact fun _ h => h)
    | ((with_reducible refine Pres_modifyP ?_); exact StackInv_frame flushPendingDelims_stack)
    | with_reducible exact Pres_panicNow
    | with_reducible exact Pres_fuelOutNow
    | with_reducible apply decideParagraph_stack
    | with_reducible apply decideListContinuation_stack
    | with_reducible refine Pres_ignoreErr ?_
    | ((fail_if_success (with_reducible refine Pres_ite ?_ ?_)); (try subst_vars); split)
    | (with_reducible generalize hK : (fun y : Unit => (_ : PM σ Unit)) = jp;
       fail_if_success (clear hK jp);
       refine Pres_cutjp (j := jp) ?_ (fun hjp => ?_);
       on_goal 2 => (have hjp0 := hjp; rw [← hK] at hjp0; beta_reduce at hjp0);
       subst hK; beta_reduce)
    | ((with_reducible (conv => (arg 2; whnf)));
       with_reducible generalize hK : (fun y : Unit => (_ : PM σ Unit)) = jp;
       fail_if_success (clear hK jp);
       refine Pres_cutjp (j := jp) ?_ (fun hjp => ?_);
       on_goal 2 => (have hjp0 := hjp; rw [← hK] at hjp0; beta_reduce at hjp0);
       subst hK; beta_reduce)
    | with_reducible refine Pres_ite ?_ ?_
    | split)

theorem decideListItem_list {σ : Type} (S : Stream σ) (depth : Nat) (line : List Nat) (m :
    listMarker) :
    Pres (StackInv listOK) (decideListItem S depth line m) := by
  unfold decideListItem
  repeat (first
    | ((with_reducible refine Pres_getP_bind (fun x hx => ?_)); refine (?_ : Pres _ _) x hx)
    | (refine Pres_const_bind (J := StackInv (topOK _))
          (fun _ => updateList_topOK _ _ _ _ _ _ _ hx) ?_ (fun _ h => h.1))
    | ((with_reducible refine Pres_modifyP ?_); exact StackInv_setTop _ _ rfl)
    | ((with_reducible refine Pres_modifyP ?_); exact StackInv_setTopExtra _ _)
    | with_reducible exact Pres_pure _
    | with_reducible exact Pres_getP
    | with_reducible assumption
    | with_reducible refine Pres_bind ?_ (fun _ => ?_)
    | ((with_reducible refine Pres_modifyP ?_); exact fun _ h => h)
    | ((with_reducible refine Pres_modifyInline ?_); exact fun _ h => h)
    | ((with_reducible refine Pres_writeToken ?_); exact fun _ h => h)
    | ((with_reducible refine Pres_writeTokenIgnore ?_); exact fun _ h => h)
    | ((with_reducible refine Pres_setWrapIndent ?_); exact fun _ h => h)
    | ((with_reducible refine Pres_modifyP ?_); exact StackInv_frame flushPendingDelims_stack)
    | with_reducible exact Pres_panicNow
    | with_reducible exact Pres_fuelOutNow
    | with_reducible apply applyPendingBreak_stack
    | with_reducible apply emitQuotePrefixBare_stack
    | with_reducible apply emitPrefix_stack
    | with_reducible apply emitContent_stack
    | with_reducible refine Pres_ignoreErr ?_
    | ((fail_if_success (with_reducible refine Pres_ite ?_ ?_)); (try subst_vars); split)
    | (with_reducible generalize hK : (fun y : Unit => (_ : PM σ Unit)) = jp;
       fail_if_success (clear hK jp);
       refine Pres_cutjp (j := jp) ?_ (fun hjp => ?_);
       on_goal 2 => (have hjp0 := hjp; rw [← hK] at hjp0; beta_reduce at hjp0);
       subst hK; beta_reduce)
    | ((with_reducible (conv => (arg 2; whnf)));
       with_reducible generalize hK : (fun y : Unit => (_ : PM σ Unit)) = jp;
       fail_if_success (clear hK jp);
       refine Pres_cutjp (j := jp) ?_ (fun hjp => ?_);
       on_goal 2 => (have hjp0 := hjp; rw [← hK] at hjp0; beta_reduce at hjp0);
       subst hK; beta_reduce)
    | with_reducible refine Pres_ite ?_ ?_
    | split)

theorem maybeDecideLine_list {σ : Type} (S : Stream σ) (force : Bool) :
    Pres (StackInv listOK) (maybeDecideLine S force) := by
  unfold maybeDecideLine
  repeat (first
    | with_reducible exact Pres_pure _
    | with_reducible exact Pres_getP
    | with_reducible assumption
    | with_reducible refine Pres_bind ?_ (fun _ => ?_)
    | ((with_reducible refine Pres_modifyP ?_); exact fun _ h => h)
    | ((with_reducible refine Pres_modifyInline ?_); exact fun _ h => h)
    | ((with_reducible refine Pres_writeToken ?_); exact fun _ h => h)
    | ((with_reducible refine Pres_writeTokenIgnore ?_); exact fun _ h => h)
    | ((with_reducible refine Pres_setWrapIndent ?_); exact fun _ h => h)
    | ((with_reducible refine Pres_modifyP ?_); exact StackInv_frame flushPendingDelims_stack)
    | with_reducible exact Pres_panicNow
    | with_reducible exact Pres_fuelOutNow
    | with_reducible apply applyPendingBreak_stack
    | with_reducible apply emitBlankQuoteLine_stack
    | with_reducible apply decideHeading_list
    | with_reducible apply decideListItem_list
    | with_reducible apply decideQuoteContext_stack
    | with_reducible apply decideRest_list
    | with_reducible refine Pres_ignoreErr ?_
    | ((fail_if_success (with_reducible refine Pres_ite ?_ ?_)); (try subst_vars); split)
    | (with_reducible generalize hK : (fun y : Unit => (_ : PM σ Unit)) = jp;
       fail_if_success (clear hK jp);
       refine Pres_cutjp (j := jp) ?_ (fun hjp => ?_);
       on_goal 2 => (have hjp0 := hjp; rw [← hK] at hjp0; beta_reduce at hjp0);
       subst hK; beta_reduce)
    | ((with_reducible (conv => (arg 2; whnf)));
       with_reducible generalize hK : (fun y : Unit => (_ : PM σ Unit)) = jp;
       fail_if_success (clear hK jp);
       refine Pres_cutjp (j := jp) ?_ (fun hjp => ?_);
       on_goal 2 => (have hjp0 := hjp; rw [← hK] at hjp0; beta_reduce at hjp0);
       subst hK; beta_reduce)
    | with_reducible refine Pres_ite ?_ ?_
    | split)

theorem feedRuneNewline_list {σ : Type} (S : Stream σ) :
    Pres (StackInv listOK) (feedRuneNewline S) := by
  unfold feedRuneNewline
  repeat (first
    | with_reducible exact Pres_pure _
    | with_reducible exact Pres_getP
    | with_reducible assumption
    | with_reducible refine Pres_bind ?_ (fun _ => ?_)
    | ((with_reducible refine Pres_modifyP ?_); exact fun _ h => h)
    | ((with_reducible refine Pres_modifyInline ?_); exact fun _ h => h)
    | ((with_reducible refine Pres_writeToken ?_); exact fun _ h => h)
    | ((with_reducible refine Pres_writeTokenIgnore ?_); exact fun _ h => h)
    | ((with_reducible refine Pres_setWrapIndent ?_); exact fun _ h => h)
    | ((with_reducible refine Pres_modifyP ?_); exact StackInv_frame flushPendingDelims_stack)
    | with_reducible exact Pres_panicNow
    | with_reducible exact Pres_fuelOutNow
    | with_reducible apply flushPendingEntity_stack
    | with_reducible apply flushPendingBackticks_stack
    | with_reducible apply flushPendingNumUS_stack
    | with_reducible apply maybeDecideLine_list
    | with_reducible refine Pres_ignoreErr ?_
    | ((fail_if_success (with_reducible refine Pres_ite ?_ ?_)); (try subst_vars); split)
    | (with_reducible generalize hK : (fun y : Unit => (_ : PM σ Unit)) = jp;
       fail_if_success (clear hK jp);
       refine Pres_cutjp (j := jp) ?_ (fun hjp => ?_);
       on_goal 2 => (have hjp0 := hjp; rw [← hK] at hjp0; beta_reduce at hjp0);
       subst hK; beta_reduce)
    | ((with_reducible (conv => (arg 2; whnf)));
       with_reducible generalize hK : (fun y : Unit => (_ : PM σ Unit)) = jp;
       fail_if_success (clear hK jp);
       refine Pres_cutjp (j := jp) ?_ (fun hjp => ?_);
       on_goal 2 => (have hjp0 := hjp; rw [← hK] at hjp0; beta_reduce at hjp0);
       subst hK; beta_reduce)
    | with_reducible refine Pres_ite ?_ ?_
    | split)

theorem feedRuneWith_list {σ : Type} (S : Stream σ) (replay : List Nat → PM σ Unit)
    (hreplay : ∀ line, Pres (StackInv listOK) (replay line)) (r : Nat) :
    Pres (StackInv listOK) (feedRuneWith S replay r) := by
  unfold feedRuneWith
  repeat (first
    | exact maybeDecideIndentCodeLineWith_stack S _ _ hreplay _
    | with_reducible exact hreplay _
    | with_reducible exact Pres_pure _
    | with_reducible exact Pres_getP
    | with_reducible assumption
    | with_reducible refine Pres_bind ?_ (fun _ => ?_)
    | ((with_reducible refine Pres_modifyP ?_); exact fun _ h => h)
    | ((with_reducible refine Pres_modifyInline ?_); exact fun _ h => h)
    | ((with_reducible refine Pres_writeToken ?_); exact fun _ h => h)
    | ((with_reducible refine Pres_writeTokenIgnore ?_); exact fun _ h => h)
    | ((with_reducible refine Pres_setWrapIndent ?_); exact fun _ h => h)
    | ((with_reducible refine Pres_modifyP ?_); exact StackInv_frame flushPendingDelims_stack)
    | with_reducible exact Pres_panicNow
    | with_reducible exact Pres_fuelOutNow
    | with_reducible apply emitInline_stack
    | with_reducible apply emitCodeRune_stack
    | with_reducible apply processCodeFenceLine_stack
    | with_reducible apply maybeDecideLine_list
    | with_reducible apply feedRunePendingQuote_stack
    | with_reducible apply feedRuneNewline_list
    | with_reducible refine Pres_ignoreErr ?_
    | ((fail_if_success (with_reducible refine Pres_ite ?_ ?_)); (try subst_vars); split)
    | (with_reducible generalize hK : (fun y : Unit => (_ : PM σ Unit)) = jp;
       fail_if_success (clear hK jp);
       refine Pres_cutjp (j := jp) ?_ (fun hjp => ?_);
       on_goal 2 => (have hjp0 := hjp; rw [← hK] at hjp0; beta_reduce at hjp0);
       subst hK; beta_reduce)
    | ((with_reducible (conv => (arg 2; whnf)));
       with_reducible generalize hK : (fun y : Unit => (_ : PM σ Unit)) = jp;
       fail_if_success (clear hK jp);
       refine Pres_cutjp (j := jp) ?_ (fun hjp => ?_);
       on_goal 2 => (have hjp0 := hjp; rw [← hK] at hjp0; beta_reduce at hjp0);
       subst hK; beta_reduce)
    | with_reducible refine Pres_ite ?_ ?_
    | split)

theorem feedRune_zero {σ : Type} (S : Stream σ) (r : Nat) :
    feedRune S 0 r = feedRuneWith S (fun _ => fuelOutNow) r := rfl

theorem feedRune_succ {σ : Type} (S : Stream σ) (n r : Nat) :
    feedRune S (n + 1) r = feedRuneWith S (replayLineWith (feedRune S n)) r := rfl

theorem feedRune_list {σ : Type} (S : Stream σ) (fuel : Nat) :
    ∀ r : Nat, Pres (StackInv listOK) (feedRune S fuel r) := by
  induction fuel with
  | zero =>
    intro r
    rw [feedRune_zero]
    exact feedRuneWith_list S _ (fun _ => Pres_fuelOutNow) r
  | succ n ih =>
    intro r
    rw [feedRune_succ]
    exact feedRuneWith_list S _ (fun line => replayLineWith_stack _ _ ih line) r

theorem replayLine_list {σ : Type} (S : Stream σ) (fuel : Nat) (line : List Nat) :
    Pres (StackInv listOK) (replayLine S fuel line) := by
  unfold replayLine
  cases fuel with
  | zero => exact Pres_fuelOutNow
  | succ n => exact replayLineWith_stack _ _ (feedRune_list S n) line

theorem maybeDecideIndentCodeLine_list {σ : Type} (S : Stream σ) (fuel : Nat) (force : Bool) :
    Pres (StackInv listOK) (maybeDecideIndentCodeLine S fuel force) := by
  unfold maybeDecideIndentCodeLine
  exact maybeDecideIndentCodeLineWith_stack S _ _ (replayLine_list S fuel) force

theorem finalize_list {σ : Type} (S : Stream σ) (fuel : Nat) :
    Pres (StackInv listOK) (finalize S fuel) := by
  unfold finalize
  repeat (first
    | with_reducible exact Pres_pure _
    | with_reducible exact Pres_getP
    | with_reducible assumption
    | with_reducible refine Pres_bind ?_ (fun _ => ?_)
    | ((with_reducible refine Pres_modifyP ?_); exact fun _ h => h)
    | ((with_reducible refine Pres_modifyInline ?_); exact fun _ h => h)
    | ((with_reducible refine Pres_writeToken ?_); exact fun _ h => h)
    | ((with_reducible refine Pres_writeTokenIgnore ?_); exact fun _ h => h)
    | ((with_reducible refine Pres_setWrapIndent ?_); exact fun _ h => h)
    | ((with_reducible refine Pres_modifyP ?_); exact StackInv_frame flushPendingDelims_stack)
    | with_reducible exact Pres_panicNow
    | with_reducible exact Pres_fuelOutNow
    | with_reducible apply emitStyledText_stack
    | with_reducible apply emitInlineRunes_stack
    | with_reducible apply lineBufFrom_stack
    | with_reducible apply maybeDecideLine_list
    | with_reducible apply maybeDecideIndentCodeLine_list
    | with_reducible apply finalizeFlushes_stack
    | with_reducible refine Pres_ignoreErr ?_
    | ((fail_if_success (with_reducible refine Pres_ite ?_ ?_)); (try subst_vars); split)
    | (with_reducible generalize hK : (fun y : Unit => (_ : PM σ Unit)) = jp;
       fail_if_success (clear hK jp);
       refine Pres_cutjp (j := jp) ?_ (fun hjp => ?_);
       on_goal 2 => (have hjp0 := hjp; rw [← hK] at hjp0; beta_reduce at hjp0);
       subst hK; beta_reduce)
    | ((with_reducible (conv => (arg 2; whnf)));
       with_reducible generalize hK : (fun y : Unit => (_ : PM σ Unit)) = jp;
       fail_if_success (clear hK jp);
       refine Pres_cutjp (j := jp) ?_ (fun hjp => ?_);
       on_goal 2 => (have hjp0 := hjp; rw [← hK] at hjp0; beta_reduce at hjp0);
       subst hK; beta_reduce)
    | with_reducible refine Pres_ite ?_ ?_
    | split)

theorem feedBytes_list {σ : Type} (S : Stream σ) (fuel : Nat) (n : Nat) :
    ∀ data : List Nat, Pres (StackInv listOK) (feedBytes S fuel n data) := by
  induction n with
  | zero => intro data; exact Pres_pure _
  | succ n ih =>
    intro data
    unfold feedBytes
    repeat (first
      | exact ih _
      | exact feedRune_list S _ _
      | with_reducible exact Pres_pure _
      | with_reducible exact Pres_getP
      | with_reducible assumption
      | with_reducible refine Pres_bind ?_ (fun _ => ?_)
      | ((with_reducible refine Pres_modifyP ?_); exact fun _ h => h)
      | ((with_reducible refine Pres_modifyInline ?_); exact fun _ h => h)
      | ((with_reducible refine Pres_writeToken ?_); exact fun _ h => h)
      | ((with_reducible refine Pres_writeTokenIgnore ?_); exact fun _ h => h)
      | ((with_reducible refine Pres_setWrapIndent ?_); exact fun _ h => h)
      | ((with_reducible refine Pres_modifyP ?_); exact StackInv_frame flushPendingDelims_stack)
      | with_reducible exact Pres_panicNow
      | with_reducible exact Pres_fuelOutNow
      | with_reducible refine Pres_ignoreErr ?_
      | ((fail_if_success (with_reducible refine Pres_ite ?_ ?_)); (try subst_vars); split)
      | (with_reducible generalize hK : (fun y : Unit => (_ : PM σ Unit)) = jp;
         fail_if_success (clear hK jp);
         refine Pres_cutjp (j := jp) ?_ (fun hjp => ?_);
         on_goal 2 => (have hjp0 := hjp; rw [← hK] at hjp0; beta_reduce at hjp0);
         subst hK; beta_reduce)
      | ((with_reducible (conv => (arg 2; whnf)));
         with_reducible generalize hK : (fun y : Unit => (_ : PM σ Unit)) = jp;
         fail_if_success (clear hK jp);
         refine Pres_cutjp (j := jp) ?_ (fun hjp => ?_);
         on_goal 2 => (have hjp0 := hjp; rw [← hK] at hjp0; beta_reduce at hjp0);
         subst hK; beta_reduce)
      | with_reducible refine Pres_ite ?_ ?_
      | split)

theorem parseClean_list {σ : Type} (S : Stream σ) (fuel : Nat) (clean : List Nat) :
    Pres (StackInv listOK) (parseClean S fuel clean) := by
  unfold parseClean
  repeat (first
    | exact feedBytes_list S _ _ _
    | with_reducible exact Pres_pure _
    | with_reducible exact Pres_getP
    | with_reducible assumption
    | with_reducible refine Pres_bind ?_ (fun _ => ?_)
    | ((with_reducible refine Pres_modifyP ?_); exact fun _ h => h)
    | ((with_reducible refine Pres_modifyInline ?_); exact fun _ h => h)
    | ((with_reducible refine Pres_writeToken ?_); exact fun _ h => h)
    | ((with_reducible refine Pres_writeTokenIgnore ?_); exact fun _ h => h)
    | ((with_reducible refine Pres_setWrapIndent ?_); exact fun _ h => h)
    | ((with_reducible refine Pres_modifyP ?_); exact StackInv_frame flushPendingDelims_stack)
    | with_reducible exact Pres_panicNow
    | with_reducible exact Pres_fuelOutNow
    | with_reducible refine Pres_ignoreErr ?_
    | ((fail_if_success (with_reducible refine Pres_ite ?_ ?_)); (try subst_vars); split)
    | (with_reducible generalize hK : (fun y : Unit => (_ : PM σ Unit)) = jp;
       fail_if_success (clear hK jp);
       refine Pres_cutjp (j := jp) ?_ (fun hjp => ?_);
       on_goal 2 => (have hjp0 := hjp; rw [← hK] at hjp0; beta_reduce at hjp0);
       subst hK; beta_reduce)
    | ((with_reducible (conv => (arg 2; whnf)));
       with_reducible generalize hK : (fun y : Unit => (_ : PM σ Unit)) = jp;
       fail_if_success (clear hK jp);
       refine Pres_cutjp (j := jp) ?_ (fun hjp => ?_);
       on_goal 2 => (have hjp0 := hjp; rw [← hK] at hjp0; beta_reduce at hjp0);
       subst hK; beta_reduce)
    | with_reducible refine Pres_ite ?_ ?_
    | split)

theorem parseLoop_list {σ : Type} (S : Stream σ) (fuel : Nat) (chunks : List (List Nat)) :
    ∀ tail : List Nat, Pres (StackInv listOK) (parseLoop S fuel chunks tail) := by
  induction chunks with
  | nil => intro tail; exact Pres_pure _
  | cons chunk rest ih =>
    intro tail
    unfold parseLoop
    exact Pres_bind (Pres_forM (parseClean_list S fuel) _) (fun _ => ih _)

theorem flushStream_any {σ : Type} (S : Stream σ) (Q : List listState → Nat → Prop) :
    Pres (StackInv Q) (flushStream S) :=
  fun _ h => h
theorem parseRun_list {σ : Type} (S : Stream σ) (fuel : Nat) (chunks : List (List Nat))
    (readErr : Bool) :
    Pres (StackInv listOK) (do
      parseLoop S fuel chunks []
      if readErr then fun x => (Res.err, x)
      else
        let trailing := (← getP).frontMatter.finish
        if trailing.length > 0 then feedBytes S fuel trailing.length trailing
        else pure ()
        finalize S fuel
        flushStream S) := by
  repeat (first
    | exact parseLoop_list S _ _ _
    | exact feedBytes_list S _ _ _
    | exact finalize_list S _
    | exact flushStream_any S _
    | exact fun x hx => hx
    | with_reducible exact Pres_pure _
    | with_reducible exact Pres_getP
    | with_reducible assumption
    | with_reducible refine Pres_bind ?_ (fun _ => ?_)
    | ((with_reducible refine Pres_modifyP ?_); exact fun _ h => h)
    | ((with_reducible refine Pres_modifyInline ?_); exact fun _ h => h)
    | ((with_reducible refine Pres_writeToken ?_); exact fun _ h => h)
    | ((with_reducible refine Pres_writeTokenIgnore ?_); exact fun _ h => h)
    | ((with_reducible refine Pres_setWrapIndent ?_); exact fun _ h => h)
    | ((with_reducible refine Pres_modifyP ?_); exact StackInv_frame flushPendingDelims_stack)
    | with_reducible exact Pres_panicNow
    | with_reducible exact Pres_fuelOutNow
    | with_reducible refine Pres_ignoreErr ?_
    | ((fail_if_success (with_reducible refine Pres_ite ?_ ?_)); (try subst_vars); split)
    | (with_reducible generalize hK : (fun y : Unit => (_ : PM σ Unit)) = jp;
       fail_if_success (clear hK jp);
       refine Pres_cutjp (j := jp) ?_ (fun hjp => ?_);
       on_goal 2 => (have hjp0 := hjp; rw [← hK] at hjp0; beta_reduce at hjp0);
       subst hK; beta_reduce)
    | ((with_reducible (conv => (arg 2; whnf)));
       with_reducible generalize hK : (fun y : Unit => (_ : PM σ Unit)) = jp;
       fail_if_success (clear hK jp);
       refine Pres_cutjp (j := jp) ?_ (fun hjp => ?_);
       on_goal 2 => (have hjp0 := hjp; rw [← hK] at hjp0; beta_reduce at hjp0);
       subst hK; beta_reduce)
    | with_reducible refine Pres_ite ?_ ?_
    | split)

theorem Parse_list {σ : Type} (S : Stream σ) (fuel : Nat) (styles : Styles) (osc8 : Bool)
    (chunks : List (List Nat)) (readErr : Bool) (parser : liveParser) (st : σ) :
    StackInv listOK (Parse S fuel styles osc8 chunks readErr parser st).2 :=
  parseRun_list S fuel chunks readErr { p := parser.Reset styles osc8, st := st }
    (Reset_listOK parser styles osc8)

/-- C37: the list prefix length is the sum of the prefix lengths of the frames
on the list stack.  `Reset` makes it so; `updateList`, `popList` and
`clearListIfOutdented` keep it so, and `popList` on a stack that is not empty
removes the top frame and takes exactly its prefix length off; it holds after
any runes are fed to a parser that was reset, `finalize` keeps it, and it holds
in the parser that `Parse` leaves, whatever the sink, the input and the way the
read ends. -/
theorem C37_list_prefix_length_is_sum :
    (∀ (p : liveParser) (styles : Styles) (osc8 : Bool),
        (p.Reset styles osc8).listPrefixLen = prefixSum (p.Reset styles osc8).listStack) ∧
      (∀ (p : liveParser) (indent : Nat) (ordered : Bool) (marker : Nat) (start : Int)
          (markerLen padding : Nat), p.listPrefixLen = prefixSum p.listStack →
        (p.updateList indent ordered marker start markerLen padding).1.listPrefixLen
          = prefixSum (p.updateList indent ordered marker start markerLen padding).1.listStack) ∧
      (∀ p : liveParser, p.listPrefixLen = prefixSum p.listStack →
        p.popList.listPrefixLen = prefixSum p.popList.listStack ∧
        (p.listStack ≠ [] →
          p.popList.listStack = p.listStack.take (p.listStack.length - 1) ∧
          p.popList.listPrefixLen + p.top.prefixLen = p.listPrefixLen)) ∧
      (∀ (p : liveParser) (indent : Nat), p.listPrefixLen = prefixSum p.listStack →
        (p.clearListIfOutdented indent).listPrefixLen
          = prefixSum (p.clearListIfOutdented indent).listStack) ∧
      (∀ (T : Tables) (fuel : Nat) (styles : Styles) (osc8 : Bool) (parser : liveParser)
          (sink : StreamRenderer) (runes : List Nat),
        StackInv listOK ((runes.forM (feedRune (rendererStream T) fuel))
          { p := parser.Reset styles osc8, st := sink }).2) ∧
      (∀ (T : Tables) (fuel : Nat) (x : PState StreamRenderer),
        x.p.listPrefixLen = prefixSum x.p.listStack →
        StackInv listOK ((finalize (rendererStream T) fuel) x).2) ∧
      (∀ (T : Tables) (fuel : Nat) (styles : Styles) (osc8 : Bool) (chunks : List (List Nat))
          (readErr : Bool) (parser : liveParser) (sink : StreamRenderer),
        (Parse (rendererStream T) fuel styles osc8 chunks readErr parser sink).2.p.listPrefixLen
          = prefixSum
              (Parse (rendererStream T) fuel styles osc8 chunks readErr parser
                sink).2.p.listStack) :=
  ⟨fun p styles osc8 => Reset_listOK p styles osc8,
   fun p indent ordered marker start markerLen padding h =>
     updateList_listOK p indent ordered marker start markerLen padding h,
   fun p h => popList_listOK p h,
   fun p indent h => clearListIfOutdented_listOK p indent h,
   fun T fuel styles osc8 parser _ runes =>
     Pres_forM (feedRune_list (rendererStream T) fuel) runes _
       (Reset_listOK parser styles osc8),
   fun T fuel x h => finalize_list (rendererStream T) fuel x h,
   fun T fuel styles osc8 chunks readErr parser sink =>
     Parse_list (rendererStream T) fuel styles osc8 chunks readErr parser sink⟩

/-! ### Pending breaks -/

theorem feedRune_blank {σ : Type} (S : Stream σ) (fuel : Nat) (x : PState σ)
    (h : blankLineState x) :
    ∃ y, feedRune S fuel 10 x = (Res.ok (), y) ∧ blankLineState y ∧
      y.p.pendingBreaks = x.p.pendingBreaks + 1 ∧ y.st = x.st := by
  obtain ⟨p, st⟩ := x
  obtain ⟨h1, h2, h3, h4, h4b, h5, h6, h7, h8, h9⟩ := h
  simp only at h1 h2 h3 h4 h4b h5 h6 h7 h8 h9
  have hT : TrimSpace ([] : List Nat) = [] := by decide
  cases fuel <;>
  · simp [feedRune, feedRuneWith, feedRunePendingQuote, feedRuneNewline, PM_bind_eq, PM.bind,
      PM_pure_eq, getP, modifyP, h1, h2, h3, h4, h4b, h5, h6, h7, h8, h9, hT, blankLineState,
      liveParser.resetLine]

theorem parseLoop_blank {σ : Type} (S : Stream σ) (fuel : Nat) (k : Nat) (x : PState σ)
    (h : blankLineState x) :
    ∃ y, parseLoop S fuel (List.replicate k [10]) [] x = (Res.ok (), y) ∧ blankLineState y ∧
      y.p.pendingBreaks = x.p.pendingBreaks + k ∧ y.st = x.st := by
  induction k generalizing x with
  | zero => exact ⟨x, rfl, h, rfl, rfl⟩
  | succ k ih =>
    obtain ⟨y, hy, hb, hc, hs⟩ := feedRune_blank S fuel x h
    obtain ⟨z, hz, hzb, hzc, hzs⟩ := ih y hb
    refine ⟨z, ?_, hzb, by omega, by rw [hzs, hs]⟩
    have hr : readChunk [] [10] = ([[10]], []) := by decide
    have hd : DecodeRune [10] = (10, 1) := by decide
    have hpt : x.p.frontMatter.passthrough = true := h.2.2.2.2.2.2.2.1
    rw [List.replicate_succ]
    simp only [parseLoop, hr, List.forM_cons, List.forM_nil, PM_bind_eq, PM.bind, PM_pure_eq]
    simp [parseClean, PM_bind_eq, PM.bind, PM_pure_eq, getP, modifyP,
      frontMatterFilter.process, hpt, feedBytes, hd, isControlRune, RuneError]
    have e : (⟨{ x.p with frontMatter := x.p.frontMatter }, x.st⟩ : PState σ) = x := rfl
    rw [e, hy]
    simpa using hz

theorem readLineA_blank :
    (readLineA captureStream 1 plainStyles false { p := zeroLiveParser, st := [] }).1 =
        Res.ok () ∧
      blankLineState
        (readLineA captureStream 1 plainStyles false { p := zeroLiveParser, st := [] }).2 ∧
      (readLineA captureStream 1 plainStyles false
        { p := zeroLiveParser, st := [] }).2.p.pendingBreaks = 1 := by
  unfold blankLineState
  decide!

theorem Parse_after_first {σ : Type} (S : Stream σ) (fuel : Nat) (styles : Styles) (osc8 : Bool)
    (rest : List (List Nat)) (parser : liveParser) (st : σ) (z : PState σ)
    (hy : (readLineA S fuel styles osc8 { p := parser, st := st }).1 = Res.ok ())
    (hz : parseLoop S fuel rest [] (readLineA S fuel styles osc8 { p := parser, st := st }).2 =
      (Res.ok (), z))
    (hb : blankLineState z) :
    (Parse S fuel styles osc8 ([97, 10] :: rest) false parser st).2.p.pendingBreaks =
      z.p.pendingBreaks := by
  have hr : readChunk [] [97, 10] = ([[97, 10]], []) := by decide
  obtain ⟨h1a, h2a, h3a, h4a, h4b, h5a, h6a, h7a, h8a, h9a⟩ := hb
  simp only [readLineA, parseLoop, hr, List.forM_cons, List.forM_nil, PM_bind_eq, PM.bind,
    PM_pure_eq, modifyP] at hy hz
  simp only [Parse, parseLoop, hr, List.forM_cons, List.forM_nil, PM_bind_eq, PM.bind,
    PM_pure_eq, modifyP]
  rcases hc : [[97, 10]].forM (parseClean S fuel)
    { p := parser.Reset styles osc8, st := st } with ⟨r, w⟩
  rw [hc] at hy hz
  cases r <;> simp at hy
  simp only at hz
  simp only [hz]
  obtain ⟨p, t⟩ := z
  simp only at h1a h2a h3a h4a h4b h5a h6a h7a h8a h9a
  simp [finalize, flushStream, frontMatterFilter.finish, getP, PM_bind_eq, PM.bind, PM_pure_eq,
    h1a, h2a, h3a, h4a, h4b, h5a, h6a, h7a, h8a, h9a]

theorem Parse_blank_lines (k : Nat) :
    (Parse captureStream 1 plainStyles false ([97, 10] :: List.replicate k [10]) false
      zeroLiveParser []).2.p.pendingBreaks = k + 1 := by
  obtain ⟨y, hy, hb, hc, -⟩ := parseLoop_blank captureStream 1 k _ readLineA_blank.2.1
  rw [Parse_after_first captureStream 1 plainStyles false (List.replicate k [10]) zeroLiveParser
    [] y readLineA_blank.1 hy hb, hc, readLineA_blank.2.2, Nat.add_comm]

theorem applyPendingBreak_two_or_more {σ : Type} (S : Stream σ) (mode : breakMode)
    (x : PState σ) (h : x.p.pendingBreaks ≥ 2) :
    applyPendingBreak S mode x =
      writeToken S
        (if x.p.postCodeBreakSingle = true then newlineTok
         else { Text := [10, 10], Style := ⟨[]⟩, Kind := tokenText })
        { x with p := { x.p with pendingBreaks := 0, hardBreakPending := false,
                                 postCodeBreakSingle := false } } := by
  obtain ⟨p, st⟩ := x
  simp only at h
  have h0 : ¬ p.pendingBreaks = 0 := by omega
  cases hc : p.postCodeBreakSingle <;>
    simp [applyPendingBreak, PM_bind_eq, PM.bind, PM_pure_eq, getP, modifyP, h0, h, hc]

theorem applyPendingBreak_zero {σ : Type} (S : Stream σ) (mode : breakMode) (x : PState σ) :
    (applyPendingBreak S mode x).2.p.pendingBreaks = 0 := by
  obtain ⟨p, st⟩ := x
  by_cases h0 : p.pendingBreaks = 0
  · simp [applyPendingBreak, PM_bind_eq, PM.bind, PM_pure_eq, getP, modifyP, h0]
  · have hw : ∀ (tok : StreamToken) (y : PState σ), (writeToken S tok y).2.p = y.p :=
      fun _ _ => rfl
    simp only [applyPendingBreak, PM_bind_eq, PM.bind, PM_pure_eq, getP, modifyP, h0, if_false]
    cases mode <;> split_ifs <;> first | rfl | exact hw _ _

/-- C36 (amended): the pending break counter is not capped at 2.  A newline
fed at the start of a line (outside code, quotes, links and the front-matter
probe, after some line has been read) writes nothing and adds one to the
counter, and leaves the parser at the start of a line again; so after the line
`a` followed by `k` blank lines, each read as its own chunk, the counter is
`k + 1` when `Parse` returns.  `applyPendingBreak` leaves the counter at 0
whatever its value was, and treats every value of at least 2 alike, whatever
the mode asked for: it writes the paragraph break `\n\n` (a single `\n` right
after a code block). -/
theorem C36_counter_without_cap {σ : Type} (S : Stream σ) (fuel : Nat) (mode : breakMode)
    (k : Nat) (x0 x : PState σ) (hb : blankLineState x0) (h : x.p.pendingBreaks ≥ 2) :
    (∃ y, feedRune S fuel 10 x0 = (Res.ok (), y) ∧ blankLineState y ∧
      y.p.pendingBreaks = x0.p.pendingBreaks + 1 ∧ y.st = x0.st) ∧
    (Parse captureStream 1 plainStyles false ([97, 10] :: List.replicate k [10]) false
      zeroLiveParser []).2.p.pendingBreaks = k + 1 ∧
    (∀ z : PState σ, (applyPendingBreak S mode z).2.p.pendingBreaks = 0) ∧
    applyPendingBreak S mode x =
      writeToken S
        (if x.p.postCodeBreakSingle = true then newlineTok
         else { Text := [10, 10], Style := ⟨[]⟩, Kind := tokenText })
        { x with p := { x.p with pendingBreaks := 0, hardBreakPending := false,
                                 postCodeBreakSingle := false } } :=
  ⟨feedRune_blank S fuel x0 hb, Parse_blank_lines k, applyPendingBreak_zero S mode,
    applyPendingBreak_two_or_more S mode x h⟩

theorem C36_counter_without_cap_witness :
    (Parse captureStream 1 plainStyles false ([97, 10] :: List.replicate 5 [10]) false
      zeroLiveParser []).2.p.pendingBreaks = 5 + 1 ∧
    applyPendingBreak captureStream breakSpace
        { p := { zeroLiveParser with pendingBreaks := 4 }, st := [] } =
      (Res.ok (),
        { p := zeroLiveParser,
          st := [Event.token { Text := [10, 10], Style := ⟨[]⟩, Kind := tokenText }] }) :=
  ⟨(C36_counter_without_cap captureStream 1 breakSpace 5
      (readLineA captureStream 1 plainStyles false { p := zeroLiveParser, st := [] }).2
      { p := { zeroLiveParser with pendingBreaks := 4 }, st := [] }
      readLineA_blank.2.1 (by decide)).2.1,
   (C36_counter_without_cap captureStream 1 breakSpace 5
      (readLineA captureStream 1 plainStyles false { p := zeroLiveParser, st := [] }).2
      { p := { zeroLiveParser with pendingBreaks := 4 }, st := [] }
      readLineA_blank.2.1 (by decide)).2.2.2.trans rfl⟩

/-! ### The wrap indent of the sink -/

theorem keepsIndent.sameIndent {c : Prop} {s s1 : StreamRenderer} (h : keepsIndent c s)
    (hw : s1.wrapIndent = s.wrapIndent) (hn : s1.nbspBuf = s.nbspBuf) : keepsIndent c s1 := by
  unfold keepsIndent at *
  rw [hw, hn]; exact h

theorem spaceRun_ne_nil (n : Nat) (h : 0 < n) : spaceRun n ≠ [] := by
  intro e
  have := congrArg List.length e
  simp [spaceRun] at this
  omega

theorem taskListWrapIndent_pos (pre : List Nat) (n : Nat) (h : taskListWrapIndent pre = some n) :
    0 < n := by
  unfold taskListWrapIndent at h
  simp only [] at h
  iterate 12 (all_goals (try split at h))
  all_goals (simp at h)
  all_goals omega

theorem maybeSetWrapIndent_keeps {c : Prop} (s : StreamRenderer) (h : keepsIndent c s) :
    keepsIndent c s.maybeSetWrapIndent := by
  obtain ⟨wi, hwi⟩ := maybeSetWrapIndent_eq s
  refine ⟨fun hc => ?_, by rw [hwi]; exact h.2⟩
  unfold StreamRenderer.maybeSetWrapIndent
  split
  · rename_i n hn
    exact spaceRun_ne_nil n (taskListWrapIndent_pos _ _ hn)
  · rw [if_pos (h.1 hc)]; exact h.1 hc

theorem resetStyle_keepsIndent {c : Prop} (s : StreamRenderer) (h : keepsIndent c s) :
    keepsIndent c s.resetStyle := by
  unfold StreamRenderer.resetStyle
  split_ifs
  · exact h.sameIndent rfl rfl
  · exact h

theorem switchStyle_keepsIndent {c : Prop} (s : StreamRenderer) (p : List Nat) (h : keepsIndent c s) :
    keepsIndent c (s.switchStyle p) := by
  unfold StreamRenderer.switchStyle
  simp only []
  split_ifs <;> exact h.sameIndent rfl rfl

theorem notePrefix_keepsIndent {c : Prop} (s : StreamRenderer) (t : List Nat) (h : keepsIndent c s) :
    keepsIndent c (s.notePrefix t) := by
  unfold StreamRenderer.notePrefix
  have h1 : keepsIndent c ({ s with prefixBuf := s.prefixBuf ++ t } : StreamRenderer) :=
    h.sameIndent rfl rfl
  have h2 := maybeSetWrapIndent_keeps _ h1
  have h3 := resetStyle_keepsIndent _ h2
  simp only []
  split_ifs
  · exact h3.sameIndent rfl rfl
  · exact h3
  · exact h2.sameIndent rfl rfl
  · exact h2

theorem emitText_keepsIndent {c : Prop} (T : Tables) (s : StreamRenderer) (text : List Nat) (style : Style)
    (h : keepsIndent c s) : keepsIndent c (s.emitText T text style).1 := by
  unfold StreamRenderer.emitText
  by_cases ht : text = []
  · rw [if_pos ht]; exact h
  · simp only [ht, if_false]
    generalize (if Contains text [0xC2, 0xA0] = true then replaceNBSP text.length text
      else text) = tx
    refine keepsIndent.sameIndent (switchStyle_keepsIndent _ style.Prefix ?_) rfl rfl
    split_ifs
    · exact notePrefix_keepsIndent _ _ (h.sameIndent rfl rfl)
    · exact h.sameIndent rfl rfl

theorem emitRune_keepsIndent {c : Prop} (T : Tables) (s : StreamRenderer) (r : Nat) (style : Style)
    (h : keepsIndent c s) : keepsIndent c (s.emitRune T r style).1 := by
  unfold StreamRenderer.emitRune
  split_ifs <;> exact emitText_keepsIndent T s _ style h

theorem wrapNewline_keepsIndent {c : Prop} (T : Tables) (s : StreamRenderer) (h : keepsIndent c s) :
    keepsIndent c (s.wrapNewline T) := by
  have h1 := resetStyle_keepsIndent s h
  unfold StreamRenderer.wrapNewline StreamRenderer.emitIndent StreamRenderer.newline
  simp only [Bool.false_eq_true, if_false]
  split_ifs
  · exact h1.sameIndent rfl rfl
  · exact h1.sameIndent rfl rfl

theorem emitAtoms_keepsIndent {c : Prop} (T : Tables) (atoms : List StreamToken) (s : StreamRenderer)
    (h : keepsIndent c s) : keepsIndent c (s.emitAtoms T atoms).1 := by
  induction atoms generalizing s with
  | nil => exact h
  | cons a rest ih =>
    simp only [StreamRenderer.emitAtoms]
    split_ifs
    · exact emitText_keepsIndent T s _ _ h
    · exact ih _ (emitText_keepsIndent T s _ _ h)

theorem emitPendingSpaces_keepsIndent {c : Prop} (T : Tables) (s : StreamRenderer) (h : keepsIndent c s) :
    keepsIndent c (s.emitPendingSpaces T) := by
  unfold StreamRenderer.emitPendingSpaces
  split_ifs
  · exact (emitAtoms_keepsIndent T _ s h).sameIndent rfl rfl
  · exact h

theorem emitRunes_keepsIndent {c : Prop} (T : Tables) (style : Style) (rs : List Nat) (s : StreamRenderer)
    (h : keepsIndent c s) : keepsIndent c (s.emitRunes T style rs) := by
  induction rs generalizing s with
  | nil => exact h
  | cons r rest ih =>
    simp only [StreamRenderer.emitRunes]
    exact ih _ (emitRune_keepsIndent T s r style h)

theorem emitTimedText_keepsIndent {c : Prop} (T : Tables) (s : StreamRenderer) (text : List Nat)
    (style : Style) (h : keepsIndent c s) : keepsIndent c (s.emitTimedText T text style) := by
  unfold StreamRenderer.emitTimedText
  split_ifs
  · exact h
  · exact emitRunes_keepsIndent T style _ s h

theorem emitCodeSegment_keepsIndent {c : Prop} (T : Tables) (s : StreamRenderer) (seg : List Nat)
    (limit : Int) (style : Style) (h : keepsIndent c s) :
    keepsIndent c (s.emitCodeSegment T seg limit style) := by
  unfold StreamRenderer.emitCodeSegment
  split_ifs
  · exact h
  · exact emitRunes_keepsIndent T style _ s h
  · exact emitRune_keepsIndent T s _ style h
  · exact emitRune_keepsIndent T _ _ style (emitRunes_keepsIndent T style _ s h)

theorem emitCodeSegments_keepsIndent {c : Prop} (T : Tables) (limit : Int) (style : Style)
    (segs : List (List Nat)) (s : StreamRenderer) (h : keepsIndent c s) :
    keepsIndent c (s.emitCodeSegments T limit style segs) := by
  induction segs generalizing s with
  | nil => exact h
  | cons g rest ih =>
    simp only [StreamRenderer.emitCodeSegments]
    apply ih
    apply emitCodeSegment_keepsIndent
    split_ifs
    · exact wrapNewline_keepsIndent T s h
    · exact h
    · exact h

theorem emitTimedCodeSplit_keepsIndent {c : Prop} (T : Tables) (s : StreamRenderer) (text : List Nat)
    (style : Style) (limit : Int) (h : keepsIndent c s) :
    keepsIndent c (s.emitTimedCodeSplit T text style limit) := by
  unfold StreamRenderer.emitTimedCodeSplit
  simp only []
  split_ifs
  · exact h
  · exact h
  · exact emitCodeSegments_keepsIndent T limit style _ s h

theorem wordSplitLoop_keepsIndent {c : Prop} (T : Tables) (style : Style) (limit : Int) (total : Nat)
    (fuel : Nat) (s : StreamRenderer) (text carry : List Nat) (consumed idx : Nat)
    (h : keepsIndent c s) :
    keepsIndent c (StreamRenderer.wordSplitLoop T style limit total fuel s text carry consumed
      idx) := by
  induction fuel generalizing s text carry consumed idx with
  | zero => exact h
  | succ n ih =>
    simp only [StreamRenderer.wordSplitLoop]
    split_ifs
    all_goals first
      | exact h
      | (apply ih; apply emitRunes_keepsIndent; first | exact wrapNewline_keepsIndent T s h | exact h)

theorem emitTimedWordSplit_keepsIndent {c : Prop} (T : Tables) (s : StreamRenderer) (text : List Nat)
    (style : Style) (limit : Int) (h : keepsIndent c s) :
    keepsIndent c (s.emitTimedWordSplit T text style limit) := by
  unfold StreamRenderer.emitTimedWordSplit
  simp only []
  split_ifs
  · exact h
  · exact h
  · exact wordSplitLoop_keepsIndent T style limit _ _ s _ _ _ _ h

theorem emitOverlongWord_keepsIndent {c : Prop} (T : Tables) (s : StreamRenderer) (wordText : List Nat)
    (pending : wordBuffer) (h : keepsIndent c s) :
    keepsIndent c (s.emitOverlongWord T wordText pending) := by
  unfold StreamRenderer.emitOverlongWord
  simp only []
  split_ifs
  · exact emitTimedWordSplit_keepsIndent T s _ _ _ h
  · split
    · split_ifs
      · exact (emitTimedText_keepsIndent T s _ _ h).sameIndent rfl rfl
      · exact (emitTimedText_keepsIndent T s _ _ h).sameIndent rfl rfl
    · exact (emitTimedText_keepsIndent T s _ _ h).sameIndent rfl rfl
  · exact emitTimedCodeSplit_keepsIndent T s _ _ _ h
  · exact emitTimedWordSplit_keepsIndent T s _ _ _ h

theorem newline_keepsIndent {c : Prop} (s : StreamRenderer) (b : Bool) (hb : c → b = false)
    (h : keepsIndent c s) : keepsIndent c (s.newline b) := by
  have h1 := resetStyle_keepsIndent s h
  unfold StreamRenderer.newline
  cases b
  · simp only [Bool.false_eq_true, if_false]
    exact h.sameIndent rfl rfl
  · simp only [if_true]
    exact ⟨fun hc => by simpa using hb hc, h1.2⟩

theorem emitBoundary_keepsIndent {c : Prop} (T : Tables) (s : StreamRenderer) (b : boundaryKind)
    (hb : c → b ≠ boundaryNewline) (h : keepsIndent c s) : keepsIndent c (s.emitBoundary T b) := by
  unfold StreamRenderer.emitBoundary
  split
  · exact newline_keepsIndent _ true (fun hc => absurd rfl (hb hc))
      (emitPendingSpaces_keepsIndent T s h)
  · exact h

theorem wrapBeforeWord_keepsIndent {c : Prop} (T : Tables) (s : StreamRenderer) (h : keepsIndent c s) :
    keepsIndent c (s.wrapBeforeWord T) := by
  unfold StreamRenderer.wrapBeforeWord
  simp only []
  split_ifs
  · exact (wrapNewline_keepsIndent T s h).sameIndent rfl rfl
  · exact h
  · exact h

theorem emitWord_keepsIndent {c : Prop} (T : Tables) (s : StreamRenderer) (h : keepsIndent c s) :
    keepsIndent c (s.emitWord T) := by
  unfold StreamRenderer.emitWord
  simp only []
  split_ifs
  · exact emitTimedCodeSplit_keepsIndent T s _ _ _ h
  · exact emitOverlongWord_keepsIndent T s _ _ h
  · exact emitAtoms_keepsIndent T _ s h

theorem flushWord_keepsIndent {c : Prop} (T : Tables) (s : StreamRenderer) (b : boundaryKind)
    (hb : c → b ≠ boundaryNewline) (h : keepsIndent c s) : keepsIndent c (s.flushWord T b) := by
  unfold StreamRenderer.flushWord
  simp only []
  split_ifs
  · exact emitBoundary_keepsIndent T s b hb h
  · apply emitBoundary_keepsIndent _ _ _ hb
    exact (emitWord_keepsIndent T _ (emitPendingSpaces_keepsIndent T _
      (wrapBeforeWord_keepsIndent T s h))).sameIndent rfl rfl

theorem boundaryNone_ne_newline {c : Prop} : c → boundaryNone ≠ boundaryNewline :=
  fun _ => by decide

theorem settlePunctQuote_keepsIndent {c : Prop} (T : Tables) (s : StreamRenderer) (a : atom)
    (h : keepsIndent c s) (ha : c → a.boundary ≠ boundaryNewline) :
    keepsIndent c (s.settlePunctQuote T a).1 ∧
      (c → (s.settlePunctQuote T a).2.boundary ≠ boundaryNewline) := by
  unfold StreamRenderer.settlePunctQuote
  split_ifs
  · exact ⟨h.sameIndent rfl rfl, boundaryNone_ne_newline⟩
  · exact ⟨(flushWord_keepsIndent T s _ boundaryNone_ne_newline h).sameIndent rfl rfl, ha⟩
  · exact ⟨h, ha⟩

theorem settleCodeFlush_keepsIndent {c : Prop} (T : Tables) (s : StreamRenderer) (a : atom)
    (h : keepsIndent c s) : keepsIndent c (s.settleCodeFlush T a) := by
  unfold StreamRenderer.settleCodeFlush
  split_ifs
  · exact (flushWord_keepsIndent T s _ boundaryNone_ne_newline h).sameIndent rfl rfl
  · exact h

theorem appendPunct_keepsIndent {c : Prop} (T : Tables) (s : StreamRenderer) (a : atom)
    (h : keepsIndent c s) : keepsIndent c (s.appendPunct T a).1 := by
  have hs : keepsIndent c { s with pending := s.pending.appendAtom T a.tok } := h.sameIndent rfl rfl
  unfold StreamRenderer.appendPunct
  simp only []
  split_ifs
  · exact h.sameIndent rfl rfl
  · exact (flushWord_keepsIndent T _ _ boundaryNone_ne_newline hs).sameIndent rfl rfl

theorem processPunctText_keepsIndent {c : Prop} (T : Tables) (s : StreamRenderer) (a : atom)
    (h : keepsIndent c s) : keepsIndent c (s.processPunctText T a).1 := by
  unfold StreamRenderer.processPunctText
  generalize hs1 : (if s.pending.atoms.length > 0 ∧ s.pending.kind = tokenCode ∧ s.width > 0 ∧
        s.lineWidth > 0 then
      if ((s.lineWidth + spacesWidth T s.pendingSpaces + s.pending.width +
            PrintableRuneWidth T a.tok.Text : Nat) : Int) > s.width then
        { s.wrapNewline T with pendingSpaces := [] }
      else s
    else s) = s1
  have h1 : keepsIndent c s1 := by
    rw [← hs1]
    split_ifs
    · exact (wrapNewline_keepsIndent T s h).sameIndent rfl rfl
    · exact h
    · exact h
  simp only []
  split_ifs
  · exact emitText_keepsIndent T _ _ _ (h1.sameIndent rfl rfl)
  · exact emitText_keepsIndent T _ _ _ h1
  · exact appendPunct_keepsIndent T _ a h1
  · exact appendPunct_keepsIndent T _ a (flushWord_keepsIndent T _ _ boundaryNone_ne_newline h1)
  · exact appendPunct_keepsIndent T _ a h1

theorem writePrefixSpace_keepsIndent {c : Prop} (T : Tables) (s : StreamRenderer) (a : atom)
    (h : keepsIndent c s) : keepsIndent c (s.writePrefixSpace T a).1 := by
  have h1 := switchStyle_keepsIndent s a.tok.Style.Prefix h
  have hY : keepsIndent c { s.switchStyle a.tok.Style.Prefix with
      w := ((s.switchStyle a.tok.Style.Prefix).w.WriteString a.tok.Text).1,
      lineWidth := (s.switchStyle a.tok.Style.Prefix).lineWidth + PrintableRuneWidth T a.tok.Text,
      prefixBuf := (s.switchStyle a.tok.Style.Prefix).prefixBuf ++ a.tok.Text } :=
    h1.sameIndent rfl rfl
  have h3 := resetStyle_keepsIndent _ (maybeSetWrapIndent_keeps _ hY)
  unfold StreamRenderer.writePrefixSpace
  simp only []
  split_ifs
  · exact h3.sameIndent rfl rfl
  · exact h3

theorem processSpace_keepsIndent {c : Prop} (T : Tables) (s : StreamRenderer) (a : atom)
    (h : keepsIndent c s) : keepsIndent c (s.processSpace T a).1 := by
  unfold StreamRenderer.processSpace
  have h1 : keepsIndent c { s.flushWord T boundaryNone with lastWordCode := false } :=
    (flushWord_keepsIndent T s _ boundaryNone_ne_newline h).sameIndent rfl rfl
  simp only []
  split_ifs
  · exact h1.sameIndent rfl rfl
  · exact writePrefixSpace_keepsIndent T _ a h1
  · exact h1.sameIndent rfl rfl

theorem processAtomRaw_keepsIndent {c : Prop} (T : Tables) (s : StreamRenderer) (a : atom)
    (h : keepsIndent c s) (ha : c → a.boundary ≠ boundaryNewline) :
    keepsIndent c (s.processAtomRaw T a).1 := by
  unfold StreamRenderer.processAtomRaw
  obtain ⟨h1, ha1⟩ := settlePunctQuote_keepsIndent T s a h ha
  generalize (s.settlePunctQuote T a) = sa at *
  have h2 := settleCodeFlush_keepsIndent T sa.1 sa.2 h1
  simp only []
  generalize (sa.1.settleCodeFlush T sa.2) = s2 at *
  split_ifs with c1 c2 c3 c4 c5 c6
  · exact h2.sameIndent rfl rfl
  · exact h2.sameIndent rfl rfl
  · exact h2.sameIndent rfl rfl
  · exact processPunctText_keepsIndent T s2 sa.2 h2
  · exact h2.sameIndent rfl rfl
  · exact processSpace_keepsIndent T s2 sa.2 h2
  · refine emitBoundary_keepsIndent T _ _ (fun hc => ?_)
      ((flushWord_keepsIndent T s2 _ boundaryNone_ne_newline h2).sameIndent rfl rfl)
    exfalso
    have := ha1 hc
    cases hb : sa.2.boundary <;> simp_all

theorem processAtomsRaw_keepsIndent {c : Prop} (T : Tables) (bs : List atom)
    (s : StreamRenderer) (h : keepsIndent c s) (hb : ∀ b ∈ bs, b.boundary ≠ boundaryNewline) :
    keepsIndent c (s.processAtomsRaw T bs) := by
  induction bs generalizing s with
  | nil => exact h
  | cons b rest ih =>
    simp only [StreamRenderer.processAtomsRaw]
    exact ih _ (processAtomRaw_keepsIndent T s b h (fun _ => hb b (List.mem_cons_self _ _)))
      (fun x hx => hb x (List.mem_cons_of_mem _ hx))

theorem flushNBSPBuf_keepsIndent {c : Prop} (T : Tables) (s : StreamRenderer) (h : keepsIndent c s) :
    keepsIndent c (s.flushNBSPBuf T) := by
  unfold StreamRenderer.flushNBSPBuf
  obtain ⟨a, _⟩ := processAtomsRaw_keepsIndent T s.nbspBuf s h h.2
  exact ⟨a, fun x hx => by simp at hx⟩

theorem atomNL_not_entity (a : atom) (h : atomNL a) (hb : a.boundary = boundaryNewline) :
    a.tok.Text ≠ [0x26] ∧ isNBSPChar a.tok.Text = false := by
  rw [h hb]; decide

theorem handleNBSPAtom_keepsIndent {c : Prop} (T : Tables) (s : StreamRenderer) (a : atom)
    (h : keepsIndent c s) (hnl : atomNL a) :
    keepsIndent c (s.handleNBSPAtom T a).1 := by
  have happ : (a.tok.Text = [0x26] ∨ isNBSPChar a.tok.Text = true) →
      keepsIndent c { s with nbspBuf := s.nbspBuf ++ [a] } := fun ht =>
    ⟨h.1, fun x hx => by
      rcases List.mem_append.mp hx with hx | hx
      · exact h.2 x hx
      · rw [List.mem_singleton.mp hx]
        intro hb
        obtain ⟨n1, n2⟩ := atomNL_not_entity a hnl hb
        rcases ht with ht | ht
        · exact n1 ht
        · rw [n2] at ht; exact Bool.noConfusion ht⟩
  unfold StreamRenderer.handleNBSPAtom
  simp only []
  split_ifs with k1 k2 k3 k4 k5 k6 k7
  · exact flushNBSPBuf_keepsIndent T s h
  · exact h
  · exact happ (Or.inl k4)
  · exact h
  · exact flushNBSPBuf_keepsIndent T s h
  · exact happ (Or.inr (by simp at k5; exact k5.2))
  · refine processAtomRaw_keepsIndent T _ _ ?_ boundaryNone_ne_newline
    exact ⟨h.1, fun x hx => by simp at hx⟩
  · exact flushNBSPBuf_keepsIndent T _ (happ (Or.inr (by simp at k5; exact k5.2)))

theorem processAtom_keepsIndent {c : Prop} (T : Tables) (s : StreamRenderer) (a : atom)
    (h : keepsIndent c s) (ha : c → a.boundary ≠ boundaryNewline) (hnl : atomNL a) :
    keepsIndent c (s.processAtom T a).1 := by
  unfold StreamRenderer.processAtom
  have h1 := handleNBSPAtom_keepsIndent T s a h hnl
  simp only []
  split_ifs
  · exact h1
  · exact processAtomRaw_keepsIndent T _ a h1 ha

theorem flushPending_keepsIndent {c : Prop} (T : Tables) (s : StreamRenderer) (h : keepsIndent c s) :
    keepsIndent c (s.flushPending T) := by
  unfold StreamRenderer.flushPending
  split_ifs
  · exact flushWord_keepsIndent T s _ boundaryNone_ne_newline h
  · exact emitPendingSpaces_keepsIndent T s h

theorem writeLinkToken_keepsIndent {c : Prop} (T : Tables) (s : StreamRenderer) (tok : StreamToken)
    (h : keepsIndent c s) : keepsIndent c (s.writeLinkToken T tok).1 := by
  unfold StreamRenderer.writeLinkToken
  have h1 := flushPending_keepsIndent T s h
  simp only []
  split_ifs
  · exact h1
  · exact h1.sameIndent rfl rfl
  · exact h1
  · exact h1.sameIndent rfl rfl

theorem classifyBoundary_newline (T : Tables) (r next : Nat)
    (h : classifyBoundary T r next = boundaryNewline) : r = 10 := by
  unfold classifyBoundary at h
  split_ifs at h with h1
  exact h1

theorem writeTokenLoop_keepsIndent {c : Prop} (T : Tables) (tok : StreamToken) (per rem : Int)
    (fuel : Nat) (s : StreamRenderer) (text : List Nat) (fst : Bool) (h : keepsIndent c s)
    (ht : c → 10 ∉ text) :
    keepsIndent c (StreamRenderer.writeTokenLoop T tok per rem fuel s text fst).1 := by
  induction fuel generalizing s text fst with
  | zero => exact h
  | succ n ih =>
    have hdrop : ∀ k, c → 10 ∉ text.drop k := fun k hc hk => ht hc (List.mem_of_mem_drop hk)
    simp only [StreamRenderer.writeTokenLoop]
    by_cases h0 : text.length = 0
    · rw [if_pos h0]; exact h
    rw [if_neg h0]
    by_cases h1 : (DecodeRune text).1 = RuneError ∧ (DecodeRune text).2 = 1
    · rw [if_pos h1]; exact ih _ _ _ h (hdrop _)
    rw [if_neg h1]
    by_cases h2 : isControlRune (DecodeRune text).1 = true
    · rw [if_pos h2]; exact ih _ _ _ h (hdrop _)
    rw [if_neg h2]
    have key : ∀ (A : atom) (X : List Nat), (c → A.boundary ≠ boundaryNewline) → atomNL A →
        (c → 10 ∉ X) →
        keepsIndent c (if (s.processAtom T A).2 = true then s.processAtom T A
          else StreamRenderer.writeTokenLoop T tok per rem n (s.processAtom T A).1 X false).1 := by
      intro A X hA hnl hX
      have e2 := processAtom_keepsIndent T s A h hA hnl
      split_ifs
      · exact e2
      · exact ih _ _ _ e2 hX
    have h10 : ∀ (A : atom), A.tok.Text = text.take (DecodeRune text).2 →
        (A.boundary = boundaryNewline → (DecodeRune text).1 = 10) →
        (c → A.boundary ≠ boundaryNewline) ∧ atomNL A := by
      intro A hA hB
      have hk : A.boundary = boundaryNewline → A.tok.Text = [10] := by
        intro hb
        have e := hB hb
        have htk := DecodeRune_ascii text (by omega)
        rw [hA, htk, e]
      refine ⟨fun hc hb => ?_, hk⟩
      have : (10 : Nat) ∈ text.take (DecodeRune text).2 := by rw [← hA, hk hb]; simp
      exact ht hc (List.mem_of_mem_take this)
    refine key _ _ (h10 _ rfl ?_).1 (h10 _ rfl ?_).2 (hdrop _)
    all_goals
      intro hb
      simp only [] at hb
      split_ifs at hb <;> exact classifyBoundary_newline T _ _ hb

theorem WriteToken_keepsIndent {c : Prop} (T : Tables) (s : StreamRenderer) (tok : StreamToken)
    (h : keepsIndent c s) (ht : c → 10 ∉ tok.Text) : keepsIndent c (s.WriteToken T tok).1 := by
  unfold StreamRenderer.WriteToken
  by_cases h1 : tok.Kind = tokenLinkStart ∨ tok.Kind = tokenLinkEnd
  · rw [if_pos h1]; exact writeLinkToken_keepsIndent T s tok h
  rw [if_neg h1]
  by_cases h2 : tok.Kind = tokenThematicBreak
  · rw [if_pos h2]; exact flushPending_keepsIndent T s h
  rw [if_neg h2]
  by_cases h3 : tok.Text = []
  · rw [if_pos h3]; exact h
  rw [if_neg h3]
  have key : ∀ (s1 : StreamRenderer) (per rem : Int), keepsIndent c s1 →
       keepsIndent c (if (StreamRenderer.writeTokenLoop T tok per rem tok.Text.length s1 tok.Text true).2 = true
        then StreamRenderer.writeTokenLoop T tok per rem tok.Text.length s1 tok.Text true
        else
          if tok.Kind = tokenCode ∧ tok.CodeBlock then
            ({ (StreamRenderer.writeTokenLoop T tok per rem tok.Text.length s1 tok.Text
                  true).1.flushWord T boundaryNone with codeFlushPending := false }, false)
          else if tok.Kind = tokenCode then
            ({ (StreamRenderer.writeTokenLoop T tok per rem tok.Text.length s1 tok.Text
                  true).1 with codeFlushPending := true }, false)
          else ((StreamRenderer.writeTokenLoop T tok per rem tok.Text.length s1 tok.Text
                  true).1, false)).1 := by
    intro s1 per rem hs
    have e2 := writeTokenLoop_keepsIndent T tok per rem tok.Text.length s1 tok.Text true hs ht
    split_ifs
    · exact e2
    · exact (flushWord_keepsIndent T _ _ boundaryNone_ne_newline e2).sameIndent rfl rfl
    · exact e2.sameIndent rfl rfl
    · exact e2
  apply key
  split_ifs
  · exact flushWord_keepsIndent T s _ boundaryNone_ne_newline h
  · exact h
  · exact h

theorem writeTokens_keepsIndent {c : Prop} (T : Tables) (toks : List StreamToken) (s : StreamRenderer)
    (h : keepsIndent c s) (ht : c → ∀ t ∈ toks, 10 ∉ t.Text) :
    keepsIndent c (s.writeTokens T toks).1 := by
  induction toks generalizing s with
  | nil => exact h
  | cons t rest ih =>
    have e2 := WriteToken_keepsIndent T s t h (fun hc => ht hc t (List.mem_cons_self _ _))
    simp only [StreamRenderer.writeTokens]
    split_ifs
    · exact e2
    · exact ih _ e2 (fun hc x hx => ht hc x (List.mem_cons_of_mem _ hx))

theorem flushBuffered_keepsIndent {c : Prop} (T : Tables) (s : StreamRenderer) (h : keepsIndent c s) :
    keepsIndent c (s.flushBuffered T) := by
  unfold StreamRenderer.flushBuffered
  simp only []
  apply flushPending_keepsIndent
  have h1 : keepsIndent c (if s.nbspBuf.length > 0 then s.flushNBSPBuf T else s) := by
    split_ifs
    · exact flushNBSPBuf_keepsIndent T s h
    · exact h
  generalize (if s.nbspBuf.length > 0 then s.flushNBSPBuf T else s) = s1 at h1 ⊢
  split_ifs
  · exact (flushWord_keepsIndent T _ _ boundaryNone_ne_newline h1).sameIndent rfl rfl
  · exact h1

theorem Flush_keepsIndent {c : Prop} (T : Tables) (s : StreamRenderer) (h : keepsIndent c s) :
    keepsIndent c (s.Flush T).1 := by
  have hm := flushBuffered_keepsIndent T s h
  unfold StreamRenderer.Flush
  generalize s.flushBuffered T = m at *
  simp only []
  split_ifs <;> exact hm.sameIndent rfl rfl

theorem SetWrapIndent_keepsIndent {c : Prop} (s : StreamRenderer) (indent : List Nat)
    (h : keepsIndent c s) : keepsIndent c (s.SetWrapIndent indent) := by
  unfold StreamRenderer.SetWrapIndent
  split_ifs with hi
  · exact h
  · exact ⟨fun _ => hi, h.2⟩

theorem call_keepsIndent {c : Prop} (T : Tables) (s : StreamRenderer) (k : sinkCall)
    (h : keepsIndent c s) (hk : c → k.noNewline) : keepsIndent c (s.call T k) := by
  cases k with
  | writeToken tok => exact WriteToken_keepsIndent T s tok h hk
  | setWrapIndent indent => exact SetWrapIndent_keepsIndent s indent h
  | setWidth width => exact h.sameIndent rfl rfl
  | flush => exact Flush_keepsIndent T s h

theorem calls_keepsIndent {c : Prop} (T : Tables) (cs : List sinkCall) (s : StreamRenderer)
    (h : keepsIndent c s) (hk : c → ∀ k ∈ cs, k.noNewline) : keepsIndent c (s.calls T cs) := by
  induction cs generalizing s with
  | nil => exact h
  | cons k rest ih =>
    simp only [StreamRenderer.calls, List.foldl_cons]
    exact ih _ (call_keepsIndent T s k h (fun hc => hk hc k (List.mem_cons_self _ _)))
      (fun hc x hx => hk hc x (List.mem_cons_of_mem _ hx))

theorem wrapNewline_out (T : Tables) (s : StreamRenderer) (hf : s.w.failing = false) :
    (s.wrapNewline T).wrapIndent = s.wrapIndent ∧
    (s.wrapNewline T).w.out =
      s.w.out ++ (if s.style = [] then [] else ansiReset) ++ [10] ++ s.wrapIndent := by
  unfold StreamRenderer.wrapNewline StreamRenderer.emitIndent StreamRenderer.newline
    StreamRenderer.resetStyle
  by_cases hs : s.style = [] <;> by_cases hw : s.wrapIndent = [] <;>
    simp [hs, hw, WriteString_ok, hf]

/-- C31 (amended): `SetWrapIndent(s)` with a non-empty `s` makes `s` the wrap
indent and changes nothing else, and `SetWrapIndent("")` changes nothing at
all.  Every soft newline (`wrapNewline`) writes the reset sequence if a style
is active, a newline and then the wrap indent verbatim, and keeps the wrap
indent.  The hard newline empties it; and on a sink that was made by
`NewStreamRenderer` and has received any calls, once `SetWrapIndent(s)` was
called with a non-empty `s`, the wrap indent stays non-empty through every
further call that is not `WriteToken` of a token holding a newline rune. -/
theorem C31_wrap_indent (T : Tables) (w : Writer) (width : Int) (cfg : renderConfig)
    (s : StreamRenderer) (indent : List Nat) (before after : List sinkCall)
    (hi : indent ≠ []) (hf : s.w.failing = false) (hk : ∀ k ∈ after, k.noNewline) :
    s.SetWrapIndent indent = { s with wrapIndent := indent } ∧
    s.SetWrapIndent [] = s ∧
    (s.wrapNewline T).wrapIndent = s.wrapIndent ∧
    (s.wrapNewline T).w.out =
      s.w.out ++ (if s.style = [] then [] else ansiReset) ++ [10] ++ s.wrapIndent ∧
    (s.newline true).wrapIndent = [] ∧
    ((((NewStreamRenderer w width cfg).calls T before).SetWrapIndent indent).calls T
      after).wrapIndent ≠ [] := by
  refine ⟨by simp [StreamRenderer.SetWrapIndent, hi], by simp [StreamRenderer.SetWrapIndent],
    (wrapNewline_out T s hf).1, (wrapNewline_out T s hf).2,
    by simp [StreamRenderer.newline], ?_⟩
  have h0 : keepsIndent False (NewStreamRenderer w width cfg) :=
    ⟨fun hc => hc.elim, fun a ha => by
      simp [NewStreamRenderer, StreamRenderer.resetWithConfig] at ha⟩
  have h1 := calls_keepsIndent T before _ h0 (fun hc => hc.elim)
  have h2 : keepsIndent True
      (((NewStreamRenderer w width cfg).calls T before).SetWrapIndent indent) := by
    refine ⟨fun _ => ?_, (SetWrapIndent_keepsIndent _ indent h1).2⟩
    simp [StreamRenderer.SetWrapIndent, hi]
  exact (calls_keepsIndent T after _ h2 (fun _ => hk)).1 trivial

theorem C31_wrap_indent_witness :
    (((NewStreamRenderer { out := [], failing := false } 3 {}).wrapNewline plainTables).w.out =
        [] ++ (if (NewStreamRenderer { out := [], failing := false } 3 {}).style = [] then []
          else ansiReset) ++ [10] ++
          (NewStreamRenderer { out := [], failing := false } 3 {}).wrapIndent) ∧
    ((((NewStreamRenderer { out := [], failing := false } 3 {}).calls plainTables
        [sinkCall.writeToken { Text := [97, 10] }]).SetWrapIndent [62, 32]).calls plainTables
        [sinkCall.writeToken { Text := [97, 97] }, sinkCall.setWrapIndent [],
         sinkCall.writeToken { Text := [32] }, sinkCall.writeToken { Text := [98, 98] },
         sinkCall.flush]).wrapIndent ≠ [] :=
  have h := C31_wrap_indent plainTables { out := [], failing := false } 3 {}
    (NewStreamRenderer { out := [], failing := false } 3 {}) [62, 32]
    [sinkCall.writeToken { Text := [97, 10] }]
    [sinkCall.writeToken { Text := [97, 97] }, sinkCall.setWrapIndent [],
     sinkCall.writeToken { Text := [32] }, sinkCall.writeToken { Text := [98, 98] },
     sinkCall.flush]
    (by decide) rfl (by simp [sinkCall.noNewline])
  ⟨h.2.2.2.1, h.2.2.2.2.2⟩

/-! ### Runs of delimiters and code spans on a decided line -/

theorem feedInline_nil {σ : Type} (S : Stream σ) (x : PState σ) :
    feedInline S [] x = (Res.ok (), x) := rfl

theorem feedInline_cons {σ : Type} (S : Stream σ) (r : Nat) (rs : List Nat) (x y : PState σ)
    (h : emitInline S r x = (Res.ok (), y)) :
    feedInline S (r :: rs) x = feedInline S rs y := by
  simp only [feedInline, PM_bind_eq, PM.bind, h]

theorem feedInline_append {σ : Type} (S : Stream σ) (a b : List Nat) (x y : PState σ)
    (h : feedInline S a x = (Res.ok (), y)) :
    feedInline S (a ++ b) x = feedInline S b y := by
  induction a generalizing x with
  | nil =>
    rw [feedInline_nil] at h
    cases h; rfl
  | cons r rs ih =>
    rcases hr : emitInline S r x with ⟨res, z⟩
    cases res with
    | ok u =>
      rw [feedInline_cons S r rs x z hr] at h
      rw [List.cons_append, feedInline_cons S r (rs ++ b) x z hr]
      exact ih z h
    | err => simp [feedInline, PM_bind_eq, PM.bind, hr] at h
    | panic => simp [feedInline, PM_bind_eq, PM.bind, hr] at h
    | fuelOut => simp [feedInline, PM_bind_eq, PM.bind, hr] at h

theorem writeRunes_capture (style : Style) (kind : tokenKind) (rs : List Nat) (p : liveParser)
    (st : List Event) :
    writeRunes captureStream style kind rs { p := p, st := st } =
      (Res.ok (), { p := p, st := st ++ rs.map (fun r =>
        Event.token (textTok (runeTokenText r) style kind)) }) := by
  induction rs generalizing st with
  | nil => simp [writeRunes, PM_pure_eq]
  | cons r rest ih =>
    simp only [writeRunes, PM_bind_eq, PM.bind, writeToken, captureStream]
    simp only [Bool.false_eq_true, if_false]
    have := ih (st ++ [Event.token (textTok (runeTokenText r) style kind)])
    simp only [captureStream] at this
    rw [this]
    simp

theorem inlineStyle_eq (p : liveParser) :
    p.inlineStyle = inlineStyleOf p.styles p.lineStyled p.lineStyle p.inline.inCode
      p.inline.inEm p.inline.inStrong := rfl

theorem inlineIdle_spanFree {i : inlineState} (h : inlineIdle i) : spanFree i :=
  ⟨h.2.1, h.2.2.1, h.2.2.2.1, h.2.2.2.2.1, h.2.2.2.2.2.1, h.2.2.2.2.2.2.2⟩

theorem emitInline_blank (x : PState (List Event)) (r : Nat) (hr : isBlank r)
    (hidle : inlineIdle x.p.inline) (hline : x.p.lineDecided = true)
    (hc : x.p.inline.pendingCount = 0) :
    emitInline captureStream r x =
      (Res.ok (), { x with p := { x.p with immediateSpaces := x.p.immediateSpaces ++ [r] } }) := by
  obtain ⟨p, st⟩ := x
  obtain ⟨i1, i2, i3, i4, i5, i6, i7, i8⟩ := hidle
  simp only at i1 i2 i3 i4 i5 i6 i7 i8 hline hc
  have hb : r = 32 ∨ r = 9 := hr
  simp [emitInline, emitInlineNumUS, emitInlineAutoLink, emitInlineEntity, emitInlineSpaces,
    PM_bind_eq, PM.bind, PM_pure_eq, getP, modifyInline, modifyP, i1, i2, i3, i4, i5, i6, i7, i8,
    hline, hc, hb]

theorem emitInline_plain (x : PState (List Event)) (r : Nat) (hr : isPlainRune r)
    (hnb : ¬ isBlank r) (hidle : inlineIdle x.p.inline) (hline : x.p.lineDecided = true)
    (hc : x.p.inline.pendingCount = 0) :
    emitInline captureStream r x =
      (Res.ok (),
        { p := { x.p with immediateSpaces := [],
                          inline := { x.p.inline with
                            lastWasDigit := decide (0x30 ≤ r) && decide (r ≤ 0x39) } },
          st := x.st ++ x.p.immediateSpaces.map (runeEvent x.p) ++ [runeEvent x.p r] }) := by
  obtain ⟨p, st⟩ := x
  obtain ⟨i1, i2, i3, i4, i5, i6, i7, i8⟩ := hidle
  obtain ⟨h1, h2, h3, h4, h5, h6⟩ := hr
  have hb : ¬ (r = 32 ∨ r = 9) := hnb
  have hb1 : r ≠ 32 := fun e => hb (Or.inl e)
  have hb2 : r ≠ 9 := fun e => hb (Or.inr e)
  simp only at i1 i2 i3 i4 i5 i6 i7 i8 hline hc
  by_cases hs : p.immediateSpaces = []
  · simp [emitInline, emitInlineNumUS, emitInlineAutoLink, emitInlineEntity, emitInlineSpaces,
      emitInlineSwitch, emitInlineLink, PM_bind_eq, PM.bind, PM_pure_eq, getP, modifyInline,
      modifyP, i1, i2, i3, i4, i5, i6, i7, i8, hline, hc, hs, h1, h2, h3, h4, h5, h6, hb1, hb2,
      writeToken, captureStream, runeEvent]
  · have hl : 0 < p.immediateSpaces.length := List.length_pos.mpr hs
    simp [emitInline, emitInlineNumUS, emitInlineAutoLink, emitInlineEntity, emitInlineSpaces,
      emitInlineSwitch, emitInlineLink, PM_bind_eq, PM.bind, PM_pure_eq, getP, modifyInline,
      modifyP, i1, i2, i3, i4, i5, i6, i7, i8, hline, hc, hs, hl, h1, h2, h3, h4, h5, h6, hb1,
      hb2, writeToken, writeRunes_capture, runeEvent, inlineStyle_eq]
    simp [captureStream, runeEvent, inlineStyle_eq, i1]

theorem emitInline_delim_held (x : PState (List Event)) (d : Nat) (hd : d = 0x2A ∨ d = 0x5F)
    (hidle : inlineIdle x.p.inline) (hdig : d = 0x5F → x.p.inline.lastWasDigit = false)
    (hline : x.p.lineDecided = true)
    (hrun : x.p.inline.pendingCount = 0 ∨ x.p.inline.pendingDelim = d) :
    emitInline captureStream d x =
      (Res.ok (),
        { p := { x.p with immediateSpaces := [],
                          inline := { x.p.inline with
                            pendingDelim := d,
                            pendingCount := x.p.inline.pendingCount + 1 } },
          st := x.st ++ x.p.immediateSpaces.map (runeEvent x.p) }) := by
  obtain ⟨p, st⟩ := x
  obtain ⟨i1, i2, i3, i4, i5, i6, i7, i8⟩ := hidle
  simp only at i1 i2 i3 i4 i5 i6 i7 i8 hline hrun hdig
  have h1 : d ≠ 32 := by omega
  have h2 : d ≠ 9 := by omega
  have h3 : d ≠ 0x60 := by omega
  have h4 : d ≠ 0x26 := by omega
  have hsw : d = 42 ∨ d = 95 := hd
  have hnu : ¬ (d = 95 ∧ p.inline.lastWasDigit = true) := by
    rintro ⟨e, f⟩
    rw [hdig e] at f
    exact Bool.noConfusion f
  have hfl : ¬ (0 < p.inline.pendingCount ∧ ¬ d = p.inline.pendingDelim) := by
    rintro ⟨a, b⟩
    rcases hrun with h | h
    · omega
    · exact b h.symm
  by_cases hs : p.immediateSpaces = []
  · rcases hrun with h0 | h0
    · by_cases he : p.inline.pendingDelim = d
      · simp [emitInline, emitInlineNumUS, emitInlineAutoLink, emitInlineEntity, emitInlineSpaces,
          emitInlineSwitch, emitInlineLink, PM_bind_eq, PM.bind, PM_pure_eq, getP, modifyInline,
          modifyP, i1, i2, i3, i4, i5, i6, i7, i8, hline, hs, h1, h2, h3, h4, hsw, hnu, h0, he]
      · simp [emitInline, emitInlineNumUS, emitInlineAutoLink, emitInlineEntity, emitInlineSpaces,
          emitInlineSwitch, emitInlineLink, PM_bind_eq, PM.bind, PM_pure_eq, getP, modifyInline,
          modifyP, i1, i2, i3, i4, i5, i6, i7, i8, hline, hs, h1, h2, h3, h4, hsw, hnu, h0, he]
    · simp [emitInline, emitInlineNumUS, emitInlineAutoLink, emitInlineEntity, emitInlineSpaces,
        emitInlineSwitch, emitInlineLink, PM_bind_eq, PM.bind, PM_pure_eq, getP, modifyInline,
        modifyP, i1, i2, i3, i4, i5, i6, i7, i8, hline, hs, h1, h2, h3, h4, hsw, hnu, h0]
  · have hl : 0 < p.immediateSpaces.length := List.length_pos.mpr hs
    rcases hrun with h0 | h0
    · by_cases he : p.inline.pendingDelim = d
      · simp [emitInline, emitInlineNumUS, emitInlineAutoLink, emitInlineEntity, emitInlineSpaces,
          emitInlineSwitch, emitInlineLink, PM_bind_eq, PM.bind, PM_pure_eq, getP, modifyInline,
          modifyP, i1, i2, i3, i4, i5, i6, i7, i8, hline, hs, hl, h1, h2, h3, h4, hsw, hnu, h0,
          he, writeRunes_capture, inlineStyle_eq]
        simp [runeEvent, inlineStyle_eq, i1]
      · simp [emitInline, emitInlineNumUS, emitInlineAutoLink, emitInlineEntity, emitInlineSpaces,
          emitInlineSwitch, emitInlineLink, PM_bind_eq, PM.bind, PM_pure_eq, getP, modifyInline,
          modifyP, i1, i2, i3, i4, i5, i6, i7, i8, hline, hs, hl, h1, h2, h3, h4, hsw, hnu, h0,
          he, writeRunes_capture, inlineStyle_eq]
        simp [runeEvent, inlineStyle_eq, i1]
    · simp [emitInline, emitInlineNumUS, emitInlineAutoLink, emitInlineEntity, emitInlineSpaces,
        emitInlineSwitch, emitInlineLink, PM_bind_eq, PM.bind, PM_pure_eq, getP, modifyInline,
        modifyP, i1, i2, i3, i4, i5, i6, i7, i8, hline, hs, hl, h1, h2, h3, h4, hsw, hnu, h0,
        writeRunes_capture, inlineStyle_eq]
      simp [runeEvent, inlineStyle_eq, i1]

theorem delim_run (d : Nat) (hd : d = 0x2A ∨ d = 0x5F) (n : Nat) (x : PState (List Event))
    (hidle : inlineIdle x.p.inline) (hdig : d = 0x5F → x.p.inline.lastWasDigit = false)
    (hline : x.p.lineDecided = true)
    (hrun : x.p.inline.pendingCount = 0 ∨ x.p.inline.pendingDelim = d) :
    feedInline captureStream (List.replicate (n + 1) d) x =
      (Res.ok (),
        { p := { x.p with immediateSpaces := [],
                          inline := { x.p.inline with
                            pendingDelim := d,
                            pendingCount := x.p.inline.pendingCount + (n + 1) } },
          st := x.st ++ x.p.immediateSpaces.map (runeEvent x.p) }) := by
  induction n generalizing x with
  | zero =>
    rw [List.replicate_one, feedInline_cons _ _ _ _ _
      (emitInline_delim_held x d hd hidle hdig hline hrun)]
    rfl
  | succ n ih =>
    rw [List.replicate_succ, feedInline_cons _ _ _ _ _
      (emitInline_delim_held x d hd hidle hdig hline hrun)]
    rw [ih { p := { x.p with immediateSpaces := [],
                             inline := { x.p.inline with
                               pendingDelim := d,
                               pendingCount := x.p.inline.pendingCount + 1 } },
             st := x.st ++ x.p.immediateSpaces.map (runeEvent x.p) }
      hidle hdig hline (Or.inr rfl)]
    simp [Nat.add_assoc, Nat.add_comm 1]

theorem flushPendingDelims_fields (p : liveParser) :
    p.flushPendingDelims.lineDecided = p.lineDecided ∧
    p.flushPendingDelims.immediateSpaces = p.immediateSpaces ∧
    p.flushPendingDelims.inline.lastWasDigit = p.inline.lastWasDigit ∧
    p.flushPendingDelims.inline.pendingCount = 0 ∧
    (inlineIdle p.inline → inlineIdle p.flushPendingDelims.inline) := by
  rw [flushPendingDelims_shape p]
  exact ⟨rfl, rfl, rfl, rfl, fun h => h⟩

theorem delim_state_eq (p : liveParser) (st : List Event) (d : Nat) (b : Bool)
    (hc : p.inline.pendingCount = 0) :
    ({ p := { p with immediateSpaces := [],
                     inline := { p.inline with lastWasDigit := b, pendingDelim := d,
                                               pendingCount := p.inline.pendingCount + 1 } },
       st := st } : PState (List Event)) =
      { p := { p with immediateSpaces := [],
                      inline := { p.inline with lastWasDigit := b, pendingDelim := d,
                                                pendingCount := 1 } },
        st := st } := by
  rw [hc]

theorem flushPendingDelims_one (p : liveParser) (d : Nat) (b : Bool) :
    ({ p with immediateSpaces := [],
              inline := { p.inline with lastWasDigit := b, pendingDelim := d,
                                        pendingCount := 1 } } :
        liveParser).flushPendingDelims =
      { p with immediateSpaces := [],
               inline := { p.inline with lastWasDigit := b, inEm := !p.inline.inEm,
                                         pendingDelim := 0, pendingCount := 0 } } := by
  simp [liveParser.flushPendingDelims]

theorem flushPendingDelims_run (p : liveParser) (d n : Nat) (hn : 1 ≤ n) :
    ({ p with immediateSpaces := [],
              inline := { p.inline with pendingDelim := d, pendingCount := n } } :
        liveParser).flushPendingDelims =
      { p with immediateSpaces := [],
               inline := { p.inline with
                 inEm := if n = 2 then p.inline.inEm else !p.inline.inEm,
                 inStrong := if n = 1 then p.inline.inStrong else !p.inline.inStrong,
                 pendingDelim := 0, pendingCount := 0 } } := by
  have h0 : n ≠ 0 := by omega
  by_cases h1 : n = 1
  · subst h1
    simp [liveParser.flushPendingDelims]
  · by_cases h2 : n = 2
    · subst h2
      simp [liveParser.flushPendingDelims]
    · have h3 : 2 ≤ n := by omega
      have h4 : 1 ≤ n - 2 := by omega
      simp [liveParser.flushPendingDelims, h0, h1, h2, h3, h4]

theorem feedInline_congr_head {σ : Type} (S : Stream σ) (r : Nat) (rs : List Nat)
    (x y : PState σ) (h : emitInline S r x = emitInline S r y) :
    feedInline S (r :: rs) x = feedInline S (r :: rs) y := by
  simp only [feedInline, PM_bind_eq, PM.bind, h]

theorem emitInline_fresh {σ : Type} (S : Stream σ) (x : PState σ) (r : Nat)
    (hidle : inlineIdle x.p.inline)
    (hrun : x.p.inline.pendingCount = 0 ∨ x.p.inline.pendingDelim ≠ r) :
    emitInline S r x = emitInline S r { x with p := x.p.flushPendingDelims } := by
  rcases hrun with h | h
  · rw [flushPendingDelims_idle x.p h]
  · exact emitInline_flush S x r hidle.2.2.2.1 hidle.2.2.2.2.1 hidle.2.2.2.2.2.1
      (fun e => h e.symm)

theorem finalizeFlushes_idle {σ : Type} (S : Stream σ) (x : PState σ)
    (hidle : inlineIdle x.p.inline) :
    finalizeFlushes S x =
      (Res.ok (), { x with p := { x.p.flushPendingDelims with lineStyled := false } }) := by
  obtain ⟨p, st⟩ := x
  obtain ⟨i1, i2, i3, i4, i5, i6, i7, i8⟩ := hidle
  simp only at i1 i2 i3 i4 i5 i6 i7 i8
  simp [finalizeFlushes, ignoreErr, flushPendingBackticks, flushPendingEntity,
    flushPendingNumUS, PM_bind_eq, PM.bind, PM_pure_eq, getP, modifyP, modifyInline, i5, i6, i7]

theorem feedRuneNewline_idle {σ : Type} (S : Stream σ) (x : PState σ)
    (hidle : inlineIdle x.p.inline) (hline : x.p.lineDecided = true)
    (hb : TrimSpace x.p.lineBytes ≠ []) :
    ∃ z, feedRuneNewline S x = (Res.ok (), z) ∧ z.st = x.st ∧
      z.p.inline = x.p.flushPendingDelims.inline := by
  obtain ⟨p, st⟩ := x
  obtain ⟨i1, i2, i3, i4, i5, i6, i7, i8⟩ := hidle
  simp only at i1 i2 i3 i4 i5 i6 i7 i8 hline hb
  by_cases hc : p.inline.pendingCount = 0 <;> by_cases h2 : p.inline.pendingCount ≥ 2 <;>
    by_cases h3 : p.inline.pendingCount - 2 ≥ 1 <;>
    by_cases h4 : p.inline.pendingCount ≥ 1 <;>
    cases hsk : p.lineSkipBreak <;>
    first
      | omega
      | simp [feedRuneNewline, flushPendingBackticks, flushPendingEntity, flushPendingNumUS,
          PM_bind_eq, PM.bind, PM_pure_eq, getP, modifyP, modifyInline, hline, hb, i5, i6, i7,
          hsk, liveParser.resetLine, liveParser.flushPendingDelims, hc, h2, h3, h4]

/-- C28 (amended): on a decided line, outside code spans, links, autolinks and
entities, a new run of `n` delimiters `d` (`*`, or `_` not after a digit)
writes no token for the delimiters: only the blanks held back before the run
are written, and the run is counted.  A rune `r` other than the delimiter then
ends the run: `emitInline` goes on from the state that `flushPendingDelims`
leaves, in which one delimiter has toggled emphasis only, two have toggled
strong only, three or more have toggled both; on a line without a line style
the inline style is then EmphasisStrong, Strong, Emphasis or Text as the two
flags say, and a text rune that follows is written in that style.  The end of
the line ends the run in the same way: the flushes of `finalize` at the end of
the input leave the state of `flushPendingDelims`, and a newline (on a line
whose bytes are not all blank) writes nothing and leaves its inline state. -/
theorem C28_run_of_delimiters (x : PState (List Event)) (d n r : Nat)
    (hd : d = 0x2A ∨ d = 0x5F) (hn : 1 ≤ n) (hline : x.p.lineDecided = true)
    (hidle : inlineIdle x.p.inline) (hdig : d = 0x5F → x.p.inline.lastWasDigit = false)
    (hrun : x.p.inline.pendingCount = 0 ∨ x.p.inline.pendingDelim ≠ d) (hr : r ≠ d) :
    ∃ y : PState (List Event),
      feedInline captureStream (List.replicate n d) x = (Res.ok (), y) ∧
      y.st = x.st ++ x.p.immediateSpaces.map (runeEvent x.p.flushPendingDelims) ∧
      y.p = { x.p.flushPendingDelims with
                immediateSpaces := [],
                inline := { x.p.flushPendingDelims.inline with
                  pendingDelim := d, pendingCount := n } } ∧
      emitInline captureStream r y =
        emitInline captureStream r { y with p := y.p.flushPendingDelims } ∧
      y.p.flushPendingDelims.inline =
        { x.p.flushPendingDelims.inline with
          inEm := if n = 2 then x.p.flushPendingDelims.inline.inEm
            else !x.p.flushPendingDelims.inline.inEm,
          inStrong := if n = 1 then x.p.flushPendingDelims.inline.inStrong
            else !x.p.flushPendingDelims.inline.inStrong,
          pendingDelim := 0, pendingCount := 0 } ∧
      (x.p.lineStyled = false →
        y.p.flushPendingDelims.inlineStyle =
          (if y.p.flushPendingDelims.inline.inEm = true ∧
              y.p.flushPendingDelims.inline.inStrong = true then x.p.styles.EmphasisStrong
           else if y.p.flushPendingDelims.inline.inStrong = true then x.p.styles.Strong
           else if y.p.flushPendingDelims.inline.inEm = true then x.p.styles.Emphasis
           else x.p.styles.Text, tokenText)) ∧
      (isPlainRune r → ¬ isBlank r →
        ∃ z : PState (List Event),
          emitInline captureStream r y = (Res.ok (), z) ∧
          z.st = y.st ++ [runeEvent y.p.flushPendingDelims r]) ∧
      finalizeFlushes captureStream y =
        (Res.ok (), { y with p := { y.p.flushPendingDelims with lineStyled := false } }) ∧
      (TrimSpace x.p.lineBytes ≠ [] →
        ∃ z : PState (List Event),
          feedRuneNewline captureStream y = (Res.ok (), z) ∧ z.st = y.st ∧
          z.p.inline = y.p.flushPendingDelims.inline) := by
  obtain ⟨f1, f2, f3, f4, f5⟩ := flushPendingDelims_fields x.p
  have hidle0 := f5 hidle
  have hbytes0 : x.p.flushPendingDelims.lineBytes = x.p.lineBytes := by
    rw [flushPendingDelims_shape x.p]
  obtain ⟨m, rfl⟩ : ∃ m, n = m + 1 := ⟨n - 1, by omega⟩
  have hrun0 := delim_run d hd m { x with p := x.p.flushPendingDelims } hidle0
    (fun e => by rw [f3]; exact hdig e) (by rw [f1]; exact hline) (Or.inl f4)
  have hfeed : feedInline captureStream (List.replicate (m + 1) d) x =
      feedInline captureStream (List.replicate (m + 1) d)
        { x with p := x.p.flushPendingDelims } := by
    rw [List.replicate_succ]
    exact feedInline_congr_head _ _ _ _ _ (emitInline_fresh captureStream x d hidle hrun)
  rw [← hfeed] at hrun0
  simp only [f4, f2, Nat.zero_add] at hrun0
  have hflush := emitInline_flush captureStream
    { p := { x.p.flushPendingDelims with
               immediateSpaces := [],
               inline := { x.p.flushPendingDelims.inline with
                 pendingDelim := d, pendingCount := m + 1 } },
      st := x.st ++ x.p.immediateSpaces.map (runeEvent x.p.flushPendingDelims) }
    r hidle0.2.2.2.1 hidle0.2.2.2.2.1 hidle0.2.2.2.2.2.1 hr
  refine ⟨_, hrun0, rfl, rfl, hflush, ?_, ?_, ?_, ?_, ?_⟩
  · rw [flushPendingDelims_run _ d (m + 1) hn]
  · intro hstyled
    obtain ⟨i1, i2, i3, i4, i5, i6, i7, i8⟩ := hidle0
    rw [flushPendingDelims_run _ d (m + 1) hn]
    have hst : x.p.flushPendingDelims.styles = x.p.styles ∧
        x.p.flushPendingDelims.lineStyled = x.p.lineStyled := by
      rw [flushPendingDelims_shape x.p]; exact ⟨rfl, rfl⟩
    by_cases h1 : m + 1 = 1 <;> by_cases h2 : m + 1 = 2 <;>
      cases he : x.p.flushPendingDelims.inline.inEm <;>
      cases hs : x.p.flushPendingDelims.inline.inStrong <;>
      first
        | omega
        | simp [liveParser.inlineStyle, i1, hst.1, hst.2, hstyled, he, hs, h1, h2]
  · intro hp hnb
    rw [hflush, flushPendingDelims_run _ d (m + 1) hn]
    refine ⟨_, emitInline_plain _ r hp hnb hidle0 (by rw [← hline, ← f1]) rfl, ?_⟩
    simp
  · exact finalizeFlushes_idle captureStream _ hidle0
  · intro hb
    exact feedRuneNewline_idle captureStream _ hidle0 (by rw [← hline, ← f1])
      (by rw [← hbytes0] at hb; exact hb)

theorem C28_run_of_delimiters_witness :
    (∃ y : PState (List Event),
      feedInline captureStream (List.replicate 1 0x2A)
          { p := { zeroLiveParser with lineDecided := true, lineBytes := [42] },
            st := [] } = (Res.ok (), y) ∧
      y.st = [] ∧
      y.p.flushPendingDelims.inline = { zeroLiveParser.inline with inEm := true } ∧
      ∃ z : PState (List Event),
        feedRuneNewline captureStream y = (Res.ok (), z) ∧ z.st = [] ∧
        z.p.inline = { zeroLiveParser.inline with inEm := true }) ∧
    (∃ y : PState (List Event),
      feedInline captureStream (List.replicate 2 0x5F)
          { p := { zeroLiveParser with lineDecided := true, immediateSpaces := [32] },
            st := [] } = (Res.ok (), y) ∧
      y.st = [Event.token (textTok [32] ⟨[]⟩)] ∧
      y.p.flushPendingDelims.inline = { zeroLiveParser.inline with inStrong := true }) ∧
    (∃ y : PState (List Event),
      feedInline captureStream (List.replicate 3 0x2A)
          { p := { zeroLiveParser with lineDecided := true }, st := [] } = (Res.ok (), y) ∧
      y.st = [] ∧
      y.p.flushPendingDelims.inline =
        { zeroLiveParser.inline with inEm := true, inStrong := true }) := by
  refine ⟨?_, ?_, ?_⟩
  · obtain ⟨y, h1, h2, _, _, h5, _, _, _, h9⟩ := C28_run_of_delimiters
      { p := { zeroLiveParser with lineDecided := true, lineBytes := [42] }, st := [] }
      0x2A 1 97
      (Or.inl rfl) (by decide) rfl (by simp [inlineIdle, zeroLiveParser]) (by decide)
      (Or.inl rfl) (by decide)
    obtain ⟨z, e1, e2, e3⟩ := h9 (by decide)
    exact ⟨y, h1, h2, h5, z, e1, e2.trans h2, e3.trans h5⟩
  · obtain ⟨y, h1, h2, _, _, h5, _⟩ := C28_run_of_delimiters
      { p := { zeroLiveParser with lineDecided := true, immediateSpaces := [32] }, st := [] }
      0x5F 2 97
      (Or.inr rfl) (by decide) rfl (by simp [inlineIdle, zeroLiveParser]) (fun _ => rfl)
      (Or.inl rfl) (by decide)
    exact ⟨y, h1, h2, h5⟩
  · obtain ⟨y, h1, h2, _, _, h5, _⟩ := C28_run_of_delimiters
      { p := { zeroLiveParser with lineDecided := true }, st := [] } 0x2A 3 97
      (Or.inl rfl) (by decide) rfl (by simp [inlineIdle, zeroLiveParser]) (by decide)
      (Or.inl rfl) (by decide)
    exact ⟨y, h1, h2, h5⟩

/-- C28 (the claim fails): an underscore that follows a digit is not a
delimiter: in the line `2_x` it is written as text and `x` is not emphasised;
and inside a code span a `*` is content of the span: the line made of `x`, a
space, a backtick, `a*b`, a backtick, a space and `y` has the `*` in its Code token. -/
theorem C28_underscore_after_digit :
    parseTokens markedStyles false [[50, 95, 120, 10]] =
      (Res.ok (), [textTok [50] ⟨[]⟩, textTok [95] ⟨[]⟩, textTok [120] ⟨[]⟩]) ∧
    parseTokens markedStyles false [[120, 32, 96, 97, 42, 98, 96, 32, 121, 10]] =
      (Res.ok (), [textTok [120] ⟨[]⟩, textTok [32] ⟨[]⟩,
        textTok [97, 42, 98] ⟨[67]⟩ tokenCode, textTok [32] ⟨[]⟩, textTok [121] ⟨[]⟩]) := by
  decide!

theorem writtenOf_heldAfter (held rs : List Nat) :
    writtenOf held rs ++ heldAfter held rs = held ++ rs := by
  induction rs generalizing held with
  | nil => simp [writtenOf, heldAfter]
  | cons r rest ih =>
    by_cases hb : r = 32 ∨ r = 9
    · simp only [writtenOf, heldAfter, hb, if_true, ih]
      simp
    · simp only [writtenOf, heldAfter, hb, if_false]
      have := ih []
      simp only [List.nil_append] at this
      simp [this]

theorem feed_plain (rs : List Nat) (x : PState (List Event))
    (hrs : ∀ r ∈ rs, isPlainRune r) (hidle : inlineIdle x.p.inline)
    (hline : x.p.lineDecided = true) (hc : x.p.inline.pendingCount = 0) :
    feedInline captureStream rs x =
      (Res.ok (),
        { p := { x.p with immediateSpaces := heldAfter x.p.immediateSpaces rs,
                          inline := { x.p.inline with
                            lastWasDigit := lastDigit x.p.inline.lastWasDigit rs } },
          st := x.st ++ (writtenOf x.p.immediateSpaces rs).map (runeEvent x.p) }) := by
  induction rs generalizing x with
  | nil => simp [feedInline, PM_pure_eq, heldAfter, lastDigit, writtenOf]
  | cons r rest ih =>
    have hrest : ∀ q ∈ rest, isPlainRune q := fun q hq => hrs q (List.mem_cons_of_mem _ hq)
    by_cases hb : r = 32 ∨ r = 9
    · rw [feedInline_cons _ _ _ _ _ (emitInline_blank x r hb hidle hline hc)]
      rw [ih { x with p := { x.p with immediateSpaces := x.p.immediateSpaces ++ [r] } } hrest
        hidle hline hc]
      simp only [heldAfter, lastDigit, writtenOf, hb, if_true]
      rfl
    · rw [feedInline_cons _ _ _ _ _
        (emitInline_plain x r (hrs r (List.mem_cons_self _ _)) hb hidle hline hc)]
      rw [ih { p := { x.p with immediateSpaces := [],
                               inline := { x.p.inline with
                                 lastWasDigit := decide (0x30 ≤ r) && decide (r ≤ 0x39) } },
               st := x.st ++ x.p.immediateSpaces.map (runeEvent x.p) ++ [runeEvent x.p r] }
        hrest hidle hline hc]
      simp only [heldAfter, lastDigit, writtenOf, hb, if_false]
      simp
      intro a _
      rfl

theorem runeTokenText_not_mem (r d : Nat) (hne : r ≠ d) (hd : d < 128) :
    d ∉ runeTokenText r := by
  unfold runeTokenText asciiRuneStrings EncodeRune
  split_ifs <;> simp <;> omega

/-- C25 (amended): a stray delimiter is not written and toggles emphasis.  On
a decided line, outside spans and with no run pending, let the text `a`, one
`*` or `_` (for `_`: the last rune written before it is not a digit) and the
text `b` be fed, `a` and `b` holding none of the backtick, `&`, `_`, `*`, `[`,
`<`.  Then the tokens written are one for every rune of the blanks held back
and of `a`, in the style before, and one for every rune of `b` up to its last
rune that is not blank, in the style with emphasis toggled; the blanks at the
end of `b` are held back; no token is written for the delimiter, and no text
of these tokens holds it.  In the state reached, once `flushPendingDelims` is
applied, the emphasis flag is the opposite of the one at the start and the
strong flag is the same. -/
theorem C25_stray_delimiter_toggles (x : PState (List Event)) (a b : List Nat) (d : Nat)
    (hd : d = 0x2A ∨ d = 0x5F) (ha : ∀ r ∈ a, isPlainRune r) (hb : ∀ r ∈ b, isPlainRune r)
    (hline : x.p.lineDecided = true) (hidle : inlineIdle x.p.inline)
    (hc : x.p.inline.pendingCount = 0)
    (hdig : d = 0x5F → lastDigit x.p.inline.lastWasDigit a = false) :
    ∃ y : PState (List Event),
      feedInline captureStream (a ++ d :: b) x = (Res.ok (), y) ∧
      y.st = x.st ++ (x.p.immediateSpaces ++ a).map (runeEvent x.p) ++
        (writtenOf [] b).map (runeEvent (toggleEm x.p)) ∧
      y.p.immediateSpaces = heldAfter [] b ∧
      writtenOf [] b ++ heldAfter [] b = b ∧
      y.p.flushPendingDelims.inline.inEm = (!x.p.inline.inEm) ∧
      y.p.flushPendingDelims.inline.inStrong = x.p.inline.inStrong ∧
      (∀ r ∈ a ++ b, d ∉ runeTokenText r) := by
  have hsp := writtenOf_heldAfter [] b
  simp only [List.nil_append] at hsp
  have hnot : ∀ r ∈ a ++ b, d ∉ runeTokenText r := by
    intro r hr
    have hp : isPlainRune r := by
      rcases List.mem_append.mp hr with h | h
      · exact ha r h
      · exact hb r h
    obtain ⟨_, _, h3, h4, _, _⟩ := hp
    apply runeTokenText_not_mem
    · rcases hd with rfl | rfl
      · exact h4
      · exact h3
    · rcases hd with rfl | rfl <;> decide
  have h1 := feed_plain a x ha hidle hline hc
  have h2 := emitInline_delim_held
    { p := { x.p with immediateSpaces := heldAfter x.p.immediateSpaces a,
                      inline := { x.p.inline with
                        lastWasDigit := lastDigit x.p.inline.lastWasDigit a } },
      st := x.st ++ (writtenOf x.p.immediateSpaces a).map (runeEvent x.p) }
    d hd hidle hdig hline (Or.inl hc)
  rw [feedInline_append _ _ _ _ _ h1, feedInline_cons _ _ _ _ _ h2]
  have hst : x.st ++ (writtenOf x.p.immediateSpaces a).map (runeEvent x.p) ++
      (heldAfter x.p.immediateSpaces a).map (runeEvent x.p) =
      x.st ++ (x.p.immediateSpaces ++ a).map (runeEvent x.p) := by
    rw [List.append_assoc, ← List.map_append, writtenOf_heldAfter]
  cases b with
  | nil =>
    refine ⟨_, rfl, ?_, rfl, hsp, ?_, ?_, hnot⟩
    · simp only [writtenOf, List.map_nil, List.append_nil]
      exact hst
    · simp [liveParser.flushPendingDelims, hc]
    · simp [liveParser.flushPendingDelims, hc]
  | cons r rest =>
    have hrd : r ≠ d := by
      obtain ⟨_, _, h3, h4, _, _⟩ := hb r (List.mem_cons_self _ _)
      rcases hd with rfl | rfl
      · exact h4
      · exact h3
    have h3 := emitInline_flush captureStream
      { p := { x.p with immediateSpaces := [],
                        inline := { x.p.inline with
                          lastWasDigit := lastDigit x.p.inline.lastWasDigit a,
                          pendingDelim := d,
                          pendingCount := 1 } },
        st := x.st ++ (writtenOf x.p.immediateSpaces a).map (runeEvent x.p) ++
          (heldAfter x.p.immediateSpaces a).map (runeEvent x.p) }
      r hidle.2.2.2.1 hidle.2.2.2.2.1 hidle.2.2.2.2.2.1 hrd
    have h4 := feed_plain (r :: rest)
      { p := { x.p with immediateSpaces := [],
                        inline := { x.p.inline with
                          lastWasDigit := lastDigit x.p.inline.lastWasDigit a,
                          inEm := !x.p.inline.inEm,
                          pendingDelim := 0, pendingCount := 0 } },
        st := x.st ++ (writtenOf x.p.immediateSpaces a).map (runeEvent x.p) ++
          (heldAfter x.p.immediateSpaces a).map (runeEvent x.p) }
      hb hidle hline rfl
    have hfeed := feedInline_congr_head captureStream r rest _ _ h3
    rw [flushPendingDelims_one] at hfeed
    have hall := hfeed.trans h4
    have hxd := delim_state_eq x.p
      (x.st ++ (writtenOf x.p.immediateSpaces a).map (runeEvent x.p) ++
        (heldAfter x.p.immediateSpaces a).map (runeEvent x.p))
      d (lastDigit x.p.inline.lastWasDigit a) hc
    refine ⟨_, (congrArg (fun s => feedInline captureStream (r :: rest) s) hxd).trans hall, ?_,
      rfl, hsp,
      ?_, ?_, hnot⟩
    · show x.st ++ (writtenOf x.p.immediateSpaces a).map (runeEvent x.p) ++
          (heldAfter x.p.immediateSpaces a).map (runeEvent x.p) ++
          (writtenOf [] (r :: rest)).map (runeEvent (toggleEm x.p)) = _
      rw [hst]
    · simp [liveParser.flushPendingDelims]
    · simp [liveParser.flushPendingDelims]

theorem C25_stray_delimiter_toggles_witness :
    ∃ y : PState (List Event),
      feedInline captureStream ([97, 32] ++ 0x2A :: [32, 98])
          { p := { zeroLiveParser with lineDecided := true, styles := markedStyles },
            st := [] } = (Res.ok (), y) ∧
      y.st = [Event.token (textTok [97] ⟨[]⟩), Event.token (textTok [32] ⟨[]⟩),
              Event.token (textTok [32] ⟨[69]⟩), Event.token (textTok [98] ⟨[69]⟩)] ∧
      y.p.immediateSpaces = [] ∧
      y.p.flushPendingDelims.inline.inEm = true := by
  obtain ⟨y, h1, h2, h3, _, h5, _⟩ := C25_stray_delimiter_toggles
    { p := { zeroLiveParser with lineDecided := true, styles := markedStyles }, st := [] }
    [97, 32] [32, 98] 0x2A (Or.inl rfl)
    (by unfold isPlainRune; decide) (by unfold isPlainRune; decide) rfl
    (by simp [inlineIdle, zeroLiveParser]) rfl (by decide)
  exact ⟨y, h1, h2.trans (by decide), h3.trans (by decide), h5⟩

theorem emitInline_tick (x : PState (List Event)) (hf : spanFree x.p.inline)
    (hline : x.p.lineDecided = true) (hc : x.p.inline.pendingCount = 0) :
    emitInline captureStream 0x60 x =
      (Res.ok (),
        { p := { x.p with immediateSpaces := [],
                          inline := { x.p.inline with
                            pendingBackticks := x.p.inline.pendingBackticks + 1 } },
          st := x.st ++ x.p.immediateSpaces.map (runeEvent x.p) }) := by
  obtain ⟨p, st⟩ := x
  obtain ⟨i2, i3, i4, i5, i6, i8⟩ := hf
  simp only at i2 i3 i4 i5 i6 i8 hline hc
  by_cases hs : p.immediateSpaces = []
  · simp [emitInline, emitInlineNumUS, emitInlineAutoLink, emitInlineEntity, emitInlineSpaces,
      PM_bind_eq, PM.bind, PM_pure_eq, getP, modifyInline, modifyP, i2, i3, i4, i5, i6, i8,
      hline, hc, hs]
  · have hl : 0 < p.immediateSpaces.length := List.length_pos.mpr hs
    simp [emitInline, emitInlineNumUS, emitInlineAutoLink, emitInlineEntity, emitInlineSpaces,
      PM_bind_eq, PM.bind, PM_pure_eq, getP, modifyInline, modifyP, i2, i3, i4, i5, i6, i8,
      hline, hc, hs, hl, writeRunes_capture, inlineStyle_eq]
    simp [runeEvent, inlineStyle_eq]

theorem emitInline_open (x : PState (List Event)) (r : Nat) (hr : r ≠ 0x60)
    (hf : spanFree x.p.inline) (hline : x.p.lineDecided = true)
    (hc : x.p.inline.pendingCount = 0) (hcode : x.p.inline.inCode = false)
    (hk : 0 < x.p.inline.pendingBackticks) (hs : x.p.immediateSpaces = []) :
    emitInline captureStream r x =
      (Res.ok (),
        { x with p := { x.p with inline := { x.p.inline with
            inCode := true, codeFence := x.p.inline.pendingBackticks, codeBuf := EncodeRune r,
            pendingBackticks := 0, lastWasDigit := false } } }) := by
  obtain ⟨p, st⟩ := x
  obtain ⟨i2, i3, i4, i5, i6, i8⟩ := hf
  simp only at i2 i3 i4 i5 i6 i8 hline hc hcode hk hs
  have hk0 : p.inline.pendingBackticks ≠ 0 := by omega
  simp [emitInline, emitInlineNumUS, emitInlineAutoLink, emitInlineEntity, emitInlineSpaces,
    emitInlineBackticks, PM_bind_eq, PM.bind, PM_pure_eq, getP, modifyInline, modifyP, i2, i3,
    i4, i5, i6, i8, hline, hc, hs, hcode, hk, hk0, hr]

theorem emitInline_code (x : PState (List Event)) (r : Nat) (hr : r ≠ 0x60)
    (hf : spanFree x.p.inline) (hline : x.p.lineDecided = true)
    (hc : x.p.inline.pendingCount = 0) (hcode : x.p.inline.inCode = true)
    (hk : x.p.inline.pendingBackticks ≠ x.p.inline.codeFence)
    (hs : x.p.immediateSpaces = []) :
    emitInline captureStream r x =
      (Res.ok (),
        { x with p := { x.p with inline := { x.p.inline with
            codeBuf := x.p.inline.codeBuf ++
              List.replicate x.p.inline.pendingBackticks 0x60 ++ EncodeRune r,
            pendingBackticks := 0, lastWasDigit := false } } }) := by
  obtain ⟨p, st⟩ := x
  obtain ⟨i2, i3, i4, i5, i6, i8⟩ := hf
  simp only at i2 i3 i4 i5 i6 i8 hline hc hcode hk hs
  by_cases hk0 : p.inline.pendingBackticks = 0
  · simp [emitInline, emitInlineNumUS, emitInlineAutoLink, emitInlineEntity, emitInlineSpaces,
      emitInlineBackticks, PM_bind_eq, PM.bind, PM_pure_eq, getP, modifyInline, modifyP, i2, i3,
      i4, i5, i6, i8, hline, hc, hs, hcode, hk0, hr]
  · have hpos : 0 < p.inline.pendingBackticks := Nat.pos_of_ne_zero hk0
    simp [emitInline, emitInlineNumUS, emitInlineAutoLink, emitInlineEntity, emitInlineSpaces,
      emitInlineBackticks, PM_bind_eq, PM.bind, PM_pure_eq, getP, modifyInline, modifyP, i2, i3,
      i4, i5, i6, i8, hline, hc, hs, hcode, hk, hk0, hpos, hr]

theorem emitInlineBackticks_close (x : PState (List Event))
    (hc : x.p.inline.pendingCount = 0) (hcode : x.p.inline.inCode = true) :
    emitInlineBackticks captureStream x.p.inline.codeFence x =
      (Res.ok (),
        { p := { x.p with inline := { x.p.inline with
            inCode := false, codeFence := 0, codeBuf := [] } },
          st := x.st ++ codeSpanEvents x.p x.p.inline.codeBuf }) := by
  rw [(emitInlineBackticks_span captureStream x x.p.inline.codeFence 0 x.p.inline.codeBuf
    hc).2.1 hcode rfl rfl]
  unfold codeSpanEvents
  split_ifs
  · simp [writeToken, captureStream]
  · simp

theorem flushPendingBackticks_close (x : PState (List Event))
    (hc : x.p.inline.pendingCount = 0) (hcode : x.p.inline.inCode = true)
    (hk : x.p.inline.pendingBackticks = x.p.inline.codeFence)
    (hn : 0 < x.p.inline.codeFence) :
    flushPendingBackticks captureStream x =
      (Res.ok (),
        { p := { x.p with inline := { x.p.inline with
            inCode := false, codeFence := 0, codeBuf := [], pendingBackticks := 0 } },
          st := x.st ++ codeSpanEvents x.p x.p.inline.codeBuf }) := by
  have hk0 : x.p.inline.pendingBackticks ≠ 0 := by omega
  have h := emitInlineBackticks_close x hc hcode
  obtain ⟨p, st⟩ := x
  simp only at hc hcode hk hn hk0 h
  have hn0 : p.inline.codeFence ≠ 0 := by omega
  simp only [flushPendingBackticks, PM_bind_eq, PM.bind, PM_pure_eq, getP, hn0, if_false, hk, h,
    modifyInline, modifyP]

theorem finalizeFlushes_close (x : PState (List Event)) (hf : spanFree x.p.inline)
    (hc : x.p.inline.pendingCount = 0) (hcode : x.p.inline.inCode = true)
    (hk : x.p.inline.pendingBackticks = x.p.inline.codeFence)
    (hn : 0 < x.p.inline.codeFence) :
    ∃ z, finalizeFlushes captureStream x = (Res.ok (), z) ∧
      z.st = x.st ++ codeSpanEvents x.p x.p.inline.codeBuf ∧ z.p.inline.inCode = false := by
  have h := flushPendingBackticks_close x hc hcode hk hn
  obtain ⟨p, st⟩ := x
  obtain ⟨i2, i3, i4, i5, i6, i8⟩ := hf
  simp only at i2 i3 i4 i5 i6 i8 hc hcode hk hn h
  simp [finalizeFlushes, ignoreErr, h, flushPendingEntity, flushPendingNumUS, PM_bind_eq,
    PM.bind, PM_pure_eq, getP, modifyP, modifyInline, i5, i6, liveParser.flushPendingDelims, hc]

theorem feedRuneNewline_close (x : PState (List Event)) (hf : spanFree x.p.inline)
    (hline : x.p.lineDecided = true) (hb : TrimSpace x.p.lineBytes ≠ [])
    (hc : x.p.inline.pendingCount = 0) (hcode : x.p.inline.inCode = true)
    (hk : x.p.inline.pendingBackticks = x.p.inline.codeFence)
    (hn : 0 < x.p.inline.codeFence) :
    ∃ z, feedRuneNewline captureStream x = (Res.ok (), z) ∧
      z.st = x.st ++ codeSpanEvents x.p x.p.inline.codeBuf ∧ z.p.inline.inCode = false := by
  have h : flushPendingBackticks captureStream
      { x with p := { x.p with hardBreakPending := hasHardLineBreak x.p.lineBytes,
                               immediateSpaces := [] } } =
      (Res.ok (),
        { p := { x.p with
                   hardBreakPending := hasHardLineBreak x.p.lineBytes, immediateSpaces := [],
                   inline := { x.p.inline with
                     inCode := false, codeFence := 0, codeBuf := [], pendingBackticks := 0 } },
          st := x.st ++ codeSpanEvents x.p x.p.inline.codeBuf }) :=
    flushPendingBackticks_close
      { x with p := { x.p with hardBreakPending := hasHardLineBreak x.p.lineBytes,
                               immediateSpaces := [] } } hc hcode hk hn
  obtain ⟨p, st⟩ := x
  obtain ⟨i2, i3, i4, i5, i6, i8⟩ := hf
  simp only at i2 i3 i4 i5 i6 i8 hc hcode hk hn h hline hb
  cases hsk : p.lineSkipBreak <;>
  · simp only [hline, hsk] at h
    simp [feedRuneNewline, h, flushPendingEntity, flushPendingNumUS, PM_bind_eq,
      PM.bind, PM_pure_eq, getP, modifyP, modifyInline, i5, i6, liveParser.flushPendingDelims,
      hc, hline, hb, hsk, liveParser.resetLine]

theorem emitInline_close (x : PState (List Event)) (r : Nat) (hr : r ≠ 0x60)
    (hf : spanFree x.p.inline) (hline : x.p.lineDecided = true)
    (hc : x.p.inline.pendingCount = 0) (hcode : x.p.inline.inCode = true)
    (hk : x.p.inline.pendingBackticks = x.p.inline.codeFence)
    (hn : 0 < x.p.inline.codeFence) (hs : x.p.immediateSpaces = []) :
    ∃ (z : PState (List Event)) (tail : List Event),
      emitInline captureStream r x = (Res.ok (), z) ∧
      z.st = x.st ++ codeSpanEvents x.p x.p.inline.codeBuf ++ tail ∧
      (tail = [] ∨ tail = [runeEvent { x.p with inline := { x.p.inline with
          inCode := false, codeFence := 0, codeBuf := [], pendingBackticks := 0 } } r]) ∧
      z.p.inline.inCode = false := by
  have h := emitInlineBackticks_close x hc hcode
  obtain ⟨p, st⟩ := x
  obtain ⟨i2, i3, i4, i5, i6, i8⟩ := hf
  simp only at i2 i3 i4 i5 i6 i8 hline hc hcode hk hn hs h
  have hn0 : p.inline.codeFence ≠ 0 := by omega
  rcases hres : emitInline captureStream r { p := p, st := st } with ⟨res, z⟩
  simp only []
  by_cases h1 : r = 0x26
  · simp [emitInline, emitInlineNumUS, emitInlineAutoLink, emitInlineEntity, emitInlineSpaces,
      emitInlineSwitch, emitInlineLink, PM_bind_eq, PM.bind, PM_pure_eq, getP, modifyInline,
      modifyP, i2, i3, i4, i5, i6, i8, hline, hc, hs, hcode, hk, hn, hn0, hr, h, h1] at hres
    obtain ⟨rfl, rfl⟩ := hres
    exact ⟨_, [], rfl, by simp, Or.inl rfl, rfl⟩
  by_cases h2 : r = 0x5F ∧ p.inline.lastWasDigit = true
  · simp [emitInline, emitInlineNumUS, emitInlineAutoLink, emitInlineEntity, emitInlineSpaces,
      emitInlineSwitch, emitInlineLink, PM_bind_eq, PM.bind, PM_pure_eq, getP, modifyInline,
      modifyP, i2, i3, i4, i5, i6, i8, hline, hc, hs, hcode, hk, hn, hn0, hr, h, h1, h2] at hres
    obtain ⟨rfl, rfl⟩ := hres
    exact ⟨_, [], rfl, by simp, Or.inl rfl, rfl⟩
  by_cases h3 : r = 0x2A ∨ r = 0x5F
  · by_cases he : p.inline.pendingDelim = r
    · simp [emitInline, emitInlineNumUS, emitInlineAutoLink, emitInlineEntity, emitInlineSpaces,
        emitInlineSwitch, emitInlineLink, PM_bind_eq, PM.bind, PM_pure_eq, getP, modifyInline,
        modifyP, i2, i3, i4, i5, i6, i8, hline, hc, hs, hcode, hk, hn, hn0, hr, h, h1, h2, h3,
        he] at hres
      obtain ⟨rfl, rfl⟩ := hres
      exact ⟨_, [], rfl, by simp, Or.inl rfl, rfl⟩
    · simp [emitInline, emitInlineNumUS, emitInlineAutoLink, emitInlineEntity, emitInlineSpaces,
        emitInlineSwitch, emitInlineLink, PM_bind_eq, PM.bind, PM_pure_eq, getP, modifyInline,
        modifyP, i2, i3, i4, i5, i6, i8, hline, hc, hs, hcode, hk, hn, hn0, hr, h, h1, h2, h3,
        he] at hres
      obtain ⟨rfl, rfl⟩ := hres
      exact ⟨_, [], rfl, by simp, Or.inl rfl, rfl⟩
  by_cases h4 : r = 0x5B
  · simp [emitInline, emitInlineNumUS, emitInlineAutoLink, emitInlineEntity, emitInlineSpaces,
      emitInlineSwitch, emitInlineLink, PM_bind_eq, PM.bind, PM_pure_eq, getP, modifyInline,
      modifyP, i2, i3, i4, i5, i6, i8, hline, hc, hs, hcode, hk, hn, hn0, hr, h, h1, h2, h3, h4] at hres
    obtain ⟨rfl, rfl⟩ := hres
    exact ⟨_, [], rfl, by simp, Or.inl rfl, rfl⟩
  by_cases h5 : r = 0x3C
  · simp [emitInline, emitInlineNumUS, emitInlineAutoLink, emitInlineEntity, emitInlineSpaces,
      emitInlineSwitch, emitInlineLink, PM_bind_eq, PM.bind, PM_pure_eq, getP, modifyInline,
      modifyP, i2, i3, i4, i5, i6, i8, hline, hc, hs, hcode, hk, hn, hn0, hr, h, h1, h2, h3, h4,
      h5] at hres
    obtain ⟨rfl, rfl⟩ := hres
    exact ⟨_, [], rfl, by simp, Or.inl rfl, rfl⟩
  · simp [emitInline, emitInlineNumUS, emitInlineAutoLink, emitInlineEntity, emitInlineSpaces,
      emitInlineSwitch, emitInlineLink, PM_bind_eq, PM.bind, PM_pure_eq, getP, modifyInline,
      modifyP, i2, i3, i4, i5, i6, i8, hline, hc, hs, hcode, hk, hn, hn0, hr, h, h1, h2, h3, h4,
      h5] at hres
    simp [writeToken, captureStream] at hres
    obtain ⟨rfl, rfl⟩ := hres
    exact ⟨_, [_], rfl, by simp [runeEvent, inlineStyle_eq], Or.inr rfl, rfl⟩

theorem tick_run (n : Nat) (x : PState (List Event)) (hf : spanFree x.p.inline)
    (hline : x.p.lineDecided = true) (hc : x.p.inline.pendingCount = 0) :
    feedInline captureStream (List.replicate (n + 1) 0x60) x =
      (Res.ok (),
        { p := { x.p with immediateSpaces := [],
                          inline := { x.p.inline with
                            pendingBackticks := x.p.inline.pendingBackticks + (n + 1) } },
          st := x.st ++ x.p.immediateSpaces.map (runeEvent x.p) }) := by
  induction n generalizing x with
  | zero =>
    rw [List.replicate_one, feedInline_cons _ _ _ _ _ (emitInline_tick x hf hline hc)]
    rfl
  | succ n ih =>
    rw [List.replicate_succ, feedInline_cons _ _ _ _ _ (emitInline_tick x hf hline hc)]
    rw [ih { p := { x.p with immediateSpaces := [],
                             inline := { x.p.inline with
                               pendingBackticks := x.p.inline.pendingBackticks + 1 } },
             st := x.st ++ x.p.immediateSpaces.map (runeEvent x.p) }
      hf hline hc]
    simp [Nat.add_assoc, Nat.add_comm 1]

theorem code_run (n : Nat) (c : List Nat) (B : List Nat) (k : Nat) (x : PState (List Event))
    (hx : inSpan n B k x) (hok : runsOK n k c = true) :
    ∃ y : PState (List Event),
      feedInline captureStream c x = (Res.ok (), y) ∧
      inSpan n (B ++ List.replicate k 0x60 ++ stringOfRunes c) 0 y ∧ y.st = x.st ∧
      y.p.styles = x.p.styles ∧ y.p.lineBytes = x.p.lineBytes := by
  induction c generalizing B k x with
  | nil =>
    have hk : k = 0 := by simpa [runsOK] using hok
    subst hk
    refine ⟨x, rfl, ?_, rfl, rfl, rfl⟩
    simpa [stringOfRunes] using hx
  | cons r rest ih =>
    obtain ⟨hf, hline, hc, hcode, hs, hfence, hbuf, hpend⟩ := hx
    by_cases hr : r = 0x60
    · subst hr
      have hok2 : runsOK n (k + 1) rest = true := by simpa [runsOK] using hok
      have hstep := emitInline_tick x hf hline hc
      obtain ⟨y, hy, hin, hst, hsty⟩ := ih B (k + 1)
        { p := { x.p with immediateSpaces := [],
                          inline := { x.p.inline with
                            pendingBackticks := x.p.inline.pendingBackticks + 1 } },
          st := x.st ++ x.p.immediateSpaces.map (runeEvent x.p) }
        ⟨hf, hline, hc, hcode, rfl, hfence, hbuf, by simp [hpend]⟩ hok2
      refine ⟨y, ?_, ?_, ?_, hsty⟩
      · rw [feedInline_cons _ _ _ _ _ hstep]; exact hy
      · have e : B ++ List.replicate k 0x60 ++ stringOfRunes (0x60 :: rest) =
            B ++ List.replicate (k + 1) 0x60 ++ stringOfRunes rest := by
          simp [stringOfRunes, EncodeRune, List.replicate_succ', List.append_assoc]
        rw [e]; exact hin
      · rw [hst]; simp [hs]
    · have hok2 : k ≠ n ∧ runsOK n 0 rest = true := by simpa [runsOK, hr] using hok
      have hstep := emitInline_code x r hr hf hline hc hcode
        (by rw [hpend, hfence]; exact hok2.1) hs
      obtain ⟨y, hy, hin, hst, hsty⟩ := ih
        (B ++ List.replicate k 0x60 ++ EncodeRune r) 0
        { x with p := { x.p with inline := { x.p.inline with
            codeBuf := x.p.inline.codeBuf ++
              List.replicate x.p.inline.pendingBackticks 0x60 ++ EncodeRune r,
            pendingBackticks := 0, lastWasDigit := false } } }
        ⟨hf, hline, hc, hcode, hs, hfence, by simp [hbuf, hpend], rfl⟩ hok2.2
      refine ⟨y, ?_, ?_, hst, hsty⟩
      · rw [feedInline_cons _ _ _ _ _ hstep]; exact hy
      · have e : B ++ List.replicate k 0x60 ++ stringOfRunes (r :: rest) =
            B ++ List.replicate k 0x60 ++ EncodeRune r ++ List.replicate 0 0x60 ++
              stringOfRunes rest := by
          simp [stringOfRunes, List.append_assoc]
        rw [e]; exact hin

theorem codeSpanEvents_styles (p q : liveParser) (c : List Nat) (h : q.styles = p.styles) :
    codeSpanEvents q c = codeSpanEvents p c := by
  unfold codeSpanEvents
  rw [h]

theorem open_run (m : Nat) (x : PState (List Event)) (hidle : inlineIdle x.p.inline)
    (hline : x.p.lineDecided = true) (hc : x.p.inline.pendingCount = 0) :
    ∃ x1 : PState (List Event),
      feedInline captureStream (List.replicate (m + 1) 0x60) x = (Res.ok (), x1) ∧
      x1.st = x.st ++ x.p.immediateSpaces.map (runeEvent x.p) ∧
      spanFree x1.p.inline ∧ x1.p.lineDecided = true ∧ x1.p.inline.pendingCount = 0 ∧
      x1.p.inline.inCode = false ∧ x1.p.inline.pendingBackticks = m + 1 ∧
      x1.p.immediateSpaces = [] ∧ x1.p.styles = x.p.styles ∧
      x1.p.lineBytes = x.p.lineBytes :=
  ⟨_, tick_run m x (inlineIdle_spanFree hidle) hline hc, rfl,
    (inlineIdle_spanFree hidle : spanFree x.p.inline), hline, hc, hidle.1,
    by simp [hidle.2.2.2.2.2.2.1], rfl, rfl, rfl⟩

theorem open_span (k r : Nat) (x : PState (List Event)) (hr : r ≠ 0x60)
    (hf : spanFree x.p.inline) (hline : x.p.lineDecided = true)
    (hc : x.p.inline.pendingCount = 0) (hcode : x.p.inline.inCode = false)
    (hk : x.p.inline.pendingBackticks = k + 1) (hs : x.p.immediateSpaces = []) :
    ∃ x2 : PState (List Event),
      emitInline captureStream r x = (Res.ok (), x2) ∧
      inSpan (k + 1) (EncodeRune r) 0 x2 ∧ x2.st = x.st ∧ x2.p.styles = x.p.styles ∧
      x2.p.lineBytes = x.p.lineBytes :=
  ⟨_, emitInline_open x r hr hf hline hc hcode (by omega) hs,
    ⟨hf, hline, hc, rfl, hs, hk, rfl, rfl⟩, rfl, rfl, rfl⟩

theorem close_run (n m : Nat) (B : List Nat) (x : PState (List Event))
    (hx : inSpan n B 0 x) :
    ∃ y : PState (List Event),
      feedInline captureStream (List.replicate (m + 1) 0x60) x = (Res.ok (), y) ∧
      inSpan n B (m + 1) y ∧ y.st = x.st ∧ y.p.styles = x.p.styles ∧
      y.p.lineBytes = x.p.lineBytes := by
  obtain ⟨hf, hline, hc, hcode, hs, hfence, hbuf, hpend⟩ := hx
  refine ⟨_, tick_run m x hf hline hc, ⟨hf, hline, hc, hcode, rfl, hfence, hbuf, ?_⟩, ?_, rfl,
    rfl⟩
  · simp [hpend]
  · simp [hs]

theorem inlineStyle_text (p : liveParser) (h : p.inline.inCode = false) :
    p.inlineStyle.2 = tokenText := by
  unfold liveParser.inlineStyle
  simp only [h, Bool.false_eq_true, if_false]
  split_ifs <;> rfl

/-- C27 (amended): on a decided line, outside spans (a pending run of `*` or
`_` is ended first), let `n ≥ 1` backticks, a content `c`, and `n` backticks
again be fed, where `c` starts with a rune that is not a backtick, holds no run
of exactly `n` backticks and does not end in a backtick (runs of another length
are part of the content).  Up to there only the blanks held back before the
span are written, and the parser is inside a span with fence `n` whose content
is the UTF-8 text of `c`, with `n` backticks pending.  Then the end of the line
(`flushPendingBackticks`, the flushes of `finalize` at the end of the input,
and a newline on a line whose bytes are not all blank) and every rune `r` that
is not a backtick close the span and write the text of `c`, with one space
removed from each end when it has at least two bytes and starts and ends with
a space, as one token of kind Code with `code_block = false` and the
inline-code style, or no token at all when that text is empty; the rune `r`
itself adds at most one token, of kind Text. -/
theorem C27_code_span_input (x : PState (List Event)) (n r1 : Nat) (rest : List Nat)
    (hn : 1 ≤ n) (hline : x.p.lineDecided = true) (hidle : inlineIdle x.p.inline)
    (hrun : x.p.inline.pendingCount = 0 ∨ x.p.inline.pendingDelim ≠ 0x60)
    (hr1 : r1 ≠ 0x60) (hok : runsOK n 0 rest = true) :
    ∃ y : PState (List Event),
      feedInline captureStream
        (List.replicate n 0x60 ++ (r1 :: rest) ++ List.replicate n 0x60) x = (Res.ok (), y) ∧
      y.st = x.st ++ x.p.immediateSpaces.map (runeEvent x.p.flushPendingDelims) ∧
      inSpan n (stringOfRunes (r1 :: rest)) n y ∧
      (∃ z : PState (List Event),
        flushPendingBackticks captureStream y = (Res.ok (), z) ∧
        z.st = y.st ++ codeSpanEvents x.p (stringOfRunes (r1 :: rest)) ∧
        z.p.inline.inCode = false) ∧
      (∃ z : PState (List Event),
        finalizeFlushes captureStream y = (Res.ok (), z) ∧
        z.st = y.st ++ codeSpanEvents x.p (stringOfRunes (r1 :: rest)) ∧
        z.p.inline.inCode = false) ∧
      (TrimSpace x.p.lineBytes ≠ [] →
        ∃ z : PState (List Event),
          feedRuneNewline captureStream y = (Res.ok (), z) ∧
          z.st = y.st ++ codeSpanEvents x.p (stringOfRunes (r1 :: rest)) ∧
          z.p.inline.inCode = false) ∧
      (∀ r, r ≠ 0x60 →
        ∃ (z : PState (List Event)) (tail : List Event),
          emitInline captureStream r y = (Res.ok (), z) ∧
          z.st = y.st ++ codeSpanEvents x.p (stringOfRunes (r1 :: rest)) ++ tail ∧
          (tail = [] ∨
            ∃ style, tail = [Event.token (textTok (runeTokenText r) style tokenText)]) ∧
          z.p.inline.inCode = false) := by
  obtain ⟨f1, f2, f3, f4, f5⟩ := flushPendingDelims_fields x.p
  have hidle0 := f5 hidle
  have hsty0 : x.p.flushPendingDelims.styles = x.p.styles := by
    rw [flushPendingDelims_shape x.p]
  obtain ⟨m, rfl⟩ : ∃ m, n = m + 1 := ⟨n - 1, by omega⟩
  -- the opening run
  obtain ⟨x1, h1, s1, a1, a2, a3, a4, a5, a6, a7, b7⟩ :=
    open_run m { x with p := x.p.flushPendingDelims } hidle0 (by rw [f1]; exact hline) f4
  have hfeed : feedInline captureStream (List.replicate (m + 1) 0x60) x =
      feedInline captureStream (List.replicate (m + 1) 0x60)
        { x with p := x.p.flushPendingDelims } := by
    rw [List.replicate_succ]
    exact feedInline_congr_head _ _ _ _ _ (emitInline_fresh captureStream x 0x60 hidle hrun)
  rw [← hfeed] at h1
  -- the first rune of the content opens the span, the rest is its content
  obtain ⟨x2, h2, in2, s2, t2, u2⟩ := open_span m r1 x1 hr1 a1 a2 a3 a4 a5 a6
  obtain ⟨x3, h3, in3, s3, t3, u3⟩ := code_run (m + 1) rest (EncodeRune r1) 0 x2 in2 hok
  have hbuf : EncodeRune r1 ++ List.replicate 0 0x60 ++ stringOfRunes rest =
      stringOfRunes (r1 :: rest) := by
    simp [stringOfRunes]
  rw [hbuf] at in3
  -- the closing run
  obtain ⟨y, h4, in4, s4, t4, u4⟩ := close_run (m + 1) m _ x3 in3
  have hall : feedInline captureStream
      (List.replicate (m + 1) 0x60 ++ (r1 :: rest) ++ List.replicate (m + 1) 0x60) x =
      (Res.ok (), y) := by
    rw [List.append_assoc, feedInline_append _ _ _ _ _ h1, List.cons_append,
      feedInline_cons _ _ _ _ _ h2, feedInline_append _ _ _ _ _ h3]
    exact h4
  have hst : y.st = x.st ++ x.p.immediateSpaces.map (runeEvent x.p.flushPendingDelims) := by
    rw [s4, s3, s2, s1, f2]
  have hstyles : y.p.styles = x.p.styles := by rw [t4, t3, t2, a7]; exact hsty0
  have hbytes : y.p.lineBytes = x.p.lineBytes := by
    rw [u4, u3, u2, b7]
    show x.p.flushPendingDelims.lineBytes = x.p.lineBytes
    rw [flushPendingDelims_shape x.p]
  obtain ⟨hf, hl, hc, hcode, hs, hfence, hcb, hpend⟩ := in4
  refine ⟨y, hall, hst, ⟨hf, hl, hc, hcode, hs, hfence, hcb, hpend⟩, ?_, ?_, ?_, ?_⟩
  · refine ⟨_, flushPendingBackticks_close y hc hcode (by rw [hpend, hfence])
      (by rw [hfence]; omega), ?_, rfl⟩
    show y.st ++ codeSpanEvents y.p y.p.inline.codeBuf = _
    rw [hcb, codeSpanEvents_styles x.p y.p _ hstyles]
  · obtain ⟨z, e1, e2, e3⟩ := finalizeFlushes_close y hf hc hcode (by rw [hpend, hfence])
      (by rw [hfence]; omega)
    refine ⟨z, e1, ?_, e3⟩
    rw [e2, hcb, codeSpanEvents_styles x.p y.p _ hstyles]
  · intro hb
    obtain ⟨z, e1, e2, e3⟩ := feedRuneNewline_close y hf hl (by rw [hbytes]; exact hb) hc hcode
      (by rw [hpend, hfence]) (by rw [hfence]; omega)
    refine ⟨z, e1, ?_, e3⟩
    rw [e2, hcb, codeSpanEvents_styles x.p y.p _ hstyles]
  · intro r hr
    obtain ⟨z, tail, e1, e2, e3, e4⟩ := emitInline_close y r hr hf hl hc hcode
      (by rw [hpend, hfence]) (by rw [hfence]; omega) hs
    refine ⟨z, tail, e1, ?_, ?_, e4⟩
    · rw [e2, hcb, codeSpanEvents_styles x.p y.p _ hstyles]
    · rcases e3 with e | e
      · exact Or.inl e
      · right
        rw [e]
        unfold runeEvent
        rw [inlineStyle_text _ rfl]
        exact ⟨_, rfl⟩

theorem C27_code_span_input_witness :
    ∃ y : PState (List Event),
      feedInline captureStream (List.replicate 2 0x60 ++ (97 :: [96, 98]) ++ List.replicate 2 0x60)
          { p := { zeroLiveParser with lineDecided := true, styles := markedStyles,
                                       immediateSpaces := [32], lineBytes := [120, 32] },
            st := [] } = (Res.ok (), y) ∧
      y.st = [Event.token (textTok [32] ⟨[]⟩)] ∧
      (∃ z : PState (List Event),
        flushPendingBackticks captureStream y = (Res.ok (), z) ∧
        z.st = [Event.token (textTok [32] ⟨[]⟩),
                Event.token { Text := [97, 96, 98], Style := ⟨[67]⟩, Kind := tokenCode,
                              CodeBlock := false }]) ∧
      ∃ z : PState (List Event),
        feedRuneNewline captureStream y = (Res.ok (), z) ∧
        z.st = [Event.token (textTok [32] ⟨[]⟩),
                Event.token { Text := [97, 96, 98], Style := ⟨[67]⟩, Kind := tokenCode,
                              CodeBlock := false }] := by
  obtain ⟨y, h1, h2, _, ⟨z, h4, h5, _⟩, _, h7, _⟩ := C27_code_span_input
    { p := { zeroLiveParser with lineDecided := true, styles := markedStyles,
                                 immediateSpaces := [32], lineBytes := [120, 32] },
      st := [] }
    2 97 [96, 98] (by decide) rfl (by simp [inlineIdle, zeroLiveParser]) (Or.inl rfl)
    (by decide) (by decide)
  obtain ⟨w, g1, g2, _⟩ := h7 (by decide)
  have h2a : y.st = [Event.token (textTok [32] ⟨[]⟩)] := h2.trans (by decide)
  refine ⟨y, h1, h2a, ⟨z, h4, ?_⟩, w, g1, ?_⟩
  · rw [h5, h2a]
    decide
  · rw [g2, h2a]
    decide

/-! ### The output of the sink after `Flush` -/

theorem Quiet.empty (P : List (List Nat)) : Quiet P [] := ⟨[], rfl, fun _ h => by simp at h⟩

theorem Quiet.concat {P : List (List Nat)} {a b : List Nat} (ha : Quiet P a) (hb : Quiet P b) :
    Quiet P (a ++ b) := by
  obtain ⟨pa, rfl, h1⟩ := ha
  obtain ⟨pb, rfl, h2⟩ := hb
  refine ⟨pa ++ pb, by simp, fun p hp => ?_⟩
  rcases List.mem_append.mp hp with h | h
  · exact h1 p h
  · exact h2 p h

theorem Quiet.piece {P : List (List Nat)} {p : List Nat} (h : p ∈ P) : Quiet P p :=
  ⟨[p], by simp, fun q hq => by
    rw [List.mem_singleton.mp hq]; exact Or.inl h⟩

theorem Quiet.bytes {P : List (List Nat)} {t : List Nat} (h : ∀ b ∈ t, quietByte b) :
    Quiet P t :=
  ⟨t.map (fun b => [b]), by simp [List.flatten_eq_flatMap, List.flatMap_map], fun p hp => by
    obtain ⟨b, hb, rfl⟩ := List.mem_map.mp hp
    exact Or.inr ⟨b, rfl, h b hb⟩⟩

theorem QuietEnd.start (P : List (List Nat)) : QuietEnd P [] :=
  ⟨[], [], rfl, Or.inl rfl, Quiet.empty P⟩

theorem QuietEnd.extend {P : List (List Nat)} {out t : List Nat} (h : QuietEnd P out)
    (ht : Quiet P t) : QuietEnd P (out ++ t) := by
  obtain ⟨pre, tail, rfl, hp, hq⟩ := h
  exact ⟨pre, tail ++ t, by simp, hp, hq.concat ht⟩

theorem QuietEnd.newline (P : List (List Nat)) (out : List Nat)
    (h : out.getLast? = some 10) : QuietEnd P out :=
  ⟨out, [], by simp, Or.inr h, Quiet.empty P⟩

theorem trim_single (l : List Nat) (x : Nat)
    (h1 : (TrimRight (TrimLeft l [32]) [32]).length = 1)
    (h2 : (TrimRight (TrimLeft l [32]) [32]).getD 0 0 = x) :
    ∀ b ∈ l, b = 32 ∨ b = x := by
  have hc : ∀ b : Nat, ([32] : List Nat).contains b = true ↔ b = 32 := by
    intro b; simp
  have hl : l = l.takeWhile (fun b => ([32] : List Nat).contains b) ++ TrimLeft l [32] := by
    unfold TrimLeft; exact (List.takeWhile_append_dropWhile _ _).symm
  have hd : (TrimLeft l [32]).reverse =
      (TrimLeft l [32]).reverse.takeWhile (fun b => ([32] : List Nat).contains b) ++
        (TrimRight (TrimLeft l [32]) [32]).reverse := by
    unfold TrimRight
    rw [List.reverse_reverse]
    exact (List.takeWhile_append_dropWhile _ _).symm
  obtain ⟨y, hy⟩ : ∃ y, TrimRight (TrimLeft l [32]) [32] = [y] := by
    match hm : TrimRight (TrimLeft l [32]) [32], h1 with
    | [y], _ => exact ⟨y, rfl⟩
  rw [hy] at h2 hd
  simp at h2
  subst h2
  intro b hb
  rw [hl] at hb
  rcases List.mem_append.mp hb with h | h
  · exact Or.inl ((hc b).mp (List.mem_takeWhile_imp h))
  · have h' : b ∈ (TrimLeft l [32]).reverse := List.mem_reverse.mpr h
    rw [hd] at h'
    rcases List.mem_append.mp h' with h3 | h3
    · exact Or.inl ((hc b).mp (List.mem_takeWhile_imp h3))
    · simp at h3
      exact Or.inr h3

theorem spaceRun_bytes (n : Nat) : ∀ b ∈ spaceRun n, b = 32 ∨ b = 0x3E := by
  intro b hb
  unfold spaceRun at hb
  exact Or.inl (List.eq_of_mem_replicate hb)

theorem maybeSetWrapIndent_bytes (s : StreamRenderer)
    (h : ∀ b ∈ s.wrapIndent, b = 32 ∨ b = 0x3E) :
    ∀ b ∈ s.maybeSetWrapIndent.wrapIndent, b = 32 ∨ b = 0x3E := by
  unfold StreamRenderer.maybeSetWrapIndent
  split
  · exact spaceRun_bytes _
  · simp only []
    split_ifs with c1 c2 c3 c4 c5 c6
    all_goals first
      | exact h
      | exact spaceRun_bytes _
      | skip
    intro b hb
    exact trim_single _ 0x3E c5.1 c6 b hb

theorem atomQ_ok {P : List (List Nat)} {a : atom} (h : atomQ P a) : atomOK a := by
  intro hb
  rcases h.2 hb with e | e <;> rw [e] <;> exact ⟨by simp, by decide⟩

theorem QuietStep.stay (P : List (List Nat)) (s : StreamRenderer) : QuietStep P s s :=
  ⟨rfl, rfl, rfl, [], by simp, Quiet.empty P⟩

theorem QPart.step {P : List (List Nat)} {s s1 : StreamRenderer} (q : QPart P s)
    (h : QuietStep P s s1) : QPart P s1 := by
  obtain ⟨h1, h2, h3, X, hX, hq⟩ := h
  refine ⟨fun hf => ?_, by rw [h3]; exact q.2.1, by rw [h1]; exact q.2.2⟩
  rw [hX]
  exact (q.1 (h2 ▸ hf)).extend hq

theorem QPart.sameOut {P : List (List Nat)} {s s1 : StreamRenderer} (q : QPart P s)
    (hw : s1.w = s.w) (hl : s1.lastWasNewline = s.lastWasNewline)
    (hi : s1.wrapIndent = s.wrapIndent) (hn : s1.nbspBuf = s.nbspBuf) : QPart P s1 := by
  unfold QPart at *
  rw [hw, hl, hi, hn]; exact q

theorem resetStyle_quiet (P : List (List Nat)) (hP : ansiReset ∈ P) (s : StreamRenderer)
    (hf : s.w.failing = false) : QuietStep P s s.resetStyle := by
  unfold StreamRenderer.resetStyle
  split_ifs
  · exact ⟨rfl, rfl, rfl, ansiReset, by simp [WriteString_ok _ _ hf], Quiet.piece hP⟩
  · exact QuietStep.stay P s

theorem switchStyle_quiet (P : List (List Nat)) (hP : ansiReset ∈ P) (s : StreamRenderer)
    (p : List Nat) (hp : p ∈ P) (hf : s.w.failing = false) :
    QuietStep P s (s.switchStyle p) := by
  unfold StreamRenderer.switchStyle
  simp only []
  by_cases h1 : p ≠ s.style
  · rw [if_pos h1]
    by_cases h2 : s.style ≠ [] <;> by_cases h3 : p ≠ []
    all_goals
      simp only [h2, h3, if_true, if_false, WriteString_ok _ _ hf, ne_eq, not_true_eq_false,
        not_false_eq_true]
    · exact ⟨rfl, rfl, rfl, ansiReset ++ p, by simp [Writer.WriteString, hf],
        (Quiet.piece hP).concat (Quiet.piece hp)⟩
    · exact ⟨rfl, rfl, rfl, ansiReset, by simp, Quiet.piece hP⟩
    · exact ⟨rfl, rfl, rfl, p, by simp [WriteString_ok _ _ hf], Quiet.piece hp⟩
    · exact ⟨rfl, rfl, rfl, [], by simp, Quiet.empty P⟩
  · rw [if_neg h1]
    exact QuietStep.stay P s

theorem getLast_of_suffix (X t : List Nat) (h : HasSuffix t [10] = true) :
    (X ++ t).getLast? = some 10 := by
  unfold HasSuffix at h
  obtain ⟨u, rfl⟩ := List.isSuffixOf_iff_suffix.mp h
  simp

theorem switchStyle_wrapIndent (s : StreamRenderer) (p : List Nat) :
    (s.switchStyle p).wrapIndent = s.wrapIndent := by
  unfold StreamRenderer.switchStyle
  simp only []
  split_ifs <;> rfl

theorem resetStyle_wrapIndent (s : StreamRenderer) :
    s.resetStyle.wrapIndent = s.wrapIndent := by
  unfold StreamRenderer.resetStyle
  split_ifs <;> rfl

theorem notePrefix_bytes (s : StreamRenderer) (t : List Nat)
    (h : ∀ b ∈ s.wrapIndent, b = 32 ∨ b = 0x3E) :
    ∀ b ∈ (s.notePrefix t).wrapIndent, b = 32 ∨ b = 0x3E := by
  have h2 := maybeSetWrapIndent_bytes { s with prefixBuf := s.prefixBuf ++ t } h
  unfold StreamRenderer.notePrefix
  simp only []
  split_ifs
  · show ∀ b ∈ (StreamRenderer.resetStyle _).wrapIndent, _
    rw [resetStyle_wrapIndent]; exact h2
  · rw [resetStyle_wrapIndent]; exact h2
  · exact h2
  · exact h2

theorem emitText_q (P : List (List Nat)) (T : Tables) (s : StreamRenderer) (text : List Nat)
    (style : Style) (h : SinkOK s) (q : QPart P s) :
    QPart P (s.emitText T text style).1 := by
  obtain ⟨hf, hl, hn⟩ := h
  unfold StreamRenderer.emitText
  by_cases ht : text = []
  · rw [if_pos ht]; exact q
  · simp only [ht, if_false]
    generalize htx : (if Contains text [0xC2, 0xA0] = true then replaceNBSP text.length text
      else text) = tx
    generalize hs1 : (if ({ s with lastWasNewline := HasSuffix tx [10] } : StreamRenderer).atLineStart = true
      then ({ s with lastWasNewline := HasSuffix tx [10] } : StreamRenderer).notePrefix tx
      else { s with lastWasNewline := HasSuffix tx [10] }) = s1
    have h1 : s1.w.failing = false ∧ s1.nbspBuf = s.nbspBuf ∧
        s1.lastWasNewline = HasSuffix tx [10] ∧ ∀ b ∈ s1.wrapIndent, b = 32 ∨ b = 0x3E := by
      rw [← hs1]; split_ifs
      · obtain ⟨a, b, c⟩ := notePrefix_frame { s with lastWasNewline := HasSuffix tx [10] } tx
        exact ⟨a.trans hf, b, c, notePrefix_bytes _ tx q.2.1⟩
      · exact ⟨hf, rfl, rfl, q.2.1⟩
    obtain ⟨a, b, c⟩ := switchStyle_frame s1 style.Prefix
    have hf2 : (s1.switchStyle style.Prefix).w.failing = false := a.trans h1.1
    simp only [WriteString_ok _ _ hf2]
    refine ⟨?_, ?_, ?_⟩
    · intro h10
      simp only [c, h1.2.2.1] at h10
      exact QuietEnd.newline P _ (getLast_of_suffix _ tx h10)
    · simp only [switchStyle_wrapIndent]; exact h1.2.2.2
    · simp only [b, h1.2.1]; exact q.2.2

theorem emitRune_q (P : List (List Nat)) (T : Tables) (s : StreamRenderer) (r : Nat)
    (style : Style) (h : SinkOK s) (q : QPart P s) : QPart P (s.emitRune T r style).1 := by
  unfold StreamRenderer.emitRune
  split_ifs <;> exact emitText_q P T s _ style h q

theorem newline_q (P : List (List Nat)) (s : StreamRenderer) (b : Bool) (h : SinkOK s)
    (q : QPart P s) : QPart P (s.newline b) := by
  obtain ⟨hf, hl, hn⟩ := h
  obtain ⟨k1, k2, k3, _⟩ := resetStyle_keeps s
  have hw := resetStyle_wrapIndent s
  unfold StreamRenderer.newline
  cases b
  · simp only [Bool.false_eq_true, if_false]
    refine ⟨fun _ => ?_, q.2.1, q.2.2⟩
    show QuietEnd P (s.w.WriteString [10]).1.out
    rw [WriteString_ok _ _ hf]
    exact QuietEnd.newline P _ (by simp)
  · simp only [if_true]
    refine ⟨fun _ => ?_, fun b hb => by simp at hb, by rw [k2]; exact q.2.2⟩
    show QuietEnd P (s.resetStyle.w.WriteString [10]).1.out
    rw [WriteString_ok _ _ (k1.trans hf)]
    exact QuietEnd.newline P _ (by simp)

theorem wrapNewline_q (P : List (List Nat)) (hP : ansiReset ∈ P) (T : Tables)
    (s : StreamRenderer) (h : SinkOK s) (q : QPart P s) : QPart P (s.wrapNewline T) := by
  have h1 := resetStyle_ok s h
  have q1 := q.step (resetStyle_quiet P hP s h.1)
  have h2 := (newline_ok s.resetStyle false h1).1
  have q2 := newline_q P s.resetStyle false h1 q1
  unfold StreamRenderer.wrapNewline StreamRenderer.emitIndent
  split_ifs
  · exact q2
  · refine q2.step ⟨rfl, rfl, rfl, (s.resetStyle.newline false).wrapIndent, ?_, ?_⟩
    · show ((s.resetStyle.newline false).w.WriteString _).1.out = _
      rw [WriteString_ok _ _ h2.1]
    · exact Quiet.bytes (fun b hb => by
        rcases q2.2.1 b hb with e | e
        · exact Or.inl e
        · exact Or.inr (Or.inr e))

theorem emitAtoms_q (P : List (List Nat)) (T : Tables) (atoms : List StreamToken)
    (s : StreamRenderer) (h : SinkOK s) (q : QPart P s) : QPart P (s.emitAtoms T atoms).1 := by
  induction atoms generalizing s with
  | nil => exact q
  | cons a rest ih =>
    obtain ⟨e1, e2⟩ := emitText_ok T s a.Text a.Style h
    simp only [StreamRenderer.emitAtoms, e1]
    exact ih _ e2 (emitText_q P T s _ _ h q)

theorem emitRunes_q (P : List (List Nat)) (T : Tables) (style : Style) (rs : List Nat)
    (s : StreamRenderer) (h : SinkOK s) (q : QPart P s) : QPart P (s.emitRunes T style rs) := by
  induction rs generalizing s with
  | nil => exact q
  | cons r rest ih =>
    simp only [StreamRenderer.emitRunes]
    exact ih _ (emitRune_ok T s r style h).2 (emitRune_q P T s r style h q)

theorem emitTimedText_q (P : List (List Nat)) (T : Tables) (s : StreamRenderer)
    (text : List Nat) (style : Style) (h : SinkOK s) (q : QPart P s) :
    QPart P (s.emitTimedText T text style) := by
  unfold StreamRenderer.emitTimedText
  split_ifs
  · exact q
  · exact emitRunes_q P T style _ s h q

theorem emitCodeSegment_q (P : List (List Nat)) (T : Tables) (s : StreamRenderer)
    (seg : List Nat) (limit : Int) (style : Style) (h : SinkOK s) (q : QPart P s) :
    QPart P (s.emitCodeSegment T seg limit style) := by
  unfold StreamRenderer.emitCodeSegment
  split_ifs
  · exact q
  · exact emitRunes_q P T style _ s h q
  · exact emitRune_q P T s _ style h q
  · exact emitRune_q P T _ _ style (emitRunes_ok T style _ s h) (emitRunes_q P T style _ s h q)

theorem emitCodeSegments_q (P : List (List Nat)) (hP : ansiReset ∈ P) (T : Tables)
    (limit : Int) (style : Style) (segs : List (List Nat)) (s : StreamRenderer)
    (h : SinkOK s) (q : QPart P s) : QPart P (s.emitCodeSegments T limit style segs) := by
  induction segs generalizing s with
  | nil => exact q
  | cons g rest ih =>
    simp only [StreamRenderer.emitCodeSegments]
    have key : ∀ s1 : StreamRenderer, SinkOK s1 → QPart P s1 →
        QPart P (StreamRenderer.emitCodeSegments T (s1.emitCodeSegment T g limit style) limit
          style rest) := fun s1 h1 q1 =>
      ih _ (emitCodeSegment_ok T s1 g limit style h1) (emitCodeSegment_q P T s1 g limit style h1 q1)
    split_ifs
    · exact key _ (wrapNewline_ok T s h) (wrapNewline_q P hP T s h q)
    · exact key _ h q
    · exact key _ h q

theorem emitTimedCodeSplit_q (P : List (List Nat)) (hP : ansiReset ∈ P) (T : Tables)
    (s : StreamRenderer) (text : List Nat) (style : Style) (limit : Int) (h : SinkOK s)
    (q : QPart P s) : QPart P (s.emitTimedCodeSplit T text style limit) := by
  unfold StreamRenderer.emitTimedCodeSplit
  simp only []
  split_ifs
  · exact q
  · exact q
  · exact emitCodeSegments_q P hP T limit style _ s h q

theorem wordSplitLoop_q (P : List (List Nat)) (hP : ansiReset ∈ P) (T : Tables) (style : Style)
    (limit : Int) (total : Nat) (fuel : Nat) (s : StreamRenderer) (text carry : List Nat)
    (consumed idx : Nat) (h : SinkOK s) (q : QPart P s) :
    QPart P (StreamRenderer.wordSplitLoop T style limit total fuel s text carry consumed
      idx) := by
  induction fuel generalizing s text carry consumed idx with
  | zero => exact q
  | succ n ih =>
    simp only [StreamRenderer.wordSplitLoop]
    have key : ∀ (s1 : StreamRenderer) (rs tx cr : List Nat) (c i : Nat), SinkOK s1 →
        QPart P s1 →
        QPart P (StreamRenderer.wordSplitLoop T style limit total n (s1.emitRunes T style rs)
          tx cr c i) := fun s1 rs tx cr c i h1 q1 =>
      ih _ _ _ _ _ (emitRunes_ok T style rs s1 h1) (emitRunes_q P T style rs s1 h1 q1)
    split_ifs
    all_goals first
      | exact q
      | exact key _ _ _ _ _ _ (wrapNewline_ok T s h) (wrapNewline_q P hP T s h q)
      | exact key _ _ _ _ _ _ h q

theorem emitTimedWordSplit_q (P : List (List Nat)) (hP : ansiReset ∈ P) (T : Tables)
    (s : StreamRenderer) (text : List Nat) (style : Style) (limit : Int) (h : SinkOK s)
    (q : QPart P s) : QPart P (s.emitTimedWordSplit T text style limit) := by
  unfold StreamRenderer.emitTimedWordSplit
  simp only []
  split_ifs
  · exact q
  · exact q
  · exact wordSplitLoop_q P hP T style limit _ _ s _ _ _ _ h q

theorem emitOverlongWord_q (P : List (List Nat)) (hP : ansiReset ∈ P) (T : Tables)
    (s : StreamRenderer) (wordText : List Nat) (pending : wordBuffer) (h : SinkOK s)
    (q : QPart P s) : QPart P (s.emitOverlongWord T wordText pending) := by
  unfold StreamRenderer.emitOverlongWord
  simp only []
  split_ifs
  · exact emitTimedWordSplit_q P hP T s _ _ _ h q
  · split
    · split_ifs
      · exact (emitTimedText_q P T s _ _ h q).sameOut rfl rfl rfl rfl
      · exact (emitTimedText_q P T s _ _ h q).sameOut rfl rfl rfl rfl
    · exact (emitTimedText_q P T s _ _ h q).sameOut rfl rfl rfl rfl
  · exact emitTimedCodeSplit_q P hP T s _ _ _ h q
  · exact emitTimedWordSplit_q P hP T s _ _ _ h q

theorem emitPendingSpaces_q (P : List (List Nat)) (T : Tables) (s : StreamRenderer)
    (h : SinkOK s) (q : QPart P s) : QPart P (s.emitPendingSpaces T) := by
  unfold StreamRenderer.emitPendingSpaces
  split_ifs
  · exact (emitAtoms_q P T _ s h q).sameOut rfl rfl rfl rfl
  · exact q

theorem emitBoundary_q (P : List (List Nat)) (T : Tables) (s : StreamRenderer)
    (b : boundaryKind) (h : SinkOK s) (q : QPart P s) : QPart P (s.emitBoundary T b) := by
  unfold StreamRenderer.emitBoundary
  split
  · exact newline_q P _ true (emitPendingSpaces_ok T s h) (emitPendingSpaces_q P T s h q)
  · exact q

theorem wrapBeforeWord_q (P : List (List Nat)) (hP : ansiReset ∈ P) (T : Tables)
    (s : StreamRenderer) (h : SinkOK s) (q : QPart P s) : QPart P (s.wrapBeforeWord T) := by
  unfold StreamRenderer.wrapBeforeWord
  simp only []
  split_ifs
  · exact (wrapNewline_q P hP T s h q).sameOut rfl rfl rfl rfl
  · exact q
  · exact q

theorem emitWord_q (P : List (List Nat)) (hP : ansiReset ∈ P) (T : Tables)
    (s : StreamRenderer) (h : SinkOK s) (q : QPart P s) : QPart P (s.emitWord T) := by
  unfold StreamRenderer.emitWord
  simp only []
  split_ifs
  · exact emitTimedCodeSplit_q P hP T s _ _ _ h q
  · exact emitOverlongWord_q P hP T s _ _ h q
  · exact emitAtoms_q P T _ s h q

theorem flushWord_q (P : List (List Nat)) (hP : ansiReset ∈ P) (T : Tables)
    (s : StreamRenderer) (b : boundaryKind) (h : SinkOK s) (q : QPart P s) :
    QPart P (s.flushWord T b) := by
  unfold StreamRenderer.flushWord
  simp only []
  split_ifs
  · exact emitBoundary_q P T s b h q
  · have h1 := wrapBeforeWord_ok T s h
    have q1 := wrapBeforeWord_q P hP T s h q
    have h2 := emitPendingSpaces_ok T _ h1
    have q2 := emitPendingSpaces_q P T _ h1 q1
    have h3 := emitWord_ok T _ h2
    have q3 := emitWord_q P hP T _ h2 q2
    exact emitBoundary_q P T _ b (h3.congr rfl rfl rfl) (q3.sameOut rfl rfl rfl rfl)

theorem settlePunctQuote_q (P : List (List Nat)) (hP : ansiReset ∈ P) (T : Tables)
    (s : StreamRenderer) (a : atom) (h : SinkOK s) (q : QPart P s) (ha : atomQ P a) :
    QPart P (s.settlePunctQuote T a).1 ∧ atomQ P (s.settlePunctQuote T a).2 := by
  unfold StreamRenderer.settlePunctQuote
  split_ifs
  · exact ⟨q.sameOut rfl rfl rfl rfl, ha.1, fun hb => by simp at hb⟩
  · exact ⟨(flushWord_q P hP T s _ h q).sameOut rfl rfl rfl rfl, ha⟩
  · exact ⟨q, ha⟩

theorem settleCodeFlush_q (P : List (List Nat)) (hP : ansiReset ∈ P) (T : Tables)
    (s : StreamRenderer) (a : atom) (h : SinkOK s) (q : QPart P s) :
    QPart P (s.settleCodeFlush T a) := by
  unfold StreamRenderer.settleCodeFlush
  split_ifs
  · exact (flushWord_q P hP T s _ h q).sameOut rfl rfl rfl rfl
  · exact q

theorem appendPunct_q (P : List (List Nat)) (hP : ansiReset ∈ P) (T : Tables)
    (s : StreamRenderer) (a : atom) (h : SinkOK s) (q : QPart P s) :
    QPart P (s.appendPunct T a).1 := by
  have hs : SinkOK { s with pending := s.pending.appendAtom T a.tok } := h.congr rfl rfl rfl
  have qs : QPart P { s with pending := s.pending.appendAtom T a.tok } :=
    q.sameOut rfl rfl rfl rfl
  unfold StreamRenderer.appendPunct
  simp only []
  split_ifs
  · exact q.sameOut rfl rfl rfl rfl
  · exact (flushWord_q P hP T _ _ hs qs).sameOut rfl rfl rfl rfl

theorem processPunctText_q (P : List (List Nat)) (hP : ansiReset ∈ P) (T : Tables)
    (s : StreamRenderer) (a : atom) (h : SinkOK s) (q : QPart P s) :
    QPart P (s.processPunctText T a).1 := by
  unfold StreamRenderer.processPunctText
  generalize hs1 : (if s.pending.atoms.length > 0 ∧ s.pending.kind = tokenCode ∧ s.width > 0 ∧
        s.lineWidth > 0 then
      if ((s.lineWidth + spacesWidth T s.pendingSpaces + s.pending.width +
            PrintableRuneWidth T a.tok.Text : Nat) : Int) > s.width then
        { s.wrapNewline T with pendingSpaces := [] }
      else s
    else s) = s1
  have h1 : SinkOK s1 ∧ QPart P s1 := by
    rw [← hs1]
    split_ifs
    · exact ⟨(wrapNewline_ok T s h).congr rfl rfl rfl,
        (wrapNewline_q P hP T s h q).sameOut rfl rfl rfl rfl⟩
    · exact ⟨h, q⟩
    · exact ⟨h, q⟩
  obtain ⟨h1, q1⟩ := h1
  simp only []
  split_ifs
  · exact emitText_q P T _ _ _ (h1.congr rfl rfl rfl) (q1.sameOut rfl rfl rfl rfl)
  · exact emitText_q P T _ _ _ h1 q1
  · exact appendPunct_q P hP T _ a h1 q1
  · exact appendPunct_q P hP T _ a (flushWord_ok T _ _ h1) (flushWord_q P hP T _ _ h1 q1)
  · exact appendPunct_q P hP T _ a h1 q1

theorem maybeSetWrapIndent_q (P : List (List Nat)) (s : StreamRenderer) (q : QPart P s) :
    QPart P s.maybeSetWrapIndent := by
  have hb := maybeSetWrapIndent_bytes s q.2.1
  obtain ⟨wi, hwi⟩ := maybeSetWrapIndent_eq s
  rw [hwi] at hb ⊢
  exact ⟨q.1, hb, q.2.2⟩

theorem writePrefixSpace_q (P : List (List Nat)) (hP : ansiReset ∈ P) (T : Tables)
    (s : StreamRenderer) (a : atom) (h : SinkOK s) (q : QPart P s) (ha : atomQ P a)
    (hb : a.boundary = boundarySpace) : QPart P (s.writePrefixSpace T a).1 := by
  obtain ⟨f1, f2, f3⟩ := switchStyle_frame s a.tok.Style.Prefix
  have hf1 : (s.switchStyle a.tok.Style.Prefix).w.failing = false := f1.trans h.1
  have q1 := q.step (switchStyle_quiet P hP s a.tok.Style.Prefix ha.1 h.1)
  have hq : Quiet P a.tok.Text := by
    rcases ha.2 hb with e | e <;> rw [e]
    · exact Quiet.bytes (fun b hb => by simp at hb; exact Or.inl hb)
    · exact Quiet.bytes (fun b hb => by simp at hb; exact Or.inr (Or.inl hb))
  have hY : SinkOK { s.switchStyle a.tok.Style.Prefix with
      w := ((s.switchStyle a.tok.Style.Prefix).w.WriteString a.tok.Text).1,
      lineWidth := (s.switchStyle a.tok.Style.Prefix).lineWidth + PrintableRuneWidth T a.tok.Text,
      prefixBuf := (s.switchStyle a.tok.Style.Prefix).prefixBuf ++ a.tok.Text } := by
    refine ⟨?_, ?_, ?_⟩
    · show ((s.switchStyle _).w.WriteString _).1.failing = false
      rw [WriteString_failing]; exact hf1
    · intro _
      show endsOK ((s.switchStyle _).w.WriteString _).1.out
      rw [WriteString_ok _ _ hf1]
      exact endsOK_append _ _ (endsOK_of_not_suffix _
        (by rcases ha.2 hb with e | e <;> rw [e] <;> simp)
        (by rcases ha.2 hb with e | e <;> rw [e] <;> decide))
    · show ∀ a ∈ (s.switchStyle _).nbspBuf, atomOK a
      rw [f2]; exact h.2.2
  have qY : QPart P { s.switchStyle a.tok.Style.Prefix with
      w := ((s.switchStyle a.tok.Style.Prefix).w.WriteString a.tok.Text).1,
      lineWidth := (s.switchStyle a.tok.Style.Prefix).lineWidth + PrintableRuneWidth T a.tok.Text,
      prefixBuf := (s.switchStyle a.tok.Style.Prefix).prefixBuf ++ a.tok.Text } := by
    refine q1.step ⟨rfl, rfl, rfl, a.tok.Text, ?_, hq⟩
    show ((s.switchStyle _).w.WriteString _).1.out = _
    rw [WriteString_ok _ _ hf1]
  have h2 := maybeSetWrapIndent_ok _ hY
  have q2 := maybeSetWrapIndent_q P _ qY
  have q3 := q2.step (resetStyle_quiet P hP _ h2.1)
  unfold StreamRenderer.writePrefixSpace
  simp only []
  split_ifs
  · exact q3.sameOut rfl rfl rfl rfl
  · exact q3

theorem processSpace_q (P : List (List Nat)) (hP : ansiReset ∈ P) (T : Tables)
    (s : StreamRenderer) (a : atom) (h : SinkOK s) (q : QPart P s) (ha : atomQ P a)
    (hb : a.boundary = boundarySpace) : QPart P (s.processSpace T a).1 := by
  unfold StreamRenderer.processSpace
  have h1 : SinkOK { s.flushWord T boundaryNone with lastWordCode := false } :=
    (flushWord_ok T s _ h).congr rfl rfl rfl
  have q1 : QPart P { s.flushWord T boundaryNone with lastWordCode := false } :=
    (flushWord_q P hP T s _ h q).sameOut rfl rfl rfl rfl
  simp only []
  split_ifs
  · exact q1.sameOut rfl rfl rfl rfl
  · exact writePrefixSpace_q P hP T _ a h1 q1 ha hb
  · exact q1.sameOut rfl rfl rfl rfl

theorem processAtomRaw_q (P : List (List Nat)) (hP : ansiReset ∈ P) (T : Tables)
    (s : StreamRenderer) (a : atom) (h : SinkOK s) (q : QPart P s) (ha : atomQ P a) :
    QPart P (s.processAtomRaw T a).1 := by
  unfold StreamRenderer.processAtomRaw
  obtain ⟨h1, ha1⟩ := settlePunctQuote_ok T s a h (atomQ_ok ha)
  obtain ⟨q1, hq1⟩ := settlePunctQuote_q P hP T s a h q ha
  generalize (s.settlePunctQuote T a) = sa at *
  have h2 := settleCodeFlush_ok T sa.1 sa.2 h1
  have q2 := settleCodeFlush_q P hP T sa.1 sa.2 h1 q1
  simp only []
  generalize (sa.1.settleCodeFlush T sa.2) = s2 at *
  split_ifs with c1 c2 c3 c4 c5 c6
  · exact q2.sameOut rfl rfl rfl rfl
  · exact q2.sameOut rfl rfl rfl rfl
  · exact q2.sameOut rfl rfl rfl rfl
  · exact processPunctText_q P hP T s2 sa.2 h2 q2
  · exact q2.sameOut rfl rfl rfl rfl
  · exact processSpace_q P hP T s2 sa.2 h2 q2 hq1 c6
  · exact emitBoundary_q P T _ _ ((flushWord_ok T s2 _ h2).congr rfl rfl rfl)
      ((flushWord_q P hP T s2 _ h2 q2).sameOut rfl rfl rfl rfl)

theorem processAtomsRaw_q (P : List (List Nat)) (hP : ansiReset ∈ P) (T : Tables)
    (bs : List atom) (s : StreamRenderer) (h : SinkOK s) (q : QPart P s)
    (hb : ∀ b ∈ bs, atomQ P b) : QPart P (s.processAtomsRaw T bs) := by
  induction bs generalizing s with
  | nil => exact q
  | cons b rest ih =>
    simp only [StreamRenderer.processAtomsRaw]
    have hb0 := hb b (List.mem_cons_self _ _)
    exact ih _ (processAtomRaw_ok T s b h (atomQ_ok hb0)).2
      (processAtomRaw_q P hP T s b h q hb0)
      (fun x hx => hb x (List.mem_cons_of_mem _ hx))

theorem flushNBSPBuf_q (P : List (List Nat)) (hP : ansiReset ∈ P) (T : Tables)
    (s : StreamRenderer) (h : SinkOK s) (q : QPart P s) : QPart P (s.flushNBSPBuf T) := by
  unfold StreamRenderer.flushNBSPBuf
  obtain ⟨a, b, _⟩ := processAtomsRaw_q P hP T s.nbspBuf s h q q.2.2
  exact ⟨a, b, fun x hx => by simp at hx⟩

theorem getD_zero_mem {α : Type} (l : List α) (d : α) (h : l ≠ []) : l.getD 0 d ∈ l := by
  cases l with
  | nil => exact absurd rfl h
  | cons x xs => simp

theorem handleNBSPAtom_q (P : List (List Nat)) (hP : ansiReset ∈ P) (T : Tables)
    (s : StreamRenderer) (a : atom) (h : SinkOK s) (q : QPart P s) (ha : atomQ P a) :
    QPart P (s.handleNBSPAtom T a).1 := by
  have hmem : ∀ x ∈ s.nbspBuf ++ [a], atomQ P x := fun x hx => by
    rcases List.mem_append.mp hx with hx | hx
    · exact q.2.2 x hx
    · rw [List.mem_singleton.mp hx]; exact ha
  have happ : SinkOK { s with nbspBuf := s.nbspBuf ++ [a] } :=
    ⟨h.1, h.2.1, fun x hx => atomQ_ok (hmem x hx)⟩
  have qapp : QPart P { s with nbspBuf := s.nbspBuf ++ [a] } := ⟨q.1, q.2.1, hmem⟩
  unfold StreamRenderer.handleNBSPAtom
  simp only []
  split_ifs
  · exact flushNBSPBuf_q P hP T s h q
  · exact q
  · exact qapp
  · exact q
  · exact flushNBSPBuf_q P hP T s h q
  · exact qapp
  · refine processAtomRaw_q P hP T _ _ ?_ ?_ ?_
    · exact ⟨h.1, h.2.1, fun x hx => by simp at hx⟩
    · exact ⟨q.1, q.2.1, fun x hx => by simp at hx⟩
    · exact ⟨(hmem _ (getD_zero_mem _ a (by simp))).1, fun hb => by simp at hb⟩
  · exact flushNBSPBuf_q P hP T _ happ qapp

theorem processAtom_q (P : List (List Nat)) (hP : ansiReset ∈ P) (T : Tables)
    (s : StreamRenderer) (a : atom) (h : SinkOK s) (q : QPart P s) (ha : atomQ P a) :
    QPart P (s.processAtom T a).1 := by
  unfold StreamRenderer.processAtom
  have h1 := handleNBSPAtom_ok T s a h (atomQ_ok ha)
  have q1 := handleNBSPAtom_q P hP T s a h q ha
  simp only []
  split_ifs
  · exact q1
  · exact processAtomRaw_q P hP T _ a h1 q1 ha

theorem flushPending_q (P : List (List Nat)) (hP : ansiReset ∈ P) (T : Tables)
    (s : StreamRenderer) (h : SinkOK s) (q : QPart P s) : QPart P (s.flushPending T) := by
  unfold StreamRenderer.flushPending
  split_ifs
  · exact flushWord_q P hP T s _ h q
  · exact emitPendingSpaces_q P T s h q

theorem writeLinkToken_q (P : List (List Nat)) (hP : ansiReset ∈ P) (hE : osc8End ∈ P)
    (T : Tables) (s : StreamRenderer) (tok : StreamToken)
    (hU : osc8Start ++ tok.LinkURL ++ [0x1B, 0x5C] ∈ P) (h : SinkOK s) (q : QPart P s) :
    QPart P (s.writeLinkToken T tok).1 := by
  unfold StreamRenderer.writeLinkToken
  have h1 := flushPending_ok T s h
  have q1 := flushPending_q P hP T s h q
  simp only []
  split_ifs
  · exact q1
  · refine q1.step ⟨rfl, rfl, rfl, _, ?_, Quiet.piece hU⟩
    show ((s.flushPending T).w.WriteString _).1.out = _
    rw [WriteString_ok _ _ h1.1]
  · exact q1
  · refine q1.step ⟨rfl, rfl, rfl, _, ?_, Quiet.piece hE⟩
    show ((s.flushPending T).w.WriteString _).1.out = _
    rw [WriteString_ok _ _ h1.1]

theorem writeTokenLoop_q (P : List (List Nat)) (hP : ansiReset ∈ P) (T : Tables)
    (tok : StreamToken) (hS : tok.Style.Prefix ∈ P) (per rem : Int) (fuel : Nat)
    (s : StreamRenderer) (text : List Nat) (fst : Bool) (h : SinkOK s) (q : QPart P s) :
    QPart P (StreamRenderer.writeTokenLoop T tok per rem fuel s text fst).1 := by
  induction fuel generalizing s text fst with
  | zero => exact q
  | succ n ih =>
    simp only [StreamRenderer.writeTokenLoop]
    by_cases h0 : text.length = 0
    · rw [if_pos h0]; exact q
    rw [if_neg h0]
    by_cases h1 : (DecodeRune text).1 = RuneError ∧ (DecodeRune text).2 = 1
    · rw [if_pos h1]; exact ih _ _ _ h q
    rw [if_neg h1]
    by_cases h2 : isControlRune (DecodeRune text).1 = true
    · rw [if_pos h2]; exact ih _ _ _ h q
    rw [if_neg h2]
    have key : ∀ (A : atom) (X : List Nat), atomQ P A →
        QPart P (if (s.processAtom T A).2 = true then s.processAtom T A
          else StreamRenderer.writeTokenLoop T tok per rem n (s.processAtom T A).1 X false).1 := by
      intro A X hA
      obtain ⟨e1, e2⟩ := processAtom_ok T s A h (atomQ_ok hA)
      have q2 := processAtom_q P hP T s A h q hA
      rw [if_neg (by rw [e1]; simp)]
      exact ih _ _ _ e2 q2
    apply key
    refine ⟨hS, fun hb => ?_⟩
    have hsp : (DecodeRune text).1 = 32 ∨ (DecodeRune text).1 = 9 := by
      simp only [] at hb
      split_ifs at hb <;> exact classifyBoundary_space T _ _ hb
    have hlt : (DecodeRune text).1 < 128 := by omega
    have htk := DecodeRune_ascii text hlt
    show text.take (DecodeRune text).2 = [32] ∨ text.take (DecodeRune text).2 = [9]
    rw [htk]
    rcases hsp with e | e <;> rw [e] <;> simp

theorem WriteToken_q (P : List (List Nat)) (hP : ansiReset ∈ P) (hE : osc8End ∈ P)
    (T : Tables) (s : StreamRenderer) (tok : StreamToken) (hS : tok.Style.Prefix ∈ P)
    (hU : osc8Start ++ tok.LinkURL ++ [0x1B, 0x5C] ∈ P) (h : SinkOK s) (q : QPart P s) :
    QPart P (s.WriteToken T tok).1 := by
  unfold StreamRenderer.WriteToken
  by_cases h1 : tok.Kind = tokenLinkStart ∨ tok.Kind = tokenLinkEnd
  · rw [if_pos h1]; exact writeLinkToken_q P hP hE T s tok hU h q
  rw [if_neg h1]
  by_cases h2 : tok.Kind = tokenThematicBreak
  · rw [if_pos h2]; exact flushPending_q P hP T s h q
  rw [if_neg h2]
  by_cases h3 : tok.Text = []
  · rw [if_pos h3]; exact q
  rw [if_neg h3]
  have key : ∀ (s1 : StreamRenderer) (per rem : Int), SinkOK s1 → QPart P s1 →
       QPart P (if (StreamRenderer.writeTokenLoop T tok per rem tok.Text.length s1 tok.Text true).2 = true
        then StreamRenderer.writeTokenLoop T tok per rem tok.Text.length s1 tok.Text true
        else
          if tok.Kind = tokenCode ∧ tok.CodeBlock then
            ({ (StreamRenderer.writeTokenLoop T tok per rem tok.Text.length s1 tok.Text
                  true).1.flushWord T boundaryNone with codeFlushPending := false }, false)
          else if tok.Kind = tokenCode then
            ({ (StreamRenderer.writeTokenLoop T tok per rem tok.Text.length s1 tok.Text
                  true).1 with codeFlushPending := true }, false)
          else ((StreamRenderer.writeTokenLoop T tok per rem tok.Text.length s1 tok.Text
                  true).1, false)).1 := by
    intro s1 per rem hs qs
    obtain ⟨e1, e2⟩ := writeTokenLoop_ok T tok per rem tok.Text.length s1 tok.Text true hs
    have q2 := writeTokenLoop_q P hP T tok hS per rem tok.Text.length s1 tok.Text true hs qs
    rw [if_neg (by rw [e1]; simp)]
    split_ifs
    · exact (flushWord_q P hP T _ _ e2 q2).sameOut rfl rfl rfl rfl
    · exact q2.sameOut rfl rfl rfl rfl
    · exact q2
  have hq : SinkOK (if tok.Kind = tokenCode ∧ s.pending.atoms.length > 0 ∧
        s.pending.kind ≠ tokenCode then
        if (!(decide (s.pending.kind = tokenText) && s.pending.endsWithOpenBracket)) = true then
          s.flushWord T boundaryNone
        else s
      else s) ∧ QPart P (if tok.Kind = tokenCode ∧ s.pending.atoms.length > 0 ∧
        s.pending.kind ≠ tokenCode then
        if (!(decide (s.pending.kind = tokenText) && s.pending.endsWithOpenBracket)) = true then
          s.flushWord T boundaryNone
        else s
      else s) := by
    split_ifs
    · exact ⟨flushWord_ok T s _ h, flushWord_q P hP T s _ h q⟩
    · exact ⟨h, q⟩
    · exact ⟨h, q⟩
  exact key _ _ _ hq.1 hq.2

theorem writeTokens_q (P : List (List Nat)) (hP : ansiReset ∈ P) (hE : osc8End ∈ P)
    (T : Tables) (toks : List StreamToken) (s : StreamRenderer)
    (hS : ∀ t ∈ toks, t.Style.Prefix ∈ P)
    (hU : ∀ t ∈ toks, osc8Start ++ t.LinkURL ++ [0x1B, 0x5C] ∈ P)
    (h : SinkOK s) (q : QPart P s) : QPart P (s.writeTokens T toks).1 := by
  induction toks generalizing s with
  | nil => exact q
  | cons t rest ih =>
    obtain ⟨e1, e2⟩ := WriteToken_ok T s t h
    have q2 := WriteToken_q P hP hE T s t (hS t (List.mem_cons_self _ _))
      (hU t (List.mem_cons_self _ _)) h q
    simp only [StreamRenderer.writeTokens, e1]
    exact ih _ (fun x hx => hS x (List.mem_cons_of_mem _ hx))
      (fun x hx => hU x (List.mem_cons_of_mem _ hx)) e2 q2

theorem flushBuffered_q (P : List (List Nat)) (hP : ansiReset ∈ P) (T : Tables)
    (s : StreamRenderer) (h : SinkOK s) (q : QPart P s) : QPart P (s.flushBuffered T) := by
  unfold StreamRenderer.flushBuffered
  simp only []
  have h1 : SinkOK (if s.nbspBuf.length > 0 then s.flushNBSPBuf T else s) ∧
      QPart P (if s.nbspBuf.length > 0 then s.flushNBSPBuf T else s) := by
    split_ifs
    · exact ⟨flushNBSPBuf_ok T s h, flushNBSPBuf_q P hP T s h q⟩
    · exact ⟨h, q⟩
  generalize (if s.nbspBuf.length > 0 then s.flushNBSPBuf T else s) = s1 at h1 ⊢
  obtain ⟨h1, q1⟩ := h1
  split_ifs
  · exact flushPending_q P hP T _ ((flushWord_ok T _ _ h1).congr rfl rfl rfl)
      ((flushWord_q P hP T _ _ h1 q1).sameOut rfl rfl rfl rfl)
  · exact flushPending_q P hP T _ h1 q1

theorem NewStreamRenderer_q (P : List (List Nat)) (width : Int) (cfg : renderConfig) :
    QPart P (NewStreamRenderer { out := [], failing := false } width cfg) :=
  ⟨fun _ => QuietEnd.start P,
    fun b hb => by simp [NewStreamRenderer, StreamRenderer.resetWithConfig] at hb,
    fun a ha => by simp [NewStreamRenderer, StreamRenderer.resetWithConfig] at ha⟩

theorem quietPieces_reset (toks : List StreamToken) : ansiReset ∈ quietPieces toks := by
  simp [quietPieces]

theorem quietPieces_osc8End (toks : List StreamToken) : osc8End ∈ quietPieces toks := by
  simp [quietPieces]

theorem quietPieces_style (toks : List StreamToken) :
    ∀ t ∈ toks, t.Style.Prefix ∈ quietPieces toks := by
  intro t ht
  simp only [quietPieces, List.mem_cons, List.mem_append, List.mem_map]
  exact Or.inr (Or.inr (Or.inl ⟨t, ht, rfl⟩))

theorem quietPieces_link (toks : List StreamToken) :
    ∀ t ∈ toks, osc8Start ++ t.LinkURL ++ [0x1B, 0x5C] ∈ quietPieces toks := by
  intro t ht
  simp only [quietPieces, List.mem_cons, List.mem_append, List.mem_map]
  exact Or.inr (Or.inr (Or.inr ⟨t, ht, rfl⟩))

theorem Flush_quiet (P : List (List Nat)) (hP : ansiReset ∈ P) (T : Tables)
    (s : StreamRenderer) (h : SinkOK s) (q : QPart P s) :
    (s.Flush T).2 = false ∧ (s.Flush T).1.style = [] ∧
    QuietEnd P (s.Flush T).1.w.out ∧
    (((s.Flush T).1.w.out = (s.flushBuffered T).w.out ++
        (if (s.flushBuffered T).style = [] then [] else ansiReset) ++ [10] ∧
      endsOK (s.flushBuffered T).w.out ∧
      endsOK ((s.flushBuffered T).w.out ++
        (if (s.flushBuffered T).style = [] then [] else ansiReset))) ∨
     ((s.Flush T).1.w.out = (s.flushBuffered T).w.out ++
        (if (s.flushBuffered T).style = [] then [] else ansiReset) ∧
      QuietEnd P (s.flushBuffered T).w.out)) := by
  obtain ⟨f1, f2, _, f4, f5⟩ := Flush_of_ok T s h
  have qm := flushBuffered_q P hP T s h q
  refine ⟨f1, f2, ?_⟩
  rw [f4]
  have hR : Quiet P (if (s.flushBuffered T).style = [] then [] else ansiReset) := by
    split_ifs
    · exact Quiet.empty P
    · exact Quiet.piece hP
  cases hfl : (s.flushBuffered T).lastWasNewline with
  | false =>
    simp only [Bool.false_eq_true, if_false]
    refine ⟨QuietEnd.newline P _ (by simp), Or.inl ⟨trivial, f5 hfl, ?_⟩⟩
    split_ifs
    · rw [List.append_nil]; exact f5 hfl
    · exact endsOK_append _ _ endsOK_ansiReset
  | true =>
    simp only [if_true, List.append_nil]
    exact ⟨(qm.1 hfl).extend hR, Or.inr ⟨trivial, qm.1 hfl⟩⟩

/-- C7 (amended): for every sequence of `WriteToken` calls on a new sink over a
working writer, no call fails, and `Flush` returns no error and leaves the
style register empty.  The output after `Flush` is a part that is empty or ends
in a newline, followed only by spaces, tabs, `>` bytes, reset sequences, OSC 8
link sequences and style prefixes of the tokens: a line that holds anything
else is ended by a newline.  To what the buffered word and spaces produced
(`flushBuffered`) `Flush` appends the reset sequence when a style was active,
and then either one newline, the output before it (without and with the reset
sequence) being not empty and not ending in a newline, so that the output ends
with exactly one newline, or nothing, the output before it being already of
the shape just described. -/
theorem C7_flush_output (T : Tables) (width : Int) (cfg : renderConfig)
    (toks : List StreamToken) :
    ((NewStreamRenderer { out := [], failing := false } width cfg).writeTokens T toks).2 = false ∧
    (((NewStreamRenderer { out := [], failing := false } width cfg).writeTokens T toks).1.Flush
      T).2 = false ∧
    (((NewStreamRenderer { out := [], failing := false } width cfg).writeTokens T toks).1.Flush
      T).1.style = [] ∧
    QuietEnd (quietPieces toks)
      (((NewStreamRenderer { out := [], failing := false } width cfg).writeTokens T
        toks).1.Flush T).1.w.out ∧
    (((((NewStreamRenderer { out := [], failing := false } width cfg).writeTokens T
        toks).1.Flush T).1.w.out =
        (((NewStreamRenderer { out := [], failing := false } width cfg).writeTokens T
          toks).1.flushBuffered T).w.out ++
        (if (((NewStreamRenderer { out := [], failing := false } width cfg).writeTokens T
          toks).1.flushBuffered T).style = [] then [] else ansiReset) ++ [10] ∧
      endsOK (((NewStreamRenderer { out := [], failing := false } width cfg).writeTokens T
          toks).1.flushBuffered T).w.out ∧
      endsOK ((((NewStreamRenderer { out := [], failing := false } width cfg).writeTokens T
          toks).1.flushBuffered T).w.out ++
        (if (((NewStreamRenderer { out := [], failing := false } width cfg).writeTokens T
          toks).1.flushBuffered T).style = [] then [] else ansiReset))) ∨
     ((((NewStreamRenderer { out := [], failing := false } width cfg).writeTokens T
        toks).1.Flush T).1.w.out =
        (((NewStreamRenderer { out := [], failing := false } width cfg).writeTokens T
          toks).1.flushBuffered T).w.out ++
        (if (((NewStreamRenderer { out := [], failing := false } width cfg).writeTokens T
          toks).1.flushBuffered T).style = [] then [] else ansiReset) ∧
      QuietEnd (quietPieces toks)
        (((NewStreamRenderer { out := [], failing := false } width cfg).writeTokens T
          toks).1.flushBuffered T).w.out)) := by
  obtain ⟨e1, e2⟩ := writeTokens_ok T toks _ (NewStreamRenderer_ok [] width cfg)
  have q2 := writeTokens_q (quietPieces toks) (quietPieces_reset toks) (quietPieces_osc8End toks)
    T toks _ (quietPieces_style toks) (quietPieces_link toks)
    (NewStreamRenderer_ok [] width cfg) (NewStreamRenderer_q _ width cfg)
  exact ⟨e1, Flush_quiet _ (quietPieces_reset toks) T _ e2 q2⟩

end Mdf
